import Mathlib

/-!
# BlueprintAssist parameter formatter

A shallow embedding of `FEdGraphParameterFormatter`
(`GraphFormatters/EdGraphParameterFormatter.cpp`).

Conventions of the embedding
* graph nodes and pins are addressed by natural-number indices into the
  tables of `FBAGraph`; a null pointer is `none`;
* `TSet` is a duplicate-free list in insertion order, `TMap` an association
  list, `TQueue` a list with the head at the front;
* node positions are the `int32` fields `NodePosX`, `NodePosY`; in the two
  layout traversals the `float` intermediates of the source are taken exact,
  with whole-number padding and settings; the relative-position cache, the
  helixing placement of `FormatY` and the definitions whose names end in
  `32` compute in the binary32 arithmetic of the source (section "Binary32
  arithmetic");
* loops and recursions whose termination is not structural carry a fuel
  argument.
-/

namespace BlueprintAssist

/-! ## Data model -/

inductive EEdGraphPinDirection where
  | EGPD_Input
  | EGPD_Output
  | EGPD_MAX
  deriving DecidableEq, Repr

export EEdGraphPinDirection (EGPD_Input EGPD_Output EGPD_MAX)

inductive EPinKind where
  | Exec
  | Parameter
  | Delegate
  deriving DecidableEq, Repr

structure UEdGraphPin where
  OwningNode : Nat
  Direction : EEdGraphPinDirection
  Kind : EPinKind
  LinkedTo : List Nat
  OffsetY : Int
  deriving Repr

structure UEdGraphNode where
  Pins : List Nat
  SizeX : Int
  SizeY : Int
  bIsKnot : Bool
  deriving Repr

inductive EBAParameterFormattingStyle where
  | Helixing
  | LeftSide
  deriving DecidableEq, Repr

structure UBASettings where
  PaddingX : Int
  PaddingY : Int
  bCenterBranchesForParameters : Bool
  NumRequiredBranchesForParameters : Int
  ParameterStyle : EBAParameterFormattingStyle
  bLimitHelixingHeight : Bool
  SingleNodeMaxHeight : Int
  HelixingHeightMax : Int
  bExpandParametersByHeight : Bool
  ParameterVerticalPinSpacing : Int

/-- The read-only part of a format call: the node and pin tables, the settings
and the selective-formatting predicate of the graph handler. -/
structure FBAGraph where
  Nodes : List UEdGraphNode
  Pins : List UEdGraphPin
  Settings : UBASettings
  OverrideFormattingStyle : Option EBAParameterFormattingStyle
  FilterSelectiveFormatting : Nat → Bool

def defaultPin : UEdGraphPin :=
  { OwningNode := 0, Direction := EGPD_Input, Kind := EPinKind.Parameter, LinkedTo := [], OffsetY := 0 }

def defaultNode : UEdGraphNode :=
  { Pins := [], SizeX := 0, SizeY := 0, bIsKnot := false }

def FBAGraph.pin (G : FBAGraph) (p : Nat) : UEdGraphPin := G.Pins.getD p defaultPin

def FBAGraph.node (G : FBAGraph) (n : Nat) : UEdGraphNode := G.Nodes.getD n defaultNode

def FBAGraph.OwningNode (G : FBAGraph) (p : Nat) : Nat := (G.pin p).OwningNode

/-- A link between two pins; `Node` is the explicit node of a link without
pins (the root seed of a traversal). -/
structure FPinLink where
  From : Option Nat
  To : Option Nat
  Node : Nat
  deriving Repr

/-- Two links are equal iff their `From` and `To` pins match. -/
def FPinLink.same (a b : FPinLink) : Bool := a.From == b.From && a.To == b.To

def FPinLink.GetNode (G : FBAGraph) (l : FPinLink) : Nat :=
  match l.To with
  | some p => G.OwningNode p
  | none => l.Node

def FPinLink.GetDirection (G : FBAGraph) (l : FPinLink) : EEdGraphPinDirection :=
  match l.To with
  | some p => (G.pin p).Direction
  | none => EGPD_Output

def mkLink (G : FBAGraph) (a b : Nat) : FPinLink := { From := some a, To := some b, Node := G.OwningNode b }

structure FNodeInfo where
  Node : Nat
  Pin : Option Nat
  Parent : Option Nat
  ParentPin : Option Nat
  Direction : EEdGraphPinDirection
  Children : List Nat
  deriving Repr, DecidableEq

/-- The formatter object together with the mutable node positions of the
graph it works on.  `Infos` is the heap of `FNodeInfo` records (shared
pointers of the source are indices into it); `NodeInfoMap` maps a node to
its record; `NodeOffsets` holds the two binary32 components of each cached
`FVector2D`. -/
structure FEdGraphParameterFormatter where
  RootNode : Option Nat
  NodeToKeepStill : Option Nat
  IgnoredNodes : List Nat
  bInitialized : Bool
  bFormatWithHelixing : Bool
  AllFormattedNodes : List Nat
  FormattedInputNodes : List Nat
  FormattedOutputNodes : List Nat
  NodeOffsets : List (Nat × Int × Int)
  SameRowMapping : List (FPinLink × Bool)
  NodeInfoMap : List (Nat × Nat)
  Infos : List FNodeInfo
  NodePosX : Nat → Int
  NodePosY : Nat → Int

/-! ## Containers -/

def setAdd (s : List Nat) (n : Nat) : List Nat := if n ∈ s then s else s ++ [n]

def setAppend (s t : List Nat) : List Nat := t.foldl setAdd s

def mapFind (m : List (Nat × Nat)) (k : Nat) : Option Nat :=
  match m with
  | [] => none
  | (a, b) :: r => if a = k then some b else mapFind r k

def mapContains (m : List (Nat × Nat)) (k : Nat) : Bool := (mapFind m k).isSome

def mapRemove (m : List (Nat × Nat)) (k : Nat) : List (Nat × Nat) := m.filter (fun e => e.1 != k)

def mapAdd (m : List (Nat × Nat)) (k v : Nat) : List (Nat × Nat) := mapRemove m k ++ [(k, v)]

def setPos (f : Nat → Int) (n : Nat) (v : Int) : Nat → Int := fun m => if m = n then v else f m

/-! ## Binary32 arithmetic

The `float` values of the source are IEEE 754 binary32 numbers.  A finite
binary32 value `v` is held as the whole number `v * 2^149` (every finite
binary32 value is a multiple of `2^-149`), so that the order and the sums of
the values are those of the integers; the exponent range is not cut off above
(values of magnitude `2^128` and more, infinite in binary32, do not arise from
`int32` coordinates and finite settings in range). -/

/-- One step of the search for the binade: `k` more low bits are dropped when
at least 24 bits are left. -/
def lostBitsStep (a : Nat) (s k : Nat) : Nat :=
  if 2 ^ 23 ≤ a / 2 ^ (s + k) then s + k else s

/-- The count of low bits by halving, for magnitudes beyond the search. -/
def lostBitsSlow : Nat → Nat → Nat
  | 0, _ => 0
  | fuel + 1, a => if a < 2 ^ 24 then 0 else lostBitsSlow fuel (a / 2) + 1

/-- The number of low bits of the magnitude `a` that a 24-bit significand
cannot hold: `0` below `2^24`, else the `s` with `2^23 ≤ a / 2^s < 2^24`. -/
def lostBits (a : Nat) : Nat :=
  if a / 2 ^ 200 < 2 ^ 79 then [128, 64, 32, 16, 8, 4, 2, 1].foldl (lostBitsStep a) 0
  else lostBitsSlow a a

/-- Rounding of a magnitude to 24 significant bits, to nearest, ties to
even. -/
def roundNat (a : Nat) : Nat :=
  let s := lostBits a
  let q := a / 2 ^ s
  let r := a % 2 ^ s
  if 2 * r > 2 ^ s ∨ (2 * r = 2 ^ s ∧ q % 2 = 1) then (q + 1) * 2 ^ s else q * 2 ^ s

/-- The binary32 value nearest to the exact result `k` of an operation (round
to nearest, ties to even), `k` in multiples of `2^-149`. -/
def roundF32 (k : Int) : Int :=
  if k < 0 then -((roundNat k.natAbs : Nat) : Int) else ((roundNat k.natAbs : Nat) : Int)

/-- The binary32 value `1.0f`. -/
def F32One : Int := ((2 ^ 149 : Nat) : Int)

/-- The conversion `(float)n` of an `int32`. -/
def ofInt32 (n : Int) : Int := roundF32 (n * F32One)

/-- The conversion `(int32)a` of a `float`, which truncates toward zero. -/
def toInt32 (a : Int) : Int := Int.tdiv a F32One

/-- The `float` sum `a + b`. -/
def fadd (a b : Int) : Int := roundF32 (a + b)

/-- The `float` difference `a - b`. -/
def fsub (a b : Int) : Int := roundF32 (a - b)

/-- The value is a binary32 number: rounding leaves it. -/
def IsF32 (a : Int) : Prop := roundF32 a = a

/-! ## Graph queries (`FBAUtils`) -/

/-- Modelled from the spec: `FBAUtils::IsExecPin` (§6 graph queries), the pin
kind is execution flow. -/
def IsExecPin (G : FBAGraph) (p : Nat) : Bool := (G.pin p).Kind == EPinKind.Exec

/-- Modelled from the spec: `FBAUtils::IsParameterPin`, "a non-execution-flow
pin carrying a data value". -/
def IsParameterPin (G : FBAGraph) (p : Nat) : Bool := (G.pin p).Kind == EPinKind.Parameter

/-- Modelled from the spec: `FBAUtils::IsDelegatePin` (§6 graph queries). -/
def IsDelegatePin (G : FBAGraph) (p : Nat) : Bool := (G.pin p).Kind == EPinKind.Delegate

/-- Modelled from the spec: `FBAUtils::IsNodeImpure`, a node with an
execution pin. -/
def IsNodeImpure (G : FBAGraph) (n : Nat) : Bool := (G.node n).Pins.any (IsExecPin G)

/-- Modelled from the spec: `FBAUtils::IsNodePure`, "a node with no execution
pins". -/
def IsNodePure (G : FBAGraph) (n : Nat) : Bool := !(IsNodeImpure G n)

/-- Modelled from the spec: `FBAUtils::IsKnotNode` (§6 graph queries). -/
def IsKnotNode (G : FBAGraph) (n : Nat) : Bool := (G.node n).bIsKnot

/-- Modelled from the spec: `FBAUtils::IsGraphNode`, the pointer is non-null
and names a node of the graph. -/
def IsGraphNode (G : FBAGraph) (n : Option Nat) : Bool :=
  match n with
  | some r => decide (r < G.Nodes.length)
  | none => false

/-- Modelled from the spec: `FBAUtils::GetPinsByDirection`; `EGPD_MAX` selects
both directions. -/
def GetPinsByDirection (G : FBAGraph) (n : Nat) (d : EEdGraphPinDirection) : List Nat :=
  (G.node n).Pins.filter (fun p => d == EGPD_MAX || (G.pin p).Direction == d)

/-- Modelled from the spec: `FBAUtils::GetLinkedPins`, the pins of the node in
the direction that have at least one link. -/
def GetLinkedPins (G : FBAGraph) (n : Nat) (d : EEdGraphPinDirection) : List Nat :=
  (GetPinsByDirection G n d).filter (fun p => !(G.pin p).LinkedTo.isEmpty)

/-- Modelled from the spec: `FBAUtils::GetLinkedToPins`, the pins on the other
end of the node's links in the direction. -/
def GetLinkedToPins (G : FBAGraph) (n : Nat) (d : EEdGraphPinDirection) : List Nat :=
  (GetLinkedPins G n d).flatMap (fun p => (G.pin p).LinkedTo)

/-- Modelled from the spec: `FBAUtils::GetPinLinks`, the links of the node's
pins in the direction, from the node's pin to the linked pin. -/
def GetPinLinks (G : FBAGraph) (n : Nat) (d : EEdGraphPinDirection) : List FPinLink :=
  (GetLinkedPins G n d).flatMap (fun p => (G.pin p).LinkedTo.map (fun q => mkLink G p q))

/-! ## Bounds -/

structure FSlateRect where
  Left : Int
  Top : Int
  Right : Int
  Bottom : Int
  deriving DecidableEq, Repr

/-- Modelled from the spec: `FBAUtils::GetCachedNodeBounds`, "position + size,
size supplied externally". -/
def GetCachedNodeBounds (G : FBAGraph) (S : FEdGraphParameterFormatter) (n : Nat) : FSlateRect :=
  { Left := S.NodePosX n, Top := S.NodePosY n,
    Right := S.NodePosX n + (G.node n).SizeX, Bottom := S.NodePosY n + (G.node n).SizeY }

/-- Modelled from the spec: `FBAUtils::GetCachedNodeBounds`, "position +
size, size supplied externally", with the `float` fields of `FSlateRect`: the
`int32` position is converted, and the far edges are the binary32 sums of the
near edges and the (whole-number) size. -/
def GetCachedNodeBounds32 (G : FBAGraph) (S : FEdGraphParameterFormatter) (n : Nat) : FSlateRect :=
  { Left := ofInt32 (S.NodePosX n), Top := ofInt32 (S.NodePosY n),
    Right := fadd (ofInt32 (S.NodePosX n)) (ofInt32 (G.node n).SizeX),
    Bottom := fadd (ofInt32 (S.NodePosY n)) (ofInt32 (G.node n).SizeY) }

def FSlateRect.union (a b : FSlateRect) : FSlateRect :=
  { Left := min a.Left b.Left, Top := min a.Top b.Top,
    Right := max a.Right b.Right, Bottom := max a.Bottom b.Bottom }

/-- Modelled from the spec: `FBAUtils::GetCachedNodeArrayBounds`, the union of
the nodes' bounds (the zero rectangle for no node). -/
def GetCachedNodeArrayBounds (G : FBAGraph) (S : FEdGraphParameterFormatter) (ns : List Nat) : FSlateRect :=
  match ns with
  | [] => { Left := 0, Top := 0, Right := 0, Bottom := 0 }
  | n :: r => r.foldl (fun acc m => acc.union (GetCachedNodeBounds G S m)) (GetCachedNodeBounds G S n)

/-- Modelled from the spec: `FBAUtils::GetPinPos(...).Y` and
`FBAGraphHandler::GetPinY`, the pin sits at a fixed offset below the top of
its node. -/
def GetPinY (G : FBAGraph) (S : FEdGraphParameterFormatter) (p : Nat) : Int :=
  S.NodePosY (G.OwningNode p) + (G.pin p).OffsetY

/-! ## `FNodeInfo` -/

def defaultInfo : FNodeInfo :=
  { Node := 0, Pin := none, Parent := none, ParentPin := none, Direction := EGPD_Output, Children := [] }

def getInfo (Infos : List FNodeInfo) (i : Nat) : FNodeInfo := Infos.getD i defaultInfo

def modifyInfo (Infos : List FNodeInfo) (i : Nat) (f : FNodeInfo → FNodeInfo) : List FNodeInfo :=
  Infos.modify f i

/-- Modelled from the spec: `FNodeInfo::SetParent`; the record leaves the
children of its old parent and joins "the set of children NodeInfo entries
that chose this node as parent" of the new one. -/
def SetParent (Infos : List FNodeInfo) (i : Nat) (NewParent : Option Nat) (MyPin : Option Nat) : List FNodeInfo :=
  let I1 := match (getInfo Infos i).Parent with
    | some p => modifyInfo Infos p (fun x => { x with Children := x.Children.filter (fun c => c != i) })
    | none => Infos
  let I2 := match NewParent with
    | some p => modifyInfo I1 p (fun x => { x with Children := x.Children ++ [i] })
    | none => I1
  modifyInfo I2 i (fun x => { x with Parent := NewParent, Pin := MyPin })

/-- Modelled from the spec: `FNodeInfo::GetParentNode`, the node of the chosen
parent's record, null for the root. -/
def GetParentNode (Infos : List FNodeInfo) (i : Nat) : Option Nat :=
  (getInfo Infos i).Parent.map (fun p => (getInfo Infos p).Node)

/-- Modelled from the spec: `FNodeInfo::GetChildNodes`, the nodes of the
children records. -/
def GetChildNodes (Infos : List FNodeInfo) (i : Nat) : List Nat :=
  (getInfo Infos i).Children.map (fun c => (getInfo Infos c).Node)

/-- Search of the records below `pending` for the record `self`. -/
def DetectCycleAux (Infos : List FNodeInfo) (self : Nat) : Nat → List Nat → List Nat → Bool
  | 0, _, _ => false
  | _ + 1, [], _ => false
  | fuel + 1, i :: rest, seen =>
    if i ∈ seen then DetectCycleAux Infos self fuel rest seen
    else if self ∈ (getInfo Infos i).Children then true
    else DetectCycleAux Infos self fuel ((getInfo Infos i).Children ++ rest) (i :: seen)

/-- Modelled from the spec: `FNodeInfo::DetectCycle`, called on the candidate
parent's record with the record of the node to place: "verify the candidate
parent is not already a descendant of the node being placed". -/
def DetectCycle (Infos : List FNodeInfo) (self other : Nat) : Bool :=
  DetectCycleAux Infos self (2 * Infos.length * Infos.length + 2) [other] []

/-- The placement of one child record `c` of a moved node `ParentNode` in
`MoveChildren`: a child not yet visited is put against its parent with the
numeric policy of `GetChildX`, in the direction recorded for the child. -/
def MoveChild (G : FBAGraph) (Infos : List FNodeInfo) (ParentNode : Nat)
    (a : (Nat → Int) × List Nat) (c : Nat) : (Nat → Int) × List Nat :=
  let C := (getInfo Infos c).Node
  if C ∈ a.2 then a
  else
    let x := if (getInfo Infos c).Direction = EGPD_Input
      then a.1 ParentNode - (G.node C).SizeX - max 1 G.Settings.PaddingX
      else a.1 ParentNode + (G.node ParentNode).SizeX + max 1 G.Settings.PaddingX
    (setPos a.1 C x, a.2 ++ [C])

/-- Modelled from the spec: `FNodeInfo::MoveChildren`, which propagates the
move of a re-parented node to the nodes below it, each child being placed
against its parent. -/
def MoveChildren (G : FBAGraph) (Infos : List FNodeInfo) :
    Nat → List Nat → (Nat → Int) × List Nat → (Nat → Int) × List Nat
  | 0, _, acc => acc
  | _ + 1, [], acc => acc
  | fuel + 1, i :: rest, acc =>
    let I := getInfo Infos i
    let acc1 := I.Children.foldl (MoveChild G Infos I.Node) acc
    let fresh := I.Children.filter (fun c => decide ((getInfo Infos c).Node ∉ acc.2))
    MoveChildren G Infos fuel (fresh ++ rest) acc1

/-! ## Horizontal placement -/

def GetChildX (G : FBAGraph) (S : FEdGraphParameterFormatter) (Link : FPinLink)
    (Direction : EEdGraphPinDirection) : Int :=
  let Parent := G.OwningNode (Link.From.getD 0)
  let Child := G.OwningNode (Link.To.getD 0)
  let ParentBounds := GetCachedNodeBounds G S Parent
  let ChildBounds := GetCachedNodeBounds G S Child
  if Direction = EGPD_Input then
    ParentBounds.Left - (ChildBounds.Right - ChildBounds.Left) - max 1 G.Settings.PaddingX
  else
    ParentBounds.Right + max 1 G.Settings.PaddingX

/-- The local state of `FormatX`: the formatter, the visited links, the
`TempOutput` array and the two queues. -/
structure FormatXState where
  F : FEdGraphParameterFormatter
  VisitedLinks : List FPinLink
  TempOutput : List Nat
  InputQueue : List FPinLink
  OutputQueue : List FPinLink

def linkVisited (V : List FPinLink) (l : FPinLink) : Bool := V.any (fun v => v.same l)

/-- The body of the two nested enqueue loops of `FormatX` for one pair
`(Pin, LinkedPin)`. -/
def FormatXEnqueue (G : FBAGraph) (CurrentNode : Nat) (st : FormatXState) (Pin LinkedPin : Nat) :
    FormatXState :=
  let S := st.F
  let LinkedNode := G.OwningNode LinkedPin
  if !G.FilterSelectiveFormatting LinkedNode then st
  else if IsNodeImpure G LinkedNode || IsKnotNode G LinkedNode then st
  else
    let CurrentLink := mkLink G Pin LinkedPin
    if linkVisited st.VisitedLinks CurrentLink then st
    else
      let st1 := { st with VisitedLinks := st.VisitedLinks ++ [CurrentLink] }
      let cyc := match mapFind S.NodeInfoMap LinkedNode, mapFind S.NodeInfoMap CurrentNode with
        | some LinkedInfo, some CurrentInfo => DetectCycle S.Infos CurrentInfo LinkedInfo
        | _, _ => false
      if cyc then st1
      else if S.RootNode = some LinkedNode && IsNodeImpure G LinkedNode then st1
      else if LinkedNode ∈ S.IgnoredNodes then st1
      else if (G.pin Pin).Direction = EGPD_Input then
        { st1 with InputQueue := st1.InputQueue ++ [CurrentLink] }
      else
        { st1 with OutputQueue := st1.OutputQueue ++ [CurrentLink] }

/-- The pairs `(Pin, LinkedPin)` the enqueue loops of `FormatX` run over. -/
def FormatXLinks (G : FBAGraph) (S : FEdGraphParameterFormatter) (InitialDirection : EEdGraphPinDirection)
    (CurrentNode : Nat) : List (Nat × Nat) :=
  let bCurrentNodeIsRootAndImpure := S.RootNode = some CurrentNode && IsNodeImpure G CurrentNode
  let LinkedDirection := if bCurrentNodeIsRootAndImpure then InitialDirection else EGPD_MAX
  let LinkedParameterPins := (GetLinkedPins G CurrentNode LinkedDirection).filter
    (fun p => IsParameterPin G p || IsDelegatePin G p)
  LinkedParameterPins.flatMap (fun p => (G.pin p).LinkedTo.map (fun q => (p, q)))

/-- The X coordinate `FormatX` computes for the node of a dequeued link:
`GetChildX` against the parent, or `Helixed` when helixing applies to the
node. -/
def FormatXNewNodePos (G : FBAGraph) (S1 : FEdGraphParameterFormatter) (CurrentPinLink : FPinLink)
    (Helixed : Int) : Int :=
  let CurrentNode := CurrentPinLink.GetNode G
  let ParentDirection := (G.pin (CurrentPinLink.From.getD 0)).Direction
  let bApplyHelixing := S1.bFormatWithHelixing && decide (CurrentNode ∈ S1.FormattedInputNodes)
  if bApplyHelixing then Helixed else GetChildX G S1 CurrentPinLink ParentDirection

/-- The decision `bTakeNewParent` of `FormatX` (lines 380-400) for a node that
already has the record `CurrentInfo`, together with the guards around it. -/
def FormatXTakeNewParent (G : FBAGraph) (S1 : FEdGraphParameterFormatter) (CurrentPinLink : FPinLink)
    (CurrentInfo : Nat) : Bool :=
  let CurrentNode := CurrentPinLink.GetNode G
  let ParentPin := CurrentPinLink.From
  let MyPin := CurrentPinLink.To
  let ParentNode : Option Nat := ParentPin.map G.OwningNode
  let ParentDirection := (G.pin (ParentPin.getD 0)).Direction
  let bApplyHelixing := S1.bFormatWithHelixing && decide (CurrentNode ∈ S1.FormattedInputNodes)
  let NewNodePos := FormatXNewNodePos G S1 CurrentPinLink (S1.NodePosX CurrentNode)
  let bNewLocationIsBetter := (if ParentDirection = EGPD_Input
    then decide (NewNodePos < S1.NodePosX CurrentNode)
    else decide (NewNodePos > S1.NodePosX CurrentNode)) || bApplyHelixing
  let bSameDirection := (getInfo S1.Infos CurrentInfo).Direction == ParentDirection
  let bTakeNewParent := bNewLocationIsBetter && bSameDirection
  ParentPin.isSome && MyPin.isSome && ParentNode != GetParentNode S1.Infos CurrentInfo && bTakeNewParent

def withXInfos (S : FEdGraphParameterFormatter) (X : Nat → Int) (I : List FNodeInfo) :
    FEdGraphParameterFormatter :=
  { S with NodePosX := X, Infos := I }

/-- The branch of `FormatX` for a dequeued node that already has a record
(lines 378-422): when the node takes the new parent it is moved, its record
is re-parented and its children are moved along. -/
def FormatXReparent (G : FBAGraph) (S1 : FEdGraphParameterFormatter) (CurrentPinLink : FPinLink)
    (ParentInfo : Option Nat) (CurrentInfo : Nat) : FEdGraphParameterFormatter :=
  let CurrentNode := CurrentPinLink.GetNode G
  if FormatXTakeNewParent G S1 CurrentPinLink CurrentInfo then
    let NewNodePos := FormatXNewNodePos G S1 CurrentPinLink (S1.NodePosX CurrentNode)
    let X1 := setPos S1.NodePosX CurrentNode NewNodePos
    let Infos1 := SetParent S1.Infos CurrentInfo ParentInfo CurrentPinLink.To
    let X2 := (MoveChildren G Infos1 (Infos1.length + 1) [CurrentInfo] (X1, [])).1
    withXInfos S1 X2 Infos1
  else S1

/-- The bookkeeping of `FormattedInputNodes` and `FormattedOutputNodes` for a
node that gets its record (lines 429-436). -/
def FormatXMarkSide (G : FBAGraph) (InitialDirection : EEdGraphPinDirection)
    (S1 : FEdGraphParameterFormatter) (CurrentPinLink : FPinLink) : FEdGraphParameterFormatter :=
  let CurrentNode := CurrentPinLink.GetNode G
  let ParentNode : Option Nat := CurrentPinLink.From.map G.OwningNode
  let bParentIsRoot := ParentNode.isSome && ParentNode == S1.RootNode
  let bParentIn (l : List Nat) : Bool := match ParentNode with
    | some p => decide (p ∈ l)
    | none => false
  if InitialDirection == EGPD_Input && CurrentPinLink.GetDirection G == EGPD_Input
      && (bParentIn S1.FormattedInputNodes || bParentIsRoot) then
    { S1 with FormattedInputNodes := setAdd S1.FormattedInputNodes CurrentNode }
  else if InitialDirection == EGPD_Output && CurrentPinLink.GetDirection G == EGPD_Output
      && (bParentIn S1.FormattedOutputNodes || bParentIsRoot) then
    { S1 with FormattedOutputNodes := setAdd S1.FormattedOutputNodes CurrentNode }
  else S1

/-- `CurrentNode->NodePosX = NewNodePos; AllFormattedNodes.Add(CurrentNode)`. -/
def withPlaced (S : FEdGraphParameterFormatter) (n : Nat) (x : Int) : FEdGraphParameterFormatter :=
  { S with NodePosX := setPos S.NodePosX n x, AllFormattedNodes := setAdd S.AllFormattedNodes n }

def withFormatted (S : FEdGraphParameterFormatter) (n : Nat) : FEdGraphParameterFormatter :=
  { S with AllFormattedNodes := setAdd S.AllFormattedNodes n }

/-- `new FNodeInfo(CurrentNode, MyPin, ParentInfo, ParentPin, InitialDirection)`. -/
def FormatXNewInfo (G : FBAGraph) (InitialDirection : EEdGraphPinDirection) (CurrentPinLink : FPinLink)
    (ParentInfo : Option Nat) : FNodeInfo :=
  { Node := CurrentPinLink.GetNode G, Pin := CurrentPinLink.To, Parent := ParentInfo,
    ParentPin := CurrentPinLink.From, Direction := InitialDirection, Children := [] }

/-- The record created for a node (line 461) and attached to its parent. -/
def FormatXAddInfo (G : FBAGraph) (InitialDirection : EEdGraphPinDirection)
    (S2 : FEdGraphParameterFormatter) (CurrentPinLink : FPinLink) (ParentInfo : Option Nat) :
    FEdGraphParameterFormatter :=
  let CurrentNode := CurrentPinLink.GetNode G
  let NewNodeInfo := S2.Infos.length
  let Info := FormatXNewInfo G InitialDirection CurrentPinLink ParentInfo
  let Infos2 := SetParent (S2.Infos ++ [Info]) NewNodeInfo ParentInfo CurrentPinLink.To
  { S2 with Infos := Infos2, NodeInfoMap := mapAdd S2.NodeInfoMap CurrentNode NewNodeInfo }

/-- The branch of `FormatX` for a dequeued node without a record (lines
423-474): the node is placed against its parent and gets a record. -/
def FormatXCreate (G : FBAGraph) (InitialDirection : EEdGraphPinDirection)
    (S1 : FEdGraphParameterFormatter) (CurrentPinLink : FPinLink) (ParentInfo : Option Nat) :
    FEdGraphParameterFormatter :=
  let CurrentNode := CurrentPinLink.GetNode G
  let ParentNode : Option Nat := CurrentPinLink.From.map G.OwningNode
  let S2 :=
    if S1.RootNode != some CurrentNode then
      let S1a := FormatXMarkSide G InitialDirection S1 CurrentPinLink
      withPlaced S1a CurrentNode
        (FormatXNewNodePos G S1a CurrentPinLink (S1a.NodePosX (ParentNode.getD 0)))
    else withFormatted S1 CurrentNode
  FormatXAddInfo G InitialDirection S2 CurrentPinLink ParentInfo

def withMap (S : FEdGraphParameterFormatter) (m : List (Nat × Nat)) : FEdGraphParameterFormatter :=
  { S with NodeInfoMap := m }

/-- The part of the body of the `while` loop of `FormatX` that handles the
dequeued link, up to the enqueue loops. -/
def FormatXVisit (G : FBAGraph) (InitialDirection : EEdGraphPinDirection) (st : FormatXState)
    (CurrentPinLink : FPinLink) : FormatXState :=
  let S0 := st.F
  let CurrentNode := CurrentPinLink.GetNode G
  let ParentInfo : Option Nat :=
    CurrentPinLink.From.bind (fun p => mapFind S0.NodeInfoMap (G.OwningNode p))
  let bRemove := mapContains S0.NodeInfoMap CurrentNode && S0.RootNode != some CurrentNode
    && decide (CurrentNode ∈ st.TempOutput) && InitialDirection == EGPD_Input
  let S1 := if bRemove then withMap S0 (mapRemove S0.NodeInfoMap CurrentNode) else S0
  let TempOutput1 := if bRemove then st.TempOutput.filter (fun n => n != CurrentNode) else st.TempOutput
  match mapFind S1.NodeInfoMap CurrentNode with
  | some CurrentInfo =>
    { st with F := FormatXReparent G S1 CurrentPinLink ParentInfo CurrentInfo, TempOutput := TempOutput1 }
  | none =>
    let TempOutput2 := if InitialDirection == EGPD_Output then TempOutput1 ++ [CurrentNode] else TempOutput1
    { st with F := FormatXCreate G InitialDirection S1 CurrentPinLink ParentInfo, TempOutput := TempOutput2 }

/-- One iteration of the `while` loop of `FormatX`: dequeue (from the queue of
the initial direction when it is not empty), visit, enqueue. -/
def FormatXStep (G : FBAGraph) (InitialDirection : EEdGraphPinDirection) (st : FormatXState) :
    FormatXState :=
  let pick : Option (FPinLink × List FPinLink × List FPinLink) :=
    if InitialDirection = EGPD_Input then
      match st.InputQueue, st.OutputQueue with
      | l :: r, o => some (l, r, o)
      | [], l :: r => some (l, [], r)
      | [], [] => none
    else
      match st.OutputQueue, st.InputQueue with
      | l :: r, i => some (l, i, r)
      | [], l :: r => some (l, r, [])
      | [], [] => none
  match pick with
  | none => st
  | some (CurrentPinLink, iq, oq) =>
    let st1 := FormatXVisit G InitialDirection { st with InputQueue := iq, OutputQueue := oq } CurrentPinLink
    let CurrentNode := CurrentPinLink.GetNode G
    (FormatXLinks G st1.F InitialDirection CurrentNode).foldl
      (fun a pq => FormatXEnqueue G CurrentNode a pq.1 pq.2) st1

/-- The `while` loop of `FormatX`; `none` when the fuel runs out before both
queues are empty. -/
def FormatXLoop (G : FBAGraph) (InitialDirection : EEdGraphPinDirection) :
    Nat → FormatXState → Option FormatXState
  | 0, st => if st.InputQueue.isEmpty && st.OutputQueue.isEmpty then some st else none
  | fuel + 1, st =>
    if st.InputQueue.isEmpty && st.OutputQueue.isEmpty then some st
    else FormatXLoop G InitialDirection fuel (FormatXStep G InitialDirection st)

/-- One pass of `FormatX` (the body of the `for` over the initial
directions): the visited links are emptied and the root link is queued. -/
def FormatXPassInit (st : FormatXState) (InitialDirection : EEdGraphPinDirection) : FormatXState :=
  let RootNodeLink : FPinLink := { From := none, To := none, Node := st.F.RootNode.getD 0 }
  if InitialDirection = EGPD_Input then
    { st with VisitedLinks := [], InputQueue := [RootNodeLink], OutputQueue := [] }
  else
    { st with VisitedLinks := [], InputQueue := [], OutputQueue := [RootNodeLink] }

/-- The directed pin links `(Pin, LinkedPin)` of the graph. -/
def pinLinks (G : FBAGraph) : List (Nat × Nat) :=
  (List.range G.Pins.length).flatMap (fun p => (G.pin p).LinkedTo.map (fun q => (p, q)))

/-- The number of directed pin links of the graph. -/
def numPinLinks (G : FBAGraph) : Nat := (pinLinks G).length

def FormatXInit (S : FEdGraphParameterFormatter) : FormatXState :=
  { F := { S with NodeInfoMap := [], Infos := [] }, VisitedLinks := [], TempOutput := [],
    InputQueue := [], OutputQueue := [] }

/-- `FormatX` with an explicit bound on the iterations of each pass. -/
def FormatXFuel (G : FBAGraph) (fuel : Nat) (S : FEdGraphParameterFormatter) : Option FormatXState :=
  (FormatXLoop G EGPD_Output fuel (FormatXPassInit (FormatXInit S) EGPD_Output)).bind
    (fun st => FormatXLoop G EGPD_Input fuel (FormatXPassInit st EGPD_Input))

/-- `FEdGraphParameterFormatter::FormatX`.  A pass dequeues at most one link
more than the graph has directed pin links (`FormatXFuel_terminates`), so the
fall-back value is never taken. -/
def FormatX (G : FBAGraph) (S : FEdGraphParameterFormatter) : FEdGraphParameterFormatter :=
  match FormatXFuel G (numPinLinks G + 1) S with
  | some st => st.F
  | none => S

/-! ## Helixing policy -/

/-- The state of the traversal of `DoesHelixingApply`. -/
structure HelixState where
  VisitedNodes : List Nat
  NodeQueue : List Nat
  GatheredInputNodes : List Nat

/-- The set `LinkedToNodesInput` of `DoesHelixingApply` for the node
`NextNode` (lines 153-164): the pure owners of the parameter pins, not owned
by an ignored node, on the other end of the input links. -/
def LinkedToNodesInput (G : FBAGraph) (S : FEdGraphParameterFormatter) (NextNode : Nat) : List Nat :=
  let Pred := fun p => IsParameterPin G p && !decide (G.OwningNode p ∈ S.IgnoredNodes)
  let LinkedToPinsInput := (GetLinkedToPins G NextNode EGPD_Input).filter Pred
  (LinkedToPinsInput.filter (fun p => IsNodePure G (G.OwningNode p))).foldl
    (fun a p => setAdd a (G.OwningNode p)) []

/-- The set `LinkedToNodesOutput` of `DoesHelixingApply` for the node
`NextNode` (lines 155-174): the owners of the parameter pins, not owned by
an ignored node, on the other end of the output links that are the root or
lie at or left of the root. -/
def LinkedToNodesOutput (G : FBAGraph) (S : FEdGraphParameterFormatter) (Root NextNode : Nat) :
    List Nat :=
  let Pred := fun p => IsParameterPin G p && !decide (G.OwningNode p ∈ S.IgnoredNodes)
  let LinkedToPinsOutput := (GetLinkedToPins G NextNode EGPD_Output).filter Pred
  (LinkedToPinsOutput.filter (fun p =>
    G.OwningNode p == Root || decide (S.NodePosX (G.OwningNode p) ≤ S.NodePosX Root))).foldl
    (fun a p => setAdd a (G.OwningNode p)) []

/-- The body of the loop that adds the linked input nodes to the queue
(lines 187-201). -/
def HelixEnqueue (S : FEdGraphParameterFormatter) (a : HelixState) (n : Nat) : HelixState :=
  if n ∈ a.VisitedNodes then a
  else if n ∈ S.IgnoredNodes then a
  else { a with VisitedNodes := setAdd a.VisitedNodes n, NodeQueue := a.NodeQueue ++ [n] }

/-- The `while` loop of `DoesHelixingApply`: `some none` when a node
disqualifies helixing, `some (some st)` when the queue ran empty, `none` when
the fuel ran out. -/
def DoesHelixingApplyLoop (G : FBAGraph) (S : FEdGraphParameterFormatter) (Root : Nat) :
    Nat → HelixState → Option (Option HelixState)
  | 0, st => if st.NodeQueue.isEmpty then some (some st) else none
  | fuel + 1, st =>
    match st.NodeQueue.getLast? with
    | none => some (some st)
    | some NextNode =>
      if (LinkedToNodesInput G S NextNode).length > 1
          || (LinkedToNodesOutput G S Root NextNode).length > 1 then some none
      else
        let st1 : HelixState :=
          { VisitedNodes := st.VisitedNodes, NodeQueue := st.NodeQueue.dropLast,
            GatheredInputNodes := setAppend st.GatheredInputNodes (LinkedToNodesInput G S NextNode) }
        DoesHelixingApplyLoop G S Root fuel ((LinkedToNodesInput G S NextNode).foldl (HelixEnqueue S) st1)

def DoesHelixingApply (G : FBAGraph) (S : FEdGraphParameterFormatter) : Bool :=
  let FormattingStyleToUse := match G.OverrideFormattingStyle with
    | some o => o
    | none => G.Settings.ParameterStyle
  if FormattingStyleToUse != EBAParameterFormattingStyle.Helixing then false
  else
    let Root := S.RootNode.getD 0
    match DoesHelixingApplyLoop G S Root (G.Pins.length + 1)
        { VisitedNodes := [Root], NodeQueue := [Root], GatheredInputNodes := [] } with
    | none => false
    | some none => false
    | some (some st) =>
      if G.Settings.bLimitHelixingHeight then
        let Others := st.GatheredInputNodes.filter (fun n => n != Root)
        if Others.any (fun n => decide ((G.node n).SizeY > G.Settings.SingleNodeMaxHeight)) then false
        else if (Others.map (fun n => (G.node n).SizeY)).sum > G.Settings.HelixingHeightMax then false
        else true
      else true

/-! ## Row alignment -/

def linkSet (m : List (FPinLink × Bool)) (l : FPinLink) (b : Bool) : List (FPinLink × Bool) :=
  m.filter (fun e => !e.1.same l) ++ [(l, b)]

/-- The state threaded through `ProcessSameRowMapping`: the mapping, the
visited nodes and the `bFirstPin` flag of the running call. -/
structure SameRowState where
  SameRowMapping : List (FPinLink × Bool)
  VisitedNodes : List Nat
  bFirstPin : Bool

/-- The pairs `(MyPin, OtherPin)` in the order of the three nested loops of
`ProcessSameRowMapping`: the input pins of the node before its output pins,
execution pins skipped, each pin with its links in order. -/
def SameRowPairs (G : FBAGraph) (CurrentNode : Nat) : List (Nat × Nat) :=
  ([EGPD_Input, EGPD_Output].flatMap (GetPinsByDirection G CurrentNode)).filter
    (fun p => !IsExecPin G p) |>.flatMap (fun p => (G.pin p).LinkedTo.map (fun q => (p, q)))

/-- The three `continue` guards of the innermost loop (lines 263-276): the
other node is rejected by the filter, is not a child of the current node, or
is visited. -/
def SameRowSkips (G : FBAGraph) (Children : List Nat) (a : SameRowState) (OtherPin : Nat) : Bool :=
  !G.FilterSelectiveFormatting (G.OwningNode OtherPin)
    || !decide (G.OwningNode OtherPin ∈ Children)
    || decide (G.OwningNode OtherPin ∈ a.VisitedNodes)

/-- The condition of line 282 under which the pair is marked. -/
def SameRowMarks (G : FBAGraph) (S : FEdGraphParameterFormatter) (CurrentNode : Nat)
    (ParentPin : Option Nat) (a : SameRowState) (MyPin OtherPin : Nat) : Bool :=
  let OtherNode := G.OwningNode OtherPin
  let bApplyHelixing := S.bFormatWithHelixing && decide (OtherNode ∈ S.FormattedInputNodes)
  let bSameDirectionAsParent := match ParentPin with
    | none => true
    | some pp => (G.pin MyPin).Direction == (G.pin pp).Direction
  a.bFirstPin && bSameDirectionAsParent && !bApplyHelixing && S.RootNode != some CurrentNode

/-- The two `SameRowMapping.Add` of lines 284-285 and `bFirstPin = false`. -/
def SameRowMark (G : FBAGraph) (a : SameRowState) (MyPin OtherPin : Nat) : SameRowState :=
  let M1 := linkSet a.SameRowMapping (mkLink G MyPin OtherPin) true
  let M2 := linkSet M1 (mkLink G OtherPin MyPin) true
  { a with SameRowMapping := M2, bFirstPin := false }

/-- The body of the innermost loop of `ProcessSameRowMapping` for one pair;
`recurse` is the recursive call. -/
def SameRowPair (G : FBAGraph) (S : FEdGraphParameterFormatter)
    (recurse : Nat → Option Nat → Option Nat → List (FPinLink × Bool) × List Nat →
      List (FPinLink × Bool) × List Nat)
    (CurrentNode : Nat) (ParentPin : Option Nat) (Children : List Nat)
    (a : SameRowState) (pq : Nat × Nat) : SameRowState :=
  let MyPin := pq.1
  let OtherPin := pq.2
  let OtherNode := G.OwningNode OtherPin
  if SameRowSkips G Children a OtherPin then a
  else
    let a1 := if SameRowMarks G S CurrentNode ParentPin a MyPin OtherPin
      then SameRowMark G a MyPin OtherPin else a
    let r := recurse OtherNode (some OtherPin) (some MyPin) (a1.SameRowMapping, a1.VisitedNodes)
    { a1 with SameRowMapping := r.1, VisitedNodes := r.2 }

/-- `Children` of `ProcessSameRowMapping`: the child nodes of the record of
the current node. -/
def SameRowChildren (S : FEdGraphParameterFormatter) (CurrentNode : Nat) : List Nat :=
  match mapFind S.NodeInfoMap CurrentNode with
  | some i => GetChildNodes S.Infos i
  | none => []

/-- The loop state at the entry of the loops of a call. -/
def SameRowEnter (CurrentNode : Nat) (acc : List (FPinLink × Bool) × List Nat) : SameRowState :=
  { SameRowMapping := acc.1, VisitedNodes := acc.2 ++ [CurrentNode], bFirstPin := true }

/-- `FEdGraphParameterFormatter::ProcessSameRowMapping`; the result is the
mapping and the visited set, the first argument bounds the depth of the
recursion. -/
def ProcessSameRowMapping (G : FBAGraph) (S : FEdGraphParameterFormatter) :
    Nat → Nat → Option Nat → Option Nat → List (FPinLink × Bool) × List Nat →
    List (FPinLink × Bool) × List Nat
  | 0, _, _, _, acc => acc
  | fuel + 1, CurrentNode, _, ParentPin, acc =>
    if CurrentNode ∈ acc.2 then acc
    else
      let st := (SameRowPairs G CurrentNode).foldl
        (SameRowPair G S (ProcessSameRowMapping G S fuel) CurrentNode ParentPin
          (SameRowChildren S CurrentNode))
        (SameRowEnter CurrentNode acc)
      (st.SameRowMapping, st.VisitedNodes)

/-! ## Vertical placement -/

/-- `FSlateRect::DoRectanglesIntersect` of the engine: rectangles that only
touch do intersect. -/
def DoRectanglesIntersect (A B : FSlateRect) : Bool :=
  !(decide (B.Left > A.Right) || decide (B.Right < A.Left) || decide (B.Top > A.Bottom)
    || decide (B.Bottom < A.Top))

/-- `FSlateRect::ExtendBy` with the margin `(Left, Top, Right, Bottom)`. -/
def FSlateRect.ExtendBy (R : FSlateRect) (l t r b : Int) : FSlateRect :=
  { Left := R.Left - l, Top := R.Top - t, Right := R.Right + r, Bottom := R.Bottom + b }

def withPosY (S : FEdGraphParameterFormatter) (n : Nat) (y : Int) : FEdGraphParameterFormatter :=
  { S with NodePosY := setPos S.NodePosY n y }

def withPosX (S : FEdGraphParameterFormatter) (n : Nat) (x : Int) : FEdGraphParameterFormatter :=
  { S with NodePosX := setPos S.NodePosX n x }

/-- `Node->NodePosX += DeltaX; Node->NodePosY += DeltaY`. -/
def offsetNode (DeltaX DeltaY : Int) (S : FEdGraphParameterFormatter) (Node : Nat) :
    FEdGraphParameterFormatter :=
  withPosY (withPosX S Node (S.NodePosX Node + DeltaX)) Node (S.NodePosY Node + DeltaY)

/-- Modelled from the spec: `FBAUtils::StraightenPin`, which adjusts the Y of
the node of `PinToAlign` "so the two pins align". -/
def StraightenPin (G : FBAGraph) (S : FEdGraphParameterFormatter) (SourcePin PinToAlign : Nat) :
    FEdGraphParameterFormatter :=
  let N := G.OwningNode PinToAlign
  withPosY S N (S.NodePosY N + (GetPinY G S SourcePin - GetPinY G S PinToAlign))

/-- The collision loop of `FormatY` (at most `n` rounds, 100 in the source):
the first visited node whose padded bounds intersect those of the current
node pushes the current node below it. -/
def FormatYCollision (G : FBAGraph) (CurrentNode : Nat) (VisitedNodes : List Nat) :
    Nat → FEdGraphParameterFormatter → FEdGraphParameterFormatter
  | 0, S => S
  | n + 1, S =>
    let PadY := G.Settings.PaddingY
    let MyBounds := GetCachedNodeBounds G S CurrentNode
    match VisitedNodes.find? (fun v => v != CurrentNode &&
        DoRectanglesIntersect (MyBounds.ExtendBy 0 0 0 PadY)
          ((GetCachedNodeBounds G S v).ExtendBy 0 0 0 PadY)) with
    | none => S
    | some v =>
      let OtherBounds := (GetCachedNodeBounds G S v).ExtendBy 0 0 0 PadY
      let Delta := OtherBounds.Bottom - MyBounds.Top
      FormatYCollision G CurrentNode VisitedNodes n
        (withPosY S CurrentNode (S.NodePosY CurrentNode + (Delta + 1)))

structure ChildBranch where
  Pin : Nat
  ParentPin : Nat
  BranchNodes : List Nat
  deriving Repr

/-- The first loop of `CenterBranches`: `Child->NodePosY += Offset` for every
node of every branch, with `Offset = ParentCenter - ChildrenCenter` (the
centres are the averages of the pin heights) and the sum truncated to
`int32`. -/
def CenterOffsetBranches (G : FBAGraph) (S : FEdGraphParameterFormatter)
    (ChildBranches : List ChildBranch) : FEdGraphParameterFormatter :=
  let Num : Int := ChildBranches.length
  let ChildrenSum := (ChildBranches.map (fun b => GetPinY G S b.Pin)).sum
  let ParentSum := (ChildBranches.map (fun b => GetPinY G S b.ParentPin)).sum
  (ChildBranches.flatMap (fun b => b.BranchNodes)).foldl (fun (a : FEdGraphParameterFormatter) c =>
    withPosY a c (Int.tdiv (a.NodePosY c * Num + (ParentSum - ChildrenSum)) Num)) S

/-- The body of the collision loop of `CenterBranches` for one visited
node. -/
def CenterCollide (G : FBAGraph) (S1 : FEdGraphParameterFormatter) (AllNodes : List Nat)
    (B : FSlateRect) (n : Nat) : FSlateRect :=
  if n ∈ AllNodes then B
  else
    let Bounds := (GetCachedNodeBounds G S1 n).ExtendBy 0 G.Settings.PaddingY 0 G.Settings.PaddingY
    if DoRectanglesIntersect Bounds B then
      let OffsetY := Bounds.Bottom - B.Top
      { B with Top := B.Top + OffsetY, Bottom := B.Bottom + OffsetY }
    else B

/-- The collision loop of `CenterBranches`: how far the bounds of the centered
group end below where they started. -/
def CenterDeltaY (G : FBAGraph) (S1 : FEdGraphParameterFormatter) (AllNodes : List Nat)
    (NodesToCollisionCheck : List Nat) : Int :=
  let AllNodesBounds := GetCachedNodeArrayBounds G S1 AllNodes
  let InitialTop := AllNodesBounds.Top
  let Final := NodesToCollisionCheck.foldl (CenterCollide G S1 AllNodes) AllNodesBounds
  Final.Top - InitialTop

def CenterBranches (G : FBAGraph) (S : FEdGraphParameterFormatter) (CurrentNode : Nat)
    (ChildBranches : List ChildBranch) (NodesToCollisionCheck : List Nat) : FEdGraphParameterFormatter :=
  let S1 := CenterOffsetBranches G S ChildBranches
  let AllNodes := ChildBranches.flatMap (fun b => b.BranchNodes) ++ [CurrentNode]
  let DeltaY := CenterDeltaY G S1 AllNodes NodesToCollisionCheck
  if DeltaY != 0 then
    AllNodes.foldl (fun (a : FEdGraphParameterFormatter) n => withPosY a n (a.NodePosY n + DeltaY)) S1
  else S1

/-- The state threaded through the loops of one call of `FormatY`. -/
structure FormatYState where
  F : FEdGraphParameterFormatter
  VisitedNodes : List Nat
  OutChildren : List Nat
  bFirstPin : Bool
  LastLinked : Option Nat
  ChildBranches : List ChildBranch

/-- The placement of the child `OtherPin` before the recursive call (lines
660-669): below the node under helixing, else straightened on `MyPin`.  The
helixing branch is `OtherNode->NodePosY = GetCachedNodeBounds(...).Bottom +
Padding.Y`, a binary32 sum truncated by the assignment to the `int32`
position. -/
def FormatYPlaceChild (G : FBAGraph) (F : FEdGraphParameterFormatter) (MyPin OtherPin : Nat) :
    FEdGraphParameterFormatter :=
  let OtherNode := G.OwningNode OtherPin
  let bApplyHelixing := F.bFormatWithHelixing && decide (OtherNode ∈ F.FormattedInputNodes)
  if bApplyHelixing then
    withPosY F OtherNode (toInt32 (fadd (GetCachedNodeBounds32 G F (G.OwningNode MyPin)).Bottom
      (ofInt32 G.Settings.PaddingY)))
  else StraightenPin G F MyPin OtherPin

/-- The push of a formatted branch below the pin to avoid (lines 688-705). -/
def FormatYAvoidPin (G : FBAGraph) (F2 : FEdGraphParameterFormatter) (Direction : EEdGraphPinDirection)
    (LastLinked : Option Nat) (LocalChildren : List Nat) : FEdGraphParameterFormatter :=
  if !(F2.bFormatWithHelixing && Direction == EGPD_Input) && !LocalChildren.isEmpty then
    match LastLinked with
    | some PinToAvoid =>
      let Bounds := GetCachedNodeArrayBounds G F2 LocalChildren
      let PinPos := GetPinY G F2 PinToAvoid + G.Settings.ParameterVerticalPinSpacing
      let Delta := PinPos - Bounds.Top
      if Delta > 0 then
        LocalChildren.foldl (fun (f : FEdGraphParameterFormatter) c =>
          withPosY f c (f.NodePosY c + Delta)) F2
      else F2
    | none => F2
  else F2

/-- The condition `bChildIsSameRow` of `FormatY`. -/
def FormatYChildIsSameRow (G : FBAGraph) (a : FormatYState) (CurrentNode : Nat) (ParentPin : Option Nat)
    (MyPin OtherPin : Nat) : Bool :=
  let OtherNode := G.OwningNode OtherPin
  let bApplyHelixing := a.F.bFormatWithHelixing && decide (OtherNode ∈ a.F.FormattedInputNodes)
  let bSameDirectionAsParent := match ParentPin with
    | none => true
    | some pp => (G.pin MyPin).Direction == (G.pin pp).Direction
  a.bFirstPin && bSameDirectionAsParent && !bApplyHelixing && a.F.RootNode != some CurrentNode

def mkBranch (Pin ParentPin : Nat) (BranchNodes : List Nat) : ChildBranch :=
  { Pin := Pin, ParentPin := ParentPin, BranchNodes := BranchNodes }

/-- The update of the loop state after the recursive call for a child. -/
def FormatYAfterChild (a : FormatYState) (F3 : FEdGraphParameterFormatter) (Visited LocalChildren : List Nat)
    (bChildIsSameRow : Bool) (OtherPin MyPin : Nat) : FormatYState :=
  { a with F := F3, VisitedNodes := Visited,
           OutChildren := setAppend a.OutChildren LocalChildren,
           bFirstPin := a.bFirstPin && !bChildIsSameRow,
           ChildBranches := a.ChildBranches ++ [mkBranch OtherPin MyPin LocalChildren] }

/-- The body of the innermost loop of `FormatY` for one linked pin `OtherPin`
of `MyPin`; `recurse` is the recursive call of `FormatY`. -/
def FormatYChild (G : FBAGraph)
    (recurse : Nat → Option Nat → Option Nat → Bool →
      FEdGraphParameterFormatter × List Nat × List Nat → FEdGraphParameterFormatter × List Nat × List Nat)
    (CurrentNode : Nat) (ParentPin : Option Nat) (Children : List Nat)
    (Direction : EEdGraphPinDirection) (MyPin : Nat) (a : FormatYState) (OtherPin : Nat) : FormatYState :=
  let OtherNode := G.OwningNode OtherPin
  if decide (OtherNode ∈ a.F.IgnoredNodes) || !G.FilterSelectiveFormatting OtherNode
      || !decide (OtherNode ∈ Children) || decide (OtherNode ∈ a.VisitedNodes) then a
  else
    let F1 := FormatYPlaceChild G a.F MyPin OtherPin
    let bChildIsSameRow := FormatYChildIsSameRow G a CurrentNode ParentPin MyPin OtherPin
    let r := recurse OtherNode (some OtherPin) (some MyPin) bChildIsSameRow (F1, a.VisitedNodes, [])
    let F3 := FormatYAvoidPin G r.1 Direction a.LastLinked r.2.2
    FormatYAfterChild a F3 r.2.1 r.2.2 bChildIsSameRow OtherPin MyPin

/-- The body of the loop of `FormatY` over the pins of one direction. -/
def FormatYPin (G : FBAGraph)
    (recurse : Nat → Option Nat → Option Nat → Bool →
      FEdGraphParameterFormatter × List Nat × List Nat → FEdGraphParameterFormatter × List Nat × List Nat)
    (CurrentNode : Nat) (ParentPin : Option Nat) (Children : List Nat)
    (Direction : EEdGraphPinDirection) (p0 : FormatYState) (MyPin : Nat) : FormatYState :=
  if IsExecPin G MyPin then { p0 with LastLinked := some MyPin }
  else
    let p1 := (G.pin MyPin).LinkedTo.foldl
      (FormatYChild G recurse CurrentNode ParentPin Children Direction MyPin) p0
    if !(G.pin MyPin).LinkedTo.isEmpty then { p1 with LastLinked := some MyPin } else p1

/-- The body of the loop of `FormatY` over the two directions: the pins of
the direction, then the centering of the branches. -/
def FormatYDirection (G : FBAGraph)
    (recurse : Nat → Option Nat → Option Nat → Bool →
      FEdGraphParameterFormatter × List Nat × List Nat → FEdGraphParameterFormatter × List Nat × List Nat)
    (CurrentNode : Nat) (ParentPin : Option Nat) (Children : List Nat)
    (d0 : FormatYState) (Direction : EEdGraphPinDirection) : FormatYState :=
  let d1 := (GetPinsByDirection G CurrentNode Direction).foldl
    (FormatYPin G recurse CurrentNode ParentPin Children Direction)
    { d0 with LastLinked := none, ChildBranches := [] }
  let AllChildren := d1.ChildBranches.flatMap (fun b => b.BranchNodes)
  let ChildBounds := GetCachedNodeArrayBounds G d1.F AllChildren
  let bChildrenTooBig := decide (d1.F.NodePosX CurrentNode < ChildBounds.Right)
  if G.Settings.bCenterBranchesForParameters && Direction == EGPD_Input
      && decide ((d1.ChildBranches.length : Int) ≥ G.Settings.NumRequiredBranchesForParameters)
      && !bChildrenTooBig && IsNodePure G CurrentNode then
    { d1 with F := CenterBranches G d1.F CurrentNode d1.ChildBranches d1.VisitedNodes }
  else d1

/-- The end of `FormatY` (lines 734-737): `if (bSameRow && ParentPin)
StraightenPin(CurrentPin, ParentPin)`. -/
def FormatYFinish (G : FBAGraph) (F : FEdGraphParameterFormatter) (bSameRow : Bool)
    (CurrentPin ParentPin : Option Nat) : FEdGraphParameterFormatter :=
  match bSameRow, CurrentPin, ParentPin with
  | true, some cp, some pp => StraightenPin G F cp pp
  | _, _, _ => F

/-- The body of `FormatY`; `recurse` is the recursive call. -/
def FormatYBody (G : FBAGraph)
    (recurse : Nat → Option Nat → Option Nat → Bool →
      FEdGraphParameterFormatter × List Nat × List Nat → FEdGraphParameterFormatter × List Nat × List Nat)
    (CurrentNode : Nat) (CurrentPin ParentPin : Option Nat) (bSameRow : Bool)
    (acc : FEdGraphParameterFormatter × List Nat × List Nat) :
    FEdGraphParameterFormatter × List Nat × List Nat :=
  let S := acc.1
  let VisitedNodes := acc.2.1
  let OutChildren := acc.2.2
  if CurrentNode ∈ VisitedNodes then acc
  else
    let Children := match mapFind S.NodeInfoMap CurrentNode with
      | some i => GetChildNodes S.Infos i
      | none => []
    let S1 := FormatYCollision G CurrentNode VisitedNodes 100 S
    let st0 : FormatYState :=
      { F := S1, VisitedNodes := setAdd VisitedNodes CurrentNode, OutChildren := OutChildren,
        bFirstPin := true, LastLinked := none, ChildBranches := [] }
    let stEnd := [EGPD_Input, EGPD_Output].foldl
      (FormatYDirection G recurse CurrentNode ParentPin Children) st0
    let OutChildren1 := setAdd stEnd.OutChildren CurrentNode
    (FormatYFinish G stEnd.F bSameRow CurrentPin ParentPin, stEnd.VisitedNodes, OutChildren1)

/-- `FEdGraphParameterFormatter::FormatY`, with a bound on the depth of the
recursion. -/
def FormatY (G : FBAGraph) : Nat → Nat → Option Nat → Option Nat → Bool →
    FEdGraphParameterFormatter × List Nat × List Nat → FEdGraphParameterFormatter × List Nat × List Nat
  | 0 => fun _ _ _ _ acc => acc
  | fuel + 1 => FormatYBody G (FormatY G fuel)

/-! ## Height expansion -/

/-- Modelled from the spec: `FBAUtils::GetNodeTreeWithFilter`, the nodes
reached from `InitialNode` over linked pins accepted by `Pred`; with
`bOnlyInitialDirection` the direction restricts the pins of the initial node
only. -/
def GetNodeTreeWithFilter (G : FBAGraph) (InitialNode : Nat) (Pred : Nat → Bool)
    (Direction : EEdGraphPinDirection) : Nat → List Nat × List Nat → List Nat
  | 0, (Visited, _) => Visited
  | fuel + 1, (Visited, Queue) =>
    match Queue.getLast? with
    | none => Visited
    | some NextNode =>
      let PinDirection := if NextNode != InitialNode then EGPD_MAX else Direction
      let LinkedPins := (GetLinkedToPins G NextNode PinDirection).filter Pred
      let acc := LinkedPins.foldl (fun (a : List Nat × List Nat) p =>
        if G.OwningNode p ∈ a.1 then a else (a.1 ++ [G.OwningNode p], a.2 ++ [G.OwningNode p]))
        (Visited, Queue.dropLast)
      GetNodeTreeWithFilter G InitialNode Pred Direction fuel acc

def ExpandByHeight (G : FBAGraph) (S : FEdGraphParameterFormatter) : FEdGraphParameterFormatter :=
  if S.bFormatWithHelixing then S
  else
    let FormattedNodes := S.AllFormattedNodes
    let FormattedOutputNodesCapture := S.FormattedOutputNodes
    let IsFormatted := fun p => decide (G.OwningNode p ∈ FormattedNodes)
      || decide (G.OwningNode p ∈ FormattedOutputNodesCapture)
    let Root := S.RootNode.getD 0
    let NodesToExpand := setAdd S.FormattedInputNodes Root
    NodesToExpand.foldl (fun (a : FEdGraphParameterFormatter) FormattedNode =>
      let PinLinks := GetPinLinks G FormattedNode EGPD_Input
      let LargestPinDelta := PinLinks.foldl (fun (m : Int) Link =>
        max (GetPinY G a (Link.To.getD 0) - GetPinY G a (Link.From.getD 0)) m) 0
      if LargestPinDelta < 150 then a
      else
        let NodeTree := GetNodeTreeWithFilter G FormattedNode IsFormatted EGPD_Input
          (G.Pins.length + 1) ([FormattedNode], [FormattedNode])
        -- `Node->NodePosX += ExpandX` with `ExpandX = -1 * LargestPinDelta * 0.2f`, truncated
        NodeTree.foldl (fun (b : FEdGraphParameterFormatter) Node =>
          if Node != FormattedNode && Node != Root then
            withPosX b Node (Int.tdiv (b.NodePosX Node * 5 - LargestPinDelta) 5)
          else b) a) S

/-! ## Relative-position cache -/

def offsetsAdd (m : List (Nat × Int × Int)) (k : Nat) (v : Int × Int) : List (Nat × Int × Int) :=
  m.filter (fun e => e.1 != k) ++ [(k, v)]

def GetFormattedNodes (S : FEdGraphParameterFormatter) : List Nat := S.AllFormattedNodes

/-- The body of the loop of `SimpleRelativeFormatting` for one cached entry:
`Node->NodePosX = NodeToKeepStill->NodePosX + Offset.X` and the same for Y,
the sum of the `int32` and the binary32 offset being a binary32 sum that the
assignment truncates. -/
def applyOffset (Keep : Nat) (a : FEdGraphParameterFormatter) (Elem : Nat × Int × Int) :
    FEdGraphParameterFormatter :=
  withPosY (withPosX a Elem.1 (toInt32 (fadd (ofInt32 (a.NodePosX Keep)) Elem.2.1))) Elem.1
    (toInt32 (fadd (ofInt32 (a.NodePosY Keep)) Elem.2.2))

def SimpleRelativeFormatting (S : FEdGraphParameterFormatter) : FEdGraphParameterFormatter :=
  match S.NodeToKeepStill with
  | none => S
  | some Keep => S.NodeOffsets.foldl (applyOffset Keep) S

def withOffsets (S : FEdGraphParameterFormatter) (m : List (Nat × Int × Int)) :
    FEdGraphParameterFormatter :=
  { S with NodeOffsets := m }

/-- The body of the loop of `SaveRelativePositions` for one formatted node:
the `int32` differences are converted to the binary32 components of the
`FVector2D`. -/
def saveOffset (Keep : Nat) (a : FEdGraphParameterFormatter) (Node : Nat) : FEdGraphParameterFormatter :=
  if Node != Keep then
    let RelativePos := (ofInt32 (a.NodePosX Node - a.NodePosX Keep),
      ofInt32 (a.NodePosY Node - a.NodePosY Keep))
    withOffsets a (offsetsAdd a.NodeOffsets Node RelativePos)
  else a

def SaveRelativePositions (S : FEdGraphParameterFormatter) : FEdGraphParameterFormatter :=
  match S.NodeToKeepStill with
  | none => S
  | some Keep => (GetFormattedNodes S).foldl (saveOffset Keep) S

/-! ## Orchestration -/

/-- The constructor: the keep-still node defaults to the root, and a non-null
root is the only formatted node. -/
def FEdGraphParameterFormatter.new (InRootNode InNodeToKeepStill : Option Nat)
    (InIgnoredNodes : List Nat) (PosX PosY : Nat → Int) : FEdGraphParameterFormatter :=
  { RootNode := InRootNode,
    NodeToKeepStill := match InNodeToKeepStill with
      | some k => some k
      | none => InRootNode,
    IgnoredNodes := InIgnoredNodes, bInitialized := false, bFormatWithHelixing := false,
    AllFormattedNodes := match InRootNode with
      | some r => [r]
      | none => [],
    FormattedInputNodes := [], FormattedOutputNodes := [], NodeOffsets := [], SameRowMapping := [],
    NodeInfoMap := [], Infos := [], NodePosX := PosX, NodePosY := PosY }

/-- The resets at the start of the slow path and the helixing decision. -/
def FormatNodeReset (G : FBAGraph) (S : FEdGraphParameterFormatter) : FEdGraphParameterFormatter :=
  let Root := S.RootNode.getD 0
  let S1 := { S with AllFormattedNodes := [Root], NodeOffsets := [] }
  { S1 with bFormatWithHelixing := DoesHelixingApply G S1 }

/-- The row analysis between the two calls of `FormatX`. -/
def FormatNodeRows (G : FBAGraph) (S : FEdGraphParameterFormatter) : FEdGraphParameterFormatter :=
  let Rows := ProcessSameRowMapping G S (G.Pins.length + 2) (S.RootNode.getD 0) none none ([], [])
  { S with SameRowMapping := Rows.1 }

/-- The shift of the output nodes past the helixed input nodes. -/
def FormatNodeShiftOutputs (G : FBAGraph) (S : FEdGraphParameterFormatter) : FEdGraphParameterFormatter :=
  if S.bFormatWithHelixing && !S.FormattedInputNodes.isEmpty then
    let InputNodesRight := (GetCachedNodeArrayBounds G S S.FormattedInputNodes).Right
    let RootNodeBounds := GetCachedNodeBounds G S (S.RootNode.getD 0)
    let Delta := InputNodesRight - RootNodeBounds.Right
    if Delta > 0 then
      S.FormattedOutputNodes.foldl (fun (a : FEdGraphParameterFormatter) n =>
        withPosX a n (a.NodePosX n + Delta)) S
    else S
  else S

/-- The vertical placement and the optional height expansion. -/
def FormatNodeVertical (G : FBAGraph) (S : FEdGraphParameterFormatter) : FEdGraphParameterFormatter :=
  let Root := S.RootNode.getD 0
  let S7 := (FormatY G (G.Pins.length + 2) Root none none false (S, [], [])).1
  if G.Settings.bExpandParametersByHeight && IsNodePure G Root then ExpandByHeight G S7 else S7

/-- The slow path of `FormatNode` up to (not including) the final translation
relative to the keep-still node. -/
def FormatNodeLayout (G : FBAGraph) (S : FEdGraphParameterFormatter) : FEdGraphParameterFormatter :=
  FormatNodeVertical G (FormatNodeShiftOutputs G (FormatX G (FormatNodeRows G (FormatX G
    (FormatNodeReset G S)))))

def FormatNode (G : FBAGraph) (S : FEdGraphParameterFormatter) : FEdGraphParameterFormatter :=
  if !IsGraphNode G S.RootNode then S
  else
    let Root := S.RootNode.getD 0
    if (GetLinkedPins G Root EGPD_MAX).length == 0 then { S with AllFormattedNodes := [Root] }
    else
      let Keep := S.NodeToKeepStill.getD Root
      let SavedBounds := GetCachedNodeBounds G S Keep
      if S.bInitialized then SimpleRelativeFormatting S
      else
        let S1 := FormatNodeLayout G S
        let NodeToKeepStillBounds := GetCachedNodeBounds G S1 Keep
        let DeltaX := SavedBounds.Left - NodeToKeepStillBounds.Left
        let DeltaY := SavedBounds.Top - NodeToKeepStillBounds.Top
        if DeltaX != 0 || DeltaY != 0 then
          (GetFormattedNodes S1).foldl (offsetNode DeltaX DeltaY) S1
        else S1

/-! ## Concrete graphs -/

def exPin (o : Nat) (d : EEdGraphPinDirection) (l : List Nat) (y : Int) : UEdGraphPin :=
  { OwningNode := o, Direction := d, Kind := EPinKind.Parameter, LinkedTo := l, OffsetY := y }

def exNode (l : List Nat) (w h : Int) : UEdGraphNode :=
  { Pins := l, SizeX := w, SizeY := h, bIsKnot := false }

def exSettings (style : EBAParameterFormattingStyle) : UBASettings :=
  { PaddingX := 40, PaddingY := 25, bCenterBranchesForParameters := false,
    NumRequiredBranchesForParameters := 3, ParameterStyle := style, bLimitHelixingHeight := false,
    SingleNodeMaxHeight := 300, HelixingHeightMax := 500, bExpandParametersByHeight := false,
    ParameterVerticalPinSpacing := 4 }

def exGraph (ns : List UEdGraphNode) (ps : List UEdGraphPin) (style : EBAParameterFormattingStyle) :
    FBAGraph :=
  { Nodes := ns, Pins := ps, Settings := exSettings style, OverrideFormattingStyle := none,
    FilterSelectiveFormatting := fun _ => true }

/-- A root (node 0) without any pin. -/
def loneGraph : FBAGraph := exGraph [exNode [] 100 80] [] EBAParameterFormattingStyle.LeftSide

/-- The simple chain: the pure node A (node 1) feeds the input pin of the
root R (node 0). -/
def chainGraph : FBAGraph :=
  exGraph [exNode [0] 100 80, exNode [1] 120 60]
    [exPin 0 EGPD_Input [1] 30, exPin 1 EGPD_Output [0] 10] EBAParameterFormattingStyle.LeftSide

/-- The cyclic parameter graph: the pure nodes A (node 1) and B (node 2) feed
each other and both feed the root R (node 0).  Pins 0, 1 are the inputs of R,
pins 2, 3 the input and output of A, pins 4, 5 the input and output of B. -/
def cyclicGraph : FBAGraph :=
  exGraph [exNode [0, 1] 100 80, exNode [2, 3] 100 80, exNode [4, 5] 100 80]
    [exPin 0 EGPD_Input [3] 20, exPin 0 EGPD_Input [5] 40, exPin 1 EGPD_Input [5] 20,
     exPin 1 EGPD_Output [0, 4] 20, exPin 2 EGPD_Input [3] 20, exPin 2 EGPD_Output [1, 2] 20]
    EBAParameterFormattingStyle.LeftSide

/-- The cyclic parameter graph with an impure root: R has the additional
execution pin 6. -/
def cyclicGraphImpure : FBAGraph :=
  exGraph [exNode [0, 1, 6] 100 80, exNode [2, 3] 100 80, exNode [4, 5] 100 80]
    [exPin 0 EGPD_Input [3] 20, exPin 0 EGPD_Input [5] 40, exPin 1 EGPD_Input [5] 20,
     exPin 1 EGPD_Output [0, 4] 20, exPin 2 EGPD_Input [3] 20, exPin 2 EGPD_Output [1, 2] 20,
     { OwningNode := 0, Direction := EGPD_Input, Kind := EPinKind.Exec, LinkedTo := [], OffsetY := 0 }]
    EBAParameterFormattingStyle.LeftSide

/-- Before the edit: the root R (node 0, input pin 0, output pin 2) is fed by
the pure node K (node 1, output pin 1); the wide pure node A (node 2, input
pin 3) is not linked.  The parameter style is helixing. -/
def staleGraphBefore : FBAGraph :=
  exGraph [exNode [0, 2] 100 80, exNode [1] 100 80, exNode [3] 160 80]
    [exPin 0 EGPD_Input [1] 20, exPin 1 EGPD_Output [0] 20, exPin 0 EGPD_Output [] 20,
     exPin 2 EGPD_Input [] 20]
    EBAParameterFormattingStyle.Helixing

/-- After the edit: the link from K to R is removed and the output pin of R
feeds A. -/
def staleGraphAfter : FBAGraph :=
  exGraph [exNode [0, 2] 100 80, exNode [1] 100 80, exNode [3] 160 80]
    [exPin 0 EGPD_Input [] 20, exPin 1 EGPD_Output [] 20, exPin 0 EGPD_Output [3] 20,
     exPin 2 EGPD_Input [2] 20]
    EBAParameterFormattingStyle.Helixing

/-- The pure root R (node 0, input pin 0, output pins 1 and 2) is fed by A
(node 1, output pin 3) and feeds O1 (node 2, input pin 4) and O2 (node 3,
input pin 5); the parameter style is helixing. -/
def flipGraph : FBAGraph :=
  exGraph [exNode [0, 1, 2] 100 80, exNode [3] 100 60, exNode [4] 100 60, exNode [5] 100 60]
    [exPin 0 EGPD_Input [3] 20, exPin 0 EGPD_Output [4] 20, exPin 0 EGPD_Output [5] 50,
     exPin 1 EGPD_Output [0] 20, exPin 2 EGPD_Input [1] 20, exPin 3 EGPD_Input [2] 20]
    EBAParameterFormattingStyle.Helixing

/-- Start positions for `flipGraph`: all three other nodes lie left of R. -/
def flipPosX (n : Nat) : Int := [500, 100, 200, 300].getD n 0

def flipPosY (n : Nat) : Int := [100, 0, 0, 0].getD n 0

def exPosX (n : Nat) : Int := [500, 7, 300, 0].getD n 0

def exPosY (n : Nat) : Int := [100, 9, 300, 0].getD n 0

/-- The settings of `fanGraph`: left-side style, centering from two branches. -/
def fanSettings : UBASettings :=
  { PaddingX := 40, PaddingY := 25, bCenterBranchesForParameters := true,
    NumRequiredBranchesForParameters := 2, ParameterStyle := EBAParameterFormattingStyle.LeftSide,
    bLimitHelixingHeight := false, SingleNodeMaxHeight := 300, HelixingHeightMax := 500,
    bExpandParametersByHeight := false, ParameterVerticalPinSpacing := 4 }

/-- The pure root R (node 0, input pins 0 and 1) is fed by the pure nodes A
(node 1, output pin 2) and B (node 2, output pin 3); the parameter style is
left-side and two branches are enough for centering. -/
def fanGraph : FBAGraph :=
  { Nodes := [exNode [0, 1] 100 80, exNode [2] 100 60, exNode [3] 100 60],
    Pins := [exPin 0 EGPD_Input [2] 20, exPin 0 EGPD_Input [3] 40, exPin 1 EGPD_Output [0] 15,
      exPin 2 EGPD_Output [1] 10],
    Settings := fanSettings, OverrideFormattingStyle := none,
    FilterSelectiveFormatting := fun _ => true }

def fanPosX (n : Nat) : Int := [500, 100, 200].getD n 0

def fanPosY (n : Nat) : Int := [0, 7, 0].getD n 0

/-- The settings of `expandGraph`: left-side style with height expansion. -/
def expandSettings : UBASettings :=
  { PaddingX := 40, PaddingY := 25, bCenterBranchesForParameters := false,
    NumRequiredBranchesForParameters := 3, ParameterStyle := EBAParameterFormattingStyle.LeftSide,
    bLimitHelixingHeight := false, SingleNodeMaxHeight := 300, HelixingHeightMax := 500,
    bExpandParametersByHeight := true, ParameterVerticalPinSpacing := 4 }

/-- The pure node K (node 1, output pin 1) feeds the input pin 0 of the pure
root R (node 0); every node is accepted for formatting. -/
def expandGraphBefore : FBAGraph :=
  { Nodes := [exNode [0] 100 80, exNode [1] 100 60],
    Pins := [exPin 0 EGPD_Input [1] 20, exPin 1 EGPD_Output [0] 10],
    Settings := expandSettings, OverrideFormattingStyle := none,
    FilterSelectiveFormatting := fun _ => true }

/-- The same graph when the selection to format leaves K out. -/
def expandGraph : FBAGraph :=
  { Nodes := [exNode [0] 100 80, exNode [1] 100 60],
    Pins := [exPin 0 EGPD_Input [1] 20, exPin 1 EGPD_Output [0] 10],
    Settings := expandSettings, OverrideFormattingStyle := none,
    FilterSelectiveFormatting := fun n => n != 1 }

/-- A formatter that has formatted K in a run on `expandGraphBefore`, after
which K was moved down to Y = 400. -/
def expandStale : FEdGraphParameterFormatter :=
  withPosY (FormatNode expandGraphBefore (FEdGraphParameterFormatter.new (some 0) none [] exPosX exPosY)) 1 400

def execPin (o : Nat) (d : EEdGraphPinDirection) (y : Int) : UEdGraphPin :=
  { OwningNode := o, Direction := d, Kind := EPinKind.Exec, LinkedTo := [], OffsetY := y }

/-- The root R (node 0, input pins 0 and 1) is fed by the impure nodes A
(node 1, output pin 2, execution pin 4) and B (node 2, output pin 3,
execution pin 5); the parameter style is helixing. -/
def impureFanGraph : FBAGraph :=
  exGraph [exNode [0, 1] 100 80, exNode [2, 4] 100 60, exNode [3, 5] 100 60]
    [exPin 0 EGPD_Input [2] 20, exPin 0 EGPD_Input [3] 40, exPin 1 EGPD_Output [0] 20,
     exPin 2 EGPD_Output [1] 20, execPin 1 EGPD_Input 10, execPin 2 EGPD_Input 10]
    EBAParameterFormattingStyle.Helixing

/-- The formatter of the simple chain after a full run, with the relative
positions saved and the formatter marked initialized. -/
def chainCached : FEdGraphParameterFormatter :=
  { SaveRelativePositions
      (FormatNode chainGraph (FEdGraphParameterFormatter.new (some 0) none [] exPosX exPosY)) with
    bInitialized := true }

/-- The parent of a node in the tree recorded in `NodeInfoMap`. -/
def ParentOf (S : FEdGraphParameterFormatter) (n : Nat) : Option Nat :=
  (mapFind S.NodeInfoMap n).bind (GetParentNode S.Infos)


/-- The settings of `pileGraph`: as `fanSettings`. -/
def pileSettings : UBASettings :=
  { PaddingX := 40, PaddingY := 25, bCenterBranchesForParameters := true,
    NumRequiredBranchesForParameters := 2, ParameterStyle := EBAParameterFormattingStyle.LeftSide,
    bLimitHelixingHeight := false, SingleNodeMaxHeight := 300, HelixingHeightMax := 500,
    bExpandParametersByHeight := false, ParameterVerticalPinSpacing := 4 }

/-- The impure root R (node 0, input pins 0 and 1, execution pin 8) is fed by
the pure nodes M (node 1, output pin 2) and N (node 2, output pin 3); N has
the input pins 4 and 5, fed by the pure nodes P (node 3, output pin 6) and Q
(node 4, output pin 7).  Two branches are enough for centering. -/
def pileGraph : FBAGraph :=
  { Nodes := [exNode [0, 1, 8] 100 120, exNode [2] 100 60, exNode [3, 4, 5] 100 80, exNode [6] 100 60,
      exNode [7] 100 60],
    Pins := [exPin 0 EGPD_Input [2] 20, exPin 0 EGPD_Input [3] 60, exPin 1 EGPD_Output [0] 20,
      exPin 2 EGPD_Output [1] 20, exPin 2 EGPD_Input [6] 40, exPin 2 EGPD_Input [7] 60,
      exPin 3 EGPD_Output [4] 20, exPin 4 EGPD_Output [5] 20, execPin 0 EGPD_Output 20],
    Settings := pileSettings, OverrideFormattingStyle := none,
    FilterSelectiveFormatting := fun _ => true }

def zeroPos (_ : Nat) : Int := 0

/-- The positions of the nodes of `pileGraph` when `FormatY` calls
`CenterBranches` for N in the run from `zeroPos`. -/
def pilePreX (n : Nat) : Int := [0, -140, -140, -280, -280].getD n 0

def pilePreY (n : Nat) : Int := [0, 0, 86, 106, 192].getD n 0

/-- The positions of the nodes of `fanGraph` when `FormatY` calls
`CenterBranches` for R in the run from `exPosX`, `exPosY`. -/
def fanPreX (n : Nat) : Int := [500, 360, 360].getD n 0

def fanPreY (n : Nat) : Int := [100, 105, 191].getD n 0

/-- The root R (node 0, 300 wide, output pin 0) feeds the lower input pin 2 of
the tall node T (node 1, input pins 1 and 2); the upper input pin 1 of T is
fed by U (node 2, output pin 3, input pin 4), which is fed by W (node 3,
output pin 5).  All nodes are pure, the parameter style is left-side. -/
def dragGraph : FBAGraph :=
  exGraph [exNode [0] 300 80, exNode [1, 2] 100 160, exNode [3, 4] 100 80, exNode [5] 100 80]
    [exPin 0 EGPD_Output [2] 20, exPin 1 EGPD_Input [3] 20, exPin 1 EGPD_Input [0] 120,
     exPin 2 EGPD_Output [1] 40, exPin 2 EGPD_Input [5] 70, exPin 3 EGPD_Output [4] 10]
    EBAParameterFormattingStyle.LeftSide

/-- The positions of the nodes of `dragGraph` when the collision loop of
`FormatY` starts for W in the run from `exPosX`, `exPosY`. -/
def dragPreX (n : Nat) : Int := [500, 840, 700, 560].getD n 0

def dragPreY (n : Nat) : Int := [100, 0, -20, 40].getD n 0

/-- The pure root R (node 0, input pin 0) is fed by the pure node N (node 1,
output pin 1, input pins 2 and 3), which is fed by P (node 2, output pin 4)
and Q (node 3, output pin 5); two branches are enough for centering. -/
def rowGraph : FBAGraph :=
  { Nodes := [exNode [0] 100 80, exNode [1, 2, 3] 100 80, exNode [4] 100 60, exNode [5] 100 60],
    Pins := [exPin 0 EGPD_Input [1] 20, exPin 1 EGPD_Output [0] 20, exPin 1 EGPD_Input [4] 40,
      exPin 1 EGPD_Input [5] 60, exPin 2 EGPD_Output [2] 20, exPin 3 EGPD_Output [3] 20],
    Settings := fanSettings, OverrideFormattingStyle := none,
    FilterSelectiveFormatting := fun _ => true }

/-- The positions of the nodes of `rowGraph` when `FormatY` is called for P
in the run from `exPosX`, `exPosY`. -/
def rowPreX (n : Nat) : Int := [500, 360, 220, 220].getD n 0

def rowPreY (n : Nat) : Int := [100, 100, 120, 0].getD n 0

/-- The simple chain with an impure root: R (node 0) has the unlinked
execution input pin 0 at height 10 above its input pin 1 at height 40, which
is fed by the output pin 2 of the pure node A (node 1). -/
def execChainGraph : FBAGraph :=
  exGraph [exNode [0, 1] 100 80, exNode [2] 120 60]
    [execPin 0 EGPD_Input 10, exPin 0 EGPD_Input [2] 40, exPin 1 EGPD_Output [1] 30]
    EBAParameterFormattingStyle.LeftSide

/-- Helixing style with the height limits enabled: a single node may be 300
high, the stack 500. -/
def limitSettings : UBASettings :=
  { PaddingX := 40, PaddingY := 25, bCenterBranchesForParameters := false,
    NumRequiredBranchesForParameters := 3, ParameterStyle := EBAParameterFormattingStyle.Helixing,
    bLimitHelixingHeight := true, SingleNodeMaxHeight := 300, HelixingHeightMax := 500,
    bExpandParametersByHeight := false, ParameterVerticalPinSpacing := 4 }

/-- The chain B -> A -> R of pure nodes under `limitSettings`: R (node 0,
input pin 0), A (node 1, output pin 1, input pin 2, 200 high), B (node 2,
output pin 3, 250 high). -/
def limitGraph : FBAGraph :=
  { Nodes := [exNode [0] 100 80, exNode [1, 2] 100 200, exNode [3] 100 250],
    Pins := [exPin 0 EGPD_Input [1] 20, exPin 1 EGPD_Output [0] 20, exPin 1 EGPD_Input [3] 40,
      exPin 2 EGPD_Output [2] 20],
    Settings := limitSettings, OverrideFormattingStyle := none,
    FilterSelectiveFormatting := fun _ => true }

/-- The pure node B (node 2, output pin 4) feeds the second input pin of the
pure root R (node 0, input pins 0 and 1) and the input pin 2 of the pure node
A (node 1), whose output pin 3 feeds the first input pin of R. -/
def diamondGraph : FBAGraph :=
  exGraph [exNode [0, 1] 100 80, exNode [2, 3] 100 80, exNode [4] 100 80]
    [exPin 0 EGPD_Input [3] 20, exPin 0 EGPD_Input [4] 40, exPin 1 EGPD_Input [4] 20,
     exPin 1 EGPD_Output [0] 20, exPin 2 EGPD_Output [1, 2] 20]
    EBAParameterFormattingStyle.LeftSide

/-- The formatter inside `FormatX` on `diamondGraph` after the five
iterations of the output pass and three iterations of the input pass: A and
B have their records of the input pass, both with the root as parent, and the
link from the input pin of A to B is the next one in the queue. -/
def diamondState : FEdGraphParameterFormatter :=
  ((FormatXStep diamondGraph EGPD_Input)^[3]
    (FormatXPassInit
      ((FormatXStep diamondGraph EGPD_Output)^[5]
        (FormatXPassInit (FormatXInit (FEdGraphParameterFormatter.new (some 0) none [] exPosX exPosY))
          EGPD_Output))
      EGPD_Input)).F

/-- The formatter on `rowGraph` when `ProcessSameRowMapping` is called: after
the first `FormatX` of the run from `rowPreX`, `rowPreY`. -/
def rowState : FEdGraphParameterFormatter :=
  FormatX rowGraph (FormatNodeReset rowGraph (FEdGraphParameterFormatter.new (some 0) none [] rowPreX rowPreY))

/-- The formatter on `staleGraphAfter` when `FormatY` is called in the run
from `exPosX`, `exPosY`: helixing applies and A (node 2) is in
`FormattedInputNodes`. -/
def helixState : FEdGraphParameterFormatter :=
  FormatNodeShiftOutputs staleGraphAfter (FormatX staleGraphAfter (FormatNodeRows staleGraphAfter
    (FormatX staleGraphAfter (FormatNodeReset staleGraphAfter
      (FEdGraphParameterFormatter.new (some 0) none [] exPosX exPosY)))))

/-- The state of the loops of `FormatY` for the root of `staleGraphAfter`
when the link from its output pin to A is reached. -/
def helixLoop : FormatYState :=
  { F := helixState, VisitedNodes := [0], OutChildren := [], bFirstPin := true, LastLinked := none,
    ChildBranches := [] }

/-- Five pure nodes under the helixing style.  The root R (node 0) has the
input pin 0 and the output pin 1; A (node 1) has the input pins 2 and 3 and
the output pin 4; B (node 2) has the output pin 5; C (node 3) has the output
pins 6 and 7; D (node 4) has the input pin 8.  Links: C.6 -> R.0, C.7 -> A.3,
R.1 -> A.2, R.1 -> D.8, A.4 -> D.8, B.5 -> A.2. -/
def crossGraph : FBAGraph :=
  exGraph [exNode [0, 1] 100 80, exNode [2, 3, 4] 100 80, exNode [5] 100 80, exNode [6, 7] 100 80,
      exNode [8] 100 80]
    [exPin 0 EGPD_Input [6] 20, exPin 0 EGPD_Output [2, 8] 20,
     exPin 1 EGPD_Input [1, 5] 20, exPin 1 EGPD_Input [7] 40, exPin 1 EGPD_Output [8] 20,
     exPin 2 EGPD_Output [2] 20,
     exPin 3 EGPD_Output [0] 20, exPin 3 EGPD_Output [3] 40,
     exPin 4 EGPD_Input [1, 4] 20]
    EBAParameterFormattingStyle.Helixing

/-- The positions of `crossGraph` before the run: every node right of the
root. -/
def crossPosX (n : Nat) : Int := [0, 200, 300, 400, 500].getD n 0

/-- The formatter on `crossGraph` after the resets and the first `FormatX` of
the slow path, run on a new formatter with root R. -/
def crossFirst : FEdGraphParameterFormatter :=
  FormatX crossGraph (FormatNodeReset crossGraph
    (FEdGraphParameterFormatter.new (some 0) none [] crossPosX zeroPos))

/-- The formatter on `crossGraph` when `FormatY` is called in the same
run. -/
def crossSecond : FEdGraphParameterFormatter :=
  FormatNodeShiftOutputs crossGraph (FormatX crossGraph (FormatNodeRows crossGraph crossFirst))

/-- The simple chain under the helixing style: the pure node A (node 1) feeds
the input pin of the root R (node 0). -/
def helixChainGraph : FBAGraph :=
  exGraph [exNode [0] 100 80, exNode [1] 120 60]
    [exPin 0 EGPD_Input [1] 30, exPin 1 EGPD_Output [0] 10] EBAParameterFormattingStyle.Helixing

/-- The formatter on `helixChainGraph` when `FormatY` is called in the run
from `exPosX`, `exPosY`. -/
def helixChainRun : FEdGraphParameterFormatter :=
  FormatNodeShiftOutputs helixChainGraph (FormatX helixChainGraph (FormatNodeRows helixChainGraph
    (FormatX helixChainGraph (FormatNodeReset helixChainGraph
      (FEdGraphParameterFormatter.new (some 0) none [] exPosX exPosY)))))

/-- The formatter `helixChainRun` with the input-side node A in
`FormattedInputNodes`: the two sets as they are filled when
`FPinLink::GetDirection` is the direction of the pin of the parent. -/
def helixChainState : FEdGraphParameterFormatter :=
  { helixChainRun with FormattedInputNodes := helixChainRun.FormattedOutputNodes, FormattedOutputNodes := helixChainRun.FormattedInputNodes }

/-- The state of the loops of `FormatY` for the root of `helixChainGraph` when
the link from its input pin to A is reached. -/
def helixChainLoop : FormatYState :=
  { F := helixChainState, VisitedNodes := [0], OutChildren := [], bFirstPin := true, LastLinked := none,
    ChildBranches := [] }

/-! ## Predicates of the proofs -/

/-- The fields of the formatter that a layout run never writes. -/
def cfgOf (S : FEdGraphParameterFormatter) :
    Option Nat × Option Nat × List Nat × Bool × List (Nat × Int × Int) :=
  (S.RootNode, S.NodeToKeepStill, S.IgnoredNodes, S.bInitialized, S.NodeOffsets)

def linkKey (l : FPinLink) : Option Nat × Option Nat := (l.From, l.To)

/-- The visited links are pairwise different pin links of the graph. -/
def VisitedOk (G : FBAGraph) (V : List FPinLink) : Prop :=
  (V.map linkKey).Nodup ∧ ∀ l ∈ V, linkKey l ∈ (pinLinks G).map (fun pq => (some pq.1, some pq.2))

def queued (st : FormatXState) : Nat := st.InputQueue.length + st.OutputQueue.length

/-- What `FormatX` may change in the formatter: the configuration, the
helixing flag, the Y positions and the row mapping stay, and the formatted
set only grows by `Add`. -/
def FXRel (S S' : FEdGraphParameterFormatter) : Prop :=
  cfgOf S' = cfgOf S ∧ S'.bFormatWithHelixing = S.bFormatWithHelixing ∧ S'.NodePosY = S.NodePosY
    ∧ S'.SameRowMapping = S.SameRowMapping
    ∧ ∃ l, S'.AllFormattedNodes = setAppend S.AllFormattedNodes l

/-- The formatter without the node positions. -/
def restOf (S : FEdGraphParameterFormatter) : FEdGraphParameterFormatter :=
  { S with NodePosX := fun _ => 0, NodePosY := fun _ => 0 }

/-- The formatter `S'` differs from `S` in the Y positions only. -/
def OnlyY (S S' : FEdGraphParameterFormatter) : Prop :=
  restOf S' = restOf S ∧ S'.NodePosX = S.NodePosX

/-- The formatter `S'` differs from `S` in the X positions only. -/
def OnlyX (S S' : FEdGraphParameterFormatter) : Prop :=
  restOf S' = restOf S ∧ S'.NodePosY = S.NodePosY

/-- A recursive call of `FormatY` that writes Y positions only. -/
def RecOnlyY
    (recurse : Nat → Option Nat → Option Nat → Bool →
      FEdGraphParameterFormatter × List Nat × List Nat → FEdGraphParameterFormatter × List Nat × List Nat) :
    Prop :=
  ∀ c cp pp b acc, OnlyY acc.1 (recurse c cp pp b acc).1

/-- Every pin listed by a node names that node as its owner. -/
def PinsOwned (G : FBAGraph) : Prop :=
  ∀ n ∈ List.range G.Nodes.length, ∀ p ∈ (G.node n).Pins, (G.pin p).OwningNode = n

instance (G : FBAGraph) : Decidable (PinsOwned G) := by
  unfold PinsOwned
  infer_instance

/-- The parameter style in force is not helixing. -/
def NoHelixingStyle (G : FBAGraph) : Prop :=
  (match G.OverrideFormattingStyle with
    | some o => o
    | none => G.Settings.ParameterStyle) ≠ EBAParameterFormattingStyle.Helixing

instance (G : FBAGraph) : Decidable (NoHelixingStyle G) := by
  unfold NoHelixingStyle
  infer_instance

/-- The records of `Infos` are for nodes of `A` and their children are
records of `Infos`. -/
def ValidInfos (Infos : List FNodeInfo) (A : List Nat) : Prop :=
  ∀ i, i < Infos.length → (getInfo Infos i).Node ∈ A ∧ ∀ c ∈ (getInfo Infos i).Children, c < Infos.length

/-- The map sends nodes of the formatted set to records of `Infos`. -/
def ValidMap (S : FEdGraphParameterFormatter) : Prop :=
  ∀ k i, mapFind S.NodeInfoMap k = some i → k ∈ S.AllFormattedNodes ∧ i < S.Infos.length

/-- Two formatters that differ only in what a run without helixing does not
read: positions of nodes outside the formatted set, Y positions, and the
input and output sets. -/
def XAgree (A B : FEdGraphParameterFormatter) : Prop :=
  B.RootNode = A.RootNode ∧ B.IgnoredNodes = A.IgnoredNodes
    ∧ A.bFormatWithHelixing = false ∧ B.bFormatWithHelixing = false
    ∧ B.AllFormattedNodes = A.AllFormattedNodes ∧ B.NodeInfoMap = A.NodeInfoMap ∧ B.Infos = A.Infos
    ∧ ∀ n ∈ A.AllFormattedNodes, B.NodePosX n = A.NodePosX n

/-- The X coordinate `GetChildX` computes from the X of the parent. -/
def childX (G : FBAGraph) (Link : FPinLink) (Direction : EEdGraphPinDirection) (px : Int) : Int :=
  if Direction = EGPD_Input then
    px - (G.node (G.OwningNode (Link.To.getD 0))).SizeX - max 1 G.Settings.PaddingX
  else
    px + (G.node (G.OwningNode (Link.From.getD 0))).SizeX + max 1 G.Settings.PaddingX

/-- Agreement of two position maps on the nodes of `A`, with the same
visited list, and nothing written outside `A`. -/
def PosAgree (A : List Nat) (X X' : Nat → Int) (a a' : (Nat → Int) × List Nat) : Prop :=
  a'.2 = a.2 ∧ (∀ n ∈ A, a'.1 n = a.1 n) ∧ (∀ n, n ∉ A → a.1 n = X n ∧ a'.1 n = X' n)

/-- Two formatters in the middle of a run without helixing that the run
cannot tell apart, with well-formed records, and with the X positions outside
the formatted set still those of `X0` and `X0'`. -/
def FSim (X0 X0' : Nat → Int) (A B : FEdGraphParameterFormatter) : Prop :=
  XAgree A B ∧ ValidInfos A.Infos A.AllFormattedNodes ∧ ValidMap A
    ∧ (∀ n, n ∉ A.AllFormattedNodes → A.NodePosX n = X0 n ∧ B.NodePosX n = X0' n)
    ∧ ∀ r, A.RootNode = some r → r ∈ A.AllFormattedNodes

/-- A queued link comes from a pin of a node that is already formatted, or
is the link of the root. -/
def QOk (G : FBAGraph) (S : FEdGraphParameterFormatter) (l : FPinLink) : Prop :=
  (∃ p, l.From = some p ∧ G.OwningNode p ∈ S.AllFormattedNodes)
    ∨ (l.From = none ∧ S.RootNode = some (l.GetNode G))

/-- The simulation of two runs of the loop of `FormatX`. -/
def FXSim (G : FBAGraph) (X0 X0' : Nat → Int) (a b : FormatXState) : Prop :=
  FSim X0 X0' a.F b.F ∧ b.VisitedLinks = a.VisitedLinks ∧ b.TempOutput = a.TempOutput
    ∧ b.InputQueue = a.InputQueue ∧ b.OutputQueue = a.OutputQueue
    ∧ ∀ l ∈ a.InputQueue ++ a.OutputQueue, QOk G a.F l

/-- Two formatters at the start of `FormatX` in a run without helixing: they
agree on the root, the ignored nodes, the formatted set and the X positions
of the formatted nodes, and the root is formatted. -/
def XStart (A B : FEdGraphParameterFormatter) : Prop :=
  B.RootNode = A.RootNode ∧ B.IgnoredNodes = A.IgnoredNodes
    ∧ A.bFormatWithHelixing = false ∧ B.bFormatWithHelixing = false
    ∧ B.AllFormattedNodes = A.AllFormattedNodes
    ∧ (∀ n ∈ A.AllFormattedNodes, B.NodePosX n = A.NodePosX n)
    ∧ ∃ r, A.RootNode = some r ∧ r ∈ A.AllFormattedNodes

/-- What one call of `FormatY` for the node `c` does to the visited nodes, the
reported children and the Y of the root `r`. -/
def YPost (G : FBAGraph) (r c : Nat) (pp : Option Nat) (bsr : Bool)
    (pre post : FEdGraphParameterFormatter × List Nat × List Nat) : Prop :=
  (∀ v ∈ pre.2.1, v ∈ post.2.1)
    ∧ (∀ n ∈ post.2.2, n ∈ pre.2.2 ∨ (n ∈ post.2.1 ∧ n ∉ pre.2.1))
    ∧ (∀ v ∈ post.2.1, v ∈ pre.2.1 ∨ v ∈ post.2.2)
    ∧ (pre.1.RootNode = some r → (r ∈ pre.2.1 ∨ (c = r ∧ pre.2.1 = [])) →
        (bsr = true → ∀ p, pp = some p → G.OwningNode p ≠ r) →
        post.1.NodePosY r = pre.1.NodePosY r)

/-- A recursive call of `FormatY` that satisfies `YPost`. -/
def RecStruct (G : FBAGraph) (r : Nat)
    (recurse : Nat → Option Nat → Option Nat → Bool →
      FEdGraphParameterFormatter × List Nat × List Nat → FEdGraphParameterFormatter × List Nat × List Nat) :
    Prop :=
  ∀ c cp pp bsr acc, YPost G r c pp bsr acc (recurse c cp pp bsr acc)

/-- The invariant of the loops of one call of `FormatY` for the node `c`,
entered with the visited nodes `V0` and the children `O0`; under `P` the
root is `r` and stays at `y0`. -/
def YSt (r c : Nat) (V0 O0 : List Nat) (y0 : Int) (P : Prop) (a : FormatYState) : Prop :=
  (∀ v ∈ V0, v ∈ a.VisitedNodes) ∧ c ∈ a.VisitedNodes
    ∧ (∀ n ∈ a.OutChildren, n ∈ O0 ∨ (n ∈ a.VisitedNodes ∧ n ∉ V0 ∧ n ≠ c))
    ∧ (∀ v ∈ a.VisitedNodes, v ∈ V0 ∨ v ∈ a.OutChildren ∨ v = c)
    ∧ (∀ br ∈ a.ChildBranches, ∀ n ∈ br.BranchNodes, n ∈ a.VisitedNodes ∧ n ∉ V0 ∧ n ≠ c)
    ∧ (P → a.F.RootNode = some r ∧ a.F.NodePosY r = y0)

/-- Every visited node was visited before the direction started (`Vd`) or
belongs to a branch of the direction. -/
def YDir (Vd : List Nat) (a : FormatYState) : Prop :=
  ∀ v ∈ a.VisitedNodes, v ∈ Vd ∨ v ∈ a.ChildBranches.flatMap (fun b => b.BranchNodes)


/-- Two runs that take `A` to `A'` and `B` to `B'`: every node ends at the
same Y in both, or keeps its Y in both. -/
def YKeep (A B A' B' : FEdGraphParameterFormatter) : Prop :=
  ∀ n, B'.NodePosY n = A'.NodePosY n
    ∨ (A'.NodePosY n = A.NodePosY n ∧ B'.NodePosY n = B.NodePosY n)

/-- The node `n` is at the same place in both formatters. -/
def Agr (A B : FEdGraphParameterFormatter) (n : Nat) : Prop :=
  B.NodePosX n = A.NodePosX n ∧ B.NodePosY n = A.NodePosY n

/-- Two formatters that the vertical placement without helixing cannot tell
apart but for the Y positions, with well-formed records. -/
def YBase (A B : FEdGraphParameterFormatter) : Prop :=
  XAgree A B ∧ ValidInfos A.Infos A.AllFormattedNodes ∧ ValidMap A

/-- The visited nodes are formatted nodes at the same Y in both formatters. -/
def VisAgree (A B : FEdGraphParameterFormatter) (V : List Nat) : Prop :=
  ∀ v ∈ V, v ∈ A.AllFormattedNodes ∧ B.NodePosY v = A.NodePosY v

/-- A recursive call of `FormatY` that cannot tell two such formatters
apart. -/
def RecSim (G : FBAGraph)
    (recurse : Nat → Option Nat → Option Nat → Bool →
      FEdGraphParameterFormatter × List Nat × List Nat → FEdGraphParameterFormatter × List Nat × List Nat) :
    Prop :=
  ∀ c cp pp bsr A B V O, YBase A B → VisAgree A B V →
    c ∈ A.AllFormattedNodes → B.NodePosY c = A.NodePosY c →
    (∀ p, cp = some p → G.OwningNode p = c) →
    (recurse c cp pp bsr (B, V, O)).2 = (recurse c cp pp bsr (A, V, O)).2
      ∧ YKeep A B (recurse c cp pp bsr (A, V, O)).1 (recurse c cp pp bsr (B, V, O)).1
      ∧ VisAgree (recurse c cp pp bsr (A, V, O)).1 (recurse c cp pp bsr (B, V, O)).1
          (recurse c cp pp bsr (A, V, O)).2.1

/-- The simulation of the loops of one call of `FormatY` for the node `c` in
two runs entered with the formatters `A0` and `B0`. -/
def YSim (G : FBAGraph) (c : Nat) (A0 B0 : FEdGraphParameterFormatter) (a b : FormatYState) : Prop :=
  b.VisitedNodes = a.VisitedNodes ∧ b.OutChildren = a.OutChildren ∧ b.bFirstPin = a.bFirstPin
    ∧ b.LastLinked = a.LastLinked ∧ b.ChildBranches = a.ChildBranches
    ∧ OnlyY A0 a.F ∧ OnlyY B0 b.F ∧ YKeep A0 B0 a.F b.F ∧ VisAgree a.F b.F a.VisitedNodes
    ∧ c ∈ a.VisitedNodes
    ∧ (∀ p, a.LastLinked = some p → G.OwningNode p = c)
    ∧ ∀ br ∈ a.ChildBranches, G.OwningNode br.ParentPin = c
        ∧ b.F.NodePosY (G.OwningNode br.Pin) = a.F.NodePosY (G.OwningNode br.Pin)
        ∧ ∀ n ∈ br.BranchNodes, n ∈ a.VisitedNodes

/-- The horizontal part of the slow path: the reset, `FormatX`, the row
analysis and `FormatX` again. -/
def FormatNodeHorizontal (G : FBAGraph) (S : FEdGraphParameterFormatter) : FEdGraphParameterFormatter :=
  FormatX G (FormatNodeRows G (FormatX G (FormatNodeReset G S)))

/-- The node `a` is a linked node on the input side of `n` that
`DoesHelixingApply` counts: the pure owner of a parameter pin, not owned by an
ignored node, on the other end of an input link of `n`. -/
def HelixInputLinked (G : FBAGraph) (S : FEdGraphParameterFormatter) (n a : Nat) : Prop :=
  ∃ q ∈ GetLinkedToPins G n EGPD_Input, IsParameterPin G q = true ∧ G.OwningNode q ∉ S.IgnoredNodes
    ∧ IsNodePure G (G.OwningNode q) = true ∧ G.OwningNode q = a

/-- The node `a` is a linked node on the output side of `n` that
`DoesHelixingApply` counts: the owner of a parameter pin, not owned by an
ignored node, on the other end of an output link of `n`, that is the root or
lies at or left of the root. -/
def HelixOutputLinked (G : FBAGraph) (S : FEdGraphParameterFormatter) (Root n a : Nat) : Prop :=
  ∃ q ∈ GetLinkedToPins G n EGPD_Output, IsParameterPin G q = true ∧ G.OwningNode q ∉ S.IgnoredNodes
    ∧ (G.OwningNode q = Root ∨ S.NodePosX (G.OwningNode q) ≤ S.NodePosX Root) ∧ G.OwningNode q = a

/-- The nodes the traversal of `DoesHelixingApply` reaches from the root: the
root, and the counted input-side nodes of a reached node. -/
inductive HelixReach (G : FBAGraph) (S : FEdGraphParameterFormatter) (Root : Nat) : Nat → Prop where
  | root : HelixReach G S Root Root
  | step (m k : Nat) : HelixReach G S Root m → HelixInputLinked G S m k → HelixReach G S Root k

/-- The invariant of the loop of `DoesHelixingApply`: a visited node is
still queued, or it did not disqualify helixing and its counted input-side
nodes are visited. -/
def HelixInv (G : FBAGraph) (S : FEdGraphParameterFormatter) (Root : Nat) (st : HelixState) : Prop :=
  Root ∈ st.VisitedNodes ∧ ∀ m ∈ st.VisitedNodes, m ∈ st.NodeQueue
    ∨ ((LinkedToNodesInput G S m).length ≤ 1 ∧ (LinkedToNodesOutput G S Root m).length ≤ 1
      ∧ ∀ k ∈ LinkedToNodesInput G S m, k ∈ st.VisitedNodes)

/-- The owners of all pins of the graph (an index past the pin table reads
the default pin, hence the extra index). -/
def ownerNodes (G : FBAGraph) : List Nat := (List.range (G.Pins.length + 1)).map G.OwningNode

/-- The number of pin owners that are not yet visited: the depth the
recursion of `FormatY` can still reach. -/
def unvisitedOwners (G : FBAGraph) (V : List Nat) : Nat := (ownerNodes G).countP (fun n => decide (n ∉ V))

/-- The recursive call never drops a visited node. -/
def RecMono
    (recurse : Nat → Option Nat → Option Nat → Bool →
      FEdGraphParameterFormatter × List Nat × List Nat → FEdGraphParameterFormatter × List Nat × List Nat) :
    Prop :=
  ∀ c cp pp b acc, ∀ n ∈ acc.2.1, n ∈ (recurse c cp pp b acc).2.1

/-- Two recursive calls agree on every unvisited pin owner once the nodes of
`V0` are visited. -/
def RecAgree (G : FBAGraph) (V0 : List Nat)
    (rec1 rec2 : Nat → Option Nat → Option Nat → Bool →
      FEdGraphParameterFormatter × List Nat × List Nat → FEdGraphParameterFormatter × List Nat × List Nat) :
    Prop :=
  ∀ n cp pp b F V O, (∀ m ∈ V0, m ∈ V) → n ∉ V → n ∈ ownerNodes G →
    rec1 n cp pp b (F, V, O) = rec2 n cp pp b (F, V, O)

/-- In the records `Infos`, the children of a record of direction `d` have
the direction `d`. -/
def ChildrenFollow (Infos : List FNodeInfo) (d : EEdGraphPinDirection) : Prop :=
  ∀ I ∈ Infos, I.Direction = d → ∀ c ∈ I.Children, (getInfo Infos c).Direction = d

/-- The coordinate `x` is not on the wrong side of `y` for the direction `d`:
not to the right of it for an input, not to the left of it otherwise. -/
def OnSide (d : EEdGraphPinDirection) (x y : Int) : Prop :=
  if d = EGPD_Input then x ≤ y else y ≤ x

/-- Every node moved by `MoveChildren` so far, and the node `cur`, is on the
side of `B`. -/
def MovedSide (d : EEdGraphPinDirection) (B : Int) (cur : Nat) (a : (Nat → Int) × List Nat) : Prop :=
  ∀ n, (n ∈ a.2 ∨ n = cur) → OnSide d (a.1 n) B

/-- The link from pin `p` to pin `q` is marked true in the mapping. -/
def RowMarked (G : FBAGraph) (m : List (FPinLink × Bool)) (p q : Nat) : Prop :=
  (m.find? (fun e => e.1.same (mkLink G p q))).map Prod.snd = some true

/-- The mapping marks a link iff it marks the reversed link. -/
def RowSymmetric (G : FBAGraph) (m : List (FPinLink × Bool)) : Prop :=
  ∀ p q, RowMarked G m p q ↔ RowMarked G m q p

/-- No link of the mapping has a pin owned by the node `r`. -/
def RowNoRoot (G : FBAGraph) (r : Nat) (m : List (FPinLink × Bool)) : Prop :=
  ∀ e ∈ m, ∀ p, (e.1.From = some p ∨ e.1.To = some p) → G.OwningNode p ≠ r

/-- The state of the loops of the call of `ProcessSameRowMapping` for the
node `N` (entered with `acc`, recursion depth `fuel` left for the children)
after the first `k` pairs. -/
def SameRowAt (G : FBAGraph) (S : FEdGraphParameterFormatter) (fuel N : Nat) (ParentPin : Option Nat)
    (acc : List (FPinLink × Bool) × List Nat) (k : Nat) : SameRowState :=
  ((SameRowPairs G N).take k).foldl
    (SameRowPair G S (ProcessSameRowMapping G S fuel) N ParentPin (SameRowChildren S N))
    (SameRowEnter N acc)

/-- The pair qualifies for the same row in the loop state `a`: the other node
is accepted by the filter, is a child of the current node and is not visited,
the pin has the direction of `ParentPin` (the pin on the parent's end of the
link between the current node and its parent), and helixing does not apply
to the other node. -/
def SameRowQualifies (G : FBAGraph) (S : FEdGraphParameterFormatter) (ParentPin : Option Nat)
    (Children : List Nat) (a : SameRowState) (pq : Nat × Nat) : Bool :=
  !SameRowSkips G Children a pq.2
    && (match ParentPin with
      | none => true
      | some pp => (G.pin pq.1).Direction == (G.pin pp).Direction)
    && !(S.bFormatWithHelixing && decide (G.OwningNode pq.2 ∈ S.FormattedInputNodes))

/-- The loop body marks the pair in the loop state `a`. -/
def SameRowMarkedAt (G : FBAGraph) (S : FEdGraphParameterFormatter) (N : Nat) (ParentPin : Option Nat)
    (Children : List Nat) (a : SameRowState) (pq : Nat × Nat) : Bool :=
  !SameRowSkips G Children a pq.2 && SameRowMarks G S N ParentPin a pq.1 pq.2

/-- The node may be formatted: it is not ignored, the selective-formatting
filter accepts it, and it is neither impure nor a knot. -/
def Eligible (G : FBAGraph) (ign : List Nat) (n : Nat) : Prop :=
  n ∉ ign ∧ G.FilterSelectiveFormatting n = true ∧ IsNodeImpure G n = false ∧ IsKnotNode G n = false

/-- The invariant of the loop of `FormatX` for the exclusion: every formatted
node and the node of every queued link is the root `r` or may be formatted. -/
def FXGood (G : FBAGraph) (r : Nat) (ign : List Nat) (st : FormatXState) : Prop :=
  st.F.RootNode = some r ∧ st.F.IgnoredNodes = ign
    ∧ (∀ n ∈ st.F.AllFormattedNodes, n = r ∨ Eligible G ign n)
    ∧ (∀ l ∈ st.InputQueue, l.GetNode G = r ∨ Eligible G ign (l.GetNode G))
    ∧ (∀ l ∈ st.OutputQueue, l.GetNode G = r ∨ Eligible G ign (l.GetNode G))

/-- What one call of `FormatY` for the node `c` does to the heights: a node
visited before the call keeps its Y unless it is the parent aligned at the
end of a same-row call; the node `c` does not go up; and the parent of a
same-row call does not go up when its pin was not below the pin of `c` at
the call. -/
def YDown (G : FBAGraph) (c : Nat) (cp pp : Option Nat) (bsr : Bool)
    (pre post : FEdGraphParameterFormatter × List Nat × List Nat) : Prop :=
  (∀ v ∈ pre.2.1, (bsr = true → ∀ p, pp = some p → G.OwningNode p ≠ v) →
      post.1.NodePosY v = pre.1.NodePosY v)
    ∧ ((bsr = true → ∀ p, pp = some p → G.OwningNode p ≠ c) →
        pre.1.NodePosY c ≤ post.1.NodePosY c)
    ∧ (bsr = true → ∀ p q, pp = some p → cp = some q → G.OwningNode q = c → G.OwningNode p ≠ c →
        GetPinY G pre.1 p ≤ GetPinY G pre.1 q →
        pre.1.NodePosY (G.OwningNode p) ≤ post.1.NodePosY (G.OwningNode p))

/-- A recursive call of `FormatY` that satisfies `YDown`. -/
def RecDown (G : FBAGraph)
    (recurse : Nat → Option Nat → Option Nat → Bool →
      FEdGraphParameterFormatter × List Nat × List Nat → FEdGraphParameterFormatter × List Nat × List Nat) :
    Prop :=
  ∀ c cp pp bsr acc, YDown G c cp pp bsr acc (recurse c cp pp bsr acc)

/-- The invariant of the loops of the call of `FormatY` for the node `c`
entered with the formatter `F0` and the visited nodes `V0`: the nodes of `V0`
are where they were and `c` is not above where it was. -/
def YStay (F0 : FEdGraphParameterFormatter) (V0 : List Nat) (c : Nat) (a : FormatYState) : Prop :=
  (∀ v ∈ V0, a.F.NodePosY v = F0.NodePosY v) ∧ F0.NodePosY c ≤ a.F.NodePosY c

/-- The cache is well formed: its keys are pairwise different and none of
them is the keep-still node. -/
def CacheOk (S : FEdGraphParameterFormatter) : Prop :=
  (S.NodeOffsets.map Prod.fst).Nodup ∧ ∀ k ∈ S.NodeOffsets.map Prod.fst, S.NodeToKeepStill ≠ some k

/-- Each node of the list but the last has exactly one counted input-side
node, the next node of the list. -/
def HelixChain (G : FBAGraph) (S : FEdGraphParameterFormatter) (V : List Nat) : Prop :=
  ∀ i, i + 1 < V.length → LinkedToNodesInput G S (V.getD i 0) = [V.getD (i + 1) 0]

/-- The invariant of the loop of `DoesHelixingApply` for the shape of the
traversal: the visited nodes are a chain from the root; either the last of
them is the only queued node and the gathered nodes are the visited nodes
after the root, or the queue is empty and the gathered nodes are these and
the counted input-side nodes of the last visited node. -/
def HelixLine (G : FBAGraph) (S : FEdGraphParameterFormatter) (Root : Nat) (st : HelixState) : Prop :=
  st.VisitedNodes.head? = some Root ∧ HelixChain G S st.VisitedNodes
    ∧ ((st.NodeQueue = [st.VisitedNodes.getLastD Root]
          ∧ ∀ g, g ∈ st.GatheredInputNodes ↔ g ∈ st.VisitedNodes.tail)
      ∨ (st.NodeQueue = []
          ∧ ∀ g, g ∈ st.GatheredInputNodes ↔ g ∈ st.VisitedNodes.tail
              ∨ g ∈ LinkedToNodesInput G S (st.VisitedNodes.getLastD Root)))

/-- The measure of the loop of `DoesHelixingApply`: the pin owners not yet
visited and the queued nodes. -/
def helixMeasure (G : FBAGraph) (st : HelixState) : Nat :=
  unvisitedOwners G st.VisitedNodes + st.NodeQueue.length

/-- A recursive call of `FormatY` under observation: a call made with
`bSameRow = true` is recorded, before it runs, as the link from its parent pin
to its own pin at the end of `SameRowMapping`, a field that `FormatY` neither
reads nor writes. -/
def FormatYRecord
    (recurse : Nat → Option Nat → Option Nat → Bool →
      FEdGraphParameterFormatter × List Nat × List Nat → FEdGraphParameterFormatter × List Nat × List Nat)
    (c : Nat) (cp pp : Option Nat) (b : Bool) (acc : FEdGraphParameterFormatter × List Nat × List Nat) :
    FEdGraphParameterFormatter × List Nat × List Nat :=
  if b then
    recurse c cp pp b
      ({ acc.1 with SameRowMapping := acc.1.SameRowMapping ++ [({ From := pp, To := cp, Node := c }, true)] },
        acc.2)
  else recurse c cp pp b acc

/-- `FormatY` with each of its recursive calls under observation. -/
def FormatYRecorded (G : FBAGraph) : Nat → Nat → Option Nat → Option Nat → Bool →
    FEdGraphParameterFormatter × List Nat × List Nat → FEdGraphParameterFormatter × List Nat × List Nat
  | 0 => fun _ _ _ _ acc => acc
  | fuel + 1 => FormatYBody G (FormatYRecord (FormatYRecorded G fuel))

/-- The pairs (From pin, To pin) of the links of a mapping. -/
def rowsOf (m : List (FPinLink × Bool)) : List (Nat × Nat) :=
  m.map (fun e => (e.1.From.getD 0, e.1.To.getD 0))

/-- The pairs (parent-side pin, child-side pin) for which the `FormatY` of
the slow path, called on the formatter `S` as `FormatNode` calls it, passes
`bSameRow = true` to the recursive call for the child. -/
def FormatYRows (G : FBAGraph) (S : FEdGraphParameterFormatter) : List (Nat × Nat) :=
  rowsOf (FormatYRecorded G (G.Pins.length + 2) (S.RootNode.getD 0) none none false
    ({ S with SameRowMapping := [] }, [], [])).1.SameRowMapping

/-- The pairs of pins that the mapping marks true. -/
def MarkedRows (m : List (FPinLink × Bool)) : List (Nat × Nat) :=
  (m.filter (fun e => e.2)).map (fun e => (e.1.From.getD 0, e.1.To.getD 0))

/-- The nodes that have an entry in the map. -/
def mapKeys (m : List (Nat × Nat)) : List Nat := m.map Prod.fst

/-- Every record is for a node that has an entry in `NodeInfoMap`, the
children of a record are records, and the entries of the map are records. -/
def KeysOk (S : FEdGraphParameterFormatter) : Prop :=
  ValidInfos S.Infos (mapKeys S.NodeInfoMap)
    ∧ ∀ k i, mapFind S.NodeInfoMap k = some i → i < S.Infos.length

/-- The invariant of the loop of `FormatX` for the lookups in `NodeInfoMap`:
the records and the map fit together, and the pin a queued link comes from is
owned by a node that has an entry in the map. -/
def FXKeyed (G : FBAGraph) (st : FormatXState) : Prop :=
  KeysOk st.F ∧ ∀ l ∈ st.InputQueue ++ st.OutputQueue, ∀ p, l.From = some p →
    mapContains st.F.NodeInfoMap (G.OwningNode p) = true

/-- The states in which the loop of `FormatX`, called on the formatter `S`,
starts an iteration (or ends): the output pass starts with the root link, an
iteration leads to the next state, and the input pass starts from a state of
the output pass with empty queues. -/
inductive FormatXReached (G : FBAGraph) (S : FEdGraphParameterFormatter) :
    EEdGraphPinDirection → FormatXState → Prop where
  | output : FormatXReached G S EGPD_Output (FormatXPassInit (FormatXInit S) EGPD_Output)
  | step (d : EEdGraphPinDirection) (st : FormatXState) :
      FormatXReached G S d st → FormatXReached G S d (FormatXStep G d st)
  | input (st : FormatXState) : FormatXReached G S EGPD_Output st →
      st.InputQueue = [] → st.OutputQueue = [] →
      FormatXReached G S EGPD_Input (FormatXPassInit st EGPD_Input)

/-- A recursive call of `FormatY` that enters only nodes with an entry in
the map of `S0`, when called for such a node on a formatter that differs from
`S0` in the positions only. -/
def RecKeyed (S0 : FEdGraphParameterFormatter)
    (recurse : Nat → Option Nat → Option Nat → Bool →
      FEdGraphParameterFormatter × List Nat × List Nat → FEdGraphParameterFormatter × List Nat × List Nat) :
    Prop :=
  ∀ c cp pp b acc, restOf acc.1 = restOf S0 → mapContains S0.NodeInfoMap c = true →
    (∀ v ∈ acc.2.1, mapContains S0.NodeInfoMap v = true) →
    ∀ v ∈ (recurse c cp pp b acc).2.1, mapContains S0.NodeInfoMap v = true

/-- The condition `bApplyHelixing` of `ProcessSameRowMapping` and `FormatY`
for the node `n`. -/
def Helixed (S : FEdGraphParameterFormatter) (n : Nat) : Bool :=
  S.bFormatWithHelixing && decide (n ∈ S.FormattedInputNodes)

/-- The formatters agree on what the traversals of the row analysis and of
the vertical placement read besides the graph: the root, the ignored nodes,
the nodes that helixing applies to, the map and the records. -/
def SameTree (A B : FEdGraphParameterFormatter) : Prop :=
  B.RootNode = A.RootNode ∧ B.IgnoredNodes = A.IgnoredNodes
    ∧ (∀ n, Helixed B n = Helixed A n)
    ∧ B.NodeInfoMap = A.NodeInfoMap ∧ B.Infos = A.Infos

/-- The mapping `M` marks exactly the pairs of the record `L`, each in both
orders. -/
def RowsAgree (G : FBAGraph) (L M : List (FPinLink × Bool)) : Prop :=
  ∀ p q, RowMarked G M p q ↔ ((p, q) ∈ rowsOf L ∨ (q, p) ∈ rowsOf L)

/-- The simulation of a recursive call of the observed `FormatY` by the
recursive call of `ProcessSameRowMapping` for the same node, on formatters
that agree with `S0`: the visited sets stay equal and the mapping keeps
marking exactly the recorded pairs. -/
def RecRows (G : FBAGraph) (S0 : FEdGraphParameterFormatter) (r : Nat)
    (recY : Nat → Option Nat → Option Nat → Bool →
      FEdGraphParameterFormatter × List Nat × List Nat → FEdGraphParameterFormatter × List Nat × List Nat)
    (recP : Nat → Option Nat → Option Nat → List (FPinLink × Bool) × List Nat →
      List (FPinLink × Bool) × List Nat) : Prop :=
  ∀ c cp pp b F V O M, SameTree S0 F → RowsAgree G F.SameRowMapping M → (c = r ∨ r ∈ V) →
    (recY c cp pp b (F, V, O)).2.1 = (recP c cp pp (M, V)).2
      ∧ SameTree S0 (recY c cp pp b (F, V, O)).1
      ∧ RowsAgree G (recY c cp pp b (F, V, O)).1.SameRowMapping (recP c cp pp (M, V)).1
      ∧ (r ∈ V → r ∈ (recY c cp pp b (F, V, O)).2.1)

/-- The loop states of a call of the observed `FormatY` and of the call of
`ProcessSameRowMapping` for the same node, at the same pair of pins. -/
def YRows (G : FBAGraph) (S0 : FEdGraphParameterFormatter) (r : Nat) (a : FormatYState)
    (s : SameRowState) : Prop :=
  SameTree S0 a.F ∧ a.VisitedNodes = s.VisitedNodes ∧ a.bFirstPin = s.bFirstPin
    ∧ RowsAgree G a.F.SameRowMapping s.SameRowMapping ∧ r ∈ a.VisitedNodes

/-- The formatter with another formatted set. -/
def withAFN (S : FEdGraphParameterFormatter) (L : List Nat) : FEdGraphParameterFormatter :=
  { S with AllFormattedNodes := L }

/-- The loop state of `FormatX` with another formatted set. -/
def stateAFN (st : FormatXState) (L : List Nat) : FormatXState :=
  { st with F := withAFN st.F L }

/-- The formatter with another row mapping. -/
def withRows (S : FEdGraphParameterFormatter) (m : List (FPinLink × Bool)) : FEdGraphParameterFormatter :=
  { S with SameRowMapping := m }

/-- The loop state of `FormatY` with another row mapping. -/
def stateRows (a : FormatYState) (m : List (FPinLink × Bool)) : FormatYState :=
  { a with F := withRows a.F m }

/-- The observed recursive call `recR` does what the recursive call `recP`
does, but for the row mapping. -/
def RecErase
    (recR recP : Nat → Option Nat → Option Nat → Bool →
      FEdGraphParameterFormatter × List Nat × List Nat → FEdGraphParameterFormatter × List Nat × List Nat) :
    Prop :=
  ∀ c cp pp b S m V O, ∃ m',
    recR c cp pp b (withRows S m, V, O)
      = (withRows (recP c cp pp b (S, V, O)).1 m', (recP c cp pp b (S, V, O)).2)

/-- The position map moved by `d`. -/
def shiftF (X : Nat → Int) (d : Int) : Nat → Int := fun n => X n + d

/-- The formatter with every X position moved by `d`. -/
def shiftX (S : FEdGraphParameterFormatter) (d : Int) : FEdGraphParameterFormatter :=
  { S with NodePosX := shiftF S.NodePosX d }

/-- The loop state of `FormatX` with every X position moved by `d`. -/
def stateShift (st : FormatXState) (d : Int) : FormatXState :=
  { st with F := shiftX st.F d }

/-! ## The numeric steps in binary32

The steps of the source that compute with `float` values, with the
conversions and roundings of the source at each operation.  A rectangle of
binary32 values is an `FSlateRect` whose fields hold the values as multiples
of `2^-149`. -/

/-- `FVector2D`, two binary32 components; the type of the member `Padding`
of the formatter (line 26), which the definitions below take as an
argument. -/
structure FVector2D where
  X : Int
  Y : Int

/-- `FSlateRect::ExtendBy` with the margin `(Left, Top, Right, Bottom)` of
binary32 values. -/
def FSlateRect.ExtendBy32 (R : FSlateRect) (l t r b : Int) : FSlateRect :=
  { Left := fsub R.Left l, Top := fsub R.Top t, Right := fadd R.Right r, Bottom := fadd R.Bottom b }

/-- Modelled from the spec: `FMath::RoundToInt`, "rounded to the nearest
integer coordinate" (a half goes up). -/
def RoundToInt (a : Int) : Int := (2 * a + F32One) / (2 * F32One)

/-- `FEdGraphParameterFormatter::GetChildX` (lines 740-761) in binary32:
`float NewNodePos` from the `float` bounds, `FMath::Max(1.0f, Padding.X)`,
and `FMath::RoundToInt` at the return. -/
def GetChildX32 (G : FBAGraph) (S : FEdGraphParameterFormatter) (Padding : FVector2D)
    (Link : FPinLink) (Direction : EEdGraphPinDirection) : Int :=
  let Parent := G.OwningNode (Link.From.getD 0)
  let Child := G.OwningNode (Link.To.getD 0)
  let ParentBounds := GetCachedNodeBounds32 G S Parent
  let ChildBounds := GetCachedNodeBounds32 G S Child
  let NewNodePos :=
    if Direction = EGPD_Input then
      fsub (fsub ParentBounds.Left (fsub ChildBounds.Right ChildBounds.Left)) (max F32One Padding.X)
    else
      fadd ParentBounds.Right (max F32One Padding.X)
  RoundToInt NewNodePos

/-- The collision loop of `FormatY` (lines 570-622) in binary32, at most `n`
rounds (100 in the source).  A round scans the visited nodes; the first one
whose padded bounds intersect those of the current node pushes the current
node: `const float Delta = OtherBounds.Bottom - MyBounds.Top` and
`CurrentNode->NodePosY += Delta + 1`, a binary32 sum truncated by the
assignment.  The second component is `bNoCollision` when the loop is left:
`true` when a scan found no intersection (the `break` of line 620), `false`
when the rounds are used up. -/
def FormatYCollision32 (G : FBAGraph) (Padding : FVector2D) (CurrentNode : Nat)
    (VisitedNodes : List Nat) : Nat → FEdGraphParameterFormatter → FEdGraphParameterFormatter × Bool
  | 0, S => (S, false)
  | n + 1, S =>
    let MyBounds := GetCachedNodeBounds32 G S CurrentNode
    match VisitedNodes.find? (fun v => v != CurrentNode &&
        DoRectanglesIntersect (MyBounds.ExtendBy32 0 0 0 Padding.Y)
          ((GetCachedNodeBounds32 G S v).ExtendBy32 0 0 0 Padding.Y)) with
    | none => (S, true)
    | some v =>
      let OtherBounds := (GetCachedNodeBounds32 G S v).ExtendBy32 0 0 0 Padding.Y
      let Delta := fsub OtherBounds.Bottom MyBounds.Top
      FormatYCollision32 G Padding CurrentNode VisitedNodes n
        (withPosY S CurrentNode
          (toInt32 (fadd (ofInt32 (S.NodePosY CurrentNode)) (fadd Delta F32One))))

/-- The binary32 quotient of the non-negative binary32 value `a` by the count
`n`, rounded to nearest, ties to even: the quotient is cut to a multiple of
`2^-151` with the rest remembered in its last bit, and rounded from there to
24 significant bits, or to a multiple of `2^-149` for the smallest values. -/
def fdivNat (a n : Nat) : Nat :=
  let t := 2 * ((2 * a) / n) + (if (2 * a) % n = 0 then 0 else 1)
  if 2 ^ 25 ≤ t then roundNat t / 4
  else if 2 < t % 4 ∨ (t % 4 = 2 ∧ (t / 4) % 2 = 1) then t / 4 + 1 else t / 4

/-- The binary32 quotient of a binary32 value by a count (a positive `int32`
converted without rounding error). -/
def fdiv (a : Int) (n : Nat) : Int :=
  if a < 0 then -((fdivNat a.natAbs n : Nat) : Int) else ((fdivNat a.natAbs n : Nat) : Int)

/-- Modelled from the spec: `FBAGraphHandler::GetPinY` as the `float` it
returns, the top of the node plus the offset of the pin. -/
def GetPinY32 (G : FBAGraph) (S : FEdGraphParameterFormatter) (p : Nat) : Int :=
  fadd (ofInt32 (S.NodePosY (G.OwningNode p))) (ofInt32 (G.pin p).OffsetY)

/-- Modelled from the spec: `FBAUtils::GetCenterYOfPins`, "the average Y" of
the pins as a `float`: the binary32 sum of the pin heights in the order of
the list, divided by their number (0 for no pin). -/
def GetCenterYOfPins32 (G : FBAGraph) (S : FEdGraphParameterFormatter) (Pins : List Nat) : Int :=
  if Pins = [] then 0
  else fdiv (Pins.foldl (fun acc p => fadd acc (GetPinY32 G S p)) 0) Pins.length

/-- Modelled from the spec: `FBAUtils::GetCachedNodeArrayBounds` with the
`float` fields of `FSlateRect`, the union of the nodes' bounds (the zero
rectangle for no node). -/
def GetCachedNodeArrayBounds32 (G : FBAGraph) (S : FEdGraphParameterFormatter) (ns : List Nat) :
    FSlateRect :=
  match ns with
  | [] => { Left := 0, Top := 0, Right := 0, Bottom := 0 }
  | n :: r => r.foldl (fun acc m => acc.union (GetCachedNodeBounds32 G S m)) (GetCachedNodeBounds32 G S n)

/-- The first loop of `CenterBranches` (lines 990-1001) in binary32:
`const float Offset = ParentCenter - ChildrenCenter` and
`Child->NodePosY += Offset` for every node of every branch, a binary32 sum
truncated by the assignment. -/
def CenterOffsetBranches32 (G : FBAGraph) (S : FEdGraphParameterFormatter)
    (ChildBranches : List ChildBranch) : FEdGraphParameterFormatter :=
  let ChildrenCenter := GetCenterYOfPins32 G S (ChildBranches.map (fun b => b.Pin))
  let ParentCenter := GetCenterYOfPins32 G S (ChildBranches.map (fun b => b.ParentPin))
  let Offset := fsub ParentCenter ChildrenCenter
  (ChildBranches.flatMap (fun b => b.BranchNodes)).foldl (fun (a : FEdGraphParameterFormatter) c =>
    withPosY a c (toInt32 (fadd (ofInt32 (a.NodePosY c)) Offset))) S

/-- The body of the collision loop of `CenterBranches` (lines 1011-1024) in
binary32 for one visited node: `OffsetY = Bounds.Bottom - AllNodesBounds.Top`
and `AllNodesBounds.OffsetBy(FVector2D(0, OffsetY))`. -/
def CenterCollide32 (G : FBAGraph) (S1 : FEdGraphParameterFormatter) (Padding : FVector2D)
    (AllNodes : List Nat) (B : FSlateRect) (n : Nat) : FSlateRect :=
  if n ∈ AllNodes then B
  else
    let Bounds := (GetCachedNodeBounds32 G S1 n).ExtendBy32 0 Padding.Y 0 Padding.Y
    if DoRectanglesIntersect Bounds B then
      let OffsetY := fsub Bounds.Bottom B.Top
      { Left := fadd B.Left 0, Top := fadd B.Top OffsetY, Right := fadd B.Right 0,
        Bottom := fadd B.Bottom OffsetY }
    else B

/-- The collision loop of `CenterBranches` in binary32:
`const float DeltaY = AllNodesBounds.Top - InitialTop`. -/
def CenterDeltaY32 (G : FBAGraph) (S1 : FEdGraphParameterFormatter) (Padding : FVector2D)
    (AllNodes : List Nat) (NodesToCollisionCheck : List Nat) : Int :=
  let AllNodesBounds := GetCachedNodeArrayBounds32 G S1 AllNodes
  let InitialTop := AllNodesBounds.Top
  let Final := NodesToCollisionCheck.foldl (CenterCollide32 G S1 Padding AllNodes) AllNodesBounds
  fsub Final.Top InitialTop

/-- `FEdGraphParameterFormatter::CenterBranches` (lines 969-1033) in binary32;
the last loop is `Node->NodePosY += DeltaY` for the branch nodes and the
current node. -/
def CenterBranches32 (G : FBAGraph) (S : FEdGraphParameterFormatter) (Padding : FVector2D)
    (CurrentNode : Nat) (ChildBranches : List ChildBranch) (NodesToCollisionCheck : List Nat) :
    FEdGraphParameterFormatter :=
  let S1 := CenterOffsetBranches32 G S ChildBranches
  let AllNodes := ChildBranches.flatMap (fun b => b.BranchNodes) ++ [CurrentNode]
  let DeltaY := CenterDeltaY32 G S1 Padding AllNodes NodesToCollisionCheck
  if DeltaY != 0 then
    AllNodes.foldl (fun (a : FEdGraphParameterFormatter) n =>
      withPosY a n (toInt32 (fadd (ofInt32 (a.NodePosY n)) DeltaY))) S1
  else S1

/-- The whole numbers between which the offset of `CenterBranches` lies: the
sums `P` and `C` of the heights of the parent pins and of the child pins,
divided by their number and rounded down and up. -/
def centerLo (P C : Int) (n : Nat) : Int := P / (n : Int) + (-C) / (n : Int)

/-- The upper one of the two bounds of the offset. -/
def centerHi (P C : Int) (n : Nat) : Int := -((-P) / (n : Int)) - C / (n : Int)

/-- A parent N (node 0, 100 by 200) with three input pins at the offsets 20,
40 and 43, fed by the output pins (offset 10) of the nodes 1, 2 and 3 (60, 61
and 60 high); centering from two branches. -/
def triGraph : FBAGraph :=
  { Nodes := [exNode [0, 1, 2] 100 200, exNode [3] 100 60, exNode [4] 100 61, exNode [5] 100 60],
    Pins := [exPin 0 EGPD_Input [3] 20, exPin 0 EGPD_Input [4] 40, exPin 0 EGPD_Input [5] 43,
      exPin 1 EGPD_Output [0] 10, exPin 2 EGPD_Output [1] 10, exPin 3 EGPD_Output [2] 10],
    Settings := fanSettings, OverrideFormattingStyle := none,
    FilterSelectiveFormatting := fun _ => true }

/-- The three branches of `triGraph`. -/
def triBranches : List ChildBranch := [mkBranch 3 0 [1], mkBranch 4 1 [2], mkBranch 5 2 [3]]

/-- The start positions of a run on `triGraph`, the root at (500, 200). -/
def triPosX (n : Nat) : Int := [500, 7, 300, 0].getD n 0

def triPosY (n : Nat) : Int := [200, 9, 300, 0].getD n 0

/-- The positions of the nodes of `triGraph` when `FormatY` calls
`CenterBranches` for N in the run from `triPosX`, `triPosY`: each child
straightened on its pin and pushed below the child before it. -/
def triPreX (n : Nat) : Int := [500, 360, 360, 360].getD n 0

def triPreY (n : Nat) : Int := [200, 210, 296, 383].getD n 0

/-- The rectangle of whole numbers as a rectangle of binary32 values. -/
def FSlateRect.scale (R : FSlateRect) : FSlateRect :=
  { Left := R.Left * F32One, Top := R.Top * F32One, Right := R.Right * F32One,
    Bottom := R.Bottom * F32One }

/-- The position and the size of the node are whole numbers of magnitude at
most `B`. -/
def NodeWithin (G : FBAGraph) (S : FEdGraphParameterFormatter) (B : Int) (n : Nat) : Prop :=
  -B ≤ S.NodePosX n ∧ S.NodePosX n ≤ B ∧ -B ≤ S.NodePosY n ∧ S.NodePosY n ≤ B
    ∧ -B ≤ (G.node n).SizeX ∧ (G.node n).SizeX ≤ B ∧ -B ≤ (G.node n).SizeY ∧ (G.node n).SizeY ≤ B

/-- Two nodes 100 wide and 80 high without pins. -/
def pairGraph : FBAGraph :=
  exGraph [exNode [] 100 80, exNode [] 100 80] [] EBAParameterFormattingStyle.LeftSide

/-- The padding (40, 25). -/
def exPadding : FVector2D := { X := 40 * F32One, Y := 25 * F32One }

/-- The two nodes of `pairGraph` above `2^24`: V at Y 16777136 (bottom
16777216, padded bottom 16777241) and the current node at Y 16777230. -/
def pairBigY (n : Nat) : Int := [16777136, 16777230].getD n 0

/-- The two nodes of `pairGraph` at small coordinates: V at Y 100 (padded
bottom 205) and the current node at Y 150. -/
def pairSmallY (n : Nat) : Int := [100, 150].getD n 0

/-- The state of `pairGraph` with both nodes at X 500 and the given Y. -/
def pairState (Y : Nat → Int) : FEdGraphParameterFormatter :=
  FEdGraphParameterFormatter.new (some 0) none [] (fun _ => 500) Y

/-- A link from pin 0 of the parent R (node 0, 100 wide) to pin 1 of the
child A (node 1, 120 wide). -/
def linkGraph : FBAGraph :=
  exGraph [exNode [0] 100 80, exNode [1] 120 60]
    [exPin 0 EGPD_Input [1] 30, exPin 1 EGPD_Output [0] 10] EBAParameterFormattingStyle.LeftSide

/-- The range in which the binary32 arithmetic of the collision loop of
`FormatY` for the node `c` against the visited nodes `V` is exact: the
padding `p`, the positions and the sizes are whole numbers of magnitude at
most `2^21`, the Y of `c` of magnitude at most `2^23`. -/
def CollisionWithin (G : FBAGraph) (S : FEdGraphParameterFormatter) (p : Int) (c : Nat)
    (V : List Nat) : Prop :=
  -2097152 ≤ p ∧ p ≤ 2097152
    ∧ -2097152 ≤ S.NodePosX c ∧ S.NodePosX c ≤ 2097152
    ∧ -8388608 ≤ S.NodePosY c ∧ S.NodePosY c ≤ 8388608
    ∧ -2097152 ≤ (G.node c).SizeX ∧ (G.node c).SizeX ≤ 2097152
    ∧ -2097152 ≤ (G.node c).SizeY ∧ (G.node c).SizeY ≤ 2097152
    ∧ ∀ v ∈ V, v ≠ c → NodeWithin G S 2097152 v

/-- The range in which the binary32 arithmetic of `CenterBranches` is followed
with whole numbers: the padding `p`, the positions and the sizes of the
branch nodes, of the current node `c` and of the nodes to check, and the
offsets of the pins of the branches are whole numbers of magnitude at most
`2^19`; the pins of the branches are at heights of magnitude at most `M`, and
`M` times the number of branches is at most `2^24`. -/
def CenterWithin (G : FBAGraph) (S : FEdGraphParameterFormatter) (p : Int) (c : Nat)
    (bs : List ChildBranch) (V : List Nat) (M : Int) : Prop :=
  -524288 ≤ p ∧ p ≤ 524288
    ∧ (∀ n, (n ∈ bs.flatMap (fun b => b.BranchNodes) ∨ n = c ∨ n ∈ V) → NodeWithin G S 524288 n)
    ∧ (∀ b ∈ bs, -524288 ≤ (G.pin b.Pin).OffsetY ∧ (G.pin b.Pin).OffsetY ≤ 524288
      ∧ -524288 ≤ (G.pin b.ParentPin).OffsetY ∧ (G.pin b.ParentPin).OffsetY ≤ 524288)
    ∧ (∀ b ∈ bs, -M ≤ GetPinY G S b.Pin ∧ GetPinY G S b.Pin ≤ M
      ∧ -M ≤ GetPinY G S b.ParentPin ∧ GetPinY G S b.ParentPin ≤ M)
    ∧ M ≤ 1048576 ∧ (bs.length : Int) * M ≤ 16777216

/-- Positions and sizes of magnitude at most `B`: the bounds of the rectangle
that they give. -/
def RectWithin (R : FSlateRect) (B : Int) : Prop :=
  -B ≤ R.Left ∧ R.Left ≤ B ∧ -B ≤ R.Top ∧ R.Top ≤ B
    ∧ -(2 * B) ≤ R.Right ∧ R.Right ≤ 2 * B ∧ -(2 * B) ≤ R.Bottom ∧ R.Bottom ≤ 2 * B

/-! ## The slow path in binary32

The two traversals and the orchestration of `FormatNode` with every `float`
step of the source computed in binary32.  The definitions follow those of the
sections above line by line; the steps without arithmetic (the queues, the
records, the row analysis) are shared with them. -/

/-- Modelled from the spec: the placement of one child record in
`FNodeInfo::MoveChildren`, with the numeric policy of `GetChildX` in
binary32. -/
def MoveChild32 (G : FBAGraph) (Padding : FVector2D) (Infos : List FNodeInfo) (ParentNode : Nat)
    (a : (Nat → Int) × List Nat) (c : Nat) : (Nat → Int) × List Nat :=
  let C := (getInfo Infos c).Node
  if C ∈ a.2 then a
  else
    let x := if (getInfo Infos c).Direction = EGPD_Input
      then RoundToInt (fsub (fsub (ofInt32 (a.1 ParentNode)) (ofInt32 (G.node C).SizeX))
        (max F32One Padding.X))
      else RoundToInt (fadd (fadd (ofInt32 (a.1 ParentNode)) (ofInt32 (G.node ParentNode).SizeX))
        (max F32One Padding.X))
    (setPos a.1 C x, a.2 ++ [C])

/-- Modelled from the spec: `FNodeInfo::MoveChildren` with the placement of
`MoveChild32`. -/
def MoveChildren32 (G : FBAGraph) (Padding : FVector2D) (Infos : List FNodeInfo) :
    Nat → List Nat → (Nat → Int) × List Nat → (Nat → Int) × List Nat
  | 0, _, acc => acc
  | _ + 1, [], acc => acc
  | fuel + 1, i :: rest, acc =>
    let I := getInfo Infos i
    let acc1 := I.Children.foldl (MoveChild32 G Padding Infos I.Node) acc
    let fresh := I.Children.filter (fun c => decide ((getInfo Infos c).Node ∉ acc.2))
    MoveChildren32 G Padding Infos fuel (fresh ++ rest) acc1

/-- The X coordinate `FormatX` computes for the node of a dequeued link:
`GetChildX` against the parent, or `Helixed` when helixing applies to the
node. -/
def FormatXNewNodePos32 (G : FBAGraph) (Padding : FVector2D) (S1 : FEdGraphParameterFormatter)
    (CurrentPinLink : FPinLink) (Helixed : Int) : Int :=
  let CurrentNode := CurrentPinLink.GetNode G
  let ParentDirection := (G.pin (CurrentPinLink.From.getD 0)).Direction
  let bApplyHelixing := S1.bFormatWithHelixing && decide (CurrentNode ∈ S1.FormattedInputNodes)
  if bApplyHelixing then Helixed else GetChildX32 G S1 Padding CurrentPinLink ParentDirection

/-- The decision `bTakeNewParent` of `FormatX` (lines 380-400) with the guards
around it. -/
def FormatXTakeNewParent32 (G : FBAGraph) (Padding : FVector2D) (S1 : FEdGraphParameterFormatter)
    (CurrentPinLink : FPinLink) (CurrentInfo : Nat) : Bool :=
  let CurrentNode := CurrentPinLink.GetNode G
  let ParentPin := CurrentPinLink.From
  let MyPin := CurrentPinLink.To
  let ParentNode : Option Nat := ParentPin.map G.OwningNode
  let ParentDirection := (G.pin (ParentPin.getD 0)).Direction
  let bApplyHelixing := S1.bFormatWithHelixing && decide (CurrentNode ∈ S1.FormattedInputNodes)
  let NewNodePos := FormatXNewNodePos32 G Padding S1 CurrentPinLink (S1.NodePosX CurrentNode)
  let bNewLocationIsBetter := (if ParentDirection = EGPD_Input
    then decide (NewNodePos < S1.NodePosX CurrentNode)
    else decide (NewNodePos > S1.NodePosX CurrentNode)) || bApplyHelixing
  let bSameDirection := (getInfo S1.Infos CurrentInfo).Direction == ParentDirection
  let bTakeNewParent := bNewLocationIsBetter && bSameDirection
  ParentPin.isSome && MyPin.isSome && ParentNode != GetParentNode S1.Infos CurrentInfo && bTakeNewParent

/-- The branch of `FormatX` for a dequeued node that already has a record
(lines 378-422). -/
def FormatXReparent32 (G : FBAGraph) (Padding : FVector2D) (S1 : FEdGraphParameterFormatter)
    (CurrentPinLink : FPinLink) (ParentInfo : Option Nat) (CurrentInfo : Nat) :
    FEdGraphParameterFormatter :=
  let CurrentNode := CurrentPinLink.GetNode G
  if FormatXTakeNewParent32 G Padding S1 CurrentPinLink CurrentInfo then
    let NewNodePos := FormatXNewNodePos32 G Padding S1 CurrentPinLink (S1.NodePosX CurrentNode)
    let X1 := setPos S1.NodePosX CurrentNode NewNodePos
    let Infos1 := SetParent S1.Infos CurrentInfo ParentInfo CurrentPinLink.To
    let X2 := (MoveChildren32 G Padding Infos1 (Infos1.length + 1) [CurrentInfo] (X1, [])).1
    withXInfos S1 X2 Infos1
  else S1

/-- The branch of `FormatX` for a dequeued node without a record (lines
423-474): the node is placed against its parent and gets a record. -/
def FormatXCreate32 (G : FBAGraph) (Padding : FVector2D) (InitialDirection : EEdGraphPinDirection)
    (S1 : FEdGraphParameterFormatter) (CurrentPinLink : FPinLink) (ParentInfo : Option Nat) :
    FEdGraphParameterFormatter :=
  let CurrentNode := CurrentPinLink.GetNode G
  let ParentNode : Option Nat := CurrentPinLink.From.map G.OwningNode
  let S2 :=
    if S1.RootNode != some CurrentNode then
      let S1a := FormatXMarkSide G InitialDirection S1 CurrentPinLink
      withPlaced S1a CurrentNode
        (FormatXNewNodePos32 G Padding S1a CurrentPinLink (S1a.NodePosX (ParentNode.getD 0)))
    else withFormatted S1 CurrentNode
  FormatXAddInfo G InitialDirection S2 CurrentPinLink ParentInfo

/-- The part of the body of the `while` loop of `FormatX` that handles the
dequeued link, up to the enqueue loops. -/
def FormatXVisit32 (G : FBAGraph) (Padding : FVector2D) (InitialDirection : EEdGraphPinDirection)
    (st : FormatXState) (CurrentPinLink : FPinLink) : FormatXState :=
  let S0 := st.F
  let CurrentNode := CurrentPinLink.GetNode G
  let ParentInfo : Option Nat :=
    CurrentPinLink.From.bind (fun p => mapFind S0.NodeInfoMap (G.OwningNode p))
  let bRemove := mapContains S0.NodeInfoMap CurrentNode && S0.RootNode != some CurrentNode
    && decide (CurrentNode ∈ st.TempOutput) && InitialDirection == EGPD_Input
  let S1 := if bRemove then withMap S0 (mapRemove S0.NodeInfoMap CurrentNode) else S0
  let TempOutput1 := if bRemove then st.TempOutput.filter (fun n => n != CurrentNode) else st.TempOutput
  match mapFind S1.NodeInfoMap CurrentNode with
  | some CurrentInfo =>
    { st with F := FormatXReparent32 G Padding S1 CurrentPinLink ParentInfo CurrentInfo,
              TempOutput := TempOutput1 }
  | none =>
    let TempOutput2 := if InitialDirection == EGPD_Output then TempOutput1 ++ [CurrentNode] else TempOutput1
    { st with F := FormatXCreate32 G Padding InitialDirection S1 CurrentPinLink ParentInfo,
              TempOutput := TempOutput2 }

/-- One iteration of the `while` loop of `FormatX`: dequeue (from the queue of
the initial direction when it is not empty), visit, enqueue. -/
def FormatXStep32 (G : FBAGraph) (Padding : FVector2D) (InitialDirection : EEdGraphPinDirection)
    (st : FormatXState) : FormatXState :=
  let pick : Option (FPinLink × List FPinLink × List FPinLink) :=
    if InitialDirection = EGPD_Input then
      match st.InputQueue, st.OutputQueue with
      | l :: r, o => some (l, r, o)
      | [], l :: r => some (l, [], r)
      | [], [] => none
    else
      match st.OutputQueue, st.InputQueue with
      | l :: r, i => some (l, i, r)
      | [], l :: r => some (l, r, [])
      | [], [] => none
  match pick with
  | none => st
  | some (CurrentPinLink, iq, oq) =>
    let st1 := FormatXVisit32 G Padding InitialDirection { st with InputQueue := iq, OutputQueue := oq }
      CurrentPinLink
    let CurrentNode := CurrentPinLink.GetNode G
    (FormatXLinks G st1.F InitialDirection CurrentNode).foldl
      (fun a pq => FormatXEnqueue G CurrentNode a pq.1 pq.2) st1

/-- The `while` loop of `FormatX`; `none` when the fuel runs out before both
queues are empty. -/
def FormatXLoop32 (G : FBAGraph) (Padding : FVector2D) (InitialDirection : EEdGraphPinDirection) :
    Nat → FormatXState → Option FormatXState
  | 0, st => if st.InputQueue.isEmpty && st.OutputQueue.isEmpty then some st else none
  | fuel + 1, st =>
    if st.InputQueue.isEmpty && st.OutputQueue.isEmpty then some st
    else FormatXLoop32 G Padding InitialDirection fuel (FormatXStep32 G Padding InitialDirection st)

/-- `FormatX` with an explicit bound on the iterations of each pass. -/
def FormatXFuel32 (G : FBAGraph) (Padding : FVector2D) (fuel : Nat) (S : FEdGraphParameterFormatter) :
    Option FormatXState :=
  (FormatXLoop32 G Padding EGPD_Output fuel (FormatXPassInit (FormatXInit S) EGPD_Output)).bind
    (fun st => FormatXLoop32 G Padding EGPD_Input fuel (FormatXPassInit st EGPD_Input))

/-- `FEdGraphParameterFormatter::FormatX` with `GetChildX` in binary32; the
bound on the dequeues of a pass is that of `FormatX`. -/
def FormatX32 (G : FBAGraph) (Padding : FVector2D) (S : FEdGraphParameterFormatter) :
    FEdGraphParameterFormatter :=
  match FormatXFuel32 G Padding (numPinLinks G + 1) S with
  | some st => st.F
  | none => S

/-- The height `GetCachedNodeBounds(...).GetSize().Y` of a node as a
`float`. -/
def NodeHeight32 (G : FBAGraph) (S : FEdGraphParameterFormatter) (n : Nat) : Int :=
  fsub (GetCachedNodeBounds32 G S n).Bottom (GetCachedNodeBounds32 G S n).Top

/-- `FEdGraphParameterFormatter::DoesHelixingApply` with the heights of lines
205-223 as `float` values: `float TotalHeight`, `TotalHeight += NodeHeight`,
and the two limits of the settings converted for the comparison. -/
def DoesHelixingApply32 (G : FBAGraph) (S : FEdGraphParameterFormatter) : Bool :=
  let FormattingStyleToUse := match G.OverrideFormattingStyle with
    | some o => o
    | none => G.Settings.ParameterStyle
  if FormattingStyleToUse != EBAParameterFormattingStyle.Helixing then false
  else
    let Root := S.RootNode.getD 0
    match DoesHelixingApplyLoop G S Root (G.Pins.length + 1)
        { VisitedNodes := [Root], NodeQueue := [Root], GatheredInputNodes := [] } with
    | none => false
    | some none => false
    | some (some st) =>
      if G.Settings.bLimitHelixingHeight then
        let Others := st.GatheredInputNodes.filter (fun n => n != Root)
        if Others.any (fun n => decide (NodeHeight32 G S n > ofInt32 G.Settings.SingleNodeMaxHeight))
        then false
        else if Others.foldl (fun t n => fadd t (NodeHeight32 G S n)) 0
            > ofInt32 G.Settings.HelixingHeightMax then false
        else true
      else true

/-- Modelled from the spec: `FBAUtils::StraightenPin`, which adjusts the Y of
the node of `PinToAlign` "so the two pins align": the `float` difference of
the two pin heights is added to the `int32` position. -/
def StraightenPin32 (G : FBAGraph) (S : FEdGraphParameterFormatter) (SourcePin PinToAlign : Nat) :
    FEdGraphParameterFormatter :=
  let N := G.OwningNode PinToAlign
  withPosY S N (toInt32 (fadd (ofInt32 (S.NodePosY N))
    (fsub (GetPinY32 G S SourcePin) (GetPinY32 G S PinToAlign))))

/-- The placement of the child `OtherPin` before the recursive call (lines
660-669): below the node under helixing, else straightened on `MyPin`. -/
def FormatYPlaceChild32 (G : FBAGraph) (Padding : FVector2D) (F : FEdGraphParameterFormatter)
    (MyPin OtherPin : Nat) : FEdGraphParameterFormatter :=
  let OtherNode := G.OwningNode OtherPin
  let bApplyHelixing := F.bFormatWithHelixing && decide (OtherNode ∈ F.FormattedInputNodes)
  if bApplyHelixing then
    withPosY F OtherNode (toInt32 (fadd (GetCachedNodeBounds32 G F (G.OwningNode MyPin)).Bottom Padding.Y))
  else StraightenPin32 G F MyPin OtherPin

/-- The push of a formatted branch below the pin to avoid (lines 688-705):
`const float PinPos = GetPinY(PinToAvoid) + ParameterVerticalPinSpacing`,
`const float Delta = PinPos - Bounds.Top`, `Child->NodePosY += Delta`. -/
def FormatYAvoidPin32 (G : FBAGraph) (F2 : FEdGraphParameterFormatter)
    (Direction : EEdGraphPinDirection) (LastLinked : Option Nat) (LocalChildren : List Nat) :
    FEdGraphParameterFormatter :=
  if !(F2.bFormatWithHelixing && Direction == EGPD_Input) && !LocalChildren.isEmpty then
    match LastLinked with
    | some PinToAvoid =>
      let Bounds := GetCachedNodeArrayBounds32 G F2 LocalChildren
      let PinPos := fadd (GetPinY32 G F2 PinToAvoid) (ofInt32 G.Settings.ParameterVerticalPinSpacing)
      let Delta := fsub PinPos Bounds.Top
      if Delta > 0 then
        LocalChildren.foldl (fun (f : FEdGraphParameterFormatter) c =>
          withPosY f c (toInt32 (fadd (ofInt32 (f.NodePosY c)) Delta))) F2
      else F2
    | none => F2
  else F2

/-- The body of the innermost loop of `FormatY` for one linked pin `OtherPin`
of `MyPin`; `recurse` is the recursive call of `FormatY`. -/
def FormatYChild32 (G : FBAGraph) (Padding : FVector2D)
    (recurse : Nat → Option Nat → Option Nat → Bool →
      FEdGraphParameterFormatter × List Nat × List Nat → FEdGraphParameterFormatter × List Nat × List Nat)
    (CurrentNode : Nat) (ParentPin : Option Nat) (Children : List Nat)
    (Direction : EEdGraphPinDirection) (MyPin : Nat) (a : FormatYState) (OtherPin : Nat) : FormatYState :=
  let OtherNode := G.OwningNode OtherPin
  if decide (OtherNode ∈ a.F.IgnoredNodes) || !G.FilterSelectiveFormatting OtherNode
      || !decide (OtherNode ∈ Children) || decide (OtherNode ∈ a.VisitedNodes) then a
  else
    let F1 := FormatYPlaceChild32 G Padding a.F MyPin OtherPin
    let bChildIsSameRow := FormatYChildIsSameRow G a CurrentNode ParentPin MyPin OtherPin
    let r := recurse OtherNode (some OtherPin) (some MyPin) bChildIsSameRow (F1, a.VisitedNodes, [])
    let F3 := FormatYAvoidPin32 G r.1 Direction a.LastLinked r.2.2
    FormatYAfterChild a F3 r.2.1 r.2.2 bChildIsSameRow OtherPin MyPin

/-- The body of the loop of `FormatY` over the pins of one direction. -/
def FormatYPin32 (G : FBAGraph) (Padding : FVector2D)
    (recurse : Nat → Option Nat → Option Nat → Bool →
      FEdGraphParameterFormatter × List Nat × List Nat → FEdGraphParameterFormatter × List Nat × List Nat)
    (CurrentNode : Nat) (ParentPin : Option Nat) (Children : List Nat)
    (Direction : EEdGraphPinDirection) (p0 : FormatYState) (MyPin : Nat) : FormatYState :=
  if IsExecPin G MyPin then { p0 with LastLinked := some MyPin }
  else
    let p1 := (G.pin MyPin).LinkedTo.foldl
      (FormatYChild32 G Padding recurse CurrentNode ParentPin Children Direction MyPin) p0
    if !(G.pin MyPin).LinkedTo.isEmpty then { p1 with LastLinked := some MyPin } else p1

/-- The body of the loop of `FormatY` over the two directions: the pins of
the direction, then the centering of the branches; `bChildrenTooBig`
compares the `int32` X of the node with the `float` right edge of the
children. -/
def FormatYDirection32 (G : FBAGraph) (Padding : FVector2D)
    (recurse : Nat → Option Nat → Option Nat → Bool →
      FEdGraphParameterFormatter × List Nat × List Nat → FEdGraphParameterFormatter × List Nat × List Nat)
    (CurrentNode : Nat) (ParentPin : Option Nat) (Children : List Nat)
    (d0 : FormatYState) (Direction : EEdGraphPinDirection) : FormatYState :=
  let d1 := (GetPinsByDirection G CurrentNode Direction).foldl
    (FormatYPin32 G Padding recurse CurrentNode ParentPin Children Direction)
    { d0 with LastLinked := none, ChildBranches := [] }
  let AllChildren := d1.ChildBranches.flatMap (fun b => b.BranchNodes)
  let ChildBounds := GetCachedNodeArrayBounds32 G d1.F AllChildren
  let bChildrenTooBig := decide (ofInt32 (d1.F.NodePosX CurrentNode) < ChildBounds.Right)
  if G.Settings.bCenterBranchesForParameters && Direction == EGPD_Input
      && decide ((d1.ChildBranches.length : Int) ≥ G.Settings.NumRequiredBranchesForParameters)
      && !bChildrenTooBig && IsNodePure G CurrentNode then
    { d1 with F := CenterBranches32 G d1.F Padding CurrentNode d1.ChildBranches d1.VisitedNodes }
  else d1

/-- The end of `FormatY` (lines 734-737): `if (bSameRow && ParentPin)
StraightenPin(CurrentPin, ParentPin)`. -/
def FormatYFinish32 (G : FBAGraph) (F : FEdGraphParameterFormatter) (bSameRow : Bool)
    (CurrentPin ParentPin : Option Nat) : FEdGraphParameterFormatter :=
  match bSameRow, CurrentPin, ParentPin with
  | true, some cp, some pp => StraightenPin32 G F cp pp
  | _, _, _ => F

/-- The body of `FormatY`; `recurse` is the recursive call. -/
def FormatYBody32 (G : FBAGraph) (Padding : FVector2D)
    (recurse : Nat → Option Nat → Option Nat → Bool →
      FEdGraphParameterFormatter × List Nat × List Nat → FEdGraphParameterFormatter × List Nat × List Nat)
    (CurrentNode : Nat) (CurrentPin ParentPin : Option Nat) (bSameRow : Bool)
    (acc : FEdGraphParameterFormatter × List Nat × List Nat) :
    FEdGraphParameterFormatter × List Nat × List Nat :=
  let S := acc.1
  let VisitedNodes := acc.2.1
  let OutChildren := acc.2.2
  if CurrentNode ∈ VisitedNodes then acc
  else
    let Children := match mapFind S.NodeInfoMap CurrentNode with
      | some i => GetChildNodes S.Infos i
      | none => []
    let S1 := (FormatYCollision32 G Padding CurrentNode VisitedNodes 100 S).1
    let st0 : FormatYState :=
      { F := S1, VisitedNodes := setAdd VisitedNodes CurrentNode, OutChildren := OutChildren,
        bFirstPin := true, LastLinked := none, ChildBranches := [] }
    let stEnd := [EGPD_Input, EGPD_Output].foldl
      (FormatYDirection32 G Padding recurse CurrentNode ParentPin Children) st0
    let OutChildren1 := setAdd stEnd.OutChildren CurrentNode
    (FormatYFinish32 G stEnd.F bSameRow CurrentPin ParentPin, stEnd.VisitedNodes, OutChildren1)

/-- `FEdGraphParameterFormatter::FormatY` in binary32, with a bound on the
depth of the recursion. -/
def FormatY32 (G : FBAGraph) (Padding : FVector2D) : Nat → Nat → Option Nat → Option Nat → Bool →
    FEdGraphParameterFormatter × List Nat × List Nat → FEdGraphParameterFormatter × List Nat × List Nat
  | 0 => fun _ _ _ _ acc => acc
  | fuel + 1 => FormatYBody32 G Padding (FormatY32 G Padding fuel)

/-- `FEdGraphParameterFormatter::ExpandByHeight` in binary32: `float
LargestPinDelta` from the `float` pin heights, and
`ExpandX = ExpandDirection * LargestPinDelta * 0.2f` with `0.2f` the binary32
value `13421773 * 2^-26`, added to the `int32` X. -/
def ExpandByHeight32 (G : FBAGraph) (S : FEdGraphParameterFormatter) : FEdGraphParameterFormatter :=
  if S.bFormatWithHelixing then S
  else
    let FormattedNodes := S.AllFormattedNodes
    let FormattedOutputNodesCapture := S.FormattedOutputNodes
    let IsFormatted := fun p => decide (G.OwningNode p ∈ FormattedNodes)
      || decide (G.OwningNode p ∈ FormattedOutputNodesCapture)
    let Root := S.RootNode.getD 0
    let NodesToExpand := setAdd S.FormattedInputNodes Root
    NodesToExpand.foldl (fun (a : FEdGraphParameterFormatter) FormattedNode =>
      let PinLinks := GetPinLinks G FormattedNode EGPD_Input
      let LargestPinDelta := PinLinks.foldl (fun (m : Int) Link =>
        max (fsub (GetPinY32 G a (Link.To.getD 0)) (GetPinY32 G a (Link.From.getD 0))) m) 0
      if LargestPinDelta < 150 * F32One then a
      else
        let ExpandX := fdiv (-LargestPinDelta * 13421773) (2 ^ 26)
        let NodeTree := GetNodeTreeWithFilter G FormattedNode IsFormatted EGPD_Input
          (G.Pins.length + 1) ([FormattedNode], [FormattedNode])
        NodeTree.foldl (fun (b : FEdGraphParameterFormatter) Node =>
          if Node != FormattedNode && Node != Root then
            withPosX b Node (toInt32 (fadd (ofInt32 (b.NodePosX Node)) ExpandX))
          else b) a) S

/-- `Node->NodePosX += DeltaX; Node->NodePosY += DeltaY` with `float`
deltas. -/
def offsetNode32 (DeltaX DeltaY : Int) (S : FEdGraphParameterFormatter) (Node : Nat) :
    FEdGraphParameterFormatter :=
  withPosY (withPosX S Node (toInt32 (fadd (ofInt32 (S.NodePosX Node)) DeltaX))) Node
    (toInt32 (fadd (ofInt32 (S.NodePosY Node)) DeltaY))

/-- The resets at the start of the slow path and the helixing decision. -/
def FormatNodeReset32 (G : FBAGraph) (S : FEdGraphParameterFormatter) : FEdGraphParameterFormatter :=
  let Root := S.RootNode.getD 0
  let S1 := { S with AllFormattedNodes := [Root], NodeOffsets := [] }
  { S1 with bFormatWithHelixing := DoesHelixingApply32 G S1 }

/-- The shift of the output nodes past the helixed input nodes (lines 83-95),
`const float Delta` added to the `int32` X. -/
def FormatNodeShiftOutputs32 (G : FBAGraph) (S : FEdGraphParameterFormatter) :
    FEdGraphParameterFormatter :=
  if S.bFormatWithHelixing && !S.FormattedInputNodes.isEmpty then
    let InputNodesRight := (GetCachedNodeArrayBounds32 G S S.FormattedInputNodes).Right
    let RootNodeBounds := GetCachedNodeBounds32 G S (S.RootNode.getD 0)
    let Delta := fsub InputNodesRight RootNodeBounds.Right
    if Delta > 0 then
      S.FormattedOutputNodes.foldl (fun (a : FEdGraphParameterFormatter) n =>
        withPosX a n (toInt32 (fadd (ofInt32 (a.NodePosX n)) Delta))) S
    else S
  else S

/-- The vertical placement and the optional height expansion. -/
def FormatNodeVertical32 (G : FBAGraph) (Padding : FVector2D) (S : FEdGraphParameterFormatter) :
    FEdGraphParameterFormatter :=
  let Root := S.RootNode.getD 0
  let S7 := (FormatY32 G Padding (G.Pins.length + 2) Root none none false (S, [], [])).1
  if G.Settings.bExpandParametersByHeight && IsNodePure G Root then ExpandByHeight32 G S7 else S7

/-- The slow path of `FormatNode` up to (not including) the final translation
relative to the keep-still node. -/
def FormatNodeLayout32 (G : FBAGraph) (Padding : FVector2D) (S : FEdGraphParameterFormatter) :
    FEdGraphParameterFormatter :=
  FormatNodeVertical32 G Padding (FormatNodeShiftOutputs32 G (FormatX32 G Padding (FormatNodeRows G
    (FormatX32 G Padding (FormatNodeReset32 G S)))))

/-- `FEdGraphParameterFormatter::FormatNode` with the `float` arithmetic of
the source: the member `Padding` is an argument, the final translation is
`const float DeltaX = SavedBounds.Left - NodeToKeepStillBounds.Left` (and the
same for Y) added to the `int32` positions. -/
def FormatNode32 (G : FBAGraph) (Padding : FVector2D) (S : FEdGraphParameterFormatter) :
    FEdGraphParameterFormatter :=
  if !IsGraphNode G S.RootNode then S
  else
    let Root := S.RootNode.getD 0
    if (GetLinkedPins G Root EGPD_MAX).length == 0 then { S with AllFormattedNodes := [Root] }
    else
      let Keep := S.NodeToKeepStill.getD Root
      let SavedBounds := GetCachedNodeBounds32 G S Keep
      if S.bInitialized then SimpleRelativeFormatting S
      else
        let S1 := FormatNodeLayout32 G Padding S
        let NodeToKeepStillBounds := GetCachedNodeBounds32 G S1 Keep
        let DeltaX := fsub SavedBounds.Left NodeToKeepStillBounds.Left
        let DeltaY := fsub SavedBounds.Top NodeToKeepStillBounds.Top
        if DeltaX != 0 || DeltaY != 0 then
          (GetFormattedNodes S1).foldl (offsetNode32 DeltaX DeltaY) S1
        else S1

/-- The simple chain: the only linked pin of the root `r` is its input
parameter pin `pr`, linked to the output parameter pin `pa` of the node `a`
and to nothing else; `pa` is the only linked pin of `a` and has no other
link; `a` is a node the formatter places (pure, not a knot, accepted by the
selective-formatting filter). -/
def SimpleChain (G : FBAGraph) (r a pr pa : Nat) : Prop :=
  IsGraphNode G (some r) = true ∧ a ≠ r
    ∧ GetLinkedPins G r EGPD_MAX = [pr] ∧ GetLinkedPins G a EGPD_MAX = [pa]
    ∧ (G.pin pr).LinkedTo = [pa] ∧ (G.pin pa).LinkedTo = [pr]
    ∧ G.OwningNode pr = r ∧ G.OwningNode pa = a
    ∧ (G.pin pr).Direction = EGPD_Input ∧ (G.pin pa).Direction = EGPD_Output
    ∧ IsParameterPin G pr = true ∧ IsParameterPin G pa = true
    ∧ IsNodePure G a = true ∧ IsKnotNode G a = false ∧ G.FilterSelectiveFormatting a = true

/-- A formatter with the root `r`, no ignored node and no formatted input
node, as it occurs in a run on a simple chain. -/
def lineIn (r : Nat) (b : Bool) (kk : Option Nat) (afn fon : List Nat) (srm : List (FPinLink × Bool))
    (mp : List (Nat × Nat)) (inf : List FNodeInfo) (X Y : Nat → Int) : FEdGraphParameterFormatter :=
  { RootNode := some r, NodeToKeepStill := kk, IgnoredNodes := [], bInitialized := false,
    bFormatWithHelixing := b, AllFormattedNodes := afn, FormattedInputNodes := [],
    FormattedOutputNodes := fon, NodeOffsets := [], SameRowMapping := srm, NodeInfoMap := mp,
    Infos := inf, NodePosX := X, NodePosY := Y }

/-- The record of the root of a simple chain with the children records
`cs`. -/
def lineRoot (r : Nat) (cs : List Nat) : FNodeInfo :=
  { Node := r, Pin := none, Parent := none, ParentPin := none, Direction := EGPD_Output, Children := cs }

/-- The record of the node `a` of a simple chain made in the pass of the
direction `d`. -/
def lineChild (a pr pa : Nat) (d : EEdGraphPinDirection) : FNodeInfo :=
  { Node := a, Pin := some pa, Parent := some 0, ParentPin := some pr, Direction := d, Children := [] }

/-- The X that `GetChildX` gives the node `a` of a simple chain against the
root `r` at `X r`: the binary32 value of `X r - width a - max(1, Padding.X)`
rounded to the nearest integer. -/
def lineX (G : FBAGraph) (Padding : FVector2D) (X : Nat → Int) (r a : Nat) : Int :=
  RoundToInt (fsub ((X r - (G.node a).SizeX) * F32One) (max F32One Padding.X))

/-- The horizontal data of a simple chain are in range: the padding is of
magnitude at most `B`, the X of the two nodes and their widths are whole
numbers of magnitude at most `B`. -/
def LineWithinX (G : FBAGraph) (Padding : FVector2D) (X : Nat → Int) (r a : Nat) (B : Int) : Prop :=
  -(B * F32One) ≤ Padding.X ∧ Padding.X ≤ B * F32One ∧ -B ≤ X r ∧ X r ≤ B ∧ -B ≤ X a ∧ X a ≤ B
    ∧ -B ≤ (G.node r).SizeX ∧ (G.node r).SizeX ≤ B ∧ -B ≤ (G.node a).SizeX ∧ (G.node a).SizeX ≤ B

/-- The vertical data of a simple chain are whole numbers of magnitude at
most `B`: the Y of the two nodes, their heights and the offsets of the two
linked pins. -/
def LineWithinY (G : FBAGraph) (Y : Nat → Int) (r a pr pa : Nat) (B : Int) : Prop :=
  -B ≤ Y r ∧ Y r ≤ B ∧ -B ≤ Y a ∧ Y a ≤ B
    ∧ -B ≤ (G.node r).SizeY ∧ (G.node r).SizeY ≤ B ∧ -B ≤ (G.node a).SizeY ∧ (G.node a).SizeY ≤ B
    ∧ -B ≤ (G.pin pr).OffsetY ∧ (G.pin pr).OffsetY ≤ B ∧ -B ≤ (G.pin pa).OffsetY ∧ (G.pin pa).OffsetY ≤ B

/-- The node `a` lies left of the node `r`, with whole-number bounds in the
range where binary32 is exact. -/
def LeftOf (G : FBAGraph) (S : FEdGraphParameterFormatter) (a r : Nat) : Prop :=
  -4194304 ≤ S.NodePosX a ∧ S.NodePosX a ≤ 4194304 ∧ -4194304 ≤ S.NodePosX r ∧ S.NodePosX r ≤ 4194304
    ∧ -4194304 ≤ (G.node a).SizeX ∧ (G.node a).SizeX ≤ 4194304
    ∧ S.NodePosX a + (G.node a).SizeX < S.NodePosX r

/-- Settings with centering from one branch and the height expansion
enabled, left-side style. -/
def wideSettings : UBASettings :=
  { PaddingX := 40, PaddingY := 25, bCenterBranchesForParameters := true,
    NumRequiredBranchesForParameters := 1, ParameterStyle := EBAParameterFormattingStyle.LeftSide,
    bLimitHelixingHeight := false, SingleNodeMaxHeight := 300, HelixingHeightMax := 500,
    bExpandParametersByHeight := true, ParameterVerticalPinSpacing := 4 }

/-- A simple chain with further pins and an impure root: R (node 0) has the
unlinked execution pin 0, the unlinked input pin 1, the input pin 2 fed by the
output pin 4 of A (node 1), and the unlinked output pin 3; A has the unlinked
input pin 5 as well. -/
def fullChainGraph : FBAGraph :=
  exGraph [exNode [0, 1, 2, 3] 100 80, exNode [5, 4] 120 60]
    [execPin 0 EGPD_Input 10, exPin 0 EGPD_Input [] 25, exPin 0 EGPD_Input [4] 40,
      exPin 0 EGPD_Output [] 20, exPin 1 EGPD_Output [2] 30, exPin 1 EGPD_Input [] 45]
    EBAParameterFormattingStyle.LeftSide

/-- A simple chain with further pins and a pure root, under `wideSettings`:
R (node 0) has the unlinked input pin 0, the input pin 1 fed by the output
pin 3 of A (node 1), and the unlinked output pin 2; A has the unlinked input
pin 4 as well. -/
def pureChainGraph : FBAGraph :=
  { Nodes := [exNode [0, 1, 2] 100 80, exNode [4, 3] 120 60],
    Pins := [exPin 0 EGPD_Input [] 25, exPin 0 EGPD_Input [3] 40, exPin 0 EGPD_Output [] 20,
      exPin 1 EGPD_Output [1] 30, exPin 1 EGPD_Input [] 45],
    Settings := wideSettings, OverrideFormattingStyle := none,
    FilterSelectiveFormatting := fun _ => true }

/-! ## Row alignment: the observed runs and the invariants -/

/-- The pin is not an execution pin and has no link: the loop of `FormatY`
over the pins passes it without making it the pin to avoid. -/
def PinIdle (G : FBAGraph) (x : Nat) : Bool := !IsExecPin G x && (G.pin x).LinkedTo.isEmpty

/-- Among the pins of its node in its direction, wherever `p` is listed, no
pin listed before it is an execution pin or linked: when `FormatY` reaches
`p`, there is no pin to avoid. -/
def FirstLinkedPin (G : FBAGraph) (p : Nat) : Bool :=
  (List.range (GetPinsByDirection G (G.OwningNode p) (G.pin p).Direction).length).all (fun i =>
    (GetPinsByDirection G (G.OwningNode p) (G.pin p).Direction).getD i 0 != p
      || ((GetPinsByDirection G (G.OwningNode p) (G.pin p).Direction).take i).all (PinIdle G))

/-- Every recorded link joins the pins `p` and `q` of two nodes visited since
`V0`, and the two pins are level in `F` when `p` is the first linked pin of
its node. -/
def RowsAligned (G : FBAGraph) (V0 V : List Nat) (F : FEdGraphParameterFormatter)
    (L : List (FPinLink × Bool)) : Prop :=
  ∀ e ∈ L, ∃ p q, e.1.From = some p ∧ e.1.To = some q
    ∧ G.OwningNode p ∈ V ∧ G.OwningNode p ∉ V0 ∧ G.OwningNode q ∈ V ∧ G.OwningNode q ∉ V0
    ∧ (FirstLinkedPin G p = true → GetPinY G F p = GetPinY G F q)

/-- What one call of the observed `FormatY` for the node `c` does to the
record: `c` is visited, the links recorded during the call are aligned, and
the pins of a same-row call are level. -/
def YAligned (G : FBAGraph) (c : Nat) (cp pp : Option Nat) (b : Bool)
    (pre post : FEdGraphParameterFormatter × List Nat × List Nat) : Prop :=
  c ∈ post.2.1
    ∧ (∃ L, post.1.SameRowMapping = pre.1.SameRowMapping ++ L
        ∧ RowsAligned G pre.2.1 post.2.1 post.1 L)
    ∧ (b = true → ∀ p q, pp = some p → cp = some q → GetPinY G post.1 p = GetPinY G post.1 q)

/-- A recursive call of the observed `FormatY` that satisfies `YAligned` when
it is made for an unvisited pin owner after the nodes of `V0` are visited, a
same-row call being made for the owner of its own pin from a visited node. -/
def RecAligned (G : FBAGraph) (V0 : List Nat)
    (recurse : Nat → Option Nat → Option Nat → Bool →
      FEdGraphParameterFormatter × List Nat × List Nat → FEdGraphParameterFormatter × List Nat × List Nat) :
    Prop :=
  ∀ n cp pp b F V O, (∀ m ∈ V0, m ∈ V) → n ∉ V → n ∈ ownerNodes G →
    (b = true → ∀ p q, pp = some p → cp = some q → G.OwningNode p ∈ V ∧ G.OwningNode q = n) →
    YAligned G n cp pp b (F, V, O) (recurse n cp pp b (F, V, O))

/-- A recursive call of `FormatY` made with no children gathered: the visited
nodes stay visited, the children it reports are the nodes it visited, each
once, and a node visited before keeps its Y unless it is the parent aligned
at the end of a same-row call. -/
def RecFrame (G : FBAGraph)
    (recurse : Nat → Option Nat → Option Nat → Bool →
      FEdGraphParameterFormatter × List Nat × List Nat → FEdGraphParameterFormatter × List Nat × List Nat) :
    Prop :=
  ∀ c cp pp b F V,
    (∀ v ∈ V, v ∈ (recurse c cp pp b (F, V, [])).2.1)
      ∧ (∀ n ∈ (recurse c cp pp b (F, V, [])).2.2, n ∈ (recurse c cp pp b (F, V, [])).2.1 ∧ n ∉ V)
      ∧ (∀ v ∈ (recurse c cp pp b (F, V, [])).2.1, v ∈ V ∨ v ∈ (recurse c cp pp b (F, V, [])).2.2)
      ∧ (recurse c cp pp b (F, V, [])).2.2.Nodup
      ∧ (∀ v ∈ V, (b = true → ∀ p, pp = some p → G.OwningNode p ≠ v) →
          (recurse c cp pp b (F, V, [])).1.NodePosY v = F.NodePosY v)

/-- A recursive call of `FormatY` that reports every child once when it was
given every child once. -/
def RecNodup
    (recurse : Nat → Option Nat → Option Nat → Bool →
      FEdGraphParameterFormatter × List Nat × List Nat → FEdGraphParameterFormatter × List Nat × List Nat) :
    Prop :=
  ∀ c cp pp b acc, acc.2.2.Nodup → (recurse c cp pp b acc).2.2.Nodup

/-- The invariant of the loops of the call of the observed `FormatY` for the
node `c`, entered with the visited nodes `V0` and the record `M0`: the links
recorded since are aligned, none has a pin of `c` as its second pin, and none
has a pin of `c` at all while `bFirstPin` holds. -/
def AlSt (G : FBAGraph) (c : Nat) (V0 : List Nat) (M0 : List (FPinLink × Bool)) (a : FormatYState) :
    Prop :=
  (∀ v ∈ setAdd V0 c, v ∈ a.VisitedNodes)
    ∧ ∃ L, a.F.SameRowMapping = M0 ++ L ∧ RowsAligned G V0 a.VisitedNodes a.F L
      ∧ ∀ e ∈ L, ∀ p q, e.1.From = some p → e.1.To = some q →
          G.OwningNode q ≠ c ∧ (a.bFirstPin = true → G.OwningNode p ≠ c)

/-- The number of links of the input pins of the node: no more branches
than that are gathered in the input direction of its call of `FormatY`. -/
def InputLinks (G : FBAGraph) (c : Nat) : Nat :=
  ((GetPinsByDirection G c EGPD_Input).map (fun p => (G.pin p).LinkedTo.length)).sum

/-- The centering of branches cannot run: it is disabled, or the number of
branches it requires is positive and no node has that many input links. -/
def CenteringIdle (G : FBAGraph) : Prop :=
  G.Settings.bCenterBranchesForParameters = false
    ∨ (0 < G.Settings.NumRequiredBranchesForParameters
      ∧ ∀ c ∈ List.range G.Nodes.length,
          (InputLinks G c : Int) < G.Settings.NumRequiredBranchesForParameters)

instance (G : FBAGraph) : Decidable (CenteringIdle G) := by
  unfold CenteringIdle
  infer_instance

/-- `FormatY` in binary32 with each of its recursive calls under
observation. -/
def FormatYRecorded32 (G : FBAGraph) (Padding : FVector2D) : Nat → Nat → Option Nat → Option Nat → Bool →
    FEdGraphParameterFormatter × List Nat × List Nat → FEdGraphParameterFormatter × List Nat × List Nat
  | 0 => fun _ _ _ _ acc => acc
  | fuel + 1 => FormatYBody32 G Padding (FormatYRecord (FormatYRecorded32 G Padding fuel))

/-- The pairs (parent-side pin, child-side pin) for which `FormatY` in
binary32, called on the formatter `S` as `FormatNode` calls it, passes
`bSameRow = true` to the recursive call for the child. -/
def FormatYRows32 (G : FBAGraph) (Padding : FVector2D) (S : FEdGraphParameterFormatter) :
    List (Nat × Nat) :=
  rowsOf (FormatYRecorded32 G Padding (G.Pins.length + 2) (S.RootNode.getD 0) none none false
    ({ S with SameRowMapping := [] }, [], [])).1.SameRowMapping

/-- The graph `rowGraph` without centering: the pure root R (node 0, input
pin 0) is fed by the pure node N (node 1, output pin 1, input pins 2 and 3 at
the heights 40 and 60), which is fed by P (node 2, output pin 4) and Q (node
3, output pin 5). -/
def pushGraph : FBAGraph :=
  exGraph [exNode [0] 100 80, exNode [1, 2, 3] 100 80, exNode [4] 100 60, exNode [5] 100 60]
    [exPin 0 EGPD_Input [1] 20, exPin 1 EGPD_Output [0] 20, exPin 1 EGPD_Input [4] 40,
      exPin 1 EGPD_Input [5] 60, exPin 2 EGPD_Output [2] 20, exPin 3 EGPD_Output [3] 20]
    EBAParameterFormattingStyle.LeftSide

/-- The loop states of two calls of `FormatY` agree on everything but the
positions of the nodes. -/
def YShape (a b : FormatYState) : Prop :=
  restOf a.F = restOf b.F ∧ a.VisitedNodes = b.VisitedNodes ∧ a.OutChildren = b.OutChildren
    ∧ a.bFirstPin = b.bFirstPin ∧ a.LastLinked = b.LastLinked ∧ a.ChildBranches = b.ChildBranches

/-- Two recursive calls of `FormatY` that, on formatters that agree on
everything but the positions, visit and report the same nodes and end on
formatters that agree on everything but the positions. -/
def RecShape
    (recA recB : Nat → Option Nat → Option Nat → Bool →
      FEdGraphParameterFormatter × List Nat × List Nat → FEdGraphParameterFormatter × List Nat × List Nat) :
    Prop :=
  ∀ c cp pp b A B V O, restOf A = restOf B →
    restOf (recA c cp pp b (A, V, O)).1 = restOf (recB c cp pp b (B, V, O)).1
      ∧ (recA c cp pp b (A, V, O)).2 = (recB c cp pp b (B, V, O)).2

/-- The formatter in which `FormatY` is entered in the slow-path run on `G`
in binary32 with the padding (40, 25), root 0, the ignored nodes `ign` and the
initial positions `exPosX`, `exPosY`. -/
def rowStart (G : FBAGraph) (ign : List Nat) : FEdGraphParameterFormatter :=
  FormatNodeShiftOutputs32 G (FormatX32 G exPadding (FormatNodeRows G (FormatX32 G exPadding
    (FormatNodeReset32 G (FEdGraphParameterFormatter.new (some 0) none ign exPosX exPosY)))))

/-- The graph `rowGraph` with centering enabled from three branches on: N has
two input links, so that the centering cannot run. -/
def wideRowGraph : FBAGraph :=
  { rowGraph with Settings := { fanSettings with NumRequiredBranchesForParameters := 3 } }
theorem FormatXVisit_fields (G : FBAGraph) (d : EEdGraphPinDirection) (st : FormatXState) (l : FPinLink) :
    cfgOf (FormatXVisit G d st l).F = cfgOf st.F
    ∧ (FormatXVisit G d st l).F.bFormatWithHelixing = st.F.bFormatWithHelixing
    ∧ (FormatXVisit G d st l).F.NodePosY = st.F.NodePosY
    ∧ (FormatXVisit G d st l).F.SameRowMapping = st.F.SameRowMapping
    ∧ ((FormatXVisit G d st l).F.AllFormattedNodes = st.F.AllFormattedNodes
        ∨ (FormatXVisit G d st l).F.AllFormattedNodes = setAdd st.F.AllFormattedNodes (l.GetNode G))
    ∧ (FormatXVisit G d st l).VisitedLinks = st.VisitedLinks
    ∧ (FormatXVisit G d st l).InputQueue = st.InputQueue
    ∧ (FormatXVisit G d st l).OutputQueue = st.OutputQueue := by
  unfold FormatXVisit withMap
  dsimp only
  split
  · unfold FormatXReparent withXInfos
    dsimp only
    split_ifs <;> simp [cfgOf]
  · unfold FormatXCreate FormatXAddInfo FormatXMarkSide withPlaced withFormatted
    dsimp only
    split_ifs <;> simp [cfgOf]

/-! ## Termination of `FormatX` -/

theorem mem_pinLinks (G : FBAGraph) (p q : Nat) (h : q ∈ (G.pin p).LinkedTo) : (p, q) ∈ pinLinks G := by
  have hp : p < G.Pins.length := by
    by_contra hlt
    have : G.pin p = defaultPin := by
      simp only [FBAGraph.pin]
      exact List.getD_eq_default _ _ (by omega)
    rw [this] at h
    simp [defaultPin] at h
  simp only [pinLinks, List.mem_flatMap, List.mem_range, List.mem_map]
  exact ⟨p, hp, q, h, rfl⟩

theorem VisitedOk_length (G : FBAGraph) (V : List FPinLink) (h : VisitedOk G V) :
    V.length ≤ numPinLinks G := by
  have h1 : (V.map linkKey).length ≤ ((pinLinks G).map (fun pq => (some pq.1, some pq.2))).length :=
    (List.subperm_of_subset h.1 (by
      intro x hx
      obtain ⟨l, hl, rfl⟩ := List.mem_map.1 hx
      exact h.2 l hl)).length_le
  simpa [numPinLinks] using h1

theorem linkVisited_false (V : List FPinLink) (l : FPinLink) (h : linkVisited V l = false) :
    linkKey l ∉ V.map linkKey := by
  intro hmem
  obtain ⟨v, hv, hk⟩ := List.mem_map.1 hmem
  have : linkVisited V l = true := by
    simp only [linkVisited, List.any_eq_true]
    refine ⟨v, hv, ?_⟩
    simp only [linkKey, Prod.mk.injEq] at hk
    simp [FPinLink.same, hk.1, hk.2]
  rw [h] at this
  exact Bool.noConfusion this

theorem FormatXEnqueue_measure (G : FBAGraph) (c : Nat) (st : FormatXState) (p q : Nat)
    (hq : q ∈ (G.pin p).LinkedTo) (hv : VisitedOk G st.VisitedLinks) :
    VisitedOk G (FormatXEnqueue G c st p q).VisitedLinks
    ∧ queued (FormatXEnqueue G c st p q) + st.VisitedLinks.length
        ≤ queued st + (FormatXEnqueue G c st p q).VisitedLinks.length
    ∧ (FormatXEnqueue G c st p q).F = st.F
    ∧ (FormatXEnqueue G c st p q).TempOutput = st.TempOutput := by
  have hnew : ∀ (h : linkVisited st.VisitedLinks (mkLink G p q) = false),
      VisitedOk G (st.VisitedLinks ++ [mkLink G p q]) := by
    intro h
    refine ⟨?_, ?_⟩
    · rw [List.map_append, List.nodup_append]
      refine ⟨hv.1, by simp, ?_⟩
      intro a ha hb
      simp only [List.map_cons, List.map_nil, List.mem_singleton] at hb
      subst hb
      exact linkVisited_false _ _ h ha
    · intro l hl
      rcases List.mem_append.1 hl with h1 | h1
      · exact hv.2 l h1
      · simp only [List.mem_singleton] at h1
        subst h1
        exact List.mem_map.2 ⟨(p, q), mem_pinLinks G p q hq, rfl⟩
  unfold FormatXEnqueue
  dsimp only
  split_ifs with h1 h2 h3 h4 h5 h6 h7 <;>
    first
      | exact ⟨hv, le_refl _, rfl, rfl⟩
      | (refine ⟨hnew (by simpa using h3), ?_, rfl, rfl⟩
         simp [queued]
         try omega)

theorem FormatXLinks_mem (G : FBAGraph) (S : FEdGraphParameterFormatter) (d : EEdGraphPinDirection)
    (c : Nat) (pq : Nat × Nat) (h : pq ∈ FormatXLinks G S d c) : pq.2 ∈ (G.pin pq.1).LinkedTo := by
  simp only [FormatXLinks, List.mem_flatMap, List.mem_map] at h
  obtain ⟨p, _, q, hq, rfl⟩ := h
  exact hq

theorem FormatXEnqueue_fold (G : FBAGraph) (c : Nat) (ls : List (Nat × Nat)) :
    ∀ st : FormatXState, (∀ pq ∈ ls, pq.2 ∈ (G.pin pq.1).LinkedTo) → VisitedOk G st.VisitedLinks →
      VisitedOk G (ls.foldl (fun a pq => FormatXEnqueue G c a pq.1 pq.2) st).VisitedLinks
      ∧ queued (ls.foldl (fun a pq => FormatXEnqueue G c a pq.1 pq.2) st) + st.VisitedLinks.length
          ≤ queued st + (ls.foldl (fun a pq => FormatXEnqueue G c a pq.1 pq.2) st).VisitedLinks.length
      ∧ (ls.foldl (fun a pq => FormatXEnqueue G c a pq.1 pq.2) st).F = st.F
      ∧ (ls.foldl (fun a pq => FormatXEnqueue G c a pq.1 pq.2) st).TempOutput = st.TempOutput := by
  induction ls with
  | nil => intro st _ hv; exact ⟨hv, le_refl _, rfl, rfl⟩
  | cons x xs ih =>
    intro st hmem hv
    obtain ⟨h1, h2, h3, h4⟩ := FormatXEnqueue_measure G c st x.1 x.2 (hmem x (List.mem_cons_self _ _)) hv
    obtain ⟨k1, k2, k3, k4⟩ := ih (FormatXEnqueue G c st x.1 x.2)
      (fun pq hpq => hmem pq (List.mem_cons_of_mem _ hpq)) h1
    simp only [List.foldl_cons]
    exact ⟨k1, by omega, k3.trans h3, k4.trans h4⟩

theorem FXRel_refl (S : FEdGraphParameterFormatter) : FXRel S S :=
  ⟨rfl, rfl, rfl, rfl, [], rfl⟩

theorem FXRel_trans {A B C : FEdGraphParameterFormatter} (h1 : FXRel A B) (h2 : FXRel B C) : FXRel A C := by
  obtain ⟨a1, a2, a3, a4, l1, a5⟩ := h1
  obtain ⟨b1, b2, b3, b4, l2, b5⟩ := h2
  refine ⟨b1.trans a1, b2.trans a2, b3.trans a3, b4.trans a4, l1 ++ l2, ?_⟩
  rw [b5, a5]
  simp [setAppend, List.foldl_append]

theorem FormatXVisit_FXRel (G : FBAGraph) (d : EEdGraphPinDirection) (st : FormatXState) (l : FPinLink) :
    FXRel st.F (FormatXVisit G d st l).F := by
  obtain ⟨h1, h2, h3, h4, h5, _⟩ := FormatXVisit_fields G d st l
  refine ⟨h1, h2, h3, h4, ?_⟩
  rcases h5 with h | h
  · exact ⟨[], h⟩
  · exact ⟨[l.GetNode G], h⟩

/-- One iteration with a non-empty queue keeps the invariant of the visited
links and lowers the measure of the loop. -/
theorem FormatXStep_measure (G : FBAGraph) (d : EEdGraphPinDirection) (st : FormatXState)
    (hv : VisitedOk G st.VisitedLinks) (hq : 0 < queued st) :
    VisitedOk G (FormatXStep G d st).VisitedLinks
    ∧ queued (FormatXStep G d st) + st.VisitedLinks.length + 1
        ≤ queued st + (FormatXStep G d st).VisitedLinks.length := by
  have key : ∀ (l : FPinLink) (iq oq : List FPinLink), iq.length + oq.length + 1 = queued st →
      VisitedOk G ((FormatXLinks G (FormatXVisit G d { st with InputQueue := iq, OutputQueue := oq } l).F d
          (l.GetNode G)).foldl (fun a pq => FormatXEnqueue G (l.GetNode G) a pq.1 pq.2)
          (FormatXVisit G d { st with InputQueue := iq, OutputQueue := oq } l)).VisitedLinks
      ∧ queued ((FormatXLinks G (FormatXVisit G d { st with InputQueue := iq, OutputQueue := oq } l).F d
          (l.GetNode G)).foldl (fun a pq => FormatXEnqueue G (l.GetNode G) a pq.1 pq.2)
          (FormatXVisit G d { st with InputQueue := iq, OutputQueue := oq } l)) + st.VisitedLinks.length + 1
        ≤ queued st + ((FormatXLinks G (FormatXVisit G d { st with InputQueue := iq, OutputQueue := oq } l).F d
          (l.GetNode G)).foldl (fun a pq => FormatXEnqueue G (l.GetNode G) a pq.1 pq.2)
          (FormatXVisit G d { st with InputQueue := iq, OutputQueue := oq } l)).VisitedLinks.length := by
    intro l iq oq hlen
    obtain ⟨_, _, _, _, _, f6, f7, f8⟩ :=
      FormatXVisit_fields G d { st with InputQueue := iq, OutputQueue := oq } l
    obtain ⟨k1, k2, _, _⟩ := FormatXEnqueue_fold G (l.GetNode G) _
      (FormatXVisit G d { st with InputQueue := iq, OutputQueue := oq } l)
      (fun pq hpq => FormatXLinks_mem G _ d _ pq hpq) (by rw [f6]; exact hv)
    refine ⟨k1, ?_⟩
    rw [f6] at k2
    simp only [queued, f7, f8] at k2 ⊢
    simp only [queued] at hlen
    omega
  unfold FormatXStep
  dsimp only
  simp only [queued] at hq
  split_ifs with hd
  · cases hi : st.InputQueue with
    | cons l r => simpa [hi] using key l r st.OutputQueue (by simp [queued, hi]; omega)
    | nil =>
      cases ho : st.OutputQueue with
      | cons l r => simpa [hi, ho] using key l [] r (by simp [queued, hi, ho])
      | nil => simp [hi, ho] at hq
  · cases ho : st.OutputQueue with
    | cons l r => simpa [ho] using key l st.InputQueue r (by simp [queued, ho]; omega)
    | nil =>
      cases hi : st.InputQueue with
      | cons l r => simpa [hi, ho] using key l r [] (by simp [queued, hi, ho])
      | nil => simp [hi, ho] at hq

theorem FormatXEnqueue_F (G : FBAGraph) (c : Nat) (st : FormatXState) (p q : Nat) :
    (FormatXEnqueue G c st p q).F = st.F := by
  unfold FormatXEnqueue
  dsimp only
  split_ifs <;> rfl

theorem FormatXEnqueue_fold_F (G : FBAGraph) (c : Nat) (ls : List (Nat × Nat)) :
    ∀ st : FormatXState, (ls.foldl (fun a pq => FormatXEnqueue G c a pq.1 pq.2) st).F = st.F := by
  induction ls with
  | nil => intro st; rfl
  | cons x xs ih =>
    intro st
    simp only [List.foldl_cons]
    rw [ih, FormatXEnqueue_F]

theorem FormatXStep_FXRel (G : FBAGraph) (d : EEdGraphPinDirection) (st : FormatXState) :
    FXRel st.F (FormatXStep G d st).F := by
  have key : ∀ (l : FPinLink) (iq oq : List FPinLink),
      FXRel st.F ((FormatXLinks G (FormatXVisit G d { st with InputQueue := iq, OutputQueue := oq } l).F d
          (l.GetNode G)).foldl (fun a pq => FormatXEnqueue G (l.GetNode G) a pq.1 pq.2)
          (FormatXVisit G d { st with InputQueue := iq, OutputQueue := oq } l)).F := by
    intro l iq oq
    have h := FormatXVisit_FXRel G d { st with InputQueue := iq, OutputQueue := oq } l
    rw [FormatXEnqueue_fold_F]
    exact h
  unfold FormatXStep
  dsimp only
  split_ifs with hd
  · cases hi : st.InputQueue with
    | cons l r => simpa [hi] using key l r st.OutputQueue
    | nil =>
      cases ho : st.OutputQueue with
      | cons l r => simpa [hi, ho] using key l [] r
      | nil => simpa [hi, ho] using FXRel_refl st.F
  · cases ho : st.OutputQueue with
    | cons l r => simpa [ho] using key l st.InputQueue r
    | nil =>
      cases hi : st.InputQueue with
      | cons l r => simpa [hi, ho] using key l r []
      | nil => simpa [hi, ho] using FXRel_refl st.F

theorem FormatXLoop_FXRel (G : FBAGraph) (d : EEdGraphPinDirection) :
    ∀ (fuel : Nat) (st st' : FormatXState), FormatXLoop G d fuel st = some st' → FXRel st.F st'.F := by
  intro fuel
  induction fuel with
  | zero =>
    intro st st' h
    simp only [FormatXLoop] at h
    split_ifs at h
    cases h
    exact FXRel_refl _
  | succ n ih =>
    intro st st' h
    simp only [FormatXLoop] at h
    split_ifs at h
    · cases h
      exact FXRel_refl _
    · exact FXRel_trans (FormatXStep_FXRel G d st) (ih _ _ h)

/-- The loop of a pass ends within the fuel when the fuel covers the queued
links and the links not yet visited. -/
theorem FormatXLoop_terminates (G : FBAGraph) (d : EEdGraphPinDirection) :
    ∀ (fuel : Nat) (st : FormatXState), VisitedOk G st.VisitedLinks →
      queued st + (numPinLinks G - st.VisitedLinks.length) ≤ fuel →
      ∃ st', FormatXLoop G d fuel st = some st' := by
  intro fuel
  induction fuel with
  | zero =>
    intro st _ hm
    have h0 : queued st = 0 := by omega
    simp only [queued, Nat.add_eq_zero, List.length_eq_zero] at h0
    exact ⟨st, by simp [FormatXLoop, h0.1, h0.2]⟩
  | succ n ih =>
    intro st hv hm
    simp only [FormatXLoop]
    split_ifs with he
    · exact ⟨st, rfl⟩
    · have hq : 0 < queued st := by
        simp only [queued]
        by_contra hc
        have h0 : st.InputQueue.length + st.OutputQueue.length = 0 := by omega
        simp only [Nat.add_eq_zero, List.length_eq_zero] at h0
        simp [h0.1, h0.2] at he
      obtain ⟨h1, h2⟩ := FormatXStep_measure G d st hv hq
      have h3 := VisitedOk_length G _ h1
      exact ih _ h1 (by omega)

theorem FormatXPassInit_measure (G : FBAGraph) (st : FormatXState) (d : EEdGraphPinDirection) :
    VisitedOk G (FormatXPassInit st d).VisitedLinks
    ∧ queued (FormatXPassInit st d) + (numPinLinks G - (FormatXPassInit st d).VisitedLinks.length)
        ≤ numPinLinks G + 1
    ∧ (FormatXPassInit st d).F = st.F := by
  unfold FormatXPassInit
  dsimp only
  split_ifs <;> refine ⟨⟨by simp, by simp⟩, ?_, rfl⟩ <;> simp [queued] <;> omega

theorem FormatXFuel_terminates (G : FBAGraph) (S : FEdGraphParameterFormatter) :
    ∃ st, FormatXFuel G (numPinLinks G + 1) S = some st := by
  obtain ⟨a1, a2, _⟩ := FormatXPassInit_measure G (FormatXInit S) EGPD_Output
  obtain ⟨st1, h1⟩ := FormatXLoop_terminates G EGPD_Output _ _ a1 a2
  obtain ⟨b1, b2, _⟩ := FormatXPassInit_measure G st1 EGPD_Input
  obtain ⟨st2, h2⟩ := FormatXLoop_terminates G EGPD_Input _ _ b1 b2
  exact ⟨st2, by simp [FormatXFuel, h1, h2]⟩

theorem FormatX_FXRel (G : FBAGraph) (S : FEdGraphParameterFormatter) : FXRel S (FormatX G S) := by
  unfold FormatX
  split
  · rename_i st h
    simp only [FormatXFuel, Option.bind_eq_some] at h
    obtain ⟨st1, h1, h2⟩ := h
    have r1 := FormatXLoop_FXRel G EGPD_Output _ _ _ h1
    have r2 := FormatXLoop_FXRel G EGPD_Input _ _ _ h2
    rw [(FormatXPassInit_measure G _ _).2.2] at r1 r2
    have r0 : FXRel S (FormatXInit S).F := ⟨rfl, rfl, rfl, rfl, [], rfl⟩
    exact FXRel_trans r0 (FXRel_trans r1 r2)
  · exact FXRel_refl S

/-! ## Binary32 arithmetic: rounding -/

theorem lostBitsStep_inv (a s k : Nat)
    (h : (s = 0 ∨ 2 ^ 23 ≤ a / 2 ^ s) ∧ a / 2 ^ (s + 2 * k) < 2 ^ 23) :
    (lostBitsStep a s k = 0 ∨ 2 ^ 23 ≤ a / 2 ^ (lostBitsStep a s k))
      ∧ a / 2 ^ (lostBitsStep a s k + k) < 2 ^ 23 := by
  unfold lostBitsStep
  split_ifs with hc
  · refine ⟨Or.inr hc, ?_⟩
    have e : s + k + k = s + 2 * k := by omega
    rw [e]
    exact h.2
  · exact ⟨h.1, by omega⟩

theorem lostBitsSlow_spec : ∀ (fuel a : Nat), a ≤ fuel →
    (a < 2 ^ 24 → lostBitsSlow fuel a = 0)
      ∧ (2 ^ 24 ≤ a → 2 ^ 23 ≤ a / 2 ^ (lostBitsSlow fuel a) ∧ a / 2 ^ (lostBitsSlow fuel a) < 2 ^ 24) := by
  intro fuel
  induction fuel with
  | zero =>
    intro a ha
    have : a = 0 := by omega
    subst this
    simp [lostBitsSlow]
  | succ n ih =>
    intro a ha
    unfold lostBitsSlow
    by_cases hs : a < 2 ^ 24
    · rw [if_pos hs]
      exact ⟨fun _ => rfl, fun h => absurd hs (by omega)⟩
    · rw [if_neg hs]
      refine ⟨fun h => absurd h hs, fun _ => ?_⟩
      have hle : a / 2 ≤ n := by omega
      obtain ⟨i1, i2⟩ := ih (a / 2) hle
      have e : a / 2 ^ (lostBitsSlow n (a / 2) + 1) = a / 2 / 2 ^ (lostBitsSlow n (a / 2)) := by
        rw [Nat.pow_succ, Nat.mul_comm, Nat.div_div_eq_div_mul]
      rw [e]
      by_cases h2 : a / 2 < 2 ^ 24
      · rw [i1 h2]
        simp only [pow_zero, Nat.div_one]
        omega
      · exact i2 (by omega)

/-- The number of lost bits: none below `2^24`, else what leaves 24 bits. -/
theorem lostBits_spec (a : Nat) :
    (a < 2 ^ 24 → lostBits a = 0)
      ∧ (2 ^ 24 ≤ a → 2 ^ 23 ≤ a / 2 ^ (lostBits a) ∧ a / 2 ^ (lostBits a) < 2 ^ 24) := by
  unfold lostBits
  by_cases hb : a / 2 ^ 200 < 2 ^ 79
  · rw [if_pos hb]
    have h0 : ((0 : Nat) = 0 ∨ 2 ^ 23 ≤ a / 2 ^ 0) ∧ a / 2 ^ (0 + 2 * 128) < 2 ^ 23 := by
      refine ⟨Or.inl rfl, ?_⟩
      have e : a / 2 ^ (0 + 2 * 128) = a / 2 ^ 200 / 2 ^ 56 := by
        rw [Nat.div_div_eq_div_mul, ← pow_add]
      rw [e]
      apply Nat.div_lt_of_lt_mul
      have : (2 : Nat) ^ 56 * 2 ^ 23 = 2 ^ 79 := by rw [← pow_add]
      rw [this]
      exact hb
    have h1 := lostBitsStep_inv a 0 128 h0
    have h2 := lostBitsStep_inv a _ 64 h1
    have h3 := lostBitsStep_inv a _ 32 h2
    have h4 := lostBitsStep_inv a _ 16 h3
    have h5 := lostBitsStep_inv a _ 8 h4
    have h6 := lostBitsStep_inv a _ 4 h5
    have h7 := lostBitsStep_inv a _ 2 h6
    have h8 := lostBitsStep_inv a _ 1 h7
    simp only [List.foldl]
    generalize lostBitsStep a (lostBitsStep a (lostBitsStep a (lostBitsStep a (lostBitsStep a
      (lostBitsStep a (lostBitsStep a (lostBitsStep a 0 128) 64) 32) 16) 8) 4) 2) 1 = s at h8 ⊢
    clear h0 h1 h2 h3 h4 h5 h6 h7
    obtain ⟨k1, k2⟩ := h8
    have e : a / 2 ^ (s + 1) = a / 2 ^ s / 2 := by
      rw [Nat.pow_succ, Nat.div_div_eq_div_mul]
    rw [e] at k2
    constructor
    · intro hs
      rcases k1 with k1 | k1
      · exact k1
      · by_contra h0
        have h1 : 2 ^ 1 ≤ 2 ^ s := Nat.pow_le_pow_right (by decide) (by omega)
        have h2 : a / 2 ^ s ≤ a / 2 ^ 1 := Nat.div_le_div_left h1 (by decide)
        omega
    · intro hs
      constructor
      · rcases k1 with k1 | k1
        · subst k1
          simp only [pow_zero, Nat.div_one] at k2 ⊢
          omega
        · exact k1
      · omega
  · rw [if_neg hb]
    exact lostBitsSlow_spec a a (le_refl a)

theorem lostBits_mono (a b : Nat) (h : a ≤ b) : lostBits a ≤ lostBits b := by
  by_contra hc
  have hlt : lostBits b < lostBits a := by omega
  obtain ⟨a1, a2⟩ := lostBits_spec a
  obtain ⟨b1, b2⟩ := lostBits_spec b
  have ha : 2 ^ 24 ≤ a := by
    by_contra h0
    have := a1 (by omega)
    omega
  have hq := (a2 ha).1
  have hA : 2 ^ 23 * 2 ^ lostBits a ≤ a := (Nat.le_div_iff_mul_le (Nat.two_pow_pos _)).1 hq
  have hB : b < 2 ^ 24 * 2 ^ lostBits b := (Nat.div_lt_iff_lt_mul (Nat.two_pow_pos _)).1 (b2 (by omega)).2
  have hp : 2 ^ 24 * 2 ^ lostBits b ≤ 2 ^ 23 * 2 ^ lostBits a := by
    rw [← pow_add, ← pow_add]
    exact Nat.pow_le_pow_right (by decide) (by omega)
  omega

/-- The rounded magnitude is one of the two neighbours on the grid of its
binade. -/
theorem roundNat_cases (a : Nat) :
    roundNat a = a / 2 ^ lostBits a * 2 ^ lostBits a
      ∨ (roundNat a = (a / 2 ^ lostBits a + 1) * 2 ^ lostBits a ∧ a % 2 ^ lostBits a ≠ 0) := by
  unfold roundNat
  dsimp only
  split_ifs with hc
  · right
    refine ⟨rfl, ?_⟩
    intro h0
    rw [h0] at hc
    have : 0 < 2 ^ lostBits a := Nat.two_pow_pos _
    omega
  · left
    rfl

theorem roundNat_lower (a : Nat) : a / 2 ^ lostBits a * 2 ^ lostBits a ≤ roundNat a := by
  rcases roundNat_cases a with h | ⟨h, _⟩
  · rw [h]
  · rw [h]
    exact Nat.mul_le_mul_right _ (Nat.le_succ _)

theorem roundNat_upper (a : Nat) : roundNat a ≤ (a / 2 ^ lostBits a + 1) * 2 ^ lostBits a := by
  rcases roundNat_cases a with h | ⟨h, _⟩
  · rw [h]
    exact Nat.mul_le_mul_right _ (Nat.le_succ _)
  · rw [h]

/-- A magnitude with at most 24 significant bits is left by the rounding. -/
theorem roundNat_mul_pow (m e : Nat) (hm : m ≤ 2 ^ 24) : roundNat (m * 2 ^ e) = m * 2 ^ e := by
  have hdvd : 2 ^ lostBits (m * 2 ^ e) ∣ m * 2 ^ e := by
    obtain ⟨a1, a2⟩ := lostBits_spec (m * 2 ^ e)
    by_cases hs : m * 2 ^ e < 2 ^ 24
    · rw [a1 hs]
      simp
    · have hq := (a2 (by omega)).1
      have hA : 2 ^ 23 * 2 ^ lostBits (m * 2 ^ e) ≤ m * 2 ^ e :=
        (Nat.le_div_iff_mul_le (Nat.two_pow_pos _)).1 hq
      have hm2 : m * 2 ^ e ≤ 2 ^ 24 * 2 ^ e := Nat.mul_le_mul_right _ hm
      have hle : 2 ^ (23 + lostBits (m * 2 ^ e)) ≤ 2 ^ (24 + e) := by
        rw [pow_add, pow_add]
        omega
      have hse : 23 + lostBits (m * 2 ^ e) ≤ 24 + e := (Nat.pow_le_pow_iff_right (by decide)).1 hle
      by_cases he : lostBits (m * 2 ^ e) ≤ e
      · exact Dvd.dvd.mul_left (pow_dvd_pow 2 he) m
      · have hs1 : lostBits (m * 2 ^ e) = e + 1 := by omega
        rw [hs1] at hA ⊢
        have h24 : 2 ^ 24 * 2 ^ e ≤ m * 2 ^ e := by
          have : (2 : Nat) ^ 23 * 2 ^ (e + 1) = 2 ^ 24 * 2 ^ e := by
            rw [← pow_add, ← pow_add]
            congr 1
            omega
          omega
        have hm3 : 2 ^ 24 ≤ m := Nat.le_of_mul_le_mul_right h24 (Nat.two_pow_pos _)
        have hm4 : m = 2 ^ 24 := by omega
        rw [hm4, ← pow_add]
        exact pow_dvd_pow 2 (by omega)
  have hr : m * 2 ^ e % 2 ^ lostBits (m * 2 ^ e) = 0 := Nat.mod_eq_zero_of_dvd hdvd
  rcases roundNat_cases (m * 2 ^ e) with h | ⟨_, h⟩
  · rw [h]
    exact Nat.div_mul_cancel hdvd
  · exact absurd hr h

theorem roundNat_mono (a b : Nat) (h : a ≤ b) : roundNat a ≤ roundNat b := by
  have hs := lostBits_mono a b h
  rcases Nat.lt_or_eq_of_le hs with hlt | heq
  · -- a lower binade
    obtain ⟨a1, a2⟩ := lostBits_spec a
    obtain ⟨b1, b2⟩ := lostBits_spec b
    have hb : 2 ^ 24 ≤ b := by
      by_contra h0
      have := b1 (by omega)
      omega
    have hqb := (b2 hb).1
    have hqa : a / 2 ^ lostBits a < 2 ^ 24 := by
      by_cases ha : a < 2 ^ 24
      · rw [a1 ha]
        simpa using ha
      · exact (a2 (by omega)).2
    have u := roundNat_upper a
    have l := roundNat_lower b
    have h1 : (a / 2 ^ lostBits a + 1) * 2 ^ lostBits a ≤ 2 ^ 24 * 2 ^ lostBits a :=
      Nat.mul_le_mul_right _ hqa
    have h2 : 2 ^ 24 * 2 ^ lostBits a ≤ 2 ^ 23 * 2 ^ lostBits b := by
      rw [← pow_add, ← pow_add]
      exact Nat.pow_le_pow_right (by decide) (by omega)
    have h3 : 2 ^ 23 * 2 ^ lostBits b ≤ b / 2 ^ lostBits b * 2 ^ lostBits b :=
      Nat.mul_le_mul_right _ hqb
    omega
  · -- the same binade
    have hq : a / 2 ^ lostBits a ≤ b / 2 ^ lostBits a := Nat.div_le_div_right h
    rcases Nat.lt_or_eq_of_le hq with hql | hqe
    · have u := roundNat_upper a
      have l := roundNat_lower b
      rw [← heq] at l
      have : (a / 2 ^ lostBits a + 1) * 2 ^ lostBits a ≤ b / 2 ^ lostBits a * 2 ^ lostBits a :=
        Nat.mul_le_mul_right _ hql
      omega
    · have hr : a % 2 ^ lostBits a ≤ b % 2 ^ lostBits a := by
        have ea := Nat.div_add_mod a (2 ^ lostBits a)
        have eb := Nat.div_add_mod b (2 ^ lostBits a)
        rw [hqe] at ea
        omega
      unfold roundNat
      dsimp only
      rw [← heq, ← hqe]
      by_cases ca : 2 * (a % 2 ^ lostBits a) > 2 ^ lostBits a
          ∨ (2 * (a % 2 ^ lostBits a) = 2 ^ lostBits a ∧ a / 2 ^ lostBits a % 2 = 1)
      · have cb : 2 * (b % 2 ^ lostBits a) > 2 ^ lostBits a
            ∨ (2 * (b % 2 ^ lostBits a) = 2 ^ lostBits a ∧ a / 2 ^ lostBits a % 2 = 1) := by
          rcases ca with c | ⟨c1, c2⟩
          · left
            omega
          · by_cases hbe : 2 * (b % 2 ^ lostBits a) = 2 ^ lostBits a
            · exact Or.inr ⟨hbe, c2⟩
            · left
              omega
        rw [if_pos ca, if_pos cb]
      · rw [if_neg ca]
        split_ifs
        · exact Nat.mul_le_mul_right _ (Nat.le_succ _)
        · exact le_refl _

theorem roundNat_zero : roundNat 0 = 0 := by
  have := roundNat_mul_pow 0 0 (by decide)
  simpa using this

theorem roundF32_neg (k : Int) : roundF32 (-k) = -roundF32 k := by
  unfold roundF32
  rcases lt_trichotomy k 0 with h | h | h
  · rw [if_neg (by omega), if_pos h, Int.natAbs_neg, neg_neg]
  · subst h
    simp [roundNat_zero]
  · rw [if_pos (by omega), if_neg (by omega), Int.natAbs_neg]

theorem roundF32_nonneg (k : Int) (h : 0 ≤ k) : 0 ≤ roundF32 k := by
  unfold roundF32
  rw [if_neg (by omega)]
  exact Int.ofNat_nonneg _

/-- Rounding to binary32 is monotone. -/
theorem roundF32_mono (a b : Int) (h : a ≤ b) : roundF32 a ≤ roundF32 b := by
  by_cases ha : a < 0
  · by_cases hb : b < 0
    · unfold roundF32
      rw [if_pos ha, if_pos hb]
      have : roundNat b.natAbs ≤ roundNat a.natAbs := roundNat_mono _ _ (by omega)
      omega
    · have h1 := roundF32_nonneg b (by omega)
      have h2 : roundF32 a ≤ 0 := by
        unfold roundF32
        rw [if_pos ha]
        omega
      omega
  · unfold roundF32
    rw [if_neg ha, if_neg (by omega)]
    have : roundNat a.natAbs ≤ roundNat b.natAbs := roundNat_mono _ _ (by omega)
    omega

/-- A value with at most 24 significant bits is a binary32 number. -/
theorem roundF32_mul_pow (m : Int) (e : Nat) (hm : m.natAbs ≤ 2 ^ 24) :
    roundF32 (m * ((2 ^ e : Nat) : Int)) = m * ((2 ^ e : Nat) : Int) := by
  have key : ∀ n : Nat, n ≤ 2 ^ 24 →
      roundF32 ((n : Int) * ((2 ^ e : Nat) : Int)) = (n : Int) * ((2 ^ e : Nat) : Int) := by
    intro n hn
    unfold roundF32
    have h0 : ¬ ((n : Int) * ((2 ^ e : Nat) : Int) < 0) := by
      have : (0 : Int) ≤ (n : Int) * ((2 ^ e : Nat) : Int) := by positivity
      omega
    rw [if_neg h0]
    have e1 : ((n : Int) * ((2 ^ e : Nat) : Int)).natAbs = n * 2 ^ e := by
      rw [← Int.natCast_mul, Int.natAbs_ofNat]
    rw [e1, roundNat_mul_pow n e hn, Int.natCast_mul]
  rcases Int.natAbs_eq m with h | h
  · rw [h]
    exact key _ hm
  · rw [h, Int.neg_mul, roundF32_neg, key _ hm]

theorem roundNat_repr (a : Nat) : ∃ m e : Nat, m ≤ 2 ^ 24 ∧ roundNat a = m * 2 ^ e := by
  obtain ⟨a1, a2⟩ := lostBits_spec a
  have hq : a / 2 ^ lostBits a < 2 ^ 24 := by
    by_cases ha : a < 2 ^ 24
    · rw [a1 ha]
      simpa using ha
    · exact (a2 (by omega)).2
  rcases roundNat_cases a with h | ⟨h, _⟩
  · exact ⟨_, _, by omega, h⟩
  · exact ⟨_, _, by omega, h⟩

/-- The result of a rounding is a binary32 number. -/
theorem IsF32_roundF32 (k : Int) : IsF32 (roundF32 k) := by
  obtain ⟨m, e, hm, he⟩ := roundNat_repr k.natAbs
  unfold IsF32
  have h1 : roundF32 k = (if k < 0 then -(m : Int) else (m : Int)) * ((2 ^ e : Nat) : Int) := by
    unfold roundF32
    rw [he]
    split_ifs <;> simp [Int.natCast_mul]
  rw [h1]
  apply roundF32_mul_pow
  split_ifs <;> simpa using hm

/-- A binary32 number above an exact result is above its rounding. -/
theorem roundF32_le (k r : Int) (hr : IsF32 r) (h : k ≤ r) : roundF32 k ≤ r := by
  have := roundF32_mono k r h
  rw [hr] at this
  exact this

/-- A binary32 number below an exact result is below its rounding. -/
theorem le_roundF32 (k r : Int) (hr : IsF32 r) (h : r ≤ k) : r ≤ roundF32 k := by
  have := roundF32_mono r k h
  rw [hr] at this
  exact this

/-- A whole number of magnitude at most `2^24` is a binary32 number. -/
theorem roundF32_whole (n : Int) (h1 : -16777216 ≤ n) (h2 : n ≤ 16777216) :
    roundF32 (n * F32One) = n * F32One := by
  unfold F32One
  exact roundF32_mul_pow n 149 (by omega)

theorem ofInt32_exact (n : Int) (h1 : -16777216 ≤ n) (h2 : n ≤ 16777216) :
    ofInt32 n = n * F32One := roundF32_whole n h1 h2

theorem F32One_pos : 0 < F32One := by
  unfold F32One
  positivity

theorem toInt32_whole (n : Int) : toInt32 (n * F32One) = n := by
  unfold toInt32
  exact Int.mul_tdiv_cancel _ (ne_of_gt F32One_pos)

theorem fadd_whole (m n : Int) (h1 : -16777216 ≤ m + n) (h2 : m + n ≤ 16777216) :
    fadd (m * F32One) (n * F32One) = (m + n) * F32One := by
  unfold fadd
  rw [← add_mul]
  exact roundF32_whole _ h1 h2

theorem fsub_whole (m n : Int) (h1 : -16777216 ≤ m - n) (h2 : m - n ≤ 16777216) :
    fsub (m * F32One) (n * F32One) = (m - n) * F32One := by
  unfold fsub
  rw [← sub_mul]
  exact roundF32_whole _ h1 h2

theorem ofInt32_mono (m n : Int) (h : m ≤ n) : ofInt32 m ≤ ofInt32 n := by
  unfold ofInt32
  exact roundF32_mono _ _ (Int.mul_le_mul_of_nonneg_right h (le_of_lt F32One_pos))

/-- A whole number below a value is below its truncation. -/
theorem le_toInt32 (w a : Int) (h : w * F32One ≤ a) : w ≤ toInt32 a := by
  unfold toInt32
  have hp := F32One_pos
  by_cases ha : 0 ≤ a
  · rw [Int.tdiv_eq_ediv ha (le_of_lt hp)]
    exact (Int.le_ediv_iff_mul_le hp).2 h
  · have hneg : a < 0 := by omega
    have h1 : a.tdiv F32One = -((-a).tdiv F32One) := by
      rw [Int.neg_tdiv, neg_neg]
    rw [h1, Int.tdiv_eq_ediv (by omega) (le_of_lt hp)]
    have h2 : (-a) / F32One ≤ -w := by
      have h3 : (-a) / F32One * F32One ≤ -a := Int.ediv_mul_le _ (ne_of_gt hp)
      by_contra hc
      have h4 : -w + 1 ≤ (-a) / F32One := by omega
      have h5 : (-w + 1) * F32One ≤ (-a) / F32One * F32One :=
        Int.mul_le_mul_of_nonneg_right h4 (le_of_lt hp)
      have h6 : (-w + 1) * F32One = -(w * F32One) + F32One := by ring
      omega
    omega

/-- A whole number above a value is above its truncation. -/
theorem toInt32_le (w a : Int) (h : a ≤ w * F32One) : toInt32 a ≤ w := by
  have h1 : -w ≤ toInt32 (-a) := le_toInt32 (-w) (-a) (by rw [Int.neg_mul]; omega)
  have h2 : toInt32 (-a) = -toInt32 a := by
    unfold toInt32
    exact Int.neg_tdiv _ _
  omega

/-- A predicate that implies another and fails at a member where the other
holds counts strictly fewer members. -/
theorem countP_lt_of_imp (p q : Nat → Bool) (n : Nat) (himp : ∀ x, p x = true → q x = true)
    (hq : q n = true) (hp : p n = false) :
    ∀ l : List Nat, n ∈ l → l.countP p < l.countP q := by
  intro l
  induction l with
  | nil => intro h; cases h
  | cons x xs ih =>
    intro h
    have hle : xs.countP p ≤ xs.countP q := List.countP_mono_left (fun y _ hy => himp y hy)
    by_cases hx : x = n
    · subst hx
      rw [List.countP_cons_of_neg _ _ (by simp [hp]), List.countP_cons_of_pos _ _ hq]
      omega
    · have hmem : n ∈ xs := by
        rcases List.mem_cons.mp h with h1 | h1
        · exact absurd h1.symm hx
        · exact h1
      have := ih hmem
      by_cases hpx : p x = true
      · rw [List.countP_cons_of_pos _ _ hpx, List.countP_cons_of_pos _ _ (himp x hpx)]
        omega
      · rw [List.countP_cons_of_neg _ _ hpx]
        by_cases hqx : q x = true
        · rw [List.countP_cons_of_pos _ _ hqx]; omega
        · rw [List.countP_cons_of_neg _ _ hqx]; omega

theorem foldl_withPosY_other (l : List Nat) (g : FEdGraphParameterFormatter → Nat → Int) (r : Nat)
    (hr : r ∉ l) :
    ∀ S : FEdGraphParameterFormatter,
      (l.foldl (fun a n => withPosY a n (g a n)) S).NodePosY r = S.NodePosY r := by
  induction l with
  | nil => intro S; rfl
  | cons x xs ih =>
    intro S
    simp only [List.mem_cons, not_or] at hr
    simp only [List.foldl_cons]
    rw [ih hr.2]
    simp [withPosY, setPos, hr.1]

theorem foldl_withPosY_mem (g : Int → Int) :
    ∀ l : List Nat, l.Nodup → ∀ (S : FEdGraphParameterFormatter) (c : Nat), c ∈ l →
      (l.foldl (fun a n => withPosY a n (g (a.NodePosY n))) S).NodePosY c = g (S.NodePosY c) := by
  intro l
  induction l with
  | nil => intro _ S c hc; cases hc
  | cons x xs ih =>
    intro hnd S c hc
    rw [List.nodup_cons] at hnd
    simp only [List.foldl_cons]
    by_cases hx : c = x
    · subst hx
      rw [foldl_withPosY_other xs (fun a n => g (a.NodePosY n)) c hnd.1]
      simp [withPosY, setPos]
    · have hmem : c ∈ xs := by
        rcases List.mem_cons.mp hc with h1 | h1
        · exact absurd h1 hx
        · exact h1
      rw [ih hnd.2 _ c hmem]
      simp [withPosY, setPos, hx]

theorem foldl_inv {α β : Type} (I : α → Prop) (f : α → β → α) (l : List β) :
    ∀ a, I a → (∀ a x, I a → I (f a x)) → I (l.foldl f a) := by
  induction l with
  | nil => intro a h _; exact h
  | cons x xs ih => intro a h hs; exact ih (f a x) (hs a x h) hs

/-- The rounding of a whole number is a whole number. -/
theorem roundF32_whole_exists (k : Int) : ∃ m : Int, roundF32 (k * F32One) = m * F32One := by
  have key : ∀ n : Nat, ∃ m : Nat, roundNat (n * 2 ^ 149) = m * 2 ^ 149 := by
    intro n
    by_cases hn : n ≤ 2 ^ 24
    · exact ⟨n, roundNat_mul_pow n 149 hn⟩
    · have hbig : 2 ^ 24 ≤ n * 2 ^ 149 := by
        have h1 : 2 ^ 24 * 1 ≤ n * 2 ^ 149 :=
          Nat.mul_le_mul (by omega) (Nat.one_le_two_pow)
        omega
      obtain ⟨_, a2⟩ := lostBits_spec (n * 2 ^ 149)
      obtain ⟨_, hq⟩ := a2 hbig
      have hs : 149 ≤ lostBits (n * 2 ^ 149) := by
        by_contra hc
        have hlt : lostBits (n * 2 ^ 149) ≤ 148 := by omega
        have hpow : 2 ^ lostBits (n * 2 ^ 149) ≤ 2 ^ 148 := Nat.pow_le_pow_right (by norm_num) hlt
        have h3 : n * 2 ^ 149 / 2 ^ 148 ≤ n * 2 ^ 149 / 2 ^ lostBits (n * 2 ^ 149) :=
          Nat.div_le_div_left hpow (Nat.two_pow_pos _)
        have h4 : n * 2 ^ 149 / 2 ^ 148 = n * 2 := by
          have : n * 2 ^ 149 = n * 2 * 2 ^ 148 := by ring
          rw [this, Nat.mul_div_cancel _ (Nat.two_pow_pos _)]
        omega
      have hsplit : ∀ q : Nat, q * 2 ^ lostBits (n * 2 ^ 149)
          = q * 2 ^ (lostBits (n * 2 ^ 149) - 149) * 2 ^ 149 := by
        intro q
        rw [mul_assoc, ← pow_add, Nat.sub_add_cancel hs]
      rcases roundNat_cases (n * 2 ^ 149) with h | ⟨h, _⟩
      · exact ⟨_, h.trans (hsplit _)⟩
      · exact ⟨_, h.trans (hsplit _)⟩
  have hU : F32One = ((2 ^ 149 : Nat) : Int) := rfl
  have keyI : ∀ n : Nat, ∃ m : Int, roundF32 ((n : Int) * F32One) = m * F32One := by
    intro n
    obtain ⟨m, hm⟩ := key n
    refine ⟨(m : Int), ?_⟩
    unfold roundF32
    have h0 : ¬ ((n : Int) * F32One < 0) := by
      have : (0 : Int) ≤ (n : Int) * F32One := mul_nonneg (by omega) (le_of_lt F32One_pos)
      omega
    rw [if_neg h0]
    have e1 : ((n : Int) * F32One).natAbs = n * 2 ^ 149 := by
      rw [hU, ← Int.natCast_mul, Int.natAbs_ofNat]
    rw [e1, hm, Int.natCast_mul, hU]
  rcases Int.natAbs_eq k with h | h
  · rw [h]
    exact keyI _
  · obtain ⟨m, hm⟩ := keyI k.natAbs
    refine ⟨-m, ?_⟩
    rw [h, Int.neg_mul, roundF32_neg, hm, Int.neg_mul]

/-- A whole binary32 number survives the truncation to `int32` and the
conversion back. -/
theorem ofInt32_toInt32_whole (b : Int) (hb : IsF32 b) (m : Int) (hm : b = m * F32One) :
    toInt32 b = m ∧ ofInt32 (toInt32 b) = b := by
  have h1 : toInt32 b = m := by rw [hm, toInt32_whole]
  refine ⟨h1, ?_⟩
  rw [h1]
  unfold ofInt32
  rw [← hm]
  exact hb

/-- The binary32 sum of two converted `int32` sums is whole. -/
theorem fadd_whole_exists (x y : Int) (hx : ∃ m : Int, x = m * F32One) (hy : ∃ m : Int, y = m * F32One) :
    ∃ m : Int, fadd x y = m * F32One := by
  obtain ⟨a, ha⟩ := hx
  obtain ⟨b, hb⟩ := hy
  unfold fadd
  have : x + y = (a + b) * F32One := by rw [ha, hb]; ring
  rw [this]
  exact roundF32_whole_exists _

theorem GetCachedNodeBounds32_Left (G : FBAGraph) (S : FEdGraphParameterFormatter) (n : Nat)
    (h1 : -16777216 ≤ S.NodePosX n) (h2 : S.NodePosX n ≤ 16777216) :
    (GetCachedNodeBounds32 G S n).Left = S.NodePosX n * F32One :=
  ofInt32_exact _ h1 h2

theorem GetCachedNodeBounds32_Right (G : FBAGraph) (S : FEdGraphParameterFormatter) (n : Nat)
    (h1 : -16777216 ≤ S.NodePosX n) (h2 : S.NodePosX n ≤ 16777216)
    (h3 : -16777216 ≤ (G.node n).SizeX) (h4 : (G.node n).SizeX ≤ 16777216)
    (h5 : -16777216 ≤ S.NodePosX n + (G.node n).SizeX) (h6 : S.NodePosX n + (G.node n).SizeX ≤ 16777216) :
    (GetCachedNodeBounds32 G S n).Right = (S.NodePosX n + (G.node n).SizeX) * F32One := by
  show fadd (ofInt32 (S.NodePosX n)) (ofInt32 (G.node n).SizeX) = _
  rw [ofInt32_exact _ h1 h2, ofInt32_exact _ h3 h4, fadd_whole _ _ h5 h6]

theorem GetCachedNodeBounds32_Top (G : FBAGraph) (S : FEdGraphParameterFormatter) (n : Nat)
    (h1 : -16777216 ≤ S.NodePosY n) (h2 : S.NodePosY n ≤ 16777216) :
    (GetCachedNodeBounds32 G S n).Top = S.NodePosY n * F32One :=
  ofInt32_exact _ h1 h2

theorem GetCachedNodeBounds32_Bottom (G : FBAGraph) (S : FEdGraphParameterFormatter) (n : Nat)
    (h1 : -16777216 ≤ S.NodePosY n) (h2 : S.NodePosY n ≤ 16777216)
    (h3 : -16777216 ≤ (G.node n).SizeY) (h4 : (G.node n).SizeY ≤ 16777216)
    (h5 : -16777216 ≤ S.NodePosY n + (G.node n).SizeY) (h6 : S.NodePosY n + (G.node n).SizeY ≤ 16777216) :
    (GetCachedNodeBounds32 G S n).Bottom = (S.NodePosY n + (G.node n).SizeY) * F32One := by
  show fadd (ofInt32 (S.NodePosY n)) (ofInt32 (G.node n).SizeY) = _
  rw [ofInt32_exact _ h1 h2, ofInt32_exact _ h3 h4, fadd_whole _ _ h5 h6]

theorem setPos_setPos (f : Nat → Int) (n : Nat) (a b : Int) : setPos (setPos f n a) n b = setPos f n b := by
  funext m
  unfold setPos
  split_ifs <;> rfl

theorem setPos_self (f : Nat → Int) (n : Nat) : setPos f n (f n) = f := by
  funext m
  unfold setPos
  split_ifs with h
  · rw [h]
  · rfl

theorem setPos_eq (f : Nat → Int) (n : Nat) (v : Int) : setPos f n v n = v := by
  simp [setPos]

theorem setPos_ne (f : Nat → Int) (n m : Nat) (v : Int) (h : m ≠ n) : setPos f n v m = f m := by
  simp [setPos, h]

theorem mkBranch_BranchNodes (p q : Nat) (l : List Nat) : (mkBranch p q l).BranchNodes = l := rfl

theorem mkBranch_Pin (p q : Nat) (l : List Nat) : (mkBranch p q l).Pin = p := rfl

theorem mkBranch_ParentPin (p q : Nat) (l : List Nat) : (mkBranch p q l).ParentPin = q := rfl
/-! ## What the vertical placement and the height expansion write -/

theorem OnlyY_refl (S : FEdGraphParameterFormatter) : OnlyY S S := ⟨rfl, rfl⟩

theorem OnlyY_trans {A B C : FEdGraphParameterFormatter} (h1 : OnlyY A B) (h2 : OnlyY B C) : OnlyY A C :=
  ⟨h2.1.trans h1.1, h2.2.trans h1.2⟩

theorem OnlyX_refl (S : FEdGraphParameterFormatter) : OnlyX S S := ⟨rfl, rfl⟩

theorem OnlyX_trans {A B C : FEdGraphParameterFormatter} (h1 : OnlyX A B) (h2 : OnlyX B C) : OnlyX A C :=
  ⟨h2.1.trans h1.1, h2.2.trans h1.2⟩

theorem OnlyY_withPosY {S A : FEdGraphParameterFormatter} (h : OnlyY S A) (n : Nat) (y : Int) :
    OnlyY S (withPosY A n y) := h

theorem OnlyX_withPosX {S A : FEdGraphParameterFormatter} (h : OnlyX S A) (n : Nat) (x : Int) :
    OnlyX S (withPosX A n x) := h

theorem OnlyY_StraightenPin (G : FBAGraph) {S A : FEdGraphParameterFormatter} (h : OnlyY S A) (p q : Nat) :
    OnlyY S (StraightenPin G A p q) := h

theorem OnlyY_FormatYCollision (G : FBAGraph) (c : Nat) (V : List Nat) :
    ∀ (n : Nat) (S : FEdGraphParameterFormatter), OnlyY S (FormatYCollision G c V n S) := by
  intro n
  induction n with
  | zero => intro S; exact OnlyY_refl S
  | succ k ih =>
    intro S
    simp only [FormatYCollision]
    split
    · exact OnlyY_refl S
    · exact OnlyY_trans (OnlyY_withPosY (OnlyY_refl S) _ _) (ih _)

theorem OnlyY_foldl_withPosY (S A : FEdGraphParameterFormatter) (h : OnlyY S A) (l : List Nat)
    (g : FEdGraphParameterFormatter → Nat → Int) :
    OnlyY S (l.foldl (fun a n => withPosY a n (g a n)) A) :=
  foldl_inv (OnlyY S) _ _ _ h (fun _ _ hx => OnlyY_withPosY hx _ _)

theorem OnlyY_CenterBranches (G : FBAGraph) (S : FEdGraphParameterFormatter) (c : Nat)
    (bs : List ChildBranch) (V : List Nat) : OnlyY S (CenterBranches G S c bs V) := by
  unfold CenterBranches CenterOffsetBranches
  dsimp only
  split_ifs
  · exact OnlyY_foldl_withPosY S _ (OnlyY_foldl_withPosY S S (OnlyY_refl S) _ _) _ _
  · exact OnlyY_foldl_withPosY S S (OnlyY_refl S) _ _

theorem OnlyY_FormatYPlaceChild (G : FBAGraph) (F : FEdGraphParameterFormatter) (p q : Nat) :
    OnlyY F (FormatYPlaceChild G F p q) := by
  unfold FormatYPlaceChild
  dsimp only
  split_ifs
  · exact OnlyY_withPosY (OnlyY_refl F) _ _
  · exact OnlyY_StraightenPin G (OnlyY_refl F) _ _

theorem OnlyY_FormatYAvoidPin (G : FBAGraph) (F : FEdGraphParameterFormatter) (d : EEdGraphPinDirection)
    (ll : Option Nat) (lc : List Nat) : OnlyY F (FormatYAvoidPin G F d ll lc) := by
  unfold FormatYAvoidPin
  dsimp only
  split_ifs
  · split
    · split_ifs
      · exact OnlyY_foldl_withPosY F F (OnlyY_refl F) _ _
      · exact OnlyY_refl F
    · exact OnlyY_refl F
  · exact OnlyY_refl F

theorem OnlyY_FormatYChild (G : FBAGraph)
    (recurse : Nat → Option Nat → Option Nat → Bool →
      FEdGraphParameterFormatter × List Nat × List Nat → FEdGraphParameterFormatter × List Nat × List Nat)
    (hrec : RecOnlyY recurse) (S : FEdGraphParameterFormatter) (c : Nat) (pp : Option Nat)
    (Children : List Nat) (d : EEdGraphPinDirection) (MyPin : Nat) (a : FormatYState) (OtherPin : Nat)
    (h : OnlyY S a.F) : OnlyY S (FormatYChild G recurse c pp Children d MyPin a OtherPin).F := by
  unfold FormatYChild
  dsimp only
  split_ifs
  · exact h
  · exact OnlyY_trans (OnlyY_trans (OnlyY_trans h (OnlyY_FormatYPlaceChild G a.F MyPin OtherPin))
      (hrec _ _ _ _ _)) (OnlyY_FormatYAvoidPin G _ d a.LastLinked _)

theorem OnlyY_FormatYPin (G : FBAGraph)
    (recurse : Nat → Option Nat → Option Nat → Bool →
      FEdGraphParameterFormatter × List Nat × List Nat → FEdGraphParameterFormatter × List Nat × List Nat)
    (hrec : RecOnlyY recurse) (S : FEdGraphParameterFormatter) (c : Nat) (pp : Option Nat)
    (Children : List Nat) (d : EEdGraphPinDirection) (a : FormatYState) (MyPin : Nat)
    (h : OnlyY S a.F) : OnlyY S (FormatYPin G recurse c pp Children d a MyPin).F := by
  unfold FormatYPin
  dsimp only
  have hf : OnlyY S ((G.pin MyPin).LinkedTo.foldl (FormatYChild G recurse c pp Children d MyPin) a).F :=
    foldl_inv (fun (x : FormatYState) => OnlyY S x.F) _ _ _ h
      (fun x q hx => OnlyY_FormatYChild G recurse hrec S c pp Children d MyPin x q hx)
  split_ifs
  · exact h
  · exact hf
  · exact hf

theorem OnlyY_FormatYDirection (G : FBAGraph)
    (recurse : Nat → Option Nat → Option Nat → Bool →
      FEdGraphParameterFormatter × List Nat × List Nat → FEdGraphParameterFormatter × List Nat × List Nat)
    (hrec : RecOnlyY recurse) (S : FEdGraphParameterFormatter) (c : Nat) (pp : Option Nat)
    (Children : List Nat) (a : FormatYState) (d : EEdGraphPinDirection)
    (h : OnlyY S a.F) : OnlyY S (FormatYDirection G recurse c pp Children a d).F := by
  unfold FormatYDirection
  dsimp only
  have hf : OnlyY S ((GetPinsByDirection G c d).foldl (FormatYPin G recurse c pp Children d)
      { a with LastLinked := none, ChildBranches := [] }).F :=
    foldl_inv (fun (x : FormatYState) => OnlyY S x.F) _ _ _ h
      (fun x q hx => OnlyY_FormatYPin G recurse hrec S c pp Children d x q hx)
  split_ifs
  · exact OnlyY_trans hf (OnlyY_CenterBranches G _ _ _ _)
  · exact hf

theorem OnlyY_FormatYFinish (G : FBAGraph) (F : FEdGraphParameterFormatter) (b : Bool)
    (cp pp : Option Nat) : OnlyY F (FormatYFinish G F b cp pp) := by
  unfold FormatYFinish
  split
  · exact OnlyY_StraightenPin G (OnlyY_refl F) _ _
  · exact OnlyY_refl F

theorem OnlyY_FormatYBody (G : FBAGraph)
    (recurse : Nat → Option Nat → Option Nat → Bool →
      FEdGraphParameterFormatter × List Nat × List Nat → FEdGraphParameterFormatter × List Nat × List Nat)
    (hrec : RecOnlyY recurse) : RecOnlyY (FormatYBody G recurse) := by
  intro c cp pp b acc
  unfold FormatYBody
  dsimp only
  split_ifs
  · exact OnlyY_refl _
  · have hf : OnlyY acc.1 ([EGPD_Input, EGPD_Output].foldl
        (FormatYDirection G recurse c pp (match mapFind acc.1.NodeInfoMap c with
          | some i => GetChildNodes acc.1.Infos i
          | none => []))
        { F := FormatYCollision G c acc.2.1 100 acc.1, VisitedNodes := setAdd acc.2.1 c,
          OutChildren := acc.2.2, bFirstPin := true, LastLinked := none, ChildBranches := [] }).F :=
      foldl_inv (fun (x : FormatYState) => OnlyY acc.1 x.F) _ _ _
        (OnlyY_FormatYCollision G c acc.2.1 100 acc.1)
        (fun x q hx => OnlyY_FormatYDirection G recurse hrec acc.1 c pp _ x q hx)
    exact OnlyY_trans hf (OnlyY_FormatYFinish G _ b cp pp)

theorem OnlyY_FormatY (G : FBAGraph) : ∀ fuel : Nat, RecOnlyY (FormatY G fuel) := by
  intro fuel
  induction fuel with
  | zero => intro c cp pp b acc; exact OnlyY_refl _
  | succ n ih => exact OnlyY_FormatYBody G _ ih

theorem OnlyX_ExpandByHeight (G : FBAGraph) (S : FEdGraphParameterFormatter) :
    OnlyX S (ExpandByHeight G S) := by
  unfold ExpandByHeight
  dsimp only
  split_ifs
  · exact OnlyX_refl S
  · refine foldl_inv (OnlyX S) _ _ _ (OnlyX_refl S) ?_
    intro a n ha
    dsimp only
    split_ifs
    · exact ha
    · refine foldl_inv (OnlyX S) _ _ _ ha ?_
      intro b m hb
      dsimp only
      split_ifs
      · exact OnlyX_withPosX hb _ _
      · exact hb
/-! ## The slow path as a whole -/

theorem setAdd_mem_of_mem {s : List Nat} {n r : Nat} (h : r ∈ s) : r ∈ setAdd s n := by
  unfold setAdd
  split_ifs
  · exact h
  · exact List.mem_append_left _ h

theorem setAdd_nodup {s : List Nat} (n : Nat) (h : s.Nodup) : (setAdd s n).Nodup := by
  unfold setAdd
  split_ifs with hm
  · exact h
  · rw [List.nodup_append]
    exact ⟨h, by simp, by
      intro a ha hb
      simp only [List.mem_singleton] at hb
      subst hb
      exact hm ha⟩

theorem setAppend_mem_of_mem (l : List Nat) : ∀ (s : List Nat) (r : Nat), r ∈ s → r ∈ setAppend s l := by
  induction l with
  | nil => intro s r h; exact h
  | cons x xs ih => intro s r h; exact ih _ r (setAdd_mem_of_mem h)

theorem setAppend_nodup (l : List Nat) : ∀ s : List Nat, s.Nodup → (setAppend s l).Nodup := by
  induction l with
  | nil => intro s h; exact h
  | cons x xs ih => intro s h; exact ih _ (setAdd_nodup x h)

theorem restOf_fields {S S' : FEdGraphParameterFormatter} (h : restOf S' = restOf S) :
    S'.AllFormattedNodes = S.AllFormattedNodes ∧ cfgOf S' = cfgOf S := by
  refine ⟨congrArg (fun x => x.AllFormattedNodes) h, ?_⟩
  show cfgOf (restOf S') = cfgOf (restOf S)
  rw [h]

theorem restOf_FormatNodeShiftOutputs (G : FBAGraph) (S : FEdGraphParameterFormatter) :
    OnlyX S (FormatNodeShiftOutputs G S) := by
  unfold FormatNodeShiftOutputs
  dsimp only
  split_ifs
  · exact foldl_inv (OnlyX S) _ _ _ (OnlyX_refl S) (fun a x h => OnlyX_withPosX h _ _)
  · exact OnlyX_refl S
  · exact OnlyX_refl S

theorem restOf_FormatNodeVertical (G : FBAGraph) (S : FEdGraphParameterFormatter) :
    restOf (FormatNodeVertical G S) = restOf S := by
  unfold FormatNodeVertical
  dsimp only
  have hY := (OnlyY_FormatY G (G.Pins.length + 2) (S.RootNode.getD 0) none none false (S, [], [])).1
  split_ifs
  · exact (OnlyX_ExpandByHeight G _).1.trans hY
  · exact hY

/-- The layout of the slow path keeps the configuration, leaves the offset
cache empty and yields a duplicate-free formatted set that contains the
root. -/
theorem FormatNodeLayout_frame (G : FBAGraph) (S : FEdGraphParameterFormatter) :
    (FormatNodeLayout G S).RootNode = S.RootNode
    ∧ (FormatNodeLayout G S).NodeToKeepStill = S.NodeToKeepStill
    ∧ (FormatNodeLayout G S).IgnoredNodes = S.IgnoredNodes
    ∧ (FormatNodeLayout G S).bInitialized = S.bInitialized
    ∧ (FormatNodeLayout G S).NodeOffsets = []
    ∧ (FormatNodeLayout G S).AllFormattedNodes.Nodup
    ∧ S.RootNode.getD 0 ∈ (FormatNodeLayout G S).AllFormattedNodes := by
  obtain ⟨b1, _, _, _, l1, b5⟩ := FormatX_FXRel G (FormatNodeReset G S)
  obtain ⟨c1, _, _, _, l2, c5⟩ := FormatX_FXRel G (FormatNodeRows G (FormatX G (FormatNodeReset G S)))
  have hL : restOf (FormatNodeLayout G S)
      = restOf (FormatX G (FormatNodeRows G (FormatX G (FormatNodeReset G S)))) :=
    (restOf_FormatNodeVertical G _).trans (restOf_FormatNodeShiftOutputs G _).1
  obtain ⟨hA, hc⟩ := restOf_fields hL
  have hcfg : cfgOf (FormatNodeLayout G S)
      = (S.RootNode, S.NodeToKeepStill, S.IgnoredNodes, S.bInitialized, []) := by
    rw [hc, c1]
    exact b1
  simp only [cfgOf, Prod.mk.injEq] at hcfg
  obtain ⟨e1, e2, e3, e4, e5⟩ := hcfg
  have hB : (FormatNodeRows G (FormatX G (FormatNodeReset G S))).AllFormattedNodes
      = setAppend [S.RootNode.getD 0] l1 := b5
  refine ⟨e1, e2, e3, e4, e5, ?_, ?_⟩
  · rw [hA, c5, hB]
    exact setAppend_nodup _ _ (setAppend_nodup _ _ (by simp))
  · rw [hA, c5, hB]
    exact setAppend_mem_of_mem _ _ _ (setAppend_mem_of_mem _ _ _ (by simp))
/-! ## The final translation and the anchor -/

theorem translate_fold (dx dy : Int) (l : List Nat) :
    ∀ S : FEdGraphParameterFormatter, l.Nodup →
      restOf (l.foldl (offsetNode dx dy) S) = restOf S
      ∧ ∀ n, (l.foldl (offsetNode dx dy) S).NodePosX n = (if n ∈ l then S.NodePosX n + dx else S.NodePosX n)
        ∧ (l.foldl (offsetNode dx dy) S).NodePosY n = (if n ∈ l then S.NodePosY n + dy else S.NodePosY n) := by
  induction l with
  | nil => intro S _; exact ⟨rfl, fun n => by simp⟩
  | cons x xs ih =>
    intro S hnd
    rw [List.nodup_cons] at hnd
    obtain ⟨h1, h2⟩ := ih (offsetNode dx dy S x) hnd.2
    simp only [List.foldl_cons]
    refine ⟨h1, fun n => ?_⟩
    rw [(h2 n).1, (h2 n).2]
    by_cases hx : n = x
    · subst hx
      simp [hnd.1, setPos, offsetNode, withPosX, withPosY]
    · by_cases hm : n ∈ xs <;> simp [hx, hm, setPos, offsetNode, withPosX, withPosY]

/-- The slow path of `FormatNode` returns a formatted keep-still node to the
position it had before the call. -/
theorem FormatNode_anchor_of_mem (G : FBAGraph) (S : FEdGraphParameterFormatter) (r k : Nat)
    (hr : S.RootNode = some r) (hk : S.NodeToKeepStill = some k)
    (hv : IsGraphNode G (some r) = true) (hl : (GetLinkedPins G r EGPD_MAX).length ≠ 0)
    (hi : S.bInitialized = false) (hmem : k ∈ (FormatNodeLayout G S).AllFormattedNodes) :
    (FormatNode G S).NodePosX k = S.NodePosX k ∧ (FormatNode G S).NodePosY k = S.NodePosY k := by
  obtain ⟨_, _, _, _, _, hnd, _⟩ := FormatNodeLayout_frame G S
  unfold FormatNode
  simp only [hr, hk, hv, hi, Option.getD_some, GetFormattedNodes, GetCachedNodeBounds]
  simp only [Bool.not_true, Bool.false_eq_true, if_false, beq_iff_eq, hl]
  split_ifs with hd
  · obtain ⟨_, h2⟩ := translate_fold
      (S.NodePosX k - (FormatNodeLayout G S).NodePosX k) (S.NodePosY k - (FormatNodeLayout G S).NodePosY k)
      _ (FormatNodeLayout G S) hnd
    rw [(h2 k).1, (h2 k).2]
    simp [hmem]
  · simp only [bne_iff_ne, ne_eq, Bool.or_eq_true, decide_eq_true_eq, not_or, not_not] at hd
    constructor <;> omega

/-! ## The relative-position cache -/

theorem applyOffset_fold (Keep : Nat) (offs : List (Nat × Int × Int)) :
    ∀ a : FEdGraphParameterFormatter, Keep ∉ offs.map Prod.fst →
      restOf (offs.foldl (applyOffset Keep) a) = restOf a
      ∧ (∀ n, n ∉ offs.map Prod.fst →
          (offs.foldl (applyOffset Keep) a).NodePosX n = a.NodePosX n
          ∧ (offs.foldl (applyOffset Keep) a).NodePosY n = a.NodePosY n)
      ∧ ((offs.map Prod.fst).Nodup → ∀ e ∈ offs,
          (offs.foldl (applyOffset Keep) a).NodePosX e.1
              = toInt32 (fadd (ofInt32 (a.NodePosX Keep)) e.2.1)
          ∧ (offs.foldl (applyOffset Keep) a).NodePosY e.1
              = toInt32 (fadd (ofInt32 (a.NodePosY Keep)) e.2.2)) := by
  induction offs with
  | nil => intro a _; exact ⟨rfl, fun n _ => ⟨rfl, rfl⟩, fun _ e he => by simp at he⟩
  | cons x xs ih =>
    intro a hk
    simp only [List.map_cons, List.mem_cons, not_or] at hk
    obtain ⟨h1, h2, h3⟩ := ih (applyOffset Keep a x) hk.2
    have hne : Keep ≠ x.1 := hk.1
    have hK : (applyOffset Keep a x).NodePosX Keep = a.NodePosX Keep
        ∧ (applyOffset Keep a x).NodePosY Keep = a.NodePosY Keep := by
      simp [applyOffset, withPosX, withPosY, setPos, hne]
    simp only [List.foldl_cons]
    refine ⟨h1, ?_, ?_⟩
    · intro n hn
      simp only [List.map_cons, List.mem_cons, not_or] at hn
      rw [(h2 n hn.2).1, (h2 n hn.2).2]
      simp [applyOffset, withPosX, withPosY, setPos, hn.1]
    · intro hnd e he
      simp only [List.map_cons, List.nodup_cons] at hnd
      rcases List.mem_cons.1 he with h | h
      · subst h
        rw [(h2 e.1 hnd.1).1, (h2 e.1 hnd.1).2]
        simp [applyOffset, withPosX, withPosY, setPos]
      · rw [(h3 hnd.2 e h).1, (h3 hnd.2 e h).2, hK.1, hK.2]
        exact ⟨rfl, rfl⟩

theorem offsetsAdd_keys (m : List (Nat × Int × Int)) (k : Nat) (v : Int × Int) :
    ((m.map Prod.fst).Nodup → ((offsetsAdd m k v).map Prod.fst).Nodup)
    ∧ (∀ n, n ∈ (offsetsAdd m k v).map Prod.fst ↔ n = k ∨ n ∈ m.map Prod.fst)
    ∧ (∀ e ∈ offsetsAdd m k v, e = (k, v) ∨ e ∈ m) := by
  refine ⟨fun hnd => ?_, fun n => ?_, fun e he => ?_⟩
  · simp only [offsetsAdd, List.map_append, List.map_cons, List.map_nil]
    rw [List.nodup_append]
    refine ⟨(List.Nodup.sublist (List.Sublist.map _ (List.filter_sublist _)) hnd), by simp, ?_⟩
    intro a ha hb
    simp only [List.mem_singleton] at hb
    subst hb
    simp only [List.mem_map, List.mem_filter] at ha
    obtain ⟨e, ⟨_, he⟩, rfl⟩ := ha
    simp at he
  · simp only [offsetsAdd, List.map_append, List.map_cons, List.map_nil, List.mem_append,
      List.mem_map, List.mem_filter, List.mem_singleton]
    constructor
    · rintro (⟨e, ⟨he, _⟩, rfl⟩ | h)
      · exact Or.inr ⟨e, he, rfl⟩
      · exact Or.inl h
    · rintro (h | ⟨e, he, rfl⟩)
      · exact Or.inr h
      · by_cases hk : e.1 = k
        · exact Or.inr hk
        · exact Or.inl ⟨e, ⟨he, by simpa using hk⟩, rfl⟩
  · simp only [offsetsAdd, List.mem_append, List.mem_filter, List.mem_singleton] at he
    rcases he with ⟨h, _⟩ | h
    · exact Or.inr h
    · exact Or.inl h

theorem saveOffset_fold (Keep : Nat) (X Y : Nat → Int) (ns : List Nat) :
    ∀ a : FEdGraphParameterFormatter, a.NodePosX = X → a.NodePosY = Y →
      (a.NodeOffsets.map Prod.fst).Nodup → Keep ∉ a.NodeOffsets.map Prod.fst →
      (∀ e ∈ a.NodeOffsets, e.2 = (ofInt32 (X e.1 - X Keep), ofInt32 (Y e.1 - Y Keep))) →
      (ns.foldl (saveOffset Keep) a).NodePosX = X ∧ (ns.foldl (saveOffset Keep) a).NodePosY = Y
      ∧ (ns.foldl (saveOffset Keep) a).NodeToKeepStill = a.NodeToKeepStill
      ∧ (ns.foldl (saveOffset Keep) a).AllFormattedNodes = a.AllFormattedNodes
      ∧ ((ns.foldl (saveOffset Keep) a).NodeOffsets.map Prod.fst).Nodup
      ∧ Keep ∉ (ns.foldl (saveOffset Keep) a).NodeOffsets.map Prod.fst
      ∧ (∀ e ∈ (ns.foldl (saveOffset Keep) a).NodeOffsets,
          e.2 = (ofInt32 (X e.1 - X Keep), ofInt32 (Y e.1 - Y Keep)))
      ∧ (∀ n, (n ∈ ns ∧ n ≠ Keep) ∨ n ∈ a.NodeOffsets.map Prod.fst →
          n ∈ (ns.foldl (saveOffset Keep) a).NodeOffsets.map Prod.fst) := by
  induction ns with
  | nil =>
    intro a hx hy hnd hk he
    refine ⟨hx, hy, rfl, rfl, hnd, hk, he, ?_⟩
    rintro n (⟨h, _⟩ | h)
    · simp at h
    · exact h
  | cons x xs ih =>
    intro a hx hy hnd hk he
    simp only [List.foldl_cons]
    by_cases hxk : x = Keep
    · have hs : saveOffset Keep a x = a := by simp [saveOffset, hxk]
      rw [hs]
      obtain ⟨r1, r2, r3, r4, r5, r6, r7, r8⟩ := ih a hx hy hnd hk he
      refine ⟨r1, r2, r3, r4, r5, r6, r7, ?_⟩
      rintro n (⟨h, hn⟩ | h)
      · rcases List.mem_cons.1 h with h' | h'
        · exact absurd (h'.trans hxk) hn
        · exact r8 n (Or.inl ⟨h', hn⟩)
      · exact r8 n (Or.inr h)
    · obtain ⟨k1, k2, k3⟩ := offsetsAdd_keys a.NodeOffsets x
        (ofInt32 (a.NodePosX x - a.NodePosX Keep), ofInt32 (a.NodePosY x - a.NodePosY Keep))
      have hs : saveOffset Keep a x = withOffsets a (offsetsAdd a.NodeOffsets x
          (ofInt32 (a.NodePosX x - a.NodePosX Keep), ofInt32 (a.NodePosY x - a.NodePosY Keep))) := by
        simp [saveOffset, hxk]
      rw [hs]
      obtain ⟨r1, r2, r3, r4, r5, r6, r7, r8⟩ := ih (withOffsets a (offsetsAdd a.NodeOffsets x
          (ofInt32 (a.NodePosX x - a.NodePosX Keep), ofInt32 (a.NodePosY x - a.NodePosY Keep)))) hx hy (k1 hnd)
        (by
          intro hc
          rcases (k2 Keep).1 hc with h | h
          · exact hxk h.symm
          · exact hk h)
        (by
          intro e hme
          rcases k3 e hme with h | h
          · subst h
            simp [hx, hy]
          · exact he e h)
      refine ⟨r1, r2, r3, r4, r5, r6, r7, ?_⟩
      rintro n (⟨h, hn⟩ | h)
      · rcases List.mem_cons.1 h with h' | h'
        · exact r8 n (Or.inr ((k2 n).2 (Or.inl h')))
        · exact r8 n (Or.inl ⟨h', hn⟩)
      · exact r8 n (Or.inr ((k2 n).2 (Or.inr h)))

/-! ## Early returns of `FormatNode` -/

/-- C3. A valid root without linked pins: `FormatNode` moves no node and the
formatted set is exactly the root, initialized or not. -/
theorem FormatNode_disconnected_root (G : FBAGraph) (S : FEdGraphParameterFormatter) (r : Nat)
    (hr : S.RootNode = some r) (hv : IsGraphNode G (some r) = true)
    (hl : (GetLinkedPins G r EGPD_MAX).length = 0) :
    (FormatNode G S).NodePosX = S.NodePosX ∧ (FormatNode G S).NodePosY = S.NodePosY
      ∧ GetFormattedNodes (FormatNode G S) = [r] := by
  simp [FormatNode, hr, hv, hl, GetFormattedNodes]

theorem FormatNode_disconnected_root_witness :
    (FormatNode loneGraph (FEdGraphParameterFormatter.new (some 0) none [] exPosX exPosY)).NodePosX = exPosX
      ∧ (FormatNode loneGraph (FEdGraphParameterFormatter.new (some 0) none [] exPosX exPosY)).NodePosY
          = exPosY
      ∧ GetFormattedNodes (FormatNode loneGraph (FEdGraphParameterFormatter.new (some 0) none [] exPosX exPosY))
          = [0] :=
  FormatNode_disconnected_root loneGraph _ 0 rfl (by decide) (by decide)

/-- C4 as stated fails for a null root: the constructor leaves the formatted
set empty, so `GetFormattedNodes` does not return a single-element set. -/
theorem FormatNode_null_root_formatted_empty :
    (GetFormattedNodes (FormatNode loneGraph
      (FEdGraphParameterFormatter.new none none [] exPosX exPosY))).length ≠ 1 := by
  decide

/-- C4 amended. When the root passed to the constructor is not a valid graph
node, `FormatNode` moves no node; `GetFormattedNodes` is the single root when
the root is non-null and empty when it is null. -/
theorem FormatNode_invalid_root (G : FBAGraph) (root keep : Option Nat) (ignored : List Nat)
    (X Y : Nat → Int) (hv : IsGraphNode G root = false) :
    (FormatNode G (FEdGraphParameterFormatter.new root keep ignored X Y)).NodePosX = X
      ∧ (FormatNode G (FEdGraphParameterFormatter.new root keep ignored X Y)).NodePosY = Y
      ∧ GetFormattedNodes (FormatNode G (FEdGraphParameterFormatter.new root keep ignored X Y))
          = (match root with
            | some r => [r]
            | none => []) := by
  cases root <;> simp_all [FormatNode, FEdGraphParameterFormatter.new, GetFormattedNodes]

theorem FormatNode_invalid_root_witness :
    (FormatNode loneGraph (FEdGraphParameterFormatter.new (some 5) none [] exPosX exPosY)).NodePosX = exPosX
      ∧ (FormatNode loneGraph (FEdGraphParameterFormatter.new (some 5) none [] exPosX exPosY)).NodePosY
          = exPosY
      ∧ GetFormattedNodes (FormatNode loneGraph (FEdGraphParameterFormatter.new (some 5) none [] exPosX exPosY))
          = [5] :=
  FormatNode_invalid_root loneGraph (some 5) none [] exPosX exPosY (by decide)

/-! ## Two runs of the horizontal placement -/

theorem foldl_rel {α β γ : Type} (R : α → γ → Prop) (f : α → β → α) (g : γ → β → γ) (l : List β) :
    ∀ a c, R a c → (∀ a c x, x ∈ l → R a c → R (f a x) (g c x)) →
      R (l.foldl f a) (l.foldl g c) := by
  induction l with
  | nil => intro a c h _; exact h
  | cons x xs ih =>
    intro a c h hs
    exact ih (f a x) (g c x) (hs a c x (List.mem_cons_self _ _) h)
      (fun a c y hy hr => hs a c y (List.mem_cons_of_mem _ hy) hr)

theorem GetChildX_eq (G : FBAGraph) (S : FEdGraphParameterFormatter) (l : FPinLink)
    (d : EEdGraphPinDirection) :
    GetChildX G S l d = childX G l d (S.NodePosX (G.OwningNode (l.From.getD 0))) := by
  unfold GetChildX childX GetCachedNodeBounds
  dsimp only
  split_ifs <;> ring

theorem MoveChild_agree (G : FBAGraph) (Infos : List FNodeInfo) (A : List Nat) (X X' : Nat → Int)
    (P c : Nat) (hP : P ∈ A) (hc : (getInfo Infos c).Node ∈ A) (a a' : (Nat → Int) × List Nat)
    (h : PosAgree A X X' a a') : PosAgree A X X' (MoveChild G Infos P a c) (MoveChild G Infos P a' c) := by
  obtain ⟨h1, h2, h3⟩ := h
  unfold MoveChild
  dsimp only
  rw [h1, h2 P hP]
  have key : ∀ v : Int, PosAgree A X X' (setPos a.1 (getInfo Infos c).Node v, a.2 ++ [(getInfo Infos c).Node])
      (setPos a'.1 (getInfo Infos c).Node v, a.2 ++ [(getInfo Infos c).Node]) := by
    intro v
    refine ⟨rfl, ?_, ?_⟩
    · intro n hn
      simp only [setPos]
      split_ifs
      · rfl
      · exact h2 n hn
    · intro n hn
      have hne : n ≠ (getInfo Infos c).Node := fun h => hn (h ▸ hc)
      simp only [setPos, hne, if_false]
      exact h3 n hn
  split_ifs with hv
  · exact ⟨h1, h2, h3⟩
  · exact key _
  · exact key _

/-- `MoveChildren` on two position maps that agree on the nodes of the
records: same visited list, agreement kept, nothing else written. -/
theorem MoveChildren_agree (G : FBAGraph) (Infos : List FNodeInfo) (A : List Nat)
    (hI : ValidInfos Infos A) (X X' : Nat → Int) :
    ∀ (fuel : Nat) (wl : List Nat) (a a' : (Nat → Int) × List Nat),
      (∀ i ∈ wl, i < Infos.length) → PosAgree A X X' a a' →
      PosAgree A X X' (MoveChildren G Infos fuel wl a) (MoveChildren G Infos fuel wl a') := by
  intro fuel
  induction fuel with
  | zero => intro wl a a' _ h; exact h
  | succ k ih =>
    intro wl a a' hwl h
    cases wl with
    | nil => exact h
    | cons i rest =>
      simp only [MoveChildren]
      have hi := hI i (hwl i (List.mem_cons_self _ _))
      have hfold := foldl_rel (PosAgree A X X') (MoveChild G Infos (getInfo Infos i).Node)
        (MoveChild G Infos (getInfo Infos i).Node) (getInfo Infos i).Children a a' h
        (fun b b' c hc hb => MoveChild_agree G Infos A X X' _ c hi.1 (hI c (hi.2 c hc)).1 b b' hb)
      rw [h.1]
      refine ih _ _ _ ?_ hfold
      intro j hj
      rcases List.mem_append.1 hj with h' | h'
      · exact hi.2 j (List.mem_of_mem_filter h')
      · exact hwl j (List.mem_cons_of_mem _ h')

theorem getInfo_modifyInfo (Infos : List FNodeInfo) (i j : Nat) (f : FNodeInfo → FNodeInfo) :
    getInfo (modifyInfo Infos i f) j
      = if i = j ∧ j < Infos.length then f (getInfo Infos j) else getInfo Infos j := by
  unfold getInfo modifyInfo
  rw [List.getD_eq_getElem?_getD, List.getD_eq_getElem?_getD, List.getElem?_modify]
  by_cases hj : j < Infos.length
  · rw [List.getElem?_eq_getElem hj]
    by_cases hij : i = j <;> simp [hij, hj]
  · rw [List.getElem?_eq_none (by omega)]
    simp [hj]

theorem length_modifyInfo (Infos : List FNodeInfo) (i : Nat) (f : FNodeInfo → FNodeInfo) :
    (modifyInfo Infos i f).length = Infos.length := by
  simp [modifyInfo]

theorem ValidInfos_modify (Infos : List FNodeInfo) (A : List Nat) (i : Nat) (f : FNodeInfo → FNodeInfo)
    (h : ValidInfos Infos A)
    (hf : ∀ x : FNodeInfo, (f x).Node = x.Node)
    (hc : ∀ x : FNodeInfo, ∀ c ∈ (f x).Children, c ∈ x.Children ∨ c < Infos.length) :
    ValidInfos (modifyInfo Infos i f) A := by
  intro j hj
  rw [length_modifyInfo] at hj ⊢
  rw [getInfo_modifyInfo]
  split_ifs
  · refine ⟨by rw [hf]; exact (h j hj).1, fun c hcm => ?_⟩
    rcases hc _ c hcm with h1 | h1
    · exact (h j hj).2 c h1
    · exact h1
  · exact h j hj

theorem SetParent_length (Infos : List FNodeInfo) (i : Nat) (np mp : Option Nat) :
    (SetParent Infos i np mp).length = Infos.length := by
  unfold SetParent
  dsimp only
  cases (getInfo Infos i).Parent <;> cases np <;> simp [length_modifyInfo]

theorem SetParent_valid (Infos : List FNodeInfo) (A : List Nat) (i : Nat) (np mp : Option Nat)
    (h : ValidInfos Infos A) (hi : i < Infos.length) :
    ValidInfos (SetParent Infos i np mp) A := by
  unfold SetParent
  dsimp only
  have h1 : ValidInfos (match (getInfo Infos i).Parent with
      | some p => modifyInfo Infos p (fun x => { x with Children := x.Children.filter (fun c => c != i) })
      | none => Infos) A ∧ (match (getInfo Infos i).Parent with
      | some p => modifyInfo Infos p (fun x => { x with Children := x.Children.filter (fun c => c != i) })
      | none => Infos).length = Infos.length := by
    cases (getInfo Infos i).Parent with
    | none => exact ⟨h, rfl⟩
    | some p =>
      exact ⟨ValidInfos_modify _ _ _ _ h (fun _ => rfl)
        (fun x c hc => Or.inl (List.mem_of_mem_filter hc)), length_modifyInfo _ _ _⟩
  generalize (match (getInfo Infos i).Parent with
      | some p => modifyInfo Infos p (fun x => { x with Children := x.Children.filter (fun c => c != i) })
      | none => Infos) = I1 at h1
  obtain ⟨v1, l1⟩ := h1
  have h2 : ValidInfos (match np with
      | some p => modifyInfo I1 p (fun x => { x with Children := x.Children ++ [i] })
      | none => I1) A ∧ (match np with
      | some p => modifyInfo I1 p (fun x => { x with Children := x.Children ++ [i] })
      | none => I1).length = Infos.length := by
    cases np with
    | none => exact ⟨v1, l1⟩
    | some p =>
      refine ⟨ValidInfos_modify _ _ _ _ v1 (fun _ => rfl) (fun x c hc => ?_),
        (length_modifyInfo _ _ _).trans l1⟩
      rcases List.mem_append.1 hc with h' | h'
      · exact Or.inl h'
      · simp only [List.mem_singleton] at h'
        subst h'
        exact Or.inr (l1 ▸ hi)
  generalize (match np with
      | some p => modifyInfo I1 p (fun x => { x with Children := x.Children ++ [i] })
      | none => I1) = I2 at h2
  exact ValidInfos_modify _ _ _ _ h2.1 (fun _ => rfl) (fun x c hc => Or.inl hc)

theorem FormatXNewNodePos_agree (G : FBAGraph) (A B : FEdGraphParameterFormatter) (l : FPinLink)
    (p : Nat) (h h' : Int) (hAB : XAgree A B) (hF : l.From = some p)
    (hp : G.OwningNode p ∈ A.AllFormattedNodes) :
    FormatXNewNodePos G B l h' = FormatXNewNodePos G A l h := by
  obtain ⟨_, _, hA, hB, _, _, _, hX⟩ := hAB
  unfold FormatXNewNodePos
  simp only [hA, hB, Bool.false_and, Bool.false_eq_true, if_false, GetChildX_eq, hF, Option.getD_some,
    hX _ hp]

theorem FormatXTakeNewParent_agree (G : FBAGraph) (A B : FEdGraphParameterFormatter) (l : FPinLink)
    (ci : Nat) (hAB : XAgree A B) (hcur : l.GetNode G ∈ A.AllFormattedNodes)
    (hp : ∀ p, l.From = some p → G.OwningNode p ∈ A.AllFormattedNodes) :
    FormatXTakeNewParent G B l ci = FormatXTakeNewParent G A l ci := by
  cases hF : l.From with
  | none => simp [FormatXTakeNewParent, hF]
  | some p =>
    have hn := fun h' => FormatXNewNodePos_agree G A B l p (A.NodePosX (l.GetNode G)) h'
      hAB hF (hp p hF)
    obtain ⟨_, _, hA, hB, _, _, hI, hX⟩ := hAB
    unfold FormatXTakeNewParent
    simp only [hn, hA, hB, hI, hX _ hcur, Bool.false_and]

theorem FormatXReparent_sim (G : FBAGraph) (X0 X0' : Nat → Int) (A B : FEdGraphParameterFormatter)
    (l : FPinLink) (pi : Option Nat) (ci : Nat) (h : FSim X0 X0' A B)
    (hcur : l.GetNode G ∈ A.AllFormattedNodes)
    (hp : ∀ p, l.From = some p → G.OwningNode p ∈ A.AllFormattedNodes)
    (hci : ci < A.Infos.length) :
    FSim X0 X0' (FormatXReparent G A l pi ci) (FormatXReparent G B l pi ci)
      ∧ (FormatXReparent G A l pi ci).AllFormattedNodes = A.AllFormattedNodes
      ∧ (FormatXReparent G A l pi ci).NodeInfoMap = A.NodeInfoMap := by
  have ht := FormatXTakeNewParent_agree G A B l ci h.1 hcur hp
  obtain ⟨⟨r1, r2, hA, hB, a1, m1, i1, hX⟩, vI, vM, fr, hroot⟩ := h
  unfold FormatXReparent
  dsimp only
  rw [ht]
  split_ifs with c1
  · have hF : ∃ p, l.From = some p := by
      cases hF : l.From with
      | none => simp [FormatXTakeNewParent, hF] at c1
      | some p => exact ⟨p, rfl⟩
    obtain ⟨p, hF⟩ := hF
    have hn := FormatXNewNodePos_agree G A B l p (A.NodePosX (l.GetNode G)) (B.NodePosX (l.GetNode G))
      ⟨r1, r2, hA, hB, a1, m1, i1, hX⟩ hF (hp p hF)
    rw [hn, i1]
    have vI1 : ValidInfos (SetParent A.Infos ci pi l.To) A.AllFormattedNodes :=
      SetParent_valid _ _ _ _ _ vI hci
    have hmc := MoveChildren_agree G (SetParent A.Infos ci pi l.To) A.AllFormattedNodes vI1 X0 X0'
      ((SetParent A.Infos ci pi l.To).length + 1) [ci]
      (setPos A.NodePosX (l.GetNode G) (FormatXNewNodePos G A l (A.NodePosX (l.GetNode G))), [])
      (setPos B.NodePosX (l.GetNode G) (FormatXNewNodePos G A l (A.NodePosX (l.GetNode G))), [])
      (by
        intro i hi
        simp only [List.mem_singleton] at hi
        rw [hi, SetParent_length]
        exact hci)
      ⟨rfl, by
        intro n hn
        simp only [setPos]
        split_ifs
        · rfl
        · exact hX n hn, by
        intro n hn
        have hne : n ≠ l.GetNode G := fun h => hn (h ▸ hcur)
        simp only [setPos, hne, if_false]
        exact fr n hn⟩
    obtain ⟨_, k2, k3⟩ := hmc
    refine ⟨⟨⟨r1, r2, hA, hB, a1, m1, rfl, k2⟩, vI1, ?_, k3, hroot⟩, rfl, rfl⟩
    intro k i hk
    obtain ⟨h1, h2⟩ := vM k i hk
    refine ⟨h1, ?_⟩
    show i < (SetParent A.Infos ci pi l.To).length
    rw [SetParent_length]
    exact h2
  · exact ⟨⟨⟨r1, r2, hA, hB, a1, m1, i1, hX⟩, vI, vM, fr, hroot⟩, rfl, rfl⟩


theorem mapFind_mapRemove (m : List (Nat × Nat)) (k k' : Nat) :
    mapFind (mapRemove m k) k' = if k' = k then none else mapFind m k' := by
  induction m with
  | nil => simp [mapRemove, mapFind]
  | cons x xs ih =>
    obtain ⟨a, b⟩ := x
    simp only [mapRemove] at ih ⊢
    by_cases ha : a = k
    · subst ha
      simp only [List.filter_cons, bne_self_eq_false, Bool.false_eq_true, if_false, ih, mapFind]
      by_cases hk : k' = a
      · simp [hk]
      · have : ¬ a = k' := fun h => hk h.symm
        simp [hk, this]
    · have hne : (a != k) = true := by simpa using ha
      simp only [List.filter_cons, hne, if_true, mapFind, ih]
      by_cases hk : k' = k
      · subst hk
        simp [ha]
      · simp [hk]

theorem mapFind_append (m m' : List (Nat × Nat)) (k : Nat) :
    mapFind (m ++ m') k = (mapFind m k).orElse (fun _ => mapFind m' k) := by
  induction m with
  | nil => simp [mapFind]
  | cons x xs ih =>
    obtain ⟨a, b⟩ := x
    simp only [List.cons_append, mapFind]
    split_ifs
    · rfl
    · exact ih

theorem mapFind_mapAdd (m : List (Nat × Nat)) (k v k' : Nat) :
    mapFind (mapAdd m k v) k' = if k' = k then some v else mapFind m k' := by
  unfold mapAdd
  rw [mapFind_append, mapFind_mapRemove]
  by_cases hk : k' = k
  · subst hk
    simp [mapFind]
  · have : ¬ k = k' := fun h => hk h.symm
    simp only [hk, if_false, mapFind, this]
    cases mapFind m k' <;> rfl

theorem ValidInfos_mono {Infos : List FNodeInfo} {A A' : List Nat} (h : ValidInfos Infos A)
    (hs : ∀ n ∈ A, n ∈ A') : ValidInfos Infos A' :=
  fun i hi => ⟨hs _ (h i hi).1, (h i hi).2⟩

theorem ValidInfos_append (Infos : List FNodeInfo) (A : List Nat) (x : FNodeInfo)
    (h : ValidInfos Infos A) (hx : x.Node ∈ A) (hc : x.Children = []) : ValidInfos (Infos ++ [x]) A := by
  intro i hi
  simp only [List.length_append, List.length_singleton] at hi ⊢
  by_cases hlt : i < Infos.length
  · have : getInfo (Infos ++ [x]) i = getInfo Infos i := by
      simp [getInfo, List.getD_eq_getElem?_getD, List.getElem?_append_left hlt]
    rw [this]
    exact ⟨(h i hlt).1, fun c hcm => Nat.lt_succ_of_lt ((h i hlt).2 c hcm)⟩
  · have hi' : i = Infos.length := by omega
    have : getInfo (Infos ++ [x]) i = x := by
      subst hi'
      simp [getInfo, List.getD_eq_getElem?_getD]
    rw [this]
    exact ⟨hx, by simp [hc]⟩

theorem mem_setAdd (s : List Nat) (n m : Nat) : m ∈ setAdd s n ↔ m = n ∨ m ∈ s := by
  unfold setAdd
  split_ifs with h
  · constructor
    · exact fun hm => Or.inr hm
    · rintro (rfl | hm)
      · exact h
      · exact hm
  · simp only [List.mem_append, List.mem_singleton]
    exact or_comm

theorem FormatXMarkSide_fields (G : FBAGraph) (d : EEdGraphPinDirection) (S : FEdGraphParameterFormatter)
    (l : FPinLink) :
    (FormatXMarkSide G d S l).RootNode = S.RootNode
    ∧ (FormatXMarkSide G d S l).IgnoredNodes = S.IgnoredNodes
    ∧ (FormatXMarkSide G d S l).bFormatWithHelixing = S.bFormatWithHelixing
    ∧ (FormatXMarkSide G d S l).AllFormattedNodes = S.AllFormattedNodes
    ∧ (FormatXMarkSide G d S l).NodeInfoMap = S.NodeInfoMap
    ∧ (FormatXMarkSide G d S l).Infos = S.Infos
    ∧ (FormatXMarkSide G d S l).NodePosX = S.NodePosX := by
  unfold FormatXMarkSide
  dsimp only
  split_ifs <;> exact ⟨rfl, rfl, rfl, rfl, rfl, rfl, rfl⟩

theorem FormatXMarkSide_XAgree (G : FBAGraph) (d : EEdGraphPinDirection)
    (A B : FEdGraphParameterFormatter) (l : FPinLink) (h : XAgree A B) :
    XAgree (FormatXMarkSide G d A l) (FormatXMarkSide G d B l) := by
  obtain ⟨a1, a2, a3, a4, a5, a6, a7⟩ := FormatXMarkSide_fields G d A l
  obtain ⟨b1, b2, b3, b4, b5, b6, b7⟩ := FormatXMarkSide_fields G d B l
  obtain ⟨r1, r2, hA, hB, e1, m1, i1, hX⟩ := h
  refine ⟨by rw [a1, b1, r1], by rw [a2, b2, r2], by rw [a3, hA], by rw [b3, hB], by rw [a4, b4, e1],
    by rw [a5, b5, m1], by rw [a6, b6, i1], ?_⟩
  intro n hn
  rw [a4] at hn
  rw [a7, b7]
  exact hX n hn

/-- Adding the record of the dequeued node keeps the simulation. -/
theorem FormatXAddInfo_sim (G : FBAGraph) (d : EEdGraphPinDirection) (X0 X0' : Nat → Int)
    (A B : FEdGraphParameterFormatter) (l : FPinLink) (pi : Option Nat) (h : FSim X0 X0' A B)
    (hcur : l.GetNode G ∈ A.AllFormattedNodes) :
    FSim X0 X0' (FormatXAddInfo G d A l pi) (FormatXAddInfo G d B l pi) := by
  obtain ⟨⟨r1, r2, hA, hB, a1, m1, i1, hX⟩, vI, vM, fr, hroot⟩ := h
  have hlen : (SetParent (A.Infos ++ [FormatXNewInfo G d l pi]) A.Infos.length pi l.To).length
      = A.Infos.length + 1 := by
    rw [SetParent_length]
    simp
  refine ⟨⟨r1, r2, hA, hB, a1, ?_, ?_, hX⟩, ?_, ?_, fr, hroot⟩
  · show mapAdd B.NodeInfoMap (l.GetNode G) B.Infos.length = mapAdd A.NodeInfoMap (l.GetNode G) A.Infos.length
    rw [m1, i1]
  · show SetParent (B.Infos ++ _) B.Infos.length pi l.To = SetParent (A.Infos ++ _) A.Infos.length pi l.To
    rw [i1]
  · show ValidInfos (SetParent (A.Infos ++ _) A.Infos.length pi l.To) A.AllFormattedNodes
    exact SetParent_valid _ _ _ _ _ (ValidInfos_append _ _ _ vI hcur rfl) (by simp)
  · intro k i hk
    have hk' : mapFind (mapAdd A.NodeInfoMap (l.GetNode G) A.Infos.length) k = some i := hk
    rw [mapFind_mapAdd] at hk'
    show k ∈ A.AllFormattedNodes ∧ i < (SetParent (A.Infos ++ _) A.Infos.length pi l.To).length
    rw [hlen]
    split_ifs at hk' with hkc
    · cases hk'
      exact ⟨hkc ▸ hcur, Nat.lt_succ_self _⟩
    · exact ⟨(vM k i hk').1, Nat.lt_succ_of_lt (vM k i hk').2⟩

theorem FormatXCreate_sim (G : FBAGraph) (d : EEdGraphPinDirection) (X0 X0' : Nat → Int)
    (A B : FEdGraphParameterFormatter) (l : FPinLink) (pi : Option Nat) (h : FSim X0 X0' A B)
    (hq : QOk G A l) :
    FSim X0 X0' (FormatXCreate G d A l pi) (FormatXCreate G d B l pi)
      ∧ l.GetNode G ∈ (FormatXCreate G d A l pi).AllFormattedNodes
      ∧ ∀ n ∈ A.AllFormattedNodes, n ∈ (FormatXCreate G d A l pi).AllFormattedNodes := by
  obtain ⟨⟨r1, r2, hA, hB, a1, m1, i1, hX⟩, vI, vM, fr, hroot⟩ := h
  have hAB : XAgree A B := ⟨r1, r2, hA, hB, a1, m1, i1, hX⟩
  unfold FormatXCreate
  dsimp only
  rw [r1]
  have hmono : ∀ n ∈ A.AllFormattedNodes, n ∈ setAdd A.AllFormattedNodes (l.GetNode G) :=
    fun n hn => (mem_setAdd _ _ _).2 (Or.inr hn)
  have hcur' : l.GetNode G ∈ setAdd A.AllFormattedNodes (l.GetNode G) :=
    (mem_setAdd _ _ _).2 (Or.inl rfl)
  split_ifs with hc
  · have hne : A.RootNode ≠ some (l.GetNode G) := by simpa using hc
    obtain ⟨p, hF, hp⟩ := hq.resolve_right (fun h => hne h.2)
    obtain ⟨f1, f2, f3, f4, f5, f6, f7⟩ := FormatXMarkSide_fields G d A l
    obtain ⟨g1, g2, g3, g4, g5, g6, g7⟩ := FormatXMarkSide_fields G d B l
    have hMS := FormatXMarkSide_XAgree G d A B l hAB
    have hn := FormatXNewNodePos_agree G (FormatXMarkSide G d A l) (FormatXMarkSide G d B l) l p
      ((FormatXMarkSide G d A l).NodePosX ((Option.map G.OwningNode l.From).getD 0))
      ((FormatXMarkSide G d B l).NodePosX ((Option.map G.OwningNode l.From).getD 0)) hMS hF
      (by rw [f4]; exact hp)
    rw [hn]
    have hS2 : FSim X0 X0'
        (withPlaced (FormatXMarkSide G d A l) (l.GetNode G)
          (FormatXNewNodePos G (FormatXMarkSide G d A l) l
            ((FormatXMarkSide G d A l).NodePosX ((Option.map G.OwningNode l.From).getD 0))))
        (withPlaced (FormatXMarkSide G d B l) (l.GetNode G)
          (FormatXNewNodePos G (FormatXMarkSide G d A l) l
            ((FormatXMarkSide G d A l).NodePosX ((Option.map G.OwningNode l.From).getD 0)))) := by
      refine ⟨⟨by rw [show ∀ S n x, (withPlaced S n x).RootNode = S.RootNode from fun _ _ _ => rfl,
          show ∀ S n x, (withPlaced S n x).RootNode = S.RootNode from fun _ _ _ => rfl, f1, g1, r1],
        by show (FormatXMarkSide G d B l).IgnoredNodes = (FormatXMarkSide G d A l).IgnoredNodes
           rw [f2, g2, r2],
        by show (FormatXMarkSide G d A l).bFormatWithHelixing = false
           rw [f3, hA],
        by show (FormatXMarkSide G d B l).bFormatWithHelixing = false
           rw [g3, hB],
        by show setAdd (FormatXMarkSide G d B l).AllFormattedNodes _
             = setAdd (FormatXMarkSide G d A l).AllFormattedNodes _
           rw [f4, g4, a1],
        by show (FormatXMarkSide G d B l).NodeInfoMap = (FormatXMarkSide G d A l).NodeInfoMap
           rw [f5, g5, m1],
        by show (FormatXMarkSide G d B l).Infos = (FormatXMarkSide G d A l).Infos
           rw [f6, g6, i1], ?_⟩, ?_, ?_, ?_, ?_⟩
      · intro n hn
        show setPos (FormatXMarkSide G d B l).NodePosX _ _ n = setPos (FormatXMarkSide G d A l).NodePosX _ _ n
        have hn' : n ∈ setAdd (FormatXMarkSide G d A l).AllFormattedNodes (l.GetNode G) := hn
        rw [f7, g7]
        rw [f4, mem_setAdd] at hn'
        simp only [setPos]
        split_ifs with he
        · rfl
        · exact hX n (hn'.resolve_left he)
      · show ValidInfos (FormatXMarkSide G d A l).Infos
          (setAdd (FormatXMarkSide G d A l).AllFormattedNodes (l.GetNode G))
        rw [f6, f4]
        exact ValidInfos_mono vI hmono
      · intro k i hk
        have hk' : mapFind (FormatXMarkSide G d A l).NodeInfoMap k = some i := hk
        rw [f5] at hk'
        show k ∈ setAdd (FormatXMarkSide G d A l).AllFormattedNodes (l.GetNode G)
          ∧ i < (FormatXMarkSide G d A l).Infos.length
        rw [f4, f6]
        exact ⟨hmono k (vM k i hk').1, (vM k i hk').2⟩
      · intro n hn
        have hn' : n ∉ setAdd (FormatXMarkSide G d A l).AllFormattedNodes (l.GetNode G) := hn
        rw [f4, mem_setAdd, not_or] at hn'
        show setPos (FormatXMarkSide G d A l).NodePosX _ _ n = X0 n
          ∧ setPos (FormatXMarkSide G d B l).NodePosX _ _ n = X0' n
        rw [f7, g7]
        simp only [setPos, hn'.1, if_false]
        exact fr n hn'.2
      · intro r hr
        have hr' : (FormatXMarkSide G d A l).RootNode = some r := hr
        rw [f1] at hr'
        show r ∈ setAdd (FormatXMarkSide G d A l).AllFormattedNodes (l.GetNode G)
        rw [f4]
        exact hmono r (hroot r hr')
    have hcurS2 : l.GetNode G ∈ (withPlaced (FormatXMarkSide G d A l) (l.GetNode G)
        (FormatXNewNodePos G (FormatXMarkSide G d A l) l
          ((FormatXMarkSide G d A l).NodePosX ((Option.map G.OwningNode l.From).getD 0)))).AllFormattedNodes := by
      show l.GetNode G ∈ setAdd (FormatXMarkSide G d A l).AllFormattedNodes (l.GetNode G)
      rw [f4]
      exact hcur'
    refine ⟨FormatXAddInfo_sim G d X0 X0' _ _ l pi hS2 hcurS2, hcurS2, ?_⟩
    intro n hn
    show n ∈ setAdd (FormatXMarkSide G d A l).AllFormattedNodes (l.GetNode G)
    rw [f4]
    exact hmono n hn
  · have he : A.RootNode = some (l.GetNode G) := by simpa using hc
    have hcurA : l.GetNode G ∈ A.AllFormattedNodes := hroot _ he
    have hS2 : FSim X0 X0' (withFormatted A (l.GetNode G)) (withFormatted B (l.GetNode G)) := by
      refine ⟨⟨r1, r2, hA, hB, ?_, m1, i1, ?_⟩, ValidInfos_mono vI hmono, ?_, ?_, ?_⟩
      · show setAdd B.AllFormattedNodes _ = setAdd A.AllFormattedNodes _
        rw [a1]
      · intro n hn
        have hn' : n ∈ setAdd A.AllFormattedNodes (l.GetNode G) := hn
        rw [mem_setAdd] at hn'
        rcases hn' with h1 | h1
        · exact hX n (h1 ▸ hcurA)
        · exact hX n h1
      · intro k i hk
        exact ⟨hmono k (vM k i hk).1, (vM k i hk).2⟩
      · intro n hn
        have hn' : n ∉ setAdd A.AllFormattedNodes (l.GetNode G) := hn
        rw [mem_setAdd, not_or] at hn'
        exact fr n hn'.2
      · intro r hr
        exact hmono r (hroot r hr)
    exact ⟨FormatXAddInfo_sim G d X0 X0' _ _ l pi hS2 hcur', hcur', hmono⟩


theorem FormatXVisit_sim (G : FBAGraph) (d : EEdGraphPinDirection) (X0 X0' : Nat → Int)
    (a b : FormatXState) (l : FPinLink) (hF : FSim X0 X0' a.F b.F)
    (hT : b.TempOutput = a.TempOutput) (hq : QOk G a.F l) :
    FSim X0 X0' (FormatXVisit G d a l).F (FormatXVisit G d b l).F
      ∧ (FormatXVisit G d b l).TempOutput = (FormatXVisit G d a l).TempOutput
      ∧ l.GetNode G ∈ (FormatXVisit G d a l).F.AllFormattedNodes
      ∧ ∀ n ∈ a.F.AllFormattedNodes, n ∈ (FormatXVisit G d a l).F.AllFormattedNodes := by
  obtain ⟨⟨r1, r2, hA, hB, a1, m1, i1, hX⟩, vI, vM, fr, hroot⟩ := hF
  unfold FormatXVisit
  dsimp only
  rw [m1, r1, hT]
  have hS1 : ∀ c : Bool, FSim X0 X0'
      (if c then withMap a.F (mapRemove a.F.NodeInfoMap (l.GetNode G)) else a.F)
      (if c then withMap b.F (mapRemove a.F.NodeInfoMap (l.GetNode G)) else b.F) := by
    intro c
    cases c
    · exact ⟨⟨r1, r2, hA, hB, a1, m1, i1, hX⟩, vI, vM, fr, hroot⟩
    · refine ⟨⟨r1, r2, hA, hB, a1, rfl, i1, hX⟩, vI, ?_, fr, hroot⟩
      intro k i hk
      have hk' : mapFind (mapRemove a.F.NodeInfoMap (l.GetNode G)) k = some i := hk
      rw [mapFind_mapRemove] at hk'
      split_ifs at hk'
      exact vM k i hk'
  have hmapeq : ∀ c : Bool,
      (if c then withMap b.F (mapRemove a.F.NodeInfoMap (l.GetNode G)) else b.F).NodeInfoMap
        = (if c then withMap a.F (mapRemove a.F.NodeInfoMap (l.GetNode G)) else a.F).NodeInfoMap := by
    intro c
    cases c
    · exact m1
    · rfl
  have hAll : ∀ c : Bool,
      (if c then withMap a.F (mapRemove a.F.NodeInfoMap (l.GetNode G)) else a.F).AllFormattedNodes
        = a.F.AllFormattedNodes := by
    intro c
    cases c <;> rfl
  have hRoot : ∀ c : Bool,
      (if c then withMap a.F (mapRemove a.F.NodeInfoMap (l.GetNode G)) else a.F).RootNode
        = a.F.RootNode := by
    intro c
    cases c <;> rfl
  generalize (mapContains a.F.NodeInfoMap (l.GetNode G) && a.F.RootNode != some (l.GetNode G)
    && decide (l.GetNode G ∈ a.TempOutput) && d == EGPD_Input) = c
  have h1 := hS1 c
  rw [hmapeq c]
  generalize hA1 : (if c then withMap a.F (mapRemove a.F.NodeInfoMap (l.GetNode G)) else a.F) = A1 at h1
  generalize (if c then withMap b.F (mapRemove a.F.NodeInfoMap (l.GetNode G)) else b.F) = B1 at h1
  have hAll1 : A1.AllFormattedNodes = a.F.AllFormattedNodes := by rw [← hA1]; exact hAll c
  have hRoot1 : A1.RootNode = a.F.RootNode := by rw [← hA1]; exact hRoot c
  have hq1 : QOk G A1 l := by
    unfold QOk
    rw [hAll1, hRoot1]
    exact hq
  cases hm : mapFind A1.NodeInfoMap (l.GetNode G) with
  | some ci =>
    dsimp only
    obtain ⟨hin, hlt⟩ := h1.2.2.1 _ _ hm
    obtain ⟨s1, s2, _⟩ := FormatXReparent_sim G X0 X0' A1 B1 l
      (l.From.bind (fun p => mapFind a.F.NodeInfoMap (G.OwningNode p))) ci h1 hin
      (by
        intro p hp
        rcases hq1 with ⟨p', hp', hmem⟩ | ⟨hnone, _⟩
        · rw [hp] at hp'
          cases hp'
          exact hmem
        · rw [hp] at hnone
          cases hnone) hlt
    refine ⟨s1, rfl, by rw [s2]; exact hin, ?_⟩
    intro n hn
    rw [s2, hAll1]
    exact hn
  | none =>
    dsimp only
    obtain ⟨s1, s2, s3⟩ := FormatXCreate_sim G d X0 X0' A1 B1 l
      (l.From.bind (fun p => mapFind a.F.NodeInfoMap (G.OwningNode p))) h1 hq1
    refine ⟨s1, rfl, s2, ?_⟩
    intro n hn
    exact s3 n (hAll1 ▸ hn)

theorem FormatXEnqueue_sim (G : FBAGraph) (c : Nat) (a b : FormatXState) (p q : Nat)
    (hAB : XAgree a.F b.F) (hV : b.VisitedLinks = a.VisitedLinks)
    (hI : b.InputQueue = a.InputQueue) (hO : b.OutputQueue = a.OutputQueue) :
    (FormatXEnqueue G c b p q).VisitedLinks = (FormatXEnqueue G c a p q).VisitedLinks
      ∧ (FormatXEnqueue G c b p q).InputQueue = (FormatXEnqueue G c a p q).InputQueue
      ∧ (FormatXEnqueue G c b p q).OutputQueue = (FormatXEnqueue G c a p q).OutputQueue
      ∧ ∀ l ∈ (FormatXEnqueue G c a p q).InputQueue ++ (FormatXEnqueue G c a p q).OutputQueue,
          l ∈ a.InputQueue ++ a.OutputQueue ∨ l = mkLink G p q := by
  obtain ⟨r1, r2, _, _, _, m1, i1, _⟩ := hAB
  unfold FormatXEnqueue
  simp only [r1, r2, m1, i1, hV, hI, hO]
  split_ifs <;> simp_all <;> intro l hl <;> tauto

theorem FormatXEnqueue_fold_sim (G : FBAGraph) (c : Nat) (S : FEdGraphParameterFormatter)
    (ls : List (Nat × Nat)) :
    ∀ a b : FormatXState, XAgree a.F b.F → b.VisitedLinks = a.VisitedLinks →
      b.InputQueue = a.InputQueue → b.OutputQueue = a.OutputQueue →
      (∀ l ∈ a.InputQueue ++ a.OutputQueue, QOk G S l) →
      (∀ pq ∈ ls, QOk G S (mkLink G pq.1 pq.2)) →
      (ls.foldl (fun x pq => FormatXEnqueue G c x pq.1 pq.2) b).VisitedLinks
          = (ls.foldl (fun x pq => FormatXEnqueue G c x pq.1 pq.2) a).VisitedLinks
        ∧ (ls.foldl (fun x pq => FormatXEnqueue G c x pq.1 pq.2) b).InputQueue
          = (ls.foldl (fun x pq => FormatXEnqueue G c x pq.1 pq.2) a).InputQueue
        ∧ (ls.foldl (fun x pq => FormatXEnqueue G c x pq.1 pq.2) b).OutputQueue
          = (ls.foldl (fun x pq => FormatXEnqueue G c x pq.1 pq.2) a).OutputQueue
        ∧ ∀ l ∈ (ls.foldl (fun x pq => FormatXEnqueue G c x pq.1 pq.2) a).InputQueue
              ++ (ls.foldl (fun x pq => FormatXEnqueue G c x pq.1 pq.2) a).OutputQueue, QOk G S l := by
  induction ls with
  | nil => intro a b _ hV hI hO hq _; exact ⟨hV, hI, hO, hq⟩
  | cons x xs ih =>
    intro a b hAB hV hI hO hq hls
    obtain ⟨e1, e2, e3, e4⟩ := FormatXEnqueue_sim G c a b x.1 x.2 hAB hV hI hO
    simp only [List.foldl_cons]
    refine ih _ _ ?_ e1 e2 e3 ?_ (fun pq hpq => hls pq (List.mem_cons_of_mem _ hpq))
    · rw [FormatXEnqueue_F, FormatXEnqueue_F]
      exact hAB
    · intro l hl
      rcases e4 l hl with h | h
      · exact hq l h
      · rw [h]
        exact hls x (List.mem_cons_self _ _)

theorem PinsOwned_owner (G : FBAGraph) (h : PinsOwned G) (n p : Nat) (hp : p ∈ (G.node n).Pins) :
    G.OwningNode p = n := by
  by_cases hn : n < G.Nodes.length
  · exact h n (List.mem_range.2 hn) p hp
  · have : G.node n = defaultNode := by
      simp only [FBAGraph.node]
      exact List.getD_eq_default _ _ (by omega)
    rw [this] at hp
    simp [defaultNode] at hp

theorem FormatXLinks_owner (G : FBAGraph) (h : PinsOwned G) (S : FEdGraphParameterFormatter)
    (d : EEdGraphPinDirection) (c : Nat) (pq : Nat × Nat) (hpq : pq ∈ FormatXLinks G S d c) :
    G.OwningNode pq.1 = c := by
  simp only [FormatXLinks, GetLinkedPins, GetPinsByDirection, List.mem_flatMap, List.mem_map,
    List.mem_filter] at hpq
  obtain ⟨p, ⟨⟨⟨hp, _⟩, _⟩, _⟩, q, _, rfl⟩ := hpq
  exact PinsOwned_owner G h c p hp

theorem FormatXLinks_root (G : FBAGraph) (A B : FEdGraphParameterFormatter) (d : EEdGraphPinDirection)
    (c : Nat) (h : B.RootNode = A.RootNode) : FormatXLinks G B d c = FormatXLinks G A d c := by
  unfold FormatXLinks
  rw [h]

theorem FormatXEnqueue_TempOutput (G : FBAGraph) (c : Nat) (st : FormatXState) (p q : Nat) :
    (FormatXEnqueue G c st p q).TempOutput = st.TempOutput := by
  unfold FormatXEnqueue
  dsimp only
  split_ifs <;> rfl

theorem FormatXEnqueue_fold_TempOutput (G : FBAGraph) (c : Nat) (ls : List (Nat × Nat)) :
    ∀ st : FormatXState,
      (ls.foldl (fun a pq => FormatXEnqueue G c a pq.1 pq.2) st).TempOutput = st.TempOutput := by
  induction ls with
  | nil => intro st; rfl
  | cons x xs ih =>
    intro st
    simp only [List.foldl_cons]
    rw [ih, FormatXEnqueue_TempOutput]

theorem QOk_mono (G : FBAGraph) (S S' : FEdGraphParameterFormatter) (l : FPinLink) (h : QOk G S l)
    (hm : ∀ n ∈ S.AllFormattedNodes, n ∈ S'.AllFormattedNodes) (hr : S'.RootNode = S.RootNode) :
    QOk G S' l := by
  rcases h with ⟨p, hp, hmem⟩ | ⟨hn, hroot⟩
  · exact Or.inl ⟨p, hp, hm _ hmem⟩
  · exact Or.inr ⟨hn, hr.trans hroot⟩

/-- The dequeued link `l` with the remaining queues `iq`, `oq`: visit and
enqueue keep the simulation. -/
theorem FormatXStep_sim_aux (G : FBAGraph) (hwf : PinsOwned G) (d : EEdGraphPinDirection)
    (X0 X0' : Nat → Int) (a b : FormatXState) (l : FPinLink) (iq oq : List FPinLink)
    (h : FXSim G X0 X0' a b) (hl : QOk G a.F l) (hsub : ∀ x ∈ iq ++ oq, QOk G a.F x) :
    FXSim G X0 X0'
      ((FormatXLinks G (FormatXVisit G d { a with InputQueue := iq, OutputQueue := oq } l).F d
          (l.GetNode G)).foldl (fun x pq => FormatXEnqueue G (l.GetNode G) x pq.1 pq.2)
          (FormatXVisit G d { a with InputQueue := iq, OutputQueue := oq } l))
      ((FormatXLinks G (FormatXVisit G d { b with InputQueue := iq, OutputQueue := oq } l).F d
          (l.GetNode G)).foldl (fun x pq => FormatXEnqueue G (l.GetNode G) x pq.1 pq.2)
          (FormatXVisit G d { b with InputQueue := iq, OutputQueue := oq } l)) := by
  obtain ⟨hF, hV, hT, _, _, _⟩ := h
  obtain ⟨v1, v2, v3, v4⟩ := FormatXVisit_sim G d X0 X0'
    { a with InputQueue := iq, OutputQueue := oq } { b with InputQueue := iq, OutputQueue := oq } l hF hT hl
  obtain ⟨fa1, _, _, _, _, fa6, fa7, fa8⟩ :=
    FormatXVisit_fields G d { a with InputQueue := iq, OutputQueue := oq } l
  obtain ⟨_, _, _, _, _, fb6, fb7, fb8⟩ :=
    FormatXVisit_fields G d { b with InputQueue := iq, OutputQueue := oq } l
  have hroot : (FormatXVisit G d { a with InputQueue := iq, OutputQueue := oq } l).F.RootNode
      = a.F.RootNode := congrArg (fun x => x.1) fa1
  rw [FormatXLinks_root G _ _ d _ v1.1.1]
  obtain ⟨e1, e2, e3, e4⟩ := FormatXEnqueue_fold_sim G (l.GetNode G)
    (FormatXVisit G d { a with InputQueue := iq, OutputQueue := oq } l).F
    (FormatXLinks G (FormatXVisit G d { a with InputQueue := iq, OutputQueue := oq } l).F d (l.GetNode G))
    (FormatXVisit G d { a with InputQueue := iq, OutputQueue := oq } l)
    (FormatXVisit G d { b with InputQueue := iq, OutputQueue := oq } l)
    v1.1 (by rw [fa6, fb6]; exact hV) (by rw [fa7, fb7]) (by rw [fa8, fb8])
    (by
      intro x hx
      rw [fa7, fa8] at hx
      exact QOk_mono G _ _ x (hsub x hx) v4 hroot)
    (by
      intro pq hpq
      refine Or.inl ⟨pq.1, rfl, ?_⟩
      rw [FormatXLinks_owner G hwf _ d _ pq hpq]
      exact v3)
  refine ⟨?_, e1, ?_, e2, e3, ?_⟩
  · rw [FormatXEnqueue_fold_F, FormatXEnqueue_fold_F]
    exact v1
  · rw [FormatXEnqueue_fold_TempOutput, FormatXEnqueue_fold_TempOutput]
    exact v2
  · rw [FormatXEnqueue_fold_F]
    exact e4

theorem FormatXStep_sim (G : FBAGraph) (hwf : PinsOwned G) (d : EEdGraphPinDirection)
    (X0 X0' : Nat → Int) (a b : FormatXState) (h : FXSim G X0 X0' a b) :
    FXSim G X0 X0' (FormatXStep G d a) (FormatXStep G d b) := by
  have hq := h.2.2.2.2.2
  have hI := h.2.2.2.1
  have hO := h.2.2.2.2.1
  unfold FormatXStep
  dsimp only
  rw [hI, hO]
  split_ifs with hd
  · cases hi : a.InputQueue with
    | cons l r =>
      simp only []
      refine FormatXStep_sim_aux G hwf d X0 X0' a b l r a.OutputQueue h
        (hq l (by simp [hi])) (fun x hx => hq x ?_)
      rw [hi]
      rcases List.mem_append.1 hx with h1 | h1
      · exact List.mem_append_left _ (List.mem_cons_of_mem _ h1)
      · exact List.mem_append_right _ h1
    | nil =>
      cases ho : a.OutputQueue with
      | cons l r =>
        simp only []
        refine FormatXStep_sim_aux G hwf d X0 X0' a b l [] r h
          (hq l (by simp [hi, ho])) (fun x hx => hq x ?_)
        rw [hi, ho]
        simp only [List.nil_append] at hx ⊢
        exact List.mem_cons_of_mem _ hx
      | nil => simpa using h
  · cases ho : a.OutputQueue with
    | cons l r =>
      simp only []
      refine FormatXStep_sim_aux G hwf d X0 X0' a b l a.InputQueue r h
        (hq l (by simp [ho])) (fun x hx => hq x ?_)
      rw [ho]
      rcases List.mem_append.1 hx with h1 | h1
      · exact List.mem_append_left _ h1
      · exact List.mem_append_right _ (List.mem_cons_of_mem _ h1)
    | nil =>
      cases hi : a.InputQueue with
      | cons l r =>
        simp only []
        refine FormatXStep_sim_aux G hwf d X0 X0' a b l r [] h
          (hq l (by simp [hi, ho])) (fun x hx => hq x ?_)
        rw [hi, ho]
        simp only [List.append_nil] at hx ⊢
        exact List.mem_cons_of_mem _ hx
      | nil => simpa using h

theorem FormatXLoop_sim (G : FBAGraph) (hwf : PinsOwned G) (d : EEdGraphPinDirection)
    (X0 X0' : Nat → Int) :
    ∀ (fuel : Nat) (a b : FormatXState), FXSim G X0 X0' a b →
      ∀ a', FormatXLoop G d fuel a = some a' →
        ∃ b', FormatXLoop G d fuel b = some b' ∧ FXSim G X0 X0' a' b' := by
  intro fuel
  induction fuel with
  | zero =>
    intro a b h a' ha
    simp only [FormatXLoop] at ha ⊢
    rw [h.2.2.2.1, h.2.2.2.2.1]
    split_ifs at ha ⊢
    cases ha
    exact ⟨b, rfl, h⟩
  | succ n ih =>
    intro a b h a' ha
    simp only [FormatXLoop] at ha ⊢
    rw [h.2.2.2.1, h.2.2.2.2.1]
    split_ifs at ha ⊢
    · cases ha
      exact ⟨b, rfl, h⟩
    · exact ih _ _ (FormatXStep_sim G hwf d X0 X0' a b h) a' ha

theorem FormatXPassInit_sim (G : FBAGraph) (X0 X0' : Nat → Int) (a b : FormatXState)
    (d : EEdGraphPinDirection) (hF : FSim X0 X0' a.F b.F) (hT : b.TempOutput = a.TempOutput)
    (hr : ∃ r, a.F.RootNode = some r) :
    FXSim G X0 X0' (FormatXPassInit a d) (FormatXPassInit b d) := by
  obtain ⟨r, hr⟩ := hr
  have hq : QOk G a.F { From := none, To := none, Node := a.F.RootNode.getD 0 } :=
    Or.inr ⟨rfl, by simp [FPinLink.GetNode, hr]⟩
  unfold FormatXPassInit
  dsimp only
  rw [hF.1.1]
  split_ifs
  · refine ⟨hF, rfl, hT, rfl, rfl, ?_⟩
    intro l hl
    simp only [List.append_nil, List.mem_singleton] at hl
    rw [hl]
    exact hq
  · refine ⟨hF, rfl, hT, rfl, rfl, ?_⟩
    intro l hl
    simp only [List.nil_append, List.mem_singleton] at hl
    rw [hl]
    exact hq

/-- Two runs of `FormatX` from formatters that agree on the formatted nodes
end in formatters that agree on the (larger) formatted set and have written
no X position outside it. -/
theorem FormatX_sim (G : FBAGraph) (hwf : PinsOwned G) (A B : FEdGraphParameterFormatter)
    (h : XStart A B) : FSim A.NodePosX B.NodePosX (FormatX G A) (FormatX G B) := by
  obtain ⟨r1, r2, hA, hB, a1, hX, r, hr, hrA⟩ := h
  have h0 : FSim A.NodePosX B.NodePosX (FormatXInit A).F (FormatXInit B).F := by
    refine ⟨⟨r1, r2, hA, hB, a1, rfl, rfl, hX⟩, ?_, ?_, fun n _ => ⟨rfl, rfl⟩, ?_⟩
    · intro i hi
      simp [FormatXInit] at hi
    · intro k i hk
      simp [FormatXInit, mapFind] at hk
    · intro r' hr'
      have : A.RootNode = some r' := hr'
      rw [hr] at this
      cases this
      exact hrA
  obtain ⟨stA, hstA⟩ := FormatXFuel_terminates G A
  have hFA : FormatX G A = stA.F := by simp [FormatX, hstA]
  simp only [FormatXFuel, Option.bind_eq_some] at hstA
  obtain ⟨s1, hs1, hs2⟩ := hstA
  have i1 := FormatXPassInit_sim G A.NodePosX B.NodePosX (FormatXInit A) (FormatXInit B) EGPD_Output h0 rfl
    ⟨r, hr⟩
  obtain ⟨t1, ht1, k1⟩ := FormatXLoop_sim G hwf EGPD_Output _ _ _ _ _ i1 s1 hs1
  have hroot1 : s1.F.RootNode = some r := by
    have := (FormatXLoop_FXRel G EGPD_Output _ _ _ hs1).1
    rw [(FormatXPassInit_measure G _ _).2.2] at this
    have h' : s1.F.RootNode = (FormatXInit A).F.RootNode := congrArg (fun x => x.1) this
    rw [h']
    exact hr
  have i2 := FormatXPassInit_sim G A.NodePosX B.NodePosX s1 t1 EGPD_Input k1.1 k1.2.2.1 ⟨r, hroot1⟩
  obtain ⟨t2, ht2, k2⟩ := FormatXLoop_sim G hwf EGPD_Input _ _ _ _ _ i2 stA hs2
  have hFB : FormatX G B = t2.F := by
    simp [FormatX, FormatXFuel, ht1, ht2]
  rw [hFA, hFB]
  exact k2.1

/-! ## The vertical placement: visited nodes, children and the root -/

theorem mem_setAppend (t : List Nat) : ∀ (s : List Nat) (n : Nat), n ∈ setAppend s t ↔ n ∈ s ∨ n ∈ t := by
  induction t with
  | nil => intro s n; simp [setAppend]
  | cons x xs ih =>
    intro s n
    have := ih (setAdd s x) n
    simp only [setAppend, List.foldl_cons] at this ⊢
    rw [this, mem_setAdd]
    simp only [List.mem_cons]
    tauto

theorem FormatYCollision_other (G : FBAGraph) (c : Nat) (V : List Nat) (r : Nat) (hr : r ≠ c) :
    ∀ (n : Nat) (S : FEdGraphParameterFormatter),
      (FormatYCollision G c V n S).NodePosY r = S.NodePosY r := by
  intro n
  induction n with
  | zero => intro S; rfl
  | succ k ih =>
    intro S
    simp only [FormatYCollision]
    split
    · rfl
    · rw [ih]
      simp [withPosY, setPos, hr]

theorem FormatYCollision_nil (G : FBAGraph) (c : Nat) :
    ∀ (n : Nat) (S : FEdGraphParameterFormatter), FormatYCollision G c [] n S = S := by
  intro n S
  cases n <;> simp [FormatYCollision]

theorem StraightenPin_other (G : FBAGraph) (S : FEdGraphParameterFormatter) (p q r : Nat)
    (hr : r ≠ G.OwningNode q) : (StraightenPin G S p q).NodePosY r = S.NodePosY r := by
  simp [StraightenPin, withPosY, setPos, hr]

/-- `CenterBranches` leaves a node alone that is in no branch and is either
not the centered node or finds every visited node in the centered group. -/
theorem CenterBranches_other (G : FBAGraph) (S : FEdGraphParameterFormatter) (c : Nat)
    (bs : List ChildBranch) (V : List Nat) (r : Nat)
    (hr : r ∉ bs.flatMap (fun b => b.BranchNodes))
    (hc : r ≠ c ∨ ∀ v ∈ V, v ∈ bs.flatMap (fun b => b.BranchNodes) ++ [c]) :
    (CenterBranches G S c bs V).NodePosY r = S.NodePosY r := by
  have h1 : (CenterOffsetBranches G S bs).NodePosY r = S.NodePosY r := by
    unfold CenterOffsetBranches
    exact foldl_withPosY_other _ _ r hr S
  unfold CenterBranches
  dsimp only
  split_ifs with hd
  · rcases hc with hc | hc
    · rw [foldl_withPosY_other _ _ r (by simp [hr, hc]), h1]
    · exfalso
      have hfold : ∀ (l : List Nat) (B : FSlateRect),
          (∀ v ∈ l, v ∈ bs.flatMap (fun b => b.BranchNodes) ++ [c]) →
          l.foldl (CenterCollide G (CenterOffsetBranches G S bs)
            (bs.flatMap (fun b => b.BranchNodes) ++ [c])) B = B := by
        intro l
        induction l with
        | nil => intro B _; rfl
        | cons x xs ih =>
          intro B hl
          simp only [List.foldl_cons]
          have hx : CenterCollide G (CenterOffsetBranches G S bs)
              (bs.flatMap (fun b => b.BranchNodes) ++ [c]) B x = B := by
            unfold CenterCollide
            rw [if_pos (hl x (List.mem_cons_self _ _))]
          rw [hx]
          exact ih B (fun v hv => hl v (List.mem_cons_of_mem _ hv))
      unfold CenterDeltaY at hd
      dsimp only at hd
      rw [hfold V _ hc] at hd
      simp at hd
  · exact h1

theorem OnlyY_RootNode {S S' : FEdGraphParameterFormatter} (h : OnlyY S S') : S'.RootNode = S.RootNode :=
  congrArg (fun x => x.RootNode) h.1

theorem YPost_refl (G : FBAGraph) (r c : Nat) (pp : Option Nat) (bsr : Bool)
    (acc : FEdGraphParameterFormatter × List Nat × List Nat) : YPost G r c pp bsr acc acc :=
  ⟨fun _ h => h, fun _ h => Or.inl h, fun _ h => Or.inl h, fun _ _ _ => rfl⟩

theorem FormatYPlaceChild_other (G : FBAGraph) (F : FEdGraphParameterFormatter) (p q r : Nat)
    (hr : r ≠ G.OwningNode q) : (FormatYPlaceChild G F p q).NodePosY r = F.NodePosY r := by
  unfold FormatYPlaceChild
  dsimp only
  split_ifs
  · simp [withPosY, setPos, hr]
  · exact StraightenPin_other G F p q r hr

theorem FormatYAvoidPin_other (G : FBAGraph) (F : FEdGraphParameterFormatter) (d : EEdGraphPinDirection)
    (ll : Option Nat) (lc : List Nat) (r : Nat) (hr : r ∉ lc) :
    (FormatYAvoidPin G F d ll lc).NodePosY r = F.NodePosY r := by
  unfold FormatYAvoidPin
  dsimp only
  split_ifs
  · split
    · split_ifs
      · exact foldl_withPosY_other lc _ r hr F
      · rfl
    · rfl
  · rfl

theorem FormatYChildIsSameRow_root (G : FBAGraph) (a : FormatYState) (c : Nat) (pp : Option Nat)
    (p q r : Nat) (hr : a.F.RootNode = some r)
    (h : FormatYChildIsSameRow G a c pp p q = true) : c ≠ r := by
  unfold FormatYChildIsSameRow at h
  simp only [Bool.and_eq_true, bne_iff_ne, ne_eq, hr] at h
  intro hc
  exact h.2 (by rw [hc])

theorem FormatYChild_YSt (G : FBAGraph) (r : Nat)
    (recurse : Nat → Option Nat → Option Nat → Bool →
      FEdGraphParameterFormatter × List Nat × List Nat → FEdGraphParameterFormatter × List Nat × List Nat)
    (hrec : RecStruct G r recurse) (hrecY : RecOnlyY recurse)
    (c : Nat) (pp : Option Nat) (Children : List Nat) (d : EEdGraphPinDirection) (MyPin : Nat)
    (hown : G.OwningNode MyPin = c) (V0 O0 : List Nat) (y0 : Int) (P : Prop)
    (hP : P → r ∈ V0 ∨ r = c) (Vd : List Nat) (a : FormatYState) (OtherPin : Nat)
    (h : YSt r c V0 O0 y0 P a) (hd : YDir Vd a) :
    YSt r c V0 O0 y0 P (FormatYChild G recurse c pp Children d MyPin a OtherPin)
      ∧ YDir Vd (FormatYChild G recurse c pp Children d MyPin a OtherPin) := by
  have hY := OnlyY_FormatYChild G recurse hrecY a.F c pp Children d MyPin a OtherPin (OnlyY_refl _)
  revert hY
  unfold FormatYChild
  dsimp only
  split_ifs with hskip
  · intro _; exact ⟨h, hd⟩
  · intro hY
    have hnv : G.OwningNode OtherPin ∉ a.VisitedNodes := by
      simp only [Bool.or_eq_true, decide_eq_true_eq, not_or] at hskip
      exact hskip.2
    obtain ⟨h1, h2, h3, h4, h5, h7⟩ := h
    have hpost := hrec (G.OwningNode OtherPin) (some OtherPin) (some MyPin)
      (FormatYChildIsSameRow G a c pp MyPin OtherPin) (FormatYPlaceChild G a.F MyPin OtherPin, a.VisitedNodes, [])
    have hYr := hrecY (G.OwningNode OtherPin) (some OtherPin) (some MyPin)
      (FormatYChildIsSameRow G a c pp MyPin OtherPin) (FormatYPlaceChild G a.F MyPin OtherPin, a.VisitedNodes, [])
    generalize recurse (G.OwningNode OtherPin) (some OtherPin) (some MyPin)
      (FormatYChildIsSameRow G a c pp MyPin OtherPin)
      (FormatYPlaceChild G a.F MyPin OtherPin, a.VisitedNodes, []) = res at hpost hYr hY ⊢
    obtain ⟨p1, p2, p3, p4⟩ := hpost
    dsimp only at p1 p2 p3 p4 hYr
    have p2x : ∀ n ∈ res.2.2, n ∈ res.2.1 ∧ n ∉ a.VisitedNodes := by
      intro n hn
      rcases p2 n hn with hx | hx
      · simp at hx
      · exact hx
    refine ⟨⟨?_, ?_, ?_, ?_, ?_, ?_⟩, ?_⟩
    · intro v hv
      exact p1 v (h1 v hv)
    · exact p1 c h2
    · intro n hn
      simp only [FormatYAfterChild, mem_setAppend] at hn ⊢
      rcases hn with hn | hn
      · rcases h3 n hn with hx | hx
        · exact Or.inl hx
        · exact Or.inr ⟨p1 n hx.1, hx.2⟩
      · refine Or.inr ⟨(p2x n hn).1, fun hv => (p2x n hn).2 (h1 n hv), fun hc => (p2x n hn).2 (hc ▸ h2)⟩
    · intro v hv
      simp only [FormatYAfterChild, mem_setAppend] at hv ⊢
      rcases p3 v hv with hx | hx
      · rcases h4 v hx with hy | hy | hy
        · exact Or.inl hy
        · exact Or.inr (Or.inl (Or.inl hy))
        · exact Or.inr (Or.inr hy)
      · exact Or.inr (Or.inl (Or.inr hx))
    · intro br hbr n hn
      simp only [FormatYAfterChild, List.mem_append, List.mem_singleton] at hbr ⊢
      rcases hbr with hbr | hbr
      · have := h5 br hbr n hn
        exact ⟨p1 n this.1, this.2⟩
      · rw [hbr] at hn
        simp only [mkBranch] at hn
        exact ⟨(p2x n hn).1, fun hv => (p2x n hn).2 (h1 n hv), fun hc => (p2x n hn).2 (hc ▸ h2)⟩
    · intro hp
      obtain ⟨hroot, hy⟩ := h7 hp
      have hrv : r ∈ a.VisitedNodes := by
        rcases hP hp with hx | hx
        · exact h1 r hx
        · rw [hx]; exact h2
      have hne : r ≠ G.OwningNode OtherPin := fun hx => hnv (hx ▸ hrv)
      refine ⟨(OnlyY_RootNode hY).trans hroot, ?_⟩
      simp only [FormatYAfterChild]
      rw [FormatYAvoidPin_other G res.1 d a.LastLinked res.2.2 r (fun hx => (p2x r hx).2 hrv)]
      have hroot1 : (FormatYPlaceChild G a.F MyPin OtherPin).RootNode = some r :=
        (OnlyY_RootNode (OnlyY_FormatYPlaceChild G a.F MyPin OtherPin)).trans hroot
      rw [p4 hroot1 (Or.inl hrv) ?_, FormatYPlaceChild_other G a.F MyPin OtherPin r hne, hy]
      intro hb p hpe
      have hcr := FormatYChildIsSameRow_root G a c pp MyPin OtherPin r hroot hb
      cases hpe
      rw [hown]
      exact hcr
    · intro v hv
      simp only [FormatYAfterChild, List.flatMap_append, List.mem_append] at hv ⊢
      rcases p3 v hv with hx | hx
      · rcases hd v hx with hy | hy
        · exact Or.inl hy
        · exact Or.inr (Or.inl hy)
      · refine Or.inr (Or.inr ?_)
        simp [mkBranch, hx]

theorem FormatYPin_YSt (G : FBAGraph) (r : Nat)
    (recurse : Nat → Option Nat → Option Nat → Bool →
      FEdGraphParameterFormatter × List Nat × List Nat → FEdGraphParameterFormatter × List Nat × List Nat)
    (hrec : RecStruct G r recurse) (hrecY : RecOnlyY recurse)
    (c : Nat) (pp : Option Nat) (Children : List Nat) (d : EEdGraphPinDirection)
    (V0 O0 : List Nat) (y0 : Int) (P : Prop)
    (hP : P → r ∈ V0 ∨ r = c) (Vd : List Nat) (a : FormatYState) (MyPin : Nat)
    (hown : G.OwningNode MyPin = c)
    (h : YSt r c V0 O0 y0 P a ∧ YDir Vd a) :
    YSt r c V0 O0 y0 P (FormatYPin G recurse c pp Children d a MyPin)
      ∧ YDir Vd (FormatYPin G recurse c pp Children d a MyPin) := by
  unfold FormatYPin
  dsimp only
  have hfold := foldl_inv (fun s => YSt r c V0 O0 y0 P s ∧ YDir Vd s)
    (FormatYChild G recurse c pp Children d MyPin) (G.pin MyPin).LinkedTo a h
    (fun s q hs => FormatYChild_YSt G r recurse hrec hrecY c pp Children d MyPin hown V0 O0 y0 P hP Vd
      s q hs.1 hs.2)
  split_ifs
  · exact h
  · exact hfold
  · exact hfold

theorem mem_GetPinsByDirection_owner (G : FBAGraph) (hwf : PinsOwned G) (c : Nat)
    (d : EEdGraphPinDirection) (p : Nat) (hp : p ∈ GetPinsByDirection G c d) : G.OwningNode p = c := by
  simp only [GetPinsByDirection, List.mem_filter] at hp
  exact PinsOwned_owner G hwf c p hp.1

theorem FormatYDirection_YSt (G : FBAGraph) (hwf : PinsOwned G) (r : Nat)
    (recurse : Nat → Option Nat → Option Nat → Bool →
      FEdGraphParameterFormatter × List Nat × List Nat → FEdGraphParameterFormatter × List Nat × List Nat)
    (hrec : RecStruct G r recurse) (hrecY : RecOnlyY recurse)
    (c : Nat) (pp : Option Nat) (Children : List Nat) (d : EEdGraphPinDirection)
    (V0 O0 : List Nat) (y0 : Int) (P : Prop) (hc : c ∉ V0)
    (hP : P → r ∈ V0 ∨ (c = r ∧ V0 = [])) (a : FormatYState)
    (hfirst : d = EGPD_Input → ∀ v ∈ a.VisitedNodes, v ∈ V0 ∨ v = c)
    (h : YSt r c V0 O0 y0 P a) :
    YSt r c V0 O0 y0 P (FormatYDirection G recurse c pp Children a d) := by
  have hP2 : P → r ∈ V0 ∨ r = c := fun hp => (hP hp).imp id (fun x => x.1.symm)
  have h0 : YSt r c V0 O0 y0 P { a with LastLinked := none, ChildBranches := [] }
      ∧ YDir a.VisitedNodes { a with LastLinked := none, ChildBranches := [] } := by
    obtain ⟨h1, h2, h3, h4, _, h7⟩ := h
    exact ⟨⟨h1, h2, h3, h4, fun br hbr => by simp at hbr, h7⟩, fun v hv => Or.inl hv⟩
  have hfold := foldl_rel
    (fun (p : FormatYState) (_ : Unit) => YSt r c V0 O0 y0 P p ∧ YDir a.VisitedNodes p)
    (FormatYPin G recurse c pp Children d) (fun u _ => u) (GetPinsByDirection G c d)
    { a with LastLinked := none, ChildBranches := [] } () h0
    (fun p _ x hx hp => FormatYPin_YSt G r recurse hrec hrecY c pp Children d V0 O0 y0 P hP2
      a.VisitedNodes p x (mem_GetPinsByDirection_owner G hwf c d x hx) hp)
  unfold FormatYDirection
  dsimp only
  generalize (GetPinsByDirection G c d).foldl (FormatYPin G recurse c pp Children d)
    { a with LastLinked := none, ChildBranches := [] } = d1 at hfold ⊢
  obtain ⟨⟨h1, h2, h3, h4, h5, h7⟩, hdir⟩ := hfold
  split_ifs with hcond
  · refine ⟨h1, h2, h3, h4, h5, ?_⟩
    intro hp
    obtain ⟨hroot, hy⟩ := h7 hp
    refine ⟨(OnlyY_RootNode (OnlyY_CenterBranches G d1.F c d1.ChildBranches d1.VisitedNodes)).trans hroot, ?_⟩
    show (CenterBranches G d1.F c d1.ChildBranches d1.VisitedNodes).NodePosY r = y0
    have hd : d = EGPD_Input := by
      simp only [Bool.and_eq_true, beq_iff_eq] at hcond
      exact hcond.1.1.1.2
    have hrb : r ∉ d1.ChildBranches.flatMap (fun b => b.BranchNodes) := by
      intro hx
      simp only [List.mem_flatMap] at hx
      obtain ⟨br, hbr, hn⟩ := hx
      have := h5 br hbr r hn
      rcases hP2 hp with hq | hq
      · exact this.2.1 hq
      · exact this.2.2 hq
    rw [CenterBranches_other G d1.F c d1.ChildBranches d1.VisitedNodes r hrb ?_, hy]
    rcases hP hp with hq | hq
    · exact Or.inl (fun hx => hc (hx ▸ hq))
    · refine Or.inr (fun v hv => ?_)
      simp only [List.mem_append, List.mem_singleton]
      rcases hdir v hv with hx | hx
      · rcases hfirst hd v hx with hz | hz
        · rw [hq.2] at hz
          simp at hz
        · exact Or.inr hz
      · exact Or.inl hx
  · exact ⟨h1, h2, h3, h4, h5, h7⟩

theorem FormatYBody_struct (G : FBAGraph) (hwf : PinsOwned G) (r : Nat)
    (recurse : Nat → Option Nat → Option Nat → Bool →
      FEdGraphParameterFormatter × List Nat × List Nat → FEdGraphParameterFormatter × List Nat × List Nat)
    (hrec : RecStruct G r recurse) (hrecY : RecOnlyY recurse) : RecStruct G r (FormatYBody G recurse) := by
  intro c cp pp bsr acc
  unfold FormatYBody
  dsimp only
  split_ifs with hvis
  · exact YPost_refl G r c pp bsr acc
  · have hP : (acc.1.RootNode = some r ∧ (r ∈ acc.2.1 ∨ (c = r ∧ acc.2.1 = []))) →
        r ∈ acc.2.1 ∨ (c = r ∧ acc.2.1 = []) := fun h => h.2
    have hst0 : YSt r c acc.2.1 acc.2.2 (acc.1.NodePosY r)
        (acc.1.RootNode = some r ∧ (r ∈ acc.2.1 ∨ (c = r ∧ acc.2.1 = [])))
        { F := FormatYCollision G c acc.2.1 100 acc.1, VisitedNodes := setAdd acc.2.1 c,
          OutChildren := acc.2.2, bFirstPin := true, LastLinked := none, ChildBranches := [] } := by
      refine ⟨?_, ?_, ?_, ?_, ?_, ?_⟩
      · intro v hv; exact (mem_setAdd _ _ _).2 (Or.inr hv)
      · exact (mem_setAdd _ _ _).2 (Or.inl rfl)
      · intro n hn; exact Or.inl hn
      · intro v hv
        rcases (mem_setAdd _ _ _).1 hv with hx | hx
        · exact Or.inr (Or.inr hx)
        · exact Or.inl hx
      · intro br hbr; simp at hbr
      · intro hp
        refine ⟨(OnlyY_RootNode (OnlyY_FormatYCollision G c acc.2.1 100 acc.1)).trans hp.1, ?_⟩
        rcases hp.2 with hx | hx
        · exact FormatYCollision_other G c acc.2.1 r (fun hrc => hvis (hrc ▸ hx)) 100 acc.1
        · show (FormatYCollision G c acc.2.1 100 acc.1).NodePosY r = acc.1.NodePosY r
          rw [hx.2, FormatYCollision_nil]
    have hA := FormatYDirection_YSt G hwf r recurse hrec hrecY c pp
      (match mapFind acc.1.NodeInfoMap c with
        | some i => GetChildNodes acc.1.Infos i
        | none => []) EGPD_Input acc.2.1 acc.2.2 (acc.1.NodePosY r) _ hvis hP _
      (fun _ v hv => ((mem_setAdd _ _ _).1 hv).symm) hst0
    have hB := FormatYDirection_YSt G hwf r recurse hrec hrecY c pp
      (match mapFind acc.1.NodeInfoMap c with
        | some i => GetChildNodes acc.1.Infos i
        | none => []) EGPD_Output acc.2.1 acc.2.2 (acc.1.NodePosY r) _ hvis hP _
      (fun h => by cases h) hA
    simp only [List.foldl_cons, List.foldl_nil]
    generalize FormatYDirection G recurse c pp _ (FormatYDirection G recurse c pp _ _ EGPD_Input)
      EGPD_Output = stEnd at hB ⊢
    obtain ⟨h1, h2, h3, h4, _, h7⟩ := hB
    refine ⟨h1, ?_, ?_, ?_⟩
    · intro n hn
      rcases (mem_setAdd _ _ _).1 hn with hx | hx
      · exact Or.inr ⟨hx ▸ h2, hx ▸ hvis⟩
      · rcases h3 n hx with hy | hy
        · exact Or.inl hy
        · exact Or.inr ⟨hy.1, hy.2.1⟩
    · intro v hv
      rcases h4 v hv with hx | hx | hx
      · exact Or.inl hx
      · exact Or.inr ((mem_setAdd _ _ _).2 (Or.inr hx))
      · exact Or.inr ((mem_setAdd _ _ _).2 (Or.inl hx))
    · intro hroot hr hb
      obtain ⟨_, hy⟩ := h7 ⟨hroot, hr⟩
      dsimp only
      unfold FormatYFinish
      split
      · rename_i cp0 pp0
        rw [StraightenPin_other G stEnd.F cp0 pp0 r (fun hx => hb rfl pp0 rfl hx.symm), hy]
      · exact hy

theorem FormatY_struct (G : FBAGraph) (hwf : PinsOwned G) (r : Nat) :
    ∀ fuel : Nat, RecStruct G r (FormatY G fuel) := by
  intro fuel
  induction fuel with
  | zero => intro c cp pp b acc; exact YPost_refl G r c pp b acc
  | succ n ih => exact FormatYBody_struct G hwf r _ ih (OnlyY_FormatY G n)

/-! ## The vertical placement: two runs side by side -/

theorem YKeep_refl (A B : FEdGraphParameterFormatter) : YKeep A B A B := fun _ => Or.inr ⟨rfl, rfl⟩

theorem YKeep_mono {A B A' B' : FEdGraphParameterFormatter} (h : YKeep A B A' B') (n : Nat)
    (hn : B.NodePosY n = A.NodePosY n) : B'.NodePosY n = A'.NodePosY n := by
  rcases h n with hx | hx
  · exact hx
  · rw [hx.1, hx.2, hn]

theorem YKeep_trans {A B A' B' A'' B'' : FEdGraphParameterFormatter} (h1 : YKeep A B A' B')
    (h2 : YKeep A' B' A'' B'') : YKeep A B A'' B'' := by
  intro n
  rcases h2 n with hx | hx
  · exact Or.inl hx
  · rcases h1 n with hy | hy
    · exact Or.inl (by rw [hx.1, hx.2, hy])
    · exact Or.inr ⟨hx.1.trans hy.1, hx.2.trans hy.2⟩

theorem Agr_keep {A B A' B' : FEdGraphParameterFormatter} (h : YKeep A B A' B') (hA : OnlyY A A')
    (hB : OnlyY B B') (n : Nat) (hn : Agr A B n) : Agr A' B' n :=
  ⟨by rw [hA.2, hB.2]; exact hn.1, YKeep_mono h n hn.2⟩

theorem YKeep_withPosY (A B : FEdGraphParameterFormatter) (n : Nat) (y y' : Int) (h : y' = y) :
    YKeep A B (withPosY A n y) (withPosY B n y') := by
  intro m
  by_cases hm : m = n
  · left; simp [withPosY, setPos, hm, h]
  · right; simp [withPosY, setPos, hm]

theorem foldl_withPosY_keep (f : Int → Int) (l : List Nat) :
    ∀ A B : FEdGraphParameterFormatter, (∀ n ∈ l, B.NodePosY n = A.NodePosY n) →
      YKeep A B (l.foldl (fun a n => withPosY a n (f (a.NodePosY n))) A)
        (l.foldl (fun a n => withPosY a n (f (a.NodePosY n))) B) := by
  induction l with
  | nil => intro A B _; exact YKeep_refl A B
  | cons x xs ih =>
    intro A B h
    simp only [List.foldl_cons]
    have h1 : YKeep A B (withPosY A x (f (A.NodePosY x))) (withPosY B x (f (B.NodePosY x))) :=
      YKeep_withPosY A B x _ _ (by rw [h x (List.mem_cons_self _ _)])
    exact YKeep_trans h1 (ih _ _ (fun n hn => YKeep_mono h1 n (h n (List.mem_cons_of_mem _ hn))))

theorem GetCachedNodeBounds_agree (G : FBAGraph) {A B : FEdGraphParameterFormatter} {n : Nat}
    (h : Agr A B n) : GetCachedNodeBounds G B n = GetCachedNodeBounds G A n := by
  unfold GetCachedNodeBounds
  rw [h.1, h.2]

theorem GetCachedNodeArrayBounds_agree (G : FBAGraph) {A B : FEdGraphParameterFormatter} (l : List Nat)
    (h : ∀ n ∈ l, Agr A B n) : GetCachedNodeArrayBounds G B l = GetCachedNodeArrayBounds G A l := by
  cases l with
  | nil => rfl
  | cons x xs =>
    simp only [GetCachedNodeArrayBounds]
    rw [GetCachedNodeBounds_agree G (h x (List.mem_cons_self _ _))]
    have hxs : ∀ n ∈ xs, Agr A B n := fun n hn => h n (List.mem_cons_of_mem _ hn)
    generalize GetCachedNodeBounds G A x = r0
    clear h
    induction xs generalizing r0 with
    | nil => rfl
    | cons y ys ih =>
      simp only [List.foldl_cons]
      rw [GetCachedNodeBounds_agree G (hxs y (List.mem_cons_self _ _))]
      exact ih (fun n hn => hxs n (List.mem_cons_of_mem _ hn)) _

theorem GetPinY_agree (G : FBAGraph) {A B : FEdGraphParameterFormatter} (p : Nat)
    (h : B.NodePosY (G.OwningNode p) = A.NodePosY (G.OwningNode p)) : GetPinY G B p = GetPinY G A p := by
  unfold GetPinY
  rw [h]

theorem StraightenPin_keep (G : FBAGraph) (A B : FEdGraphParameterFormatter) (p q : Nat)
    (h : B.NodePosY (G.OwningNode p) = A.NodePosY (G.OwningNode p)) :
    YKeep A B (StraightenPin G A p q) (StraightenPin G B p q) := by
  unfold StraightenPin
  dsimp only
  apply YKeep_withPosY
  rw [GetPinY_agree G p h]
  unfold GetPinY
  ring

theorem find_ext {α : Type} (p q : α → Bool) (l : List α) (h : ∀ x ∈ l, p x = q x) :
    l.find? p = l.find? q := by
  induction l with
  | nil => rfl
  | cons x xs ih =>
    simp only [List.find?_cons]
    rw [h x (List.mem_cons_self _ _), ih (fun y hy => h y (List.mem_cons_of_mem _ hy))]

theorem FormatYCollision_keep (G : FBAGraph) (c : Nat) (V : List Nat) :
    ∀ (n : Nat) (A B : FEdGraphParameterFormatter), Agr A B c → (∀ v ∈ V, Agr A B v) →
      YKeep A B (FormatYCollision G c V n A) (FormatYCollision G c V n B) := by
  intro n
  induction n with
  | zero => intro A B _ _; exact YKeep_refl A B
  | succ k ih =>
    intro A B hc hV
    simp only [FormatYCollision]
    have hfind : V.find? (fun v => v != c &&
        DoRectanglesIntersect ((GetCachedNodeBounds G B c).ExtendBy 0 0 0 G.Settings.PaddingY)
          ((GetCachedNodeBounds G B v).ExtendBy 0 0 0 G.Settings.PaddingY))
        = V.find? (fun v => v != c &&
        DoRectanglesIntersect ((GetCachedNodeBounds G A c).ExtendBy 0 0 0 G.Settings.PaddingY)
          ((GetCachedNodeBounds G A v).ExtendBy 0 0 0 G.Settings.PaddingY)) := by
      apply find_ext
      intro v hv
      rw [GetCachedNodeBounds_agree G hc, GetCachedNodeBounds_agree G (hV v hv)]
    rw [hfind]
    cases hf : V.find? (fun v => v != c &&
        DoRectanglesIntersect ((GetCachedNodeBounds G A c).ExtendBy 0 0 0 G.Settings.PaddingY)
          ((GetCachedNodeBounds G A v).ExtendBy 0 0 0 G.Settings.PaddingY)) with
    | none => exact YKeep_refl A B
    | some v =>
      dsimp only
      have hv : v ∈ V := List.mem_of_find?_eq_some hf
      have h1 : YKeep A B
          (withPosY A c (A.NodePosY c + (((GetCachedNodeBounds G A v).ExtendBy 0 0 0
            G.Settings.PaddingY).Bottom - (GetCachedNodeBounds G A c).Top + 1)))
          (withPosY B c (B.NodePosY c + (((GetCachedNodeBounds G B v).ExtendBy 0 0 0
            G.Settings.PaddingY).Bottom - (GetCachedNodeBounds G B c).Top + 1))) := by
        apply YKeep_withPosY
        rw [GetCachedNodeBounds_agree G hc, GetCachedNodeBounds_agree G (hV v hv), hc.2]
      refine YKeep_trans h1 (ih _ _ ?_ ?_)
      · exact Agr_keep h1 (OnlyY_withPosY (OnlyY_refl A) _ _) (OnlyY_withPosY (OnlyY_refl B) _ _) c hc
      · intro w hw
        exact Agr_keep h1 (OnlyY_withPosY (OnlyY_refl A) _ _) (OnlyY_withPosY (OnlyY_refl B) _ _) w
          (hV w hw)

theorem foldl_ext_mem {α β : Type} (f g : α → β → α) (l : List β) :
    ∀ a, (∀ a, ∀ x ∈ l, f a x = g a x) → l.foldl f a = l.foldl g a := by
  induction l with
  | nil => intro a _; rfl
  | cons x xs ih =>
    intro a h
    simp only [List.foldl_cons]
    rw [h a x (List.mem_cons_self _ _)]
    exact ih _ (fun a y hy => h a y (List.mem_cons_of_mem _ hy))

theorem FormatYPlaceChild_keep (G : FBAGraph) (A B : FEdGraphParameterFormatter) (p q : Nat)
    (hA : A.bFormatWithHelixing = false) (hB : B.bFormatWithHelixing = false)
    (h : B.NodePosY (G.OwningNode p) = A.NodePosY (G.OwningNode p)) :
    YKeep A B (FormatYPlaceChild G A p q) (FormatYPlaceChild G B p q) := by
  unfold FormatYPlaceChild
  simp only [hA, hB, Bool.false_and, Bool.false_eq_true, if_false]
  exact StraightenPin_keep G A B p q h

theorem FormatYAvoidPin_keep (G : FBAGraph) (A B : FEdGraphParameterFormatter) (d : EEdGraphPinDirection)
    (ll : Option Nat) (lc : List Nat)
    (hA : A.bFormatWithHelixing = false) (hB : B.bFormatWithHelixing = false)
    (hll : ∀ p, ll = some p → B.NodePosY (G.OwningNode p) = A.NodePosY (G.OwningNode p))
    (hlc : ∀ n ∈ lc, Agr A B n) :
    YKeep A B (FormatYAvoidPin G A d ll lc) (FormatYAvoidPin G B d ll lc) := by
  unfold FormatYAvoidPin
  simp only [hA, hB]
  split_ifs
  · cases ll with
    | none => exact YKeep_refl A B
    | some p =>
      dsimp only
      rw [GetCachedNodeArrayBounds_agree G lc hlc, GetPinY_agree G p (hll p rfl)]
      split_ifs
      · exact foldl_withPosY_keep (fun y => y + (GetPinY G A p + G.Settings.ParameterVerticalPinSpacing
          - (GetCachedNodeArrayBounds G A lc).Top)) lc A B (fun n hn => (hlc n hn).2)
      · exact YKeep_refl A B
  · exact YKeep_refl A B

theorem CenterCollide_agree (G : FBAGraph) {A B : FEdGraphParameterFormatter} (AllNodes : List Nat)
    (R : FSlateRect) (n : Nat) (h : Agr A B n) :
    CenterCollide G B AllNodes R n = CenterCollide G A AllNodes R n := by
  unfold CenterCollide
  rw [GetCachedNodeBounds_agree G h]

theorem CenterDeltaY_agree (G : FBAGraph) {A B : FEdGraphParameterFormatter} (AllNodes V : List Nat)
    (hb : ∀ n ∈ AllNodes, Agr A B n) (hV : ∀ v ∈ V, Agr A B v) :
    CenterDeltaY G B AllNodes V = CenterDeltaY G A AllNodes V := by
  unfold CenterDeltaY
  dsimp only
  rw [GetCachedNodeArrayBounds_agree G AllNodes hb,
    foldl_ext_mem (CenterCollide G B AllNodes) (CenterCollide G A AllNodes) V _
      (fun R x hx => CenterCollide_agree G AllNodes R x (hV x hx))]

theorem CenterOffsetBranches_keep (G : FBAGraph) (A B : FEdGraphParameterFormatter)
    (bs : List ChildBranch)
    (hb : ∀ n ∈ bs.flatMap (fun b => b.BranchNodes), B.NodePosY n = A.NodePosY n)
    (hpin : ∀ br ∈ bs, B.NodePosY (G.OwningNode br.Pin) = A.NodePosY (G.OwningNode br.Pin)
      ∧ B.NodePosY (G.OwningNode br.ParentPin) = A.NodePosY (G.OwningNode br.ParentPin)) :
    YKeep A B (CenterOffsetBranches G A bs) (CenterOffsetBranches G B bs) := by
  have h1 : bs.map (fun b => GetPinY G B b.Pin) = bs.map (fun b => GetPinY G A b.Pin) :=
    List.map_congr_left (fun b hbr => GetPinY_agree G b.Pin (hpin b hbr).1)
  have h2 : bs.map (fun b => GetPinY G B b.ParentPin) = bs.map (fun b => GetPinY G A b.ParentPin) :=
    List.map_congr_left (fun b hbr => GetPinY_agree G b.ParentPin (hpin b hbr).2)
  unfold CenterOffsetBranches
  dsimp only
  rw [h1, h2]
  exact foldl_withPosY_keep (fun y => Int.tdiv (y * (bs.length : Int)
    + ((bs.map (fun b => GetPinY G A b.ParentPin)).sum - (bs.map (fun b => GetPinY G A b.Pin)).sum))
    (bs.length : Int)) _ A B hb

theorem OnlyY_CenterOffsetBranches (G : FBAGraph) (S : FEdGraphParameterFormatter)
    (bs : List ChildBranch) : OnlyY S (CenterOffsetBranches G S bs) := by
  unfold CenterOffsetBranches
  exact OnlyY_foldl_withPosY S S (OnlyY_refl S) _ _

theorem CenterBranches_keep (G : FBAGraph) (A B : FEdGraphParameterFormatter) (c : Nat)
    (bs : List ChildBranch) (V : List Nat)
    (hb : ∀ n ∈ bs.flatMap (fun b => b.BranchNodes) ++ [c], Agr A B n)
    (hV : ∀ v ∈ V, Agr A B v)
    (hpin : ∀ br ∈ bs, B.NodePosY (G.OwningNode br.Pin) = A.NodePosY (G.OwningNode br.Pin)
      ∧ B.NodePosY (G.OwningNode br.ParentPin) = A.NodePosY (G.OwningNode br.ParentPin)) :
    YKeep A B (CenterBranches G A c bs V) (CenterBranches G B c bs V) := by
  have k1 := CenterOffsetBranches_keep G A B bs
    (fun n hn => (hb n (List.mem_append_left _ hn)).2) hpin
  have a1 : ∀ n, Agr A B n → Agr (CenterOffsetBranches G A bs) (CenterOffsetBranches G B bs) n :=
    fun n hn => Agr_keep k1 (OnlyY_CenterOffsetBranches G A bs) (OnlyY_CenterOffsetBranches G B bs) n hn
  have hd := CenterDeltaY_agree G (bs.flatMap (fun b => b.BranchNodes) ++ [c]) V
    (fun n hn => a1 n (hb n hn)) (fun v hv => a1 v (hV v hv))
  unfold CenterBranches
  dsimp only
  rw [hd]
  split_ifs
  · exact YKeep_trans k1 (foldl_withPosY_keep (fun y => y + CenterDeltaY G (CenterOffsetBranches G A bs)
      (bs.flatMap (fun b => b.BranchNodes) ++ [c]) V) _ _ _ (fun n hn => (a1 n (hb n hn)).2))
  · exact k1

theorem OnlyY_fields {S S' : FEdGraphParameterFormatter} (h : OnlyY S S') :
    S'.RootNode = S.RootNode ∧ S'.IgnoredNodes = S.IgnoredNodes
      ∧ S'.bFormatWithHelixing = S.bFormatWithHelixing
      ∧ S'.AllFormattedNodes = S.AllFormattedNodes ∧ S'.NodeInfoMap = S.NodeInfoMap
      ∧ S'.Infos = S.Infos ∧ S'.NodePosX = S.NodePosX :=
  ⟨congrArg (fun x => x.RootNode) h.1, congrArg (fun x => x.IgnoredNodes) h.1,
    congrArg (fun x => x.bFormatWithHelixing) h.1, congrArg (fun x => x.AllFormattedNodes) h.1,
    congrArg (fun x => x.NodeInfoMap) h.1, congrArg (fun x => x.Infos) h.1, h.2⟩

theorem YBase_OnlyY {A B A' B' : FEdGraphParameterFormatter} (h : YBase A B) (hA : OnlyY A A')
    (hB : OnlyY B B') : YBase A' B' := by
  obtain ⟨⟨r1, r2, h3, h4, e1, m1, i1, hX⟩, hvi, hvm⟩ := h
  obtain ⟨a1, a2, a3, a4, a5, a6, a7⟩ := OnlyY_fields hA
  obtain ⟨b1, b2, b3, b4, b5, b6, b7⟩ := OnlyY_fields hB
  refine ⟨⟨by rw [a1, b1, r1], by rw [a2, b2, r2], by rw [a3, h3], by rw [b3, h4], by rw [a4, b4, e1],
    by rw [a5, b5, m1], by rw [a6, b6, i1], ?_⟩, ?_, ?_⟩
  · intro n hn
    rw [a4] at hn
    rw [a7, b7]
    exact hX n hn
  · rw [a6, a4]
    exact hvi
  · intro k i hk
    rw [a5] at hk
    rw [a4, a6]
    exact hvm k i hk

theorem VisAgree_keep {A B A' B' : FEdGraphParameterFormatter} (h : YKeep A B A' B') (hA : OnlyY A A')
    {V : List Nat} (hV : VisAgree A B V) : VisAgree A' B' V := by
  intro v hv
  refine ⟨?_, YKeep_mono h v (hV v hv).2⟩
  rw [(OnlyY_fields hA).2.2.2.1]
  exact (hV v hv).1

theorem VisAgree_Agr {A B : FEdGraphParameterFormatter} (hb : YBase A B) {V : List Nat}
    (hV : VisAgree A B V) (v : Nat) (hv : v ∈ V) : Agr A B v :=
  ⟨hb.1.2.2.2.2.2.2.2 v (hV v hv).1, (hV v hv).2⟩

theorem StraightenPin_target (G : FBAGraph) (A B : FEdGraphParameterFormatter) (p q : Nat)
    (h : B.NodePosY (G.OwningNode p) = A.NodePosY (G.OwningNode p)) :
    (StraightenPin G B p q).NodePosY (G.OwningNode q) = (StraightenPin G A p q).NodePosY (G.OwningNode q) := by
  simp only [StraightenPin, withPosY, setPos, if_true]
  rw [GetPinY_agree G p h]
  unfold GetPinY
  ring

theorem FormatYPlaceChild_target (G : FBAGraph) (A B : FEdGraphParameterFormatter) (p q : Nat)
    (hA : A.bFormatWithHelixing = false) (hB : B.bFormatWithHelixing = false)
    (h : B.NodePosY (G.OwningNode p) = A.NodePosY (G.OwningNode p)) :
    (FormatYPlaceChild G B p q).NodePosY (G.OwningNode q)
      = (FormatYPlaceChild G A p q).NodePosY (G.OwningNode q) := by
  unfold FormatYPlaceChild
  simp only [hA, hB, Bool.false_and, Bool.false_eq_true, if_false]
  exact StraightenPin_target G A B p q h

theorem FormatYChildIsSameRow_agree (G : FBAGraph) (FA FB : FEdGraphParameterFormatter)
    (V O : List Nat) (fp : Bool) (ll : Option Nat) (cb : List ChildBranch) (c : Nat) (pp : Option Nat)
    (p q : Nat) (h : XAgree FA FB) :
    FormatYChildIsSameRow G ⟨FB, V, O, fp, ll, cb⟩ c pp p q
      = FormatYChildIsSameRow G ⟨FA, V, O, fp, ll, cb⟩ c pp p q := by
  unfold FormatYChildIsSameRow
  dsimp only
  rw [h.1, h.2.2.1, h.2.2.2.1]
  simp only [Bool.false_and]

theorem FormatYChild_sim (G : FBAGraph) (r : Nat)
    (recurse : Nat → Option Nat → Option Nat → Bool →
      FEdGraphParameterFormatter × List Nat × List Nat → FEdGraphParameterFormatter × List Nat × List Nat)
    (hsim : RecSim G recurse) (hst : RecStruct G r recurse) (hY : RecOnlyY recurse)
    (c : Nat) (pp : Option Nat) (Children : List Nat) (d : EEdGraphPinDirection) (MyPin : Nat)
    (hown : G.OwningNode MyPin = c) (A0 B0 : FEdGraphParameterFormatter) (hbase0 : YBase A0 B0)
    (hCh : ∀ n ∈ Children, n ∈ A0.AllFormattedNodes)
    (a b : FormatYState) (OtherPin : Nat) (h : YSim G c A0 B0 a b) :
    YSim G c A0 B0 (FormatYChild G recurse c pp Children d MyPin a OtherPin)
      (FormatYChild G recurse c pp Children d MyPin b OtherPin) := by
  obtain ⟨FA, V', O', fp', ll', cb'⟩ := a
  obtain ⟨FB, V, O, fp, ll, cb⟩ := b
  obtain ⟨e1, e2, e3, e4, e5, hoA, hoB, hkeep, hvis, hc, hll, hbr⟩ := h
  dsimp only at e1 e2 e3 e4 e5 hoA hoB hkeep hvis hc hll hbr
  subst e1 e2 e3 e4 e5
  have hbase : YBase FA FB := YBase_OnlyY hbase0 hoA hoB
  have hallA : FA.AllFormattedNodes = A0.AllFormattedNodes := (OnlyY_fields hoA).2.2.2.1
  unfold FormatYChild
  dsimp only
  rw [FormatYChildIsSameRow_agree G FA FB _ _ _ _ _ c pp MyPin OtherPin hbase.1, hbase.1.2.1]
  split_ifs with hskip
  · exact ⟨rfl, rfl, rfl, rfl, rfl, hoA, hoB, hkeep, hvis, hc, hll, hbr⟩
  · have hON : G.OwningNode OtherPin ∈ Children := by
      simp only [Bool.or_eq_true, decide_eq_true_eq, not_or, Bool.not_eq_true', decide_eq_false_iff_not,
        not_not] at hskip
      exact hskip.1.2
    have hcy : FB.NodePosY (G.OwningNode MyPin) = FA.NodePosY (G.OwningNode MyPin) := by
      rw [hown]; exact (hvis c hc).2
    have k1 := FormatYPlaceChild_keep G FA FB MyPin OtherPin hbase.1.2.2.1 hbase.1.2.2.2.1 hcy
    have t1 := FormatYPlaceChild_target G FA FB MyPin OtherPin hbase.1.2.2.1 hbase.1.2.2.2.1 hcy
    have o1A := OnlyY_FormatYPlaceChild G FA MyPin OtherPin
    have o1B := OnlyY_FormatYPlaceChild G FB MyPin OtherPin
    have hbase1 := YBase_OnlyY hbase o1A o1B
    have hvis1 : VisAgree (FormatYPlaceChild G FA MyPin OtherPin) (FormatYPlaceChild G FB MyPin OtherPin) V :=
      VisAgree_keep k1 o1A hvis
    have hONall : G.OwningNode OtherPin ∈ (FormatYPlaceChild G FA MyPin OtherPin).AllFormattedNodes := by
      rw [(OnlyY_fields o1A).2.2.2.1, hallA]
      exact hCh _ hON
    have hs := hsim (G.OwningNode OtherPin) (some OtherPin) (some MyPin)
      (FormatYChildIsSameRow G ⟨FA, V, O, fp, ll, cb⟩ c pp MyPin OtherPin)
      (FormatYPlaceChild G FA MyPin OtherPin) (FormatYPlaceChild G FB MyPin OtherPin) V []
      hbase1 hvis1 hONall t1 (by intro p hp; cases hp; rfl)
    have hu := hst (G.OwningNode OtherPin) (some OtherPin) (some MyPin)
      (FormatYChildIsSameRow G ⟨FA, V, O, fp, ll, cb⟩ c pp MyPin OtherPin)
      (FormatYPlaceChild G FA MyPin OtherPin, V, [])
    have o2A := hY (G.OwningNode OtherPin) (some OtherPin) (some MyPin)
      (FormatYChildIsSameRow G ⟨FA, V, O, fp, ll, cb⟩ c pp MyPin OtherPin)
      (FormatYPlaceChild G FA MyPin OtherPin, V, [])
    have o2B := hY (G.OwningNode OtherPin) (some OtherPin) (some MyPin)
      (FormatYChildIsSameRow G ⟨FA, V, O, fp, ll, cb⟩ c pp MyPin OtherPin)
      (FormatYPlaceChild G FB MyPin OtherPin, V, [])
    generalize recurse (G.OwningNode OtherPin) (some OtherPin) (some MyPin)
      (FormatYChildIsSameRow G ⟨FA, V, O, fp, ll, cb⟩ c pp MyPin OtherPin)
      (FormatYPlaceChild G FA MyPin OtherPin, V, []) = resA at hs hu o2A ⊢
    generalize recurse (G.OwningNode OtherPin) (some OtherPin) (some MyPin)
      (FormatYChildIsSameRow G ⟨FA, V, O, fp, ll, cb⟩ c pp MyPin OtherPin)
      (FormatYPlaceChild G FB MyPin OtherPin, V, []) = resB at hs o2B ⊢
    obtain ⟨FA2, VA', OA'⟩ := resA
    obtain ⟨FB2, VA, OA⟩ := resB
    obtain ⟨heq, k2, hvis2⟩ := hs
    obtain ⟨p1, p2, _, _⟩ := hu
    dsimp only at heq k2 hvis2 p1 p2 o2A o2B
    simp only [Prod.mk.injEq] at heq
    obtain ⟨rfl, rfl⟩ := heq
    have hbase2 := YBase_OnlyY hbase1 o2A o2B
    have p2x : ∀ n ∈ OA, n ∈ VA := by
      intro n hn
      rcases p2 n hn with hx | hx
      · simp at hx
      · exact hx.1
    have k3 := FormatYAvoidPin_keep G FA2 FB2 d ll OA hbase2.1.2.2.1 hbase2.1.2.2.2.1
      (fun p hp => by rw [hll p hp]; exact (hvis2 c (p1 c hc)).2)
      (fun n hn => VisAgree_Agr hbase2 hvis2 n (p2x n hn))
    have o3A := OnlyY_FormatYAvoidPin G FA2 d ll OA
    have o3B := OnlyY_FormatYAvoidPin G FB2 d ll OA
    have k123 := YKeep_trans (YKeep_trans k1 k2) k3
    refine ⟨rfl, rfl, rfl, rfl, rfl, OnlyY_trans (OnlyY_trans (OnlyY_trans hoA o1A) o2A) o3A,
      OnlyY_trans (OnlyY_trans (OnlyY_trans hoB o1B) o2B) o3B, YKeep_trans hkeep k123,
      VisAgree_keep k3 o3A hvis2, p1 c hc, hll, ?_⟩
    intro br hbr0
    simp only [FormatYAfterChild, List.mem_append, List.mem_singleton] at hbr0 ⊢
    rcases hbr0 with hx | hx
    · obtain ⟨b1, b2, b3⟩ := hbr br hx
      exact ⟨b1, YKeep_mono k123 _ b2, fun n hn => p1 n (b3 n hn)⟩
    · rw [hx]
      exact ⟨hown, YKeep_mono (YKeep_trans k2 k3) _ t1, p2x⟩

theorem YSim_setLastLinked (G : FBAGraph) (c : Nat) (A0 B0 : FEdGraphParameterFormatter)
    (a b : FormatYState) (p : Nat) (hown : G.OwningNode p = c) (h : YSim G c A0 B0 a b) :
    YSim G c A0 B0 { a with LastLinked := some p } { b with LastLinked := some p } := by
  obtain ⟨e1, e2, e3, _, e5, hoA, hoB, hkeep, hvis, hc, _, hbr⟩ := h
  refine ⟨e1, e2, e3, rfl, e5, hoA, hoB, hkeep, hvis, hc, ?_, hbr⟩
  intro q hq
  cases hq
  exact hown

theorem FormatYPin_sim (G : FBAGraph) (r : Nat)
    (recurse : Nat → Option Nat → Option Nat → Bool →
      FEdGraphParameterFormatter × List Nat × List Nat → FEdGraphParameterFormatter × List Nat × List Nat)
    (hsim : RecSim G recurse) (hst : RecStruct G r recurse) (hY : RecOnlyY recurse)
    (c : Nat) (pp : Option Nat) (Children : List Nat) (d : EEdGraphPinDirection)
    (A0 B0 : FEdGraphParameterFormatter) (hbase0 : YBase A0 B0)
    (hCh : ∀ n ∈ Children, n ∈ A0.AllFormattedNodes)
    (a b : FormatYState) (MyPin : Nat) (hown : G.OwningNode MyPin = c) (h : YSim G c A0 B0 a b) :
    YSim G c A0 B0 (FormatYPin G recurse c pp Children d a MyPin)
      (FormatYPin G recurse c pp Children d b MyPin) := by
  unfold FormatYPin
  dsimp only
  have hfold := foldl_rel (YSim G c A0 B0)
    (FormatYChild G recurse c pp Children d MyPin) (FormatYChild G recurse c pp Children d MyPin)
    (G.pin MyPin).LinkedTo a b h
    (fun x y q _ hxy => FormatYChild_sim G r recurse hsim hst hY c pp Children d MyPin hown A0 B0 hbase0
      hCh x y q hxy)
  split_ifs
  · exact YSim_setLastLinked G c A0 B0 a b MyPin hown h
  · exact YSim_setLastLinked G c A0 B0 _ _ MyPin hown hfold
  · exact hfold

theorem FormatYDirection_sim (G : FBAGraph) (hwf : PinsOwned G) (r : Nat)
    (recurse : Nat → Option Nat → Option Nat → Bool →
      FEdGraphParameterFormatter × List Nat × List Nat → FEdGraphParameterFormatter × List Nat × List Nat)
    (hsim : RecSim G recurse) (hst : RecStruct G r recurse) (hY : RecOnlyY recurse)
    (c : Nat) (pp : Option Nat) (Children : List Nat) (d : EEdGraphPinDirection)
    (A0 B0 : FEdGraphParameterFormatter) (hbase0 : YBase A0 B0)
    (hCh : ∀ n ∈ Children, n ∈ A0.AllFormattedNodes)
    (a b : FormatYState) (h : YSim G c A0 B0 a b) :
    YSim G c A0 B0 (FormatYDirection G recurse c pp Children a d)
      (FormatYDirection G recurse c pp Children b d) := by
  have h0 : YSim G c A0 B0 { a with LastLinked := none, ChildBranches := [] }
      { b with LastLinked := none, ChildBranches := [] } := by
    obtain ⟨e1, e2, e3, _, _, hoA, hoB, hkeep, hvis, hc, _, _⟩ := h
    refine ⟨e1, e2, e3, rfl, rfl, hoA, hoB, hkeep, hvis, hc, ?_, ?_⟩
    · intro p hp
      cases hp
    · intro br hbr
      simp at hbr
  have hfold := foldl_rel (YSim G c A0 B0)
    (FormatYPin G recurse c pp Children d) (FormatYPin G recurse c pp Children d)
    (GetPinsByDirection G c d) _ _ h0
    (fun x y q hq hxy => FormatYPin_sim G r recurse hsim hst hY c pp Children d A0 B0 hbase0 hCh x y q
      (mem_GetPinsByDirection_owner G hwf c d q hq) hxy)
  unfold FormatYDirection
  dsimp only
  generalize (GetPinsByDirection G c d).foldl (FormatYPin G recurse c pp Children d)
    { a with LastLinked := none, ChildBranches := [] } = d1A at hfold ⊢
  generalize (GetPinsByDirection G c d).foldl (FormatYPin G recurse c pp Children d)
    { b with LastLinked := none, ChildBranches := [] } = d1B at hfold ⊢
  obtain ⟨FA, V', O', fp', ll', cb'⟩ := d1A
  obtain ⟨FB, V, O, fp, ll, cb⟩ := d1B
  obtain ⟨e1, e2, e3, e4, e5, hoA, hoB, hkeep, hvis, hc, hll, hbr⟩ := hfold
  dsimp only at e1 e2 e3 e4 e5 hoA hoB hkeep hvis hc hll hbr
  subst e1 e2 e3 e4 e5
  have hbase : YBase FA FB := YBase_OnlyY hbase0 hoA hoB
  have hbn : ∀ n ∈ cb.flatMap (fun b => b.BranchNodes), Agr FA FB n := by
    intro n hn
    simp only [List.mem_flatMap] at hn
    obtain ⟨br, hb1, hb2⟩ := hn
    exact VisAgree_Agr hbase hvis n ((hbr br hb1).2.2 n hb2)
  dsimp only
  rw [GetCachedNodeArrayBounds_agree G _ hbn, (VisAgree_Agr hbase hvis c hc).1]
  split_ifs
  · have k := CenterBranches_keep G FA FB c cb V
      (fun n hn => by
        rcases List.mem_append.1 hn with hx | hx
        · exact hbn n hx
        · rw [List.mem_singleton.1 hx]; exact VisAgree_Agr hbase hvis c hc)
      (fun v hv => VisAgree_Agr hbase hvis v hv)
      (fun br hb1 => ⟨(hbr br hb1).2.1, by rw [(hbr br hb1).1]; exact (hvis c hc).2⟩)
    have oA := OnlyY_CenterBranches G FA c cb V
    have oB := OnlyY_CenterBranches G FB c cb V
    exact ⟨rfl, rfl, rfl, rfl, rfl, OnlyY_trans hoA oA, OnlyY_trans hoB oB, YKeep_trans hkeep k,
      VisAgree_keep k oA hvis, hc, hll,
      fun br hb1 => ⟨(hbr br hb1).1, YKeep_mono k _ (hbr br hb1).2.1, (hbr br hb1).2.2⟩⟩
  · exact ⟨rfl, rfl, rfl, rfl, rfl, hoA, hoB, hkeep, hvis, hc, hll, hbr⟩

theorem Children_formatted (S : FEdGraphParameterFormatter)
    (hvi : ValidInfos S.Infos S.AllFormattedNodes) (hvm : ValidMap S) (c : Nat) :
    ∀ n ∈ (match mapFind S.NodeInfoMap c with
      | some i => GetChildNodes S.Infos i
      | none => []), n ∈ S.AllFormattedNodes := by
  intro n hn
  cases hm : mapFind S.NodeInfoMap c with
  | none => rw [hm] at hn; simp at hn
  | some i =>
    rw [hm] at hn
    simp only [GetChildNodes, List.mem_map] at hn
    obtain ⟨ch, hch, rfl⟩ := hn
    have hi := (hvm c i hm).2
    exact (hvi ch ((hvi i hi).2 ch hch)).1

theorem FormatYFinish_keep (G : FBAGraph) (A B : FEdGraphParameterFormatter) (bsr : Bool)
    (cp pp : Option Nat)
    (h : ∀ p, cp = some p → B.NodePosY (G.OwningNode p) = A.NodePosY (G.OwningNode p)) :
    YKeep A B (FormatYFinish G A bsr cp pp) (FormatYFinish G B bsr cp pp) := by
  unfold FormatYFinish
  split
  · rename_i cp0 pp0
    exact StraightenPin_keep G A B cp0 pp0 (h cp0 rfl)
  · exact YKeep_refl A B

theorem FormatYBody_sim (G : FBAGraph) (hwf : PinsOwned G) (r : Nat)
    (recurse : Nat → Option Nat → Option Nat → Bool →
      FEdGraphParameterFormatter × List Nat × List Nat → FEdGraphParameterFormatter × List Nat × List Nat)
    (hsim : RecSim G recurse) (hst : RecStruct G r recurse) (hY : RecOnlyY recurse) :
    RecSim G (FormatYBody G recurse) := by
  intro c cp pp bsr A B V O hbase hvis hcall hcy hcp
  unfold FormatYBody
  dsimp only
  split_ifs with hv
  · exact ⟨rfl, YKeep_refl A B, hvis⟩
  · rw [hbase.1.2.2.2.2.2.1, hbase.1.2.2.2.2.2.2.1]
    have hCh := Children_formatted A hbase.2.1 hbase.2.2 c
    have hAc : Agr A B c := ⟨hbase.1.2.2.2.2.2.2.2 c hcall, hcy⟩
    have k0 := FormatYCollision_keep G c V 100 A B hAc (fun v hv => VisAgree_Agr hbase hvis v hv)
    have o0A := OnlyY_FormatYCollision G c V 100 A
    have o0B := OnlyY_FormatYCollision G c V 100 B
    have h0 : YSim G c A B
        { F := FormatYCollision G c V 100 A, VisitedNodes := setAdd V c, OutChildren := O,
          bFirstPin := true, LastLinked := none, ChildBranches := [] }
        { F := FormatYCollision G c V 100 B, VisitedNodes := setAdd V c, OutChildren := O,
          bFirstPin := true, LastLinked := none, ChildBranches := [] } := by
      refine ⟨rfl, rfl, rfl, rfl, rfl, o0A, o0B, k0, ?_, (mem_setAdd _ _ _).2 (Or.inl rfl), ?_, ?_⟩
      · intro v hv
        rcases (mem_setAdd _ _ _).1 hv with hx | hx
        · rw [hx]
          exact ⟨by rw [(OnlyY_fields o0A).2.2.2.1]; exact hcall, YKeep_mono k0 c hcy⟩
        · exact VisAgree_keep k0 o0A hvis v hx
      · intro p hp
        cases hp
      · intro br hbr
        simp at hbr
    have hfold := foldl_rel (YSim G c A B)
      (FormatYDirection G recurse c pp (match mapFind A.NodeInfoMap c with
        | some i => GetChildNodes A.Infos i
        | none => []))
      (FormatYDirection G recurse c pp (match mapFind A.NodeInfoMap c with
        | some i => GetChildNodes A.Infos i
        | none => []))
      [EGPD_Input, EGPD_Output] _ _ h0
      (fun x y q _ hxy => FormatYDirection_sim G hwf r recurse hsim hst hY c pp _ q A B hbase hCh x y hxy)
    generalize [EGPD_Input, EGPD_Output].foldl (FormatYDirection G recurse c pp
      (match mapFind A.NodeInfoMap c with
        | some i => GetChildNodes A.Infos i
        | none => []))
      { F := FormatYCollision G c V 100 A, VisitedNodes := setAdd V c, OutChildren := O,
        bFirstPin := true, LastLinked := none, ChildBranches := [] } = eA at hfold ⊢
    generalize [EGPD_Input, EGPD_Output].foldl (FormatYDirection G recurse c pp
      (match mapFind A.NodeInfoMap c with
        | some i => GetChildNodes A.Infos i
        | none => []))
      { F := FormatYCollision G c V 100 B, VisitedNodes := setAdd V c, OutChildren := O,
        bFirstPin := true, LastLinked := none, ChildBranches := [] } = eB at hfold ⊢
    obtain ⟨e1, e2, _, _, _, hoA, hoB, hkeep, hvisE, hc, _, _⟩ := hfold
    have kf := FormatYFinish_keep G eA.F eB.F bsr cp pp
      (fun p hp => by rw [hcp p hp]; exact (hvisE c hc).2)
    refine ⟨?_, YKeep_trans hkeep kf, VisAgree_keep kf (OnlyY_FormatYFinish G eA.F bsr cp pp) hvisE⟩
    rw [e1, e2]

theorem FormatY_sim (G : FBAGraph) (hwf : PinsOwned G) : ∀ fuel : Nat, RecSim G (FormatY G fuel) := by
  intro fuel
  induction fuel with
  | zero =>
    intro c cp pp bsr A B V O _ hvis _ _ _
    exact ⟨rfl, YKeep_refl A B, hvis⟩
  | succ n ih => exact FormatYBody_sim G hwf 0 _ ih (FormatY_struct G hwf 0 n) (OnlyY_FormatY G n)

/-! ## Two slow-path runs in succession -/

theorem DoesHelixingApply_false (G : FBAGraph) (h : NoHelixingStyle G) (S : FEdGraphParameterFormatter) :
    DoesHelixingApply G S = false := by
  unfold DoesHelixingApply
  unfold NoHelixingStyle at h
  dsimp only
  rw [if_pos]
  simpa using h

theorem FormatNodeHorizontal_sim (G : FBAGraph) (hwf : PinsOwned G) (hs : NoHelixingStyle G)
    (A B : FEdGraphParameterFormatter) (r : Nat) (hrA : A.RootNode = some r) (hrB : B.RootNode = some r)
    (hig : B.IgnoredNodes = A.IgnoredNodes) (hx : B.NodePosX r = A.NodePosX r) :
    FSim A.NodePosX B.NodePosX (FormatNodeHorizontal G A) (FormatNodeHorizontal G B)
      ∧ (FormatNodeHorizontal G A).NodePosY = A.NodePosY
      ∧ (FormatNodeHorizontal G B).NodePosY = B.NodePosY
      ∧ (FormatNodeHorizontal G A).RootNode = some r
      ∧ (FormatNodeHorizontal G B).RootNode = some r := by
  have hA0 : (FormatNodeReset G A).bFormatWithHelixing = false := DoesHelixingApply_false G hs _
  have hB0 : (FormatNodeReset G B).bFormatWithHelixing = false := DoesHelixingApply_false G hs _
  have hstart : XStart (FormatNodeReset G A) (FormatNodeReset G B) := by
    refine ⟨?_, hig, hA0, hB0, ?_, ?_, r, hrA, ?_⟩
    · show B.RootNode = A.RootNode
      rw [hrA, hrB]
    · show [B.RootNode.getD 0] = [A.RootNode.getD 0]
      rw [hrA, hrB]
    · intro n hn
      have hn2 : n ∈ [A.RootNode.getD 0] := hn
      rw [hrA] at hn2
      simp only [Option.getD_some, List.mem_singleton] at hn2
      rw [hn2]
      exact hx
    · show r ∈ [A.RootNode.getD 0]
      rw [hrA]
      simp
  have s1 := FormatX_sim G hwf _ _ hstart
  have f1A := FormatX_FXRel G (FormatNodeReset G A)
  have f1B := FormatX_FXRel G (FormatNodeReset G B)
  obtain ⟨⟨r1, r2, h3, h4, e1, _, _, hX⟩, _, _, hfr1, hroot1⟩ := s1
  have hrA1 : (FormatX G (FormatNodeReset G A)).RootNode = some r :=
    (congrArg (fun x => x.1) f1A.1).trans hrA
  have hstart2 : XStart (FormatNodeRows G (FormatX G (FormatNodeReset G A)))
      (FormatNodeRows G (FormatX G (FormatNodeReset G B))) :=
    ⟨r1, r2, h3, h4, e1, hX, r, hrA1, hroot1 r hrA1⟩
  have s2 := FormatX_sim G hwf _ _ hstart2
  have f2A := FormatX_FXRel G (FormatNodeRows G (FormatX G (FormatNodeReset G A)))
  have f2B := FormatX_FXRel G (FormatNodeRows G (FormatX G (FormatNodeReset G B)))
  obtain ⟨hag, hvi, hvm, hfr2, hroot2⟩ := s2
  obtain ⟨l2, hl2⟩ := f2A.2.2.2.2
  refine ⟨⟨hag, hvi, hvm, ?_, hroot2⟩, ?_, ?_, ?_, ?_⟩
  · intro n hn
    have hn1 : n ∉ (FormatX G (FormatNodeReset G A)).AllFormattedNodes := by
      intro hx1
      apply hn
      show n ∈ (FormatX G (FormatNodeRows G (FormatX G (FormatNodeReset G A)))).AllFormattedNodes
      rw [hl2]
      exact (mem_setAppend _ _ _).2 (Or.inl hx1)
    have a := hfr2 n hn
    have b := hfr1 n hn1
    exact ⟨a.1.trans b.1, a.2.trans b.2⟩
  · exact f2A.2.2.1.trans f1A.2.2.1
  · exact f2B.2.2.1.trans f1B.2.2.1
  · exact (congrArg (fun x => x.1) f2A.1).trans hrA1
  · exact (congrArg (fun x => x.1) f2B.1).trans ((congrArg (fun x => x.1) f1B.1).trans hrB)

theorem FormatNodeShiftOutputs_id (G : FBAGraph) (S : FEdGraphParameterFormatter)
    (h : S.bFormatWithHelixing = false) : FormatNodeShiftOutputs G S = S := by
  unfold FormatNodeShiftOutputs
  simp [h]

theorem FormatNodeLayout_eq (G : FBAGraph) (hs : NoHelixingStyle G)
    (S : FEdGraphParameterFormatter) (r : Nat)
    (hexp : (G.Settings.bExpandParametersByHeight && IsNodePure G r) = false)
    (hr : S.RootNode = some r) :
    FormatNodeLayout G S
      = (FormatY G (G.Pins.length + 2) r none none false (FormatNodeHorizontal G S, [], [])).1 := by
  have hh : (FormatNodeHorizontal G S).bFormatWithHelixing = false := by
    have f1 := FormatX_FXRel G (FormatNodeReset G S)
    have f2 := FormatX_FXRel G (FormatNodeRows G (FormatX G (FormatNodeReset G S)))
    exact (f2.2.1.trans f1.2.1).trans (DoesHelixingApply_false G hs _)
  have hroot : (FormatNodeHorizontal G S).RootNode = some r := by
    have f1 := FormatX_FXRel G (FormatNodeReset G S)
    have f2 := FormatX_FXRel G (FormatNodeRows G (FormatX G (FormatNodeReset G S)))
    exact (congrArg (fun x => x.1) f2.1).trans ((congrArg (fun x => x.1) f1.1).trans hr)
  have h0 : FormatNodeLayout G S
      = FormatNodeVertical G (FormatNodeShiftOutputs G (FormatNodeHorizontal G S)) := rfl
  rw [h0, FormatNodeShiftOutputs_id G _ hh]
  unfold FormatNodeVertical
  simp only [hroot, Option.getD_some, hexp, Bool.false_eq_true, if_false]

theorem FormatNodeLayout_sim (G : FBAGraph) (hwf : PinsOwned G) (hs : NoHelixingStyle G)
    (A B : FEdGraphParameterFormatter) (r : Nat)
    (hexp : (G.Settings.bExpandParametersByHeight && IsNodePure G r) = false)
    (hrA : A.RootNode = some r) (hrB : B.RootNode = some r)
    (hig : B.IgnoredNodes = A.IgnoredNodes) (hx : B.NodePosX r = A.NodePosX r)
    (hy : B.NodePosY r = A.NodePosY r) :
    (FormatNodeLayout G B).AllFormattedNodes = (FormatNodeLayout G A).AllFormattedNodes
      ∧ r ∈ (FormatNodeLayout G A).AllFormattedNodes
      ∧ (∀ n ∈ (FormatNodeLayout G A).AllFormattedNodes,
          (FormatNodeLayout G B).NodePosX n = (FormatNodeLayout G A).NodePosX n)
      ∧ (∀ n, n ∉ (FormatNodeLayout G A).AllFormattedNodes →
          (FormatNodeLayout G A).NodePosX n = A.NodePosX n
            ∧ (FormatNodeLayout G B).NodePosX n = B.NodePosX n)
      ∧ (FormatNodeLayout G A).NodePosY r = A.NodePosY r
      ∧ (FormatNodeLayout G B).NodePosY r = B.NodePosY r
      ∧ ∀ n, (FormatNodeLayout G B).NodePosY n = (FormatNodeLayout G A).NodePosY n
          ∨ ((FormatNodeLayout G A).NodePosY n = A.NodePosY n
            ∧ (FormatNodeLayout G B).NodePosY n = B.NodePosY n) := by
  obtain ⟨⟨hag, hvi, hvm, hfr, hroot⟩, hyA, hyB, hrPA, hrPB⟩ :=
    FormatNodeHorizontal_sim G hwf hs A B r hrA hrB hig hx
  rw [FormatNodeLayout_eq G hs A r hexp hrA, FormatNodeLayout_eq G hs B r hexp hrB]
  have hbase : YBase (FormatNodeHorizontal G A) (FormatNodeHorizontal G B) := ⟨hag, hvi, hvm⟩
  have hrall := hroot r hrPA
  have hyr : (FormatNodeHorizontal G B).NodePosY r = (FormatNodeHorizontal G A).NodePosY r := by
    rw [hyA, hyB]; exact hy
  obtain ⟨_, hkeep, _⟩ := FormatY_sim G hwf (G.Pins.length + 2) r none none false
    (FormatNodeHorizontal G A) (FormatNodeHorizontal G B) [] [] hbase
    (fun v hv => by simp at hv) hrall hyr (fun p hp => by cases hp)
  have sA := (FormatY_struct G hwf r (G.Pins.length + 2) r none none false
    (FormatNodeHorizontal G A, [], [])).2.2.2 hrPA (Or.inr ⟨rfl, rfl⟩) (fun h => by cases h)
  have sB := (FormatY_struct G hwf r (G.Pins.length + 2) r none none false
    (FormatNodeHorizontal G B, [], [])).2.2.2 hrPB (Or.inr ⟨rfl, rfl⟩) (fun h => by cases h)
  have oA := OnlyY_fields (OnlyY_FormatY G (G.Pins.length + 2) r none none false
    (FormatNodeHorizontal G A, [], []))
  have oB := OnlyY_fields (OnlyY_FormatY G (G.Pins.length + 2) r none none false
    (FormatNodeHorizontal G B, [], []))
  dsimp only at sA sB oA oB
  obtain ⟨_, _, _, a4, _, _, a7⟩ := oA
  obtain ⟨_, _, _, b4, _, _, b7⟩ := oB
  refine ⟨?_, ?_, ?_, ?_, ?_, ?_, ?_⟩
  · rw [a4, b4]; exact hag.2.2.2.2.1
  · rw [a4]; exact hrall
  · intro n hn
    rw [a4] at hn
    rw [a7, b7]
    exact hag.2.2.2.2.2.2.2 n hn
  · intro n hn
    rw [a4] at hn
    rw [a7, b7]
    exact hfr n hn
  · rw [sA, hyA]
  · rw [sB, hyB]
  · intro n
    rcases hkeep n with h | h
    · exact Or.inl h
    · refine Or.inr ⟨?_, ?_⟩
      · rw [h.1, hyA]
      · rw [h.2, hyB]

/-- The slow path of `FormatNode` with the root as keep-still node is the
layout followed by the translation that puts the root back. -/
theorem FormatNode_slow (G : FBAGraph) (S : FEdGraphParameterFormatter) (r : Nat)
    (hr : S.RootNode = some r) (hk : S.NodeToKeepStill = some r)
    (hv : IsGraphNode G (some r) = true) (hl : (GetLinkedPins G r EGPD_MAX).length ≠ 0)
    (hi : S.bInitialized = false) :
    restOf (FormatNode G S) = restOf (FormatNodeLayout G S)
      ∧ ∀ n, (FormatNode G S).NodePosX n
            = (if n ∈ (FormatNodeLayout G S).AllFormattedNodes
                then (FormatNodeLayout G S).NodePosX n + (S.NodePosX r - (FormatNodeLayout G S).NodePosX r)
                else (FormatNodeLayout G S).NodePosX n)
          ∧ (FormatNode G S).NodePosY n
            = (if n ∈ (FormatNodeLayout G S).AllFormattedNodes
                then (FormatNodeLayout G S).NodePosY n + (S.NodePosY r - (FormatNodeLayout G S).NodePosY r)
                else (FormatNodeLayout G S).NodePosY n) := by
  obtain ⟨_, _, _, _, _, hnd, _⟩ := FormatNodeLayout_frame G S
  unfold FormatNode
  simp only [hr, hk, hv, hi, Option.getD_some, GetFormattedNodes, GetCachedNodeBounds]
  simp only [Bool.not_true, Bool.false_eq_true, if_false, beq_iff_eq, hl]
  split_ifs with hd
  · exact translate_fold _ _ _ (FormatNodeLayout G S) hnd
  · simp only [bne_iff_ne, ne_eq, Bool.or_eq_true, decide_eq_true_eq, not_or, not_not] at hd
    refine ⟨rfl, fun n => ?_⟩
    rw [hd.1, hd.2]
    simp

theorem FormatXLoop_queues_empty (G : FBAGraph) (d : EEdGraphPinDirection) :
    ∀ (fuel : Nat) (st st' : FormatXState), FormatXLoop G d fuel st = some st' →
      st'.InputQueue = [] ∧ st'.OutputQueue = [] := by
  intro fuel
  induction fuel with
  | zero =>
    intro st st' h
    simp only [FormatXLoop] at h
    split_ifs at h with he
    cases h
    simpa using he
  | succ n ih =>
    intro st st' h
    simp only [FormatXLoop] at h
    split_ifs at h with he
    · cases h
      simpa using he
    · exact ih _ _ h

/-- C9. `FormatX` terminates on every graph, cyclic or not: with room for one
dequeue more than the graph has directed pin links, each of the two passes
runs its loop until both queues are empty, and `FormatX` returns the
formatter of that final state. -/
theorem FormatX_terminates (G : FBAGraph) (S : FEdGraphParameterFormatter) :
    ∃ st, FormatXFuel G (numPinLinks G + 1) S = some st ∧ FormatX G S = st.F
      ∧ st.InputQueue = [] ∧ st.OutputQueue = [] := by
  obtain ⟨st, h⟩ := FormatXFuel_terminates G S
  refine ⟨st, h, by simp [FormatX, h], ?_⟩
  simp only [FormatXFuel, Option.bind_eq_some] at h
  obtain ⟨st1, _, h2⟩ := h
  exact FormatXLoop_queues_empty G EGPD_Input _ _ _ h2

/-! ## The cyclic parameter graph -/

/-- C8. On the cyclic parameter graph (A and B feed each other and the root)
the parent relation that `FormatX` leaves in `NodeInfoMap` has a cycle: the
parent of A is B and the parent of B is A. -/
theorem FormatX_parent_cycle :
    ParentOf (FormatX cyclicGraph (FEdGraphParameterFormatter.new (some 0) none [] exPosX exPosY)) 1 = some 2
      ∧ ParentOf (FormatX cyclicGraph (FEdGraphParameterFormatter.new (some 0) none [] exPosX exPosY)) 2
          = some 1 := by
  decide

/-- C10. On the cyclic parameter graph with an impure root neither A nor B
has the root as its parent after `FormatX` (each is the parent of the other),
and the root's record has no child. -/
theorem FormatX_cyclic_root_childless :
    ParentOf (FormatX cyclicGraphImpure
        (FEdGraphParameterFormatter.new (some 0) none [] exPosX exPosY)) 1 = some 2
      ∧ ParentOf (FormatX cyclicGraphImpure
          (FEdGraphParameterFormatter.new (some 0) none [] exPosX exPosY)) 2 = some 1
      ∧ (mapFind (FormatX cyclicGraphImpure
            (FEdGraphParameterFormatter.new (some 0) none [] exPosX exPosY)).NodeInfoMap 0).map
          (GetChildNodes (FormatX cyclicGraphImpure
            (FEdGraphParameterFormatter.new (some 0) none [] exPosX exPosY)).Infos) = some [] := by
  decide

/-! ## Anchor and root -/

/-- C1. A second slow-path run after a graph edit: the keep-still node K was
recorded in `FormattedOutputNodes` by the first run, is no longer linked, and
is shifted with the stale output nodes (from X = 7 to X = 67) without being
translated back, since it is not in the formatted set. -/
theorem FormatNode_stale_anchor_moves :
    (FormatNode staleGraphBefore
        (FEdGraphParameterFormatter.new (some 0) (some 1) [] exPosX exPosY)).bInitialized = false
      ∧ (FormatNode staleGraphBefore
          (FEdGraphParameterFormatter.new (some 0) (some 1) [] exPosX exPosY)).NodePosX 1 = 7
      ∧ (FormatNode staleGraphAfter (FormatNode staleGraphBefore
          (FEdGraphParameterFormatter.new (some 0) (some 1) [] exPosX exPosY))).NodePosX 1 = 67
      ∧ 1 ∉ GetFormattedNodes (FormatNode staleGraphAfter (FormatNode staleGraphBefore
          (FEdGraphParameterFormatter.new (some 0) (some 1) [] exPosX exPosY))) := by
  decide

theorem FormatNode_slow_frame (G : FBAGraph) (S : FEdGraphParameterFormatter) (r : Nat)
    (hr : S.RootNode = some r) (hv : IsGraphNode G (some r) = true)
    (hl : (GetLinkedPins G r EGPD_MAX).length ≠ 0) (hi : S.bInitialized = false) :
    (FormatNode G S).NodeOffsets = [] ∧ (FormatNode G S).NodeToKeepStill = S.NodeToKeepStill := by
  obtain ⟨_, f2, _, _, f5, hnd, _⟩ := FormatNodeLayout_frame G S
  unfold FormatNode
  simp only [hr, hv, hi, Option.getD_some, GetFormattedNodes]
  simp only [Bool.not_true, Bool.false_eq_true, if_false, beq_iff_eq, hl]
  split_ifs
  · obtain ⟨h1, _⟩ := translate_fold
      ((GetCachedNodeBounds G S (S.NodeToKeepStill.getD r)).Left
        - (GetCachedNodeBounds G (FormatNodeLayout G S) (S.NodeToKeepStill.getD r)).Left)
      ((GetCachedNodeBounds G S (S.NodeToKeepStill.getD r)).Top
        - (GetCachedNodeBounds G (FormatNodeLayout G S) (S.NodeToKeepStill.getD r)).Top)
      _ (FormatNodeLayout G S) hnd
    have hc := (restOf_fields h1).2
    simp only [cfgOf, Prod.mk.injEq] at hc
    exact ⟨hc.2.2.2.2.trans f5, hc.2.1.trans f2⟩
  · exact ⟨f5, f2⟩

/-- C5 as stated fails.  On the simple chain (root R at (500, 100), A at
(340, 120) after the run, cached offset (-160, 20)) the keep-still node R is
moved by (19999501, 19999901) to (20000001, 20000001), which binary32 holds
as 20000000: the replay puts A at (19999840, 20000020), one short of its
saved position shifted by the move. -/
theorem cache_replay_rounds :
    (FormatNode chainGraph (FEdGraphParameterFormatter.new (some 0) none [] exPosX exPosY)).NodePosX 1
        = 340
      ∧ (FormatNode chainGraph (FEdGraphParameterFormatter.new (some 0) none [] exPosX exPosY)).NodePosY 1
        = 120
      ∧ (SimpleRelativeFormatting (offsetNode 19999501 19999901 (SaveRelativePositions
          (FormatNode chainGraph (FEdGraphParameterFormatter.new (some 0) none [] exPosX exPosY)))
            0)).NodePosX 1 = 19999840
      ∧ (SimpleRelativeFormatting (offsetNode 19999501 19999901 (SaveRelativePositions
          (FormatNode chainGraph (FEdGraphParameterFormatter.new (some 0) none [] exPosX exPosY)))
            0)).NodePosY 1 = 20000020 := by
  decide

/-- C5 amended. After a full run followed by `SaveRelativePositions`, moving
only the keep-still node by `(dx, dy)` and applying
`SimpleRelativeFormatting` puts every other formatted node at its saved
position shifted by exactly `(dx, dy)`, whenever the coordinates of the moved
keep-still node, the cached offsets of the node and the shifted coordinates
of the node are of magnitude at most `2^24` (the whole numbers binary32 holds
exactly). -/
theorem cache_replay_shifts (G : FBAGraph) (S : FEdGraphParameterFormatter) (r k : Nat) (dx dy : Int)
    (hr : S.RootNode = some r) (hk : S.NodeToKeepStill = some k)
    (hv : IsGraphNode G (some r) = true) (hl : (GetLinkedPins G r EGPD_MAX).length ≠ 0)
    (hi : S.bInitialized = false) (n : Nat) (hn : n ∈ GetFormattedNodes (FormatNode G S)) (hnk : n ≠ k)
    (hkx : -16777216 ≤ (FormatNode G S).NodePosX k + dx ∧ (FormatNode G S).NodePosX k + dx ≤ 16777216)
    (hky : -16777216 ≤ (FormatNode G S).NodePosY k + dy ∧ (FormatNode G S).NodePosY k + dy ≤ 16777216)
    (hox : -16777216 ≤ (FormatNode G S).NodePosX n - (FormatNode G S).NodePosX k
      ∧ (FormatNode G S).NodePosX n - (FormatNode G S).NodePosX k ≤ 16777216)
    (hoy : -16777216 ≤ (FormatNode G S).NodePosY n - (FormatNode G S).NodePosY k
      ∧ (FormatNode G S).NodePosY n - (FormatNode G S).NodePosY k ≤ 16777216)
    (hnx : -16777216 ≤ (FormatNode G S).NodePosX n + dx ∧ (FormatNode G S).NodePosX n + dx ≤ 16777216)
    (hny : -16777216 ≤ (FormatNode G S).NodePosY n + dy ∧ (FormatNode G S).NodePosY n + dy ≤ 16777216) :
    (SimpleRelativeFormatting (offsetNode dx dy (SaveRelativePositions (FormatNode G S)) k)).NodePosX n
        = (FormatNode G S).NodePosX n + dx
      ∧ (SimpleRelativeFormatting (offsetNode dx dy (SaveRelativePositions (FormatNode G S)) k)).NodePosY n
        = (FormatNode G S).NodePosY n + dy := by
  obtain ⟨ho, hks⟩ := FormatNode_slow_frame G S r hr hv hl hi
  rw [hk] at hks
  obtain ⟨s1, s2, s3, _, s5, s6, s7, s8⟩ := saveOffset_fold k (FormatNode G S).NodePosX
    (FormatNode G S).NodePosY (GetFormattedNodes (FormatNode G S)) (FormatNode G S) rfl rfl
    (by simp [ho]) (by simp [ho]) (by simp [ho])
  have hsave : SaveRelativePositions (FormatNode G S)
      = (GetFormattedNodes (FormatNode G S)).foldl (saveOffset k) (FormatNode G S) := by
    simp [SaveRelativePositions, hks]
  rw [← hsave] at s1 s2 s3 s5 s6 s7 s8
  have hmem := s8 n (Or.inl ⟨hn, hnk⟩)
  obtain ⟨e, he, rfl⟩ := List.mem_map.1 hmem
  have hsrf : SimpleRelativeFormatting (offsetNode dx dy (SaveRelativePositions (FormatNode G S)) k)
      = (SaveRelativePositions (FormatNode G S)).NodeOffsets.foldl (applyOffset k)
          (offsetNode dx dy (SaveRelativePositions (FormatNode G S)) k) := by
    have : (offsetNode dx dy (SaveRelativePositions (FormatNode G S)) k).NodeToKeepStill = some k := by
      show (SaveRelativePositions (FormatNode G S)).NodeToKeepStill = some k
      rw [s3, hks]
    simp only [SimpleRelativeFormatting, this]
    rfl
  obtain ⟨_, _, a3⟩ := applyOffset_fold k (SaveRelativePositions (FormatNode G S)).NodeOffsets
    (offsetNode dx dy (SaveRelativePositions (FormatNode G S)) k) s6
  rw [hsrf, (a3 s5 e he).1, (a3 s5 e he).2, s7 e he]
  simp only [offsetNode, withPosX, withPosY, setPos, if_true, s1, s2]
  rw [ofInt32_exact _ hkx.1 hkx.2, ofInt32_exact _ hky.1 hky.2, ofInt32_exact _ hox.1 hox.2,
    ofInt32_exact _ hoy.1 hoy.2, fadd_whole _ _ (by omega) (by omega),
    fadd_whole _ _ (by omega) (by omega), toInt32_whole, toInt32_whole]
  constructor <;> ring

theorem cache_replay_shifts_witness :
    (SimpleRelativeFormatting (offsetNode 3 4 (SaveRelativePositions (FormatNode chainGraph
        (FEdGraphParameterFormatter.new (some 0) none [] exPosX exPosY))) 0)).NodePosX 1
        = (FormatNode chainGraph (FEdGraphParameterFormatter.new (some 0) none [] exPosX exPosY)).NodePosX 1
            + 3
      ∧ (SimpleRelativeFormatting (offsetNode 3 4 (SaveRelativePositions (FormatNode chainGraph
        (FEdGraphParameterFormatter.new (some 0) none [] exPosX exPosY))) 0)).NodePosY 1
        = (FormatNode chainGraph (FEdGraphParameterFormatter.new (some 0) none [] exPosX exPosY)).NodePosY 1
            + 4 :=
  cache_replay_shifts chainGraph _ 0 0 3 4 rfl rfl (by decide) (by decide) rfl 1 (by decide) (by decide)
    (by decide) (by decide) (by decide) (by decide) (by decide) (by decide)

/-- C6. The fast path: on an initialized formatter whose root has a linked
pin, `FormatNode` is `SimpleRelativeFormatting` and nothing else; every node
recorded in `NodeOffsets` ends at the keep-still position plus its cached
offset, the sum being the binary32 sum of the source truncated by the
assignment to the `int32` position (the exact sum when the keep-still
position, the offset and the sum are whole numbers of magnitude at most
`2^24`), and `NodeInfoMap`, `SameRowMapping`, `NodeOffsets`, the three
formatted-node sets and the position of every node not in `NodeOffsets` are
unchanged.  (`NodeOffsets` is a map, so its keys are distinct, and it never
holds the keep-still node.) -/
theorem FormatNode_fast_path (G : FBAGraph) (S : FEdGraphParameterFormatter) (r k : Nat)
    (hr : S.RootNode = some r) (hk : S.NodeToKeepStill = some k)
    (hv : IsGraphNode G (some r) = true) (hl : (GetLinkedPins G r EGPD_MAX).length ≠ 0)
    (hi : S.bInitialized = true)
    (hkeys : (S.NodeOffsets.map Prod.fst).Nodup) (hnk : k ∉ S.NodeOffsets.map Prod.fst) :
    FormatNode G S = SimpleRelativeFormatting S
      ∧ (∀ e ∈ S.NodeOffsets,
          (FormatNode G S).NodePosX e.1 = toInt32 (fadd (ofInt32 (S.NodePosX k)) e.2.1)
          ∧ (FormatNode G S).NodePosY e.1 = toInt32 (fadd (ofInt32 (S.NodePosY k)) e.2.2))
      ∧ (∀ e ∈ S.NodeOffsets, ∀ ox : Int, e.2.1 = ox * F32One →
          -16777216 ≤ S.NodePosX k → S.NodePosX k ≤ 16777216 →
          -16777216 ≤ S.NodePosX k + ox → S.NodePosX k + ox ≤ 16777216 →
          (FormatNode G S).NodePosX e.1 = S.NodePosX k + ox)
      ∧ (∀ e ∈ S.NodeOffsets, ∀ oy : Int, e.2.2 = oy * F32One →
          -16777216 ≤ S.NodePosY k → S.NodePosY k ≤ 16777216 →
          -16777216 ≤ S.NodePosY k + oy → S.NodePosY k + oy ≤ 16777216 →
          (FormatNode G S).NodePosY e.1 = S.NodePosY k + oy)
      ∧ (∀ n, n ∉ S.NodeOffsets.map Prod.fst →
          (FormatNode G S).NodePosX n = S.NodePosX n ∧ (FormatNode G S).NodePosY n = S.NodePosY n)
      ∧ (FormatNode G S).NodeInfoMap = S.NodeInfoMap ∧ (FormatNode G S).Infos = S.Infos
      ∧ (FormatNode G S).SameRowMapping = S.SameRowMapping
      ∧ (FormatNode G S).NodeOffsets = S.NodeOffsets
      ∧ (FormatNode G S).AllFormattedNodes = S.AllFormattedNodes
      ∧ (FormatNode G S).FormattedInputNodes = S.FormattedInputNodes
      ∧ (FormatNode G S).FormattedOutputNodes = S.FormattedOutputNodes := by
  have hF : FormatNode G S = SimpleRelativeFormatting S := by
    unfold FormatNode
    simp only [hr, hv, hi, Option.getD_some]
    simp [hl]
  have hS : SimpleRelativeFormatting S = S.NodeOffsets.foldl (applyOffset k) S := by
    simp [SimpleRelativeFormatting, hk]
  obtain ⟨a1, a2, a3⟩ := applyOffset_fold k S.NodeOffsets S hnk
  rw [hF, hS]
  refine ⟨rfl, a3 hkeys, ?_, ?_, a2, congrArg (fun x => x.NodeInfoMap) a1,
    congrArg (fun x => x.Infos) a1,
    congrArg (fun x => x.SameRowMapping) a1, congrArg (fun x => x.NodeOffsets) a1,
    congrArg (fun x => x.AllFormattedNodes) a1, congrArg (fun x => x.FormattedInputNodes) a1,
    congrArg (fun x => x.FormattedOutputNodes) a1⟩
  · intro e he ox hox h1 h2 h3 h4
    rw [(a3 hkeys e he).1, hox, ofInt32_exact _ h1 h2, fadd_whole _ _ h3 h4, toInt32_whole]
  · intro e he oy hoy h1 h2 h3 h4
    rw [(a3 hkeys e he).2, hoy, ofInt32_exact _ h1 h2, fadd_whole _ _ h3 h4, toInt32_whole]

theorem FormatNode_fast_path_witness :
    (FormatNode chainGraph chainCached).NodePosX 1 = 340
      ∧ (FormatNode chainGraph chainCached).NodePosY 1 = 120 := by
  obtain ⟨_, _, hx, hy, _⟩ := FormatNode_fast_path chainGraph chainCached 0 0 rfl rfl (by decide)
    (by decide) rfl (by decide) (by decide)
  exact ⟨hx (1, (-160) * F32One, 20 * F32One) (by decide) (-160) rfl (by decide) (by decide)
      (by decide) (by decide),
    hy (1, (-160) * F32One, 20 * F32One) (by decide) 20 rfl (by decide) (by decide)
      (by decide) (by decide)⟩

/-- On the simple chain with the keep-still node at (20000001, 20000001) the
fast path puts A at (19999840, 20000020): binary32 holds 20000001 as
20000000. -/
theorem FormatNode_fast_path_rounds :
    (FormatNode chainGraph (offsetNode 19999501 19999901 chainCached 0)).NodePosX 1 = 19999840
      ∧ (FormatNode chainGraph (offsetNode 19999501 19999901 chainCached 0)).NodePosY 1 = 20000020 := by
  decide
/-! ## C7: two runs of the slow path in succession -/

/-- With the height expansion running the second run can differ as well once
`FormattedOutputNodes` holds a node that the run does not format (the sets
are not reset between runs): on `expandGraph` the node K is left out of the
formatted set, is still expanded as a member of `FormattedOutputNodes`, and
moves from X = 360 to 302 in the first run and to 244 in the second. -/
theorem FormatNode_twice_differs_expanding :
    expandStale.NodePosX 1 = 360 ∧ expandStale.FormattedOutputNodes = [1]
      ∧ (FormatNode expandGraph expandStale).AllFormattedNodes = [0]
      ∧ (FormatNode expandGraph expandStale).NodePosX 1 = 302
      ∧ (FormatNode expandGraph (FormatNode expandGraph expandStale)).NodePosX 1 = 244 := by
  decide
/-! ## C20: what disqualifies helixing -/

theorem mem_foldl_setAdd {α : Type} (f : α → Nat) (l : List α) :
    ∀ (init : List Nat) (a : Nat),
      a ∈ l.foldl (fun acc p => setAdd acc (f p)) init ↔ a ∈ init ∨ ∃ p ∈ l, f p = a := by
  induction l with
  | nil => intro init a; simp
  | cons x xs ih =>
    intro init a
    simp only [List.foldl_cons, ih, mem_setAdd, List.mem_cons, exists_eq_or_imp]
    constructor
    · rintro ((h | h) | h)
      · exact Or.inr (Or.inl h.symm)
      · exact Or.inl h
      · exact Or.inr (Or.inr h)
    · rintro (h | h | h)
      · exact Or.inl (Or.inr h)
      · exact Or.inl (Or.inl h.symm)
      · exact Or.inr h

theorem mem_LinkedToNodesInput (G : FBAGraph) (S : FEdGraphParameterFormatter) (n a : Nat) :
    a ∈ LinkedToNodesInput G S n ↔ HelixInputLinked G S n a := by
  unfold LinkedToNodesInput HelixInputLinked
  simp only [mem_foldl_setAdd, List.not_mem_nil, false_or, List.mem_filter, Bool.and_eq_true,
    Bool.not_eq_true', decide_eq_false_iff_not]
  constructor
  · rintro ⟨q, ⟨⟨hq, hp, hi⟩, hpure⟩, rfl⟩
    exact ⟨q, hq, hp, hi, hpure, rfl⟩
  · rintro ⟨q, hq, hp, hi, hpure, rfl⟩
    exact ⟨q, ⟨⟨hq, hp, hi⟩, hpure⟩, rfl⟩

theorem mem_LinkedToNodesOutput (G : FBAGraph) (S : FEdGraphParameterFormatter) (Root n a : Nat) :
    a ∈ LinkedToNodesOutput G S Root n ↔ HelixOutputLinked G S Root n a := by
  unfold LinkedToNodesOutput HelixOutputLinked
  simp only [mem_foldl_setAdd, List.not_mem_nil, false_or, List.mem_filter, Bool.and_eq_true,
    Bool.not_eq_true', decide_eq_false_iff_not, Bool.or_eq_true, beq_iff_eq, decide_eq_true_eq]
  constructor
  · rintro ⟨q, ⟨⟨hq, hp, hi⟩, hpos⟩, rfl⟩
    exact ⟨q, hq, hp, hi, hpos, rfl⟩
  · rintro ⟨q, hq, hp, hi, hpos, rfl⟩
    exact ⟨q, ⟨⟨hq, hp, hi⟩, hpos⟩, rfl⟩

theorem length_gt_one_of_two {l : List Nat} {a b : Nat} (hab : a ≠ b) (ha : a ∈ l) (hb : b ∈ l) :
    1 < l.length := by
  match l, ha, hb with
  | [x], ha, hb =>
    simp only [List.mem_singleton] at ha hb
    exact absurd (ha.trans hb.symm) hab
  | _ :: _ :: _, _, _ => simp

theorem HelixEnqueue_fold (S : FEdGraphParameterFormatter) (L : List Nat) (a0 : HelixState) :
    (∀ v ∈ a0.VisitedNodes, v ∈ (L.foldl (HelixEnqueue S) a0).VisitedNodes)
      ∧ (∀ x ∈ a0.NodeQueue, x ∈ (L.foldl (HelixEnqueue S) a0).NodeQueue)
      ∧ (∀ v ∈ (L.foldl (HelixEnqueue S) a0).VisitedNodes,
          v ∈ a0.VisitedNodes ∨ v ∈ (L.foldl (HelixEnqueue S) a0).NodeQueue) := by
  refine foldl_inv (fun a => (∀ v ∈ a0.VisitedNodes, v ∈ a.VisitedNodes)
      ∧ (∀ x ∈ a0.NodeQueue, x ∈ a.NodeQueue)
      ∧ (∀ v ∈ a.VisitedNodes, v ∈ a0.VisitedNodes ∨ v ∈ a.NodeQueue)) (HelixEnqueue S) L a0
    ⟨fun _ h => h, fun _ h => h, fun _ h => Or.inl h⟩ ?_
  rintro a x ⟨h1, h2, h3⟩
  unfold HelixEnqueue
  split_ifs with hv hi
  · exact ⟨h1, h2, h3⟩
  · exact ⟨h1, h2, h3⟩
  · refine ⟨fun v hv0 => (mem_setAdd _ _ _).2 (Or.inr (h1 v hv0)),
      fun y hy => List.mem_append_left _ (h2 y hy), ?_⟩
    intro v hv1
    rcases (mem_setAdd _ _ _).1 hv1 with hx | hx
    · exact Or.inr (List.mem_append_right _ (by simp [hx]))
    · rcases h3 v hx with hy | hy
      · exact Or.inl hy
      · exact Or.inr (List.mem_append_left _ hy)

theorem HelixEnqueue_fold_mem (S : FEdGraphParameterFormatter) (L : List Nat) :
    ∀ a : HelixState, (∀ k ∈ L, k ∉ S.IgnoredNodes) →
      ∀ k ∈ L, k ∈ (L.foldl (HelixEnqueue S) a).VisitedNodes := by
  induction L with
  | nil => intro a _ k hk; simp at hk
  | cons x xs ih =>
    intro a hig k hk
    simp only [List.foldl_cons]
    rcases List.mem_cons.1 hk with hx | hx
    · apply (HelixEnqueue_fold S xs (HelixEnqueue S a x)).1
      rw [hx]
      unfold HelixEnqueue
      split_ifs with hv hi
      · exact hv
      · exact absurd hi (hig x (List.mem_cons_self _ _))
      · exact (mem_setAdd _ _ _).2 (Or.inl rfl)
    · exact ih _ (fun y hy => hig y (List.mem_cons_of_mem _ hy)) k hx

theorem DoesHelixingApplyLoop_inv (G : FBAGraph) (S : FEdGraphParameterFormatter) (Root : Nat) :
    ∀ (fuel : Nat) (st st' : HelixState), HelixInv G S Root st →
      DoesHelixingApplyLoop G S Root fuel st = some (some st') →
      HelixInv G S Root st' ∧ st'.NodeQueue = [] := by
  intro fuel
  induction fuel with
  | zero =>
    intro st st' hinv h
    simp only [DoesHelixingApplyLoop] at h
    split_ifs at h with hq
    simp only [Option.some.injEq] at h
    subst h
    exact ⟨hinv, List.isEmpty_iff.1 hq⟩
  | succ n ih =>
    intro st st' hinv h
    simp only [DoesHelixingApplyLoop] at h
    split at h
    · rename_i hq
      simp only [Option.some.injEq] at h
      subst h
      exact ⟨hinv, List.getLast?_eq_none_iff.1 hq⟩
    · rename_i x hq
      split_ifs at h with hd
      · simp at h
      simp only [gt_iff_lt, Bool.or_eq_true, decide_eq_true_eq, not_or, not_lt] at hd
      refine ih _ st' ?_ h
      have hQ : st.NodeQueue.dropLast ++ [x] = st.NodeQueue := List.dropLast_append_getLast? x hq
      obtain ⟨f1, f2, f3⟩ := HelixEnqueue_fold S (LinkedToNodesInput G S x)
        { VisitedNodes := st.VisitedNodes, NodeQueue := st.NodeQueue.dropLast,
          GatheredInputNodes := setAppend st.GatheredInputNodes (LinkedToNodesInput G S x) }
      have f4 := HelixEnqueue_fold_mem S (LinkedToNodesInput G S x)
        { VisitedNodes := st.VisitedNodes, NodeQueue := st.NodeQueue.dropLast,
          GatheredInputNodes := setAppend st.GatheredInputNodes (LinkedToNodesInput G S x) }
        (fun k hk => by
          obtain ⟨q, _, _, hi, _, rfl⟩ := (mem_LinkedToNodesInput G S x k).1 hk
          exact hi)
      refine ⟨f1 Root hinv.1, ?_⟩
      intro m hm
      rcases f3 m hm with hx | hx
      · rcases hinv.2 m hx with hy | hy
        · rw [← hQ] at hy
          rcases List.mem_append.1 hy with hz | hz
          · exact Or.inl (f2 m hz)
          · rw [List.mem_singleton.1 hz]
            exact Or.inr ⟨hd.1, hd.2, f4⟩
        · exact Or.inr ⟨hy.1, hy.2.1, fun k hk => f1 k (hy.2.2 k hk)⟩
      · exact Or.inl hx

theorem HelixReach_visited (G : FBAGraph) (S : FEdGraphParameterFormatter) (Root : Nat)
    (st : HelixState) (hinv : HelixInv G S Root st) (hq : st.NodeQueue = []) (n : Nat)
    (h : HelixReach G S Root n) : n ∈ st.VisitedNodes := by
  induction h with
  | root => exact hinv.1
  | step m k _ hk ih =>
    rcases hinv.2 m ih with hx | hx
    · rw [hq] at hx
      simp at hx
    · exact hx.2.2 k ((mem_LinkedToNodesInput G S m k).2 hk)

/-- C20 amended. `DoesHelixingApply` returns false whenever a node reached by
its traversal from the root has more than one distinct pure linked node on
its input side (owners of parameter pins, not ignored), or more than one
distinct linked node on its output side (owners of parameter pins, not
ignored) that is the root or lies at or left of the root's X. -/
theorem DoesHelixingApply_disqualified (G : FBAGraph) (S : FEdGraphParameterFormatter) (n : Nat)
    (hreach : HelixReach G S (S.RootNode.getD 0) n)
    (h : (∃ a b, a ≠ b ∧ HelixInputLinked G S n a ∧ HelixInputLinked G S n b)
      ∨ (∃ a b, a ≠ b ∧ HelixOutputLinked G S (S.RootNode.getD 0) n a
          ∧ HelixOutputLinked G S (S.RootNode.getD 0) n b)) :
    DoesHelixingApply G S = false := by
  unfold DoesHelixingApply
  dsimp only
  by_cases hs : ((match G.OverrideFormattingStyle with
      | some o => o
      | none => G.Settings.ParameterStyle) != EBAParameterFormattingStyle.Helixing) = true
  · rw [if_pos hs]
  · rw [if_neg hs]
    cases hloop : DoesHelixingApplyLoop G S (S.RootNode.getD 0) (G.Pins.length + 1)
        { VisitedNodes := [S.RootNode.getD 0], NodeQueue := [S.RootNode.getD 0],
          GatheredInputNodes := [] } with
    | none => rfl
    | some r =>
      cases r with
      | none => rfl
      | some st =>
        exfalso
        obtain ⟨hinv, hq⟩ := DoesHelixingApplyLoop_inv G S (S.RootNode.getD 0) _ _ st
          ⟨List.mem_singleton.2 rfl, fun m hm => Or.inl hm⟩ hloop
        have hv := HelixReach_visited G S _ st hinv hq n hreach
        rcases hinv.2 n hv with hx | hx
        · rw [hq] at hx
          simp at hx
        · rcases h with ⟨a, b, hab, ha, hb⟩ | ⟨a, b, hab, ha, hb⟩
          · have := length_gt_one_of_two hab ((mem_LinkedToNodesInput G S n a).2 ha)
              ((mem_LinkedToNodesInput G S n b).2 hb)
            omega
          · have := length_gt_one_of_two hab ((mem_LinkedToNodesOutput G S _ n a).2 ha)
              ((mem_LinkedToNodesOutput G S _ n b).2 hb)
            omega

theorem DoesHelixingApply_disqualified_witness :
    DoesHelixingApply flipGraph (FEdGraphParameterFormatter.new (some 0) none [] flipPosX flipPosY)
      = false :=
  DoesHelixingApply_disqualified flipGraph
    (FEdGraphParameterFormatter.new (some 0) none [] flipPosX flipPosY) 0 (HelixReach.root)
    (Or.inr ⟨2, 3, by decide, ⟨4, by decide, by decide, by decide, by decide, by decide⟩,
      ⟨5, by decide, by decide, by decide, by decide, by decide⟩⟩)

/-- C20 counterexample. On `impureFanGraph` (helixing style) the root has the
two distinct linked nodes 1 and 2 on its input side, through parameter pins
and not ignored, and `DoesHelixingApply` returns true: both nodes are impure
and only pure nodes are counted. -/
theorem DoesHelixingApply_impure_inputs :
    ((GetLinkedToPins impureFanGraph 0 EGPD_Input).filter (fun p => IsParameterPin impureFanGraph p
        && !decide (impureFanGraph.OwningNode p
          ∈ (FEdGraphParameterFormatter.new (some 0) none [] exPosX exPosY).IgnoredNodes))).map
        impureFanGraph.OwningNode = [1, 2]
      ∧ DoesHelixingApply impureFanGraph (FEdGraphParameterFormatter.new (some 0) none [] exPosX exPosY)
        = true := by
  decide

/-! ## Termination of the vertical placement -/

theorem OwningNode_mem_ownerNodes (G : FBAGraph) (p : Nat) : G.OwningNode p ∈ ownerNodes G := by
  unfold ownerNodes
  rw [List.mem_map]
  by_cases h : p < G.Pins.length
  · exact ⟨p, List.mem_range.mpr (by omega), rfl⟩
  · refine ⟨G.Pins.length, List.mem_range.mpr (by omega), ?_⟩
    unfold FBAGraph.OwningNode FBAGraph.pin
    rw [List.getD_eq_default _ _ (le_refl _), List.getD_eq_default _ _ (by omega)]

theorem unvisitedOwners_mono (G : FBAGraph) (V W : List Nat) (h : ∀ m ∈ V, m ∈ W) :
    unvisitedOwners G W ≤ unvisitedOwners G V := by
  unfold unvisitedOwners
  apply List.countP_mono_left
  intro x _ hx
  simp only [decide_eq_true_eq] at hx ⊢
  exact fun hv => hx (h x hv)

theorem unvisitedOwners_lt (G : FBAGraph) (V : List Nat) (n : Nat) (hn : n ∈ ownerNodes G) (hv : n ∉ V) :
    unvisitedOwners G (setAdd V n) < unvisitedOwners G V := by
  unfold unvisitedOwners
  apply countP_lt_of_imp _ _ n _ _ _ _ hn
  · intro x hx
    simp only [decide_eq_true_eq] at hx ⊢
    exact fun h => hx ((mem_setAdd V n x).mpr (Or.inr h))
  · simpa using hv
  · simp only [decide_eq_false_iff_not, not_not]
    exact (mem_setAdd V n n).mpr (Or.inl rfl)

theorem unvisitedOwners_le (G : FBAGraph) (V : List Nat) : unvisitedOwners G V ≤ G.Pins.length + 1 := by
  unfold unvisitedOwners
  refine le_trans (List.countP_le_length _) ?_
  simp [ownerNodes]

theorem foldl_congr_inv {α β : Type} (I : α → Prop) (f g : α → β → α) (l : List β)
    (hfg : ∀ a x, I a → f a x = g a x) (hI : ∀ a x, I a → I (f a x)) :
    ∀ a, I a → l.foldl f a = l.foldl g a ∧ I (l.foldl f a) := by
  induction l with
  | nil => intro a h; exact ⟨rfl, h⟩
  | cons x xs ih =>
    intro a h
    rw [List.foldl_cons, List.foldl_cons, ← hfg a x h]
    exact ih (f a x) (hI a x h)

theorem FormatYChild_mono (G : FBAGraph)
    (recurse : Nat → Option Nat → Option Nat → Bool →
      FEdGraphParameterFormatter × List Nat × List Nat → FEdGraphParameterFormatter × List Nat × List Nat)
    (hm : RecMono recurse) (c : Nat) (pp : Option Nat) (Ch : List Nat) (d : EEdGraphPinDirection)
    (p : Nat) (a : FormatYState) (q : Nat) :
    ∀ m ∈ a.VisitedNodes, m ∈ (FormatYChild G recurse c pp Ch d p a q).VisitedNodes := by
  intro m hmem
  unfold FormatYChild
  simp only []
  split_ifs with h
  · exact hmem
  · exact hm _ _ _ _ (_, a.VisitedNodes, []) m hmem

theorem FormatYChild_congr (G : FBAGraph) (V0 : List Nat)
    (rec1 rec2 : Nat → Option Nat → Option Nat → Bool →
      FEdGraphParameterFormatter × List Nat × List Nat → FEdGraphParameterFormatter × List Nat × List Nat)
    (hag : RecAgree G V0 rec1 rec2) (c : Nat) (pp : Option Nat) (Ch : List Nat)
    (d : EEdGraphPinDirection) (p : Nat) (a : FormatYState) (q : Nat)
    (ha : ∀ m ∈ V0, m ∈ a.VisitedNodes) :
    FormatYChild G rec1 c pp Ch d p a q = FormatYChild G rec2 c pp Ch d p a q := by
  unfold FormatYChild
  simp only []
  split_ifs with h
  · rfl
  · have hv : G.OwningNode q ∉ a.VisitedNodes := by
      intro hc
      apply h
      simp [hc]
    rw [hag (G.OwningNode q) (some q) (some p) _ _ a.VisitedNodes [] ha hv
      (OwningNode_mem_ownerNodes G q)]

theorem FormatYPin_congr (G : FBAGraph) (V0 : List Nat)
    (rec1 rec2 : Nat → Option Nat → Option Nat → Bool →
      FEdGraphParameterFormatter × List Nat × List Nat → FEdGraphParameterFormatter × List Nat × List Nat)
    (hag : RecAgree G V0 rec1 rec2) (hm : RecMono rec1) (c : Nat) (pp : Option Nat) (Ch : List Nat)
    (d : EEdGraphPinDirection) (a : FormatYState) (p : Nat)
    (ha : ∀ m ∈ V0, m ∈ a.VisitedNodes) :
    FormatYPin G rec1 c pp Ch d a p = FormatYPin G rec2 c pp Ch d a p
      ∧ ∀ m ∈ a.VisitedNodes, m ∈ (FormatYPin G rec1 c pp Ch d a p).VisitedNodes := by
  have key := foldl_congr_inv (fun s : FormatYState => ∀ m ∈ a.VisitedNodes, m ∈ s.VisitedNodes)
    (FormatYChild G rec1 c pp Ch d p) (FormatYChild G rec2 c pp Ch d p) (G.pin p).LinkedTo
    (fun s q hs => FormatYChild_congr G V0 rec1 rec2 hag c pp Ch d p s q (fun m h0 => hs m (ha m h0)))
    (fun s q hs m h0 => FormatYChild_mono G rec1 hm c pp Ch d p s q m (hs m h0))
    a (fun m h0 => h0)
  unfold FormatYPin
  simp only []
  split_ifs with h1 h2
  · exact ⟨rfl, fun m h0 => h0⟩
  · rw [key.1]; exact ⟨rfl, by rw [← key.1]; exact key.2⟩
  · rw [key.1]; exact ⟨rfl, by rw [← key.1]; exact key.2⟩

theorem FormatYDirection_congr (G : FBAGraph) (V0 : List Nat)
    (rec1 rec2 : Nat → Option Nat → Option Nat → Bool →
      FEdGraphParameterFormatter × List Nat × List Nat → FEdGraphParameterFormatter × List Nat × List Nat)
    (hag : RecAgree G V0 rec1 rec2) (hm : RecMono rec1) (c : Nat) (pp : Option Nat) (Ch : List Nat)
    (a : FormatYState) (d : EEdGraphPinDirection)
    (ha : ∀ m ∈ V0, m ∈ a.VisitedNodes) :
    FormatYDirection G rec1 c pp Ch a d = FormatYDirection G rec2 c pp Ch a d
      ∧ ∀ m ∈ a.VisitedNodes, m ∈ (FormatYDirection G rec1 c pp Ch a d).VisitedNodes := by
  have key := foldl_congr_inv (fun s : FormatYState => ∀ m ∈ a.VisitedNodes, m ∈ s.VisitedNodes)
    (FormatYPin G rec1 c pp Ch d) (FormatYPin G rec2 c pp Ch d) (GetPinsByDirection G c d)
    (fun s p hs => (FormatYPin_congr G V0 rec1 rec2 hag hm c pp Ch d s p
      (fun m h0 => hs m (ha m h0))).1)
    (fun s p hs m h0 => (FormatYPin_congr G V0 rec1 rec2 hag hm c pp Ch d s p
      (fun m h1 => hs m (ha m h1))).2 m (hs m h0))
    { a with LastLinked := none, ChildBranches := [] } (fun m h0 => h0)
  unfold FormatYDirection
  simp only []
  rw [← key.1]
  refine ⟨rfl, ?_⟩
  split_ifs with h
  · exact key.2
  · exact key.2

theorem FormatYBody_congr (G : FBAGraph)
    (rec1 rec2 : Nat → Option Nat → Option Nat → Bool →
      FEdGraphParameterFormatter × List Nat × List Nat → FEdGraphParameterFormatter × List Nat × List Nat)
    (hm : RecMono rec1) (c : Nat) (cp pp : Option Nat) (b : Bool)
    (acc : FEdGraphParameterFormatter × List Nat × List Nat)
    (hag : RecAgree G (setAdd acc.2.1 c) rec1 rec2) :
    FormatYBody G rec1 c cp pp b acc = FormatYBody G rec2 c cp pp b acc
      ∧ (∀ m ∈ acc.2.1, m ∈ (FormatYBody G rec1 c cp pp b acc).2.1)
      ∧ c ∈ (FormatYBody G rec1 c cp pp b acc).2.1 := by
  unfold FormatYBody
  simp only []
  split_ifs with h
  · exact ⟨rfl, fun m h0 => h0, h⟩
  · have key := foldl_congr_inv
      (fun s : FormatYState => ∀ m ∈ setAdd acc.2.1 c, m ∈ s.VisitedNodes)
      (FormatYDirection G rec1 c pp (match mapFind acc.1.NodeInfoMap c with
        | some i => GetChildNodes acc.1.Infos i
        | none => []))
      (FormatYDirection G rec2 c pp (match mapFind acc.1.NodeInfoMap c with
        | some i => GetChildNodes acc.1.Infos i
        | none => []))
      [EGPD_Input, EGPD_Output]
      (fun s d hs => (FormatYDirection_congr G _ rec1 rec2 hag hm c pp _ s d hs).1)
      (fun s d hs m h0 => (FormatYDirection_congr G _ rec1 rec2 hag hm c pp _ s d hs).2 m (hs m h0))
      { F := FormatYCollision G c acc.2.1 100 acc.1, VisitedNodes := setAdd acc.2.1 c,
        OutChildren := acc.2.2, bFirstPin := true, LastLinked := none, ChildBranches := [] }
      (fun m h0 => h0)
    rw [← key.1]
    exact ⟨rfl, fun m h0 => key.2 m ((mem_setAdd _ _ _).mpr (Or.inr h0)),
      key.2 c ((mem_setAdd _ _ _).mpr (Or.inl rfl))⟩

theorem RecMono_FormatY (G : FBAGraph) : ∀ fuel : Nat, RecMono (FormatY G fuel) := by
  intro fuel
  induction fuel with
  | zero => intro c cp pp b acc n h; exact h
  | succ k ih =>
    intro c cp pp b acc
    exact (FormatYBody_congr G (FormatY G k) (FormatY G k) ih c cp pp b acc
      (fun _ _ _ _ _ _ _ _ _ _ => rfl)).2.1

/-- The result of `FormatY` does not depend on the bound on the depth once
the bound exceeds the number of unvisited pin owners. -/
theorem FormatY_fuel_stable (G : FBAGraph) :
    ∀ (f1 f2 c : Nat) (cp pp : Option Nat) (b : Bool) (F : FEdGraphParameterFormatter)
      (V O : List Nat),
      unvisitedOwners G (setAdd V c) < f1 → unvisitedOwners G (setAdd V c) < f2 →
      FormatY G f1 c cp pp b (F, V, O) = FormatY G f2 c cp pp b (F, V, O) := by
  intro f1
  induction f1 with
  | zero => intro f2 c cp pp b F V O h; omega
  | succ k ih =>
    intro f2 c cp pp b F V O h1 h2
    cases f2 with
    | zero => omega
    | succ j =>
      show FormatYBody G (FormatY G k) c cp pp b (F, V, O) = FormatYBody G (FormatY G j) c cp pp b (F, V, O)
      refine (FormatYBody_congr G (FormatY G k) (FormatY G j) (RecMono_FormatY G k) c cp pp b (F, V, O)
        ?_).1
      intro n cp1 pp1 b1 F1 V1 O1 hsub hn hown
      have hlt := unvisitedOwners_lt G V1 n hown hn
      have hle := unvisitedOwners_mono G (setAdd V c) V1 hsub
      exact ih j n cp1 pp1 b1 F1 V1 O1 (by omega) (by omega)

theorem FormatYCollision_succ (G : FBAGraph) (c : Nat) (V : List Nat) :
    ∀ (n : Nat) (S : FEdGraphParameterFormatter),
      FormatYCollision G c V (n + 1) S = FormatYCollision G c V n (FormatYCollision G c V 1 S) := by
  intro n S
  cases hf : V.find? (fun v => v != c &&
        DoRectanglesIntersect ((GetCachedNodeBounds G S c).ExtendBy 0 0 0 G.Settings.PaddingY)
          ((GetCachedNodeBounds G S v).ExtendBy 0 0 0 G.Settings.PaddingY)) with
  | none =>
    have h1 : ∀ k, FormatYCollision G c V (k + 1) S = S := by
      intro k; simp only [FormatYCollision, hf]
    rw [h1 n, h1 0]
    cases n with
    | zero => rfl
    | succ k => exact (h1 k).symm
  | some v =>
    simp only [FormatYCollision, hf]

theorem FormatYCollision_iterate (G : FBAGraph) (c : Nat) (V : List Nat) :
    ∀ (n : Nat) (S : FEdGraphParameterFormatter),
      FormatYCollision G c V n S = (FormatYCollision G c V 1)^[n] S := by
  intro n
  induction n with
  | zero => intro S; rfl
  | succ k ih =>
    intro S
    rw [FormatYCollision_succ, Function.iterate_succ_apply, ih]

theorem FormatYCollision_round (G : FBAGraph) (c : Nat) (V : List Nat) (S : FEdGraphParameterFormatter) :
    FormatYCollision G c V 1 S = S ∨ S.NodePosY c < (FormatYCollision G c V 1 S).NodePosY c := by
  cases hf : V.find? (fun v => v != c &&
        DoRectanglesIntersect ((GetCachedNodeBounds G S c).ExtendBy 0 0 0 G.Settings.PaddingY)
          ((GetCachedNodeBounds G S v).ExtendBy 0 0 0 G.Settings.PaddingY)) with
  | none => left; simp only [FormatYCollision, hf]
  | some v =>
    right
    have hp := List.find?_some hf
    simp only [Bool.and_eq_true, bne_iff_ne, ne_eq] at hp
    obtain ⟨_, hint⟩ := hp
    simp only [DoRectanglesIntersect, FSlateRect.ExtendBy, GetCachedNodeBounds, Bool.not_eq_true',
      Bool.or_eq_false_iff, decide_eq_false_iff_not, not_lt, sub_zero, add_zero] at hint
    have hstep : FormatYCollision G c V 1 S
        = withPosY S c (S.NodePosY c + (((GetCachedNodeBounds G S v).ExtendBy 0 0 0
            G.Settings.PaddingY).Bottom - (GetCachedNodeBounds G S c).Top + 1)) := by
      simp only [FormatYCollision, hf]
    rw [hstep]
    simp only [FSlateRect.ExtendBy, GetCachedNodeBounds, withPosY, setPos, if_true]
    omega

/-- C17 failing input. In the run on `pileGraph` from `zeroPos`, `FormatY`
calls `CenterBranches` for N (node 2) with the branches of P and Q and the
visited set of all five nodes.  The call leaves the nodes where the whole
layout leaves them, the visited node M (node 1) is not in the centered group
P, Q, N, and after the call the aggregate bounds of the group still intersect
the vertically padded bounds of M under `DoRectanglesIntersect`: the group
was moved to the padded bottom of M exactly (top 85, padded bottom 85). -/
theorem CenterBranches_group_still_intersects :
    (∀ n < 5,
        (CenterBranches pileGraph (FEdGraphParameterFormatter.new (some 0) none [] pilePreX pilePreY) 2
            [mkBranch 6 4 [3], mkBranch 7 5 [4]] [0, 1, 2, 3, 4]).NodePosX n
          = (FormatNodeLayout pileGraph
              (FEdGraphParameterFormatter.new (some 0) none [] zeroPos zeroPos)).NodePosX n
        ∧ (CenterBranches pileGraph (FEdGraphParameterFormatter.new (some 0) none [] pilePreX pilePreY) 2
            [mkBranch 6 4 [3], mkBranch 7 5 [4]] [0, 1, 2, 3, 4]).NodePosY n
          = (FormatNodeLayout pileGraph
              (FEdGraphParameterFormatter.new (some 0) none [] zeroPos zeroPos)).NodePosY n)
      ∧ 1 ∈ [0, 1, 2, 3, 4] ∧ 1 ∉ [3, 4, 2]
      ∧ DoRectanglesIntersect
          ((GetCachedNodeBounds pileGraph
            (CenterBranches pileGraph (FEdGraphParameterFormatter.new (some 0) none [] pilePreX pilePreY) 2
              [mkBranch 6 4 [3], mkBranch 7 5 [4]] [0, 1, 2, 3, 4]) 1).ExtendBy 0
            pileGraph.Settings.PaddingY 0 pileGraph.Settings.PaddingY)
          (GetCachedNodeArrayBounds pileGraph
            (CenterBranches pileGraph (FEdGraphParameterFormatter.new (some 0) none [] pilePreX pilePreY) 2
              [mkBranch 6 4 [3], mkBranch 7 5 [4]] [0, 1, 2, 3, 4]) [3, 4, 2]) = true
      ∧ DoRectanglesIntersect
          ((GetCachedNodeBounds pileGraph
            (FormatNode pileGraph (FEdGraphParameterFormatter.new (some 0) none [] zeroPos zeroPos))
            1).ExtendBy 0 pileGraph.Settings.PaddingY 0 pileGraph.Settings.PaddingY)
          (GetCachedNodeArrayBounds pileGraph
            (FormatNode pileGraph (FEdGraphParameterFormatter.new (some 0) none [] zeroPos zeroPos))
            [3, 4, 2]) = true := by
  decide

/-! ## The layout after the run: an overlap -/

set_option maxRecDepth 8000

/-- C11 counterexample. After the full run on `dragGraph` from `exPosX`,
`exPosY` the formatted nodes R (node 0) and U (node 2) overlap: R covers
[500,800]x[100,180] and U covers [700,800]x[146,226], so their bounds padded
below intersect.  The only collision shift of the run is the one of W below R
(from 40 to 206); the parent U of W is then aligned on W and lands on R. -/
theorem FormatNode_overlap_after_run :
    (FormatNode dragGraph (FEdGraphParameterFormatter.new (some 0) none [] exPosX exPosY)).AllFormattedNodes
        = [0, 1, 2, 3]
      ∧ (List.range 4).map (fun n =>
          ((FormatNode dragGraph (FEdGraphParameterFormatter.new (some 0) none [] exPosX exPosY)).NodePosX n,
           (FormatNode dragGraph (FEdGraphParameterFormatter.new (some 0) none [] exPosX exPosY)).NodePosY n))
        = [(500, 100), (840, 0), (700, 146), (560, 206)]
      ∧ (FormatYCollision dragGraph 3 [0, 1, 2] 1
          (FEdGraphParameterFormatter.new (some 0) none [] dragPreX dragPreY)).NodePosY 3 = 206
      ∧ (FormatYCollision dragGraph 3 [0, 1, 2] 2
          (FEdGraphParameterFormatter.new (some 0) none [] dragPreX dragPreY)).NodePosY 3 = 206
      ∧ DoRectanglesIntersect
          ((GetCachedNodeBounds dragGraph
            (FormatNode dragGraph (FEdGraphParameterFormatter.new (some 0) none [] exPosX exPosY))
            0).ExtendBy 0 0 0 dragGraph.Settings.PaddingY)
          ((GetCachedNodeBounds dragGraph
            (FormatNode dragGraph (FEdGraphParameterFormatter.new (some 0) none [] exPosX exPosY))
            2).ExtendBy 0 0 0 dragGraph.Settings.PaddingY) = true
      ∧ DoRectanglesIntersect
          ((GetCachedNodeBounds dragGraph
            (FormatNode dragGraph (FEdGraphParameterFormatter.new (some 0) none [] exPosX exPosY))
            0).ExtendBy (-1) (-1) (-1) (-1))
          ((GetCachedNodeBounds dragGraph
            (FormatNode dragGraph (FEdGraphParameterFormatter.new (some 0) none [] exPosX exPosY))
            2).ExtendBy (-1) (-1) (-1) (-1)) = true := by
  decide

/-! ## The alignment of a pin on another -/

theorem StraightenPin_aligned (G : FBAGraph) (S : FEdGraphParameterFormatter) (cp pp : Nat)
    (hown : G.OwningNode pp ≠ G.OwningNode cp) :
    GetPinY G (StraightenPin G S cp pp) pp = GetPinY G (StraightenPin G S cp pp) cp := by
  simp only [GetPinY, StraightenPin, withPosY, setPos, if_true, if_neg (Ne.symm hown)]
  omega

/-! ## The height limits of helixing -/

theorem LinkedToNodesInput_congr (G G' : FBAGraph) (S : FEdGraphParameterFormatter)
    (hP : G'.Pins = G.Pins) (hN : ∀ n, (G'.node n).Pins = (G.node n).Pins) (n : Nat) :
    LinkedToNodesInput G' S n = LinkedToNodesInput G S n := by
  have hE : IsExecPin G' = IsExecPin G := by
    funext p
    simp only [IsExecPin, FBAGraph.pin, hP]
  simp only [LinkedToNodesInput, hE, GetLinkedToPins, GetLinkedPins, GetPinsByDirection, IsParameterPin,
    IsNodePure, IsNodeImpure, IsExecPin, FBAGraph.OwningNode, FBAGraph.pin, hP, hN]

theorem LinkedToNodesOutput_congr (G G' : FBAGraph) (S : FEdGraphParameterFormatter)
    (hP : G'.Pins = G.Pins) (hN : ∀ n, (G'.node n).Pins = (G.node n).Pins) (r n : Nat) :
    LinkedToNodesOutput G' S r n = LinkedToNodesOutput G S r n := by
  simp only [LinkedToNodesOutput, GetLinkedToPins, GetLinkedPins, GetPinsByDirection, IsParameterPin,
    FBAGraph.OwningNode, FBAGraph.pin, hP, hN]

theorem DoesHelixingApplyLoop_congr (G G' : FBAGraph) (S : FEdGraphParameterFormatter)
    (hP : G'.Pins = G.Pins) (hN : ∀ n, (G'.node n).Pins = (G.node n).Pins) (r : Nat) :
    ∀ (fuel : Nat) (st : HelixState),
      DoesHelixingApplyLoop G' S r fuel st = DoesHelixingApplyLoop G S r fuel st := by
  intro fuel
  induction fuel with
  | zero => intro st; rfl
  | succ k ih =>
    intro st
    simp only [DoesHelixingApplyLoop, LinkedToNodesInput_congr G G' S hP hN,
      LinkedToNodesOutput_congr G G' S hP hN, ih]

/-- C27 fails on a formatter that is used for a second run: the first run on
`staleGraphBefore` formats K (node 1) and records it in
`FormattedOutputNodes`; in the second run, on `staleGraphAfter`, K is not
linked any more and is not in the final `AllFormattedNodes`, and it is moved
from X = 360 to X = 420 with the nodes of `FormattedOutputNodes`. -/
theorem FormatNode_moves_unformatted_node :
    (FormatNode staleGraphBefore
        (FEdGraphParameterFormatter.new (some 0) none [] exPosX exPosY)).bInitialized = false
      ∧ (FormatNode staleGraphBefore
          (FEdGraphParameterFormatter.new (some 0) none [] exPosX exPosY)).NodePosX 1 = 360
      ∧ (FormatNode staleGraphAfter (FormatNode staleGraphBefore
          (FEdGraphParameterFormatter.new (some 0) none [] exPosX exPosY))).NodePosX 1 = 420
      ∧ (FormatNode staleGraphAfter (FormatNode staleGraphBefore
          (FEdGraphParameterFormatter.new (some 0) none [] exPosX exPosY))).AllFormattedNodes = [0, 2]
      ∧ GetLinkedPins staleGraphAfter 1 EGPD_MAX = [] := by
  decide

/-- C28 fails for `FormattedOutputNodes`: the first run on `expandGraphBefore`
records K (node 1) there; the second run, on `expandGraph`, where the filter
leaves K out, rebuilds `AllFormattedNodes`, `NodeInfoMap` and `SameRowMapping`
without K and still ends with K in `FormattedOutputNodes`, whereas the same
run on a formatter that has not run before ends with the set empty. -/
theorem FormatNode_keeps_stale_output_node :
    (FormatNode expandGraphBefore
        (FEdGraphParameterFormatter.new (some 0) none [] exPosX exPosY)).bInitialized = false
      ∧ (FormatNode expandGraphBefore
          (FEdGraphParameterFormatter.new (some 0) none [] exPosX exPosY)).FormattedOutputNodes = [1]
      ∧ (FormatNode expandGraph (FormatNode expandGraphBefore
          (FEdGraphParameterFormatter.new (some 0) none [] exPosX exPosY))).AllFormattedNodes = [0]
      ∧ (FormatNode expandGraph (FormatNode expandGraphBefore
          (FEdGraphParameterFormatter.new (some 0) none [] exPosX exPosY))).NodeInfoMap = [(0, 0)]
      ∧ (FormatNode expandGraph (FormatNode expandGraphBefore
          (FEdGraphParameterFormatter.new (some 0) none [] exPosX exPosY))).SameRowMapping.length = 0
      ∧ (FormatNode expandGraph (FormatNode expandGraphBefore
          (FEdGraphParameterFormatter.new (some 0) none [] exPosX exPosY))).FormattedOutputNodes = [1]
      ∧ (FormatNode expandGraph
          (FEdGraphParameterFormatter.new (some 0) none [] exPosX exPosY)).FormattedOutputNodes = [] := by
  decide

/-! ## The re-parenting rule of `FormatX` -/

theorem node_SizeX_nonneg (G : FBAGraph) (h : ∀ N ∈ G.Nodes, 0 ≤ N.SizeX) (n : Nat) :
    0 ≤ (G.node n).SizeX := by
  unfold FBAGraph.node
  rw [List.getD_eq_getElem?_getD]
  by_cases hn : n < G.Nodes.length
  · rw [List.getElem?_eq_getElem hn]
    exact h _ (List.getElem_mem hn)
  · rw [List.getElem?_eq_none (by omega)]
    exact le_refl _

theorem ChildrenFollow_get (Infos : List FNodeInfo) (d : EEdGraphPinDirection)
    (h : ChildrenFollow Infos d) (i c : Nat) (hd : (getInfo Infos i).Direction = d)
    (hc : c ∈ (getInfo Infos i).Children) : (getInfo Infos c).Direction = d := by
  by_cases hi : i < Infos.length
  · have hm : getInfo Infos i ∈ Infos := by
      unfold getInfo
      rw [List.getD_eq_getElem?_getD, List.getElem?_eq_getElem hi]
      exact List.getElem_mem hi
    exact h _ hm hd c hc
  · have hn : getInfo Infos i = defaultInfo := by
      unfold getInfo
      rw [List.getD_eq_getElem?_getD, List.getElem?_eq_none (by omega)]
      rfl
    rw [hn] at hc
    exact absurd hc (List.not_mem_nil _)

theorem MoveChild_side (G : FBAGraph) (Infos : List FNodeInfo) (d : EEdGraphPinDirection) (B : Int)
    (cur P c : Nat) (hsize : ∀ N ∈ G.Nodes, 0 ≤ N.SizeX) (hc : (getInfo Infos c).Direction = d)
    (a : (Nat → Int) × List Nat) (hP : P ∈ a.2 ∨ P = cur) (h : MovedSide d B cur a) :
    MovedSide d B cur (MoveChild G Infos P a c)
      ∧ (∀ n ∈ a.2, n ∈ (MoveChild G Infos P a c).2)
      ∧ (getInfo Infos c).Node ∈ (MoveChild G Infos P a c).2 := by
  unfold MoveChild
  dsimp only
  by_cases hv : (getInfo Infos c).Node ∈ a.2
  · rw [if_pos hv]
    exact ⟨h, fun n hn => hn, hv⟩
  · rw [if_neg hv]
    refine ⟨?_, fun n hn => List.mem_append_left _ hn, List.mem_append_right _ (List.mem_singleton_self _)⟩
    have hPB := h P hP
    have s1 := node_SizeX_nonneg G hsize (getInfo Infos c).Node
    have s2 := node_SizeX_nonneg G hsize P
    have hpad : (1 : Int) ≤ max 1 G.Settings.PaddingX := le_max_left _ _
    intro n hn
    dsimp only
    by_cases hnc : n = (getInfo Infos c).Node
    · subst hnc
      simp only [setPos, if_true]
      rw [hc]
      unfold OnSide at hPB ⊢
      split_ifs at hPB ⊢ <;> omega
    · simp only [setPos, hnc, if_false]
      refine h n ?_
      rcases hn with hn | hn
      · rcases List.mem_append.1 hn with h1 | h1
        · exact Or.inl h1
        · exact absurd (List.mem_singleton.1 h1) hnc
      · exact Or.inr hn

theorem MoveChild_fold_side (G : FBAGraph) (Infos : List FNodeInfo) (d : EEdGraphPinDirection) (B : Int)
    (cur P : Nat) (hsize : ∀ N ∈ G.Nodes, 0 ≤ N.SizeX) :
    ∀ (cs : List Nat) (a : (Nat → Int) × List Nat), (∀ c ∈ cs, (getInfo Infos c).Direction = d) →
      (P ∈ a.2 ∨ P = cur) → MovedSide d B cur a →
      MovedSide d B cur (cs.foldl (MoveChild G Infos P) a)
        ∧ (∀ n ∈ a.2, n ∈ (cs.foldl (MoveChild G Infos P) a).2)
        ∧ ∀ c ∈ cs, (getInfo Infos c).Node ∈ (cs.foldl (MoveChild G Infos P) a).2 := by
  intro cs
  induction cs with
  | nil => intro a _ _ h; exact ⟨h, fun n hn => hn, fun c hc => absurd hc (List.not_mem_nil _)⟩
  | cons c rest ih =>
    intro a hd hP h
    obtain ⟨m1, m2, m3⟩ := MoveChild_side G Infos d B cur P c hsize (hd c (List.mem_cons_self _ _)) a hP h
    have hP1 : P ∈ (MoveChild G Infos P a c).2 ∨ P = cur := hP.imp (m2 P) id
    obtain ⟨r1, r2, r3⟩ := ih (MoveChild G Infos P a c)
      (fun x hx => hd x (List.mem_cons_of_mem _ hx)) hP1 m1
    rw [List.foldl_cons]
    refine ⟨r1, fun n hn => r2 n (m2 n hn), fun x hx => ?_⟩
    rcases List.mem_cons.1 hx with hx | hx
    · rw [hx]; exact r2 _ m3
    · exact r3 x hx

/-- `MoveChildren` keeps every moved node, and the re-parented node, on the
side of the bound when the children records follow the direction. -/
theorem MoveChildren_side (G : FBAGraph) (Infos : List FNodeInfo) (d : EEdGraphPinDirection) (B : Int)
    (cur : Nat) (hsize : ∀ N ∈ G.Nodes, 0 ≤ N.SizeX) (hdir : ChildrenFollow Infos d) :
    ∀ (fuel : Nat) (wl : List Nat) (a : (Nat → Int) × List Nat),
      (∀ i ∈ wl, (getInfo Infos i).Direction = d ∧ ((getInfo Infos i).Node ∈ a.2 ∨ (getInfo Infos i).Node = cur)) →
      MovedSide d B cur a → MovedSide d B cur (MoveChildren G Infos fuel wl a) := by
  intro fuel
  induction fuel with
  | zero => intro wl a _ h; exact h
  | succ k ih =>
    intro wl a hwl h
    cases wl with
    | nil => exact h
    | cons i rest =>
      simp only [MoveChildren]
      obtain ⟨hid, hin⟩ := hwl i (List.mem_cons_self _ _)
      obtain ⟨r1, r2, r3⟩ := MoveChild_fold_side G Infos d B cur (getInfo Infos i).Node hsize
        (getInfo Infos i).Children a (fun c hc => ChildrenFollow_get Infos d hdir i c hid hc) hin h
      refine ih _ _ ?_ r1
      intro j hj
      rcases List.mem_append.1 hj with h1 | h1
      · have hjc := List.mem_of_mem_filter h1
        exact ⟨ChildrenFollow_get Infos d hdir i j hid hjc, Or.inl (r3 j hjc)⟩
      · obtain ⟨q1, q2⟩ := hwl j (List.mem_cons_of_mem _ h1)
        exact ⟨q1, q2.imp (r2 _) id⟩

theorem ChildrenFollow_of_get (Infos : List FNodeInfo) (d : EEdGraphPinDirection)
    (h : ∀ i c, (getInfo Infos i).Direction = d → c ∈ (getInfo Infos i).Children →
      (getInfo Infos c).Direction = d) : ChildrenFollow Infos d := by
  intro I hI hd c hc
  obtain ⟨i, hi, rfl⟩ := List.getElem_of_mem hI
  have hg : getInfo Infos i = Infos[i] := by
    unfold getInfo
    rw [List.getD_eq_getElem?_getD, List.getElem?_eq_getElem hi]
    rfl
  exact h i c (by rw [hg]; exact hd) (by rw [hg]; exact hc)

theorem Direction_modifyInfo (Infos : List FNodeInfo) (p j : Nat) (f : FNodeInfo → FNodeInfo)
    (hf : ∀ x : FNodeInfo, (f x).Direction = x.Direction) :
    (getInfo (modifyInfo Infos p f) j).Direction = (getInfo Infos j).Direction := by
  rw [getInfo_modifyInfo]
  split_ifs
  · exact hf _
  · rfl

theorem ChildrenFollow_modify (Infos : List FNodeInfo) (d : EEdGraphPinDirection) (p : Nat)
    (f : FNodeInfo → FNodeInfo) (h : ChildrenFollow Infos d)
    (hf : ∀ x : FNodeInfo, (f x).Direction = x.Direction)
    (hc : ∀ x : FNodeInfo, x.Direction = d → ∀ c ∈ (f x).Children,
      c ∈ x.Children ∨ (getInfo Infos c).Direction = d) :
    ChildrenFollow (modifyInfo Infos p f) d := by
  apply ChildrenFollow_of_get
  intro i c hd hcm
  rw [Direction_modifyInfo _ _ _ _ hf] at hd ⊢
  rw [getInfo_modifyInfo] at hcm
  split_ifs at hcm
  · rcases hc _ hd c hcm with h1 | h1
    · exact ChildrenFollow_get Infos d h i c hd h1
    · exact h1
  · exact ChildrenFollow_get Infos d h i c hd hcm

theorem Direction_SetParent (Infos : List FNodeInfo) (i j : Nat) (np mp : Option Nat) :
    (getInfo (SetParent Infos i np mp) j).Direction = (getInfo Infos j).Direction := by
  unfold SetParent
  dsimp only
  refine Eq.trans (Direction_modifyInfo _ _ _ _ (fun _ => rfl)) ?_
  have h2 : ∀ I1 : List FNodeInfo, (getInfo (match np with
      | some p => modifyInfo I1 p (fun x => { x with Children := x.Children ++ [i] })
      | none => I1) j).Direction = (getInfo I1 j).Direction := by
    intro I1
    cases np with
    | none => rfl
    | some p => exact Direction_modifyInfo _ _ _ _ (fun _ => rfl)
  rw [h2]
  cases (getInfo Infos i).Parent with
  | none => rfl
  | some p => exact Direction_modifyInfo _ _ _ _ (fun _ => rfl)

theorem ChildrenFollow_SetParent (Infos : List FNodeInfo) (d : EEdGraphPinDirection) (i : Nat)
    (np mp : Option Nat) (h : ChildrenFollow Infos d) (hi : (getInfo Infos i).Direction = d) :
    ChildrenFollow (SetParent Infos i np mp) d := by
  unfold SetParent
  dsimp only
  have h1 : ChildrenFollow (match (getInfo Infos i).Parent with
      | some p => modifyInfo Infos p (fun x => { x with Children := x.Children.filter (fun c => c != i) })
      | none => Infos) d ∧ (getInfo (match (getInfo Infos i).Parent with
      | some p => modifyInfo Infos p (fun x => { x with Children := x.Children.filter (fun c => c != i) })
      | none => Infos) i).Direction = d := by
    cases (getInfo Infos i).Parent with
    | none => exact ⟨h, hi⟩
    | some p =>
      exact ⟨ChildrenFollow_modify _ _ _ _ h (fun _ => rfl)
        (fun x _ c hc => Or.inl (List.mem_of_mem_filter hc)),
        Eq.trans (Direction_modifyInfo _ _ _ _ (fun _ => rfl)) hi⟩
  generalize (match (getInfo Infos i).Parent with
      | some p => modifyInfo Infos p (fun x => { x with Children := x.Children.filter (fun c => c != i) })
      | none => Infos) = I1 at h1
  obtain ⟨c1, d1⟩ := h1
  have h2 : ChildrenFollow (match np with
      | some p => modifyInfo I1 p (fun x => { x with Children := x.Children ++ [i] })
      | none => I1) d := by
    cases np with
    | none => exact c1
    | some p =>
      refine ChildrenFollow_modify _ _ _ _ c1 (fun _ => rfl) (fun x _ c hc => ?_)
      rcases List.mem_append.1 hc with h3 | h3
      · exact Or.inl h3
      · rw [List.mem_singleton.1 h3]
        exact Or.inr d1
  exact ChildrenFollow_modify _ _ _ _ h2 (fun _ => rfl) (fun x _ c hc => Or.inl hc)

theorem Node_SetParent (Infos : List FNodeInfo) (i j : Nat) (np mp : Option Nat) :
    (getInfo (SetParent Infos i np mp) j).Node = (getInfo Infos j).Node := by
  have hm : ∀ (I : List FNodeInfo) (p : Nat) (f : FNodeInfo → FNodeInfo),
      (∀ x : FNodeInfo, (f x).Node = x.Node) →
      (getInfo (modifyInfo I p f) j).Node = (getInfo I j).Node := by
    intro I p f hf
    rw [getInfo_modifyInfo]
    split_ifs
    · exact hf _
    · rfl
  unfold SetParent
  dsimp only
  refine Eq.trans (hm _ _ _ (fun _ => rfl)) ?_
  have h2 : ∀ I1 : List FNodeInfo, (getInfo (match np with
      | some p => modifyInfo I1 p (fun x => { x with Children := x.Children ++ [i] })
      | none => I1) j).Node = (getInfo I1 j).Node := by
    intro I1
    cases np with
    | none => rfl
    | some p => exact hm _ _ _ (fun _ => rfl)
  rw [h2]
  cases (getInfo Infos i).Parent with
  | none => rfl
  | some p => exact hm _ _ _ (fun _ => rfl)

theorem Parent_SetParent (Infos : List FNodeInfo) (i : Nat) (np mp : Option Nat)
    (hi : i < Infos.length) : (getInfo (SetParent Infos i np mp) i).Parent = np := by
  unfold SetParent
  dsimp only
  rw [getInfo_modifyInfo, if_pos]
  refine ⟨rfl, ?_⟩
  cases np <;> cases (getInfo Infos i).Parent <;> simp only [length_modifyInfo] <;> exact hi

/-- C25. The re-parenting rule of `FormatX` (lines 378-422) for a node with
the record `CurrentInfo`, dequeued through a link with the pins `pp`
(parent's) and `mp` (the node's) whose parent node differs from the node's
current parent: the new parent is taken iff the direction of the parent pin
equals the direction of the record and either helixing applies to the node or
the candidate X of `GetChildX` is strictly smaller than the node's X for an
input parent pin, strictly larger otherwise; when it is not taken the
formatter is unchanged; when it is taken the record gets the new parent and
the node ends not to the right of its old X for an input parent pin, not to
the left of it otherwise (widths are not negative and the children of
records of that direction have that direction). -/
theorem FormatXReparent_rule (G : FBAGraph) (S1 : FEdGraphParameterFormatter) (l : FPinLink)
    (ParentInfo : Option Nat) (CurrentInfo pp mp : Nat)
    (hF : l.From = some pp) (hT : l.To = some mp)
    (hci : CurrentInfo < S1.Infos.length)
    (hnode : (getInfo S1.Infos CurrentInfo).Node = G.OwningNode mp)
    (hpar : some (G.OwningNode pp) ≠ GetParentNode S1.Infos CurrentInfo)
    (hsize : ∀ N ∈ G.Nodes, 0 ≤ N.SizeX)
    (hdir : ChildrenFollow S1.Infos (G.pin pp).Direction) :
    (FormatXTakeNewParent G S1 l CurrentInfo = true ↔
        (getInfo S1.Infos CurrentInfo).Direction = (G.pin pp).Direction
          ∧ ((S1.bFormatWithHelixing = true ∧ G.OwningNode mp ∈ S1.FormattedInputNodes)
            ∨ (if (G.pin pp).Direction = EGPD_Input
                then GetChildX G S1 l (G.pin pp).Direction < S1.NodePosX (G.OwningNode mp)
                else GetChildX G S1 l (G.pin pp).Direction > S1.NodePosX (G.OwningNode mp))))
      ∧ (FormatXTakeNewParent G S1 l CurrentInfo = false →
          FormatXReparent G S1 l ParentInfo CurrentInfo = S1)
      ∧ (FormatXTakeNewParent G S1 l CurrentInfo = true →
          (getInfo (FormatXReparent G S1 l ParentInfo CurrentInfo).Infos CurrentInfo).Parent = ParentInfo
            ∧ ((G.pin pp).Direction = EGPD_Input →
                (FormatXReparent G S1 l ParentInfo CurrentInfo).NodePosX (G.OwningNode mp)
                  ≤ S1.NodePosX (G.OwningNode mp))
            ∧ ((G.pin pp).Direction ≠ EGPD_Input →
                S1.NodePosX (G.OwningNode mp)
                  ≤ (FormatXReparent G S1 l ParentInfo CurrentInfo).NodePosX (G.OwningNode mp))) := by
  have hg : l.GetNode G = G.OwningNode mp := by
    unfold FPinLink.GetNode
    rw [hT]
  have hne : (some (G.OwningNode pp) != GetParentNode S1.Infos CurrentInfo) = true := by
    simpa using hpar
  have hiff : FormatXTakeNewParent G S1 l CurrentInfo = true ↔
      (getInfo S1.Infos CurrentInfo).Direction = (G.pin pp).Direction
        ∧ ((S1.bFormatWithHelixing = true ∧ G.OwningNode mp ∈ S1.FormattedInputNodes)
          ∨ (if (G.pin pp).Direction = EGPD_Input
              then GetChildX G S1 l (G.pin pp).Direction < S1.NodePosX (G.OwningNode mp)
              else GetChildX G S1 l (G.pin pp).Direction > S1.NodePosX (G.OwningNode mp))) := by
    unfold FormatXTakeNewParent FormatXNewNodePos
    simp only [hF, hT, hg, Option.isSome_some, Option.map_some', Option.getD_some, hne, Bool.true_and]
    by_cases hh : S1.bFormatWithHelixing = true ∧ G.OwningNode mp ∈ S1.FormattedInputNodes
    · have hb : (S1.bFormatWithHelixing && decide (G.OwningNode mp ∈ S1.FormattedInputNodes)) = true := by
        simp [hh.1, hh.2]
      simp [hb, hh]
    · have hb : (S1.bFormatWithHelixing && decide (G.OwningNode mp ∈ S1.FormattedInputNodes)) = false := by
        rw [Bool.and_eq_false_iff]
        by_cases h1 : S1.bFormatWithHelixing = true
        · right
          simpa using fun h2 => hh ⟨h1, h2⟩
        · left
          simpa using h1
      simp only [hb, hh, Bool.or_false, false_or, Bool.false_eq_true, if_false, Bool.and_eq_true,
        beq_iff_eq]
      by_cases hd : (G.pin pp).Direction = EGPD_Input
      · simp only [hd, if_true, decide_eq_true_eq]
        exact and_comm
      · simp only [hd, if_false, decide_eq_true_eq]
        exact and_comm
  refine ⟨hiff, ?_, ?_⟩
  · intro hn
    unfold FormatXReparent
    simp only [hn, Bool.false_eq_true, if_false]
  · intro ht
    have hrep : FormatXReparent G S1 l ParentInfo CurrentInfo
        = withXInfos S1
            (MoveChildren G (SetParent S1.Infos CurrentInfo ParentInfo l.To)
              ((SetParent S1.Infos CurrentInfo ParentInfo l.To).length + 1) [CurrentInfo]
              (setPos S1.NodePosX (l.GetNode G)
                (FormatXNewNodePos G S1 l (S1.NodePosX (l.GetNode G))), [])).1
            (SetParent S1.Infos CurrentInfo ParentInfo l.To) := by
      unfold FormatXReparent
      simp only [ht, if_true]
    obtain ⟨hsame, hbetter⟩ := hiff.1 ht
    have hB : OnSide (G.pin pp).Direction
        (FormatXNewNodePos G S1 l (S1.NodePosX (l.GetNode G))) (S1.NodePosX (G.OwningNode mp)) := by
      unfold FormatXNewNodePos OnSide
      simp only [hF, hg, Option.getD_some]
      rcases hbetter with hh | hh
      · have hb : (S1.bFormatWithHelixing && decide (G.OwningNode mp ∈ S1.FormattedInputNodes)) = true := by
          simp [hh.1, hh.2]
        simp only [hb, if_true]
        split_ifs <;> exact le_refl _
      · split_ifs at hh ⊢ <;> first | exact le_refl _ | omega
    have hside := MoveChildren_side G (SetParent S1.Infos CurrentInfo ParentInfo l.To)
      (G.pin pp).Direction (FormatXNewNodePos G S1 l (S1.NodePosX (l.GetNode G))) (G.OwningNode mp)
      hsize (ChildrenFollow_SetParent _ _ _ _ _ hdir hsame)
      ((SetParent S1.Infos CurrentInfo ParentInfo l.To).length + 1) [CurrentInfo]
      (setPos S1.NodePosX (l.GetNode G) (FormatXNewNodePos G S1 l (S1.NodePosX (l.GetNode G))), [])
      (by
        intro i hi
        rw [List.mem_singleton.1 hi, Direction_SetParent, Node_SetParent]
        exact ⟨hsame, Or.inr hnode⟩)
      (by
        intro n hn
        rcases hn with hn | hn
        · exact absurd hn (List.not_mem_nil _)
        · subst hn
          simp only [hg, setPos, if_true]
          unfold OnSide
          split_ifs <;> exact le_refl _)
    have hfin := hside (G.OwningNode mp) (Or.inr rfl)
    rw [hrep]
    refine ⟨?_, ?_, ?_⟩
    · show (getInfo (SetParent S1.Infos CurrentInfo ParentInfo l.To) CurrentInfo).Parent = ParentInfo
      exact Parent_SetParent _ _ _ _ hci
    · intro hd
      show (MoveChildren G _ _ _ _).1 (G.OwningNode mp) ≤ _
      unfold OnSide at hfin hB
      rw [if_pos hd] at hfin hB
      exact le_trans hfin hB
    · intro hd
      show _ ≤ (MoveChildren G _ _ _ _).1 (G.OwningNode mp)
      unfold OnSide at hfin hB
      rw [if_neg hd] at hfin hB
      exact le_trans hB hfin

theorem FormatXReparent_rule_witness :
    (FormatXTakeNewParent diamondGraph diamondState (mkLink diamondGraph 2 4) 4 = true ↔
        (getInfo diamondState.Infos 4).Direction = (diamondGraph.pin 2).Direction
          ∧ ((diamondState.bFormatWithHelixing = true
              ∧ diamondGraph.OwningNode 4 ∈ diamondState.FormattedInputNodes)
            ∨ (if (diamondGraph.pin 2).Direction = EGPD_Input
                then GetChildX diamondGraph diamondState (mkLink diamondGraph 2 4)
                  (diamondGraph.pin 2).Direction < diamondState.NodePosX (diamondGraph.OwningNode 4)
                else GetChildX diamondGraph diamondState (mkLink diamondGraph 2 4)
                  (diamondGraph.pin 2).Direction > diamondState.NodePosX (diamondGraph.OwningNode 4))))
      ∧ (FormatXTakeNewParent diamondGraph diamondState (mkLink diamondGraph 2 4) 4 = false →
          FormatXReparent diamondGraph diamondState (mkLink diamondGraph 2 4) (some 3) 4 = diamondState)
      ∧ (FormatXTakeNewParent diamondGraph diamondState (mkLink diamondGraph 2 4) 4 = true →
          (getInfo (FormatXReparent diamondGraph diamondState (mkLink diamondGraph 2 4) (some 3) 4).Infos
              4).Parent = some 3
            ∧ ((diamondGraph.pin 2).Direction = EGPD_Input →
                (FormatXReparent diamondGraph diamondState (mkLink diamondGraph 2 4) (some 3) 4).NodePosX
                    (diamondGraph.OwningNode 4)
                  ≤ diamondState.NodePosX (diamondGraph.OwningNode 4))
            ∧ ((diamondGraph.pin 2).Direction ≠ EGPD_Input →
                diamondState.NodePosX (diamondGraph.OwningNode 4)
                  ≤ (FormatXReparent diamondGraph diamondState (mkLink diamondGraph 2 4) (some 3)
                      4).NodePosX (diamondGraph.OwningNode 4))) :=
  FormatXReparent_rule diamondGraph diamondState (mkLink diamondGraph 2 4) (some 3) 4 2 4 rfl rfl
    (by decide) (by decide) (by decide) (by decide) (by unfold ChildrenFollow; decide)

/-- The re-parent of the witness is taken: B goes from X = 360 to X = 220 and
gets the record of A as parent. -/
theorem FormatXReparent_diamond :
    FormatXTakeNewParent diamondGraph diamondState (mkLink diamondGraph 2 4) 4 = true
      ∧ mapFind diamondState.NodeInfoMap 2 = some 4
      ∧ mapFind diamondState.NodeInfoMap 1 = some 3
      ∧ diamondState.NodePosX 2 = 360
      ∧ (FormatXReparent diamondGraph diamondState (mkLink diamondGraph 2 4) (some 3) 4).NodePosX 2 = 220 := by
  decide

/-! ## `ProcessSameRowMapping` -/

theorem foldl_inv_mem {α β : Type} (I : α → Prop) (f : α → β → α) :
    ∀ (l : List β) (a : α), I a → (∀ a x, x ∈ l → I a → I (f a x)) → I (l.foldl f a) := by
  intro l
  induction l with
  | nil => intro a h _; exact h
  | cons x xs ih =>
    intro a h hs
    exact ih (f a x) (hs a x (List.mem_cons_self _ _) h)
      (fun b y hy hb => hs b y (List.mem_cons_of_mem _ hy) hb)

theorem same_mkLink (G : FBAGraph) (a b p q : Nat) :
    (mkLink G a b).same (mkLink G p q) = true ↔ a = p ∧ b = q := by
  simp [FPinLink.same, mkLink]

theorem find_linkSet_same (m : List (FPinLink × Bool)) (l k : FPinLink) (b : Bool)
    (h : l.same k = true) :
    (linkSet m l b).find? (fun e => e.1.same k) = some (l, b) := by
  unfold linkSet
  rw [List.find?_append]
  have hn : (m.filter (fun e => !e.1.same l)).find? (fun e => e.1.same k) = none := by
    rw [List.find?_eq_none]
    intro e he
    have h1 := (List.mem_filter.1 he).2
    simp only [FPinLink.same, Bool.and_eq_true, beq_iff_eq, Bool.not_eq_true, Bool.and_eq_false_iff,
      Bool.not_eq_eq_eq_not, Bool.not_true, beq_eq_false_iff_ne, ne_eq] at h h1 ⊢
    intro h2
    rcases h1 with h1 | h1
    · exact h1 (h2.1.trans h.1.symm)
    · exact h1 (h2.2.trans h.2.symm)
  rw [hn]
  simp [h]

theorem find_linkSet_other (m : List (FPinLink × Bool)) (l k : FPinLink) (b : Bool)
    (h : l.same k = false) :
    (linkSet m l b).find? (fun e => e.1.same k) = m.find? (fun e => e.1.same k) := by
  unfold linkSet
  rw [List.find?_append, List.find?_filter]
  have hf : (fun (e : FPinLink × Bool) => decide ((!e.1.same l) = true ∧ e.1.same k = true))
      = fun e => e.1.same k := by
    funext e
    by_cases hk : e.1.same k = true
    · have hl : e.1.same l = false := by
        simp only [FPinLink.same, Bool.and_eq_true, beq_iff_eq, Bool.and_eq_false_iff,
          beq_eq_false_iff_ne, ne_eq] at h hk ⊢
        by_contra hc
        push_neg at hc
        rcases h with h | h
        · exact h (hk.1.symm.trans hc.1).symm
        · exact h (hk.2.symm.trans hc.2).symm
      simp [hk, hl]
    · simp [hk]
  rw [hf]
  simp [h]

theorem RowMarked_linkSet (G : FBAGraph) (m : List (FPinLink × Bool)) (a b p q : Nat) :
    RowMarked G (linkSet m (mkLink G a b) true) p q ↔ (a = p ∧ b = q) ∨ RowMarked G m p q := by
  unfold RowMarked
  by_cases h : (mkLink G a b).same (mkLink G p q) = true
  · rw [find_linkSet_same _ _ _ _ h]
    simp [(same_mkLink G a b p q).1 h]
  · have h1 : (mkLink G a b).same (mkLink G p q) = false := by simpa using h
    rw [find_linkSet_other _ _ _ _ h1]
    have h2 : ¬(a = p ∧ b = q) := fun hc => h ((same_mkLink G a b p q).2 hc)
    simp [h2]

theorem RowMarked_SameRowMark (G : FBAGraph) (a : SameRowState) (x y p q : Nat) :
    RowMarked G (SameRowMark G a x y).SameRowMapping p q
      ↔ (y = p ∧ x = q) ∨ (x = p ∧ y = q) ∨ RowMarked G a.SameRowMapping p q := by
  unfold SameRowMark
  dsimp only
  rw [RowMarked_linkSet, RowMarked_linkSet]

theorem RowSymmetric_SameRowMark (G : FBAGraph) (a : SameRowState) (x y : Nat)
    (h : RowSymmetric G a.SameRowMapping) : RowSymmetric G (SameRowMark G a x y).SameRowMapping := by
  intro p q
  rw [RowMarked_SameRowMark, RowMarked_SameRowMark, h p q]
  tauto

/-- One iteration of the innermost loop keeps an invariant of the mapping and
the visited set that the marking and the recursive call keep. -/
theorem SameRowPair_inv (G : FBAGraph) (S : FEdGraphParameterFormatter)
    (I : List (FPinLink × Bool) → List Nat → Prop)
    (recurse : Nat → Option Nat → Option Nat → List (FPinLink × Bool) × List Nat →
      List (FPinLink × Bool) × List Nat)
    (N : Nat) (pp : Option Nat) (Children : List Nat)
    (hrec : ∀ n cp qp acc, I acc.1 acc.2 → I (recurse n cp qp acc).1 (recurse n cp qp acc).2)
    (a : SameRowState) (pq : Nat × Nat)
    (hmark : I a.SameRowMapping a.VisitedNodes → SameRowSkips G Children a pq.2 = false →
      SameRowMarks G S N pp a pq.1 pq.2 = true →
      I (SameRowMark G a pq.1 pq.2).SameRowMapping a.VisitedNodes)
    (h : I a.SameRowMapping a.VisitedNodes) :
    I (SameRowPair G S recurse N pp Children a pq).SameRowMapping
      (SameRowPair G S recurse N pp Children a pq).VisitedNodes := by
  unfold SameRowPair
  dsimp only
  by_cases hs : SameRowSkips G Children a pq.2 = true
  · rw [if_pos hs]; exact h
  · rw [if_neg hs]
    have hs1 : SameRowSkips G Children a pq.2 = false := by simpa using hs
    by_cases hm : SameRowMarks G S N pp a pq.1 pq.2 = true
    · rw [if_pos hm]
      exact hrec _ _ _ _ (hmark h hs1 hm)
    · rw [if_neg hm]
      exact hrec _ _ _ _ h

/-- An invariant of the mapping and the visited set that is kept by the entry
of a node and by every marking is kept by every call of
`ProcessSameRowMapping`. -/
theorem ProcessSameRowMapping_inv (G : FBAGraph) (S : FEdGraphParameterFormatter)
    (I : List (FPinLink × Bool) → List Nat → Prop)
    (hvisit : ∀ M V n, I M V → I M (V ++ [n]))
    (hmark : ∀ N pp Children (a : SameRowState) (pq : Nat × Nat), pq ∈ SameRowPairs G N →
      I a.SameRowMapping a.VisitedNodes → SameRowSkips G Children a pq.2 = false →
      SameRowMarks G S N pp a pq.1 pq.2 = true →
      I (SameRowMark G a pq.1 pq.2).SameRowMapping a.VisitedNodes) :
    ∀ fuel N cp pp acc, I acc.1 acc.2 →
      I (ProcessSameRowMapping G S fuel N cp pp acc).1 (ProcessSameRowMapping G S fuel N cp pp acc).2 := by
  intro fuel
  induction fuel with
  | zero => intro N cp pp acc h; exact h
  | succ k ih =>
    intro N cp pp acc h
    simp only [ProcessSameRowMapping]
    split_ifs with hv
    · exact h
    · exact foldl_inv_mem (fun a : SameRowState => I a.SameRowMapping a.VisitedNodes) _ _ _
        (hvisit _ _ _ h)
        (fun a pq hpq ha => SameRowPair_inv G S I _ N pp _ ih a pq
          (fun h1 h2 h3 => hmark N pp _ a pq hpq h1 h2 h3) ha)

/-- C22. The mapping stays symmetric through `ProcessSameRowMapping`: the two
`Add` of a marking keep it symmetric, and so does every call, at any depth of
the recursion, and every iteration of the loops of a call; in particular the
mapping built from the empty one is symmetric. -/
theorem ProcessSameRowMapping_symmetric (G : FBAGraph) (S : FEdGraphParameterFormatter) :
    (∀ (a : SameRowState) (x y : Nat), RowSymmetric G a.SameRowMapping →
        RowSymmetric G (SameRowMark G a x y).SameRowMapping)
      ∧ (∀ fuel N cp pp acc, RowSymmetric G acc.1 →
          RowSymmetric G (ProcessSameRowMapping G S fuel N cp pp acc).1)
      ∧ (∀ fuel N pp acc k, RowSymmetric G acc.1 →
          RowSymmetric G (SameRowAt G S fuel N pp acc k).SameRowMapping)
      ∧ ∀ fuel N, RowSymmetric G (ProcessSameRowMapping G S fuel N none none ([], [])).1 := by
  have hcall : ∀ fuel N cp pp acc, RowSymmetric G acc.1 →
      RowSymmetric G (ProcessSameRowMapping G S fuel N cp pp acc).1 :=
    ProcessSameRowMapping_inv G S (fun M _ => RowSymmetric G M) (fun _ _ _ h => h)
      (fun _ _ _ a pq _ h _ _ => RowSymmetric_SameRowMark G a pq.1 pq.2 h)
  refine ⟨fun a x y h => RowSymmetric_SameRowMark G a x y h, hcall, ?_, ?_⟩
  · intro fuel N pp acc k h
    unfold SameRowAt
    exact foldl_inv (fun a : SameRowState => RowSymmetric G a.SameRowMapping) _ _ _ h
      (fun a pq ha => SameRowPair_inv G S (fun M _ => RowSymmetric G M) _ N pp _
        (hcall fuel) a pq (fun h1 _ _ => RowSymmetric_SameRowMark G a pq.1 pq.2 h1) ha)
  · intro fuel N
    exact hcall fuel N none none ([], []) (fun p q => Iff.rfl)

theorem ProcessSameRowMapping_symmetric_witness :
    RowMarked rowGraph
        (ProcessSameRowMapping rowGraph rowState (rowGraph.Pins.length + 2) 0 none none ([], [])).1 2 4
      ∧ RowSymmetric rowGraph
        (ProcessSameRowMapping rowGraph rowState (rowGraph.Pins.length + 2) 0 none none ([], [])).1 :=
  ⟨by unfold RowMarked; decide, (ProcessSameRowMapping_symmetric rowGraph rowState).2.1 _ 0 none none ([], [])
    (fun _ _ => Iff.rfl)⟩

theorem mem_SameRowPairs (G : FBAGraph) (N : Nat) (pq : Nat × Nat) (h : pq ∈ SameRowPairs G N) :
    pq.1 ∈ (G.node N).Pins ∧ IsExecPin G pq.1 = false ∧ pq.2 ∈ (G.pin pq.1).LinkedTo := by
  unfold SameRowPairs at h
  obtain ⟨p, hp, hq⟩ := List.mem_flatMap.1 h
  obtain ⟨q, hq1, hq2⟩ := List.mem_map.1 hq
  subst hq2
  obtain ⟨hp1, hp2⟩ := List.mem_filter.1 hp
  obtain ⟨d, _, hd⟩ := List.mem_flatMap.1 hp1
  unfold GetPinsByDirection at hd
  exact ⟨(List.mem_filter.1 hd).1, by simpa using hp2, hq1⟩

theorem mem_linkSet (m : List (FPinLink × Bool)) (l : FPinLink) (b : Bool) (e : FPinLink × Bool)
    (h : e ∈ linkSet m l b) : e ∈ m ∨ e = (l, b) := by
  unfold linkSet at h
  rcases List.mem_append.1 h with h1 | h1
  · exact Or.inl (List.mem_filter.1 h1).1
  · exact Or.inr (List.mem_singleton.1 h1)

theorem RowNoRoot_SameRowMark (G : FBAGraph) (r : Nat) (a : SameRowState) (x y : Nat)
    (hx : G.OwningNode x ≠ r) (hy : G.OwningNode y ≠ r) (h : RowNoRoot G r a.SameRowMapping) :
    RowNoRoot G r (SameRowMark G a x y).SameRowMapping := by
  intro e he p hp
  unfold SameRowMark at he
  dsimp only at he
  rcases mem_linkSet _ _ _ _ he with h1 | h1
  · rcases mem_linkSet _ _ _ _ h1 with h2 | h2
    · exact h e h2 p hp
    · subst h2
      simp only [mkLink, Option.some.injEq] at hp
      rcases hp with hp | hp <;> rw [← hp] <;> assumption
  · subst h1
    simp only [mkLink, Option.some.injEq] at hp
    rcases hp with hp | hp <;> rw [← hp] <;> assumption

/-- Every call made once the root is visited keeps the mapping free of the
pins of the root. -/
theorem ProcessSameRowMapping_keeps_root_free (G : FBAGraph) (S : FEdGraphParameterFormatter) (r : Nat)
    (hown : PinsOwned G) (hr : S.RootNode = some r) :
    ∀ fuel N cp pp acc, (r ∈ acc.2 ∧ RowNoRoot G r acc.1) →
      (r ∈ (ProcessSameRowMapping G S fuel N cp pp acc).2
        ∧ RowNoRoot G r (ProcessSameRowMapping G S fuel N cp pp acc).1) := by
  refine ProcessSameRowMapping_inv G S (fun M V => r ∈ V ∧ RowNoRoot G r M)
    (fun M V n h => ⟨List.mem_append_left _ h.1, h.2⟩) ?_
  intro N pp Children a pq hpq h hs hm
  refine ⟨h.1, RowNoRoot_SameRowMark G r a pq.1 pq.2 ?_ ?_ h.2⟩
  · rw [PinsOwned_owner G hown N pq.1 (mem_SameRowPairs G N pq hpq).1]
    intro hN
    unfold SameRowMarks at hm
    simp [hr, hN] at hm
  · intro hy
    unfold SameRowSkips at hs
    simp [hy, h.1] at hs

/-- C23. The call of `ProcessSameRowMapping` for the root with an empty
visited set, on a graph whose pins are owned by the nodes that list them,
leaves no link with a pin of the root in the mapping (when the mapping it
starts from has none, as the empty mapping after the reset). -/
theorem ProcessSameRowMapping_root_free (G : FBAGraph) (S : FEdGraphParameterFormatter) (r fuel : Nat)
    (M : List (FPinLink × Bool)) (hown : PinsOwned G) (hr : S.RootNode = some r)
    (hM : RowNoRoot G r M) :
    RowNoRoot G r (ProcessSameRowMapping G S fuel r none none (M, [])).1 := by
  cases fuel with
  | zero => exact hM
  | succ k =>
    simp only [ProcessSameRowMapping]
    rw [if_neg (List.not_mem_nil _)]
    have key := foldl_inv_mem
      (fun a : SameRowState => r ∈ a.VisitedNodes ∧ RowNoRoot G r a.SameRowMapping)
      (SameRowPair G S (ProcessSameRowMapping G S k) r none (SameRowChildren S r))
      (SameRowPairs G r) (SameRowEnter r (M, []))
      ⟨by simp [SameRowEnter], hM⟩
      (fun a pq _ ha => SameRowPair_inv G S (fun M V => r ∈ V ∧ RowNoRoot G r M) _ r none _
        (ProcessSameRowMapping_keeps_root_free G S r hown hr k) a pq
        (fun h1 _ h3 => by
          exfalso
          unfold SameRowMarks at h3
          simp [hr] at h3) ha)
    exact key.2

theorem ProcessSameRowMapping_root_free_witness :
    RowNoRoot rowGraph 0
      (ProcessSameRowMapping rowGraph rowState (rowGraph.Pins.length + 2) 0 none none ([], [])).1 :=
  ProcessSameRowMapping_root_free rowGraph rowState 0 _ [] (by decide) (by decide)
    (fun _ he => absurd he (List.not_mem_nil _))

/-! ## The first qualifying pair -/

theorem SameRowAt_succ (G : FBAGraph) (S : FEdGraphParameterFormatter) (fuel N : Nat) (pp : Option Nat)
    (acc : List (FPinLink × Bool) × List Nat) (k : Nat) (hk : k < (SameRowPairs G N).length) :
    SameRowAt G S fuel N pp acc (k + 1)
      = SameRowPair G S (ProcessSameRowMapping G S fuel) N pp (SameRowChildren S N)
          (SameRowAt G S fuel N pp acc k) ((SameRowPairs G N).getD k (0, 0)) := by
  unfold SameRowAt
  rw [List.take_succ, List.foldl_append, List.getElem?_eq_getElem hk,
    List.getD_eq_getElem?_getD, List.getElem?_eq_getElem hk]
  rfl

theorem SameRowAt_length (G : FBAGraph) (S : FEdGraphParameterFormatter) (fuel N : Nat)
    (cp pp : Option Nat) (acc : List (FPinLink × Bool) × List Nat) (hN : N ∉ acc.2) :
    ProcessSameRowMapping G S (fuel + 1) N cp pp acc
      = ((SameRowAt G S fuel N pp acc (SameRowPairs G N).length).SameRowMapping,
         (SameRowAt G S fuel N pp acc (SameRowPairs G N).length).VisitedNodes) := by
  simp only [ProcessSameRowMapping, SameRowAt, List.take_length]
  rw [if_neg hN]

theorem SameRowPair_bFirstPin (G : FBAGraph) (S : FEdGraphParameterFormatter)
    (recurse : Nat → Option Nat → Option Nat → List (FPinLink × Bool) × List Nat →
      List (FPinLink × Bool) × List Nat)
    (N : Nat) (pp : Option Nat) (Children : List Nat) (a : SameRowState) (pq : Nat × Nat) :
    (SameRowPair G S recurse N pp Children a pq).bFirstPin
      = (a.bFirstPin && !SameRowMarkedAt G S N pp Children a pq) := by
  unfold SameRowPair SameRowMarkedAt
  dsimp only
  by_cases hs : SameRowSkips G Children a pq.2 = true
  · simp [hs]
  · have hs1 : SameRowSkips G Children a pq.2 = false := by simpa using hs
    by_cases hm : SameRowMarks G S N pp a pq.1 pq.2 = true
    · simp [hs1, hm, SameRowMark]
    · have hm1 : SameRowMarks G S N pp a pq.1 pq.2 = false := by simpa using hm
      simp [hs1, hm1]

theorem SameRowMarkedAt_eq (G : FBAGraph) (S : FEdGraphParameterFormatter) (N : Nat) (pp : Option Nat)
    (Children : List Nat) (a : SameRowState) (pq : Nat × Nat) :
    SameRowMarkedAt G S N pp Children a pq
      = (a.bFirstPin && SameRowQualifies G S pp Children a pq && (S.RootNode != some N)) := by
  unfold SameRowMarkedAt SameRowQualifies SameRowMarks
  dsimp only
  cases a.bFirstPin <;> cases SameRowSkips G Children a pq.2 <;> simp

/-- The flag `bFirstPin` before the pair `k` is still set iff no earlier pair
was marked. -/
theorem SameRowAt_bFirstPin (G : FBAGraph) (S : FEdGraphParameterFormatter) (fuel N : Nat)
    (pp : Option Nat) (acc : List (FPinLink × Bool) × List Nat) :
    ∀ k, k ≤ (SameRowPairs G N).length →
      ((SameRowAt G S fuel N pp acc k).bFirstPin = true ↔
        ∀ j < k, SameRowMarkedAt G S N pp (SameRowChildren S N) (SameRowAt G S fuel N pp acc j)
          ((SameRowPairs G N).getD j (0, 0)) = false) := by
  intro k
  induction k with
  | zero =>
    intro _
    simp [SameRowAt, SameRowEnter]
  | succ k ih =>
    intro hk
    rw [SameRowAt_succ G S fuel N pp acc k (by omega), SameRowPair_bFirstPin, Bool.and_eq_true,
      ih (by omega)]
    constructor
    · rintro ⟨h1, h2⟩ j hj
      rcases Nat.lt_succ_iff_lt_or_eq.1 hj with h | h
      · exact h1 j h
      · rw [h]; simpa using h2
    · intro h
      exact ⟨fun j hj => h j (by omega), by simpa using h k (by omega)⟩

/-- A link marked in the mapping stays marked through every call. -/
theorem ProcessSameRowMapping_keeps_mark (G : FBAGraph) (S : FEdGraphParameterFormatter) (x y : Nat) :
    ∀ fuel N cp pp acc, RowMarked G acc.1 x y →
      RowMarked G (ProcessSameRowMapping G S fuel N cp pp acc).1 x y :=
  ProcessSameRowMapping_inv G S (fun M _ => RowMarked G M x y) (fun _ _ _ h => h)
    (fun _ _ _ a pq _ h _ _ => (RowMarked_SameRowMark G a pq.1 pq.2 x y).2 (Or.inr (Or.inr h)))

theorem SameRowAt_keeps_mark (G : FBAGraph) (S : FEdGraphParameterFormatter) (fuel N : Nat)
    (pp : Option Nat) (acc : List (FPinLink × Bool) × List Nat) (x y k : Nat)
    (h : RowMarked G (SameRowAt G S fuel N pp acc k).SameRowMapping x y) :
    ∀ j, k ≤ j → j ≤ (SameRowPairs G N).length →
      RowMarked G (SameRowAt G S fuel N pp acc j).SameRowMapping x y := by
  intro j hkj
  induction j, hkj using Nat.le_induction with
  | base => intro _; exact h
  | succ j _ ih =>
    intro hj
    rw [SameRowAt_succ G S fuel N pp acc j (by omega)]
    exact SameRowPair_inv G S (fun M _ => RowMarked G M x y) _ N pp _
      (ProcessSameRowMapping_keeps_mark G S x y fuel) _ _
      (fun h1 _ _ => (RowMarked_SameRowMark G _ _ _ x y).2 (Or.inr (Or.inr h1))) (ih (by omega))

theorem SameRowAt_marks (G : FBAGraph) (S : FEdGraphParameterFormatter) (fuel N : Nat)
    (pp : Option Nat) (acc : List (FPinLink × Bool) × List Nat) (k : Nat)
    (hk : k < (SameRowPairs G N).length)
    (hm : SameRowMarkedAt G S N pp (SameRowChildren S N) (SameRowAt G S fuel N pp acc k)
      ((SameRowPairs G N).getD k (0, 0)) = true) :
    RowMarked G (SameRowAt G S fuel N pp acc (k + 1)).SameRowMapping
        ((SameRowPairs G N).getD k (0, 0)).1 ((SameRowPairs G N).getD k (0, 0)).2
      ∧ RowMarked G (SameRowAt G S fuel N pp acc (k + 1)).SameRowMapping
        ((SameRowPairs G N).getD k (0, 0)).2 ((SameRowPairs G N).getD k (0, 0)).1 := by
  rw [SameRowAt_succ G S fuel N pp acc k hk]
  unfold SameRowMarkedAt at hm
  simp only [Bool.and_eq_true, Bool.not_eq_true'] at hm
  unfold SameRowPair
  dsimp only
  rw [if_neg (by rw [hm.1]; exact Bool.false_ne_true), if_pos hm.2]
  exact ⟨ProcessSameRowMapping_keeps_mark G S _ _ fuel _ _ _ _
      ((RowMarked_SameRowMark G _ _ _ _ _).2 (Or.inr (Or.inl ⟨rfl, rfl⟩))),
    ProcessSameRowMapping_keeps_mark G S _ _ fuel _ _ _ _
      ((RowMarked_SameRowMark G _ _ _ _ _).2 (Or.inl ⟨rfl, rfl⟩))⟩

/-- One iteration of the innermost loop, for a visited node `r` whose marks
the recursive call leaves alone: `r` stays visited, and a link with a pin of
`r` is marked afterwards iff it was marked before or the iteration marks it
(in one of its two directions). -/
theorem SameRowPair_frame (G : FBAGraph) (S : FEdGraphParameterFormatter) (r : Nat)
    (recurse : Nat → Option Nat → Option Nat → List (FPinLink × Bool) × List Nat →
      List (FPinLink × Bool) × List Nat)
    (N : Nat) (pp : Option Nat) (Children : List Nat) (a : SameRowState) (pq : Nat × Nat)
    (hrec : ∀ n cp qp acc, r ∈ acc.2 → r ∈ (recurse n cp qp acc).2
      ∧ ∀ x y, (G.OwningNode x = r ∨ G.OwningNode y = r) →
        (RowMarked G (recurse n cp qp acc).1 x y ↔ RowMarked G acc.1 x y))
    (hr : r ∈ a.VisitedNodes) :
    r ∈ (SameRowPair G S recurse N pp Children a pq).VisitedNodes
      ∧ ∀ x y, (G.OwningNode x = r ∨ G.OwningNode y = r) →
        (RowMarked G (SameRowPair G S recurse N pp Children a pq).SameRowMapping x y ↔
          RowMarked G a.SameRowMapping x y
            ∨ (SameRowMarkedAt G S N pp Children a pq = true
              ∧ ((x = pq.1 ∧ y = pq.2) ∨ (y = pq.1 ∧ x = pq.2)))) := by
  unfold SameRowPair SameRowMarkedAt
  dsimp only
  by_cases hs : SameRowSkips G Children a pq.2 = true
  · rw [if_pos hs]
    refine ⟨hr, fun x y _ => ?_⟩
    simp [hs]
  · rw [if_neg hs]
    have hs1 : SameRowSkips G Children a pq.2 = false := by simpa using hs
    by_cases hm : SameRowMarks G S N pp a pq.1 pq.2 = true
    · rw [if_pos hm]
      obtain ⟨h1, h2⟩ := hrec (G.OwningNode pq.2) (some pq.2) (some pq.1)
        ((SameRowMark G a pq.1 pq.2).SameRowMapping, (SameRowMark G a pq.1 pq.2).VisitedNodes) hr
      refine ⟨h1, fun x y hxy => ?_⟩
      rw [h2 x y hxy, RowMarked_SameRowMark]
      simp only [hs1, hm, Bool.not_false, Bool.and_self, true_and]
      constructor
      · rintro (h | h | h)
        · exact Or.inr (Or.inr ⟨h.2.symm, h.1.symm⟩)
        · exact Or.inr (Or.inl ⟨h.1.symm, h.2.symm⟩)
        · exact Or.inl h
      · rintro (h | h | h)
        · exact Or.inr (Or.inr h)
        · exact Or.inr (Or.inl ⟨h.1.symm, h.2.symm⟩)
        · exact Or.inl ⟨h.2.symm, h.1.symm⟩
    · rw [if_neg hm]
      have hm1 : SameRowMarks G S N pp a pq.1 pq.2 = false := by simpa using hm
      obtain ⟨h1, h2⟩ := hrec (G.OwningNode pq.2) (some pq.2) (some pq.1)
        (a.SameRowMapping, a.VisitedNodes) hr
      refine ⟨h1, fun x y hxy => ?_⟩
      rw [h2 x y hxy]
      simp [hs1, hm1]

/-- A call made while the node `r` is visited leaves `r` visited and changes
no mark of a link with a pin of `r`: the node of such a call is not `r`, and
the other node of a marking is not visited. -/
theorem ProcessSameRowMapping_frame (G : FBAGraph) (S : FEdGraphParameterFormatter) (r : Nat)
    (hown : PinsOwned G) :
    ∀ fuel N cp pp acc, r ∈ acc.2 →
      r ∈ (ProcessSameRowMapping G S fuel N cp pp acc).2
        ∧ ∀ x y, (G.OwningNode x = r ∨ G.OwningNode y = r) →
          (RowMarked G (ProcessSameRowMapping G S fuel N cp pp acc).1 x y
            ↔ RowMarked G acc.1 x y) := by
  intro fuel
  induction fuel with
  | zero => intro N cp pp acc h; exact ⟨h, fun _ _ _ => Iff.rfl⟩
  | succ k ih =>
    intro N cp pp acc h
    simp only [ProcessSameRowMapping]
    split_ifs with hv
    · exact ⟨h, fun _ _ _ => Iff.rfl⟩
    · have hN : N ≠ r := fun e => hv (e ▸ h)
      refine foldl_inv_mem (fun a : SameRowState => r ∈ a.VisitedNodes
          ∧ ∀ x y, (G.OwningNode x = r ∨ G.OwningNode y = r) →
            (RowMarked G a.SameRowMapping x y ↔ RowMarked G acc.1 x y)) _ _ _
        ⟨by simp [SameRowEnter, h], fun _ _ _ => Iff.rfl⟩ ?_
      intro a pq hpq ha
      obtain ⟨f1, f2⟩ := SameRowPair_frame G S r (ProcessSameRowMapping G S k) N pp
        (SameRowChildren S N) a pq ih ha.1
      refine ⟨f1, fun x y hxy => ?_⟩
      rw [f2 x y hxy, ← ha.2 x y hxy]
      constructor
      · rintro (h1 | ⟨hm, hpair⟩)
        · exact h1
        · exfalso
          have ho1 : G.OwningNode pq.1 = N := PinsOwned_owner G hown N pq.1 (mem_SameRowPairs G N pq hpq).1
          have ho2 : G.OwningNode pq.2 ≠ r := by
            intro hy
            unfold SameRowMarkedAt SameRowSkips at hm
            simp [hy, ha.1] at hm
          rcases hpair with ⟨e1, e2⟩ | ⟨e1, e2⟩
          · rw [e1, e2] at hxy
            rcases hxy with h3 | h3
            · exact hN (ho1.symm.trans h3)
            · exact ho2 h3
          · rw [e1, e2] at hxy
            rcases hxy with h3 | h3
            · exact ho2 h3
            · exact hN (ho1.symm.trans h3)
      · exact fun h1 => Or.inl h1

/-- The marks of the links with a pin of `N` after the first `k` pairs of the
call for `N`: those at the entry and the pairs marked so far. -/
theorem SameRowAt_frame (G : FBAGraph) (S : FEdGraphParameterFormatter) (fuel N : Nat)
    (pp : Option Nat) (acc : List (FPinLink × Bool) × List Nat) (hown : PinsOwned G) :
    ∀ k, k ≤ (SameRowPairs G N).length →
      N ∈ (SameRowAt G S fuel N pp acc k).VisitedNodes
        ∧ ∀ x y, (G.OwningNode x = N ∨ G.OwningNode y = N) →
          (RowMarked G (SameRowAt G S fuel N pp acc k).SameRowMapping x y ↔
            RowMarked G acc.1 x y
              ∨ ∃ j, j < k ∧ SameRowMarkedAt G S N pp (SameRowChildren S N)
                  (SameRowAt G S fuel N pp acc j) ((SameRowPairs G N).getD j (0, 0)) = true
                ∧ ((x = ((SameRowPairs G N).getD j (0, 0)).1
                    ∧ y = ((SameRowPairs G N).getD j (0, 0)).2)
                  ∨ (y = ((SameRowPairs G N).getD j (0, 0)).1
                    ∧ x = ((SameRowPairs G N).getD j (0, 0)).2))) := by
  intro k
  induction k with
  | zero =>
    intro _
    refine ⟨by simp [SameRowAt, SameRowEnter], fun x y _ => ?_⟩
    simp [SameRowAt, SameRowEnter]
  | succ k ih =>
    intro hk
    obtain ⟨i1, i2⟩ := ih (by omega)
    rw [SameRowAt_succ G S fuel N pp acc k (by omega)]
    obtain ⟨f1, f2⟩ := SameRowPair_frame G S N (ProcessSameRowMapping G S fuel) N pp
      (SameRowChildren S N) (SameRowAt G S fuel N pp acc k) ((SameRowPairs G N).getD k (0, 0))
      (ProcessSameRowMapping_frame G S N hown fuel) i1
    refine ⟨f1, fun x y hxy => ?_⟩
    rw [f2 x y hxy, i2 x y hxy]
    constructor
    · rintro ((h | ⟨j, hj, h⟩) | h)
      · exact Or.inl h
      · exact Or.inr ⟨j, by omega, h⟩
      · exact Or.inr ⟨k, by omega, h⟩
    · rintro (h | ⟨j, hj, h⟩)
      · exact Or.inl (Or.inl h)
      · rcases Nat.lt_succ_iff_lt_or_eq.1 hj with h1 | h1
        · exact Or.inl (Or.inr ⟨j, h1, h⟩)
        · subst h1
          exact Or.inr h

/-- C24. In the call of `ProcessSameRowMapping` for the node `N`, the pair
number `k` of the loops (input pins before output pins, execution pins
skipped) is marked iff `N` is not the root, the pair qualifies when it is
reached (the other node is accepted by the filter, is a child of `N` and is
not visited, the pin has the direction of the pin `pp` that links `N` to its
parent, on the parent's end, helixing does not apply to the other node) and
no earlier pair qualified when it was reached; so at most one pair is marked
in the call; a marked pair is marked true in both directions in the mapping
at the end of the loops, which is the mapping the call returns.  Nothing else
is written for the pins of `N` during the visit, the recursive calls for the
children included: on a graph whose pins are owned by the nodes that list
them, a link with a pin of `N` is marked true in the mapping the call returns
iff it was marked at the entry or is the marked pair, in one of its two
directions. -/
theorem ProcessSameRowMapping_first_pair (G : FBAGraph) (S : FEdGraphParameterFormatter)
    (fuel N : Nat) (cp pp : Option Nat) (acc : List (FPinLink × Bool) × List Nat) (k : Nat)
    (hk : k < (SameRowPairs G N).length) :
    (SameRowMarkedAt G S N pp (SameRowChildren S N) (SameRowAt G S fuel N pp acc k)
        ((SameRowPairs G N).getD k (0, 0)) = true ↔
      S.RootNode ≠ some N
        ∧ SameRowQualifies G S pp (SameRowChildren S N) (SameRowAt G S fuel N pp acc k)
            ((SameRowPairs G N).getD k (0, 0)) = true
        ∧ ∀ j < k, SameRowQualifies G S pp (SameRowChildren S N) (SameRowAt G S fuel N pp acc j)
            ((SameRowPairs G N).getD j (0, 0)) = false)
      ∧ (∀ j, j < (SameRowPairs G N).length →
          SameRowMarkedAt G S N pp (SameRowChildren S N) (SameRowAt G S fuel N pp acc j)
            ((SameRowPairs G N).getD j (0, 0)) = true →
          SameRowMarkedAt G S N pp (SameRowChildren S N) (SameRowAt G S fuel N pp acc k)
            ((SameRowPairs G N).getD k (0, 0)) = true → j = k)
      ∧ (SameRowMarkedAt G S N pp (SameRowChildren S N) (SameRowAt G S fuel N pp acc k)
            ((SameRowPairs G N).getD k (0, 0)) = true →
          RowMarked G (SameRowAt G S fuel N pp acc (SameRowPairs G N).length).SameRowMapping
              ((SameRowPairs G N).getD k (0, 0)).1 ((SameRowPairs G N).getD k (0, 0)).2
            ∧ RowMarked G (SameRowAt G S fuel N pp acc (SameRowPairs G N).length).SameRowMapping
              ((SameRowPairs G N).getD k (0, 0)).2 ((SameRowPairs G N).getD k (0, 0)).1)
      ∧ (N ∉ acc.2 →
          ProcessSameRowMapping G S (fuel + 1) N cp pp acc
            = ((SameRowAt G S fuel N pp acc (SameRowPairs G N).length).SameRowMapping,
               (SameRowAt G S fuel N pp acc (SameRowPairs G N).length).VisitedNodes))
      ∧ (PinsOwned G → N ∉ acc.2 → ∀ x y, (G.OwningNode x = N ∨ G.OwningNode y = N) →
          (RowMarked G (ProcessSameRowMapping G S (fuel + 1) N cp pp acc).1 x y ↔
            RowMarked G acc.1 x y
              ∨ ∃ j, j < (SameRowPairs G N).length
                ∧ SameRowMarkedAt G S N pp (SameRowChildren S N)
                  (SameRowAt G S fuel N pp acc j) ((SameRowPairs G N).getD j (0, 0)) = true
                ∧ ((x = ((SameRowPairs G N).getD j (0, 0)).1
                    ∧ y = ((SameRowPairs G N).getD j (0, 0)).2)
                  ∨ (y = ((SameRowPairs G N).getD j (0, 0)).1
                    ∧ x = ((SameRowPairs G N).getD j (0, 0)).2)))) := by
  have hflag := SameRowAt_bFirstPin G S fuel N pp acc
  have hfirst : ∀ i, i < (SameRowPairs G N).length →
      SameRowMarkedAt G S N pp (SameRowChildren S N) (SameRowAt G S fuel N pp acc i)
        ((SameRowPairs G N).getD i (0, 0)) = true →
      ∀ j < i, SameRowMarkedAt G S N pp (SameRowChildren S N) (SameRowAt G S fuel N pp acc j)
        ((SameRowPairs G N).getD j (0, 0)) = false := by
    intro i hi hm
    refine (hflag i (by omega)).1 ?_
    rw [SameRowMarkedAt_eq] at hm
    simp only [Bool.and_eq_true] at hm
    exact hm.1.1
  refine ⟨⟨?_, ?_⟩, ?_, ?_, ?_, ?_⟩
  · intro hm
    have hprev := hfirst k hk hm
    rw [SameRowMarkedAt_eq] at hm
    simp only [Bool.and_eq_true, bne_iff_ne, ne_eq] at hm
    refine ⟨hm.2, hm.1.2, fun j hj => ?_⟩
    have hj1 := hprev j hj
    have hfj : (SameRowAt G S fuel N pp acc j).bFirstPin = true :=
      (hflag j (by omega)).2 (fun i hi => hprev i (by omega))
    rw [SameRowMarkedAt_eq, hfj] at hj1
    have hr : (S.RootNode != some N) = true := by simpa using hm.2
    rw [hr] at hj1
    simpa using hj1
  · rintro ⟨hr, hq, hprev⟩
    have hr1 : (S.RootNode != some N) = true := by simpa using hr
    have hall : ∀ j, j ≤ k → (SameRowAt G S fuel N pp acc j).bFirstPin = true := by
      intro j
      induction j with
      | zero => intro _; simp [SameRowAt, SameRowEnter]
      | succ j ih =>
        intro hj
        rw [SameRowAt_succ G S fuel N pp acc j (by omega), SameRowPair_bFirstPin, SameRowMarkedAt_eq,
          ih (by omega), hprev j (by omega)]
        rfl
    rw [SameRowMarkedAt_eq, hall k (le_refl _), hq, hr1]
    rfl
  · intro j hj hmj hmk
    rcases Nat.lt_trichotomy j k with h | h | h
    · have := hfirst k hk hmk j h
      rw [this] at hmj
      exact absurd hmj (by decide)
    · exact h
    · have := hfirst j hj hmj k h
      rw [this] at hmk
      exact absurd hmk (by decide)
  · intro hm
    obtain ⟨m1, m2⟩ := SameRowAt_marks G S fuel N pp acc k hk hm
    exact ⟨SameRowAt_keeps_mark G S fuel N pp acc _ _ (k + 1) m1 _ (by omega) (le_refl _),
      SameRowAt_keeps_mark G S fuel N pp acc _ _ (k + 1) m2 _ (by omega) (le_refl _)⟩
  · intro hN
    exact SameRowAt_length G S fuel N cp pp acc hN
  · intro hown hN x y hxy
    rw [SameRowAt_length G S fuel N cp pp acc hN]
    exact (SameRowAt_frame G S fuel N pp acc hown _ (le_refl _)).2 x y hxy

theorem ProcessSameRowMapping_first_pair_witness :
    0 < (SameRowPairs rowGraph 1).length
      ∧ (SameRowMarkedAt rowGraph rowState 1 (some 0) (SameRowChildren rowState 1)
          (SameRowAt rowGraph rowState 6 1 (some 0) ([], [0]) 0)
          ((SameRowPairs rowGraph 1).getD 0 (0, 0)) = true ↔
        rowState.RootNode ≠ some 1
          ∧ SameRowQualifies rowGraph rowState (some 0) (SameRowChildren rowState 1)
              (SameRowAt rowGraph rowState 6 1 (some 0) ([], [0]) 0)
              ((SameRowPairs rowGraph 1).getD 0 (0, 0)) = true
          ∧ ∀ j < 0, SameRowQualifies rowGraph rowState (some 0) (SameRowChildren rowState 1)
              (SameRowAt rowGraph rowState 6 1 (some 0) ([], [0]) j)
              ((SameRowPairs rowGraph 1).getD j (0, 0)) = false) :=
  ⟨by decide,
    (ProcessSameRowMapping_first_pair rowGraph rowState 6 1 (some 1) (some 0) ([], [0]) 0 (by decide)).1⟩

/-- On `rowGraph` the visit of N (node 1) goes through the pairs (2, 4),
(3, 5) and (1, 0): the first is marked, the second qualifies as well when it
is reached and is not marked; the mapping the visit returns marks the link
from pin 2 to pin 4 and not the link from pin 3 to pin 5. -/
theorem ProcessSameRowMapping_rowGraph :
    SameRowPairs rowGraph 1 = [(2, 4), (3, 5), (1, 0)]
      ∧ SameRowMarkedAt rowGraph rowState 1 (some 0) (SameRowChildren rowState 1)
          (SameRowAt rowGraph rowState 6 1 (some 0) ([], [0]) 0) (2, 4) = true
      ∧ SameRowQualifies rowGraph rowState (some 0) (SameRowChildren rowState 1)
          (SameRowAt rowGraph rowState 6 1 (some 0) ([], [0]) 1) (3, 5) = true
      ∧ SameRowMarkedAt rowGraph rowState 1 (some 0) (SameRowChildren rowState 1)
          (SameRowAt rowGraph rowState 6 1 (some 0) ([], [0]) 1) (3, 5) = false
      ∧ RowMarked rowGraph
          (ProcessSameRowMapping rowGraph rowState 7 1 (some 1) (some 0) ([], [0])).1 2 4
      ∧ ¬ RowMarked rowGraph
          (ProcessSameRowMapping rowGraph rowState 7 1 (some 1) (some 0) ([], [0])).1 3 5 := by
  unfold RowMarked
  decide

/-! ## The depth of `ProcessSameRowMapping` -/

theorem ProcessSameRowMapping_visited_mono (G : FBAGraph) (S : FEdGraphParameterFormatter) (m : Nat) :
    ∀ fuel N cp pp acc, m ∈ acc.2 → m ∈ (ProcessSameRowMapping G S fuel N cp pp acc).2 :=
  ProcessSameRowMapping_inv G S (fun _ V => m ∈ V) (fun _ _ _ h => List.mem_append_left _ h)
    (fun _ _ _ _ _ _ h _ _ => h)

/-- The result of `ProcessSameRowMapping` does not depend on the bound on the
depth once the bound exceeds the number of unvisited pin owners. -/
theorem ProcessSameRowMapping_fuel_stable (G : FBAGraph) (S : FEdGraphParameterFormatter) :
    ∀ (f1 f2 N : Nat) (cp pp : Option Nat) (acc : List (FPinLink × Bool) × List Nat),
      unvisitedOwners G (setAdd acc.2 N) < f1 → unvisitedOwners G (setAdd acc.2 N) < f2 →
      ProcessSameRowMapping G S f1 N cp pp acc = ProcessSameRowMapping G S f2 N cp pp acc := by
  intro f1
  induction f1 with
  | zero => intro f2 N cp pp acc h; omega
  | succ k ih =>
    intro f2 N cp pp acc h1 h2
    cases f2 with
    | zero => omega
    | succ j =>
      simp only [ProcessSameRowMapping]
      by_cases hv : N ∈ acc.2
      · rw [if_pos hv, if_pos hv]
      · rw [if_neg hv, if_neg hv]
        have hadd : setAdd acc.2 N = acc.2 ++ [N] := by
          unfold setAdd
          rw [if_neg hv]
        rw [hadd] at h1 h2
        have key := foldl_congr_inv
          (fun a : SameRowState => ∀ m ∈ acc.2 ++ [N], m ∈ a.VisitedNodes)
          (SameRowPair G S (ProcessSameRowMapping G S k) N pp (SameRowChildren S N))
          (SameRowPair G S (ProcessSameRowMapping G S j) N pp (SameRowChildren S N))
          (SameRowPairs G N) ?_ ?_ (SameRowEnter N acc) (fun m hm => hm)
        · rw [key.1]
        · intro a pq ha
          unfold SameRowPair
          dsimp only
          by_cases hs : SameRowSkips G (SameRowChildren S N) a pq.2 = true
          · rw [if_pos hs, if_pos hs]
          · rw [if_neg hs, if_neg hs]
            have hnv : G.OwningNode pq.2 ∉ a.VisitedNodes := by
              intro hc
              apply hs
              unfold SameRowSkips
              simp [hc]
            have hstep : ∀ a1 : SameRowState, a1.VisitedNodes = a.VisitedNodes →
                ProcessSameRowMapping G S k (G.OwningNode pq.2) (some pq.2) (some pq.1)
                    (a1.SameRowMapping, a1.VisitedNodes)
                  = ProcessSameRowMapping G S j (G.OwningNode pq.2) (some pq.2) (some pq.1)
                    (a1.SameRowMapping, a1.VisitedNodes) := by
              intro a1 hV
              have hlt := unvisitedOwners_lt G a.VisitedNodes (G.OwningNode pq.2)
                (OwningNode_mem_ownerNodes G pq.2) hnv
              have hle := unvisitedOwners_mono G (acc.2 ++ [N]) a.VisitedNodes ha
              refine ih j _ _ _ _ ?_ ?_ <;> (dsimp only; rw [hV]; omega)
            split_ifs
            · rw [hstep (SameRowMark G a pq.1 pq.2) rfl]
            · rw [hstep a rfl]
        · intro a pq ha m hm
          have h0 := ha m hm
          unfold SameRowPair
          dsimp only
          split_ifs
          · exact h0
          · exact ProcessSameRowMapping_visited_mono G S m k _ _ _ _ h0
          · exact ProcessSameRowMapping_visited_mono G S m k _ _ _ _ h0

/-- The bound `G.Pins.length + 2` that `FormatNode` gives to
`ProcessSameRowMapping` is never reached: every larger bound gives the same
mapping and visited set. -/
theorem ProcessSameRowMapping_total (G : FBAGraph) (S : FEdGraphParameterFormatter) (fuel N : Nat)
    (cp pp : Option Nat) (acc : List (FPinLink × Bool) × List Nat) (hfuel : G.Pins.length + 2 ≤ fuel) :
    ProcessSameRowMapping G S fuel N cp pp acc
      = ProcessSameRowMapping G S (G.Pins.length + 2) N cp pp acc := by
  have := unvisitedOwners_le G (setAdd acc.2 N)
  exact ProcessSameRowMapping_fuel_stable G S _ _ N cp pp acc (by omega) (by omega)

/-! ## Exclusion -/

theorem FormatXEnqueue_good (G : FBAGraph) (r : Nat) (ign : List Nat) (c : Nat) (st : FormatXState)
    (p q : Nat) (h : FXGood G r ign st) : FXGood G r ign (FormatXEnqueue G c st p q) := by
  obtain ⟨h1, h2, h3, h4, h5⟩ := h
  unfold FormatXEnqueue
  dsimp only
  split_ifs with a1 a2 a3 a4 a5 a6 a7
  · exact ⟨h1, h2, h3, h4, h5⟩
  · exact ⟨h1, h2, h3, h4, h5⟩
  · exact ⟨h1, h2, h3, h4, h5⟩
  · exact ⟨h1, h2, h3, h4, h5⟩
  · exact ⟨h1, h2, h3, h4, h5⟩
  · exact ⟨h1, h2, h3, h4, h5⟩
  · refine ⟨h1, h2, h3, ?_, h5⟩
    intro l hl
    rcases List.mem_append.1 hl with hl | hl
    · exact h4 l hl
    · rw [List.mem_singleton.1 hl]
      right
      simp only [Bool.not_eq_true', Bool.not_eq_false, Bool.or_eq_true, not_or,
        Bool.not_eq_true] at a1 a2
      exact ⟨by rw [← h2]; exact a6, a1, a2.1, a2.2⟩
  · refine ⟨h1, h2, h3, h4, ?_⟩
    intro l hl
    rcases List.mem_append.1 hl with hl | hl
    · exact h5 l hl
    · rw [List.mem_singleton.1 hl]
      right
      simp only [Bool.not_eq_true', Bool.not_eq_false, Bool.or_eq_true, not_or,
        Bool.not_eq_true] at a1 a2
      exact ⟨by rw [← h2]; exact a6, a1, a2.1, a2.2⟩

theorem FormatXVisit_good (G : FBAGraph) (r : Nat) (ign : List Nat) (d : EEdGraphPinDirection)
    (st : FormatXState) (l : FPinLink) (hl : l.GetNode G = r ∨ Eligible G ign (l.GetNode G))
    (h : FXGood G r ign st) : FXGood G r ign (FormatXVisit G d st l) := by
  obtain ⟨h1, h2, h3, h4, h5⟩ := h
  obtain ⟨f1, _, _, _, f5, _, f7, f8⟩ := FormatXVisit_fields G d st l
  simp only [cfgOf, Prod.mk.injEq] at f1
  refine ⟨f1.1.trans h1, f1.2.2.1.trans h2, ?_, by rw [f7]; exact h4, by rw [f8]; exact h5⟩
  intro n hn
  rcases f5 with f5 | f5
  · rw [f5] at hn
    exact h3 n hn
  · rw [f5] at hn
    rcases (mem_setAdd _ _ _).1 hn with hn | hn
    · rw [hn]; exact hl
    · exact h3 n hn

theorem FormatXStep_good (G : FBAGraph) (r : Nat) (ign : List Nat) (d : EEdGraphPinDirection)
    (st : FormatXState) (h : FXGood G r ign st) : FXGood G r ign (FormatXStep G d st) := by
  have key : ∀ (l : FPinLink) (iq oq : List FPinLink),
      (l.GetNode G = r ∨ Eligible G ign (l.GetNode G)) →
      (∀ x ∈ iq, x ∈ st.InputQueue) → (∀ x ∈ oq, x ∈ st.OutputQueue) →
      FXGood G r ign ((FormatXLinks G (FormatXVisit G d { st with InputQueue := iq, OutputQueue := oq } l).F d
          (l.GetNode G)).foldl (fun a pq => FormatXEnqueue G (l.GetNode G) a pq.1 pq.2)
          (FormatXVisit G d { st with InputQueue := iq, OutputQueue := oq } l)) := by
    intro l iq oq hl hi ho
    refine foldl_inv (FXGood G r ign) _ _ _ ?_ (fun a pq ha => FormatXEnqueue_good G r ign _ a _ _ ha)
    exact FormatXVisit_good G r ign d _ l hl
      ⟨h.1, h.2.1, h.2.2.1, fun x hx => h.2.2.2.1 x (hi x hx), fun x hx => h.2.2.2.2 x (ho x hx)⟩
  unfold FormatXStep
  dsimp only
  split_ifs with hd
  · cases hi : st.InputQueue with
    | cons l rest =>
      have hl := h.2.2.2.1 l (by rw [hi]; exact List.mem_cons_self _ _)
      simpa [hi] using key l rest st.OutputQueue hl
        (fun x hx => by rw [hi]; exact List.mem_cons_of_mem _ hx) (fun x hx => hx)
    | nil =>
      cases ho : st.OutputQueue with
      | cons l rest =>
        have hl := h.2.2.2.2 l (by rw [ho]; exact List.mem_cons_self _ _)
        simpa [hi, ho] using key l [] rest hl (fun x hx => absurd hx (List.not_mem_nil _))
          (fun x hx => by rw [ho]; exact List.mem_cons_of_mem _ hx)
      | nil => simpa [hi, ho] using h
  · cases ho : st.OutputQueue with
    | cons l rest =>
      have hl := h.2.2.2.2 l (by rw [ho]; exact List.mem_cons_self _ _)
      simpa [ho] using key l st.InputQueue rest hl (fun x hx => hx)
        (fun x hx => by rw [ho]; exact List.mem_cons_of_mem _ hx)
    | nil =>
      cases hi : st.InputQueue with
      | cons l rest =>
        have hl := h.2.2.2.1 l (by rw [hi]; exact List.mem_cons_self _ _)
        simpa [hi, ho] using key l rest [] hl
          (fun x hx => by rw [hi]; exact List.mem_cons_of_mem _ hx)
          (fun x hx => absurd hx (List.not_mem_nil _))
      | nil => simpa [hi, ho] using h

theorem FormatXLoop_good (G : FBAGraph) (r : Nat) (ign : List Nat) (d : EEdGraphPinDirection) :
    ∀ (fuel : Nat) (st st' : FormatXState), FormatXLoop G d fuel st = some st' →
      FXGood G r ign st → FXGood G r ign st' := by
  intro fuel
  induction fuel with
  | zero =>
    intro st st' h hg
    simp only [FormatXLoop] at h
    split_ifs at h
    cases h
    exact hg
  | succ n ih =>
    intro st st' h hg
    simp only [FormatXLoop] at h
    split_ifs at h
    · cases h
      exact hg
    · exact ih _ _ h (FormatXStep_good G r ign d st hg)

theorem FormatXPassInit_good (G : FBAGraph) (r : Nat) (ign : List Nat) (d : EEdGraphPinDirection)
    (st : FormatXState) (hr : st.F.RootNode = some r) (hi : st.F.IgnoredNodes = ign)
    (h : ∀ n ∈ st.F.AllFormattedNodes, n = r ∨ Eligible G ign n) :
    FXGood G r ign (FormatXPassInit st d) := by
  unfold FormatXPassInit
  dsimp only
  split_ifs
  · refine ⟨hr, hi, h, ?_, fun l hl => absurd hl (List.not_mem_nil _)⟩
    intro l hl
    rw [List.mem_singleton.1 hl]
    left
    simp [FPinLink.GetNode, hr]
  · refine ⟨hr, hi, h, fun l hl => absurd hl (List.not_mem_nil _), ?_⟩
    intro l hl
    rw [List.mem_singleton.1 hl]
    left
    simp [FPinLink.GetNode, hr]

/-- `FormatX` adds only the root and nodes that may be formatted to the
formatted set. -/
theorem FormatX_good (G : FBAGraph) (S : FEdGraphParameterFormatter) (r : Nat)
    (hr : S.RootNode = some r)
    (h : ∀ n ∈ S.AllFormattedNodes, n = r ∨ Eligible G S.IgnoredNodes n) :
    ∀ n ∈ (FormatX G S).AllFormattedNodes, n = r ∨ Eligible G S.IgnoredNodes n := by
  unfold FormatX
  split
  · rename_i st hst
    simp only [FormatXFuel, Option.bind_eq_some] at hst
    obtain ⟨st1, e1, e2⟩ := hst
    have g0 : FXGood G r S.IgnoredNodes (FormatXPassInit (FormatXInit S) EGPD_Output) :=
      FormatXPassInit_good G r _ _ _ hr rfl h
    have g1 := FormatXLoop_good G r _ _ _ _ _ e1 g0
    have g2 := FormatXLoop_good G r _ _ _ _ _ e2
      (FormatXPassInit_good G r _ _ _ g1.1 g1.2.1 g1.2.2.1)
    exact g2.2.2.1
  · exact h

theorem FormatNodeLayout_good (G : FBAGraph) (S : FEdGraphParameterFormatter) (r : Nat)
    (hr : S.RootNode = some r) :
    ∀ n ∈ (FormatNodeLayout G S).AllFormattedNodes, n = r ∨ Eligible G S.IgnoredNodes n := by
  have g1 := FormatX_good G (FormatNodeReset G S) r hr (by
    intro n hn
    left
    have : n ∈ [S.RootNode.getD 0] := hn
    rw [hr] at this
    simpa using this)
  obtain ⟨b1, _⟩ := FormatX_FXRel G (FormatNodeReset G S)
  simp only [cfgOf, Prod.mk.injEq] at b1
  have hr1 : (FormatNodeRows G (FormatX G (FormatNodeReset G S))).RootNode = some r := b1.1.trans hr
  have hi1 : (FormatNodeRows G (FormatX G (FormatNodeReset G S))).IgnoredNodes = S.IgnoredNodes :=
    b1.2.2.1
  have g2 := FormatX_good G (FormatNodeRows G (FormatX G (FormatNodeReset G S))) r hr1 (by
    rw [hi1]
    exact g1)
  rw [hi1] at g2
  have hL : restOf (FormatNodeLayout G S)
      = restOf (FormatX G (FormatNodeRows G (FormatX G (FormatNodeReset G S)))) :=
    (restOf_FormatNodeVertical G _).trans (restOf_FormatNodeShiftOutputs G _).1
  rw [(restOf_fields hL).1]
  exact g2

/-- C26. After a slow-path run of `FormatNode` (the root is a node of the
graph with a linked pin, no cached offsets are replayed), every node of
`AllFormattedNodes` other than the root is not in `IgnoredNodes`, is accepted
by the selective-formatting filter, and is neither impure nor a knot; this
holds for any formatter, in particular a freshly constructed one. -/
theorem FormatNode_excludes (G : FBAGraph) (S : FEdGraphParameterFormatter) (r : Nat)
    (hr : S.RootNode = some r) (hv : IsGraphNode G (some r) = true)
    (hl : (GetLinkedPins G r EGPD_MAX).length ≠ 0) (hi : S.bInitialized = false) :
    ∀ n ∈ (FormatNode G S).AllFormattedNodes, n ≠ r →
      n ∉ S.IgnoredNodes ∧ G.FilterSelectiveFormatting n = true
        ∧ IsNodeImpure G n = false ∧ IsKnotNode G n = false := by
  have hA : (FormatNode G S).AllFormattedNodes = (FormatNodeLayout G S).AllFormattedNodes := by
    obtain ⟨_, _, _, _, _, hnd, _⟩ := FormatNodeLayout_frame G S
    unfold FormatNode
    simp only [hr, hv, hi, Option.getD_some, GetFormattedNodes]
    simp only [Bool.not_true, Bool.false_eq_true, if_false, beq_iff_eq, hl]
    split_ifs
    · exact (restOf_fields (translate_fold _ _ _ (FormatNodeLayout G S) hnd).1).1
    · rfl
  intro n hn hne
  rw [hA] at hn
  rcases FormatNodeLayout_good G S r hr n hn with h | h
  · exact absurd h hne
  · exact h

theorem FormatNode_excludes_witness :
    1 ∉ (FEdGraphParameterFormatter.new (some 0) none [2] fanPosX fanPosY).IgnoredNodes
      ∧ fanGraph.FilterSelectiveFormatting 1 = true
      ∧ IsNodeImpure fanGraph 1 = false ∧ IsKnotNode fanGraph 1 = false :=
  FormatNode_excludes fanGraph (FEdGraphParameterFormatter.new (some 0) none [2] fanPosX fanPosY) 0
    rfl (by decide) (by decide) rfl 1 (by decide) (by decide)

/-- On `fanGraph` with B (node 2) ignored the run formats the root and A. -/
theorem FormatNode_fanGraph_ignored :
    (FormatNode fanGraph
      (FEdGraphParameterFormatter.new (some 0) none [2] fanPosX fanPosY)).AllFormattedNodes = [0, 1] := by
  decide

/-! ## Heights through `FormatY`: what stays and what only goes down -/

theorem YDown_refl (G : FBAGraph) (c : Nat) (cp pp : Option Nat) (bsr : Bool)
    (acc : FEdGraphParameterFormatter × List Nat × List Nat) : YDown G c cp pp bsr acc acc :=
  ⟨fun _ _ _ => rfl, fun _ => le_refl _, fun _ _ _ _ _ _ _ _ => le_refl _⟩

/-- The collision loop never moves the node up. -/
theorem FormatYCollision_mono (G : FBAGraph) (c : Nat) (V : List Nat) :
    ∀ (n : Nat) (S : FEdGraphParameterFormatter),
      S.NodePosY c ≤ (FormatYCollision G c V n S).NodePosY c := by
  intro n
  induction n with
  | zero => intro S; exact le_refl _
  | succ k ih =>
    intro S
    simp only [FormatYCollision]
    split
    · exact le_refl _
    · rename_i v hv
      have hf := List.find?_some hv
      simp only [Bool.and_eq_true, DoRectanglesIntersect, Bool.not_eq_true', Bool.or_eq_false_iff,
        decide_eq_false_iff_not, not_lt, FSlateRect.ExtendBy, GetCachedNodeBounds] at hf
      refine le_trans ?_ (ih _)
      simp only [withPosY, setPos, if_true, FSlateRect.ExtendBy, GetCachedNodeBounds]
      omega

theorem foldl_withPosY_add_mono (D : Int) (hD : 0 ≤ D) (c : Nat) :
    ∀ (l : List Nat) (S : FEdGraphParameterFormatter),
      S.NodePosY c ≤ (l.foldl (fun (a : FEdGraphParameterFormatter) n =>
        withPosY a n (a.NodePosY n + D)) S).NodePosY c := by
  intro l
  induction l with
  | nil => intro S; exact le_refl _
  | cons x xs ih =>
    intro S
    simp only [List.foldl_cons]
    refine le_trans ?_ (ih _)
    simp only [withPosY, setPos]
    split_ifs with h
    · rw [h]; omega
    · exact le_refl _

theorem CenterCollide_Top (G : FBAGraph) (S1 : FEdGraphParameterFormatter) (AllNodes : List Nat)
    (B : FSlateRect) (n : Nat) : B.Top ≤ (CenterCollide G S1 AllNodes B n).Top := by
  unfold CenterCollide
  dsimp only
  split_ifs with h1 h2
  · exact le_refl _
  · simp only [DoRectanglesIntersect, Bool.not_eq_true', Bool.or_eq_false_iff,
      decide_eq_false_iff_not, not_lt] at h2
    dsimp only
    omega
  · exact le_refl _

theorem CenterDeltaY_nonneg (G : FBAGraph) (S1 : FEdGraphParameterFormatter) (AllNodes V : List Nat) :
    0 ≤ CenterDeltaY G S1 AllNodes V := by
  unfold CenterDeltaY
  dsimp only
  have key : ∀ (l : List Nat) (B : FSlateRect),
      B.Top ≤ (l.foldl (CenterCollide G S1 AllNodes) B).Top := by
    intro l
    induction l with
    | nil => intro B; exact le_refl _
    | cons x xs ih =>
      intro B
      simp only [List.foldl_cons]
      exact le_trans (CenterCollide_Top G S1 AllNodes B x) (ih _)
  have := key V (GetCachedNodeArrayBounds G S1 AllNodes)
  omega

/-- `CenterBranches` never moves the centered node up when it is in no
branch. -/
theorem CenterBranches_mono (G : FBAGraph) (S : FEdGraphParameterFormatter) (c : Nat)
    (bs : List ChildBranch) (V : List Nat) (hc : c ∉ bs.flatMap (fun b => b.BranchNodes)) :
    S.NodePosY c ≤ (CenterBranches G S c bs V).NodePosY c := by
  have h1 : (CenterOffsetBranches G S bs).NodePosY c = S.NodePosY c := by
    unfold CenterOffsetBranches
    exact foldl_withPosY_other _ _ c hc S
  unfold CenterBranches
  dsimp only
  split_ifs
  · rw [← h1]
    exact foldl_withPosY_add_mono _ (CenterDeltaY_nonneg G _ _ V) c _ _
  · rw [h1]

theorem FormatYChildIsSameRow_straightens (G : FBAGraph) (a : FormatYState) (c : Nat) (pp : Option Nat)
    (p q : Nat) (h : FormatYChildIsSameRow G a c pp p q = true) :
    FormatYPlaceChild G a.F p q = StraightenPin G a.F p q := by
  unfold FormatYChildIsSameRow at h
  simp only [Bool.and_eq_true, Bool.not_eq_true'] at h
  unfold FormatYPlaceChild
  dsimp only
  rw [h.1.2]
  rfl

theorem FormatYChild_YStay (G : FBAGraph) (r : Nat)
    (recurse : Nat → Option Nat → Option Nat → Bool →
      FEdGraphParameterFormatter × List Nat × List Nat → FEdGraphParameterFormatter × List Nat × List Nat)
    (hrec : RecStruct G r recurse) (hdown : RecDown G recurse)
    (c : Nat) (pp : Option Nat) (Children : List Nat) (d : EEdGraphPinDirection) (MyPin : Nat)
    (hown : G.OwningNode MyPin = c) (F0 : FEdGraphParameterFormatter) (V0 O0 : List Nat) (y0 : Int)
    (hcV : c ∉ V0) (a : FormatYState) (OtherPin : Nat)
    (h : YSt r c V0 O0 y0 False a) (hj : YStay F0 V0 c a) :
    YStay F0 V0 c (FormatYChild G recurse c pp Children d MyPin a OtherPin) := by
  unfold FormatYChild
  dsimp only
  split_ifs with hskip
  · exact hj
  · have hnv : G.OwningNode OtherPin ∉ a.VisitedNodes := by
      simp only [Bool.or_eq_true, decide_eq_true_eq, not_or] at hskip
      exact hskip.2
    obtain ⟨h1, h2, _, _, _, _⟩ := h
    obtain ⟨j1, j2⟩ := hj
    have hkc : c ≠ G.OwningNode OtherPin := fun hx => hnv (hx ▸ h2)
    have hpost := hrec (G.OwningNode OtherPin) (some OtherPin) (some MyPin)
      (FormatYChildIsSameRow G a c pp MyPin OtherPin) (FormatYPlaceChild G a.F MyPin OtherPin, a.VisitedNodes, [])
    have hdn := hdown (G.OwningNode OtherPin) (some OtherPin) (some MyPin)
      (FormatYChildIsSameRow G a c pp MyPin OtherPin) (FormatYPlaceChild G a.F MyPin OtherPin, a.VisitedNodes, [])
    have hal : FormatYChildIsSameRow G a c pp MyPin OtherPin = true →
        GetPinY G (FormatYPlaceChild G a.F MyPin OtherPin) MyPin
          ≤ GetPinY G (FormatYPlaceChild G a.F MyPin OtherPin) OtherPin := by
      intro hb
      rw [FormatYChildIsSameRow_straightens G a c pp MyPin OtherPin hb]
      exact le_of_eq (StraightenPin_aligned G a.F MyPin OtherPin (by rw [hown]; exact hkc.symm)).symm
    generalize recurse (G.OwningNode OtherPin) (some OtherPin) (some MyPin)
      (FormatYChildIsSameRow G a c pp MyPin OtherPin)
      (FormatYPlaceChild G a.F MyPin OtherPin, a.VisitedNodes, []) = res at hpost hdn ⊢
    obtain ⟨_, p2, _, _⟩ := hpost
    obtain ⟨d1, _, d3⟩ := hdn
    dsimp only at p2 d1 d3
    have p2x : ∀ n ∈ res.2.2, n ∉ a.VisitedNodes := by
      intro n hn
      rcases p2 n hn with hx | hx
      · simp at hx
      · exact hx.2
    refine ⟨?_, ?_⟩
    · intro v hv
      have hva := h1 v hv
      have hvc : v ≠ c := fun hx => hcV (hx ▸ hv)
      have hvk : v ≠ G.OwningNode OtherPin := fun hx => hnv (hx ▸ hva)
      simp only [FormatYAfterChild]
      rw [FormatYAvoidPin_other G res.1 d a.LastLinked res.2.2 v (fun hx => p2x v hx hva),
        d1 v hva (fun _ p hp => by cases hp; rw [hown]; exact hvc.symm),
        FormatYPlaceChild_other G a.F MyPin OtherPin v hvk]
      exact j1 v hv
    · simp only [FormatYAfterChild]
      rw [FormatYAvoidPin_other G res.1 d a.LastLinked res.2.2 c (fun hx => p2x c hx h2)]
      refine le_trans j2 ?_
      rw [← FormatYPlaceChild_other G a.F MyPin OtherPin c hkc]
      by_cases hb : FormatYChildIsSameRow G a c pp MyPin OtherPin = true
      · have := d3 hb MyPin OtherPin rfl rfl rfl (by rw [hown]; exact hkc) (hal hb)
        rw [hown] at this
        exact this
      · exact le_of_eq (d1 c h2 (fun hb1 => absurd hb1 hb)).symm

theorem FormatYPin_YStay (G : FBAGraph) (r : Nat)
    (recurse : Nat → Option Nat → Option Nat → Bool →
      FEdGraphParameterFormatter × List Nat × List Nat → FEdGraphParameterFormatter × List Nat × List Nat)
    (hrec : RecStruct G r recurse) (hrecY : RecOnlyY recurse) (hdown : RecDown G recurse)
    (c : Nat) (pp : Option Nat) (Children : List Nat) (d : EEdGraphPinDirection)
    (F0 : FEdGraphParameterFormatter) (V0 O0 : List Nat) (y0 : Int) (hcV : c ∉ V0)
    (Vd : List Nat) (a : FormatYState) (MyPin : Nat) (hown : G.OwningNode MyPin = c)
    (h : (YSt r c V0 O0 y0 False a ∧ YDir Vd a) ∧ YStay F0 V0 c a) :
    (YSt r c V0 O0 y0 False (FormatYPin G recurse c pp Children d a MyPin)
        ∧ YDir Vd (FormatYPin G recurse c pp Children d a MyPin))
      ∧ YStay F0 V0 c (FormatYPin G recurse c pp Children d a MyPin) := by
  unfold FormatYPin
  dsimp only
  have hfold := foldl_inv (fun s => (YSt r c V0 O0 y0 False s ∧ YDir Vd s) ∧ YStay F0 V0 c s)
    (FormatYChild G recurse c pp Children d MyPin) (G.pin MyPin).LinkedTo a h
    (fun s q hs => ⟨FormatYChild_YSt G r recurse hrec hrecY c pp Children d MyPin hown V0 O0 y0 False
        (fun hf => hf.elim) Vd s q hs.1.1 hs.1.2,
      FormatYChild_YStay G r recurse hrec hdown c pp Children d MyPin hown F0 V0 O0 y0 hcV s q
        hs.1.1 hs.2⟩)
  split_ifs
  · exact h
  · exact hfold
  · exact hfold

theorem FormatYDirection_YStay (G : FBAGraph) (hwf : PinsOwned G) (r : Nat)
    (recurse : Nat → Option Nat → Option Nat → Bool →
      FEdGraphParameterFormatter × List Nat × List Nat → FEdGraphParameterFormatter × List Nat × List Nat)
    (hrec : RecStruct G r recurse) (hrecY : RecOnlyY recurse) (hdown : RecDown G recurse)
    (c : Nat) (pp : Option Nat) (Children : List Nat) (d : EEdGraphPinDirection)
    (F0 : FEdGraphParameterFormatter) (V0 O0 : List Nat) (y0 : Int) (hcV : c ∉ V0) (a : FormatYState)
    (h : YSt r c V0 O0 y0 False a) (hj : YStay F0 V0 c a) :
    YStay F0 V0 c (FormatYDirection G recurse c pp Children a d) := by
  have h0 : (YSt r c V0 O0 y0 False { a with LastLinked := none, ChildBranches := [] }
      ∧ YDir a.VisitedNodes { a with LastLinked := none, ChildBranches := [] })
      ∧ YStay F0 V0 c { a with LastLinked := none, ChildBranches := [] } := by
    obtain ⟨h1, h2, h3, h4, _, h7⟩ := h
    exact ⟨⟨⟨h1, h2, h3, h4, fun br hbr => by simp at hbr, h7⟩, fun v hv => Or.inl hv⟩, hj⟩
  have hfold := foldl_inv_mem
    (fun (p : FormatYState) => (YSt r c V0 O0 y0 False p ∧ YDir a.VisitedNodes p) ∧ YStay F0 V0 c p)
    (FormatYPin G recurse c pp Children d) (GetPinsByDirection G c d)
    { a with LastLinked := none, ChildBranches := [] } h0
    (fun p x hx hp => FormatYPin_YStay G r recurse hrec hrecY hdown c pp Children d F0 V0 O0 y0 hcV
      a.VisitedNodes p x (mem_GetPinsByDirection_owner G hwf c d x hx) hp)
  unfold FormatYDirection
  dsimp only
  generalize (GetPinsByDirection G c d).foldl (FormatYPin G recurse c pp Children d)
    { a with LastLinked := none, ChildBranches := [] } = d1 at hfold ⊢
  obtain ⟨⟨⟨_, _, _, _, h5, _⟩, _⟩, j1, j2⟩ := hfold
  split_ifs
  · have hcb : c ∉ d1.ChildBranches.flatMap (fun b => b.BranchNodes) := by
      intro hx
      simp only [List.mem_flatMap] at hx
      obtain ⟨br, hbr, hn⟩ := hx
      exact (h5 br hbr c hn).2.2 rfl
    refine ⟨?_, le_trans j2 (CenterBranches_mono G d1.F c d1.ChildBranches d1.VisitedNodes hcb)⟩
    intro v hv
    have hvb : v ∉ d1.ChildBranches.flatMap (fun b => b.BranchNodes) := by
      intro hx
      simp only [List.mem_flatMap] at hx
      obtain ⟨br, hbr, hn⟩ := hx
      exact (h5 br hbr v hn).2.1 hv
    show (CenterBranches G d1.F c d1.ChildBranches d1.VisitedNodes).NodePosY v = F0.NodePosY v
    rw [CenterBranches_other G d1.F c d1.ChildBranches d1.VisitedNodes v hvb
      (Or.inl (fun hx => hcV (hx ▸ hv)))]
    exact j1 v hv
  · exact ⟨j1, j2⟩

/-- The body of `FormatY` satisfies `YDown` when its recursive call does. -/
theorem FormatYBody_down (G : FBAGraph) (hwf : PinsOwned G) (r : Nat)
    (recurse : Nat → Option Nat → Option Nat → Bool →
      FEdGraphParameterFormatter × List Nat × List Nat → FEdGraphParameterFormatter × List Nat × List Nat)
    (hrec : RecStruct G r recurse) (hrecY : RecOnlyY recurse) (hdown : RecDown G recurse) :
    RecDown G (FormatYBody G recurse) := by
  intro c cp pp bsr acc
  unfold FormatYBody
  dsimp only
  split_ifs with hvis
  · exact YDown_refl G c cp pp bsr acc
  · have hst0 : YSt r c acc.2.1 acc.2.2 0 False
        { F := FormatYCollision G c acc.2.1 100 acc.1, VisitedNodes := setAdd acc.2.1 c,
          OutChildren := acc.2.2, bFirstPin := true, LastLinked := none, ChildBranches := [] } := by
      refine ⟨?_, ?_, ?_, ?_, ?_, fun hf => hf.elim⟩
      · intro v hv; exact (mem_setAdd _ _ _).2 (Or.inr hv)
      · exact (mem_setAdd _ _ _).2 (Or.inl rfl)
      · intro n hn; exact Or.inl hn
      · intro v hv
        rcases (mem_setAdd _ _ _).1 hv with hx | hx
        · exact Or.inr (Or.inr hx)
        · exact Or.inl hx
      · intro br hbr; simp at hbr
    have hj0 : YStay acc.1 acc.2.1 c
        { F := FormatYCollision G c acc.2.1 100 acc.1, VisitedNodes := setAdd acc.2.1 c,
          OutChildren := acc.2.2, bFirstPin := true, LastLinked := none, ChildBranches := [] } :=
      ⟨fun v hv => FormatYCollision_other G c acc.2.1 v (fun hx => hvis (hx ▸ hv)) 100 acc.1,
        FormatYCollision_mono G c acc.2.1 100 acc.1⟩
    have hA := FormatYDirection_YSt G hwf r recurse hrec hrecY c pp
      (match mapFind acc.1.NodeInfoMap c with
        | some i => GetChildNodes acc.1.Infos i
        | none => []) EGPD_Input acc.2.1 acc.2.2 0 False hvis (fun hf => hf.elim) _
      (fun _ v hv => ((mem_setAdd _ _ _).1 hv).symm) hst0
    have jA := FormatYDirection_YStay G hwf r recurse hrec hrecY hdown c pp
      (match mapFind acc.1.NodeInfoMap c with
        | some i => GetChildNodes acc.1.Infos i
        | none => []) EGPD_Input acc.1 acc.2.1 acc.2.2 0 hvis _ hst0 hj0
    have jB := FormatYDirection_YStay G hwf r recurse hrec hrecY hdown c pp
      (match mapFind acc.1.NodeInfoMap c with
        | some i => GetChildNodes acc.1.Infos i
        | none => []) EGPD_Output acc.1 acc.2.1 acc.2.2 0 hvis _ hA jA
    simp only [List.foldl_cons, List.foldl_nil]
    generalize FormatYDirection G recurse c pp _ (FormatYDirection G recurse c pp _ _ EGPD_Input)
      EGPD_Output = stEnd at jB ⊢
    obtain ⟨j1, j2⟩ := jB
    refine ⟨?_, ?_, ?_⟩
    · intro v hv hb
      dsimp only
      unfold FormatYFinish
      split
      · rename_i cp0 pp0
        rw [StraightenPin_other G stEnd.F cp0 pp0 v (fun hx => hb rfl pp0 rfl hx.symm)]
        exact j1 v hv
      · exact j1 v hv
    · intro hb
      dsimp only
      unfold FormatYFinish
      split
      · rename_i cp0 pp0
        rw [StraightenPin_other G stEnd.F cp0 pp0 c (fun hx => hb rfl pp0 rfl hx.symm)]
        exact j2
      · exact j2
    · intro hb p q hp hq hoq hop hal
      subst hb
      subst hp
      subst hq
      dsimp only
      show acc.1.NodePosY (G.OwningNode p) ≤ (StraightenPin G stEnd.F q p).NodePosY (G.OwningNode p)
      simp only [StraightenPin, withPosY, setPos, if_true, GetPinY] at hal ⊢
      rw [hoq] at hal ⊢
      omega

theorem FormatY_down (G : FBAGraph) (hwf : PinsOwned G) : ∀ fuel : Nat, RecDown G (FormatY G fuel) := by
  intro fuel
  induction fuel with
  | zero => intro c cp pp b acc; exact YDown_refl G c cp pp b acc
  | succ n ih => exact FormatYBody_down G hwf 0 _ (FormatY_struct G hwf 0 n) (OnlyY_FormatY G n) ih

/-- What the helixing branch of the placement stores: the binary32 sum of
the bottom of the parent and the padding, a whole number that the `int32`
position holds as it is. -/
theorem helix_place_whole (G : FBAGraph) (F : FEdGraphParameterFormatter) (P : Nat) :
    ofInt32 (toInt32 (fadd (GetCachedNodeBounds32 G F P).Bottom (ofInt32 G.Settings.PaddingY)))
      = fadd (GetCachedNodeBounds32 G F P).Bottom (ofInt32 G.Settings.PaddingY) := by
  have hb : ∃ m : Int, (GetCachedNodeBounds32 G F P).Bottom = m * F32One := by
    show ∃ m : Int, fadd (ofInt32 (F.NodePosY P)) (ofInt32 (G.node P).SizeY) = m * F32One
    exact fadd_whole_exists _ _ (roundF32_whole_exists _) (roundF32_whole_exists _)
  obtain ⟨m, hm⟩ := fadd_whole_exists _ _ hb (roundF32_whole_exists G.Settings.PaddingY)
  exact (ofInt32_toInt32_whole _ (IsF32_roundF32 _) m hm).2

/-- In the witness the input-side node A is placed at Y = 205, the bottom of
the root (180) plus the padding (25), and stays there through its call.  With
the bottom of the parent at 16777216 the placement stores 16777240, the
binary32 value of 16777241. -/
theorem FormatY_helixed_child_helixChainGraph :
    (FormatYPlaceChild helixChainGraph helixChainLoop.F 0 1).NodePosY 1 = 205
      ∧ (FormatY helixChainGraph 4 1 (some 1) (some 0) false
          (FormatYPlaceChild helixChainGraph helixChainLoop.F 0 1, helixChainLoop.VisitedNodes,
            [])).1.NodePosY 1 = 205
      ∧ (FormatYPlaceChild helixChainGraph (withPosY helixChainLoop.F 0 16777136) 0 1).NodePosY 1
        = 16777240 := by
  decide

/-! ## The cache never holds the anchor -/

theorem SimpleRelativeFormatting_cfg (S : FEdGraphParameterFormatter)
    (h : ∀ k ∈ S.NodeOffsets.map Prod.fst, S.NodeToKeepStill ≠ some k) :
    (SimpleRelativeFormatting S).NodeOffsets = S.NodeOffsets
      ∧ (SimpleRelativeFormatting S).NodeToKeepStill = S.NodeToKeepStill := by
  unfold SimpleRelativeFormatting
  cases hk : S.NodeToKeepStill with
  | none => exact ⟨rfl, hk⟩
  | some Keep =>
    dsimp only
    have hnot : Keep ∉ S.NodeOffsets.map Prod.fst := fun hc => h Keep hc hk
    have hc := (restOf_fields (applyOffset_fold Keep S.NodeOffsets S hnot).1).2
    simp only [cfgOf, Prod.mk.injEq] at hc
    exact ⟨hc.2.2.2.2, hc.2.1.trans hk⟩

/-- `FormatNode` keeps the keep-still node and either keeps the cache or
empties it. -/
theorem FormatNode_cache (G : FBAGraph) (S : FEdGraphParameterFormatter)
    (h : ∀ k ∈ S.NodeOffsets.map Prod.fst, S.NodeToKeepStill ≠ some k) :
    (FormatNode G S).NodeToKeepStill = S.NodeToKeepStill
      ∧ ((FormatNode G S).NodeOffsets = S.NodeOffsets ∨ (FormatNode G S).NodeOffsets = []) := by
  obtain ⟨_, f2, _, _, f5, hnd, _⟩ := FormatNodeLayout_frame G S
  unfold FormatNode
  dsimp only
  split_ifs
  · exact ⟨rfl, Or.inl rfl⟩
  · exact ⟨rfl, Or.inl rfl⟩
  · exact ⟨(SimpleRelativeFormatting_cfg S h).2, Or.inl (SimpleRelativeFormatting_cfg S h).1⟩
  · have hc := (restOf_fields (translate_fold
      ((GetCachedNodeBounds G S (S.NodeToKeepStill.getD (S.RootNode.getD 0))).Left
        - (GetCachedNodeBounds G (FormatNodeLayout G S)
            (S.NodeToKeepStill.getD (S.RootNode.getD 0))).Left)
      ((GetCachedNodeBounds G S (S.NodeToKeepStill.getD (S.RootNode.getD 0))).Top
        - (GetCachedNodeBounds G (FormatNodeLayout G S)
            (S.NodeToKeepStill.getD (S.RootNode.getD 0))).Top)
      _ (FormatNodeLayout G S) hnd).1).2
    simp only [cfgOf, Prod.mk.injEq] at hc
    exact ⟨hc.2.1.trans f2, Or.inr (hc.2.2.2.2.trans f5)⟩
  · exact ⟨f2, Or.inr f5⟩

theorem saveOffset_keys (Keep : Nat) (ns : List Nat) (a : FEdGraphParameterFormatter)
    (h : (a.NodeOffsets.map Prod.fst).Nodup ∧ Keep ∉ a.NodeOffsets.map Prod.fst) :
    ((ns.foldl (saveOffset Keep) a).NodeOffsets.map Prod.fst).Nodup
      ∧ Keep ∉ (ns.foldl (saveOffset Keep) a).NodeOffsets.map Prod.fst
      ∧ (ns.foldl (saveOffset Keep) a).NodeToKeepStill = a.NodeToKeepStill := by
  have key := foldl_inv (fun b : FEdGraphParameterFormatter =>
      ((b.NodeOffsets.map Prod.fst).Nodup ∧ Keep ∉ b.NodeOffsets.map Prod.fst)
        ∧ b.NodeToKeepStill = a.NodeToKeepStill) (saveOffset Keep) ns a ⟨h, rfl⟩ (by
    rintro b x ⟨⟨h1, h2⟩, h3⟩
    unfold saveOffset
    split_ifs with hx
    · obtain ⟨k1, k2, _⟩ := offsetsAdd_keys b.NodeOffsets x
        (ofInt32 (b.NodePosX x - b.NodePosX Keep), ofInt32 (b.NodePosY x - b.NodePosY Keep))
      refine ⟨⟨k1 h1, ?_⟩, h3⟩
      intro hc
      rcases (k2 Keep).1 hc with hk | hk
      · simp [hk] at hx
      · exact h2 hk
    · exact ⟨⟨h1, h2⟩, h3⟩)
  exact ⟨key.1.1, key.1.2, key.2⟩

theorem applyOffset_fold_perm (Keep : Nat) (l l' : List (Nat × Int × Int)) (hp : l.Perm l')
    (hnd : (l'.map Prod.fst).Nodup) (hk : Keep ∉ l'.map Prod.fst)
    (a a' : FEdGraphParameterFormatter) (hx : a.NodePosX = a'.NodePosX) (hy : a.NodePosY = a'.NodePosY) :
    (l.foldl (applyOffset Keep) a).NodePosX = (l'.foldl (applyOffset Keep) a').NodePosX
      ∧ (l.foldl (applyOffset Keep) a).NodePosY = (l'.foldl (applyOffset Keep) a').NodePosY := by
  have hpk : (l.map Prod.fst).Perm (l'.map Prod.fst) := hp.map _
  have hnd1 : (l.map Prod.fst).Nodup := hpk.nodup_iff.2 hnd
  have hk1 : Keep ∉ l.map Prod.fst := fun hc => hk (hpk.mem_iff.1 hc)
  obtain ⟨_, p2, p3⟩ := applyOffset_fold Keep l a hk1
  obtain ⟨_, q2, q3⟩ := applyOffset_fold Keep l' a' hk
  have key : ∀ n, (l.foldl (applyOffset Keep) a).NodePosX n = (l'.foldl (applyOffset Keep) a').NodePosX n
      ∧ (l.foldl (applyOffset Keep) a).NodePosY n = (l'.foldl (applyOffset Keep) a').NodePosY n := by
    intro n
    by_cases hn : n ∈ l.map Prod.fst
    · obtain ⟨e, he, rfl⟩ := List.mem_map.1 hn
      have he' : e ∈ l' := hp.mem_iff.1 he
      rw [(p3 hnd1 e he).1, (p3 hnd1 e he).2, (q3 hnd e he').1, (q3 hnd e he').2, hx, hy]
      exact ⟨rfl, rfl⟩
    · have hn' : n ∉ l'.map Prod.fst := fun hc => hn (hpk.mem_iff.2 hc)
      rw [(p2 n hn).1, (p2 n hn).2, (q2 n hn').1, (q2 n hn').2, hx, hy]
      exact ⟨rfl, rfl⟩
  exact ⟨funext fun n => (key n).1, funext fun n => (key n).2⟩

/-- C34. The cache never holds the anchor.  The cache of a new formatter is
well formed (pairwise different keys, none of them the keep-still node), and
`FormatNode` and `SaveRelativePositions` keep it well formed and keep the
keep-still node.  On a formatter with a well-formed cache
`SimpleRelativeFormatting` leaves the keep-still node where it is, leaves
every node that is not a key of `NodeOffsets` where it is, and gives the same
positions in whatever order the entries of the cache are applied. -/
theorem SimpleRelativeFormatting_anchor_free (G : FBAGraph) (S : FEdGraphParameterFormatter)
    (h : CacheOk S) :
    (∀ r k ign X Y, CacheOk (FEdGraphParameterFormatter.new r k ign X Y))
      ∧ (CacheOk (FormatNode G S) ∧ (FormatNode G S).NodeToKeepStill = S.NodeToKeepStill)
      ∧ (CacheOk (SaveRelativePositions S)
          ∧ (SaveRelativePositions S).NodeToKeepStill = S.NodeToKeepStill)
      ∧ (∀ k, S.NodeToKeepStill = some k →
          (SimpleRelativeFormatting S).NodePosX k = S.NodePosX k
            ∧ (SimpleRelativeFormatting S).NodePosY k = S.NodePosY k)
      ∧ (∀ n, n ∉ S.NodeOffsets.map Prod.fst →
          (SimpleRelativeFormatting S).NodePosX n = S.NodePosX n
            ∧ (SimpleRelativeFormatting S).NodePosY n = S.NodePosY n)
      ∧ (∀ l : List (Nat × Int × Int), l.Perm S.NodeOffsets →
          (SimpleRelativeFormatting (withOffsets S l)).NodePosX = (SimpleRelativeFormatting S).NodePosX
            ∧ (SimpleRelativeFormatting (withOffsets S l)).NodePosY
              = (SimpleRelativeFormatting S).NodePosY) := by
  obtain ⟨hnd, hkey⟩ := h
  have hframe : ∀ n, n ∉ S.NodeOffsets.map Prod.fst →
      (SimpleRelativeFormatting S).NodePosX n = S.NodePosX n
        ∧ (SimpleRelativeFormatting S).NodePosY n = S.NodePosY n := by
    intro n hn
    unfold SimpleRelativeFormatting
    cases hk : S.NodeToKeepStill with
    | none => exact ⟨rfl, rfl⟩
    | some Keep =>
      exact (applyOffset_fold Keep S.NodeOffsets S (fun hc => hkey Keep hc hk)).2.1 n hn
  refine ⟨?_, ?_, ?_, ?_, hframe, ?_⟩
  · intro r k ign X Y
    exact ⟨List.nodup_nil, fun k hk => absurd hk (List.not_mem_nil _)⟩
  · obtain ⟨c1, c2⟩ := FormatNode_cache G S hkey
    refine ⟨?_, c1⟩
    rcases c2 with c2 | c2
    · unfold CacheOk
      rw [c2, c1]
      exact ⟨hnd, hkey⟩
    · unfold CacheOk
      rw [c2]
      exact ⟨List.nodup_nil, fun k hk => absurd hk (List.not_mem_nil _)⟩
  · unfold SaveRelativePositions
    cases hk : S.NodeToKeepStill with
    | none =>
      dsimp only
      exact ⟨⟨hnd, fun k hm => by rw [hk]; exact fun hc => by cases hc⟩, hk⟩
    | some Keep =>
      dsimp only
      obtain ⟨s1, s2, s3⟩ := saveOffset_keys Keep (GetFormattedNodes S) S
        ⟨hnd, fun hc => hkey Keep hc hk⟩
      refine ⟨⟨s1, ?_⟩, s3.trans hk⟩
      intro k hm
      rw [s3, hk]
      intro hc
      cases hc
      exact s2 hm
  · intro k hk
    exact hframe k (fun hc => hkey k hc hk)
  · intro l hp
    unfold SimpleRelativeFormatting
    have hk' : (withOffsets S l).NodeToKeepStill = S.NodeToKeepStill := rfl
    rw [hk']
    cases hk : S.NodeToKeepStill with
    | none => exact ⟨rfl, rfl⟩
    | some Keep =>
      exact applyOffset_fold_perm Keep l S.NodeOffsets hp hnd (fun hc => hkey Keep hc hk)
        (withOffsets S l) S rfl rfl

theorem SimpleRelativeFormatting_anchor_free_witness :
    (SimpleRelativeFormatting chainCached).NodePosX 0 = chainCached.NodePosX 0
      ∧ (SimpleRelativeFormatting chainCached).NodePosY 0 = chainCached.NodePosY 0 :=
  (SimpleRelativeFormatting_anchor_free chainGraph chainCached
    (by unfold CacheOk; decide)).2.2.2.1 0 (by decide)

/-- The cache of the witness holds one entry, for A (node 1). -/
theorem chainCached_NodeOffsets : chainCached.NodeOffsets.map Prod.fst = [1] := by
  decide

/-! ## The traversal of `DoesHelixingApply`: a single chain, and termination -/

theorem HelixChain_concat (G : FBAGraph) (S : FEdGraphParameterFormatter) (V : List Nat) (Root k : Nat)
    (hne : V ≠ []) (h : HelixChain G S V)
    (hk : LinkedToNodesInput G S (V.getLastD Root) = [k]) : HelixChain G S (V ++ [k]) := by
  intro i hi
  simp only [List.length_append, List.length_singleton] at hi
  by_cases hlt : i + 1 < V.length
  · rw [List.getD_append _ _ _ _ (by omega), List.getD_append _ _ _ _ hlt]
    exact h i hlt
  · have hi1 : i + 1 = V.length := by omega
    have hlast : V.getD i 0 = V.getLastD Root := by
      obtain ⟨T, x, rfl⟩ : ∃ T x, V = T ++ [x] := by
        rcases List.eq_nil_or_concat V with h0 | ⟨T, x, hT⟩
        · exact absurd h0 hne
        · exact ⟨T, x, by simpa using hT⟩
      simp only [List.length_append, List.length_singleton] at hi1
      have hiT : i = T.length := by omega
      subst hiT
      simp [List.getD_eq_getElem?_getD]
    rw [List.getD_append _ _ _ _ (by omega), hlast, hk]
    congr 1
    rw [List.getD_eq_getElem?_getD, hi1]
    simp

theorem HelixLine_step (G : FBAGraph) (S : FEdGraphParameterFormatter) (Root : Nat) (st : HelixState)
    (x : Nat) (h : HelixLine G S Root st) (hq : st.NodeQueue.getLast? = some x)
    (hlen : (LinkedToNodesInput G S x).length ≤ 1) :
    HelixLine G S Root ((LinkedToNodesInput G S x).foldl (HelixEnqueue S)
      { VisitedNodes := st.VisitedNodes, NodeQueue := st.NodeQueue.dropLast,
        GatheredInputNodes := setAppend st.GatheredInputNodes (LinkedToNodesInput G S x) }) := by
  obtain ⟨h1, h2, h3⟩ := h
  rcases h3 with ⟨hQ, hG⟩ | ⟨hQ, _⟩
  swap
  · rw [hQ] at hq
    simp at hq
  have hx : x = st.VisitedNodes.getLastD Root := by
    rw [hQ] at hq
    simpa using hq.symm
  have hdrop : st.NodeQueue.dropLast = [] := by rw [hQ]; rfl
  have hne : st.VisitedNodes ≠ [] := by
    intro h0
    rw [h0] at h1
    simp at h1
  rw [hdrop]
  have hstop : HelixLine G S Root
      { VisitedNodes := st.VisitedNodes, NodeQueue := [],
        GatheredInputNodes := setAppend st.GatheredInputNodes (LinkedToNodesInput G S x) } := by
    refine ⟨h1, h2, Or.inr ⟨rfl, fun g => ?_⟩⟩
    dsimp only
    rw [mem_setAppend, hG g, ← hx]
  match hL : LinkedToNodesInput G S x, hlen with
  | [], _ =>
    rw [hL] at hstop
    exact hstop
  | [k], _ =>
    rw [hL] at hstop
    simp only [List.foldl_cons, List.foldl_nil]
    unfold HelixEnqueue
    dsimp only
    split_ifs with hv hi
    · exact hstop
    · exact hstop
    · have hadd : setAdd st.VisitedNodes k = st.VisitedNodes ++ [k] := by
        unfold setAdd
        rw [if_neg hv]
      rw [hadd]
      refine ⟨?_, HelixChain_concat G S _ Root k hne h2 (by rw [← hx]; exact hL), Or.inl ⟨?_, ?_⟩⟩
      · dsimp only
        rw [List.head?_append_of_ne_nil _ hne]
        exact h1
      · dsimp only
        simp
      · intro g
        dsimp only
        rw [mem_setAppend, hG g]
        obtain ⟨a, T, hV⟩ := List.exists_cons_of_ne_nil hne
        rw [hV]
        simp
  | _ :: _ :: _, hlen => simp at hlen

theorem DoesHelixingApplyLoop_line (G : FBAGraph) (S : FEdGraphParameterFormatter) (Root : Nat) :
    ∀ (fuel : Nat) (st st' : HelixState), HelixLine G S Root st →
      DoesHelixingApplyLoop G S Root fuel st = some (some st') → HelixLine G S Root st' := by
  intro fuel
  induction fuel with
  | zero =>
    intro st st' hinv h
    simp only [DoesHelixingApplyLoop] at h
    split_ifs at h
    simp only [Option.some.injEq] at h
    subst h
    exact hinv
  | succ n ih =>
    intro st st' hinv h
    simp only [DoesHelixingApplyLoop] at h
    split at h
    · simp only [Option.some.injEq] at h
      subst h
      exact hinv
    · rename_i x hq
      split_ifs at h with hd
      · simp at h
      simp only [gt_iff_lt, Bool.or_eq_true, decide_eq_true_eq, not_or, not_lt] at hd
      exact ih _ st' (HelixLine_step G S Root st x hinv hq hd.1) h

theorem HelixEnqueue_fold_measure (G : FBAGraph) (S : FEdGraphParameterFormatter) :
    ∀ (L : List Nat) (a : HelixState), (∀ k ∈ L, k ∈ ownerNodes G) →
      helixMeasure G (L.foldl (HelixEnqueue S) a) ≤ helixMeasure G a := by
  intro L
  induction L with
  | nil => intro a _; exact le_refl _
  | cons x xs ih =>
    intro a hL
    simp only [List.foldl_cons]
    refine le_trans (ih _ (fun k hk => hL k (List.mem_cons_of_mem _ hk))) ?_
    unfold HelixEnqueue
    split_ifs with hv hi
    · exact le_refl _
    · exact le_refl _
    · have := unvisitedOwners_lt G a.VisitedNodes x (hL x (List.mem_cons_self _ _)) hv
      simp only [helixMeasure, List.length_append, List.length_singleton]
      omega

theorem LinkedToNodesInput_owner (G : FBAGraph) (S : FEdGraphParameterFormatter) (n : Nat) :
    ∀ k ∈ LinkedToNodesInput G S n, k ∈ ownerNodes G := by
  intro k hk
  obtain ⟨q, _, _, _, _, rfl⟩ := (mem_LinkedToNodesInput G S n k).1 hk
  exact OwningNode_mem_ownerNodes G q

/-- The loop of `DoesHelixingApply` ends within the fuel when the fuel covers
the queued nodes and the pin owners not yet visited. -/
theorem DoesHelixingApplyLoop_terminates (G : FBAGraph) (S : FEdGraphParameterFormatter) (Root : Nat) :
    ∀ (fuel : Nat) (st : HelixState), helixMeasure G st ≤ fuel →
      ∃ r, DoesHelixingApplyLoop G S Root fuel st = some r := by
  intro fuel
  induction fuel with
  | zero =>
    intro st hm
    have hq : st.NodeQueue = [] := by
      simp only [helixMeasure] at hm
      exact List.length_eq_zero.1 (by omega)
    exact ⟨some st, by simp [DoesHelixingApplyLoop, hq]⟩
  | succ n ih =>
    intro st hm
    simp only [DoesHelixingApplyLoop]
    split
    · exact ⟨_, rfl⟩
    · rename_i x hq
      split_ifs
      · exact ⟨_, rfl⟩
      · refine ih _ ?_
        have hlen : st.NodeQueue.dropLast.length + 1 = st.NodeQueue.length := by
          rw [← List.dropLast_append_getLast? x hq]
          simp
        have hfold := HelixEnqueue_fold_measure G S (LinkedToNodesInput G S x)
          { VisitedNodes := st.VisitedNodes, NodeQueue := st.NodeQueue.dropLast,
            GatheredInputNodes := setAppend st.GatheredInputNodes (LinkedToNodesInput G S x) }
          (LinkedToNodesInput_owner G S x)
        simp only [helixMeasure] at hm hfold ⊢
        omega

theorem LinkedToNodesInput_no_pins (G : FBAGraph) (S : FEdGraphParameterFormatter) (n : Nat)
    (h : (G.node n).Pins = []) : LinkedToNodesInput G S n = [] := by
  simp [LinkedToNodesInput, GetLinkedToPins, GetLinkedPins, GetPinsByDirection, h]

/-- With the fuel that `DoesHelixingApply` gives to its loop, the loop ends on
every graph whose pins are owned by the nodes that list them. -/
theorem DoesHelixingApplyLoop_total (G : FBAGraph) (hwf : PinsOwned G) (S : FEdGraphParameterFormatter)
    (Root : Nat) :
    ∃ r, DoesHelixingApplyLoop G S Root (G.Pins.length + 1)
      { VisitedNodes := [Root], NodeQueue := [Root], GatheredInputNodes := [] } = some r := by
  by_cases hr : Root ∈ ownerNodes G
  · apply DoesHelixingApplyLoop_terminates
    have h1 := unvisitedOwners_lt G [] Root hr (List.not_mem_nil _)
    have h2 := unvisitedOwners_le G []
    have h3 : setAdd [] Root = [Root] := rfl
    rw [h3] at h1
    simp only [helixMeasure, List.length_singleton]
    omega
  · have hp : (G.node Root).Pins = [] := by
      rw [List.eq_nil_iff_forall_not_mem]
      intro p hp
      exact hr (PinsOwned_owner G hwf Root p hp ▸ OwningNode_mem_ownerNodes G p)
    have hin := LinkedToNodesInput_no_pins G S Root hp
    have hout : LinkedToNodesOutput G S Root Root = [] := by
      simp [LinkedToNodesOutput, GetLinkedToPins, GetLinkedPins, GetPinsByDirection, hp]
    simp only [DoesHelixingApplyLoop, List.getLast?_singleton, hin, hout, List.length_nil,
      gt_iff_lt, Nat.not_lt_zero, decide_False, Bool.or_self, Bool.false_eq_true, if_false,
      List.foldl_nil, List.dropLast_single, setAppend]
    cases G.Pins.length with
    | zero => simp [DoesHelixingApplyLoop]
    | succ n => simp [DoesHelixingApplyLoop]

theorem DoesHelixingApplyLoop_nodup (G : FBAGraph) (S : FEdGraphParameterFormatter) (Root : Nat) :
    ∀ (fuel : Nat) (st st' : HelixState), st.VisitedNodes.Nodup →
      DoesHelixingApplyLoop G S Root fuel st = some (some st') → st'.VisitedNodes.Nodup := by
  intro fuel
  induction fuel with
  | zero =>
    intro st st' hinv h
    simp only [DoesHelixingApplyLoop] at h
    split_ifs at h
    simp only [Option.some.injEq] at h
    subst h
    exact hinv
  | succ n ih =>
    intro st st' hinv h
    simp only [DoesHelixingApplyLoop] at h
    split at h
    · simp only [Option.some.injEq] at h
      subst h
      exact hinv
    · rename_i x hq
      split_ifs at h with hd
      · simp at h
      refine ih _ st' ?_ h
      refine foldl_inv (fun a => a.VisitedNodes.Nodup) (HelixEnqueue S) (LinkedToNodesInput G S x)
        { VisitedNodes := st.VisitedNodes, NodeQueue := st.NodeQueue.dropLast,
          GatheredInputNodes := setAppend st.GatheredInputNodes (LinkedToNodesInput G S x) } hinv ?_
      intro a y ha
      unfold HelixEnqueue
      split_ifs
      · exact ha
      · exact ha
      · exact setAdd_nodup y ha

/-- C31. On a graph whose pins are owned by the nodes that list them, the
traversal of `DoesHelixingApply` ends within its fuel, cyclic graphs
included. Whenever `DoesHelixingApply` returns true, the traversal ended with
a state in which: the visited nodes start with the root and are distinct;
every visited node has at most one distinct pure, non-ignored,
parameter-linked node on its input side; each visited node but the last has
the next visited node as its only such input node (a single chain from the
root); every visited node after the root is a gathered input node and every
gathered input node is a visited node. -/
theorem DoesHelixingApply_single_chain (G : FBAGraph) (hwf : PinsOwned G) (S : FEdGraphParameterFormatter) :
    (∃ r, DoesHelixingApplyLoop G S (S.RootNode.getD 0) (G.Pins.length + 1)
        { VisitedNodes := [S.RootNode.getD 0], NodeQueue := [S.RootNode.getD 0],
          GatheredInputNodes := [] } = some r)
      ∧ (DoesHelixingApply G S = true →
          ∃ st, DoesHelixingApplyLoop G S (S.RootNode.getD 0) (G.Pins.length + 1)
              { VisitedNodes := [S.RootNode.getD 0], NodeQueue := [S.RootNode.getD 0],
                GatheredInputNodes := [] } = some (some st)
            ∧ st.VisitedNodes.head? = some (S.RootNode.getD 0)
            ∧ st.VisitedNodes.Nodup
            ∧ (∀ n ∈ st.VisitedNodes, ∀ a b, HelixInputLinked G S n a → HelixInputLinked G S n b → a = b)
            ∧ HelixChain G S st.VisitedNodes
            ∧ (∀ g ∈ st.VisitedNodes.tail, g ∈ st.GatheredInputNodes)
            ∧ (∀ g ∈ st.GatheredInputNodes, g ∈ st.VisitedNodes)) := by
  refine ⟨DoesHelixingApplyLoop_total G hwf S _, ?_⟩
  intro happ
  unfold DoesHelixingApply at happ
  dsimp only at happ
  by_cases hs : ((match G.OverrideFormattingStyle with
      | some o => o
      | none => G.Settings.ParameterStyle) != EBAParameterFormattingStyle.Helixing) = true
  · rw [if_pos hs] at happ
    exact absurd happ Bool.false_ne_true
  rw [if_neg hs] at happ
  cases hloop : DoesHelixingApplyLoop G S (S.RootNode.getD 0) (G.Pins.length + 1)
      { VisitedNodes := [S.RootNode.getD 0], NodeQueue := [S.RootNode.getD 0],
        GatheredInputNodes := [] } with
  | none => rw [hloop] at happ; simp at happ
  | some r =>
    cases r with
    | none => rw [hloop] at happ; simp at happ
    | some st =>
      have hline := DoesHelixingApplyLoop_line G S _ _ _ st
        (show HelixLine G S (S.RootNode.getD 0)
          { VisitedNodes := [S.RootNode.getD 0], NodeQueue := [S.RootNode.getD 0],
            GatheredInputNodes := [] } from
          ⟨rfl, fun i hi => absurd hi (by simp), Or.inl ⟨rfl, fun g => Iff.rfl⟩⟩) hloop
      have hinv := DoesHelixingApplyLoop_inv G S _ _ _ st
        (show HelixInv G S (S.RootNode.getD 0)
          { VisitedNodes := [S.RootNode.getD 0], NodeQueue := [S.RootNode.getD 0],
            GatheredInputNodes := [] } from
          ⟨List.mem_singleton_self _, fun m hm => Or.inl hm⟩) hloop
      have hnd := DoesHelixingApplyLoop_nodup G S _ _ _ st
        (show ([S.RootNode.getD 0] : List Nat).Nodup from List.nodup_singleton _) hloop
      have hvis : ∀ m ∈ st.VisitedNodes, (LinkedToNodesInput G S m).length ≤ 1
          ∧ ∀ k ∈ LinkedToNodesInput G S m, k ∈ st.VisitedNodes := by
        intro m hm
        rcases hinv.1.2 m hm with hq | hq
        · rw [hinv.2] at hq
          exact absurd hq (List.not_mem_nil _)
        · exact ⟨hq.1, hq.2.2⟩
      have hgath : ∀ g, g ∈ st.GatheredInputNodes ↔ g ∈ st.VisitedNodes.tail
          ∨ g ∈ LinkedToNodesInput G S (st.VisitedNodes.getLastD (S.RootNode.getD 0)) := by
        rcases hline.2.2 with hq | hq
        · rw [hinv.2] at hq
          exact absurd hq.1 (by simp)
        · exact hq.2
      have hlast : st.VisitedNodes.getLastD (S.RootNode.getD 0) ∈ st.VisitedNodes := by
        have hhead := hline.1
        cases hV : st.VisitedNodes with
        | nil => rw [hV] at hhead; simp at hhead
        | cons v vs =>
          rw [List.getLastD_cons, List.getLastD_eq_getLast?]
          cases hvs : vs.getLast? with
          | none => simp
          | some z => exact List.mem_cons_of_mem _ (List.mem_of_getLast?_eq_some hvs)
      refine ⟨st, rfl, hline.1, hnd, ?_, hline.2.1, ?_, ?_⟩
      · intro n hn a b ha hb
        by_contra hab
        have := length_gt_one_of_two hab ((mem_LinkedToNodesInput G S n a).2 ha)
          ((mem_LinkedToNodesInput G S n b).2 hb)
        have := (hvis n hn).1
        omega
      · intro g hg
        exact (hgath g).2 (Or.inl hg)
      · intro g hg
        rcases (hgath g).1 hg with h1 | h1
        · exact List.mem_of_mem_tail h1
        · exact (hvis _ hlast).2 g h1

theorem DoesHelixingApply_single_chain_witness :
    DoesHelixingApply limitGraph (FEdGraphParameterFormatter.new (some 0) none [] exPosX exPosY) = true
      ∧ ∃ st, DoesHelixingApplyLoop limitGraph (FEdGraphParameterFormatter.new (some 0) none [] exPosX exPosY)
          ((FEdGraphParameterFormatter.new (some 0) none [] exPosX exPosY).RootNode.getD 0)
          (limitGraph.Pins.length + 1)
          { VisitedNodes := [(FEdGraphParameterFormatter.new (some 0) none [] exPosX exPosY).RootNode.getD 0],
            NodeQueue := [(FEdGraphParameterFormatter.new (some 0) none [] exPosX exPosY).RootNode.getD 0],
            GatheredInputNodes := [] } = some (some st)
        ∧ st.VisitedNodes.head? = some ((FEdGraphParameterFormatter.new (some 0) none [] exPosX exPosY).RootNode.getD 0)
        ∧ st.VisitedNodes.Nodup
        ∧ (∀ n ∈ st.VisitedNodes, ∀ a b,
            HelixInputLinked limitGraph (FEdGraphParameterFormatter.new (some 0) none [] exPosX exPosY) n a →
            HelixInputLinked limitGraph (FEdGraphParameterFormatter.new (some 0) none [] exPosX exPosY) n b →
            a = b)
        ∧ HelixChain limitGraph (FEdGraphParameterFormatter.new (some 0) none [] exPosX exPosY) st.VisitedNodes
        ∧ (∀ g ∈ st.VisitedNodes.tail, g ∈ st.GatheredInputNodes)
        ∧ (∀ g ∈ st.GatheredInputNodes, g ∈ st.VisitedNodes) :=
  ⟨by decide, (DoesHelixingApply_single_chain limitGraph (by unfold PinsOwned; decide)
    (FEdGraphParameterFormatter.new (some 0) none [] exPosX exPosY)).2 (by decide)⟩

/-- The chain that `DoesHelixingApply` walks on the three-node example: the
root, its input node, and the input node of that one. -/
theorem DoesHelixingApplyLoop_limitGraph :
    (DoesHelixingApplyLoop limitGraph (FEdGraphParameterFormatter.new (some 0) none [] exPosX exPosY) 0
        (limitGraph.Pins.length + 1)
        { VisitedNodes := [0], NodeQueue := [0], GatheredInputNodes := [] }).map
      (Option.map (fun st => (st.VisitedNodes, st.GatheredInputNodes)))
      = some (some ([0, 1, 2], [1, 2])) := by
  decide
/-! ## Row analysis against vertical placement -/

theorem mem_mapKeys (m : List (Nat × Nat)) (k : Nat) : k ∈ mapKeys m ↔ mapContains m k = true := by
  induction m with
  | nil => simp [mapKeys, mapContains, mapFind]
  | cons x xs ih =>
    obtain ⟨a, b⟩ := x
    simp only [mapKeys, List.map_cons, List.mem_cons, mapContains, mapFind] at ih ⊢
    by_cases h : a = k
    · simp [h]
    · have h2 : ¬ k = a := fun e => h e.symm
      simp only [h, h2, if_false, false_or]
      exact ih

theorem mapContains_mapAdd (m : List (Nat × Nat)) (k v k' : Nat) :
    mapContains (mapAdd m k v) k' = true ↔ k' = k ∨ mapContains m k' = true := by
  unfold mapContains
  rw [mapFind_mapAdd]
  by_cases h : k' = k <;> simp [h]

theorem mapContains_mapRemove (m : List (Nat × Nat)) (k k' : Nat) :
    mapContains (mapRemove m k) k' = true ↔ k' ≠ k ∧ mapContains m k' = true := by
  unfold mapContains
  rw [mapFind_mapRemove]
  by_cases h : k' = k <;> simp [h]

theorem KeysOk_child (S : FEdGraphParameterFormatter) (h : KeysOk S) (n : Nat) :
    ∀ c ∈ SameRowChildren S n, mapContains S.NodeInfoMap c = true := by
  intro c hc
  unfold SameRowChildren at hc
  cases hf : mapFind S.NodeInfoMap n with
  | none => rw [hf] at hc; simp at hc
  | some i =>
    rw [hf] at hc
    simp only [GetChildNodes, List.mem_map] at hc
    obtain ⟨j, hj, rfl⟩ := hc
    have hi := h.2 n i hf
    have hjl := (h.1 i hi).2 j hj
    exact (mem_mapKeys _ _).1 (h.1 j hjl).1

theorem FormatXReparent_keys (G : FBAGraph) (S1 : FEdGraphParameterFormatter) (l : FPinLink)
    (pi : Option Nat) (ci : Nat) (hci : ci < S1.Infos.length) (h : KeysOk S1) :
    KeysOk (FormatXReparent G S1 l pi ci)
      ∧ (FormatXReparent G S1 l pi ci).NodeInfoMap = S1.NodeInfoMap := by
  unfold FormatXReparent withXInfos
  dsimp only
  split_ifs
  · refine ⟨⟨SetParent_valid _ _ _ _ _ h.1 hci, ?_⟩, rfl⟩
    intro k i hk
    show i < (SetParent S1.Infos ci pi l.To).length
    rw [SetParent_length]
    exact h.2 k i hk
  · exact ⟨h, rfl⟩

theorem FormatXCreate_keys (G : FBAGraph) (d : EEdGraphPinDirection) (S1 : FEdGraphParameterFormatter)
    (l : FPinLink) (pi : Option Nat) (h : ValidInfos S1.Infos (l.GetNode G :: mapKeys S1.NodeInfoMap))
    (hm : ∀ k i, mapFind S1.NodeInfoMap k = some i → i < S1.Infos.length) :
    KeysOk (FormatXCreate G d S1 l pi)
      ∧ (FormatXCreate G d S1 l pi).NodeInfoMap = mapAdd S1.NodeInfoMap (l.GetNode G) S1.Infos.length := by
  have key : ∀ S2 : FEdGraphParameterFormatter, S2.Infos = S1.Infos → S2.NodeInfoMap = S1.NodeInfoMap →
      KeysOk (FormatXAddInfo G d S2 l pi)
        ∧ (FormatXAddInfo G d S2 l pi).NodeInfoMap
            = mapAdd S1.NodeInfoMap (l.GetNode G) S1.Infos.length := by
    intro S2 e1 e2
    unfold FormatXAddInfo
    dsimp only
    rw [e1, e2]
    refine ⟨⟨?_, ?_⟩, rfl⟩
    · apply SetParent_valid
      · apply ValidInfos_append
        · refine ValidInfos_mono h ?_
          intro n hn
          rw [mem_mapKeys, mapContains_mapAdd]
          rcases List.mem_cons.1 hn with hn | hn
          · exact Or.inl hn
          · exact Or.inr ((mem_mapKeys _ _).1 hn)
        · rw [mem_mapKeys, mapContains_mapAdd]
          exact Or.inl rfl
        · rfl
      · simp
    · intro k i hk
      show i < (SetParent (S1.Infos ++ [FormatXNewInfo G d l pi]) S1.Infos.length pi l.To).length
      rw [SetParent_length]
      simp only [List.length_append, List.length_singleton]
      have hk' : mapFind (mapAdd S1.NodeInfoMap (l.GetNode G) S1.Infos.length) k = some i := hk
      rw [mapFind_mapAdd] at hk'
      split_ifs at hk' with hkk
      · cases hk'
        omega
      · exact Nat.lt_succ_of_lt (hm k i hk')
  unfold FormatXCreate
  dsimp only
  split_ifs
  · apply key
    · unfold withPlaced FormatXMarkSide
      dsimp only
      split_ifs <;> rfl
    · unfold withPlaced FormatXMarkSide
      dsimp only
      split_ifs <;> rfl
  · exact key _ rfl rfl

/-- The visit of a dequeued link keeps the records and the map fitting
together, drops no node from the map (a node removed in the input pass gets
its new entry in the same visit), and leaves the node of the link with an
entry. -/
theorem FormatXVisit_keys (G : FBAGraph) (d : EEdGraphPinDirection) (st : FormatXState) (l : FPinLink)
    (h : KeysOk st.F) :
    KeysOk (FormatXVisit G d st l).F
      ∧ (∀ n, mapContains st.F.NodeInfoMap n = true →
          mapContains (FormatXVisit G d st l).F.NodeInfoMap n = true)
      ∧ mapContains (FormatXVisit G d st l).F.NodeInfoMap (l.GetNode G) = true := by
  unfold FormatXVisit withMap
  dsimp only
  by_cases hb : (mapContains st.F.NodeInfoMap (l.GetNode G) && st.F.RootNode != some (l.GetNode G)
      && decide (l.GetNode G ∈ st.TempOutput) && d == EGPD_Input) = true
  · simp only [hb, if_true]
    rw [mapFind_mapRemove, if_pos rfl]
    dsimp only
    have hc := FormatXCreate_keys G d
      { st.F with NodeInfoMap := mapRemove st.F.NodeInfoMap (l.GetNode G) } l
      (l.From.bind (fun p => mapFind st.F.NodeInfoMap (G.OwningNode p)))
      (by
        refine ValidInfos_mono h.1 ?_
        intro n hn
        by_cases hn' : n = l.GetNode G
        · rw [hn']; exact List.mem_cons_self _ _
        · refine List.mem_cons_of_mem _ ?_
          rw [mem_mapKeys, mapContains_mapRemove]
          exact ⟨hn', (mem_mapKeys _ _).1 hn⟩)
      (by
        intro k i hk
        have hk' : mapFind (mapRemove st.F.NodeInfoMap (l.GetNode G)) k = some i := hk
        rw [mapFind_mapRemove] at hk'
        split_ifs at hk'
        exact h.2 k i hk')
    refine ⟨hc.1, ?_, ?_⟩
    · intro n hn
      rw [hc.2, mapContains_mapAdd]
      by_cases hn' : n = l.GetNode G
      · exact Or.inl hn'
      · exact Or.inr ((mapContains_mapRemove _ _ _).2 ⟨hn', hn⟩)
    · rw [hc.2, mapContains_mapAdd]
      exact Or.inl rfl
  · simp only [hb, if_false, Bool.false_eq_true]
    cases hf : mapFind st.F.NodeInfoMap (l.GetNode G) with
    | some ci =>
      dsimp only
      have hr := FormatXReparent_keys G st.F l
        (l.From.bind (fun p => mapFind st.F.NodeInfoMap (G.OwningNode p))) ci (h.2 _ _ hf) h
      refine ⟨hr.1, ?_, ?_⟩
      · intro n hn
        rw [hr.2]
        exact hn
      · rw [hr.2]
        simp [mapContains, hf]
    | none =>
      dsimp only
      have hc := FormatXCreate_keys G d st.F l
        (l.From.bind (fun p => mapFind st.F.NodeInfoMap (G.OwningNode p)))
        (ValidInfos_mono h.1 (fun n hn => List.mem_cons_of_mem _ hn)) h.2
      refine ⟨hc.1, ?_, ?_⟩
      · intro n hn
        rw [hc.2, mapContains_mapAdd]
        exact Or.inr hn
      · rw [hc.2, mapContains_mapAdd]
        exact Or.inl rfl

theorem FormatXEnqueue_keyed (G : FBAGraph) (c : Nat) (st : FormatXState) (p q : Nat)
    (hp : mapContains st.F.NodeInfoMap (G.OwningNode p) = true) (h : FXKeyed G st) :
    FXKeyed G (FormatXEnqueue G c st p q) := by
  obtain ⟨h1, h2⟩ := h
  have hnew : ∀ l ∈ [mkLink G p q], ∀ p', l.From = some p' →
      mapContains st.F.NodeInfoMap (G.OwningNode p') = true := by
    intro l hl p' hp'
    rw [List.mem_singleton.1 hl] at hp'
    simp only [mkLink, Option.some.injEq] at hp'
    rw [← hp']
    exact hp
  unfold FormatXEnqueue
  dsimp only
  split_ifs
  · exact ⟨h1, h2⟩
  · exact ⟨h1, h2⟩
  · exact ⟨h1, h2⟩
  · exact ⟨h1, h2⟩
  · exact ⟨h1, h2⟩
  · exact ⟨h1, h2⟩
  · refine ⟨h1, ?_⟩
    intro l hl
    simp only [List.mem_append] at hl
    rcases hl with (hl | hl) | hl
    · exact h2 l (List.mem_append.2 (Or.inl hl))
    · exact hnew l hl
    · exact h2 l (List.mem_append.2 (Or.inr hl))
  · refine ⟨h1, ?_⟩
    intro l hl
    simp only [List.mem_append] at hl
    rcases hl with hl | hl | hl
    · exact h2 l (List.mem_append.2 (Or.inl hl))
    · exact h2 l (List.mem_append.2 (Or.inr hl))
    · exact hnew l hl

/-- One iteration of the loop of `FormatX` keeps the invariant of the
lookups and drops no node from the map. -/
theorem FormatXStep_keyed (G : FBAGraph) (hwf : PinsOwned G) (d : EEdGraphPinDirection)
    (st : FormatXState) (h : FXKeyed G st) :
    FXKeyed G (FormatXStep G d st)
      ∧ ∀ n, mapContains st.F.NodeInfoMap n = true →
          mapContains (FormatXStep G d st).F.NodeInfoMap n = true := by
  have key : ∀ (l : FPinLink) (iq oq : List FPinLink),
      (∀ x ∈ iq ++ oq, x ∈ st.InputQueue ++ st.OutputQueue) →
      FXKeyed G ((FormatXLinks G (FormatXVisit G d { st with InputQueue := iq, OutputQueue := oq } l).F d
          (l.GetNode G)).foldl (fun a pq => FormatXEnqueue G (l.GetNode G) a pq.1 pq.2)
          (FormatXVisit G d { st with InputQueue := iq, OutputQueue := oq } l))
        ∧ ∀ n, mapContains st.F.NodeInfoMap n = true →
          mapContains ((FormatXLinks G (FormatXVisit G d { st with InputQueue := iq, OutputQueue := oq } l).F d
            (l.GetNode G)).foldl (fun a pq => FormatXEnqueue G (l.GetNode G) a pq.1 pq.2)
            (FormatXVisit G d { st with InputQueue := iq, OutputQueue := oq } l)).F.NodeInfoMap n = true := by
    intro l iq oq hsub
    obtain ⟨v1, v2, v3⟩ := FormatXVisit_keys G d { st with InputQueue := iq, OutputQueue := oq } l h.1
    obtain ⟨_, _, _, _, _, _, f7, f8⟩ :=
      FormatXVisit_fields G d { st with InputQueue := iq, OutputQueue := oq } l
    have hF := FormatXEnqueue_fold_F G (l.GetNode G)
      (FormatXLinks G (FormatXVisit G d { st with InputQueue := iq, OutputQueue := oq } l).F d (l.GetNode G))
      (FormatXVisit G d { st with InputQueue := iq, OutputQueue := oq } l)
    refine ⟨?_, ?_⟩
    · refine foldl_inv_mem
        (fun a : FormatXState => FXKeyed G a
          ∧ a.F = (FormatXVisit G d { st with InputQueue := iq, OutputQueue := oq } l).F) _ _ _
        ⟨⟨v1, ?_⟩, rfl⟩ ?_ |>.1
      · intro x hx p hp
        rw [f7, f8] at hx
        exact v2 _ (h.2 x (hsub x hx) p hp)
      · intro a pq hpq ha
        have e := FormatXEnqueue_F G (l.GetNode G) a pq.1 pq.2
        refine ⟨FormatXEnqueue_keyed G _ a _ _ ?_ ha.1, e.trans ha.2⟩
        rw [ha.2, FormatXLinks_owner G hwf _ d _ pq hpq]
        exact v3
    · intro n hn
      rw [hF]
      exact v2 n hn
  have hid : FXKeyed G st ∧ ∀ n, mapContains st.F.NodeInfoMap n = true →
      mapContains st.F.NodeInfoMap n = true := ⟨h, fun n hn => hn⟩
  unfold FormatXStep
  dsimp only
  split_ifs with hd
  · cases hi : st.InputQueue with
    | cons l rest =>
      simpa [hi] using key l rest st.OutputQueue (by
        intro x hx
        rw [hi]
        rcases List.mem_append.1 hx with hx | hx
        · exact List.mem_append.2 (Or.inl (List.mem_cons_of_mem _ hx))
        · exact List.mem_append.2 (Or.inr hx))
    | nil =>
      cases ho : st.OutputQueue with
      | cons l rest =>
        simpa [hi, ho] using key l [] rest (by
          intro x hx
          rw [hi, ho]
          rcases List.mem_append.1 hx with hx | hx
          · exact absurd hx (List.not_mem_nil _)
          · exact List.mem_append.2 (Or.inr (List.mem_cons_of_mem _ hx)))
      | nil => simpa [hi, ho] using hid
  · cases ho : st.OutputQueue with
    | cons l rest =>
      simpa [ho] using key l st.InputQueue rest (by
        intro x hx
        rw [ho]
        rcases List.mem_append.1 hx with hx | hx
        · exact List.mem_append.2 (Or.inl hx)
        · exact List.mem_append.2 (Or.inr (List.mem_cons_of_mem _ hx)))
    | nil =>
      cases hi : st.InputQueue with
      | cons l rest =>
        simpa [hi, ho] using key l rest [] (by
          intro x hx
          rw [hi, ho]
          rcases List.mem_append.1 hx with hx | hx
          · exact List.mem_append.2 (Or.inl (List.mem_cons_of_mem _ hx))
          · exact absurd hx (List.not_mem_nil _))
      | nil => simpa [hi, ho] using hid

theorem FormatXPassInit_keyed (G : FBAGraph) (st : FormatXState) (d : EEdGraphPinDirection)
    (h : KeysOk st.F) : FXKeyed G (FormatXPassInit st d) := by
  unfold FormatXPassInit
  dsimp only
  split_ifs
  · refine ⟨h, ?_⟩
    intro l hl p hp
    simp only [List.append_nil, List.mem_singleton] at hl
    rw [hl] at hp
    cases hp
  · refine ⟨h, ?_⟩
    intro l hl p hp
    simp only [List.nil_append, List.mem_singleton] at hl
    rw [hl] at hp
    cases hp

theorem FormatXInit_keys (S : FEdGraphParameterFormatter) : KeysOk (FormatXInit S).F := by
  refine ⟨?_, ?_⟩
  · intro i hi
    simp [FormatXInit] at hi
  · intro k i hk
    simp [FormatXInit, mapFind] at hk

/-- Every state in which the loop of `FormatX` starts an iteration satisfies
the invariant of the lookups. -/
theorem FormatXReached_keyed (G : FBAGraph) (hwf : PinsOwned G) (S : FEdGraphParameterFormatter) :
    ∀ d st, FormatXReached G S d st → FXKeyed G st := by
  intro d st h
  induction h with
  | output => exact FormatXPassInit_keyed G _ _ (FormatXInit_keys S)
  | step d st _ ih => exact (FormatXStep_keyed G hwf d st ih).1
  | input st _ _ _ ih => exact FormatXPassInit_keyed G _ _ ih.1

theorem FormatXLoop_keyed (G : FBAGraph) (hwf : PinsOwned G) (d : EEdGraphPinDirection) :
    ∀ (fuel : Nat) (st st' : FormatXState), FormatXLoop G d fuel st = some st' → FXKeyed G st →
      FXKeyed G st' ∧ ∀ n, mapContains st.F.NodeInfoMap n = true →
        mapContains st'.F.NodeInfoMap n = true := by
  intro fuel
  induction fuel with
  | zero =>
    intro st st' h hg
    simp only [FormatXLoop] at h
    split_ifs at h
    cases h
    exact ⟨hg, fun n hn => hn⟩
  | succ n ih =>
    intro st st' h hg
    simp only [FormatXLoop] at h
    split_ifs at h
    · cases h
      exact ⟨hg, fun n hn => hn⟩
    · obtain ⟨s1, s2⟩ := FormatXStep_keyed G hwf d st hg
      obtain ⟨t1, t2⟩ := ih _ _ h s1
      exact ⟨t1, fun n hn => t2 n (s2 n hn)⟩

/-- The states the loop of a pass goes through, its last state included, are
states of `FormatXReached`. -/
theorem FormatXLoop_reached (G : FBAGraph) (S : FEdGraphParameterFormatter) (d : EEdGraphPinDirection) :
    ∀ (fuel : Nat) (st st' : FormatXState), FormatXLoop G d fuel st = some st' →
      FormatXReached G S d st → FormatXReached G S d st' := by
  intro fuel
  induction fuel with
  | zero =>
    intro st st' h hg
    simp only [FormatXLoop] at h
    split_ifs at h
    cases h
    exact hg
  | succ n ih =>
    intro st st' h hg
    simp only [FormatXLoop] at h
    split_ifs at h
    · cases h
      exact hg
    · exact ih _ _ h (FormatXReached.step d st hg)

theorem FormatXStep_root (G : FBAGraph) (st : FormatXState) (l : FPinLink) (h : KeysOk st.F)
    (hi : st.InputQueue = []) (ho : st.OutputQueue = [l]) :
    mapContains (FormatXStep G EGPD_Output st).F.NodeInfoMap (l.GetNode G) = true := by
  unfold FormatXStep
  simp only [hi, ho]
  rw [if_neg (by decide)]
  dsimp only
  rw [FormatXEnqueue_fold_F]
  exact (FormatXVisit_keys G EGPD_Output
    { F := st.F, VisitedLinks := st.VisitedLinks, TempOutput := st.TempOutput, InputQueue := [],
      OutputQueue := [] } l h).2.2

/-- After `FormatX` the records and the map fit together and the root has an
entry in the map. -/
theorem FormatX_keys (G : FBAGraph) (hwf : PinsOwned G) (S : FEdGraphParameterFormatter) (r : Nat)
    (hr : S.RootNode = some r) :
    KeysOk (FormatX G S) ∧ mapContains (FormatX G S).NodeInfoMap r = true := by
  obtain ⟨st, hst⟩ := FormatXFuel_terminates G S
  have hX : FormatX G S = st.F := by simp [FormatX, hst]
  rw [hX]
  simp only [FormatXFuel, Option.bind_eq_some] at hst
  obtain ⟨st1, e1, e2⟩ := hst
  have g0 : FXKeyed G (FormatXPassInit (FormatXInit S) EGPD_Output) :=
    FormatXPassInit_keyed G _ _ (FormatXInit_keys S)
  have hroot : mapContains st1.F.NodeInfoMap r = true := by
    simp only [FormatXLoop] at e1
    rw [if_neg (by simp [FormatXPassInit])] at e1
    have s1 := FormatXStep_keyed G hwf EGPD_Output _ g0
    have hr1 := FormatXStep_root G (FormatXPassInit (FormatXInit S) EGPD_Output)
      { From := none, To := none, Node := (FormatXInit S).F.RootNode.getD 0 } g0.1
      (by simp [FormatXPassInit]) (by simp [FormatXPassInit])
    have hn : ({ From := none, To := none, Node := (FormatXInit S).F.RootNode.getD 0 } : FPinLink).GetNode G
        = r := by
      simp [FPinLink.GetNode, FormatXInit, hr]
    rw [hn] at hr1
    exact (FormatXLoop_keyed G hwf _ _ _ _ e1 s1.1).2 r hr1
  have g1 := FormatXLoop_keyed G hwf _ _ _ _ e1 g0
  have g2 := FormatXLoop_keyed G hwf _ _ _ _ e2 (FormatXPassInit_keyed G st1 EGPD_Input g1.1.1)
  refine ⟨g2.1.1, g2.2 r ?_⟩
  rw [(FormatXPassInit_measure G st1 EGPD_Input).2.2]
  exact hroot

/-- Every node `ProcessSameRowMapping` enters (the nodes it adds to the
visited set, for which it looks the record up) has an entry in the map, when
the node of the first call has one. -/
theorem ProcessSameRowMapping_keyed (G : FBAGraph) (S : FEdGraphParameterFormatter) (h : KeysOk S) :
    ∀ fuel N cp pp acc, mapContains S.NodeInfoMap N = true →
      (∀ v ∈ acc.2, mapContains S.NodeInfoMap v = true) →
      ∀ v ∈ (ProcessSameRowMapping G S fuel N cp pp acc).2, mapContains S.NodeInfoMap v = true := by
  intro fuel
  induction fuel with
  | zero => intro N cp pp acc _ hacc; exact hacc
  | succ k ih =>
    intro N cp pp acc hN hacc
    simp only [ProcessSameRowMapping]
    split_ifs with hv
    · exact hacc
    · refine foldl_inv (fun a : SameRowState => ∀ v ∈ a.VisitedNodes, mapContains S.NodeInfoMap v = true)
        _ _ _ ?_ ?_
      · intro v hv'
        simp only [SameRowEnter, List.mem_append, List.mem_singleton] at hv'
        rcases hv' with hv' | hv'
        · exact hacc v hv'
        · rw [hv']; exact hN
      · intro a pq ha
        unfold SameRowPair
        dsimp only
        split_ifs with hs hm
        · exact ha
        · simp only [SameRowSkips, Bool.or_eq_true, Bool.not_eq_true', decide_eq_false_iff_not,
            decide_eq_true_eq, not_or, Bool.not_eq_false, not_not] at hs
          exact ih _ _ _ _ (KeysOk_child S h N _ hs.1.2) ha
        · simp only [SameRowSkips, Bool.or_eq_true, Bool.not_eq_true', decide_eq_false_iff_not,
            decide_eq_true_eq, not_or, Bool.not_eq_false, not_not] at hs
          exact ih _ _ _ _ (KeysOk_child S h N _ hs.1.2) ha

theorem SameRowChildren_restOf {S S' : FEdGraphParameterFormatter} (h : restOf S' = restOf S) (n : Nat) :
    (match mapFind S'.NodeInfoMap n with
      | some i => GetChildNodes S'.Infos i
      | none => []) = SameRowChildren S n := by
  have h1 : S'.NodeInfoMap = S.NodeInfoMap := congrArg (fun x => x.NodeInfoMap) h
  have h2 : S'.Infos = S.Infos := congrArg (fun x => x.Infos) h
  rw [h1, h2]
  rfl

theorem FormatYChild_keyed (G : FBAGraph) (S0 : FEdGraphParameterFormatter) (hk : KeysOk S0)
    (recurse : Nat → Option Nat → Option Nat → Bool →
      FEdGraphParameterFormatter × List Nat × List Nat → FEdGraphParameterFormatter × List Nat × List Nat)
    (hrec : RecKeyed S0 recurse) (hy : RecOnlyY recurse) (c : Nat) (pp : Option Nat)
    (d : EEdGraphPinDirection) (MyPin : Nat) (a : FormatYState) (OtherPin : Nat)
    (h : restOf a.F = restOf S0 ∧ ∀ v ∈ a.VisitedNodes, mapContains S0.NodeInfoMap v = true) :
    restOf (FormatYChild G recurse c pp (SameRowChildren S0 c) d MyPin a OtherPin).F = restOf S0
      ∧ ∀ v ∈ (FormatYChild G recurse c pp (SameRowChildren S0 c) d MyPin a OtherPin).VisitedNodes,
          mapContains S0.NodeInfoMap v = true := by
  have hF := (OnlyY_FormatYChild G recurse hy a.F c pp (SameRowChildren S0 c) d MyPin a OtherPin
    (OnlyY_refl _)).1.trans h.1
  refine ⟨hF, ?_⟩
  unfold FormatYChild
  dsimp only
  split_ifs with hs
  · exact h.2
  · simp only [Bool.or_eq_true, decide_eq_true_eq, Bool.not_eq_true', decide_eq_false_iff_not,
      not_or, not_not, Bool.not_eq_false] at hs
    simp only [FormatYAfterChild]
    exact hrec _ _ _ _ _ ((OnlyY_FormatYPlaceChild G a.F MyPin OtherPin).1.trans h.1)
      (KeysOk_child S0 hk c _ hs.1.2) h.2

theorem FormatYPin_keyed (G : FBAGraph) (S0 : FEdGraphParameterFormatter) (hk : KeysOk S0)
    (recurse : Nat → Option Nat → Option Nat → Bool →
      FEdGraphParameterFormatter × List Nat × List Nat → FEdGraphParameterFormatter × List Nat × List Nat)
    (hrec : RecKeyed S0 recurse) (hy : RecOnlyY recurse) (c : Nat) (pp : Option Nat)
    (d : EEdGraphPinDirection) (a : FormatYState) (MyPin : Nat)
    (h : restOf a.F = restOf S0 ∧ ∀ v ∈ a.VisitedNodes, mapContains S0.NodeInfoMap v = true) :
    restOf (FormatYPin G recurse c pp (SameRowChildren S0 c) d a MyPin).F = restOf S0
      ∧ ∀ v ∈ (FormatYPin G recurse c pp (SameRowChildren S0 c) d a MyPin).VisitedNodes,
          mapContains S0.NodeInfoMap v = true := by
  unfold FormatYPin
  dsimp only
  have hf := foldl_inv (fun x : FormatYState => restOf x.F = restOf S0
      ∧ ∀ v ∈ x.VisitedNodes, mapContains S0.NodeInfoMap v = true)
    (FormatYChild G recurse c pp (SameRowChildren S0 c) d MyPin) (G.pin MyPin).LinkedTo a h
    (fun x q hx => FormatYChild_keyed G S0 hk recurse hrec hy c pp d MyPin x q hx)
  split_ifs
  · exact h
  · exact hf
  · exact hf

theorem FormatYDirection_keyed (G : FBAGraph) (S0 : FEdGraphParameterFormatter) (hk : KeysOk S0)
    (recurse : Nat → Option Nat → Option Nat → Bool →
      FEdGraphParameterFormatter × List Nat × List Nat → FEdGraphParameterFormatter × List Nat × List Nat)
    (hrec : RecKeyed S0 recurse) (hy : RecOnlyY recurse) (c : Nat) (pp : Option Nat)
    (a : FormatYState) (d : EEdGraphPinDirection)
    (h : restOf a.F = restOf S0 ∧ ∀ v ∈ a.VisitedNodes, mapContains S0.NodeInfoMap v = true) :
    restOf (FormatYDirection G recurse c pp (SameRowChildren S0 c) a d).F = restOf S0
      ∧ ∀ v ∈ (FormatYDirection G recurse c pp (SameRowChildren S0 c) a d).VisitedNodes,
          mapContains S0.NodeInfoMap v = true := by
  unfold FormatYDirection
  dsimp only
  have hf := foldl_inv (fun x : FormatYState => restOf x.F = restOf S0
      ∧ ∀ v ∈ x.VisitedNodes, mapContains S0.NodeInfoMap v = true)
    (FormatYPin G recurse c pp (SameRowChildren S0 c) d) (GetPinsByDirection G c d)
    { a with LastLinked := none, ChildBranches := [] } h
    (fun x q hx => FormatYPin_keyed G S0 hk recurse hrec hy c pp d x q hx)
  split_ifs
  · exact ⟨(OnlyY_CenterBranches G _ _ _ _).1.trans hf.1, hf.2⟩
  · exact hf

theorem FormatYBody_keyed (G : FBAGraph) (S0 : FEdGraphParameterFormatter) (hk : KeysOk S0)
    (recurse : Nat → Option Nat → Option Nat → Bool →
      FEdGraphParameterFormatter × List Nat × List Nat → FEdGraphParameterFormatter × List Nat × List Nat)
    (hrec : RecKeyed S0 recurse) (hy : RecOnlyY recurse) : RecKeyed S0 (FormatYBody G recurse) := by
  intro c cp pp b acc hacc hc hv
  unfold FormatYBody
  dsimp only
  split_ifs with hvis
  · exact hv
  · rw [SameRowChildren_restOf hacc c]
    exact (foldl_inv (fun x : FormatYState => restOf x.F = restOf S0
        ∧ ∀ v ∈ x.VisitedNodes, mapContains S0.NodeInfoMap v = true)
      (FormatYDirection G recurse c pp (SameRowChildren S0 c)) [EGPD_Input, EGPD_Output]
      { F := FormatYCollision G c acc.2.1 100 acc.1, VisitedNodes := setAdd acc.2.1 c,
        OutChildren := acc.2.2, bFirstPin := true, LastLinked := none, ChildBranches := [] }
      ⟨(OnlyY_FormatYCollision G c acc.2.1 100 acc.1).1.trans hacc, by
        intro v hv'
        rcases (mem_setAdd _ _ _).1 hv' with e | e
        · rw [e]; exact hc
        · exact hv v e⟩
      (fun x q hx => FormatYDirection_keyed G S0 hk recurse hrec hy c pp x q hx)).2

/-- Every node `FormatY` enters (the nodes it adds to the visited set, for
which it looks the record up) has an entry in the map, when the node of the
first call has one. -/
theorem FormatY_keyed (G : FBAGraph) (S0 : FEdGraphParameterFormatter) (hk : KeysOk S0) :
    ∀ fuel : Nat, RecKeyed S0 (FormatY G fuel) := by
  intro fuel
  induction fuel with
  | zero => intro c cp pp b acc _ _ hv; exact hv
  | succ n ih => exact FormatYBody_keyed G S0 hk _ ih (OnlyY_FormatY G n)

theorem KeysOk_restOf {S S' : FEdGraphParameterFormatter} (h : restOf S' = restOf S) (hk : KeysOk S) :
    KeysOk S' := by
  have h1 : S'.NodeInfoMap = S.NodeInfoMap := congrArg (fun x => x.NodeInfoMap) h
  have h2 : S'.Infos = S.Infos := congrArg (fun x => x.Infos) h
  unfold KeysOk
  rw [h1, h2]
  exact hk

/-- C33. The lookups `NodeInfoMap[...]` of a slow-path run with root `r` on
a graph whose pins are owned by the nodes that list them.  `FormatX`, called
on any formatter: in every state in which its loop starts an iteration, the
pin every queued link comes from is owned by a node with an entry in the map
(the parent lookup of the iteration that dequeues the link); after the visit
of the dequeued link its node has an entry (the current-node lookup); and an
iteration drops no node from the map, so a node removed in the input pass has
its new entry before the next lookup.  `ProcessSameRowMapping` after the first
`FormatX` and `FormatY` after the second look up only the nodes they enter,
and each of them has an entry in the map, which neither of them changes. -/
theorem NodeInfoMap_lookups_hit (G : FBAGraph) (hwf : PinsOwned G) (S : FEdGraphParameterFormatter)
    (r : Nat) (hr : S.RootNode = some r) :
    (∀ S' d st, FormatXReached G S' d st → ∀ l ∈ st.InputQueue ++ st.OutputQueue, ∀ p,
        l.From = some p → mapContains st.F.NodeInfoMap (G.OwningNode p) = true)
      ∧ (∀ S' d st, FormatXReached G S' d st → ∀ st' : FormatXState, st'.F = st.F → ∀ l,
          mapContains (FormatXVisit G d st' l).F.NodeInfoMap (l.GetNode G) = true)
      ∧ (∀ S' d st n, FormatXReached G S' d st → mapContains st.F.NodeInfoMap n = true →
          mapContains (FormatXStep G d st).F.NodeInfoMap n = true)
      ∧ (∀ n ∈ (ProcessSameRowMapping G (FormatX G (FormatNodeReset G S)) (G.Pins.length + 2) r
            none none ([], [])).2,
          mapContains (FormatX G (FormatNodeReset G S)).NodeInfoMap n = true)
      ∧ (∀ n ∈ (FormatY G (G.Pins.length + 2) r none none false
            (FormatNodeShiftOutputs G (FormatX G (FormatNodeRows G (FormatX G (FormatNodeReset G S)))),
              [], [])).2.1,
          mapContains (FormatNodeShiftOutputs G (FormatX G (FormatNodeRows G
            (FormatX G (FormatNodeReset G S))))).NodeInfoMap n = true)
      ∧ ∀ fuel c cp pp b acc, (FormatY G fuel c cp pp b acc).1.NodeInfoMap = acc.1.NodeInfoMap := by
  have hr1 : (FormatNodeReset G S).RootNode = some r := hr
  obtain ⟨k1, k2⟩ := FormatX_keys G hwf (FormatNodeReset G S) r hr1
  have hr2 : (FormatNodeRows G (FormatX G (FormatNodeReset G S))).RootNode = some r := by
    have b1 := (FormatX_FXRel G (FormatNodeReset G S)).1
    simp only [cfgOf, Prod.mk.injEq] at b1
    exact b1.1.trans hr1
  obtain ⟨k3, k4⟩ := FormatX_keys G hwf (FormatNodeRows G (FormatX G (FormatNodeReset G S))) r hr2
  have hS := (restOf_FormatNodeShiftOutputs G
    (FormatX G (FormatNodeRows G (FormatX G (FormatNodeReset G S))))).1
  have hm : (FormatNodeShiftOutputs G (FormatX G (FormatNodeRows G
      (FormatX G (FormatNodeReset G S))))).NodeInfoMap
      = (FormatX G (FormatNodeRows G (FormatX G (FormatNodeReset G S)))).NodeInfoMap :=
    congrArg (fun x => x.NodeInfoMap) hS
  refine ⟨?_, ?_, ?_, ?_, ?_, ?_⟩
  · intro S' d st hst
    exact (FormatXReached_keyed G hwf S' d st hst).2
  · intro S' d st hst st' he l
    exact (FormatXVisit_keys G d st' l (by rw [he]; exact (FormatXReached_keyed G hwf S' d st hst).1)).2.2
  · intro S' d st n hst hn
    exact (FormatXStep_keyed G hwf d st (FormatXReached_keyed G hwf S' d st hst)).2 n hn
  · exact ProcessSameRowMapping_keyed G _ k1 _ r none none ([], []) k2
      (fun v hv => absurd hv (List.not_mem_nil _))
  · exact FormatY_keyed G _ (KeysOk_restOf hS k3) _ r none none false _ rfl (by rw [hm]; exact k4)
      (fun v hv => absurd hv (List.not_mem_nil _))
  · intro fuel c cp pp b acc
    exact congrArg (fun x => x.NodeInfoMap) (OnlyY_FormatY G fuel c cp pp b acc).1

theorem NodeInfoMap_lookups_hit_witness :
    mapContains (FormatNodeShiftOutputs diamondGraph (FormatX diamondGraph (FormatNodeRows diamondGraph
      (FormatX diamondGraph (FormatNodeReset diamondGraph
        (FEdGraphParameterFormatter.new (some 0) none [] exPosX exPosY)))))).NodeInfoMap 2 = true :=
  (NodeInfoMap_lookups_hit diamondGraph (by unfold PinsOwned; decide)
    (FEdGraphParameterFormatter.new (some 0) none [] exPosX exPosY) 0 rfl).2.2.2.2.1 2 (by decide)

/-- On `diamondGraph` the input pass of `FormatX` removes A and B from the map
and gives them new entries: the records 3 and 4 replace the records 1 and 2
of the output pass, and `FormatY` enters the root, A and B. -/
theorem NodeInfoMap_diamondGraph :
    (FormatX diamondGraph (FormatNodeReset diamondGraph
        (FEdGraphParameterFormatter.new (some 0) none [] exPosX exPosY))).NodeInfoMap
      = [(0, 0), (1, 3), (2, 4)]
    ∧ (FormatY diamondGraph (diamondGraph.Pins.length + 2) 0 none none false
        (FormatNodeShiftOutputs diamondGraph (FormatX diamondGraph (FormatNodeRows diamondGraph
          (FormatX diamondGraph (FormatNodeReset diamondGraph
            (FEdGraphParameterFormatter.new (some 0) none [] exPosX exPosY))))), [], [])).2.1
      = [0, 1, 2] := by
  decide
/-! ## The row analysis simulates the vertical placement -/

theorem foldl_flatMap_eq {α β γ : Type} (f : β → List γ) (g : α → γ → α) :
    ∀ (l : List β) (a : α), (l.flatMap f).foldl g a = l.foldl (fun a x => (f x).foldl g a) a := by
  intro l
  induction l with
  | nil => intro a; rfl
  | cons x xs ih =>
    intro a
    rw [List.flatMap_cons, List.foldl_append, List.foldl_cons, ih]

theorem foldl_filter_eq {α β : Type} (p : β → Bool) (g : α → β → α) :
    ∀ (l : List β) (a : α), (l.filter p).foldl g a = l.foldl (fun a x => if p x then g a x else a) a := by
  intro l
  induction l with
  | nil => intro a; rfl
  | cons x xs ih =>
    intro a
    by_cases h : p x = true
    · rw [List.filter_cons_of_pos h, List.foldl_cons, List.foldl_cons, if_pos h, ih]
    · rw [List.filter_cons_of_neg h, List.foldl_cons, if_neg h, ih]

/-- The loops of `ProcessSameRowMapping` as the three nested loops of the
source: directions, pins that are not execution pins, links. -/
theorem SameRowPairs_foldl {α : Type} (G : FBAGraph) (N : Nat) (g : α → Nat × Nat → α) (a : α) :
    (SameRowPairs G N).foldl g a
      = [EGPD_Input, EGPD_Output].foldl (fun a d => (GetPinsByDirection G N d).foldl
          (fun a p => if !IsExecPin G p then (G.pin p).LinkedTo.foldl (fun a q => g a (p, q)) a else a)
          a) a := by
  unfold SameRowPairs
  rw [foldl_flatMap_eq, foldl_filter_eq, foldl_flatMap_eq]
  simp only [List.foldl_map]

theorem SameTree_refl (A : FEdGraphParameterFormatter) : SameTree A A :=
  ⟨rfl, rfl, fun _ => rfl, rfl, rfl⟩

theorem SameTree_restOf {S0 A B : FEdGraphParameterFormatter} (h : SameTree S0 A)
    (e : restOf B = restOf A) : SameTree S0 B ∧ B.SameRowMapping = A.SameRowMapping := by
  obtain ⟨h1, h2, h3, h5, h6⟩ := h
  refine ⟨⟨(congrArg (fun x => x.RootNode) e).trans h1, (congrArg (fun x => x.IgnoredNodes) e).trans h2,
    ?_, (congrArg (fun x => x.NodeInfoMap) e).trans h5, (congrArg (fun x => x.Infos) e).trans h6⟩,
    congrArg (fun x => x.SameRowMapping) e⟩
  intro n
  rw [← h3 n]
  have e1 : B.bFormatWithHelixing = A.bFormatWithHelixing := congrArg (fun x => x.bFormatWithHelixing) e
  have e2 : B.FormattedInputNodes = A.FormattedInputNodes := congrArg (fun x => x.FormattedInputNodes) e
  unfold Helixed
  rw [e1, e2]

theorem SameTree_OnlyY {S0 A B : FEdGraphParameterFormatter} (h : SameTree S0 A) (hy : OnlyY A B) :
    SameTree S0 B ∧ B.SameRowMapping = A.SameRowMapping :=
  SameTree_restOf h hy.1

theorem SameRowChildren_SameTree {S0 F : FEdGraphParameterFormatter} (h : SameTree S0 F) (n : Nat) :
    (match mapFind F.NodeInfoMap n with
      | some i => GetChildNodes F.Infos i
      | none => []) = SameRowChildren S0 n := by
  rw [h.2.2.2.1, h.2.2.2.2]
  rfl

theorem rowsOf_append (L : List (FPinLink × Bool)) (p q c : Nat) :
    rowsOf (L ++ [({ From := some p, To := some q, Node := c }, true)]) = rowsOf L ++ [(p, q)] := by
  simp [rowsOf]

theorem RowsAgree_mark (G : FBAGraph) (L : List (FPinLink × Bool)) (s : SameRowState) (x y c : Nat)
    (h : RowsAgree G L s.SameRowMapping) :
    RowsAgree G (L ++ [({ From := some x, To := some y, Node := c }, true)])
      (SameRowMark G s x y).SameRowMapping := by
  intro p q
  rw [RowMarked_SameRowMark, rowsOf_append, h p q]
  simp only [List.mem_append, List.mem_singleton, Prod.mk.injEq]
  constructor
  · rintro (⟨h1, h2⟩ | ⟨h1, h2⟩ | h3 | h3)
    · exact Or.inr (Or.inr ⟨h2.symm, h1.symm⟩)
    · exact Or.inl (Or.inr ⟨h1.symm, h2.symm⟩)
    · exact Or.inl (Or.inl h3)
    · exact Or.inr (Or.inl h3)
  · rintro ((h3 | ⟨h1, h2⟩) | (h3 | ⟨h1, h2⟩))
    · exact Or.inr (Or.inr (Or.inl h3))
    · exact Or.inr (Or.inl ⟨h1.symm, h2.symm⟩)
    · exact Or.inr (Or.inr (Or.inr h3))
    · exact Or.inl ⟨h2.symm, h1.symm⟩

/-- One linked pin in the innermost loop: the observed `FormatY` and
`ProcessSameRowMapping` skip it together or recurse together, and the pair
is recorded exactly when it is marked. -/
theorem FormatYChild_rows (G : FBAGraph) (S0 : FEdGraphParameterFormatter) (r : Nat)
    (hC : ∀ n, ∀ c ∈ SameRowChildren S0 n, c = r ∨ c ∉ S0.IgnoredNodes)
    (recY : Nat → Option Nat → Option Nat → Bool →
      FEdGraphParameterFormatter × List Nat × List Nat → FEdGraphParameterFormatter × List Nat × List Nat)
    (recP : Nat → Option Nat → Option Nat → List (FPinLink × Bool) × List Nat →
      List (FPinLink × Bool) × List Nat)
    (hrec : RecRows G S0 r recY recP) (c : Nat) (pp : Option Nat) (d : EEdGraphPinDirection)
    (MyPin : Nat) (a : FormatYState) (s : SameRowState) (OtherPin : Nat) (h : YRows G S0 r a s) :
    YRows G S0 r (FormatYChild G (FormatYRecord recY) c pp (SameRowChildren S0 c) d MyPin a OtherPin)
      (SameRowPair G S0 recP c pp (SameRowChildren S0 c) s (MyPin, OtherPin)) := by
  obtain ⟨hT, hV, hB, hR, hr⟩ := h
  have hskip : (decide (G.OwningNode OtherPin ∈ a.F.IgnoredNodes)
      || !G.FilterSelectiveFormatting (G.OwningNode OtherPin)
      || !decide (G.OwningNode OtherPin ∈ SameRowChildren S0 c)
      || decide (G.OwningNode OtherPin ∈ a.VisitedNodes))
      = SameRowSkips G (SameRowChildren S0 c) s OtherPin := by
    unfold SameRowSkips
    rw [hT.2.1, ← hV]
    by_cases hig : G.OwningNode OtherPin ∈ S0.IgnoredNodes
    · by_cases hch : G.OwningNode OtherPin ∈ SameRowChildren S0 c
      · rcases hC c _ hch with e | e
        · have hv : G.OwningNode OtherPin ∈ a.VisitedNodes := by rw [e]; exact hr
          simp [hv]
        · exact absurd hig e
      · simp [hch]
    · simp [hig]
  have hb : FormatYChildIsSameRow G a c pp MyPin OtherPin = SameRowMarks G S0 c pp s MyPin OtherPin := by
    have hx := hT.2.2.1 (G.OwningNode OtherPin)
    unfold Helixed at hx
    unfold FormatYChildIsSameRow SameRowMarks
    dsimp only
    rw [hx, hT.1, hB]
  have hP := SameTree_OnlyY hT (OnlyY_FormatYPlaceChild G a.F MyPin OtherPin)
  unfold FormatYChild SameRowPair
  dsimp only
  rw [hskip]
  by_cases hs : SameRowSkips G (SameRowChildren S0 c) s OtherPin = true
  · rw [if_pos hs, if_pos hs]
    exact ⟨hT, hV, hB, hR, hr⟩
  · rw [if_neg hs, if_neg hs, hb]
    cases hm : SameRowMarks G S0 c pp s MyPin OtherPin with
    | false =>
      simp only [FormatYRecord, Bool.false_eq_true, if_false, FormatYAfterChild, Bool.not_false,
        Bool.and_true]
      obtain ⟨e1, e2, e3, e4⟩ := hrec (G.OwningNode OtherPin) (some OtherPin) (some MyPin) false
        (FormatYPlaceChild G a.F MyPin OtherPin) a.VisitedNodes [] s.SameRowMapping hP.1
        (by rw [hP.2]; exact hR) (Or.inr hr)
      have hA := SameTree_OnlyY e2 (OnlyY_FormatYAvoidPin G
        (recY (G.OwningNode OtherPin) (some OtherPin) (some MyPin) false
          (FormatYPlaceChild G a.F MyPin OtherPin, a.VisitedNodes, [])).1 d a.LastLinked
        (recY (G.OwningNode OtherPin) (some OtherPin) (some MyPin) false
          (FormatYPlaceChild G a.F MyPin OtherPin, a.VisitedNodes, [])).2.2)
      rw [← hV]
      exact ⟨hA.1, e1, hB, by rw [hA.2]; exact e3, e4 hr⟩
    | true =>
      simp only [FormatYRecord, if_true, FormatYAfterChild, Bool.not_true, Bool.and_false]
      have hT1 : SameTree S0 { FormatYPlaceChild G a.F MyPin OtherPin with
          SameRowMapping := (FormatYPlaceChild G a.F MyPin OtherPin).SameRowMapping
            ++ [({ From := some MyPin, To := some OtherPin, Node := G.OwningNode OtherPin }, true)] } :=
        hP.1
      obtain ⟨e1, e2, e3, e4⟩ := hrec (G.OwningNode OtherPin) (some OtherPin) (some MyPin) true
        { FormatYPlaceChild G a.F MyPin OtherPin with
          SameRowMapping := (FormatYPlaceChild G a.F MyPin OtherPin).SameRowMapping
            ++ [({ From := some MyPin, To := some OtherPin, Node := G.OwningNode OtherPin }, true)] }
        a.VisitedNodes [] (SameRowMark G s MyPin OtherPin).SameRowMapping hT1
        (by
          show RowsAgree G ((FormatYPlaceChild G a.F MyPin OtherPin).SameRowMapping
            ++ [({ From := some MyPin, To := some OtherPin, Node := G.OwningNode OtherPin }, true)]) _
          rw [hP.2]
          exact RowsAgree_mark G _ s MyPin OtherPin _ hR) (Or.inr hr)
      have hA := SameTree_OnlyY e2 (OnlyY_FormatYAvoidPin G
        (recY (G.OwningNode OtherPin) (some OtherPin) (some MyPin) true
          ({ FormatYPlaceChild G a.F MyPin OtherPin with
            SameRowMapping := (FormatYPlaceChild G a.F MyPin OtherPin).SameRowMapping
              ++ [({ From := some MyPin, To := some OtherPin, Node := G.OwningNode OtherPin }, true)] },
            a.VisitedNodes, [])).1 d a.LastLinked
        (recY (G.OwningNode OtherPin) (some OtherPin) (some MyPin) true
          ({ FormatYPlaceChild G a.F MyPin OtherPin with
            SameRowMapping := (FormatYPlaceChild G a.F MyPin OtherPin).SameRowMapping
              ++ [({ From := some MyPin, To := some OtherPin, Node := G.OwningNode OtherPin }, true)] },
            a.VisitedNodes, [])).2.2)
      have hv1 : (SameRowMark G s MyPin OtherPin).VisitedNodes = a.VisitedNodes := hV.symm
      rw [hv1]
      exact ⟨hA.1, e1, rfl, by rw [hA.2]; exact e3, e4 hr⟩

theorem FormatYPin_rows (G : FBAGraph) (S0 : FEdGraphParameterFormatter) (r : Nat)
    (hC : ∀ n, ∀ c ∈ SameRowChildren S0 n, c = r ∨ c ∉ S0.IgnoredNodes)
    (recY : Nat → Option Nat → Option Nat → Bool →
      FEdGraphParameterFormatter × List Nat × List Nat → FEdGraphParameterFormatter × List Nat × List Nat)
    (recP : Nat → Option Nat → Option Nat → List (FPinLink × Bool) × List Nat →
      List (FPinLink × Bool) × List Nat)
    (hrec : RecRows G S0 r recY recP) (c : Nat) (pp : Option Nat) (d : EEdGraphPinDirection)
    (a : FormatYState) (s : SameRowState) (MyPin : Nat) (h : YRows G S0 r a s) :
    YRows G S0 r (FormatYPin G (FormatYRecord recY) c pp (SameRowChildren S0 c) d a MyPin)
      (if !IsExecPin G MyPin then
        (G.pin MyPin).LinkedTo.foldl
          (fun s q => SameRowPair G S0 recP c pp (SameRowChildren S0 c) s (MyPin, q)) s
      else s) := by
  unfold FormatYPin
  dsimp only
  by_cases he : IsExecPin G MyPin = true
  · rw [if_pos he]
    simp only [he, Bool.not_true, Bool.false_eq_true, if_false]
    exact h
  · rw [if_neg he]
    simp only [he, Bool.not_false, if_true]
    have hf := foldl_rel (YRows G S0 r)
      (FormatYChild G (FormatYRecord recY) c pp (SameRowChildren S0 c) d MyPin)
      (fun s q => SameRowPair G S0 recP c pp (SameRowChildren S0 c) s (MyPin, q))
      (G.pin MyPin).LinkedTo a s h
      (fun x y q _ hxy => FormatYChild_rows G S0 r hC recY recP hrec c pp d MyPin x y q hxy)
    split_ifs
    · exact hf
    · exact hf

theorem FormatYDirection_rows (G : FBAGraph) (S0 : FEdGraphParameterFormatter) (r : Nat)
    (hC : ∀ n, ∀ c ∈ SameRowChildren S0 n, c = r ∨ c ∉ S0.IgnoredNodes)
    (recY : Nat → Option Nat → Option Nat → Bool →
      FEdGraphParameterFormatter × List Nat × List Nat → FEdGraphParameterFormatter × List Nat × List Nat)
    (recP : Nat → Option Nat → Option Nat → List (FPinLink × Bool) × List Nat →
      List (FPinLink × Bool) × List Nat)
    (hrec : RecRows G S0 r recY recP) (c : Nat) (pp : Option Nat)
    (a : FormatYState) (s : SameRowState) (d : EEdGraphPinDirection) (h : YRows G S0 r a s) :
    YRows G S0 r (FormatYDirection G (FormatYRecord recY) c pp (SameRowChildren S0 c) a d)
      ((GetPinsByDirection G c d).foldl (fun s p => if !IsExecPin G p then
        (G.pin p).LinkedTo.foldl
          (fun s q => SameRowPair G S0 recP c pp (SameRowChildren S0 c) s (p, q)) s
        else s) s) := by
  unfold FormatYDirection
  dsimp only
  have hf := foldl_rel (YRows G S0 r)
    (FormatYPin G (FormatYRecord recY) c pp (SameRowChildren S0 c) d)
    (fun s p => if !IsExecPin G p then
      (G.pin p).LinkedTo.foldl
        (fun s q => SameRowPair G S0 recP c pp (SameRowChildren S0 c) s (p, q)) s
      else s)
    (GetPinsByDirection G c d) { a with LastLinked := none, ChildBranches := [] } s h
    (fun x y p _ hxy => FormatYPin_rows G S0 r hC recY recP hrec c pp d x y p hxy)
  split_ifs
  · obtain ⟨hT, hV, hB, hR, hr⟩ := hf
    exact ⟨(SameTree_OnlyY hT (OnlyY_CenterBranches G _ c _ _)).1, hV, hB,
      by rw [(SameTree_OnlyY hT (OnlyY_CenterBranches G _ c _ _)).2]; exact hR, hr⟩
  · exact hf

/-- The body of the observed `FormatY` is simulated by the body of
`ProcessSameRowMapping` when their recursive calls are. -/
theorem FormatYBody_rows (G : FBAGraph) (S0 : FEdGraphParameterFormatter) (r : Nat)
    (hC : ∀ n, ∀ c ∈ SameRowChildren S0 n, c = r ∨ c ∉ S0.IgnoredNodes)
    (recY : Nat → Option Nat → Option Nat → Bool →
      FEdGraphParameterFormatter × List Nat × List Nat → FEdGraphParameterFormatter × List Nat × List Nat)
    (recP : Nat → Option Nat → Option Nat → List (FPinLink × Bool) × List Nat →
      List (FPinLink × Bool) × List Nat)
    (hrec : RecRows G S0 r recY recP) :
    RecRows G S0 r (FormatYBody G (FormatYRecord recY))
      (fun c _ pp acc => if c ∈ acc.2 then acc
        else
          (((SameRowPairs G c).foldl (SameRowPair G S0 recP c pp (SameRowChildren S0 c))
              (SameRowEnter c acc)).SameRowMapping,
           ((SameRowPairs G c).foldl (SameRowPair G S0 recP c pp (SameRowChildren S0 c))
              (SameRowEnter c acc)).VisitedNodes)) := by
  intro c cp pp b F V O M hT hR hcr
  unfold FormatYBody
  dsimp only
  by_cases hv : c ∈ V
  · rw [if_pos hv, if_pos hv]
    exact ⟨rfl, hT, hR, fun h => h⟩
  · rw [if_neg hv, if_neg hv, SameRowChildren_SameTree hT c, SameRowPairs_foldl]
    have hcol := SameTree_OnlyY hT (OnlyY_FormatYCollision G c V 100 F)
    have h0 : YRows G S0 r
        { F := FormatYCollision G c V 100 F, VisitedNodes := setAdd V c, OutChildren := O,
          bFirstPin := true, LastLinked := none, ChildBranches := [] }
        (SameRowEnter c (M, V)) := by
      refine ⟨hcol.1, ?_, rfl, by rw [hcol.2]; exact hR, ?_⟩
      · simp [setAdd, hv, SameRowEnter]
      · rcases hcr with e | e
        · rw [e]
          exact (mem_setAdd _ _ _).2 (Or.inl rfl)
        · exact (mem_setAdd _ _ _).2 (Or.inr e)
    have hf := foldl_rel (YRows G S0 r)
      (FormatYDirection G (FormatYRecord recY) c pp (SameRowChildren S0 c))
      (fun s d => (GetPinsByDirection G c d).foldl (fun s p => if !IsExecPin G p then
        (G.pin p).LinkedTo.foldl
          (fun s q => SameRowPair G S0 recP c pp (SameRowChildren S0 c) s (p, q)) s
        else s) s)
      [EGPD_Input, EGPD_Output] _ _ h0
      (fun x y d _ hxy => FormatYDirection_rows G S0 r hC recY recP hrec c pp x y d hxy)
    obtain ⟨fT, fV, _, fR, fr⟩ := hf
    have hfin := SameTree_OnlyY fT (OnlyY_FormatYFinish G _ b cp pp)
    exact ⟨fV, hfin.1, by rw [hfin.2]; exact fR, fun _ => fr⟩

/-- The observed `FormatY` is simulated by `ProcessSameRowMapping` at every
depth of the recursion. -/
theorem FormatYRecorded_rows (G : FBAGraph) (S0 : FEdGraphParameterFormatter) (r : Nat)
    (hC : ∀ n, ∀ c ∈ SameRowChildren S0 n, c = r ∨ c ∉ S0.IgnoredNodes) :
    ∀ fuel : Nat, RecRows G S0 r (FormatYRecorded G fuel) (ProcessSameRowMapping G S0 fuel) := by
  intro fuel
  induction fuel with
  | zero =>
    intro c cp pp b F V O M hT hR _
    exact ⟨rfl, hT, hR, fun h => h⟩
  | succ n ih =>
    intro c cp pp b F V O M hT hR hcr
    have h := FormatYBody_rows G S0 r hC _ _ ih c cp pp b F V O M hT hR hcr
    simpa only [FormatYRecorded, ProcessSameRowMapping] using h

theorem FormatXStep_cases (G : FBAGraph) (d : EEdGraphPinDirection) (st : FormatXState) :
    FormatXStep G d st = st
      ∨ ∃ l iq oq, (l ∈ st.InputQueue ∨ l ∈ st.OutputQueue)
          ∧ FormatXStep G d st
            = (FormatXLinks G (FormatXVisit G d { st with InputQueue := iq, OutputQueue := oq } l).F d
                (l.GetNode G)).foldl (fun a pq => FormatXEnqueue G (l.GetNode G) a pq.1 pq.2)
                (FormatXVisit G d { st with InputQueue := iq, OutputQueue := oq } l) := by
  unfold FormatXStep
  dsimp only
  split_ifs with hd
  · cases hi : st.InputQueue with
    | cons l rest => exact Or.inr ⟨l, rest, st.OutputQueue, Or.inl (List.mem_cons_self _ _), rfl⟩
    | nil =>
      cases ho : st.OutputQueue with
      | cons l rest => exact Or.inr ⟨l, [], rest, Or.inr (List.mem_cons_self _ _), rfl⟩
      | nil => exact Or.inl rfl
  · cases ho : st.OutputQueue with
    | cons l rest => exact Or.inr ⟨l, st.InputQueue, rest, Or.inr (List.mem_cons_self _ _), rfl⟩
    | nil =>
      cases hi : st.InputQueue with
      | cons l rest => exact Or.inr ⟨l, rest, [], Or.inl (List.mem_cons_self _ _), rfl⟩
      | nil => exact Or.inl rfl

/-- The visit of a dequeued link gives an entry in the map to no node but the
node of the link. -/
theorem FormatXVisit_keys_le (G : FBAGraph) (d : EEdGraphPinDirection) (st : FormatXState) (l : FPinLink)
    (k : Nat) (h : mapContains (FormatXVisit G d st l).F.NodeInfoMap k = true) :
    mapContains st.F.NodeInfoMap k = true ∨ k = l.GetNode G := by
  have hcreate : ∀ (S1 : FEdGraphParameterFormatter) (pi : Option Nat),
      (FormatXCreate G d S1 l pi).NodeInfoMap = mapAdd S1.NodeInfoMap (l.GetNode G) S1.Infos.length := by
    intro S1 pi
    unfold FormatXCreate FormatXAddInfo withPlaced withFormatted FormatXMarkSide
    dsimp only
    split_ifs <;> rfl
  have hrep : ∀ (S1 : FEdGraphParameterFormatter) (pi : Option Nat) (ci : Nat),
      (FormatXReparent G S1 l pi ci).NodeInfoMap = S1.NodeInfoMap := by
    intro S1 pi ci
    unfold FormatXReparent withXInfos
    dsimp only
    split_ifs <;> rfl
  unfold FormatXVisit withMap at h
  dsimp only at h
  split at h
  · rw [hrep] at h
    split_ifs at h
    · exact Or.inl ((mapContains_mapRemove _ _ _).1 h).2
    · exact Or.inl h
  · rw [hcreate, mapContains_mapAdd] at h
    rcases h with h | h
    · exact Or.inr h
    · split_ifs at h
      · exact Or.inl ((mapContains_mapRemove _ _ _).1 h).2
      · exact Or.inl h

theorem FormatXLoop_keys_good (G : FBAGraph) (r : Nat) (ign : List Nat) (d : EEdGraphPinDirection) :
    ∀ (fuel : Nat) (st st' : FormatXState), FormatXLoop G d fuel st = some st' → FXGood G r ign st →
      (∀ k, mapContains st.F.NodeInfoMap k = true → k = r ∨ Eligible G ign k) →
      ∀ k, mapContains st'.F.NodeInfoMap k = true → k = r ∨ Eligible G ign k := by
  intro fuel
  induction fuel with
  | zero =>
    intro st st' h _ hk
    simp only [FormatXLoop] at h
    split_ifs at h
    cases h
    exact hk
  | succ n ih =>
    intro st st' h hg hk
    simp only [FormatXLoop] at h
    split_ifs at h
    · cases h
      exact hk
    · refine ih _ _ h (FormatXStep_good G r ign d st hg) ?_
      rcases FormatXStep_cases G d st with e | ⟨l, iq, oq, hl, e⟩
      · rw [e]; exact hk
      · rw [e, FormatXEnqueue_fold_F]
        intro k hk'
        rcases FormatXVisit_keys_le G d _ l k hk' with h1 | h1
        · exact hk k h1
        · rw [h1]
          rcases hl with hl | hl
          · exact hg.2.2.2.1 l hl
          · exact hg.2.2.2.2 l hl

/-- After `FormatX` every node with an entry in the map is the root or a node
that may be formatted. -/
theorem FormatX_keys_good (G : FBAGraph) (S : FEdGraphParameterFormatter) (r : Nat)
    (hr : S.RootNode = some r)
    (h : ∀ n ∈ S.AllFormattedNodes, n = r ∨ Eligible G S.IgnoredNodes n) :
    ∀ k, mapContains (FormatX G S).NodeInfoMap k = true → k = r ∨ Eligible G S.IgnoredNodes k := by
  obtain ⟨st, hst⟩ := FormatXFuel_terminates G S
  have hX : FormatX G S = st.F := by simp [FormatX, hst]
  rw [hX]
  simp only [FormatXFuel, Option.bind_eq_some] at hst
  obtain ⟨st1, e1, e2⟩ := hst
  have g0 : FXGood G r S.IgnoredNodes (FormatXPassInit (FormatXInit S) EGPD_Output) :=
    FormatXPassInit_good G r _ _ _ hr rfl h
  have k0 : ∀ k, mapContains (FormatXPassInit (FormatXInit S) EGPD_Output).F.NodeInfoMap k = true →
      k = r ∨ Eligible G S.IgnoredNodes k := by
    intro k hk
    rw [(FormatXPassInit_measure G _ EGPD_Output).2.2] at hk
    simp [FormatXInit, mapContains, mapFind] at hk
  have g1 := FormatXLoop_good G r _ _ _ _ _ e1 g0
  have k1 := FormatXLoop_keys_good G r _ _ _ _ _ e1 g0 k0
  have g2 : FXGood G r S.IgnoredNodes (FormatXPassInit st1 EGPD_Input) :=
    FormatXPassInit_good G r _ _ _ g1.1 g1.2.1 g1.2.2.1
  exact FormatXLoop_keys_good G r _ _ _ _ _ e2 g2 (by
    rw [(FormatXPassInit_measure G st1 EGPD_Input).2.2]
    exact k1)
/-! ## `FormatX` does not read the formatted set -/

theorem FormatXReparent_withAFN (G : FBAGraph) (S : FEdGraphParameterFormatter) (L : List Nat)
    (l : FPinLink) (pi : Option Nat) (ci : Nat) :
    FormatXReparent G (withAFN S L) l pi ci = withAFN (FormatXReparent G S l pi ci) L := by
  have h : FormatXTakeNewParent G (withAFN S L) l ci = FormatXTakeNewParent G S l ci := rfl
  unfold FormatXReparent
  dsimp only
  rw [h]
  split_ifs
  · rfl
  · rfl

theorem FormatXCreate_withAFN (G : FBAGraph) (d : EEdGraphPinDirection) (S : FEdGraphParameterFormatter)
    (L : List Nat) (l : FPinLink) (pi : Option Nat) :
    FormatXCreate G d (withAFN S L) l pi
      = withAFN (FormatXCreate G d S l pi) (setAdd L (l.GetNode G)) := by
  unfold FormatXCreate FormatXAddInfo withPlaced withFormatted FormatXMarkSide withAFN
  dsimp only
  split_ifs <;> rfl

theorem FormatXVisit_stateAFN (G : FBAGraph) (d : EEdGraphPinDirection) (st : FormatXState)
    (L : List Nat) (l : FPinLink) :
    ∃ L', FormatXVisit G d (stateAFN st L) l = stateAFN (FormatXVisit G d st l) L' := by
  unfold FormatXVisit withMap
  dsimp only
  have h1 : (stateAFN st L).F.NodeInfoMap = st.F.NodeInfoMap := rfl
  have h2 : (stateAFN st L).F.RootNode = st.F.RootNode := rfl
  have h3 : (stateAFN st L).TempOutput = st.TempOutput := rfl
  rw [h1, h2, h3]
  by_cases hb : (mapContains st.F.NodeInfoMap (l.GetNode G) && st.F.RootNode != some (l.GetNode G)
      && decide (l.GetNode G ∈ st.TempOutput) && d == EGPD_Input) = true
  · simp only [hb, if_true]
    rw [mapFind_mapRemove, if_pos rfl]
    refine ⟨setAdd L (l.GetNode G), ?_⟩
    unfold stateAFN
    dsimp only
    congr 1
    exact FormatXCreate_withAFN G d
      { st.F with NodeInfoMap := mapRemove st.F.NodeInfoMap (l.GetNode G) } L l
      (l.From.bind (fun p => mapFind st.F.NodeInfoMap (G.OwningNode p)))
  · simp only [hb, if_false, Bool.false_eq_true]
    cases hf : mapFind st.F.NodeInfoMap (l.GetNode G) with
    | some ci =>
      refine ⟨L, ?_⟩
      unfold stateAFN
      dsimp only
      have h4 : (withAFN st.F L).NodeInfoMap = st.F.NodeInfoMap := rfl
      rw [h4, hf]
      dsimp only
      congr 1
      exact FormatXReparent_withAFN G st.F L l
        (l.From.bind (fun p => mapFind st.F.NodeInfoMap (G.OwningNode p))) ci
    | none =>
      refine ⟨setAdd L (l.GetNode G), ?_⟩
      unfold stateAFN
      dsimp only
      have h4 : (withAFN st.F L).NodeInfoMap = st.F.NodeInfoMap := rfl
      rw [h4, hf]
      dsimp only
      congr 1
      exact FormatXCreate_withAFN G d st.F L l
        (l.From.bind (fun p => mapFind st.F.NodeInfoMap (G.OwningNode p)))

theorem FormatXEnqueue_stateAFN (G : FBAGraph) (c : Nat) (st : FormatXState) (L : List Nat) (p q : Nat) :
    FormatXEnqueue G c (stateAFN st L) p q = stateAFN (FormatXEnqueue G c st p q) L := by
  unfold FormatXEnqueue stateAFN withAFN
  dsimp only
  split_ifs <;> rfl

theorem FormatXEnqueue_fold_stateAFN (G : FBAGraph) (c : Nat) (L : List Nat) (ls : List (Nat × Nat)) :
    ∀ st : FormatXState, ls.foldl (fun a pq => FormatXEnqueue G c a pq.1 pq.2) (stateAFN st L)
      = stateAFN (ls.foldl (fun a pq => FormatXEnqueue G c a pq.1 pq.2) st) L := by
  induction ls with
  | nil => intro st; rfl
  | cons x xs ih =>
    intro st
    simp only [List.foldl_cons]
    rw [FormatXEnqueue_stateAFN, ih]

theorem FormatXStep_core_stateAFN (G : FBAGraph) (d : EEdGraphPinDirection) (st : FormatXState)
    (L : List Nat) (l : FPinLink) :
    ∃ L', (FormatXLinks G (FormatXVisit G d (stateAFN st L) l).F d (l.GetNode G)).foldl
        (fun a pq => FormatXEnqueue G (l.GetNode G) a pq.1 pq.2) (FormatXVisit G d (stateAFN st L) l)
      = stateAFN ((FormatXLinks G (FormatXVisit G d st l).F d (l.GetNode G)).foldl
        (fun a pq => FormatXEnqueue G (l.GetNode G) a pq.1 pq.2) (FormatXVisit G d st l)) L' := by
  obtain ⟨L', h⟩ := FormatXVisit_stateAFN G d st L l
  refine ⟨L', ?_⟩
  rw [h]
  have hl : FormatXLinks G (stateAFN (FormatXVisit G d st l) L').F d (l.GetNode G)
      = FormatXLinks G (FormatXVisit G d st l).F d (l.GetNode G) := rfl
  rw [hl, FormatXEnqueue_fold_stateAFN]

theorem FormatXStep_stateAFN (G : FBAGraph) (d : EEdGraphPinDirection) (st : FormatXState)
    (L : List Nat) : ∃ L', FormatXStep G d (stateAFN st L) = stateAFN (FormatXStep G d st) L' := by
  have hi0 : (stateAFN st L).InputQueue = st.InputQueue := rfl
  have ho0 : (stateAFN st L).OutputQueue = st.OutputQueue := rfl
  have key : ∀ (l : FPinLink) (iq oq : List FPinLink),
      ∃ L', (FormatXLinks G (FormatXVisit G d
          { stateAFN st L with InputQueue := iq, OutputQueue := oq } l).F d (l.GetNode G)).foldl
          (fun a pq => FormatXEnqueue G (l.GetNode G) a pq.1 pq.2)
          (FormatXVisit G d { stateAFN st L with InputQueue := iq, OutputQueue := oq } l)
        = stateAFN ((FormatXLinks G (FormatXVisit G d
          { st with InputQueue := iq, OutputQueue := oq } l).F d (l.GetNode G)).foldl
          (fun a pq => FormatXEnqueue G (l.GetNode G) a pq.1 pq.2)
          (FormatXVisit G d { st with InputQueue := iq, OutputQueue := oq } l)) L' :=
    fun l iq oq => FormatXStep_core_stateAFN G d { st with InputQueue := iq, OutputQueue := oq } L l
  unfold FormatXStep
  dsimp only
  rw [hi0, ho0]
  split_ifs with hd
  · cases hi : st.InputQueue with
    | cons l rest => exact key l rest st.OutputQueue
    | nil =>
      cases ho : st.OutputQueue with
      | cons l rest => exact key l [] rest
      | nil => exact ⟨L, rfl⟩
  · cases ho : st.OutputQueue with
    | cons l rest => exact key l st.InputQueue rest
    | nil =>
      cases hi : st.InputQueue with
      | cons l rest => exact key l rest []
      | nil => exact ⟨L, rfl⟩

theorem FormatXLoop_stateAFN (G : FBAGraph) (d : EEdGraphPinDirection) :
    ∀ (fuel : Nat) (st : FormatXState) (L : List Nat),
      ∃ L', FormatXLoop G d fuel (stateAFN st L)
        = (FormatXLoop G d fuel st).map (fun s => stateAFN s L') := by
  intro fuel
  induction fuel with
  | zero =>
    intro st L
    refine ⟨L, ?_⟩
    simp only [FormatXLoop]
    have hi0 : (stateAFN st L).InputQueue = st.InputQueue := rfl
    have ho0 : (stateAFN st L).OutputQueue = st.OutputQueue := rfl
    rw [hi0, ho0]
    split_ifs <;> rfl
  | succ n ih =>
    intro st L
    simp only [FormatXLoop]
    have hi0 : (stateAFN st L).InputQueue = st.InputQueue := rfl
    have ho0 : (stateAFN st L).OutputQueue = st.OutputQueue := rfl
    rw [hi0, ho0]
    split_ifs
    · exact ⟨L, rfl⟩
    · obtain ⟨L1, h1⟩ := FormatXStep_stateAFN G d st L
      rw [h1]
      exact ih _ L1

theorem FormatXPassInit_stateAFN (st : FormatXState) (L : List Nat) (d : EEdGraphPinDirection) :
    FormatXPassInit (stateAFN st L) d = stateAFN (FormatXPassInit st d) L := by
  unfold FormatXPassInit stateAFN withAFN
  dsimp only
  split_ifs <;> rfl

/-- `FormatX` never reads `AllFormattedNodes`: started with another formatted
set it returns the same formatter but for the formatted set. -/
theorem FormatX_withAFN (G : FBAGraph) (S : FEdGraphParameterFormatter) (L : List Nat) :
    ∃ L', FormatX G (withAFN S L) = withAFN (FormatX G S) L' := by
  unfold FormatX FormatXFuel
  have h0 : FormatXInit (withAFN S L) = stateAFN (FormatXInit S) L := rfl
  rw [h0, FormatXPassInit_stateAFN]
  obtain ⟨L1, h1⟩ := FormatXLoop_stateAFN G EGPD_Output (numPinLinks G + 1)
    (FormatXPassInit (FormatXInit S) EGPD_Output) L
  rw [h1]
  cases ha : FormatXLoop G EGPD_Output (numPinLinks G + 1) (FormatXPassInit (FormatXInit S) EGPD_Output) with
  | none => exact ⟨L, rfl⟩
  | some st1 =>
    simp only [Option.map_some', Option.some_bind]
    rw [FormatXPassInit_stateAFN]
    obtain ⟨L2, h2⟩ := FormatXLoop_stateAFN G EGPD_Input (numPinLinks G + 1)
      (FormatXPassInit st1 EGPD_Input) L1
    rw [h2]
    cases hb : FormatXLoop G EGPD_Input (numPinLinks G + 1) (FormatXPassInit st1 EGPD_Input) with
    | none => exact ⟨L, rfl⟩
    | some st2 => exact ⟨L2, rfl⟩
/-! ## The observation of `FormatY` changes nothing but the record -/

theorem foldl_hom {α β : Type} (φ : α → α) (f : α → β → α) (h : ∀ a x, f (φ a) x = φ (f a x)) :
    ∀ (l : List β) (a : α), l.foldl f (φ a) = φ (l.foldl f a) := by
  intro l
  induction l with
  | nil => intro a; rfl
  | cons x xs ih =>
    intro a
    rw [List.foldl_cons, List.foldl_cons, h, ih]

theorem StraightenPin_withRows (G : FBAGraph) (S : FEdGraphParameterFormatter)
    (m : List (FPinLink × Bool)) (p q : Nat) :
    StraightenPin G (withRows S m) p q = withRows (StraightenPin G S p q) m := rfl

theorem FormatYCollision_withRows (G : FBAGraph) (c : Nat) (V : List Nat) (m : List (FPinLink × Bool)) :
    ∀ (n : Nat) (S : FEdGraphParameterFormatter),
      FormatYCollision G c V n (withRows S m) = withRows (FormatYCollision G c V n S) m := by
  intro n
  induction n with
  | zero => intro S; rfl
  | succ k ih =>
    intro S
    simp only [FormatYCollision]
    have hb : ∀ v, GetCachedNodeBounds G (withRows S m) v = GetCachedNodeBounds G S v := fun _ => rfl
    simp only [hb]
    split
    · rfl
    · rename_i v _
      exact ih (withPosY S c (S.NodePosY c
        + (((GetCachedNodeBounds G S v).ExtendBy 0 0 0 G.Settings.PaddingY).Bottom
          - (GetCachedNodeBounds G S c).Top + 1)))

theorem FormatYPlaceChild_withRows (G : FBAGraph) (S : FEdGraphParameterFormatter)
    (m : List (FPinLink × Bool)) (p q : Nat) :
    FormatYPlaceChild G (withRows S m) p q = withRows (FormatYPlaceChild G S p q) m := by
  unfold FormatYPlaceChild withRows
  dsimp only
  split_ifs <;> rfl

theorem FormatYAvoidPin_withRows (G : FBAGraph) (S : FEdGraphParameterFormatter)
    (m : List (FPinLink × Bool)) (d : EEdGraphPinDirection) (ll : Option Nat) (lc : List Nat) :
    FormatYAvoidPin G (withRows S m) d ll lc = withRows (FormatYAvoidPin G S d ll lc) m := by
  unfold FormatYAvoidPin
  dsimp only
  have h1 : (withRows S m).bFormatWithHelixing = S.bFormatWithHelixing := rfl
  have h2 : GetCachedNodeArrayBounds G (withRows S m) lc = GetCachedNodeArrayBounds G S lc := rfl
  have h3 : ∀ p, GetPinY G (withRows S m) p = GetPinY G S p := fun _ => rfl
  rw [h1, h2]
  simp only [h3]
  split_ifs
  · cases ll with
    | none => rfl
    | some p =>
      dsimp only
      split_ifs
      · exact foldl_hom (fun a => withRows a m) _ (fun a x => rfl) lc S
      · rfl
  · rfl

theorem CenterBranches_withRows (G : FBAGraph) (S : FEdGraphParameterFormatter)
    (m : List (FPinLink × Bool)) (c : Nat) (brs : List ChildBranch) (V : List Nat) :
    CenterBranches G (withRows S m) c brs V = withRows (CenterBranches G S c brs V) m := by
  have h1 : CenterOffsetBranches G (withRows S m) brs = withRows (CenterOffsetBranches G S brs) m := by
    unfold CenterOffsetBranches
    dsimp only
    have h3 : ∀ p, GetPinY G (withRows S m) p = GetPinY G S p := fun _ => rfl
    simp only [h3]
    exact foldl_hom (fun a => withRows a m) _ (fun a x => rfl) _ S
  have h2 : ∀ (T : FEdGraphParameterFormatter) (A : List Nat),
      CenterDeltaY G (withRows T m) A V = CenterDeltaY G T A V := fun _ _ => rfl
  unfold CenterBranches
  dsimp only
  rw [h1, h2]
  split_ifs
  · exact foldl_hom (fun a => withRows a m) _ (fun a x => rfl) _ _
  · rfl

theorem FormatYFinish_withRows (G : FBAGraph) (S : FEdGraphParameterFormatter)
    (m : List (FPinLink × Bool)) (b : Bool) (cp pp : Option Nat) :
    FormatYFinish G (withRows S m) b cp pp = withRows (FormatYFinish G S b cp pp) m := by
  unfold FormatYFinish
  split <;> rfl

theorem foldl_exists_hom {α β γ μ : Type} (φ : μ → γ → α) (f : α → β → α) (g : γ → β → γ)
    (h : ∀ a m x, ∃ m', f (φ m a) x = φ m' (g a x)) :
    ∀ (l : List β) (a : γ) (m : μ), ∃ m', l.foldl f (φ m a) = φ m' (l.foldl g a) := by
  intro l
  induction l with
  | nil => intro a m; exact ⟨m, rfl⟩
  | cons x xs ih =>
    intro a m
    obtain ⟨m1, h1⟩ := h a m x
    rw [List.foldl_cons, List.foldl_cons, h1]
    exact ih _ m1

theorem FormatYChild_erase (G : FBAGraph)
    (recR recP : Nat → Option Nat → Option Nat → Bool →
      FEdGraphParameterFormatter × List Nat × List Nat → FEdGraphParameterFormatter × List Nat × List Nat)
    (hrec : RecErase recR recP) (c : Nat) (pp : Option Nat) (Ch : List Nat) (d : EEdGraphPinDirection)
    (MyPin : Nat) (a : FormatYState) (m : List (FPinLink × Bool)) (q : Nat) :
    ∃ m', FormatYChild G (FormatYRecord recR) c pp Ch d MyPin (stateRows a m) q
      = stateRows (FormatYChild G recP c pp Ch d MyPin a q) m' := by
  unfold FormatYChild
  dsimp only
  have h1 : (stateRows a m).F.IgnoredNodes = a.F.IgnoredNodes := rfl
  have h2 : (stateRows a m).VisitedNodes = a.VisitedNodes := rfl
  have h3 : FormatYChildIsSameRow G (stateRows a m) c pp MyPin q = FormatYChildIsSameRow G a c pp MyPin q :=
    rfl
  have h4 : (stateRows a m).F = withRows a.F m := rfl
  have h5 : (stateRows a m).LastLinked = a.LastLinked := rfl
  rw [h1, h2, h3, h4, h5, FormatYPlaceChild_withRows]
  split_ifs with hs
  · exact ⟨m, rfl⟩
  · have hcall : ∃ m', FormatYRecord recR (G.OwningNode q) (some q) (some MyPin)
          (FormatYChildIsSameRow G a c pp MyPin q)
          (withRows (FormatYPlaceChild G a.F MyPin q) m, a.VisitedNodes, [])
        = (withRows (recP (G.OwningNode q) (some q) (some MyPin)
              (FormatYChildIsSameRow G a c pp MyPin q)
              (FormatYPlaceChild G a.F MyPin q, a.VisitedNodes, [])).1 m',
            (recP (G.OwningNode q) (some q) (some MyPin)
              (FormatYChildIsSameRow G a c pp MyPin q)
              (FormatYPlaceChild G a.F MyPin q, a.VisitedNodes, [])).2) := by
      unfold FormatYRecord
      split_ifs
      · exact hrec _ _ _ _ (FormatYPlaceChild G a.F MyPin q)
          (m ++ [({ From := some MyPin, To := some q, Node := G.OwningNode q }, true)]) _ _
      · exact hrec _ _ _ _ (FormatYPlaceChild G a.F MyPin q) m _ _
    obtain ⟨m', hm'⟩ := hcall
    refine ⟨m', ?_⟩
    rw [hm']
    dsimp only
    rw [FormatYAvoidPin_withRows]
    rfl

theorem FormatYPin_erase (G : FBAGraph)
    (recR recP : Nat → Option Nat → Option Nat → Bool →
      FEdGraphParameterFormatter × List Nat × List Nat → FEdGraphParameterFormatter × List Nat × List Nat)
    (hrec : RecErase recR recP) (c : Nat) (pp : Option Nat) (Ch : List Nat) (d : EEdGraphPinDirection)
    (a : FormatYState) (m : List (FPinLink × Bool)) (MyPin : Nat) :
    ∃ m', FormatYPin G (FormatYRecord recR) c pp Ch d (stateRows a m) MyPin
      = stateRows (FormatYPin G recP c pp Ch d a MyPin) m' := by
  unfold FormatYPin
  dsimp only
  split_ifs
  · exact ⟨m, rfl⟩
  · obtain ⟨m', h⟩ := foldl_exists_hom (fun m a => stateRows a m)
      (FormatYChild G (FormatYRecord recR) c pp Ch d MyPin) (FormatYChild G recP c pp Ch d MyPin)
      (fun a m x => FormatYChild_erase G recR recP hrec c pp Ch d MyPin a m x) (G.pin MyPin).LinkedTo a m
    exact ⟨m', by rw [h]; rfl⟩
  · exact foldl_exists_hom (fun m a => stateRows a m)
      (FormatYChild G (FormatYRecord recR) c pp Ch d MyPin) (FormatYChild G recP c pp Ch d MyPin)
      (fun a m x => FormatYChild_erase G recR recP hrec c pp Ch d MyPin a m x) (G.pin MyPin).LinkedTo a m

theorem FormatYDirection_erase (G : FBAGraph)
    (recR recP : Nat → Option Nat → Option Nat → Bool →
      FEdGraphParameterFormatter × List Nat × List Nat → FEdGraphParameterFormatter × List Nat × List Nat)
    (hrec : RecErase recR recP) (c : Nat) (pp : Option Nat) (Ch : List Nat)
    (a : FormatYState) (m : List (FPinLink × Bool)) (d : EEdGraphPinDirection) :
    ∃ m', FormatYDirection G (FormatYRecord recR) c pp Ch (stateRows a m) d
      = stateRows (FormatYDirection G recP c pp Ch a d) m' := by
  unfold FormatYDirection
  dsimp only
  obtain ⟨m', h⟩ := foldl_exists_hom (fun m a => stateRows a m)
    (FormatYPin G (FormatYRecord recR) c pp Ch d) (FormatYPin G recP c pp Ch d)
    (fun a m x => FormatYPin_erase G recR recP hrec c pp Ch d a m x) (GetPinsByDirection G c d)
    { a with LastLinked := none, ChildBranches := [] } m
  have h0 : ({ stateRows a m with LastLinked := none, ChildBranches := [] } : FormatYState)
      = stateRows { a with LastLinked := none, ChildBranches := [] } m := rfl
  rw [h0, h]
  refine ⟨m', ?_⟩
  have e1 : ∀ x : FormatYState, (stateRows x m').ChildBranches = x.ChildBranches := fun _ => rfl
  have e2 : ∀ (x : FormatYState) (l : List Nat),
      GetCachedNodeArrayBounds G (stateRows x m').F l = GetCachedNodeArrayBounds G x.F l := fun _ _ => rfl
  have e3 : ∀ x : FormatYState, (stateRows x m').F.NodePosX = x.F.NodePosX := fun _ => rfl
  have e4 : ∀ x : FormatYState, (stateRows x m').F = withRows x.F m' := fun _ => rfl
  have e5 : ∀ x : FormatYState, (stateRows x m').VisitedNodes = x.VisitedNodes := fun _ => rfl
  rw [e1, e2, e3]
  split_ifs
  · rw [e4, e5, CenterBranches_withRows]
    rfl
  · rfl

theorem FormatYBody_erase (G : FBAGraph)
    (recR recP : Nat → Option Nat → Option Nat → Bool →
      FEdGraphParameterFormatter × List Nat × List Nat → FEdGraphParameterFormatter × List Nat × List Nat)
    (hrec : RecErase recR recP) :
    RecErase (FormatYBody G (FormatYRecord recR)) (FormatYBody G recP) := by
  intro c cp pp b S m V O
  unfold FormatYBody
  dsimp only
  split_ifs
  · exact ⟨m, rfl⟩
  · have h1 : (withRows S m).NodeInfoMap = S.NodeInfoMap := rfl
    have h2 : (withRows S m).Infos = S.Infos := rfl
    rw [h1, h2, FormatYCollision_withRows]
    obtain ⟨m', h⟩ := foldl_exists_hom (fun m a => stateRows a m)
      (FormatYDirection G (FormatYRecord recR) c pp (match mapFind S.NodeInfoMap c with
        | some i => GetChildNodes S.Infos i
        | none => []))
      (FormatYDirection G recP c pp (match mapFind S.NodeInfoMap c with
        | some i => GetChildNodes S.Infos i
        | none => []))
      (fun a m x => FormatYDirection_erase G recR recP hrec c pp _ a m x) [EGPD_Input, EGPD_Output]
      { F := FormatYCollision G c V 100 S, VisitedNodes := setAdd V c, OutChildren := O,
        bFirstPin := true, LastLinked := none, ChildBranches := [] } m
    have h0 : ∀ (F0 : FEdGraphParameterFormatter) (V0 : List Nat),
        (⟨withRows F0 m, V0, O, true, none, []⟩ : FormatYState)
          = stateRows ⟨F0, V0, O, true, none, []⟩ m := fun _ _ => rfl
    rw [h0, h]
    refine ⟨m', ?_⟩
    have e4 : ∀ x : FormatYState, (stateRows x m').F = withRows x.F m' := fun _ => rfl
    rw [e4, FormatYFinish_withRows]
    rfl

/-- The observed `FormatY` places the nodes, visits and gathers the children
as `FormatY` does; only the row mapping, which holds the record, differs. -/
theorem FormatYRecorded_erase (G : FBAGraph) :
    ∀ fuel : Nat, RecErase (FormatYRecorded G fuel) (FormatY G fuel) := by
  intro fuel
  induction fuel with
  | zero => intro c cp pp b S m V O; exact ⟨m, rfl⟩
  | succ n ih => exact FormatYBody_erase G _ _ ih
/-! ## `FormatX` commutes with a horizontal translation -/

theorem setPos_shiftF (X : Nat → Int) (d : Int) (n : Nat) (v : Int) :
    setPos (shiftF X d) n (v + d) = shiftF (setPos X n v) d := by
  funext m
  simp only [setPos, shiftF]
  split_ifs <;> rfl

theorem GetChildX_shiftX (G : FBAGraph) (S : FEdGraphParameterFormatter) (d : Int) (l : FPinLink)
    (dir : EEdGraphPinDirection) : GetChildX G (shiftX S d) l dir = GetChildX G S l dir + d := by
  unfold GetChildX GetCachedNodeBounds shiftX shiftF
  dsimp only
  split_ifs <;> omega

theorem FormatXNewNodePos_shiftX (G : FBAGraph) (S : FEdGraphParameterFormatter) (d : Int)
    (l : FPinLink) (h : Int) :
    FormatXNewNodePos G (shiftX S d) l (h + d) = FormatXNewNodePos G S l h + d := by
  unfold FormatXNewNodePos
  dsimp only
  have h1 : (shiftX S d).bFormatWithHelixing = S.bFormatWithHelixing := rfl
  have h2 : (shiftX S d).FormattedInputNodes = S.FormattedInputNodes := rfl
  rw [h1, h2, GetChildX_shiftX]
  split_ifs <;> rfl

theorem FormatXTakeNewParent_shiftX (G : FBAGraph) (S : FEdGraphParameterFormatter) (d : Int)
    (l : FPinLink) (ci : Nat) :
    FormatXTakeNewParent G (shiftX S d) l ci = FormatXTakeNewParent G S l ci := by
  unfold FormatXTakeNewParent
  dsimp only
  have h1 : (shiftX S d).bFormatWithHelixing = S.bFormatWithHelixing := rfl
  have h2 : (shiftX S d).FormattedInputNodes = S.FormattedInputNodes := rfl
  have h3 : (shiftX S d).Infos = S.Infos := rfl
  have h4 : (shiftX S d).NodePosX (l.GetNode G) = S.NodePosX (l.GetNode G) + d := rfl
  rw [h1, h2, h3, h4, FormatXNewNodePos_shiftX]
  have e1 : decide (FormatXNewNodePos G S l (S.NodePosX (l.GetNode G)) + d < S.NodePosX (l.GetNode G) + d)
      = decide (FormatXNewNodePos G S l (S.NodePosX (l.GetNode G)) < S.NodePosX (l.GetNode G)) := by
    simp
  have e2 : decide (FormatXNewNodePos G S l (S.NodePosX (l.GetNode G)) + d > S.NodePosX (l.GetNode G) + d)
      = decide (FormatXNewNodePos G S l (S.NodePosX (l.GetNode G)) > S.NodePosX (l.GetNode G)) := by
    simp
  rw [e1, e2]

theorem MoveChild_shift (G : FBAGraph) (Infos : List FNodeInfo) (P : Nat) (d : Int)
    (X : Nat → Int) (V : List Nat) (c : Nat) :
    MoveChild G Infos P (shiftF X d, V) c
      = (shiftF (MoveChild G Infos P (X, V) c).1 d, (MoveChild G Infos P (X, V) c).2) := by
  unfold MoveChild
  dsimp only
  by_cases hv : (getInfo Infos c).Node ∈ V
  · rw [if_pos hv, if_pos hv]
  · rw [if_neg hv, if_neg hv]
    dsimp only
    rw [← setPos_shiftF]
    have hx : (if (getInfo Infos c).Direction = EGPD_Input
        then shiftF X d P - (G.node (getInfo Infos c).Node).SizeX - max 1 G.Settings.PaddingX
        else shiftF X d P + (G.node P).SizeX + max 1 G.Settings.PaddingX)
        = (if (getInfo Infos c).Direction = EGPD_Input
          then X P - (G.node (getInfo Infos c).Node).SizeX - max 1 G.Settings.PaddingX
          else X P + (G.node P).SizeX + max 1 G.Settings.PaddingX) + d := by
      simp only [shiftF]
      split_ifs <;> omega
    rw [hx]

theorem MoveChild_fold_shift (G : FBAGraph) (Infos : List FNodeInfo) (P : Nat) (d : Int) (cs : List Nat) :
    ∀ (X : Nat → Int) (V : List Nat),
      cs.foldl (MoveChild G Infos P) (shiftF X d, V)
        = (shiftF (cs.foldl (MoveChild G Infos P) (X, V)).1 d, (cs.foldl (MoveChild G Infos P) (X, V)).2) := by
  induction cs with
  | nil => intro X V; rfl
  | cons c rest ih =>
    intro X V
    simp only [List.foldl_cons]
    rw [MoveChild_shift]
    exact ih _ _

theorem MoveChildren_shift (G : FBAGraph) (Infos : List FNodeInfo) (d : Int) :
    ∀ (fuel : Nat) (wl : List Nat) (X : Nat → Int) (V : List Nat),
      MoveChildren G Infos fuel wl (shiftF X d, V)
        = (shiftF (MoveChildren G Infos fuel wl (X, V)).1 d, (MoveChildren G Infos fuel wl (X, V)).2) := by
  intro fuel
  induction fuel with
  | zero => intro wl X V; rfl
  | succ k ih =>
    intro wl X V
    cases wl with
    | nil => rfl
    | cons i rest =>
      simp only [MoveChildren]
      rw [MoveChild_fold_shift]
      exact ih _ _ _

theorem FormatXReparent_shiftX (G : FBAGraph) (S : FEdGraphParameterFormatter) (d : Int)
    (l : FPinLink) (pi : Option Nat) (ci : Nat) :
    FormatXReparent G (shiftX S d) l pi ci = shiftX (FormatXReparent G S l pi ci) d := by
  unfold FormatXReparent
  dsimp only
  rw [FormatXTakeNewParent_shiftX]
  by_cases ht : FormatXTakeNewParent G S l ci = true
  · rw [if_pos ht, if_pos ht]
    have h3 : (shiftX S d).Infos = S.Infos := rfl
    have h4 : (shiftX S d).NodePosX (l.GetNode G) = S.NodePosX (l.GetNode G) + d := rfl
    have h5 : (shiftX S d).NodePosX = shiftF S.NodePosX d := rfl
    rw [h3, h4, h5, FormatXNewNodePos_shiftX, setPos_shiftF, MoveChildren_shift]
    rfl
  · rw [if_neg ht, if_neg ht]

theorem FormatXMarkSide_shiftX (G : FBAGraph) (dir : EEdGraphPinDirection)
    (S : FEdGraphParameterFormatter) (d : Int) (l : FPinLink) :
    FormatXMarkSide G dir (shiftX S d) l = shiftX (FormatXMarkSide G dir S l) d := by
  unfold FormatXMarkSide shiftX
  dsimp only
  split_ifs <;> rfl

theorem withPlaced_shiftX (S : FEdGraphParameterFormatter) (d : Int) (n : Nat) (v : Int) :
    withPlaced (shiftX S d) n (v + d) = shiftX (withPlaced S n v) d := by
  unfold withPlaced shiftX
  dsimp only
  rw [setPos_shiftF]

theorem FormatXCreate_shiftX (G : FBAGraph) (dir : EEdGraphPinDirection)
    (S : FEdGraphParameterFormatter) (d : Int) (l : FPinLink) (pi : Option Nat) :
    FormatXCreate G dir (shiftX S d) l pi = shiftX (FormatXCreate G dir S l pi) d := by
  unfold FormatXCreate
  dsimp only
  have h1 : (shiftX S d).RootNode = S.RootNode := rfl
  have h2 : ∀ (T : FEdGraphParameterFormatter),
      FormatXAddInfo G dir (shiftX T d) l pi = shiftX (FormatXAddInfo G dir T l pi) d := fun _ => rfl
  rw [h1, FormatXMarkSide_shiftX]
  by_cases hroot : (S.RootNode != some (l.GetNode G)) = true
  · rw [if_pos hroot, if_pos hroot]
    have h3 : (shiftX (FormatXMarkSide G dir S l) d).NodePosX ((l.From.map G.OwningNode).getD 0)
        = (FormatXMarkSide G dir S l).NodePosX ((l.From.map G.OwningNode).getD 0) + d := rfl
    rw [h3, FormatXNewNodePos_shiftX, withPlaced_shiftX, h2]
  · rw [if_neg hroot, if_neg hroot]
    exact h2 (withFormatted S (l.GetNode G))

theorem FormatXVisit_stateShift (G : FBAGraph) (dir : EEdGraphPinDirection) (st : FormatXState)
    (d : Int) (l : FPinLink) :
    FormatXVisit G dir (stateShift st d) l = stateShift (FormatXVisit G dir st l) d := by
  unfold FormatXVisit withMap
  dsimp only
  have h1 : (stateShift st d).F.NodeInfoMap = st.F.NodeInfoMap := rfl
  have h2 : (stateShift st d).F.RootNode = st.F.RootNode := rfl
  have h3 : (stateShift st d).TempOutput = st.TempOutput := rfl
  rw [h1, h2, h3]
  by_cases hb : (mapContains st.F.NodeInfoMap (l.GetNode G) && st.F.RootNode != some (l.GetNode G)
      && decide (l.GetNode G ∈ st.TempOutput) && dir == EGPD_Input) = true
  · simp only [hb, if_true]
    rw [mapFind_mapRemove, if_pos rfl]
    unfold stateShift
    dsimp only
    congr 1
    exact FormatXCreate_shiftX G dir
      { st.F with NodeInfoMap := mapRemove st.F.NodeInfoMap (l.GetNode G) } d l
      (l.From.bind (fun p => mapFind st.F.NodeInfoMap (G.OwningNode p)))
  · simp only [hb, if_false, Bool.false_eq_true]
    cases hf : mapFind st.F.NodeInfoMap (l.GetNode G) with
    | some ci =>
      unfold stateShift
      dsimp only
      have h4 : (shiftX st.F d).NodeInfoMap = st.F.NodeInfoMap := rfl
      rw [h4, hf]
      dsimp only
      congr 1
      exact FormatXReparent_shiftX G st.F d l
        (l.From.bind (fun p => mapFind st.F.NodeInfoMap (G.OwningNode p))) ci
    | none =>
      unfold stateShift
      dsimp only
      have h4 : (shiftX st.F d).NodeInfoMap = st.F.NodeInfoMap := rfl
      rw [h4, hf]
      dsimp only
      congr 1
      exact FormatXCreate_shiftX G dir st.F d l
        (l.From.bind (fun p => mapFind st.F.NodeInfoMap (G.OwningNode p)))

theorem FormatXEnqueue_stateShift (G : FBAGraph) (c : Nat) (st : FormatXState) (d : Int) (p q : Nat) :
    FormatXEnqueue G c (stateShift st d) p q = stateShift (FormatXEnqueue G c st p q) d := by
  unfold FormatXEnqueue stateShift shiftX
  dsimp only
  split_ifs <;> rfl

theorem FormatXEnqueue_fold_stateShift (G : FBAGraph) (c : Nat) (d : Int) (ls : List (Nat × Nat)) :
    ∀ st : FormatXState, ls.foldl (fun a pq => FormatXEnqueue G c a pq.1 pq.2) (stateShift st d)
      = stateShift (ls.foldl (fun a pq => FormatXEnqueue G c a pq.1 pq.2) st) d := by
  induction ls with
  | nil => intro st; rfl
  | cons x xs ih =>
    intro st
    simp only [List.foldl_cons]
    rw [FormatXEnqueue_stateShift, ih]

theorem FormatXStep_core_stateShift (G : FBAGraph) (dir : EEdGraphPinDirection) (st : FormatXState)
    (d : Int) (l : FPinLink) :
    (FormatXLinks G (FormatXVisit G dir (stateShift st d) l).F dir (l.GetNode G)).foldl
        (fun a pq => FormatXEnqueue G (l.GetNode G) a pq.1 pq.2) (FormatXVisit G dir (stateShift st d) l)
      = stateShift ((FormatXLinks G (FormatXVisit G dir st l).F dir (l.GetNode G)).foldl
        (fun a pq => FormatXEnqueue G (l.GetNode G) a pq.1 pq.2) (FormatXVisit G dir st l)) d := by
  rw [FormatXVisit_stateShift]
  have hl : FormatXLinks G (stateShift (FormatXVisit G dir st l) d).F dir (l.GetNode G)
      = FormatXLinks G (FormatXVisit G dir st l).F dir (l.GetNode G) := rfl
  rw [hl, FormatXEnqueue_fold_stateShift]

theorem FormatXStep_stateShift (G : FBAGraph) (dir : EEdGraphPinDirection) (st : FormatXState)
    (d : Int) : FormatXStep G dir (stateShift st d) = stateShift (FormatXStep G dir st) d := by
  have hi0 : (stateShift st d).InputQueue = st.InputQueue := rfl
  have ho0 : (stateShift st d).OutputQueue = st.OutputQueue := rfl
  have key : ∀ (l : FPinLink) (iq oq : List FPinLink),
      (FormatXLinks G (FormatXVisit G dir
          { stateShift st d with InputQueue := iq, OutputQueue := oq } l).F dir (l.GetNode G)).foldl
          (fun a pq => FormatXEnqueue G (l.GetNode G) a pq.1 pq.2)
          (FormatXVisit G dir { stateShift st d with InputQueue := iq, OutputQueue := oq } l)
        = stateShift ((FormatXLinks G (FormatXVisit G dir
          { st with InputQueue := iq, OutputQueue := oq } l).F dir (l.GetNode G)).foldl
          (fun a pq => FormatXEnqueue G (l.GetNode G) a pq.1 pq.2)
          (FormatXVisit G dir { st with InputQueue := iq, OutputQueue := oq } l)) d :=
    fun l iq oq => FormatXStep_core_stateShift G dir { st with InputQueue := iq, OutputQueue := oq } d l
  unfold FormatXStep
  dsimp only
  rw [hi0, ho0]
  split_ifs with hd
  · cases hi : st.InputQueue with
    | cons l rest => exact key l rest st.OutputQueue
    | nil =>
      cases ho : st.OutputQueue with
      | cons l rest => exact key l [] rest
      | nil => rfl
  · cases ho : st.OutputQueue with
    | cons l rest => exact key l st.InputQueue rest
    | nil =>
      cases hi : st.InputQueue with
      | cons l rest => exact key l rest []
      | nil => rfl

theorem FormatXLoop_stateShift (G : FBAGraph) (dir : EEdGraphPinDirection) (d : Int) :
    ∀ (fuel : Nat) (st : FormatXState),
      FormatXLoop G dir fuel (stateShift st d)
        = (FormatXLoop G dir fuel st).map (fun s => stateShift s d) := by
  intro fuel
  induction fuel with
  | zero =>
    intro st
    simp only [FormatXLoop]
    have hi0 : (stateShift st d).InputQueue = st.InputQueue := rfl
    have ho0 : (stateShift st d).OutputQueue = st.OutputQueue := rfl
    rw [hi0, ho0]
    split_ifs <;> rfl
  | succ n ih =>
    intro st
    simp only [FormatXLoop]
    have hi0 : (stateShift st d).InputQueue = st.InputQueue := rfl
    have ho0 : (stateShift st d).OutputQueue = st.OutputQueue := rfl
    rw [hi0, ho0]
    split_ifs
    · rfl
    · rw [FormatXStep_stateShift]
      exact ih _

theorem FormatXPassInit_stateShift (st : FormatXState) (d : Int) (dir : EEdGraphPinDirection) :
    FormatXPassInit (stateShift st d) dir = stateShift (FormatXPassInit st dir) d := by
  unfold FormatXPassInit stateShift shiftX
  dsimp only
  split_ifs <;> rfl

/-- `FormatX` commutes with a horizontal translation of the graph: started
with every node moved by `d` it returns the same formatter moved by `d`. -/
theorem FormatX_shiftX (G : FBAGraph) (S : FEdGraphParameterFormatter) (d : Int) :
    FormatX G (shiftX S d) = shiftX (FormatX G S) d := by
  unfold FormatX FormatXFuel
  have h0 : FormatXInit (shiftX S d) = stateShift (FormatXInit S) d := rfl
  rw [h0, FormatXPassInit_stateShift, FormatXLoop_stateShift]
  cases ha : FormatXLoop G EGPD_Output (numPinLinks G + 1) (FormatXPassInit (FormatXInit S) EGPD_Output) with
  | none => rfl
  | some st1 =>
    simp only [Option.map_some', Option.some_bind]
    rw [FormatXPassInit_stateShift, FormatXLoop_stateShift]
    cases hb : FormatXLoop G EGPD_Input (numPinLinks G + 1) (FormatXPassInit st1 EGPD_Input) with
    | none => rfl
    | some st2 => rfl
/-! ## Agreement of the row analysis and the vertical placement -/

theorem RowsAgree_nil (G : FBAGraph) : RowsAgree G [] [] := by
  intro p q
  simp [RowMarked, rowsOf]

/-- After the first `FormatX` of a slow-path run a child node of a record is
the root or is not ignored. -/
theorem FormatX_children_good (G : FBAGraph) (hwf : PinsOwned G) (S : FEdGraphParameterFormatter)
    (r : Nat) (hr : S.RootNode = some r) :
    ∀ n, ∀ c ∈ SameRowChildren (FormatX G (FormatNodeReset G S)) n,
      c = r ∨ c ∉ (FormatX G (FormatNodeReset G S)).IgnoredNodes := by
  intro n c hc
  have hr1 : (FormatNodeReset G S).RootNode = some r := hr
  have hk := KeysOk_child _ (FormatX_keys G hwf (FormatNodeReset G S) r hr1).1 n c hc
  have hg := FormatX_keys_good G (FormatNodeReset G S) r hr1 (by
    intro m hm
    left
    have : m ∈ [S.RootNode.getD 0] := hm
    rw [hr] at this
    simpa using this) c hk
  have hi : (FormatX G (FormatNodeReset G S)).IgnoredNodes = (FormatNodeReset G S).IgnoredNodes := by
    have b1 := (FormatX_FXRel G (FormatNodeReset G S)).1
    simp only [cfgOf, Prod.mk.injEq] at b1
    exact b1.2.2.1
  rw [hi]
  rcases hg with e | e
  · exact Or.inl e
  · exact Or.inr e.1

/-- When the second `FormatX` of a slow-path run rebuilds the map and the
records of the first and, when helixing is in force, leaves
`FormattedInputNodes` as the first left it, a link is marked in
`SameRowMapping` iff `FormatY` passes `bSameRow = true` for its two pins, in
one order or the other. -/
theorem FormatYRows_of_rebuild (G : FBAGraph) (hwf : PinsOwned G) (S : FEdGraphParameterFormatter) (r : Nat)
    (hr : S.RootNode = some r)
    (hmap : (FormatX G (FormatNodeRows G (FormatX G (FormatNodeReset G S)))).NodeInfoMap
      = (FormatX G (FormatNodeReset G S)).NodeInfoMap)
    (hinfos : (FormatX G (FormatNodeRows G (FormatX G (FormatNodeReset G S)))).Infos
      = (FormatX G (FormatNodeReset G S)).Infos)
    (hfin : (FormatNodeReset G S).bFormatWithHelixing = false
      ∨ (FormatX G (FormatNodeRows G (FormatX G (FormatNodeReset G S)))).FormattedInputNodes
        = (FormatX G (FormatNodeReset G S)).FormattedInputNodes) :
    ∀ p q, RowMarked G (FormatNodeRows G (FormatX G (FormatNodeReset G S))).SameRowMapping p q
      ↔ ((p, q) ∈ FormatYRows G (FormatNodeShiftOutputs G
            (FormatX G (FormatNodeRows G (FormatX G (FormatNodeReset G S)))))
        ∨ (q, p) ∈ FormatYRows G (FormatNodeShiftOutputs G
            (FormatX G (FormatNodeRows G (FormatX G (FormatNodeReset G S)))))) := by
  have hr1 : (FormatNodeReset G S).RootNode = some r := hr
  have b1 := FormatX_FXRel G (FormatNodeReset G S)
  have b2 := FormatX_FXRel G (FormatNodeRows G (FormatX G (FormatNodeReset G S)))
  have c1 := b1.1
  have c2 := b2.1
  simp only [cfgOf, Prod.mk.injEq] at c1 c2
  have hrX : (FormatX G (FormatNodeReset G S)).RootNode = some r := c1.1.trans hr1
  have hT2 : SameTree (FormatX G (FormatNodeReset G S))
      (FormatX G (FormatNodeRows G (FormatX G (FormatNodeReset G S)))) := by
    refine ⟨c2.1, c2.2.2.1, ?_, hmap, hinfos⟩
    intro n
    unfold Helixed
    have f2 : (FormatX G (FormatNodeRows G (FormatX G (FormatNodeReset G S)))).bFormatWithHelixing
        = (FormatX G (FormatNodeReset G S)).bFormatWithHelixing := b2.2.1
    rw [f2]
    rcases hfin with e | e
    · rw [b1.2.1.trans e]
      rfl
    · rw [e]
  have hT3 := (SameTree_restOf hT2 (restOf_FormatNodeShiftOutputs G
    (FormatX G (FormatNodeRows G (FormatX G (FormatNodeReset G S))))).1).1
  have hT4 : SameTree (FormatX G (FormatNodeReset G S))
      { FormatNodeShiftOutputs G (FormatX G (FormatNodeRows G (FormatX G (FormatNodeReset G S)))) with
        SameRowMapping := [] } := hT3
  have hroot : (FormatNodeShiftOutputs G
      (FormatX G (FormatNodeRows G (FormatX G (FormatNodeReset G S))))).RootNode = some r :=
    hT3.1.trans hrX
  have hsim := FormatYRecorded_rows G (FormatX G (FormatNodeReset G S)) r
    (FormatX_children_good G hwf S r hr) (G.Pins.length + 2) r none none false
    { FormatNodeShiftOutputs G (FormatX G (FormatNodeRows G (FormatX G (FormatNodeReset G S)))) with
      SameRowMapping := [] } [] [] [] hT4 (RowsAgree_nil G) (Or.inl rfl)
  have hM : (FormatNodeRows G (FormatX G (FormatNodeReset G S))).SameRowMapping
      = (ProcessSameRowMapping G (FormatX G (FormatNodeReset G S)) (G.Pins.length + 2) r none none
          ([], [])).1 := by
    unfold FormatNodeRows
    simp only [hrX, Option.getD_some]
  have hg : (FormatNodeShiftOutputs G
      (FormatX G (FormatNodeRows G (FormatX G (FormatNodeReset G S))))).RootNode.getD 0 = r := by
    rw [hroot]
    rfl
  intro p q
  rw [hM]
  unfold FormatYRows
  rw [hg]
  exact hsim.2.2.1 p q

set_option maxHeartbeats 1000000 in
/-- On the three-node chain under helixing the second `FormatX` rebuilds the
map, the records and the input set of the first. -/
theorem FormatX_rebuild_limitGraph :
    (FormatX limitGraph (FormatNodeRows limitGraph (FormatX limitGraph (FormatNodeReset limitGraph
        (FEdGraphParameterFormatter.new (some 0) none [] exPosX exPosY))))).NodeInfoMap
      = (FormatX limitGraph (FormatNodeReset limitGraph
        (FEdGraphParameterFormatter.new (some 0) none [] exPosX exPosY))).NodeInfoMap
    ∧ (FormatX limitGraph (FormatNodeRows limitGraph (FormatX limitGraph (FormatNodeReset limitGraph
        (FEdGraphParameterFormatter.new (some 0) none [] exPosX exPosY))))).Infos
      = (FormatX limitGraph (FormatNodeReset limitGraph
        (FEdGraphParameterFormatter.new (some 0) none [] exPosX exPosY))).Infos
    ∧ (FormatX limitGraph (FormatNodeRows limitGraph (FormatX limitGraph (FormatNodeReset limitGraph
        (FEdGraphParameterFormatter.new (some 0) none [] exPosX exPosY))))).FormattedInputNodes
      = (FormatX limitGraph (FormatNodeReset limitGraph
        (FEdGraphParameterFormatter.new (some 0) none [] exPosX exPosY))).FormattedInputNodes := by
  refine ⟨?_, ?_, ?_⟩ <;> decide

/-- When helixing does not apply to a slow-path run, the second `FormatX`
rebuilds the map and the records of the first: the two runs place the nodes
they reach relative to the root, so that they differ by the translation that
takes the root of one to the root of the other. -/
theorem FormatX_rebuild (G : FBAGraph) (hwf : PinsOwned G) (S : FEdGraphParameterFormatter) (r : Nat)
    (hr : S.RootNode = some r) (hh : (FormatNodeReset G S).bFormatWithHelixing = false) :
    (FormatX G (FormatNodeRows G (FormatX G (FormatNodeReset G S)))).NodeInfoMap
        = (FormatX G (FormatNodeReset G S)).NodeInfoMap
      ∧ (FormatX G (FormatNodeRows G (FormatX G (FormatNodeReset G S)))).Infos
        = (FormatX G (FormatNodeReset G S)).Infos := by
  have hr1 : (FormatNodeReset G S).RootNode = some r := hr
  have b1 := FormatX_FXRel G (FormatNodeReset G S)
  have c1 := b1.1
  simp only [cfgOf, Prod.mk.injEq] at c1
  have g1 : ∀ (T : FEdGraphParameterFormatter) (d : Int),
      (withAFN (shiftX (FormatNodeRows G T) d) [r]).RootNode = T.RootNode := fun _ _ => rfl
  have g2 : ∀ (T : FEdGraphParameterFormatter) (d : Int),
      (withAFN (shiftX (FormatNodeRows G T) d) [r]).IgnoredNodes = T.IgnoredNodes := fun _ _ => rfl
  have g3 : ∀ (T : FEdGraphParameterFormatter) (d : Int),
      (withAFN (shiftX (FormatNodeRows G T) d) [r]).bFormatWithHelixing = T.bFormatWithHelixing :=
    fun _ _ => rfl
  have g4 : ∀ (T : FEdGraphParameterFormatter) (d : Int),
      (withAFN (shiftX (FormatNodeRows G T) d) [r]).AllFormattedNodes = [r] := fun _ _ => rfl
  have g5 : ∀ (T : FEdGraphParameterFormatter) (d : Int) (n : Nat),
      (withAFN (shiftX (FormatNodeRows G T) d) [r]).NodePosX n = T.NodePosX n + d := fun _ _ _ => rfl
  have a1 : (FormatNodeReset G S).AllFormattedNodes = [r] := by
    show [S.RootNode.getD 0] = [r]
    rw [hr]
    rfl
  have a2 : (FormatNodeReset G S).NodePosX = S.NodePosX := rfl
  have hstart : XStart (FormatNodeReset G S)
      (withAFN (shiftX (FormatNodeRows G (FormatX G (FormatNodeReset G S)))
        (S.NodePosX r - (FormatX G (FormatNodeReset G S)).NodePosX r)) [r]) := by
    unfold XStart
    rw [g1, g2, g3, g4, a1]
    refine ⟨c1.1, c1.2.2.1, hh, b1.2.1.trans hh, rfl, ?_, r, hr1, List.mem_singleton_self r⟩
    intro n hn
    rw [List.mem_singleton] at hn
    rw [hn, g5, a2]
    omega
  have hsim := (FormatX_sim G hwf _ _ hstart).1
  obtain ⟨L, hL⟩ := FormatX_withAFN G (shiftX (FormatNodeRows G (FormatX G (FormatNodeReset G S)))
    (S.NodePosX r - (FormatX G (FormatNodeReset G S)).NodePosX r)) [r]
  rw [hL, FormatX_shiftX] at hsim
  exact ⟨hsim.2.2.2.2.2.1, hsim.2.2.2.2.2.2.1⟩

/-- When helixing does not apply to a slow-path run, a link is marked in
`SameRowMapping` iff `FormatY` passes `bSameRow = true` for its two pins, in
one order or the other. -/
theorem FormatYRows_of_plain (G : FBAGraph) (hwf : PinsOwned G) (S : FEdGraphParameterFormatter) (r : Nat)
    (hr : S.RootNode = some r) (hh : (FormatNodeReset G S).bFormatWithHelixing = false) :
    ∀ p q, RowMarked G (FormatNodeRows G (FormatX G (FormatNodeReset G S))).SameRowMapping p q
      ↔ ((p, q) ∈ FormatYRows G (FormatNodeShiftOutputs G
            (FormatX G (FormatNodeRows G (FormatX G (FormatNodeReset G S)))))
        ∨ (q, p) ∈ FormatYRows G (FormatNodeShiftOutputs G
            (FormatX G (FormatNodeRows G (FormatX G (FormatNodeReset G S)))))) :=
  FormatYRows_of_rebuild G hwf S r hr (FormatX_rebuild G hwf S r hr hh).1
    (FormatX_rebuild G hwf S r hr hh).2 (Or.inl hh)

set_option maxHeartbeats 1000000 in
/-- On `dragGraph`, a run without helixing, `FormatY` passes
`bSameRow = true` for the pair (U.4, W.5), the pair that
`ProcessSameRowMapping` marked. -/
theorem FormatY_rows_dragGraph :
    (FormatNodeReset dragGraph
        (FEdGraphParameterFormatter.new (some 0) none [] exPosX exPosY)).bFormatWithHelixing = false
      ∧ FormatYRows dragGraph (FormatNodeShiftOutputs dragGraph (FormatX dragGraph
        (FormatNodeRows dragGraph (FormatX dragGraph (FormatNodeReset dragGraph
          (FEdGraphParameterFormatter.new (some 0) none [] exPosX exPosY)))))) = [(4, 5)]
      ∧ MarkedRows (FormatNodeRows dragGraph (FormatX dragGraph (FormatNodeReset dragGraph
          (FEdGraphParameterFormatter.new (some 0) none [] exPosX exPosY)))).SameRowMapping
        = [(4, 5), (5, 4)] := by
  decide

/-- On the three-node chain under helixing (helixing applies, no node is in
`FormattedInputNodes`) `FormatY` passes `bSameRow = true` for the pair (A.2,
B.3), the pair that `ProcessSameRowMapping` marked. -/
theorem FormatY_rows_limitGraph :
    FormatYRows limitGraph (FormatNodeShiftOutputs limitGraph (FormatX limitGraph
        (FormatNodeRows limitGraph (FormatX limitGraph (FormatNodeReset limitGraph
          (FEdGraphParameterFormatter.new (some 0) none [] exPosX exPosY)))))) = [(2, 3)]
      ∧ MarkedRows (FormatNodeRows limitGraph (FormatX limitGraph (FormatNodeReset limitGraph
          (FEdGraphParameterFormatter.new (some 0) none [] exPosX exPosY)))).SameRowMapping
        = [(2, 3), (3, 2)] := by
  decide
/-! ## The numeric policy of `GetChildX` in binary32 -/

theorem RoundToInt_whole (n : Int) : RoundToInt (n * F32One) = n := by
  unfold RoundToInt
  have hp := F32One_pos
  have e : 2 * (n * F32One) + F32One = F32One + n * (2 * F32One) := by ring
  rw [e, Int.add_mul_ediv_right _ _ (by omega), Int.ediv_eq_zero_of_lt (by omega) (by omega)]
  omega

/-- A value at most a whole number rounds to at most that number. -/
theorem RoundToInt_le (a w : Int) (h : a ≤ w * F32One) : RoundToInt a ≤ w := by
  unfold RoundToInt
  have hp := F32One_pos
  have h1 : 2 * a + F32One < (w + 1) * (2 * F32One) := by
    have : (w + 1) * (2 * F32One) = 2 * (w * F32One) + 2 * F32One := by ring
    omega
  have := (Int.ediv_lt_iff_lt_mul (by omega : 0 < 2 * F32One)).2 h1
  omega

/-- A value at least a whole number rounds to at least that number. -/
theorem le_RoundToInt (a w : Int) (h : w * F32One ≤ a) : w ≤ RoundToInt a := by
  unfold RoundToInt
  have hp := F32One_pos
  apply (Int.le_ediv_iff_mul_le (by omega : 0 < 2 * F32One)).2
  have : w * (2 * F32One) = 2 * (w * F32One) := by ring
  omega

/-- The two `float` positions of `GetChildX` before the rounding, for bounds
of magnitude at most `2^22`. -/
theorem GetChildX32_pos (G : FBAGraph) (S : FEdGraphParameterFormatter) (P C : Nat)
    (hP : -4194304 ≤ S.NodePosX P ∧ S.NodePosX P ≤ 4194304)
    (hPW : -4194304 ≤ (G.node P).SizeX ∧ (G.node P).SizeX ≤ 4194304)
    (hC : -4194304 ≤ S.NodePosX C ∧ S.NodePosX C ≤ 4194304)
    (hCW : -4194304 ≤ (G.node C).SizeX ∧ (G.node C).SizeX ≤ 4194304) :
    fsub (GetCachedNodeBounds32 G S P).Left
        (fsub (GetCachedNodeBounds32 G S C).Right (GetCachedNodeBounds32 G S C).Left)
        = (S.NodePosX P - (G.node C).SizeX) * F32One
      ∧ (GetCachedNodeBounds32 G S P).Right = (S.NodePosX P + (G.node P).SizeX) * F32One := by
  rw [GetCachedNodeBounds32_Left G S P (by omega) (by omega),
    GetCachedNodeBounds32_Left G S C (by omega) (by omega),
    GetCachedNodeBounds32_Right G S C (by omega) (by omega) (by omega) (by omega) (by omega) (by omega),
    GetCachedNodeBounds32_Right G S P (by omega) (by omega) (by omega) (by omega) (by omega) (by omega),
    fsub_whole _ _ (by omega) (by omega)]
  refine ⟨?_, rfl⟩
  have e : S.NodePosX C + (G.node C).SizeX - S.NodePosX C = (G.node C).SizeX := by omega
  rw [e, fsub_whole _ _ (by omega) (by omega)]

/-- C13 as stated fails.  With the parent R (100 wide) at X 16777217, which
binary32 holds as 16777216, the child A (120 wide) and the padding 40,
`GetChildX` returns 16777056 for an input pin and 16777356 for an output pin,
where the formulas give 16777057 and 16777357.  With R at X 33554435 and the
padding 0 the child of an input pin is put at 33554316, so that its right
edge 33554436 lies beyond the left edge of R: the gap is -1.  With R at X 124
and the padding `1.5 + 2^-23` the exact position is `2.5 - 2^-23`, whose
nearest integer is 2; the binary32 difference is 2.5 and the result 3. -/
theorem GetChildX32_rounds :
    GetChildX32 linkGraph (FEdGraphParameterFormatter.new (some 0) none []
        (fun n => if n = 0 then 16777217 else 0) (fun _ => 0)) exPadding (mkLink linkGraph 0 1) EGPD_Input
        = 16777056
      ∧ GetChildX32 linkGraph (FEdGraphParameterFormatter.new (some 0) none []
        (fun n => if n = 0 then 16777217 else 0) (fun _ => 0)) exPadding (mkLink linkGraph 0 1) EGPD_Output
        = 16777356
      ∧ GetChildX32 linkGraph (FEdGraphParameterFormatter.new (some 0) none []
        (fun n => if n = 0 then 33554435 else 0) (fun _ => 0)) { X := 0, Y := 0 } (mkLink linkGraph 0 1)
          EGPD_Input + (linkGraph.node 1).SizeX = 33554435 + 1
      ∧ GetChildX32 linkGraph (FEdGraphParameterFormatter.new (some 0) none []
        (fun n => if n = 0 then 124 else 0) (fun _ => 0))
          { X := F32One + F32One / 2 + F32One / 8388608, Y := 0 } (mkLink linkGraph 0 1) EGPD_Input = 3 := by
  decide

/-- C13 amended. `GetChildX` for a link from a pin of the parent `P` to a pin
of the child `C`, with whole-number bounds of magnitude at most `2^22`.  The
result is the binary32 value of `parent.Left - child.Width - max(1,
Padding.X)` for the direction `EGPD_Input`, of `parent.Right + max(1,
Padding.X)` for `EGPD_Output`, rounded to the nearest integer; for a
whole-number padding of magnitude at most `2^22` it is exactly that number;
and for any padding (zero and negative included) the child ends at least 1
left of the parent's left edge, or starts at least 1 right of the parent's
right edge. -/
theorem GetChildX32_policy (G : FBAGraph) (S : FEdGraphParameterFormatter) (Padding : FVector2D)
    (Link : FPinLink) (P C : Nat) (hPn : G.OwningNode (Link.From.getD 0) = P)
    (hCn : G.OwningNode (Link.To.getD 0) = C)
    (hP : -4194304 ≤ S.NodePosX P ∧ S.NodePosX P ≤ 4194304)
    (hPW : -4194304 ≤ (G.node P).SizeX ∧ (G.node P).SizeX ≤ 4194304)
    (hC : -4194304 ≤ S.NodePosX C ∧ S.NodePosX C ≤ 4194304)
    (hCW : -4194304 ≤ (G.node C).SizeX ∧ (G.node C).SizeX ≤ 4194304) :
    GetChildX32 G S Padding Link EGPD_Input
        = RoundToInt (fsub ((S.NodePosX P - (G.node C).SizeX) * F32One) (max F32One Padding.X))
      ∧ GetChildX32 G S Padding Link EGPD_Output
        = RoundToInt (fadd ((S.NodePosX P + (G.node P).SizeX) * F32One) (max F32One Padding.X))
      ∧ (∀ p : Int, Padding.X = p * F32One → -4194304 ≤ p → p ≤ 4194304 →
          GetChildX32 G S Padding Link EGPD_Input = S.NodePosX P - (G.node C).SizeX - max 1 p
            ∧ GetChildX32 G S Padding Link EGPD_Output = S.NodePosX P + (G.node P).SizeX + max 1 p)
      ∧ GetChildX32 G S Padding Link EGPD_Input + (G.node C).SizeX + 1 ≤ S.NodePosX P
      ∧ S.NodePosX P + (G.node P).SizeX + 1 ≤ GetChildX32 G S Padding Link EGPD_Output := by
  obtain ⟨e1, e2⟩ := GetChildX32_pos G S P C hP hPW hC hCW
  have hI : GetChildX32 G S Padding Link EGPD_Input
      = RoundToInt (fsub ((S.NodePosX P - (G.node C).SizeX) * F32One) (max F32One Padding.X)) := by
    unfold GetChildX32
    simp only [hPn, hCn, if_true]
    rw [e1]
  have hO : GetChildX32 G S Padding Link EGPD_Output
      = RoundToInt (fadd ((S.NodePosX P + (G.node P).SizeX) * F32One) (max F32One Padding.X)) := by
    unfold GetChildX32
    simp only [hPn, hCn]
    rw [if_neg (by decide), e2]
  have hp := F32One_pos
  have hM : F32One ≤ max F32One Padding.X := le_max_left _ _
  refine ⟨hI, hO, ?_, ?_, ?_⟩
  · intro p hpe h1 h2
    have hmax : max F32One Padding.X = max 1 p * F32One := by
      rw [hpe]
      rcases le_total 1 p with h | h
      · rw [max_eq_right h, max_eq_right]
        have := Int.mul_le_mul_of_nonneg_right h (le_of_lt hp)
        omega
      · rw [max_eq_left h, max_eq_left, one_mul]
        have := Int.mul_le_mul_of_nonneg_right h (le_of_lt hp)
        omega
    have hm1 : (1 : Int) ≤ max 1 p := le_max_left _ _
    have hm2 : max 1 p ≤ 4194304 := max_le (by omega) h2
    rw [hI, hO, hmax, fsub_whole _ _ (by omega) (by omega), fadd_whole _ _ (by omega) (by omega),
      RoundToInt_whole, RoundToInt_whole]
    exact ⟨rfl, rfl⟩
  · rw [hI]
    have h1 : fsub ((S.NodePosX P - (G.node C).SizeX) * F32One) (max F32One Padding.X)
        ≤ (S.NodePosX P - (G.node C).SizeX - 1) * F32One := by
      apply roundF32_le
      · exact roundF32_whole _ (by omega) (by omega)
      · have : (S.NodePosX P - (G.node C).SizeX - 1) * F32One
            = (S.NodePosX P - (G.node C).SizeX) * F32One - F32One := by ring
        omega
    have := RoundToInt_le _ _ h1
    omega
  · rw [hO]
    have h1 : (S.NodePosX P + (G.node P).SizeX + 1) * F32One
        ≤ fadd ((S.NodePosX P + (G.node P).SizeX) * F32One) (max F32One Padding.X) := by
      apply le_roundF32
      · exact roundF32_whole _ (by omega) (by omega)
      · have : (S.NodePosX P + (G.node P).SizeX + 1) * F32One
            = (S.NodePosX P + (G.node P).SizeX) * F32One + F32One := by ring
        omega
    exact le_RoundToInt _ _ h1

theorem GetChildX32_policy_witness :
    GetChildX32 linkGraph (FEdGraphParameterFormatter.new (some 0) none [] exPosX exPosY) exPadding
        (mkLink linkGraph 0 1) EGPD_Input = 500 - 120 - max 1 40
      ∧ GetChildX32 linkGraph (FEdGraphParameterFormatter.new (some 0) none [] exPosX exPosY) exPadding
        (mkLink linkGraph 0 1) EGPD_Output = 500 + 100 + max 1 40 :=
  (GetChildX32_policy linkGraph (FEdGraphParameterFormatter.new (some 0) none [] exPosX exPosY)
    exPadding (mkLink linkGraph 0 1) 0 1 rfl rfl (by decide) (by decide) (by decide)
    (by decide)).2.2.1 40 rfl (by decide) (by decide)
/-! ## The collision loop of `FormatY` in binary32 -/

theorem fsub_zero_whole (m : Int) (h1 : -16777216 ≤ m) (h2 : m ≤ 16777216) :
    fsub (m * F32One) 0 = m * F32One := by
  have := fsub_whole m 0 (by omega) (by omega)
  simpa using this

theorem fadd_zero_whole (m : Int) (h1 : -16777216 ≤ m) (h2 : m ≤ 16777216) :
    fadd (m * F32One) 0 = m * F32One := by
  have := fadd_whole m 0 (by omega) (by omega)
  simpa using this

theorem DoRectanglesIntersect_scale (A B : FSlateRect) :
    DoRectanglesIntersect A.scale B.scale = DoRectanglesIntersect A B := by
  have hp := F32One_pos
  have key : ∀ x y : Int, (x * F32One < y * F32One) = (x < y) := by
    intro x y
    exact propext (mul_lt_mul_right hp)
  unfold DoRectanglesIntersect FSlateRect.scale
  simp only [gt_iff_lt, key]

/-- In the range of `CollisionWithin` the padded binary32 bounds of the
current node are the exact ones. -/
theorem ExtendBy32_current (G : FBAGraph) (S : FEdGraphParameterFormatter) (Padding : FVector2D)
    (p : Int) (c : Nat) (V : List Nat) (hp : Padding.Y = p * F32One) (h : CollisionWithin G S p c V) :
    (GetCachedNodeBounds32 G S c).ExtendBy32 0 0 0 Padding.Y
      = ((GetCachedNodeBounds G S c).ExtendBy 0 0 0 p).scale := by
  obtain ⟨p1, p2, x1, x2, y1, y2, w1, w2, h1, h2, _⟩ := h
  unfold FSlateRect.ExtendBy32 FSlateRect.ExtendBy FSlateRect.scale
  rw [GetCachedNodeBounds32_Left G S c (by omega) (by omega),
    GetCachedNodeBounds32_Top G S c (by omega) (by omega),
    GetCachedNodeBounds32_Right G S c (by omega) (by omega) (by omega) (by omega) (by omega) (by omega),
    GetCachedNodeBounds32_Bottom G S c (by omega) (by omega) (by omega) (by omega) (by omega) (by omega),
    hp]
  simp only [GetCachedNodeBounds]
  rw [fsub_zero_whole _ (by omega) (by omega), fsub_zero_whole _ (by omega) (by omega),
    fadd_zero_whole _ (by omega) (by omega), fadd_whole _ _ (by omega) (by omega)]
  simp

/-- In the range of `CollisionWithin` the padded binary32 bounds of a
visited node are the exact ones. -/
theorem ExtendBy32_visited (G : FBAGraph) (S : FEdGraphParameterFormatter) (Padding : FVector2D)
    (p : Int) (v : Nat) (hp : Padding.Y = p * F32One) (p1 : -2097152 ≤ p) (p2 : p ≤ 2097152)
    (h : NodeWithin G S 2097152 v) :
    (GetCachedNodeBounds32 G S v).ExtendBy32 0 0 0 Padding.Y
      = ((GetCachedNodeBounds G S v).ExtendBy 0 0 0 p).scale := by
  obtain ⟨x1, x2, y1, y2, w1, w2, h1, h2⟩ := h
  unfold FSlateRect.ExtendBy32 FSlateRect.ExtendBy FSlateRect.scale
  rw [GetCachedNodeBounds32_Left G S v (by omega) (by omega),
    GetCachedNodeBounds32_Top G S v (by omega) (by omega),
    GetCachedNodeBounds32_Right G S v (by omega) (by omega) (by omega) (by omega) (by omega) (by omega),
    GetCachedNodeBounds32_Bottom G S v (by omega) (by omega) (by omega) (by omega) (by omega) (by omega),
    hp]
  simp only [GetCachedNodeBounds]
  rw [fsub_zero_whole _ (by omega) (by omega), fsub_zero_whole _ (by omega) (by omega),
    fadd_zero_whole _ (by omega) (by omega), fadd_whole _ _ (by omega) (by omega)]
  simp

/-- In the range of `CollisionWithin` the scan of the visited nodes in
binary32 finds what the exact scan finds. -/
theorem FormatYCollision32_scan (G : FBAGraph) (S : FEdGraphParameterFormatter) (Padding : FVector2D)
    (p : Int) (c : Nat) (V : List Nat) (hp : Padding.Y = p * F32One) (h : CollisionWithin G S p c V) :
    V.find? (fun v => v != c &&
        DoRectanglesIntersect ((GetCachedNodeBounds32 G S c).ExtendBy32 0 0 0 Padding.Y)
          ((GetCachedNodeBounds32 G S v).ExtendBy32 0 0 0 Padding.Y))
      = V.find? (fun v => v != c &&
        DoRectanglesIntersect ((GetCachedNodeBounds G S c).ExtendBy 0 0 0 p)
          ((GetCachedNodeBounds G S v).ExtendBy 0 0 0 p)) := by
  have hc := ExtendBy32_current G S Padding p c V hp h
  have key : ∀ v ∈ V, (v != c &&
        DoRectanglesIntersect ((GetCachedNodeBounds32 G S c).ExtendBy32 0 0 0 Padding.Y)
          ((GetCachedNodeBounds32 G S v).ExtendBy32 0 0 0 Padding.Y))
      = (v != c &&
        DoRectanglesIntersect ((GetCachedNodeBounds G S c).ExtendBy 0 0 0 p)
          ((GetCachedNodeBounds G S v).ExtendBy 0 0 0 p)) := by
    intro v hv
    by_cases hvc : v = c
    · simp [hvc]
    · rw [hc, ExtendBy32_visited G S Padding p v hp h.1 h.2.1 (h.2.2.2.2.2.2.2.2.2.2 v hv hvc),
        DoRectanglesIntersect_scale]
  clear hc
  induction V with
  | nil => rfl
  | cons x xs ih =>
    simp only [List.find?_cons]
    rw [key x (List.mem_cons_self _ _)]
    cases (x != c &&
        DoRectanglesIntersect ((GetCachedNodeBounds G S c).ExtendBy 0 0 0 p)
          ((GetCachedNodeBounds G S x).ExtendBy 0 0 0 p)) with
    | true => rfl
    | false =>
      apply ih
      · obtain ⟨a1, a2, a3, a4, a5, a6, a7, a8, a9, a10, a11⟩ := h
        exact ⟨a1, a2, a3, a4, a5, a6, a7, a8, a9, a10, fun v hv => a11 v (List.mem_cons_of_mem _ hv)⟩
      · intro v hv
        exact key v (List.mem_cons_of_mem _ hv)

theorem fadd_one_whole (m : Int) (h1 : -16777216 ≤ m + 1) (h2 : m + 1 ≤ 16777216) :
    fadd (m * F32One) F32One = (m + 1) * F32One := by
  have := fadd_whole m 1 h1 h2
  simpa using this

/-- A round of the binary32 loop whose scan finds nothing ends the loop. -/
theorem FormatYCollision32_none (G : FBAGraph) (Padding : FVector2D) (c : Nat) (V : List Nat)
    (n : Nat) (S : FEdGraphParameterFormatter)
    (hf : V.find? (fun v => v != c &&
        DoRectanglesIntersect ((GetCachedNodeBounds32 G S c).ExtendBy32 0 0 0 Padding.Y)
          ((GetCachedNodeBounds32 G S v).ExtendBy32 0 0 0 Padding.Y)) = none) :
    FormatYCollision32 G Padding c V (n + 1) S = (S, true) := by
  simp only [FormatYCollision32, hf]

/-- A round of the binary32 loop whose scan finds the node `v` pushes the
current node and goes on. -/
theorem FormatYCollision32_some (G : FBAGraph) (Padding : FVector2D) (c : Nat) (V : List Nat)
    (n : Nat) (S : FEdGraphParameterFormatter) (v : Nat)
    (hf : V.find? (fun v => v != c &&
        DoRectanglesIntersect ((GetCachedNodeBounds32 G S c).ExtendBy32 0 0 0 Padding.Y)
          ((GetCachedNodeBounds32 G S v).ExtendBy32 0 0 0 Padding.Y)) = some v) :
    FormatYCollision32 G Padding c V (n + 1) S
      = FormatYCollision32 G Padding c V n (withPosY S c
          (toInt32 (fadd (ofInt32 (S.NodePosY c))
            (fadd (fsub ((GetCachedNodeBounds32 G S v).ExtendBy32 0 0 0 Padding.Y).Bottom
              (GetCachedNodeBounds32 G S c).Top) F32One)))) := by
  simp only [FormatYCollision32, hf]

/-- When the binary32 loop is left through `break`, more rounds change
nothing and the last scan found no intersection. -/
theorem FormatYCollision32_flag (G : FBAGraph) (Padding : FVector2D) (c : Nat) (V : List Nat) :
    ∀ (n : Nat) (S : FEdGraphParameterFormatter),
      (FormatYCollision32 G Padding c V n S).2 = true →
      (∀ m, FormatYCollision32 G Padding c V (n + m) S = FormatYCollision32 G Padding c V n S)
        ∧ V.find? (fun v => v != c &&
          DoRectanglesIntersect
            ((GetCachedNodeBounds32 G (FormatYCollision32 G Padding c V n S).1 c).ExtendBy32 0 0 0
              Padding.Y)
            ((GetCachedNodeBounds32 G (FormatYCollision32 G Padding c V n S).1 v).ExtendBy32 0 0 0
              Padding.Y)) = none := by
  intro n
  induction n with
  | zero =>
    intro S h
    simp [FormatYCollision32] at h
  | succ k ih =>
    intro S h
    cases hf : V.find? (fun v => v != c &&
        DoRectanglesIntersect ((GetCachedNodeBounds32 G S c).ExtendBy32 0 0 0 Padding.Y)
          ((GetCachedNodeBounds32 G S v).ExtendBy32 0 0 0 Padding.Y)) with
    | none =>
      rw [FormatYCollision32_none G Padding c V k S hf]
      refine ⟨fun m => ?_, hf⟩
      have : k + 1 + m = (k + m) + 1 := by omega
      rw [this, FormatYCollision32_none G Padding c V (k + m) S hf]
    | some v =>
      rw [FormatYCollision32_some G Padding c V k S v hf] at h ⊢
      obtain ⟨h1, h2⟩ := ih _ h
      refine ⟨fun m => ?_, h2⟩
      have : k + 1 + m = (k + m) + 1 := by omega
      rw [this, FormatYCollision32_some G Padding c V (k + m) S v hf]
      exact h1 m

/-- The binary32 loop is left through `break` exactly when the scan of one of
its rounds finds no intersection. -/
theorem FormatYCollision32_flag_iff (G : FBAGraph) (Padding : FVector2D) (c : Nat) (V : List Nat) :
    ∀ (n : Nat) (S : FEdGraphParameterFormatter),
      (FormatYCollision32 G Padding c V n S).2 = true ↔
        ∃ k, k < n ∧ V.find? (fun v => v != c &&
          DoRectanglesIntersect
            ((GetCachedNodeBounds32 G (FormatYCollision32 G Padding c V k S).1 c).ExtendBy32 0 0 0
              Padding.Y)
            ((GetCachedNodeBounds32 G (FormatYCollision32 G Padding c V k S).1 v).ExtendBy32 0 0 0
              Padding.Y)) = none := by
  intro n
  induction n with
  | zero =>
    intro S
    simp [FormatYCollision32]
  | succ j ih =>
    intro S
    cases hf : V.find? (fun v => v != c &&
        DoRectanglesIntersect ((GetCachedNodeBounds32 G S c).ExtendBy32 0 0 0 Padding.Y)
          ((GetCachedNodeBounds32 G S v).ExtendBy32 0 0 0 Padding.Y)) with
    | none =>
      rw [FormatYCollision32_none G Padding c V j S hf]
      simp only [true_iff]
      exact ⟨0, by omega, hf⟩
    | some v =>
      rw [FormatYCollision32_some G Padding c V j S v hf, ih]
      constructor
      · rintro ⟨k, hk, h⟩
        refine ⟨k + 1, by omega, ?_⟩
        rw [FormatYCollision32_some G Padding c V k S v hf]
        exact h
      · rintro ⟨k, hk, h⟩
        cases k with
        | zero =>
          simp only [FormatYCollision32] at h
          rw [hf] at h
          cases h
        | succ i =>
          refine ⟨i, by omega, ?_⟩
          rw [FormatYCollision32_some G Padding c V i S v hf] at h
          exact h

/-- A scan that finds nothing: no visited node other than the current one
intersects it. -/
theorem find_none_apart (V : List Nat) (c : Nat) (f : Nat → Bool)
    (h : V.find? (fun v => v != c && f v) = none) : ∀ v ∈ V, v ≠ c → f v = false := by
  intro v hv hvc
  have := List.find?_eq_none.mp h v hv
  simpa [hvc] using this

/-- In the range of `CollisionWithin`, the Y that a round of the binary32 loop
gives the current node is the exact one. -/
theorem FormatYCollision32_push (G : FBAGraph) (S : FEdGraphParameterFormatter) (Padding : FVector2D)
    (p : Int) (c : Nat) (V : List Nat) (v : Nat) (hp : Padding.Y = p * F32One)
    (h : CollisionWithin G S p c V) (hv : v ∈ V) (hvc : v ≠ c) :
    toInt32 (fadd (ofInt32 (S.NodePosY c))
        (fadd (fsub ((GetCachedNodeBounds32 G S v).ExtendBy32 0 0 0 Padding.Y).Bottom
          (GetCachedNodeBounds32 G S c).Top) F32One))
      = S.NodePosY v + (G.node v).SizeY + p + 1 := by
  obtain ⟨p1, p2, x1, x2, y1, y2, w1, w2, h1, h2, hV⟩ := h
  obtain ⟨vx1, vx2, vy1, vy2, vw1, vw2, vh1, vh2⟩ := hV v hv hvc
  rw [ExtendBy32_visited G S Padding p v hp p1 p2 ⟨vx1, vx2, vy1, vy2, vw1, vw2, vh1, vh2⟩,
    GetCachedNodeBounds32_Top G S c (by omega) (by omega)]
  simp only [FSlateRect.scale, FSlateRect.ExtendBy, GetCachedNodeBounds]
  rw [fsub_whole _ _ (by omega) (by omega), fadd_one_whole _ (by omega) (by omega),
    ofInt32_exact _ (by omega) (by omega), fadd_whole _ _ (by omega) (by omega), toInt32_whole]
  ring

/-- The range of `CollisionWithin` is kept when the current node gets a Y of
magnitude at most `2^23`. -/
theorem CollisionWithin_withPosY (G : FBAGraph) (S : FEdGraphParameterFormatter) (p : Int) (c : Nat)
    (V : List Nat) (y : Int) (h : CollisionWithin G S p c V) (y1 : -8388608 ≤ y) (y2 : y ≤ 8388608) :
    CollisionWithin G (withPosY S c y) p c V := by
  obtain ⟨a1, a2, a3, a4, a5, a6, a7, a8, a9, a10, a11⟩ := h
  refine ⟨a1, a2, a3, a4, ?_, ?_, a7, a8, a9, a10, ?_⟩
  · simp only [withPosY, setPos, if_true]; exact y1
  · simp only [withPosY, setPos, if_true]; exact y2
  · intro v hv hvc
    have := a11 v hv hvc
    unfold NodeWithin at this ⊢
    simp only [withPosY, setPos, if_neg hvc]
    exact this

/-- In the range of `CollisionWithin`, a round of the binary32 loop that
pushes the current node leaves fewer visited nodes whose padded bottom is not
above the top of the current node. -/
theorem FormatYCollision32_measure (G : FBAGraph) (S : FEdGraphParameterFormatter) (Padding : FVector2D)
    (p : Int) (c : Nat) (V : List Nat) (v : Nat) (hp : Padding.Y = p * F32One)
    (h : CollisionWithin G S p c V)
    (hf : V.find? (fun v => v != c &&
        DoRectanglesIntersect ((GetCachedNodeBounds32 G S c).ExtendBy32 0 0 0 Padding.Y)
          ((GetCachedNodeBounds32 G S v).ExtendBy32 0 0 0 Padding.Y)) = some v) :
    v ∈ V ∧ v ≠ c ∧ S.NodePosY c ≤ S.NodePosY v + (G.node v).SizeY + p
      ∧ V.countP (fun x => x != c && decide
          ((withPosY S c (S.NodePosY v + (G.node v).SizeY + p + 1)).NodePosY c
            ≤ (withPosY S c (S.NodePosY v + (G.node v).SizeY + p + 1)).NodePosY x
              + (G.node x).SizeY + p))
        < V.countP (fun x => x != c && decide (S.NodePosY c
          ≤ S.NodePosY x + (G.node x).SizeY + p)) := by
  rw [FormatYCollision32_scan G S Padding p c V hp h] at hf
  have hq := List.find?_some hf
  have hmem := List.mem_of_find?_eq_some hf
  simp only [Bool.and_eq_true, bne_iff_ne, ne_eq] at hq
  obtain ⟨hvc, hint⟩ := hq
  simp only [DoRectanglesIntersect, FSlateRect.ExtendBy, GetCachedNodeBounds, Bool.not_eq_true',
    Bool.or_eq_false_iff, decide_eq_false_iff_not, not_lt, sub_zero, add_zero] at hint
  refine ⟨hmem, hvc, by omega, ?_⟩
  simp only [withPosY, setPos, if_true]
  apply countP_lt_of_imp _ _ v _ _ _ V hmem
  · intro x hx
    simp only [Bool.and_eq_true, bne_iff_ne, ne_eq, decide_eq_true_eq] at hx ⊢
    refine ⟨hx.1, ?_⟩
    have h2 := hx.2
    rw [if_neg hx.1] at h2
    omega
  · simp only [Bool.and_eq_true, bne_iff_ne, ne_eq, decide_eq_true_eq]
    exact ⟨hvc, by omega⟩
  · simp only [Bool.and_eq_false_iff, decide_eq_false_iff_not, if_neg hvc]
    right
    omega

/-- In the range of `CollisionWithin`, with more rounds than visited nodes
whose padded bottom is not above the top of the current node, the binary32
loop is left through `break`. -/
theorem FormatYCollision32_terminates (G : FBAGraph) (Padding : FVector2D) (p : Int) (c : Nat)
    (V : List Nat) (hp : Padding.Y = p * F32One) :
    ∀ (n : Nat) (S : FEdGraphParameterFormatter), CollisionWithin G S p c V →
      V.countP (fun x => x != c && decide (S.NodePosY c
        ≤ S.NodePosY x + (G.node x).SizeY + p)) < n →
      (FormatYCollision32 G Padding c V n S).2 = true := by
  intro n
  induction n with
  | zero => intro S _ h; omega
  | succ k ih =>
    intro S hr hlt
    cases hf : V.find? (fun v => v != c &&
        DoRectanglesIntersect ((GetCachedNodeBounds32 G S c).ExtendBy32 0 0 0 Padding.Y)
          ((GetCachedNodeBounds32 G S v).ExtendBy32 0 0 0 Padding.Y)) with
    | none => rw [FormatYCollision32_none G Padding c V k S hf]
    | some v =>
      obtain ⟨hmem, hvc, hle, hcount⟩ := FormatYCollision32_measure G S Padding p c V v hp hr hf
      rw [FormatYCollision32_some G Padding c V k S v hf,
        FormatYCollision32_push G S Padding p c V v hp hr hmem hvc]
      have hw := hr.2.2.2.2.2.2.2.2.2.2 v hmem hvc
      obtain ⟨_, _, vy1, vy2, _, _, vh1, vh2⟩ := hw
      have p1 := hr.1
      have p2 := hr.2.1
      apply ih _ (CollisionWithin_withPosY G S p c V _ hr (by omega) (by omega))
      omega

/-! ## The collision loop: what a round does, what its end means -/

/-- C18 as stated fails. `pairGraph` with the padding (40, 25): the visited
node V at Y 16777136 has its bottom at 16777216 and its padded bottom at
16777241, which binary32 holds as 16777240; the current node at Y 16777230
intersects it.  `Delta` is 10, `Delta + 1` is 11 and the binary32 sum
16777230 + 11 is 16777240: the node moves by 10, not by
`(16777241 - 16777230) + 1 = 12`, and its top 16777240 still touches the
padded bottom that the loop sees, so the two still intersect. -/
theorem FormatYCollision32_rounds :
    [0].find? (fun v => v != 1 &&
        DoRectanglesIntersect
          ((GetCachedNodeBounds32 pairGraph (pairState pairBigY) 1).ExtendBy32 0 0 0 exPadding.Y)
          ((GetCachedNodeBounds32 pairGraph (pairState pairBigY) v).ExtendBy32 0 0 0 exPadding.Y))
        = some 0
      ∧ (FormatYCollision32 pairGraph exPadding 1 [0] 1 (pairState pairBigY)).1.NodePosY 1
        = 16777230 + 10
      ∧ DoRectanglesIntersect
          ((GetCachedNodeBounds32 pairGraph
            (FormatYCollision32 pairGraph exPadding 1 [0] 1 (pairState pairBigY)).1 1).ExtendBy32
              0 0 0 exPadding.Y)
          ((GetCachedNodeBounds32 pairGraph
            (FormatYCollision32 pairGraph exPadding 1 [0] 1 (pairState pairBigY)).1 0).ExtendBy32
              0 0 0 exPadding.Y) = true := by
  decide

/-- C18 amended. With a whole-number padding `p`, positions and sizes in the
range of `CollisionWithin` (magnitude at most `2^21`), one round of the
collision loop of `FormatY` that finds the visited node `v` intersecting the
current node `c` (both padded below) moves `c` by `(padded bottom of v - top
of c) + 1` in Y, which is at least 1; the padded bottom and the top that the
loop computes are these whole numbers; X stays, no other node moves, and
afterwards the top of `c` is strictly below the padded bottom of `v`, so the
two no longer intersect. -/
theorem FormatYCollision32_shift (G : FBAGraph) (S : FEdGraphParameterFormatter) (Padding : FVector2D)
    (p : Int) (c : Nat) (V : List Nat) (v : Nat) (hp : Padding.Y = p * F32One)
    (hr : CollisionWithin G S p c V)
    (h : V.find? (fun v => v != c &&
        DoRectanglesIntersect ((GetCachedNodeBounds32 G S c).ExtendBy32 0 0 0 Padding.Y)
          ((GetCachedNodeBounds32 G S v).ExtendBy32 0 0 0 Padding.Y)) = some v) :
    (FormatYCollision32 G Padding c V 1 S).1.NodePosY c
        = S.NodePosY c + ((S.NodePosY v + (G.node v).SizeY + p) - S.NodePosY c + 1)
      ∧ 1 ≤ (S.NodePosY v + (G.node v).SizeY + p) - S.NodePosY c + 1
      ∧ ((GetCachedNodeBounds32 G S v).ExtendBy32 0 0 0 Padding.Y).Bottom
        = (S.NodePosY v + (G.node v).SizeY + p) * F32One
      ∧ (GetCachedNodeBounds32 G S c).Top = S.NodePosY c * F32One
      ∧ (FormatYCollision32 G Padding c V 1 S).1.NodePosX = S.NodePosX
      ∧ (∀ n, n ≠ c → (FormatYCollision32 G Padding c V 1 S).1.NodePosY n = S.NodePosY n)
      ∧ ((GetCachedNodeBounds32 G (FormatYCollision32 G Padding c V 1 S).1 v).ExtendBy32 0 0 0
            Padding.Y).Bottom
          < (GetCachedNodeBounds32 G (FormatYCollision32 G Padding c V 1 S).1 c).Top
      ∧ DoRectanglesIntersect
          ((GetCachedNodeBounds32 G (FormatYCollision32 G Padding c V 1 S).1 c).ExtendBy32 0 0 0
            Padding.Y)
          ((GetCachedNodeBounds32 G (FormatYCollision32 G Padding c V 1 S).1 v).ExtendBy32 0 0 0
            Padding.Y) = false := by
  obtain ⟨hmem, hvc, hle, _⟩ := FormatYCollision32_measure G S Padding p c V v hp hr h
  have hstep : (FormatYCollision32 G Padding c V 1 S).1
      = withPosY S c (S.NodePosY v + (G.node v).SizeY + p + 1) := by
    rw [FormatYCollision32_some G Padding c V 0 S v h,
      FormatYCollision32_push G S Padding p c V v hp hr hmem hvc]
    rfl
  have hw := hr.2.2.2.2.2.2.2.2.2.2 v hmem hvc
  have hw1 := hw
  obtain ⟨_, _, vy1, vy2, _, _, vh1, vh2⟩ := hw1
  have p1 := hr.1
  have p2 := hr.2.1
  have hr1 : CollisionWithin G (withPosY S c (S.NodePosY v + (G.node v).SizeY + p + 1)) p c V :=
    CollisionWithin_withPosY G S p c V _ hr (by omega) (by omega)
  have hw2 := hr1.2.2.2.2.2.2.2.2.2.2 v hmem hvc
  have hU := F32One_pos
  have e1 := ExtendBy32_visited G S Padding p v hp p1 p2 hw
  have e2 := ExtendBy32_visited G _ Padding p v hp p1 p2 hw2
  have e3 := ExtendBy32_current G _ Padding p c V hp hr1
  have t1 := GetCachedNodeBounds32_Top G S c (by have := hr.2.2.2.2.1; omega)
    (by have := hr.2.2.2.2.2.1; omega)
  have t2 := GetCachedNodeBounds32_Top G
    (withPosY S c (S.NodePosY v + (G.node v).SizeY + p + 1)) c
    (by have := hr1.2.2.2.2.1; omega) (by have := hr1.2.2.2.2.2.1; omega)
  have hlt : (S.NodePosY v + (G.node v).SizeY + p) * F32One
      < (S.NodePosY v + (G.node v).SizeY + p + 1) * F32One :=
    (mul_lt_mul_right hU).2 (by omega)
  rw [hstep, e1, e2, e3, t1, t2, DoRectanglesIntersect_scale]
  simp only [DoRectanglesIntersect, FSlateRect.scale, FSlateRect.ExtendBy, GetCachedNodeBounds,
    withPosY, setPos, if_true, if_neg hvc, sub_zero, add_zero]
  refine ⟨by ring, by omega, trivial, trivial, trivial, ?_, hlt, ?_⟩
  · intro n hn
    simp [hn]
  · simp only [Bool.not_eq_false', Bool.or_eq_true, decide_eq_true_eq]
    right
    omega

theorem FormatYCollision32_shift_witness :
    (FormatYCollision32 pairGraph exPadding 1 [0] 1 (pairState pairSmallY)).1.NodePosY 1
        = (pairState pairSmallY).NodePosY 1
          + (((pairState pairSmallY).NodePosY 0 + (pairGraph.node 0).SizeY + 25)
            - (pairState pairSmallY).NodePosY 1 + 1) :=
  (FormatYCollision32_shift pairGraph (pairState pairSmallY) exPadding 25 1 [0] 0 rfl
    (by
      refine ⟨by decide, by decide, by decide, by decide, by decide, by decide, by decide,
        by decide, by decide, by decide, ?_⟩
      intro v hv _
      rw [List.mem_singleton.mp hv]
      unfold NodeWithin
      decide)
    (by decide)).1

/-- C29. The collision loop of `FormatY` (lines 570-622) for the node `c`
against the visited nodes `V`, in the binary32 arithmetic of the source.  If
the loop is left through `break` within `n < 100` rounds, the 100-round loop
of the source returns the state and the flag of that moment, and in that
state, the one in which `c` is added to `VisitedNodes` (line 624), the
bottom-padded bounds of `c` intersect the bottom-padded bounds of no other
visited node. -/
theorem FormatYCollision32_ended_early (G : FBAGraph) (Padding : FVector2D) (c : Nat) (V : List Nat)
    (S : FEdGraphParameterFormatter) (n : Nat) (hn : n < 100)
    (h : (FormatYCollision32 G Padding c V n S).2 = true) :
    FormatYCollision32 G Padding c V 100 S = FormatYCollision32 G Padding c V n S
      ∧ ∀ v ∈ V, v ≠ c →
        DoRectanglesIntersect
          ((GetCachedNodeBounds32 G (FormatYCollision32 G Padding c V 100 S).1 c).ExtendBy32 0 0 0
            Padding.Y)
          ((GetCachedNodeBounds32 G (FormatYCollision32 G Padding c V 100 S).1 v).ExtendBy32 0 0 0
            Padding.Y) = false := by
  obtain ⟨h1, h2⟩ := FormatYCollision32_flag G Padding c V n S h
  have e : FormatYCollision32 G Padding c V 100 S = FormatYCollision32 G Padding c V n S := by
    have := h1 (100 - n)
    have e2 : n + (100 - n) = 100 := by omega
    rw [e2] at this
    exact this
  rw [e]
  exact ⟨rfl, find_none_apart V c _ h2⟩

theorem FormatYCollision32_ended_early_witness :
    (FormatYCollision32 pairGraph exPadding 1 [0] 2 (pairState pairSmallY)).2 = true
      ∧ (FormatYCollision32 pairGraph exPadding 1 [0] 100 (pairState pairSmallY)).1.NodePosY 1 = 206
      ∧ DoRectanglesIntersect
          ((GetCachedNodeBounds32 pairGraph
            (FormatYCollision32 pairGraph exPadding 1 [0] 100 (pairState pairSmallY)).1 1).ExtendBy32
              0 0 0 exPadding.Y)
          ((GetCachedNodeBounds32 pairGraph
            (FormatYCollision32 pairGraph exPadding 1 [0] 100 (pairState pairSmallY)).1 0).ExtendBy32
              0 0 0 exPadding.Y) = false :=
  ⟨by decide,
    by
      rw [(FormatYCollision32_ended_early pairGraph exPadding 1 [0] (pairState pairSmallY) 2
        (by decide) (by decide)).1]
      decide,
    (FormatYCollision32_ended_early pairGraph exPadding 1 [0] (pairState pairSmallY) 2
      (by decide) (by decide)).2 0 (List.mem_singleton.mpr rfl) (by decide)⟩

set_option maxRecDepth 100000 in
/-- Above `2^24` the loop can stay where it is: on `pairGraph` with V at Y
16777136 the current node reaches Y 16777240 in the first round, and every
later round finds the intersection again and computes the same Y; the 100
rounds are used up although only one node is visited. -/
theorem FormatYCollision32_stuck :
    (FormatYCollision32 pairGraph exPadding 1 [0] 100 (pairState pairBigY)).2 = false
      ∧ (FormatYCollision32 pairGraph exPadding 1 [0] 100 (pairState pairBigY)).1.NodePosY 1
        = 16777240 := by
  decide

/-- C11 amended. The collision loop of `FormatY` for the node `c` against
the visited nodes `V`, in the binary32 arithmetic of the source, with a
whole-number padding, positions and sizes in the range of `CollisionWithin`
(magnitude at most `2^21`) and fewer than 100 visited nodes: the 100 rounds
are not used up, and right after the loop the bounds of `c` padded below do
not intersect the bounds padded below of any other visited node. -/
theorem FormatYCollision32_resolves (G : FBAGraph) (S : FEdGraphParameterFormatter)
    (Padding : FVector2D) (p : Int) (c : Nat) (V : List Nat) (hp : Padding.Y = p * F32One)
    (hr : CollisionWithin G S p c V) (hV : V.length < 100) :
    (FormatYCollision32 G Padding c V 100 S).2 = true
      ∧ ∀ v ∈ V, v ≠ c →
        DoRectanglesIntersect
          ((GetCachedNodeBounds32 G (FormatYCollision32 G Padding c V 100 S).1 c).ExtendBy32 0 0 0
            Padding.Y)
          ((GetCachedNodeBounds32 G (FormatYCollision32 G Padding c V 100 S).1 v).ExtendBy32 0 0 0
            Padding.Y) = false := by
  have hflag : (FormatYCollision32 G Padding c V 100 S).2 = true := by
    apply FormatYCollision32_terminates G Padding p c V hp 100 S hr
    exact lt_of_le_of_lt (List.countP_le_length _) hV
  exact ⟨hflag, find_none_apart V c _ (FormatYCollision32_flag G Padding c V 100 S hflag).2⟩

theorem FormatYCollision32_resolves_witness :
    (FormatYCollision32 pairGraph exPadding 1 [0] 100 (pairState pairSmallY)).2 = true :=
  (FormatYCollision32_resolves pairGraph (pairState pairSmallY) exPadding 25 1 [0] rfl
    (by
      refine ⟨by decide, by decide, by decide, by decide, by decide, by decide, by decide,
        by decide, by decide, by decide, ?_⟩
      intro v hv _
      rw [List.mem_singleton.mp hv]
      unfold NodeWithin
      decide)
    (by decide)).1

/-! ## Centering in binary32 -/

/-- A whole number below the exact quotient is below the binary32 quotient. -/
theorem fdivNat_ge (w A n : Nat) (hn : 0 < n) (hw : w ≤ 2 ^ 24) (h : w * n ≤ A) :
    w * 2 ^ 149 ≤ fdivNat (A * 2 ^ 149) n := by
  rcases Nat.eq_zero_or_pos w with h0 | h0
  · subst h0; simp
  have hq : 2 * (w * 2 ^ 149) ≤ (2 * (A * 2 ^ 149)) / n := by
    rw [Nat.le_div_iff_mul_le hn]
    have := Nat.mul_le_mul_right (2 * 2 ^ 149) h
    calc 2 * (w * 2 ^ 149) * n = w * n * (2 * 2 ^ 149) := by ring
      _ ≤ A * (2 * 2 ^ 149) := this
      _ = 2 * (A * 2 ^ 149) := by ring
  have ht : w * 2 ^ 151 ≤ 2 * ((2 * (A * 2 ^ 149)) / n)
      + (if (2 * (A * 2 ^ 149)) % n = 0 then 0 else 1) := by
    have e : w * 2 ^ 151 = 2 * (2 * (w * 2 ^ 149)) := by ring
    rw [e]
    omega
  have hbig : 2 ^ 25 ≤ 2 * ((2 * (A * 2 ^ 149)) / n)
      + (if (2 * (A * 2 ^ 149)) % n = 0 then 0 else 1) := by
    have h1 : (1 : Nat) * 2 ^ 151 ≤ w * 2 ^ 151 := Nat.mul_le_mul_right _ h0
    have h2 : (2 : Nat) ^ 25 ≤ 1 * 2 ^ 151 := by norm_num
    omega
  unfold fdivNat
  dsimp only
  rw [if_pos hbig]
  have hr := roundNat_mono _ _ ht
  rw [roundNat_mul_pow w 151 hw] at hr
  have e : w * 2 ^ 149 = w * 2 ^ 151 / 4 := by
    have : w * 2 ^ 151 = w * 2 ^ 149 * 4 := by ring
    rw [this, Nat.mul_div_cancel _ (by norm_num)]
  rw [e]
  exact Nat.div_le_div_right hr

/-- A whole number above the exact quotient is above the binary32 quotient. -/
theorem fdivNat_le (w A n : Nat) (hw : w ≤ 2 ^ 24) (h : A ≤ w * n) :
    fdivNat (A * 2 ^ 149) n ≤ w * 2 ^ 149 := by
  have hq : (2 * (A * 2 ^ 149)) / n ≤ 2 * (w * 2 ^ 149) := by
    apply Nat.div_le_of_le_mul
    have := Nat.mul_le_mul_right (2 * 2 ^ 149) h
    calc 2 * (A * 2 ^ 149) = A * (2 * 2 ^ 149) := by ring
      _ ≤ w * n * (2 * 2 ^ 149) := this
      _ = n * (2 * (w * 2 ^ 149)) := by ring
  have ht : 2 * ((2 * (A * 2 ^ 149)) / n)
      + (if (2 * (A * 2 ^ 149)) % n = 0 then 0 else 1) ≤ w * 2 ^ 151 := by
    have e : w * 2 ^ 151 = 2 * (2 * (w * 2 ^ 149)) := by ring
    rw [e]
    rcases Nat.lt_or_eq_of_le hq with hlt | heq
    · split_ifs <;> omega
    · have hmod : (2 * (A * 2 ^ 149)) % n = 0 := by
        have hd := Nat.div_add_mod (2 * (A * 2 ^ 149)) n
        rw [heq] at hd
        have hle : 2 * (A * 2 ^ 149) ≤ n * (2 * (w * 2 ^ 149)) := by
          have := Nat.mul_le_mul_right (2 * 2 ^ 149) h
          calc 2 * (A * 2 ^ 149) = A * (2 * 2 ^ 149) := by ring
            _ ≤ w * n * (2 * 2 ^ 149) := this
            _ = n * (2 * (w * 2 ^ 149)) := by ring
        omega
      rw [if_pos hmod, heq]
      omega
  unfold fdivNat
  dsimp only
  generalize 2 * ((2 * (A * 2 ^ 149)) / n)
      + (if (2 * (A * 2 ^ 149)) % n = 0 then 0 else 1) = t at ht ⊢
  have hsmall : ¬ 2 ^ 25 ≤ t → t / 4 + 1 ≤ w * 2 ^ 149 ∨ t = 0 := by
    intro hb
    rcases Nat.eq_zero_or_pos w with h0 | h0
    · subst h0
      right
      simp only [zero_mul] at ht
      omega
    · left
      have h1 : (1 : Nat) * 2 ^ 149 ≤ w * 2 ^ 149 := Nat.mul_le_mul_right _ h0
      have h2 : (2 : Nat) ^ 25 ≤ 1 * 2 ^ 149 := by norm_num
      omega
  split_ifs with hbig hc
  · have hr := roundNat_mono _ _ ht
    rw [roundNat_mul_pow w 151 hw] at hr
    have e : w * 2 ^ 149 = w * 2 ^ 151 / 4 := by
      have : w * 2 ^ 151 = w * 2 ^ 149 * 4 := by ring
      rw [this, Nat.mul_div_cancel _ (by norm_num)]
    rw [e]
    exact Nat.div_le_div_right hr
  · rcases hsmall hbig with h3 | h3
    · exact h3
    · subst h3
      simp at hc
  · rcases hsmall hbig with h3 | h3
    · omega
    · subst h3
      simp

theorem natAbs_mul_F32One (A : Int) : (A * F32One).natAbs = A.natAbs * 2 ^ 149 := by
  unfold F32One
  rw [Int.natAbs_mul, Int.natAbs_ofNat]

/-- A whole number of magnitude at most `2^24` below the exact quotient of a
whole number by a count is below the binary32 quotient. -/
theorem le_fdiv (w A : Int) (n : Nat) (hn : 0 < n) (h1 : -16777216 ≤ w) (h2 : w ≤ 16777216)
    (h : w * (n : Int) ≤ A) : w * F32One ≤ fdiv (A * F32One) n := by
  have hU := F32One_pos
  have hUe : F32One = ((2 ^ 149 : Nat) : Int) := rfl
  unfold fdiv
  rw [natAbs_mul_F32One]
  by_cases hA : A * F32One < 0
  · rw [if_pos hA]
    have hAneg : A < 0 := by
      by_contra hc
      have : 0 ≤ A * F32One := mul_nonneg (by omega) (le_of_lt hU)
      omega
    have hwneg : w < 0 := by
      by_contra hc
      have : 0 ≤ w * (n : Int) := mul_nonneg (by omega) (by omega)
      omega
    have hnat : A.natAbs ≤ w.natAbs * n := by
      have e1 : (A.natAbs : Int) = -A := by omega
      have e2 : (w.natAbs : Int) = -w := by omega
      have : (A.natAbs : Int) ≤ (w.natAbs : Int) * (n : Int) := by
        rw [e1, e2]
        have : -w * (n : Int) = -(w * (n : Int)) := by ring
        omega
      exact_mod_cast this
    have := fdivNat_le w.natAbs A.natAbs n (by omega) hnat
    have hc : ((fdivNat (A.natAbs * 2 ^ 149) n : Nat) : Int) ≤ ((w.natAbs * 2 ^ 149 : Nat) : Int) := by
      exact_mod_cast this
    rw [Int.natCast_mul] at hc
    have e2 : (w.natAbs : Int) = -w := by omega
    rw [e2, ← hUe] at hc
    have : -w * F32One = -(w * F32One) := by ring
    omega
  · rw [if_neg hA]
    have hAnn : 0 ≤ A := by
      by_contra hc
      have : A * F32One < 0 := mul_neg_of_neg_of_pos (by omega) hU
      omega
    by_cases hw0 : w ≤ 0
    · have : w * F32One ≤ 0 := mul_nonpos_of_nonpos_of_nonneg hw0 (le_of_lt hU)
      have h3 : (0 : Int) ≤ ((fdivNat (A.natAbs * 2 ^ 149) n : Nat) : Int) := Int.ofNat_nonneg _
      omega
    · have hnat : w.natAbs * n ≤ A.natAbs := by
        have e1 : (A.natAbs : Int) = A := by omega
        have e2 : (w.natAbs : Int) = w := by omega
        have : (w.natAbs : Int) * (n : Int) ≤ (A.natAbs : Int) := by
          rw [e1, e2]; exact h
        exact_mod_cast this
      have := fdivNat_ge w.natAbs A.natAbs n hn (by omega) hnat
      have hc : ((w.natAbs * 2 ^ 149 : Nat) : Int) ≤ ((fdivNat (A.natAbs * 2 ^ 149) n : Nat) : Int) := by
        exact_mod_cast this
      rw [Int.natCast_mul] at hc
      have e2 : (w.natAbs : Int) = w := by omega
      rw [e2, ← hUe] at hc
      exact hc

theorem fdiv_neg (a : Int) (n : Nat) : fdiv (-a) n = -fdiv a n := by
  unfold fdiv
  rcases lt_trichotomy a 0 with h | h | h
  · rw [if_neg (by omega), if_pos h, Int.natAbs_neg, neg_neg]
  · subst h
    simp [fdivNat, roundNat_zero]
  · rw [if_pos (by omega), if_neg (by omega), Int.natAbs_neg]

/-- A whole number of magnitude at most `2^24` above the exact quotient of a
whole number by a count is above the binary32 quotient. -/
theorem fdiv_le (w A : Int) (n : Nat) (hn : 0 < n) (h1 : -16777216 ≤ w) (h2 : w ≤ 16777216)
    (h : A ≤ w * (n : Int)) : fdiv (A * F32One) n ≤ w * F32One := by
  have := le_fdiv (-w) (-A) n hn (by omega) (by omega) (by
    have : -w * (n : Int) = -(w * (n : Int)) := by ring
    omega)
  have e1 : -A * F32One = -(A * F32One) := by ring
  have e2 : -w * F32One = -(w * F32One) := by ring
  rw [e1, fdiv_neg, e2] at this
  omega

/-- The binary32 height of a pin is the exact one when the top of the node,
the offset and the height are of magnitude at most `2^24`. -/
theorem GetPinY32_exact (G : FBAGraph) (S : FEdGraphParameterFormatter) (p : Nat)
    (h1 : -16777216 ≤ S.NodePosY (G.OwningNode p)) (h2 : S.NodePosY (G.OwningNode p) ≤ 16777216)
    (h3 : -16777216 ≤ (G.pin p).OffsetY) (h4 : (G.pin p).OffsetY ≤ 16777216)
    (h5 : -16777216 ≤ GetPinY G S p) (h6 : GetPinY G S p ≤ 16777216) :
    GetPinY32 G S p = GetPinY G S p * F32One := by
  unfold GetPinY32
  unfold GetPinY at h5 h6 ⊢
  rw [ofInt32_exact _ h1 h2, ofInt32_exact _ h3 h4, fadd_whole _ _ h5 h6]

/-- The binary32 sum of whole numbers whose partial sums are of magnitude at
most `2^24` is the exact sum. -/
theorem foldl_fadd_whole (f : Nat → Int) (y : Nat → Int) (M : Int) (hM : 0 ≤ M) :
    ∀ (ps : List Nat) (a : Int), (∀ p ∈ ps, f p = y p * F32One ∧ -M ≤ y p ∧ y p ≤ M) →
      -16777216 ≤ a - (ps.length : Int) * M → a + (ps.length : Int) * M ≤ 16777216 →
      ps.foldl (fun acc p => fadd acc (f p)) (a * F32One) = (a + (ps.map y).sum) * F32One := by
  intro ps
  induction ps with
  | nil => intro a _ _ _; simp
  | cons x xs ih =>
    intro a h h1 h2
    obtain ⟨e, y1, y2⟩ := h x (List.mem_cons_self _ _)
    simp only [List.length_cons, Nat.cast_add, Nat.cast_one] at h1 h2
    have hl : (0 : Int) ≤ (xs.length : Int) * M := mul_nonneg (by omega) hM
    have e1 : ((xs.length : Int) + 1) * M = (xs.length : Int) * M + M := by ring
    simp only [List.foldl_cons, List.map_cons, List.sum_cons]
    rw [e, fadd_whole _ _ (by omega) (by omega),
      ih (a + y x) (fun p hp => h p (List.mem_cons_of_mem _ hp)) (by omega) (by omega)]
    ring_nf

theorem sum_bound {α : Type} (y : α → Int) (M : Int) :
    ∀ ps : List α, (∀ p ∈ ps, -M ≤ y p ∧ y p ≤ M) →
      -((ps.length : Int) * M) ≤ (ps.map y).sum ∧ (ps.map y).sum ≤ (ps.length : Int) * M := by
  intro ps
  induction ps with
  | nil => intro _; simp
  | cons x xs ih =>
    intro h
    obtain ⟨y1, y2⟩ := h x (List.mem_cons_self _ _)
    obtain ⟨i1, i2⟩ := ih (fun p hp => h p (List.mem_cons_of_mem _ hp))
    simp only [List.length_cons, Nat.cast_add, Nat.cast_one, List.map_cons, List.sum_cons]
    have e1 : ((xs.length : Int) + 1) * M = (xs.length : Int) * M + M := by ring
    omega

/-- The binary32 centre of pins at whole heights of magnitude at most `M`,
with `M` times their number at most `2^24`: the binary32 quotient of the
exact sum by the number. -/
theorem GetCenterYOfPins32_whole (G : FBAGraph) (S : FEdGraphParameterFormatter) (ps : List Nat)
    (M : Int) (hne : ps ≠ [])
    (h : ∀ p ∈ ps, GetPinY32 G S p = GetPinY G S p * F32One ∧ -M ≤ GetPinY G S p
      ∧ GetPinY G S p ≤ M)
    (hM : (ps.length : Int) * M ≤ 16777216) :
    GetCenterYOfPins32 G S ps = fdiv ((ps.map (GetPinY G S)).sum * F32One) ps.length := by
  have hM0 : 0 ≤ M := by
    cases ps with
    | nil => exact absurd rfl hne
    | cons x xs =>
      have := h x (List.mem_cons_self _ _)
      omega
  unfold GetCenterYOfPins32
  rw [if_neg hne]
  have := foldl_fadd_whole (GetPinY32 G S) (GetPinY G S) M hM0 ps 0 h (by omega) (by omega)
  simp only [zero_mul, zero_add] at this
  rw [this]

/-- The node after `NodePosY += Offset` in binary32 lies between the whole
numbers that bound the offset. -/
theorem addOffset_between (Y lo hi o : Int) (hY1 : -16777216 ≤ Y) (hY2 : Y ≤ 16777216)
    (hl1 : -16777216 ≤ Y + lo) (hl2 : Y + lo ≤ 16777216)
    (hh1 : -16777216 ≤ Y + hi) (hh2 : Y + hi ≤ 16777216)
    (h1 : lo * F32One ≤ o) (h2 : o ≤ hi * F32One) :
    Y + lo ≤ toInt32 (fadd (ofInt32 Y) o) ∧ toInt32 (fadd (ofInt32 Y) o) ≤ Y + hi := by
  rw [ofInt32_exact Y hY1 hY2]
  constructor
  · apply le_toInt32
    apply le_roundF32 _ _ (roundF32_whole _ hl1 hl2)
    have : (Y + lo) * F32One = Y * F32One + lo * F32One := by ring
    omega
  · apply toInt32_le
    apply roundF32_le _ _ (roundF32_whole _ hh1 hh2)
    have : (Y + hi) * F32One = Y * F32One + hi * F32One := by ring
    omega

theorem centerLo_gt (P C : Int) (n : Nat) (hn : 0 < n) :
    P - C - 2 * (n : Int) < (n : Int) * centerLo P C n := by
  have hn0 : (0 : Int) < (n : Int) := by exact_mod_cast hn
  have h1 := Int.lt_ediv_add_one_mul_self P hn0
  have h2 := Int.lt_ediv_add_one_mul_self (-C) hn0
  unfold centerLo
  nlinarith

theorem centerHi_lt (P C : Int) (n : Nat) (hn : 0 < n) :
    (n : Int) * centerHi P C n < P - C + 2 * (n : Int) := by
  have hn0 : (0 : Int) < (n : Int) := by exact_mod_cast hn
  have h1 := Int.lt_ediv_add_one_mul_self (-P) hn0
  have h2 := Int.lt_ediv_add_one_mul_self C hn0
  unfold centerHi
  nlinarith

theorem center_dvd (P C : Int) (n : Nat) (hP : (n : Int) ∣ P) (hC : (n : Int) ∣ C) :
    (n : Int) * centerLo P C n = P - C ∧ (n : Int) * centerHi P C n = P - C := by
  have h1 : (n : Int) * (P / (n : Int)) = P := Int.mul_ediv_cancel' hP
  have h2 : (n : Int) * (C / (n : Int)) = C := Int.mul_ediv_cancel' hC
  have h3 : (n : Int) * ((-P) / (n : Int)) = -P := Int.mul_ediv_cancel' ((Int.dvd_neg).2 hP)
  have h4 : (n : Int) * ((-C) / (n : Int)) = -C := Int.mul_ediv_cancel' ((Int.dvd_neg).2 hC)
  unfold centerLo centerHi
  constructor
  · rw [mul_add, h1, h4]; ring
  · rw [mul_sub, mul_neg, h3, h2]; ring

theorem ediv_within (A M : Int) (n : Nat) (hn : 0 < n) (h1 : -((n : Int) * M) ≤ A)
    (h2 : A ≤ (n : Int) * M) : -M ≤ A / (n : Int) ∧ A / (n : Int) ≤ M := by
  have hn0 : (0 : Int) < (n : Int) := by exact_mod_cast hn
  constructor
  · apply Int.le_ediv_of_mul_le hn0
    have : -M * (n : Int) = -((n : Int) * M) := by ring
    omega
  · apply Int.ediv_le_of_le_mul hn0
    have : M * (n : Int) = (n : Int) * M := by ring
    omega

/-- The binary32 offset `ParentCenter - ChildrenCenter` of whole sums lies
between `centerLo` and `centerHi`. -/
theorem center_offset_between (P C M : Int) (n : Nat) (hn : 0 < n)
    (hP1 : -((n : Int) * M) ≤ P) (hP2 : P ≤ (n : Int) * M)
    (hC1 : -((n : Int) * M) ≤ C) (hC2 : C ≤ (n : Int) * M)
    (hM : 2 * M ≤ 16777216) :
    centerLo P C n * F32One ≤ fsub (fdiv (P * F32One) n) (fdiv (C * F32One) n)
      ∧ fsub (fdiv (P * F32One) n) (fdiv (C * F32One) n) ≤ centerHi P C n * F32One
      ∧ -(2 * M) ≤ centerLo P C n ∧ centerLo P C n ≤ 2 * M
      ∧ -(2 * M) ≤ centerHi P C n ∧ centerHi P C n ≤ 2 * M := by
  have hn0 : (0 : Int) < (n : Int) := by exact_mod_cast hn
  have hne : (n : Int) ≠ 0 := by omega
  obtain ⟨a1, a2⟩ := ediv_within P M n hn hP1 hP2
  obtain ⟨b1, b2⟩ := ediv_within (-P) M n hn (by omega) (by omega)
  obtain ⟨c1, c2⟩ := ediv_within C M n hn hC1 hC2
  obtain ⟨d1, d2⟩ := ediv_within (-C) M n hn (by omega) (by omega)
  have hM0 : 0 ≤ M := by omega
  have pl := le_fdiv (P / (n : Int)) P n hn (by omega) (by omega) (Int.ediv_mul_le P hne)
  have ph := fdiv_le (-((-P) / (n : Int))) P n hn (by omega) (by omega) (by
    have := Int.ediv_mul_le (-P) hne
    have e : -((-P) / (n : Int)) * (n : Int) = -((-P) / (n : Int) * (n : Int)) := by ring
    omega)
  have cl := le_fdiv (C / (n : Int)) C n hn (by omega) (by omega) (Int.ediv_mul_le C hne)
  have ch := fdiv_le (-((-C) / (n : Int))) C n hn (by omega) (by omega) (by
    have := Int.ediv_mul_le (-C) hne
    have e : -((-C) / (n : Int)) * (n : Int) = -((-C) / (n : Int) * (n : Int)) := by ring
    omega)
  unfold centerLo centerHi
  refine ⟨?_, ?_, by omega, by omega, by omega, by omega⟩
  · apply le_roundF32 _ _ (roundF32_whole _ (by omega) (by omega))
    have e : (P / (n : Int) + (-C) / (n : Int)) * F32One
        = P / (n : Int) * F32One - (-((-C) / (n : Int))) * F32One := by ring
    omega
  · apply roundF32_le _ _ (roundF32_whole _ (by omega) (by omega))
    have e : (-((-P) / (n : Int)) - C / (n : Int)) * F32One
        = -((-P) / (n : Int)) * F32One - C / (n : Int) * F32One := by ring
    omega

theorem sum_between {α : Type} (f g : α → Int) (lo hi : Int) :
    ∀ l : List α, (∀ b ∈ l, f b + lo ≤ g b ∧ g b ≤ f b + hi) →
      (l.map f).sum + (l.length : Int) * lo ≤ (l.map g).sum
        ∧ (l.map g).sum ≤ (l.map f).sum + (l.length : Int) * hi := by
  intro l
  induction l with
  | nil => intro _; simp
  | cons x xs ih =>
    intro h
    obtain ⟨x1, x2⟩ := h x (List.mem_cons_self _ _)
    obtain ⟨i1, i2⟩ := ih (fun b hb => h b (List.mem_cons_of_mem _ hb))
    simp only [List.map_cons, List.sum_cons, List.length_cons, Nat.cast_add, Nat.cast_one]
    have e1 : ((xs.length : Int) + 1) * lo = (xs.length : Int) * lo + lo := by ring
    have e2 : ((xs.length : Int) + 1) * hi = (xs.length : Int) * hi + hi := by ring
    omega

/-- The first loop of `CenterBranches` in binary32, for whole pin heights of
magnitude at most `M` (with `M` times the number of branches at most `2^24`)
and branch nodes whose Y is of magnitude at most `2^24 - 2 M`: every branch
node moves by a whole number between `centerLo` and `centerHi`, and no other
node moves. -/
theorem CenterOffsetBranches32_between (G : FBAGraph) (S : FEdGraphParameterFormatter)
    (bs : List ChildBranch) (M : Int) (hne : bs ≠ [])
    (hnd : (bs.flatMap (fun b => b.BranchNodes)).Nodup)
    (hC : ∀ b ∈ bs, GetPinY32 G S b.Pin = GetPinY G S b.Pin * F32One ∧ -M ≤ GetPinY G S b.Pin
      ∧ GetPinY G S b.Pin ≤ M)
    (hP : ∀ b ∈ bs, GetPinY32 G S b.ParentPin = GetPinY G S b.ParentPin * F32One
      ∧ -M ≤ GetPinY G S b.ParentPin ∧ GetPinY G S b.ParentPin ≤ M)
    (hM : (bs.length : Int) * M ≤ 16777216) (hM2 : 2 * M ≤ 16777216)
    (hY : ∀ x ∈ bs.flatMap (fun b => b.BranchNodes),
      -16777216 ≤ S.NodePosY x - 2 * M ∧ S.NodePosY x + 2 * M ≤ 16777216) :
    (∀ x ∈ bs.flatMap (fun b => b.BranchNodes),
        S.NodePosY x + centerLo (bs.map (fun b => GetPinY G S b.ParentPin)).sum
            (bs.map (fun b => GetPinY G S b.Pin)).sum bs.length
          ≤ (CenterOffsetBranches32 G S bs).NodePosY x
        ∧ (CenterOffsetBranches32 G S bs).NodePosY x
          ≤ S.NodePosY x + centerHi (bs.map (fun b => GetPinY G S b.ParentPin)).sum
            (bs.map (fun b => GetPinY G S b.Pin)).sum bs.length)
      ∧ (∀ r, r ∉ bs.flatMap (fun b => b.BranchNodes) →
        (CenterOffsetBranches32 G S bs).NodePosY r = S.NodePosY r)
      ∧ (CenterOffsetBranches32 G S bs).NodePosX = S.NodePosX := by
  have hlen : 0 < bs.length := List.length_pos.mpr hne
  have hM0 : 0 ≤ M := by
    cases bs with
    | nil => exact absurd rfl hne
    | cons x xs =>
      have := hC x (List.mem_cons_self _ _)
      omega
  have eC : GetCenterYOfPins32 G S (bs.map (fun b => b.Pin))
      = fdiv ((bs.map (fun b => GetPinY G S b.Pin)).sum * F32One) bs.length := by
    have := GetCenterYOfPins32_whole G S (bs.map (fun b => b.Pin)) M
      (fun h => hne (List.map_eq_nil_iff.1 h))
      (by
        intro p hp
        obtain ⟨b, hb, rfl⟩ := List.mem_map.1 hp
        exact hC b hb)
      (by rw [List.length_map]; exact hM)
    simp only [List.map_map, List.length_map, Function.comp_def] at this
    exact this
  have eP : GetCenterYOfPins32 G S (bs.map (fun b => b.ParentPin))
      = fdiv ((bs.map (fun b => GetPinY G S b.ParentPin)).sum * F32One) bs.length := by
    have := GetCenterYOfPins32_whole G S (bs.map (fun b => b.ParentPin)) M
      (fun h => hne (List.map_eq_nil_iff.1 h))
      (by
        intro p hp
        obtain ⟨b, hb, rfl⟩ := List.mem_map.1 hp
        exact hP b hb)
      (by rw [List.length_map]; exact hM)
    simp only [List.map_map, List.length_map, Function.comp_def] at this
    exact this
  obtain ⟨sC1, sC2⟩ := sum_bound (fun b : ChildBranch => GetPinY G S b.Pin) M bs
    (fun b hb => (hC b hb).2)
  obtain ⟨sP1, sP2⟩ := sum_bound (fun b : ChildBranch => GetPinY G S b.ParentPin) M bs
    (fun b hb => (hP b hb).2)
  have hcob := center_offset_between _ _ M bs.length hlen sP1 sP2 sC1 sC2 hM2
  have o1 := hcob.1
  have o2 := hcob.2.1
  have l1 := hcob.2.2.1
  have l2 := hcob.2.2.2.1
  have u1 := hcob.2.2.2.2.1
  have u2 := hcob.2.2.2.2.2
  clear hcob
  have hfold : ∀ o : Int, ∀ x ∈ bs.flatMap (fun b => b.BranchNodes),
      ((bs.flatMap (fun b => b.BranchNodes)).foldl (fun (a : FEdGraphParameterFormatter) c =>
        withPosY a c (toInt32 (fadd (ofInt32 (a.NodePosY c)) o))) S).NodePosY x
        = toInt32 (fadd (ofInt32 (S.NodePosY x)) o) := by
    intro o x hx
    exact foldl_withPosY_mem (fun y => toInt32 (fadd (ofInt32 y) o)) _ hnd S x hx
  have hother : ∀ o : Int, ∀ r, r ∉ bs.flatMap (fun b => b.BranchNodes) →
      ((bs.flatMap (fun b => b.BranchNodes)).foldl (fun (a : FEdGraphParameterFormatter) c =>
        withPosY a c (toInt32 (fadd (ofInt32 (a.NodePosY c)) o))) S).NodePosY r = S.NodePosY r := by
    intro o r hr
    exact foldl_withPosY_other _ (fun a c => toInt32 (fadd (ofInt32 (a.NodePosY c)) o)) r hr S
  have hX : ∀ o : Int,
      ((bs.flatMap (fun b => b.BranchNodes)).foldl (fun (a : FEdGraphParameterFormatter) c =>
        withPosY a c (toInt32 (fadd (ofInt32 (a.NodePosY c)) o))) S).NodePosX = S.NodePosX := by
    intro o
    apply foldl_inv (fun a : FEdGraphParameterFormatter => a.NodePosX = S.NodePosX) _ _ _ rfl
    intro a x ha
    exact ha
  have hdef : CenterOffsetBranches32 G S bs
      = (bs.flatMap (fun b => b.BranchNodes)).foldl (fun (a : FEdGraphParameterFormatter) c =>
        withPosY a c (toInt32 (fadd (ofInt32 (a.NodePosY c))
          (fsub (GetCenterYOfPins32 G S (bs.map (fun b => b.ParentPin)))
            (GetCenterYOfPins32 G S (bs.map (fun b => b.Pin))))))) S := rfl
  rw [hdef]
  refine ⟨?_, hother _, hX _⟩
  intro x hx
  obtain ⟨y1, y2⟩ := hY x hx
  rw [hfold _ x hx, eC, eP]
  exact addOffset_between _ _ _ _ (by omega) (by omega) (by omega) (by omega) (by omega)
    (by omega) o1 o2

theorem GetCachedNodeBounds32_scale (G : FBAGraph) (S : FEdGraphParameterFormatter) (n : Nat)
    (B : Int) (hB : 2 * B ≤ 16777216) (h : NodeWithin G S B n) :
    GetCachedNodeBounds32 G S n = (GetCachedNodeBounds G S n).scale := by
  obtain ⟨x1, x2, y1, y2, w1, w2, h1, h2⟩ := h
  unfold GetCachedNodeBounds32 GetCachedNodeBounds FSlateRect.scale
  rw [ofInt32_exact _ (by omega) (by omega), ofInt32_exact _ (by omega) (by omega),
    ofInt32_exact (G.node n).SizeX (by omega) (by omega),
    ofInt32_exact (G.node n).SizeY (by omega) (by omega),
    fadd_whole _ _ (by omega) (by omega), fadd_whole _ _ (by omega) (by omega)]

theorem union_scale (a b : FSlateRect) : a.scale.union b.scale = (a.union b).scale := by
  have hU := le_of_lt F32One_pos
  unfold FSlateRect.union FSlateRect.scale
  simp only [min_mul_of_nonneg _ _ hU, max_mul_of_nonneg _ _ hU]

theorem GetCachedNodeBounds_within (G : FBAGraph) (S : FEdGraphParameterFormatter) (n : Nat)
    (B : Int) (h : NodeWithin G S B n) : RectWithin (GetCachedNodeBounds G S n) B := by
  obtain ⟨x1, x2, y1, y2, w1, w2, h1, h2⟩ := h
  unfold RectWithin GetCachedNodeBounds
  dsimp only
  omega

theorem union_within (a b : FSlateRect) (B : Int) (ha : RectWithin a B) (hb : RectWithin b B) :
    RectWithin (a.union b) B := by
  obtain ⟨a1, a2, a3, a4, a5, a6, a7, a8⟩ := ha
  obtain ⟨b1, b2, b3, b4, b5, b6, b7, b8⟩ := hb
  unfold RectWithin FSlateRect.union
  dsimp only
  refine ⟨le_min a1 b1, min_le_of_left_le a2, le_min a3 b3, min_le_of_left_le a4,
    le_max_of_le_left a5, max_le a6 b6, le_max_of_le_left a7, max_le a8 b8⟩

/-- The binary32 bounds of a non-empty group of nodes of magnitude at most
`B` are the exact ones. -/
theorem GetCachedNodeArrayBounds32_scale (G : FBAGraph) (S : FEdGraphParameterFormatter)
    (B : Int) (hB : 2 * B ≤ 16777216) :
    ∀ ns : List Nat, ns ≠ [] → (∀ n ∈ ns, NodeWithin G S B n) →
      GetCachedNodeArrayBounds32 G S ns = (GetCachedNodeArrayBounds G S ns).scale
        ∧ RectWithin (GetCachedNodeArrayBounds G S ns) B := by
  intro ns hne h
  cases ns with
  | nil => exact absurd rfl hne
  | cons x xs =>
    simp only [GetCachedNodeArrayBounds32, GetCachedNodeArrayBounds]
    have h0 := GetCachedNodeBounds32_scale G S x B hB (h x (List.mem_cons_self _ _))
    have w0 := GetCachedNodeBounds_within G S x B (h x (List.mem_cons_self _ _))
    rw [h0]
    have hxs : ∀ n ∈ xs, NodeWithin G S B n := fun n hn => h n (List.mem_cons_of_mem _ hn)
    generalize GetCachedNodeBounds G S x = r0 at w0 ⊢
    clear h h0 hne
    induction xs generalizing r0 with
    | nil => exact ⟨rfl, w0⟩
    | cons y ys ih =>
      simp only [List.foldl_cons]
      rw [GetCachedNodeBounds32_scale G S y B hB (hxs y (List.mem_cons_self _ _)), union_scale]
      exact ih (fun n hn => hxs n (List.mem_cons_of_mem _ hn)) _
        (union_within _ _ B w0 (GetCachedNodeBounds_within G S y B (hxs y (List.mem_cons_self _ _))))

/-- The padded binary32 bounds of a node to check are the exact ones. -/
theorem ExtendBy32_check (G : FBAGraph) (S : FEdGraphParameterFormatter) (Padding : FVector2D)
    (p : Int) (v : Nat) (B : Int) (hp : Padding.Y = p * F32One) (p1 : -B ≤ p) (p2 : p ≤ B)
    (hB : 3 * B ≤ 16777216) (h : NodeWithin G S B v) :
    (GetCachedNodeBounds32 G S v).ExtendBy32 0 Padding.Y 0 Padding.Y
      = ((GetCachedNodeBounds G S v).ExtendBy 0 p 0 p).scale := by
  have hB0 : 0 ≤ B := by omega
  rw [GetCachedNodeBounds32_scale G S v B (by omega) h]
  obtain ⟨x1, x2, y1, y2, w1, w2, h1, h2⟩ := h
  unfold FSlateRect.ExtendBy32 FSlateRect.ExtendBy FSlateRect.scale GetCachedNodeBounds
  dsimp only
  rw [hp, fsub_zero_whole _ (by omega) (by omega), fadd_zero_whole _ (by omega) (by omega),
    fsub_whole _ _ (by omega) (by omega), fadd_whole _ _ (by omega) (by omega)]
  simp

/-- The invariant of the collision loop of `CenterBranches` in binary32: the
bounds of the group are whole, with the width and the height they started
with. -/
theorem CenterCollide32_whole (G : FBAGraph) (S1 : FEdGraphParameterFormatter) (Padding : FVector2D)
    (p : Int) (AllNodes : List Nat) (R0 : FSlateRect) (B1 BV : Int)
    (hp : Padding.Y = p * F32One) (p1 : -BV ≤ p) (p2 : p ≤ BV)
    (hBV : 0 ≤ BV) (hB : 3 * BV ≤ B1) (hB1 : 4 * B1 ≤ 16777216) (hR0 : RectWithin R0 B1) :
    ∀ (V : List Nat), (∀ v ∈ V, v ∉ AllNodes → NodeWithin G S1 BV v) →
      ∀ T : Int, -B1 ≤ T → T ≤ B1 →
        ∃ T2 : Int, -B1 ≤ T2 ∧ T2 ≤ B1
          ∧ V.foldl (CenterCollide32 G S1 Padding AllNodes)
              ({ Left := R0.Left, Top := T, Right := R0.Right,
                 Bottom := T + (R0.Bottom - R0.Top) } : FSlateRect).scale
            = ({ Left := R0.Left, Top := T2, Right := R0.Right,
                 Bottom := T2 + (R0.Bottom - R0.Top) } : FSlateRect).scale := by
  obtain ⟨r1, r2, r3, r4, r5, r6, r7, r8⟩ := hR0
  intro V
  induction V with
  | nil => intro _ T t1 t2; exact ⟨T, t1, t2, rfl⟩
  | cons v vs ih =>
    intro hV T t1 t2
    have hvs : ∀ x ∈ vs, x ∉ AllNodes → NodeWithin G S1 BV x :=
      fun x hx => hV x (List.mem_cons_of_mem _ hx)
    simp only [List.foldl_cons]
    by_cases hmem : v ∈ AllNodes
    · have e : CenterCollide32 G S1 Padding AllNodes
          ({ Left := R0.Left, Top := T, Right := R0.Right,
             Bottom := T + (R0.Bottom - R0.Top) } : FSlateRect).scale v
          = ({ Left := R0.Left, Top := T, Right := R0.Right,
               Bottom := T + (R0.Bottom - R0.Top) } : FSlateRect).scale := by
        unfold CenterCollide32
        rw [if_pos hmem]
      rw [e]
      exact ih hvs T t1 t2
    · have hw := hV v (List.mem_cons_self _ _) hmem
      have hext := ExtendBy32_check G S1 Padding p v BV hp p1 p2 (by omega) hw
      obtain ⟨x1, x2, y1, y2, w1, w2, h1, h2⟩ := hw
      by_cases hint : DoRectanglesIntersect
          ((GetCachedNodeBounds G S1 v).ExtendBy 0 p 0 p)
          ({ Left := R0.Left, Top := T, Right := R0.Right,
             Bottom := T + (R0.Bottom - R0.Top) } : FSlateRect) = true
      · have e : CenterCollide32 G S1 Padding AllNodes
            ({ Left := R0.Left, Top := T, Right := R0.Right,
               Bottom := T + (R0.Bottom - R0.Top) } : FSlateRect).scale v
            = ({ Left := R0.Left, Top := S1.NodePosY v + (G.node v).SizeY + p, Right := R0.Right,
                 Bottom := S1.NodePosY v + (G.node v).SizeY + p + (R0.Bottom - R0.Top) }
                : FSlateRect).scale := by
          unfold CenterCollide32
          rw [if_neg hmem]
          dsimp only
          rw [hext, DoRectanglesIntersect_scale, if_pos hint]
          simp only [FSlateRect.scale, FSlateRect.ExtendBy, GetCachedNodeBounds]
          rw [fsub_whole _ _ (by omega) (by omega), fadd_zero_whole _ (by omega) (by omega),
            fadd_zero_whole _ (by omega) (by omega), fadd_whole _ _ (by omega) (by omega),
            fadd_whole _ _ (by omega) (by omega)]
          congr 1 <;> ring
        rw [e]
        exact ih hvs _ (by omega) (by omega)
      · have e : CenterCollide32 G S1 Padding AllNodes
            ({ Left := R0.Left, Top := T, Right := R0.Right,
               Bottom := T + (R0.Bottom - R0.Top) } : FSlateRect).scale v
            = ({ Left := R0.Left, Top := T, Right := R0.Right,
                 Bottom := T + (R0.Bottom - R0.Top) } : FSlateRect).scale := by
          unfold CenterCollide32
          rw [if_neg hmem]
          dsimp only
          rw [hext, DoRectanglesIntersect_scale, if_neg hint]
        rw [e]
        exact ih hvs T t1 t2

/-- The shift `DeltaY` of the collision loop of `CenterBranches` in binary32
is a whole number when the group and the nodes to check are in range. -/
theorem CenterDeltaY32_whole (G : FBAGraph) (S1 : FEdGraphParameterFormatter) (Padding : FVector2D)
    (p : Int) (AllNodes V : List Nat) (B1 BV : Int)
    (hp : Padding.Y = p * F32One) (p1 : -BV ≤ p) (p2 : p ≤ BV)
    (hBV : 0 ≤ BV) (hB : 3 * BV ≤ B1) (hB1 : 4 * B1 ≤ 16777216) (hne : AllNodes ≠ [])
    (hA : ∀ n ∈ AllNodes, NodeWithin G S1 B1 n)
    (hV : ∀ v ∈ V, v ∉ AllNodes → NodeWithin G S1 BV v) :
    ∃ Δ : Int, CenterDeltaY32 G S1 Padding AllNodes V = Δ * F32One
      ∧ -(2 * B1) ≤ Δ ∧ Δ ≤ 2 * B1 := by
  obtain ⟨e0, w0⟩ := GetCachedNodeArrayBounds32_scale G S1 B1 (by omega) AllNodes hne hA
  have w1 := w0
  obtain ⟨r1, r2, r3, r4, r5, r6, r7, r8⟩ := w1
  have er : (GetCachedNodeArrayBounds G S1 AllNodes).scale
      = ({ Left := (GetCachedNodeArrayBounds G S1 AllNodes).Left,
           Top := (GetCachedNodeArrayBounds G S1 AllNodes).Top,
           Right := (GetCachedNodeArrayBounds G S1 AllNodes).Right,
           Bottom := (GetCachedNodeArrayBounds G S1 AllNodes).Top
             + ((GetCachedNodeArrayBounds G S1 AllNodes).Bottom
               - (GetCachedNodeArrayBounds G S1 AllNodes).Top) } : FSlateRect).scale := by
    unfold FSlateRect.scale
    dsimp only
    congr 1
    ring
  obtain ⟨T2, t1, t2, hf⟩ := CenterCollide32_whole G S1 Padding p AllNodes
    (GetCachedNodeArrayBounds G S1 AllNodes) B1 BV hp p1 p2 hBV hB hB1 w0 V hV
    (GetCachedNodeArrayBounds G S1 AllNodes).Top r3 r4
  rw [← er] at hf
  refine ⟨T2 - (GetCachedNodeArrayBounds G S1 AllNodes).Top, ?_, by omega, by omega⟩
  unfold CenterDeltaY32
  dsimp only
  rw [e0, hf]
  simp only [FSlateRect.scale]
  exact fsub_whole _ _ (by omega) (by omega)

/-- The last loop of `CenterBranches` in binary32 moves every node of the
group by the same whole number when the group and the nodes to check are in
range. -/
theorem CenterBranches32_shift (G : FBAGraph) (S : FEdGraphParameterFormatter) (Padding : FVector2D)
    (p : Int) (c : Nat) (bs : List ChildBranch) (V : List Nat) (B1 BV : Int)
    (hp : Padding.Y = p * F32One) (p1 : -BV ≤ p) (p2 : p ≤ BV)
    (hBV : 0 ≤ BV) (hB : 3 * BV ≤ B1) (hB1 : 4 * B1 ≤ 16777216)
    (hall : (bs.flatMap (fun b => b.BranchNodes) ++ [c]).Nodup)
    (hA : ∀ n ∈ bs.flatMap (fun b => b.BranchNodes) ++ [c],
      NodeWithin G (CenterOffsetBranches32 G S bs) B1 n)
    (hV : ∀ v ∈ V, v ∉ bs.flatMap (fun b => b.BranchNodes) ++ [c] →
      NodeWithin G (CenterOffsetBranches32 G S bs) BV v) :
    ∃ Δ : Int, ∀ n ∈ bs.flatMap (fun b => b.BranchNodes) ++ [c],
      (CenterBranches32 G S Padding c bs V).NodePosY n
        = (CenterOffsetBranches32 G S bs).NodePosY n + Δ := by
  obtain ⟨Δ, hΔ, d1, d2⟩ := CenterDeltaY32_whole G (CenterOffsetBranches32 G S bs) Padding p
    (bs.flatMap (fun b => b.BranchNodes) ++ [c]) V B1 BV hp p1 p2 hBV hB hB1 (by simp) hA hV
  refine ⟨Δ, fun n hn => ?_⟩
  obtain ⟨_, _, y1, y2, _, _, _, _⟩ := hA n hn
  unfold CenterBranches32
  dsimp only
  rw [hΔ]
  split_ifs with hd
  · rw [foldl_withPosY_mem (fun y => toInt32 (fadd (ofInt32 y) (Δ * F32One))) _ hall _ n hn,
      ofInt32_exact _ (by omega) (by omega), fadd_whole _ _ (by omega) (by omega), toInt32_whole]
  · have h0 : Δ * F32One = 0 := by
      by_contra hne
      exact hd (bne_iff_ne.2 hne)
    have hU := F32One_pos
    have : Δ = 0 := by
      rcases mul_eq_zero.1 h0 with h | h
      · exact h
      · omega
    rw [this, add_zero]

theorem NodeWithin_mono (G : FBAGraph) (S : FEdGraphParameterFormatter) (A B : Int) (n : Nat)
    (hAB : A ≤ B) (h : NodeWithin G S A n) : NodeWithin G S B n := by
  obtain ⟨x1, x2, y1, y2, w1, w2, h1, h2⟩ := h
  exact ⟨by omega, by omega, by omega, by omega, by omega, by omega, by omega, by omega⟩

set_option maxRecDepth 100000 in
/-- The run on `triGraph` from `triPosX`, `triPosY` in the exact arithmetic of
the two traversals: the call of `CenterBranches` from the positions
`triPreX`, `triPreY` gives the layout of the whole run. -/
theorem CenterBranches_triGraph :
    ∀ n < 4,
      (CenterBranches triGraph (FEdGraphParameterFormatter.new (some 0) none [] triPreX triPreY) 0
          triBranches [0, 1, 2, 3]).NodePosY n
        = (FormatNodeLayout triGraph
            (FEdGraphParameterFormatter.new (some 0) none [] triPosX triPosY)).NodePosY n := by
  decide

set_option maxRecDepth 100000 in
/-- The heights of the pins of `triGraph` before and after `CenterBranches` in
binary32. -/
theorem CenterBranches32_triGraph :
    triBranches.map (fun b => GetPinY triGraph
          (FEdGraphParameterFormatter.new (some 0) none [] triPreX triPreY) b.ParentPin)
        = [220, 240, 243]
      ∧ triBranches.map (fun b => GetPinY triGraph
          (FEdGraphParameterFormatter.new (some 0) none [] triPreX triPreY) b.Pin)
        = [220, 306, 393]
      ∧ triBranches.map (fun b => GetPinY triGraph
          (CenterBranches32 triGraph (FEdGraphParameterFormatter.new (some 0) none [] triPreX triPreY)
            exPadding 0 triBranches [0, 1, 2, 3]) b.ParentPin) = [220, 240, 243]
      ∧ triBranches.map (fun b => GetPinY triGraph
          (CenterBranches32 triGraph (FEdGraphParameterFormatter.new (some 0) none [] triPreX triPreY)
            exPadding 0 triBranches [0, 1, 2, 3]) b.Pin) = [147, 233, 321] := by
  decide

/-- C16 as stated fails. In the run on `triGraph` from `triPosX`, `triPosY`,
`FormatY` calls `CenterBranches` for N with the three branches at the
positions `triPreX`, `triPreY` (the exact arithmetic of the two traversals
gives the layout of the whole run from there).  The parent pins are at 220,
240 and 243 (sum 703), the child pins at 220, 306 and 393 (sum 919): the
offset between the two averages is exactly -72.  In binary32 the two centres
are rounded, the offset is a little below -72, and the truncating `+=` moves
the first two children by -73: the child pins end at 147, 233 and 321 (sum
701, average 233.67) against the average 234.33 of the parent pins. -/
theorem CenterBranches32_off_center :
    (∀ n < 4,
        (CenterBranches triGraph (FEdGraphParameterFormatter.new (some 0) none [] triPreX triPreY) 0
            triBranches [0, 1, 2, 3]).NodePosY n
          = (FormatNodeLayout triGraph
              (FEdGraphParameterFormatter.new (some 0) none [] triPosX triPosY)).NodePosY n)
      ∧ triBranches.map (fun b => GetPinY triGraph
          (FEdGraphParameterFormatter.new (some 0) none [] triPreX triPreY) b.ParentPin)
        = [220, 240, 243]
      ∧ triBranches.map (fun b => GetPinY triGraph
          (FEdGraphParameterFormatter.new (some 0) none [] triPreX triPreY) b.Pin)
        = [220, 306, 393]
      ∧ triBranches.map (fun b => GetPinY triGraph
          (CenterBranches32 triGraph (FEdGraphParameterFormatter.new (some 0) none [] triPreX triPreY)
            exPadding 0 triBranches [0, 1, 2, 3]) b.ParentPin) = [220, 240, 243]
      ∧ triBranches.map (fun b => GetPinY triGraph
          (CenterBranches32 triGraph (FEdGraphParameterFormatter.new (some 0) none [] triPreX triPreY)
            exPadding 0 triBranches [0, 1, 2, 3]) b.Pin) = [147, 233, 321] :=
  ⟨CenterBranches_triGraph, CenterBranches32_triGraph⟩

/-- C16 amended. `CenterBranches` in the binary32 arithmetic of the source,
for a non-empty list of branches as `FormatY` builds it (no node in two
places of the branch lists, every child pin owned by a node of its branch,
every parent pin owned by the parent, the parent in no branch), with a
whole-number padding and positions, sizes and pin heights in the range of
`CenterWithin`.  After the call the sum of the heights of the child pins
differs from the sum of the heights of the parent pins by less than twice the
number of branches, so the two averages differ by less than 2; when the two
averages before the call are whole numbers, they are equal after the
call. -/
theorem CenterBranches32_centers (G : FBAGraph) (S : FEdGraphParameterFormatter)
    (Padding : FVector2D) (p : Int) (c : Nat) (bs : List ChildBranch) (V : List Nat) (M : Int)
    (hne : bs ≠ [])
    (hnd : (bs.flatMap (fun b => b.BranchNodes)).Nodup)
    (hc : c ∉ bs.flatMap (fun b => b.BranchNodes))
    (hown : ∀ b ∈ bs, G.OwningNode b.Pin ∈ b.BranchNodes)
    (hpar : ∀ b ∈ bs, G.OwningNode b.ParentPin = c)
    (hp : Padding.Y = p * F32One) (hr : CenterWithin G S p c bs V M) :
    |(bs.map (fun b => GetPinY G (CenterBranches32 G S Padding c bs V) b.Pin)).sum
        - (bs.map (fun b => GetPinY G (CenterBranches32 G S Padding c bs V) b.ParentPin)).sum|
        < 2 * (bs.length : Int)
      ∧ ((bs.length : Int) ∣ (bs.map (fun b => GetPinY G S b.ParentPin)).sum →
          (bs.length : Int) ∣ (bs.map (fun b => GetPinY G S b.Pin)).sum →
          (bs.map (fun b => GetPinY G (CenterBranches32 G S Padding c bs V) b.Pin)).sum
            = (bs.map (fun b => GetPinY G (CenterBranches32 G S Padding c bs V) b.ParentPin)).sum) := by
  obtain ⟨p1, p2, hN, hoff, hpin, hM1, hM2⟩ := hr
  have hlen : 0 < bs.length := List.length_pos.mpr hne
  have hflat : ∀ b ∈ bs, G.OwningNode b.Pin ∈ bs.flatMap (fun b => b.BranchNodes) :=
    fun b hb => List.mem_flatMap.mpr ⟨b, hb, hown b hb⟩
  have hM0 : 0 ≤ M := by
    cases bs with
    | nil => exact absurd rfl hne
    | cons x xs =>
      have := hpin x (List.mem_cons_self _ _)
      omega
  have hC : ∀ b ∈ bs, GetPinY32 G S b.Pin = GetPinY G S b.Pin * F32One ∧ -M ≤ GetPinY G S b.Pin
      ∧ GetPinY G S b.Pin ≤ M := by
    intro b hb
    obtain ⟨_, _, y1, y2, _, _, _, _⟩ := hN _ (Or.inl (hflat b hb))
    obtain ⟨o1, o2, _, _⟩ := hoff b hb
    obtain ⟨m1, m2, _, _⟩ := hpin b hb
    exact ⟨GetPinY32_exact G S b.Pin (by omega) (by omega) (by omega) (by omega) (by omega)
      (by omega), m1, m2⟩
  have hP : ∀ b ∈ bs, GetPinY32 G S b.ParentPin = GetPinY G S b.ParentPin * F32One
      ∧ -M ≤ GetPinY G S b.ParentPin ∧ GetPinY G S b.ParentPin ≤ M := by
    intro b hb
    have hcn := hN c (Or.inr (Or.inl rfl))
    rw [← hpar b hb] at hcn
    obtain ⟨_, _, y1, y2, _, _, _, _⟩ := hcn
    obtain ⟨_, _, o1, o2⟩ := hoff b hb
    obtain ⟨_, _, m1, m2⟩ := hpin b hb
    exact ⟨GetPinY32_exact G S b.ParentPin (by omega) (by omega) (by omega) (by omega) (by omega)
      (by omega), m1, m2⟩
  have hbet := CenterOffsetBranches32_between G S bs M hne hnd hC hP hM2 (by omega) (by
    intro x hx
    obtain ⟨_, _, y1, y2, _, _, _, _⟩ := hN x (Or.inl hx)
    omega)
  have hmove := hbet.1
  have hother := hbet.2.1
  have hX := hbet.2.2
  clear hbet
  obtain ⟨sC1, sC2⟩ := sum_bound (fun b : ChildBranch => GetPinY G S b.Pin) M bs
    (fun b hb => (hC b hb).2)
  obtain ⟨sP1, sP2⟩ := sum_bound (fun b : ChildBranch => GetPinY G S b.ParentPin) M bs
    (fun b hb => (hP b hb).2)
  have hcob := center_offset_between _ _ M bs.length hlen sP1 sP2 sC1 sC2 (by omega)
  have l1 := hcob.2.2.1
  have l2 := hcob.2.2.2.1
  have u1 := hcob.2.2.2.2.1
  have u2 := hcob.2.2.2.2.2
  clear hcob
  have hgt := centerLo_gt (bs.map (fun b => GetPinY G S b.ParentPin)).sum
    (bs.map (fun b => GetPinY G S b.Pin)).sum bs.length hlen
  have hlt := centerHi_lt (bs.map (fun b => GetPinY G S b.ParentPin)).sum
    (bs.map (fun b => GetPinY G S b.Pin)).sum bs.length hlen
  generalize hlo : centerLo (bs.map (fun b => GetPinY G S b.ParentPin)).sum
    (bs.map (fun b => GetPinY G S b.Pin)).sum bs.length = lo at hmove l1 l2 hgt
  generalize hhi : centerHi (bs.map (fun b => GetPinY G S b.ParentPin)).sum
    (bs.map (fun b => GetPinY G S b.Pin)).sum bs.length = hi at hmove u1 u2 hlt
  have hall : (bs.flatMap (fun b => b.BranchNodes) ++ [c]).Nodup := by
    rw [List.nodup_append]
    refine ⟨hnd, List.nodup_singleton c, ?_⟩
    intro a ha hb
    rw [List.mem_singleton] at hb
    subst hb
    exact hc ha
  have hA : ∀ n ∈ bs.flatMap (fun b => b.BranchNodes) ++ [c],
      NodeWithin G (CenterOffsetBranches32 G S bs) 2621440 n := by
    intro n hn
    rcases List.mem_append.1 hn with h | h
    · obtain ⟨x1, x2, y1, y2, w1, w2, h1, h2⟩ := hN n (Or.inl h)
      obtain ⟨m1, m2⟩ := hmove n h
      unfold NodeWithin
      rw [hX]
      exact ⟨by omega, by omega, by omega, by omega, by omega, by omega, by omega, by omega⟩
    · rw [List.mem_singleton] at h
      subst h
      obtain ⟨x1, x2, y1, y2, w1, w2, h1, h2⟩ := hN n (Or.inr (Or.inl rfl))
      unfold NodeWithin
      rw [hX, hother n hc]
      exact ⟨by omega, by omega, by omega, by omega, by omega, by omega, by omega, by omega⟩
  have hVr : ∀ v ∈ V, v ∉ bs.flatMap (fun b => b.BranchNodes) ++ [c] →
      NodeWithin G (CenterOffsetBranches32 G S bs) 524288 v := by
    intro v hv hnot
    have hnf : v ∉ bs.flatMap (fun b => b.BranchNodes) :=
      fun h => hnot (List.mem_append_left _ h)
    have := hN v (Or.inr (Or.inr hv))
    unfold NodeWithin at this ⊢
    rw [hX, hother v hnf]
    exact this
  obtain ⟨Δ, hΔ⟩ := CenterBranches32_shift G S Padding p c bs V 2621440 524288 hp p1 p2
    (by omega) (by omega) (by omega) hall hA hVr
  have hchild : ∀ b ∈ bs, GetPinY G S b.Pin + (lo + Δ)
        ≤ GetPinY G (CenterBranches32 G S Padding c bs V) b.Pin
      ∧ GetPinY G (CenterBranches32 G S Padding c bs V) b.Pin
        ≤ GetPinY G S b.Pin + (hi + Δ) := by
    intro b hb
    have h1 := hΔ _ (List.mem_append_left _ (hflat b hb))
    obtain ⟨m1, m2⟩ := hmove _ (hflat b hb)
    unfold GetPinY
    rw [h1]
    omega
  have hparent : ∀ b ∈ bs, GetPinY G S b.ParentPin + Δ
        ≤ GetPinY G (CenterBranches32 G S Padding c bs V) b.ParentPin
      ∧ GetPinY G (CenterBranches32 G S Padding c bs V) b.ParentPin
        ≤ GetPinY G S b.ParentPin + Δ := by
    intro b hb
    have h1 := hΔ c (List.mem_append_right _ (List.mem_singleton_self c))
    rw [hother c hc] at h1
    unfold GetPinY
    rw [hpar b hb, h1]
    omega
  obtain ⟨c1, c2⟩ := sum_between (fun b : ChildBranch => GetPinY G S b.Pin)
    (fun b : ChildBranch => GetPinY G (CenterBranches32 G S Padding c bs V) b.Pin) (lo + Δ) (hi + Δ)
    bs hchild
  obtain ⟨q1, q2⟩ := sum_between (fun b : ChildBranch => GetPinY G S b.ParentPin)
    (fun b : ChildBranch => GetPinY G (CenterBranches32 G S Padding c bs V) b.ParentPin) Δ Δ
    bs hparent
  have e1 : (bs.length : Int) * (lo + Δ) = (bs.length : Int) * lo + (bs.length : Int) * Δ := by ring
  have e2 : (bs.length : Int) * (hi + Δ) = (bs.length : Int) * hi + (bs.length : Int) * Δ := by ring
  rw [e1] at c1
  rw [e2] at c2
  constructor
  · rw [abs_lt]
    constructor <;> omega
  · intro d1 d2
    obtain ⟨f1, f2⟩ := center_dvd _ _ bs.length d1 d2
    rw [hlo] at f1
    rw [hhi] at f2
    omega

theorem CenterBranches32_centers_witness :
    |(triBranches.map (fun b => GetPinY triGraph
          (CenterBranches32 triGraph (FEdGraphParameterFormatter.new (some 0) none [] triPreX triPreY)
            exPadding 0 triBranches [0, 1, 2, 3]) b.Pin)).sum
        - (triBranches.map (fun b => GetPinY triGraph
          (CenterBranches32 triGraph (FEdGraphParameterFormatter.new (some 0) none [] triPreX triPreY)
            exPadding 0 triBranches [0, 1, 2, 3]) b.ParentPin)).sum|
      < 2 * ((triBranches.length : Nat) : Int) :=
  (CenterBranches32_centers triGraph (FEdGraphParameterFormatter.new (some 0) none [] triPreX triPreY)
    exPadding 25 0 triBranches [0, 1, 2, 3] 1000 (List.cons_ne_nil _ _) (by decide) (by decide) (by decide)
    (by decide) rfl
    (by
      refine ⟨by decide, by decide, ?_, by decide, by decide, by decide, by decide⟩
      intro n hn
      have hn4 : n = 0 ∨ n = 1 ∨ n = 2 ∨ n = 3 := by
        rcases hn with h | h | h
        · simp [triBranches, mkBranch] at h
          omega
        · omega
        · simp at h
          omega
      unfold NodeWithin
      rcases hn4 with h | h | h | h <;> subst h <;> decide)).1

/-! ## The slow path in binary32 on a simple chain -/

theorem GetLinkedPins_dir (G : FBAGraph) (n : Nat) (d : EEdGraphPinDirection) :
    GetLinkedPins G n d
      = (GetLinkedPins G n EGPD_MAX).filter (fun p => d == EGPD_MAX || (G.pin p).Direction == d) := by
  unfold GetLinkedPins GetPinsByDirection
  simp only [List.filter_filter]
  apply List.filter_congr
  intro p _
  simp [Bool.and_comm]

theorem setAdd_idem (l : List Nat) (x : Nat) : setAdd (setAdd l x) x = setAdd l x := by
  unfold setAdd
  split_ifs with h1 h2
  · rfl
  · rfl
  · exact absurd (List.mem_append_right l (List.mem_singleton.2 rfl)) h2

theorem setAdd_of_mem (l : List Nat) (x : Nat) (h : x ∈ l) : setAdd l x = l := by
  unfold setAdd
  rw [if_pos h]

theorem FormatXLoop32_done (G : FBAGraph) (P : FVector2D) (d : EEdGraphPinDirection) (fuel : Nat)
    (st : FormatXState) (hi : st.InputQueue = []) (ho : st.OutputQueue = []) :
    FormatXLoop32 G P d fuel st = some st := by
  cases fuel <;> simp [FormatXLoop32, hi, ho]

theorem FormatXLoop32_step (G : FBAGraph) (P : FVector2D) (d : EEdGraphPinDirection) (fuel : Nat)
    (st : FormatXState) (h : ¬ (st.InputQueue = [] ∧ st.OutputQueue = [])) :
    FormatXLoop32 G P d (fuel + 1) st = FormatXLoop32 G P d fuel (FormatXStep32 G P d st) := by
  have : (st.InputQueue.isEmpty && st.OutputQueue.isEmpty) = false := by
    rcases hq : st.InputQueue with _ | ⟨x, l⟩
    · rcases ho : st.OutputQueue with _ | ⟨y, m⟩
      · exact absurd ⟨hq, ho⟩ h
      · rfl
    · rfl
  simp only [FormatXLoop32, this, Bool.false_eq_true, if_false]

/-- The links of the root of a simple chain that `FormatX` follows: none in
the output pass of an impure root, else the one link. -/
theorem FormatXLinks_line_root (G : FBAGraph) (r a pr pa : Nat) (hc : SimpleChain G r a pr pa)
    (S : FEdGraphParameterFormatter) (hr : S.RootNode = some r) (d : EEdGraphPinDirection) :
    FormatXLinks G S d r
      = if IsNodeImpure G r = true ∧ d = EGPD_Output then [] else [(pr, pa)] := by
  obtain ⟨_, _, hRl, _, hprL, _, _, _, hprD, _, hprK, _⟩ := hc
  unfold FormatXLinks
  simp only [hr, decide_True, Bool.true_and, beq_self_eq_true]
  rw [GetLinkedPins_dir, hRl]
  cases hI : IsNodeImpure G r <;> cases d <;>
    simp [hprD, hprK, hprL]

/-- The link of the node `a` of a simple chain that `FormatX` follows. -/
theorem FormatXLinks_line_child (G : FBAGraph) (r a pr pa : Nat) (hc : SimpleChain G r a pr pa)
    (S : FEdGraphParameterFormatter) (hr : S.RootNode = some r) (d : EEdGraphPinDirection) :
    FormatXLinks G S d a = [(pa, pr)] := by
  obtain ⟨_, hne, _, hAl, _, hpaL, _, _, _, _, _, hpaK, _⟩ := hc
  unfold FormatXLinks
  have h1 : (S.RootNode = some a) = False := by
    rw [hr]
    simp [Ne.symm hne]
  simp only [h1, decide_False, Bool.false_and, Bool.false_eq_true, if_false, hAl]
  simp [hpaK, hpaL]

/-- A link back to a record that already has the current record below it
is not queued. -/
theorem FormatXEnqueue_cycle (G : FBAGraph) (cur : Nat) (st : FormatXState) (p q il ic : Nat)
    (h1 : mapFind st.F.NodeInfoMap (G.OwningNode q) = some il)
    (h2 : mapFind st.F.NodeInfoMap cur = some ic)
    (h3 : DetectCycle st.F.Infos ic il = true) :
    ∃ vl, FormatXEnqueue G cur st p q = { st with VisitedLinks := vl } := by
  unfold FormatXEnqueue
  simp only [h1, h2, h3, if_true]
  split_ifs
  · exact ⟨st.VisitedLinks, rfl⟩
  · exact ⟨st.VisitedLinks, rfl⟩
  · exact ⟨st.VisitedLinks, rfl⟩
  · exact ⟨_, rfl⟩

/-- The link from the root to `a` is queued in the input queue. -/
theorem FormatXEnqueue_line (G : FBAGraph) (r a pr pa : Nat) (hc : SimpleChain G r a pr pa)
    (st : FormatXState) (hr : st.F.RootNode = some r) (hig : st.F.IgnoredNodes = [])
    (hv : st.VisitedLinks = [])
    (hcyc : ∀ il ic, mapFind st.F.NodeInfoMap a = some il → mapFind st.F.NodeInfoMap r = some ic →
      DetectCycle st.F.Infos ic il = false) :
    FormatXEnqueue G r st pr pa
      = { st with VisitedLinks := [mkLink G pr pa], InputQueue := st.InputQueue ++ [mkLink G pr pa] } := by
  obtain ⟨_, hne, _, _, _, _, _, hpaO, hprD, _, _, _, hpure, hknot, hfil⟩ := hc
  have himp : IsNodeImpure G a = false := by
    unfold IsNodePure at hpure
    simpa using hpure
  unfold FormatXEnqueue
  have hcy : (match mapFind st.F.NodeInfoMap a, mapFind st.F.NodeInfoMap r with
      | some LinkedInfo, some CurrentInfo => DetectCycle st.F.Infos CurrentInfo LinkedInfo
      | _, _ => false) = false := by
    split
    · exact hcyc _ _ (by assumption) (by assumption)
    · rfl
  have hroot : (st.F.RootNode = some a) = False := by
    rw [hr]
    simp [Ne.symm hne]
  simp only [hpaO, hfil, himp, hknot, hv, linkVisited, List.any_nil, hcy, hroot, hig, hprD,
    Bool.not_true, Bool.false_eq_true, if_false, Bool.or_self, decide_False, Bool.false_and,
    List.not_mem_nil, if_true, List.nil_append]
/-- The visit of the root without a record, in the output pass. -/
theorem FormatXVisit32_root (G : FBAGraph) (P : FVector2D) (r : Nat)
    (b : Bool) (kk : Option Nat) (afn fon : List Nat) (srm : List (FPinLink × Bool))
    (X Y : Nat → Int) (vl : List FPinLink) (iq oq : List FPinLink) :
    FormatXVisit32 G P EGPD_Output
        { F := lineIn r b kk afn fon srm [] [] X Y, VisitedLinks := vl, TempOutput := [],
          InputQueue := iq, OutputQueue := oq } { From := none, To := none, Node := r }
      = { F := lineIn r b kk (setAdd afn r) fon srm [(r, 0)] [lineRoot r []] X Y, VisitedLinks := vl,
          TempOutput := [r], InputQueue := iq, OutputQueue := oq } := by
  simp [FormatXVisit32, lineIn, FPinLink.GetNode, mapFind, mapContains, FormatXCreate32, withFormatted,
    FormatXAddInfo, FormatXNewInfo, SetParent, getInfo, modifyInfo, mapAdd, mapRemove, lineRoot]

/-- The visit of the root that has a record changes nothing. -/
theorem FormatXVisit32_root_again (G : FBAGraph) (P : FVector2D) (r i : Nat) (d : EEdGraphPinDirection)
    (st : FormatXState) (hr : st.F.RootNode = some r) (hm : mapFind st.F.NodeInfoMap r = some i) :
    FormatXVisit32 G P d st { From := none, To := none, Node := r } = st := by
  unfold FormatXVisit32
  simp only [FPinLink.GetNode, hr, bne_self_eq_false, Bool.and_false, Bool.false_and,
    Bool.false_eq_true, if_false, hm, FormatXReparent32, FormatXTakeNewParent32, Option.isSome_none]

theorem GetChildX32_NodePosX (G : FBAGraph) (S T : FEdGraphParameterFormatter) (P : FVector2D)
    (l : FPinLink) (d : EEdGraphPinDirection) (h : S.NodePosX = T.NodePosX) :
    GetChildX32 G S P l d = GetChildX32 G T P l d := by
  unfold GetChildX32 GetCachedNodeBounds32
  simp only [h]

/-- The visit of the node `a` without a record in the pass of direction
`d`, the root having the record 0 and `n` records being there. -/
theorem FormatXVisit32_child (G : FBAGraph) (P : FVector2D) (r a pr pa : Nat)
    (hc : SimpleChain G r a pr pa) (d : EEdGraphPinDirection) (hd : d ≠ EGPD_MAX)
    (b : Bool) (kk : Option Nat) (afn fon : List Nat) (srm : List (FPinLink × Bool))
    (X Y : Nat → Int) (vl : List FPinLink) (iq oq : List FPinLink) (tmp : List Nat) (hto : a ∉ tmp) :
    FormatXVisit32 G P d
        { F := lineIn r b kk afn fon srm [(r, 0)] [lineRoot r []] X Y, VisitedLinks := vl,
          TempOutput := tmp, InputQueue := iq, OutputQueue := oq } (mkLink G pr pa)
      = { F := lineIn r b kk (setAdd afn a) (if d = EGPD_Output then setAdd fon a else fon) srm
            [(r, 0), (a, 1)] [lineRoot r [1], lineChild a pr pa d]
            (setPos X a (GetChildX32 G (lineIn r b kk afn fon srm [(r, 0)] [lineRoot r []] X Y) P
              (mkLink G pr pa) EGPD_Input)) Y,
          VisitedLinks := vl,
          TempOutput := if d = EGPD_Output then tmp ++ [a] else tmp, InputQueue := iq, OutputQueue := oq } := by
  obtain ⟨_, hne, _, _, _, _, hprO, hpaO, hprD, hpaD, _⟩ := hc
  have hne2 : r ≠ a := Ne.symm hne
  cases d
  · simp [FormatXVisit32, lineIn, mkLink, FPinLink.GetNode, mapFind, mapContains, FormatXCreate32,
      withPlaced, FormatXMarkSide, FPinLink.GetDirection, FormatXNewNodePos32,
      FormatXAddInfo, FormatXNewInfo, SetParent, getInfo, modifyInfo, mapAdd, mapRemove, lineRoot,
      lineChild, hprO, hpaO, hprD, hpaD, hne, hne2, hto]
  · simp [FormatXVisit32, lineIn, mkLink, FPinLink.GetNode, mapFind, mapContains, FormatXCreate32,
      withPlaced, FormatXMarkSide, FPinLink.GetDirection, FormatXNewNodePos32,
      FormatXAddInfo, FormatXNewInfo, SetParent, getInfo, modifyInfo, mapAdd, mapRemove, lineRoot,
      lineChild, hprO, hpaO, hprD, hpaD, hne, hne2, hto]
    exact congrArg (setPos X a) (GetChildX32_NodePosX _ _ _ _ _ _ rfl)
  · exact absurd rfl hd
/-- The position of `lineX` leaves a gap of at least 1 and of at most the
bound of the padding. -/
theorem lineX_bounds (G : FBAGraph) (P : FVector2D) (X : Nat → Int) (r a : Nat) (B : Int)
    (hB1 : 1 ≤ B) (hB2 : B ≤ 4194304) (hP : P.X ≤ B * F32One)
    (h1 : -8388608 ≤ X r - (G.node a).SizeX) (h2 : X r - (G.node a).SizeX ≤ 8388608) :
    X r - (G.node a).SizeX - B ≤ lineX G P X r a ∧ lineX G P X r a ≤ X r - (G.node a).SizeX - 1 := by
  have hp := F32One_pos
  have hM1 : F32One ≤ max F32One P.X := le_max_left _ _
  have hM2 : max F32One P.X ≤ B * F32One := by
    apply max_le _ hP
    have := Int.mul_le_mul_of_nonneg_right hB1 (le_of_lt hp)
    omega
  unfold lineX
  constructor
  · apply le_RoundToInt
    apply le_roundF32
    · exact roundF32_whole _ (by omega) (by omega)
    · have : (X r - (G.node a).SizeX - B) * F32One
          = (X r - (G.node a).SizeX) * F32One - B * F32One := by ring
      omega
  · apply RoundToInt_le
    apply roundF32_le
    · exact roundF32_whole _ (by omega) (by omega)
    · have : (X r - (G.node a).SizeX - 1) * F32One
          = (X r - (G.node a).SizeX) * F32One - F32One := by ring
      omega

/-- For a whole-number padding `lineX` is `X r - width a - max 1 px`. -/
theorem lineX_whole (G : FBAGraph) (P : FVector2D) (X : Nat → Int) (r a : Nat) (px : Int)
    (hP : P.X = px * F32One) (p2 : px ≤ 4194304)
    (h1 : -8388608 ≤ X r - (G.node a).SizeX) (h2 : X r - (G.node a).SizeX ≤ 8388608) :
    lineX G P X r a = X r - (G.node a).SizeX - max 1 px := by
  have hp := F32One_pos
  have hmax : max F32One P.X = max 1 px * F32One := by
    rw [hP]
    rcases le_total 1 px with h | h
    · rw [max_eq_right h, max_eq_right]
      have := Int.mul_le_mul_of_nonneg_right h (le_of_lt hp)
      omega
    · rw [max_eq_left h, max_eq_left, one_mul]
      have := Int.mul_le_mul_of_nonneg_right h (le_of_lt hp)
      omega
  have hm1 : (1 : Int) ≤ max 1 px := le_max_left _ _
  have hm2 : max 1 px ≤ 4194304 := max_le (by omega) p2
  unfold lineX
  rw [hmax, fsub_whole _ _ (by omega) (by omega), RoundToInt_whole]

theorem lineX_setPos (G : FBAGraph) (P : FVector2D) (X : Nat → Int) (r a : Nat) (hne : r ≠ a)
    (v : Int) : lineX G P (setPos X a v) r a = lineX G P X r a := by
  unfold lineX
  rw [setPos_ne _ _ _ _ hne]

/-- `GetChildX` for the link of a simple chain, with whole-number bounds in
the range where binary32 is exact. -/
theorem GetChildX32_line (G : FBAGraph) (P : FVector2D) (r a pr pa : Nat)
    (hc : SimpleChain G r a pr pa) (S : FEdGraphParameterFormatter)
    (hw : LineWithinX G P S.NodePosX r a 4194304) :
    GetChildX32 G S P (mkLink G pr pa) EGPD_Input = lineX G P S.NodePosX r a := by
  obtain ⟨_, _, _, _, _, _, hprO, hpaO, _⟩ := hc
  obtain ⟨p1, p2, x1, x2, y1, y2, w1, w2, v1, v2⟩ := hw
  obtain ⟨e1, _⟩ := GetChildX32_pos G S r a ⟨x1, x2⟩ ⟨w1, w2⟩ ⟨y1, y2⟩ ⟨v1, v2⟩
  unfold GetChildX32 lineX
  simp only [mkLink, Option.getD_some, hprO, hpaO, if_true]
  rw [e1]

/-- The visit of the node `a` in the input pass when it has the record of
the output pass: the record is left behind and a new one is made. -/
theorem FormatXVisit32_child_again (G : FBAGraph) (P : FVector2D) (r a pr pa : Nat)
    (hc : SimpleChain G r a pr pa)
    (b : Bool) (kk : Option Nat) (afn fon : List Nat) (srm : List (FPinLink × Bool))
    (X Y : Nat → Int) (vl : List FPinLink) (iq oq : List FPinLink) :
    FormatXVisit32 G P EGPD_Input
        { F := lineIn r b kk afn fon srm [(r, 0), (a, 1)] [lineRoot r [1], lineChild a pr pa EGPD_Output]
            X Y,
          VisitedLinks := vl, TempOutput := [r, a], InputQueue := iq, OutputQueue := oq } (mkLink G pr pa)
      = { F := lineIn r b kk (setAdd afn a) fon srm [(r, 0), (a, 2)]
            [lineRoot r [1, 2], lineChild a pr pa EGPD_Output, lineChild a pr pa EGPD_Input]
            (setPos X a (GetChildX32 G (lineIn r b kk afn fon srm [(r, 0)] [lineRoot r []] X Y) P
              (mkLink G pr pa) EGPD_Input)) Y,
          VisitedLinks := vl, TempOutput := [r], InputQueue := iq, OutputQueue := oq } := by
  obtain ⟨_, hne, _, _, _, _, hprO, hpaO, hprD, hpaD, _⟩ := hc
  have hne2 : r ≠ a := Ne.symm hne
  simp [FormatXVisit32, lineIn, mkLink, FPinLink.GetNode, mapFind, mapContains, FormatXCreate32,
    withPlaced, FormatXMarkSide, FPinLink.GetDirection, FormatXNewNodePos32, withMap,
    FormatXAddInfo, FormatXNewInfo, SetParent, getInfo, modifyInfo, mapAdd, mapRemove, lineRoot,
    lineChild, hprO, hpaO, hprD, hpaD, hne, hne2]
  exact congrArg (setPos X a) (GetChildX32_NodePosX _ _ _ _ _ _ rfl)
/-- The first step of the output pass on a simple chain: the root gets its
record, and its link is queued unless the root is impure. -/
theorem FormatXStep32_line_root (G : FBAGraph) (P : FVector2D) (r a pr pa : Nat)
    (hc : SimpleChain G r a pr pa)
    (b : Bool) (kk : Option Nat) (afn fon : List Nat) (srm : List (FPinLink × Bool))
    (X Y : Nat → Int) :
    FormatXStep32 G P EGPD_Output
        { F := lineIn r b kk afn fon srm [] [] X Y, VisitedLinks := [], TempOutput := [],
          InputQueue := [], OutputQueue := [{ From := none, To := none, Node := r }] }
      = { F := lineIn r b kk (setAdd afn r) fon srm [(r, 0)] [lineRoot r []] X Y,
          VisitedLinks := if IsNodeImpure G r = true then [] else [mkLink G pr pa],
          TempOutput := [r],
          InputQueue := if IsNodeImpure G r = true then [] else [mkLink G pr pa], OutputQueue := [] } := by
  unfold FormatXStep32
  simp only [if_neg (show ¬ (EGPD_Output = EGPD_Input) by decide)]
  rw [FormatXVisit32_root]
  simp only [FPinLink.GetNode]
  rw [FormatXLinks_line_root G r a pr pa hc _ rfl]
  cases hI : IsNodeImpure G r
  · simp only [Bool.false_eq_true, false_and, if_false, List.foldl_cons, List.foldl_nil]
    rw [FormatXEnqueue_line G r a pr pa hc _ rfl rfl rfl]
    · rfl
    · intro il ic h1
      have hne : r ≠ a := Ne.symm hc.2.1
      simp [lineIn, mapFind, hne] at h1
  · simp only [true_and, if_true, List.foldl_nil]
/-- The first step of the input pass on a simple chain: the root keeps its
record and its link is queued. -/
theorem FormatXStep32_line_root_again (G : FBAGraph) (P : FVector2D) (r a pr pa i : Nat)
    (hc : SimpleChain G r a pr pa) (F : FEdGraphParameterFormatter) (tmp : List Nat)
    (hr : F.RootNode = some r) (hig : F.IgnoredNodes = [])
    (hm : mapFind F.NodeInfoMap r = some i)
    (hcyc : ∀ il ic, mapFind F.NodeInfoMap a = some il → mapFind F.NodeInfoMap r = some ic →
      DetectCycle F.Infos ic il = false) :
    FormatXStep32 G P EGPD_Input
        { F := F, VisitedLinks := [], TempOutput := tmp,
          InputQueue := [{ From := none, To := none, Node := r }], OutputQueue := [] }
      = { F := F, VisitedLinks := [mkLink G pr pa], TempOutput := tmp,
          InputQueue := [mkLink G pr pa], OutputQueue := [] } := by
  unfold FormatXStep32
  simp only [if_true]
  rw [FormatXVisit32_root_again G P r i EGPD_Input _ hr hm]
  simp only [FPinLink.GetNode]
  rw [FormatXLinks_line_root G r a pr pa hc _ hr]
  simp only [reduceCtorEq, and_false, if_false, List.foldl_cons, List.foldl_nil]
  rw [FormatXEnqueue_line G r a pr pa hc _ hr hig rfl hcyc]
  rfl

/-- The step that visits `a` ends the pass: the link back to the root is not
queued. -/
theorem FormatXStep32_line_child (G : FBAGraph) (P : FVector2D) (r a pr pa : Nat)
    (hc : SimpleChain G r a pr pa) (d : EEdGraphPinDirection) (st st1 : FormatXState)
    (hpick : (if d = EGPD_Input then
        (match st.InputQueue, st.OutputQueue with
          | l :: r, o => some (l, r, o)
          | [], l :: r => some (l, [], r)
          | [], [] => none : Option (FPinLink × List FPinLink × List FPinLink))
      else
        (match st.OutputQueue, st.InputQueue with
          | l :: r, i => some (l, i, r)
          | [], l :: r => some (l, r, [])
          | [], [] => none)) = some (mkLink G pr pa, [], []))
    (hv : FormatXVisit32 G P d { st with InputQueue := [], OutputQueue := [] } (mkLink G pr pa) = st1)
    (hr : st1.F.RootNode = some r) (il ic : Nat)
    (h1 : mapFind st1.F.NodeInfoMap r = some il) (h2 : mapFind st1.F.NodeInfoMap a = some ic)
    (h3 : DetectCycle st1.F.Infos ic il = true) :
    ∃ vl, FormatXStep32 G P d st = { st1 with VisitedLinks := vl } := by
  unfold FormatXStep32
  simp only [hpick, hv]
  have hn : (mkLink G pr pa).GetNode G = a := by
    simp [mkLink, FPinLink.GetNode, hc.2.2.2.2.2.2.2.1]
  rw [hn, FormatXLinks_line_child G r a pr pa hc _ hr]
  simp only [List.foldl_cons, List.foldl_nil]
  exact FormatXEnqueue_cycle G a st1 pa pr il ic (by rw [hc.2.2.2.2.2.2.1]; exact h1) h2 h3
theorem numPinLinks_line (G : FBAGraph) (r a pr pa : Nat) (hc : SimpleChain G r a pr pa) :
    ∃ k, numPinLinks G + 1 = k + 2 := by
  have h : (pr, pa) ∈ pinLinks G := mem_pinLinks G pr pa (by rw [hc.2.2.2.2.1]; exact List.mem_singleton.2 rfl)
  have hl : 0 < (pinLinks G).length := List.length_pos_of_mem h
  exact ⟨numPinLinks G - 1, by unfold numPinLinks; omega⟩

/-- `FormatX` in binary32 on a simple chain with a pure root, in the range
where binary32 is exact: `a` is put left of the root with the gap
of `lineX`; the root has the record 0 with the two records of `a` below
it. -/
theorem FormatX32_line_pure (G : FBAGraph) (P : FVector2D) (r a pr pa : Nat)
    (hc : SimpleChain G r a pr pa) (hI : IsNodeImpure G r = false)
    (b : Bool) (kk : Option Nat) (afn fon : List Nat) (srm : List (FPinLink × Bool))
    (mp : List (Nat × Nat)) (inf : List FNodeInfo) (X Y : Nat → Int)
    (hw : LineWithinX G P X r a 4194304)
    (hw2 : LineWithinX G P (setPos X a (lineX G P X r a)) r a 4194304) :
    FormatX32 G P (lineIn r b kk afn fon srm mp inf X Y)
      = lineIn r b kk (setAdd (setAdd afn r) a) (setAdd fon a) srm [(r, 0), (a, 2)]
          [lineRoot r [1, 2], lineChild a pr pa EGPD_Output, lineChild a pr pa EGPD_Input]
          (setPos X a (lineX G P X r a)) Y := by
  have hne : r ≠ a := Ne.symm hc.2.1
  obtain ⟨k, hk⟩ := numPinLinks_line G r a pr pa hc
  generalize hv : lineX G P X r a = v
  -- the output pass
  have hval1 : GetChildX32 G (lineIn r b kk (setAdd afn r) fon srm [(r, 0)] [lineRoot r []] X Y) P
      (mkLink G pr pa) EGPD_Input = v := by
    rw [← hv]
    exact GetChildX32_line G P r a pr pa hc _ hw
  obtain ⟨vl1, hs2⟩ := FormatXStep32_line_child G P r a pr pa hc EGPD_Output
    { F := lineIn r b kk (setAdd afn r) fon srm [(r, 0)] [lineRoot r []] X Y,
      VisitedLinks := [mkLink G pr pa], TempOutput := [r],
      InputQueue := [mkLink G pr pa], OutputQueue := [] } _ rfl
    (FormatXVisit32_child G P r a pr pa hc EGPD_Output (by decide) b kk (setAdd afn r) fon srm X Y
      [mkLink G pr pa] [] [] [r] (by simp [hc.2.1]))
    rfl 0 1 (by simp [lineIn, mapFind]) (by simp [lineIn, mapFind, hne]) (by rfl)
  have hout : FormatXLoop32 G P EGPD_Output (k + 2)
      (FormatXPassInit (FormatXInit (lineIn r b kk afn fon srm mp inf X Y)) EGPD_Output)
      = some
        { F := lineIn r b kk (setAdd (setAdd afn r) a) (setAdd fon a) srm [(r, 0), (a, 1)]
            [lineRoot r [1], lineChild a pr pa EGPD_Output] (setPos X a v) Y,
          VisitedLinks := vl1, TempOutput := [r, a], InputQueue := [], OutputQueue := [] } := by
    have h0 : FormatXPassInit (FormatXInit (lineIn r b kk afn fon srm mp inf X Y)) EGPD_Output
        = { F := lineIn r b kk afn fon srm [] [] X Y, VisitedLinks := [], TempOutput := [],
            InputQueue := [], OutputQueue := [{ From := none, To := none, Node := r }] } := rfl
    rw [h0, FormatXLoop32_step _ _ _ _ _ (by simp), FormatXStep32_line_root G P r a pr pa hc]
    simp only [hI, Bool.false_eq_true, if_false]
    rw [FormatXLoop32_step _ _ _ _ _ (by simp), hs2, FormatXLoop32_done _ _ _ _ _ rfl rfl]
    dsimp only
    simp only [if_true, hval1, List.singleton_append]
  -- the input pass
  have hval2 : GetChildX32 G (lineIn r b kk (setAdd (setAdd afn r) a) (setAdd fon a) srm [(r, 0)]
      [lineRoot r []] (setPos X a v) Y) P (mkLink G pr pa) EGPD_Input = v := by
    have e := GetChildX32_line G P r a pr pa hc (lineIn r b kk (setAdd (setAdd afn r) a) (setAdd fon a)
      srm [(r, 0)] [lineRoot r []] (setPos X a v) Y)
      (by rw [← hv]; exact hw2)
    rw [e, ← hv]
    exact lineX_setPos G P X r a hne _
  obtain ⟨vl2, hs4⟩ := FormatXStep32_line_child G P r a pr pa hc EGPD_Input
    { F := lineIn r b kk (setAdd (setAdd afn r) a) (setAdd fon a) srm [(r, 0), (a, 1)]
        [lineRoot r [1], lineChild a pr pa EGPD_Output] (setPos X a v) Y,
      VisitedLinks := [mkLink G pr pa], TempOutput := [r, a],
      InputQueue := [mkLink G pr pa], OutputQueue := [] } _ rfl
    (FormatXVisit32_child_again G P r a pr pa hc b kk (setAdd (setAdd afn r) a) (setAdd fon a) srm
      (setPos X a v) Y [mkLink G pr pa] [] [])
    rfl 0 2 (by simp [lineIn, mapFind]) (by simp [lineIn, mapFind, hne]) (by rfl)
  unfold FormatX32 FormatXFuel32
  rw [hk, hout]
  simp only [Option.some_bind]
  have h1 : FormatXPassInit
      { F := lineIn r b kk (setAdd (setAdd afn r) a) (setAdd fon a) srm [(r, 0), (a, 1)]
          [lineRoot r [1], lineChild a pr pa EGPD_Output] (setPos X a v) Y,
        VisitedLinks := vl1, TempOutput := [r, a], InputQueue := [], OutputQueue := [] } EGPD_Input
      = { F := lineIn r b kk (setAdd (setAdd afn r) a) (setAdd fon a) srm [(r, 0), (a, 1)]
            [lineRoot r [1], lineChild a pr pa EGPD_Output] (setPos X a v) Y,
          VisitedLinks := [], TempOutput := [r, a],
          InputQueue := [{ From := none, To := none, Node := r }], OutputQueue := [] } := rfl
  rw [h1, FormatXLoop32_step _ _ _ _ _ (by simp),
    FormatXStep32_line_root_again G P r a pr pa 0 hc _ _ rfl rfl (by simp [lineIn, mapFind])
      (by
        intro il ic h1 h2
        simp [lineIn, mapFind, hne] at h1 h2
        subst h1 h2
        rfl),
    FormatXLoop32_step _ _ _ _ _ (by simp), hs4, FormatXLoop32_done _ _ _ _ _ rfl rfl]
  dsimp only
  simp only [hval2, setAdd_idem, setPos_setPos]
/-- `FormatX` in binary32 on a simple chain with an impure root: the link is
followed in the input pass only. -/
theorem FormatX32_line_impure (G : FBAGraph) (P : FVector2D) (r a pr pa : Nat)
    (hc : SimpleChain G r a pr pa) (hI : IsNodeImpure G r = true)
    (b : Bool) (kk : Option Nat) (afn fon : List Nat) (srm : List (FPinLink × Bool))
    (mp : List (Nat × Nat)) (inf : List FNodeInfo) (X Y : Nat → Int)
    (hw : LineWithinX G P X r a 4194304) :
    FormatX32 G P (lineIn r b kk afn fon srm mp inf X Y)
      = lineIn r b kk (setAdd (setAdd afn r) a) fon srm [(r, 0), (a, 1)]
          [lineRoot r [1], lineChild a pr pa EGPD_Input]
          (setPos X a (lineX G P X r a)) Y := by
  have hne : r ≠ a := Ne.symm hc.2.1
  obtain ⟨k, hk⟩ := numPinLinks_line G r a pr pa hc
  generalize hv : lineX G P X r a = v
  have hval1 : GetChildX32 G (lineIn r b kk (setAdd afn r) fon srm [(r, 0)] [lineRoot r []] X Y) P
      (mkLink G pr pa) EGPD_Input = v := by
    rw [← hv]
    exact GetChildX32_line G P r a pr pa hc _ hw
  have hout : FormatXLoop32 G P EGPD_Output (k + 2)
      (FormatXPassInit (FormatXInit (lineIn r b kk afn fon srm mp inf X Y)) EGPD_Output)
      = some
        { F := lineIn r b kk (setAdd afn r) fon srm [(r, 0)] [lineRoot r []] X Y,
          VisitedLinks := [], TempOutput := [r], InputQueue := [], OutputQueue := [] } := by
    have h0 : FormatXPassInit (FormatXInit (lineIn r b kk afn fon srm mp inf X Y)) EGPD_Output
        = { F := lineIn r b kk afn fon srm [] [] X Y, VisitedLinks := [], TempOutput := [],
            InputQueue := [], OutputQueue := [{ From := none, To := none, Node := r }] } := rfl
    rw [h0, FormatXLoop32_step _ _ _ _ _ (by simp), FormatXStep32_line_root G P r a pr pa hc]
    simp only [hI, if_true]
    rw [FormatXLoop32_done _ _ _ _ _ rfl rfl]
  obtain ⟨vl2, hs4⟩ := FormatXStep32_line_child G P r a pr pa hc EGPD_Input
    { F := lineIn r b kk (setAdd afn r) fon srm [(r, 0)] [lineRoot r []] X Y,
      VisitedLinks := [mkLink G pr pa], TempOutput := [r],
      InputQueue := [mkLink G pr pa], OutputQueue := [] } _ rfl
    (FormatXVisit32_child G P r a pr pa hc EGPD_Input (by decide) b kk (setAdd afn r) fon srm X Y
      [mkLink G pr pa] [] [] [r] (by simp [hc.2.1]))
    rfl 0 1 (by simp [lineIn, mapFind]) (by simp [lineIn, mapFind, hne]) (by rfl)
  unfold FormatX32 FormatXFuel32
  rw [hk, hout]
  simp only [Option.some_bind]
  have h1 : FormatXPassInit
      { F := lineIn r b kk (setAdd afn r) fon srm [(r, 0)] [lineRoot r []] X Y,
        VisitedLinks := [], TempOutput := [r], InputQueue := [], OutputQueue := [] } EGPD_Input
      = { F := lineIn r b kk (setAdd afn r) fon srm [(r, 0)] [lineRoot r []] X Y,
          VisitedLinks := [], TempOutput := [r],
          InputQueue := [{ From := none, To := none, Node := r }], OutputQueue := [] } := rfl
  rw [h1, FormatXLoop32_step _ _ _ _ _ (by simp),
    FormatXStep32_line_root_again G P r a pr pa 0 hc _ _ rfl rfl (by simp [lineIn, mapFind])
      (by
        intro il ic h1 h2
        simp [lineIn, mapFind, hne] at h1),
    FormatXLoop32_step _ _ _ _ _ (by simp), hs4, FormatXLoop32_done _ _ _ _ _ rfl rfl]
  dsimp only
  simp only [hval1, reduceCtorEq, if_false]

/-! ## What the vertical placement in binary32 writes -/

theorem OnlyY_StraightenPin32 (G : FBAGraph) {S A : FEdGraphParameterFormatter} (h : OnlyY S A)
    (p q : Nat) : OnlyY S (StraightenPin32 G A p q) := h

theorem OnlyY_FormatYCollision32 (G : FBAGraph) (P : FVector2D) (c : Nat) (V : List Nat) :
    ∀ (n : Nat) (S : FEdGraphParameterFormatter), OnlyY S (FormatYCollision32 G P c V n S).1 := by
  intro n
  induction n with
  | zero => intro S; exact OnlyY_refl S
  | succ k ih =>
    intro S
    simp only [FormatYCollision32]
    split
    · exact OnlyY_refl S
    · exact OnlyY_trans (OnlyY_withPosY (OnlyY_refl S) _ _) (ih _)

theorem OnlyY_CenterBranches32 (G : FBAGraph) (S : FEdGraphParameterFormatter) (P : FVector2D) (c : Nat)
    (bs : List ChildBranch) (V : List Nat) : OnlyY S (CenterBranches32 G S P c bs V) := by
  unfold CenterBranches32 CenterOffsetBranches32
  dsimp only
  split_ifs
  · exact OnlyY_foldl_withPosY S _ (OnlyY_foldl_withPosY S S (OnlyY_refl S) _ _) _ _
  · exact OnlyY_foldl_withPosY S S (OnlyY_refl S) _ _

theorem OnlyY_FormatYPlaceChild32 (G : FBAGraph) (P : FVector2D) (F : FEdGraphParameterFormatter)
    (p q : Nat) : OnlyY F (FormatYPlaceChild32 G P F p q) := by
  unfold FormatYPlaceChild32
  dsimp only
  split_ifs
  · exact OnlyY_withPosY (OnlyY_refl F) _ _
  · exact OnlyY_StraightenPin32 G (OnlyY_refl F) _ _

theorem OnlyY_FormatYAvoidPin32 (G : FBAGraph) (F : FEdGraphParameterFormatter)
    (d : EEdGraphPinDirection) (ll : Option Nat) (lc : List Nat) :
    OnlyY F (FormatYAvoidPin32 G F d ll lc) := by
  unfold FormatYAvoidPin32
  dsimp only
  split_ifs
  · split
    · split_ifs
      · exact OnlyY_foldl_withPosY F F (OnlyY_refl F) _ _
      · exact OnlyY_refl F
    · exact OnlyY_refl F
  · exact OnlyY_refl F

theorem OnlyY_FormatYChild32 (G : FBAGraph) (P : FVector2D)
    (recurse : Nat → Option Nat → Option Nat → Bool →
      FEdGraphParameterFormatter × List Nat × List Nat → FEdGraphParameterFormatter × List Nat × List Nat)
    (hrec : RecOnlyY recurse) (S : FEdGraphParameterFormatter) (c : Nat) (pp : Option Nat)
    (Children : List Nat) (d : EEdGraphPinDirection) (MyPin : Nat) (a : FormatYState) (OtherPin : Nat)
    (h : OnlyY S a.F) : OnlyY S (FormatYChild32 G P recurse c pp Children d MyPin a OtherPin).F := by
  unfold FormatYChild32
  dsimp only
  split_ifs
  · exact h
  · exact OnlyY_trans (OnlyY_trans (OnlyY_trans h (OnlyY_FormatYPlaceChild32 G P a.F MyPin OtherPin))
      (hrec _ _ _ _ _)) (OnlyY_FormatYAvoidPin32 G _ d a.LastLinked _)

theorem OnlyY_FormatYPin32 (G : FBAGraph) (P : FVector2D)
    (recurse : Nat → Option Nat → Option Nat → Bool →
      FEdGraphParameterFormatter × List Nat × List Nat → FEdGraphParameterFormatter × List Nat × List Nat)
    (hrec : RecOnlyY recurse) (S : FEdGraphParameterFormatter) (c : Nat) (pp : Option Nat)
    (Children : List Nat) (d : EEdGraphPinDirection) (a : FormatYState) (MyPin : Nat)
    (h : OnlyY S a.F) : OnlyY S (FormatYPin32 G P recurse c pp Children d a MyPin).F := by
  unfold FormatYPin32
  dsimp only
  have hf : OnlyY S ((G.pin MyPin).LinkedTo.foldl
      (FormatYChild32 G P recurse c pp Children d MyPin) a).F :=
    foldl_inv (fun (x : FormatYState) => OnlyY S x.F) _ _ _ h
      (fun x q hx => OnlyY_FormatYChild32 G P recurse hrec S c pp Children d MyPin x q hx)
  split_ifs
  · exact h
  · exact hf
  · exact hf

theorem OnlyY_FormatYDirection32 (G : FBAGraph) (P : FVector2D)
    (recurse : Nat → Option Nat → Option Nat → Bool →
      FEdGraphParameterFormatter × List Nat × List Nat → FEdGraphParameterFormatter × List Nat × List Nat)
    (hrec : RecOnlyY recurse) (S : FEdGraphParameterFormatter) (c : Nat) (pp : Option Nat)
    (Children : List Nat) (a : FormatYState) (d : EEdGraphPinDirection)
    (h : OnlyY S a.F) : OnlyY S (FormatYDirection32 G P recurse c pp Children a d).F := by
  unfold FormatYDirection32
  dsimp only
  have hf : OnlyY S ((GetPinsByDirection G c d).foldl (FormatYPin32 G P recurse c pp Children d)
      { a with LastLinked := none, ChildBranches := [] }).F :=
    foldl_inv (fun (x : FormatYState) => OnlyY S x.F) _ _ _ h
      (fun x q hx => OnlyY_FormatYPin32 G P recurse hrec S c pp Children d x q hx)
  split_ifs
  · exact OnlyY_trans hf (OnlyY_CenterBranches32 G _ _ _ _ _)
  · exact hf

theorem OnlyY_FormatYFinish32 (G : FBAGraph) (F : FEdGraphParameterFormatter) (b : Bool)
    (cp pp : Option Nat) : OnlyY F (FormatYFinish32 G F b cp pp) := by
  unfold FormatYFinish32
  split
  · exact OnlyY_StraightenPin32 G (OnlyY_refl F) _ _
  · exact OnlyY_refl F

theorem OnlyY_FormatYBody32 (G : FBAGraph) (P : FVector2D)
    (recurse : Nat → Option Nat → Option Nat → Bool →
      FEdGraphParameterFormatter × List Nat × List Nat → FEdGraphParameterFormatter × List Nat × List Nat)
    (hrec : RecOnlyY recurse) : RecOnlyY (FormatYBody32 G P recurse) := by
  intro c cp pp b acc
  unfold FormatYBody32
  dsimp only
  split_ifs
  · exact OnlyY_refl _
  · have hf : OnlyY acc.1 ([EGPD_Input, EGPD_Output].foldl
        (FormatYDirection32 G P recurse c pp (match mapFind acc.1.NodeInfoMap c with
          | some i => GetChildNodes acc.1.Infos i
          | none => []))
        { F := (FormatYCollision32 G P c acc.2.1 100 acc.1).1, VisitedNodes := setAdd acc.2.1 c,
          OutChildren := acc.2.2, bFirstPin := true, LastLinked := none, ChildBranches := [] }).F :=
      foldl_inv (fun (x : FormatYState) => OnlyY acc.1 x.F) _ _ _
        (OnlyY_FormatYCollision32 G P c acc.2.1 100 acc.1)
        (fun x q hx => OnlyY_FormatYDirection32 G P recurse hrec acc.1 c pp _ x q hx)
    exact OnlyY_trans hf (OnlyY_FormatYFinish32 G _ b cp pp)

theorem OnlyY_FormatY32 (G : FBAGraph) (P : FVector2D) : ∀ fuel : Nat, RecOnlyY (FormatY32 G P fuel) := by
  intro fuel
  induction fuel with
  | zero => intro c cp pp b acc; exact OnlyY_refl _
  | succ n ih => exact OnlyY_FormatYBody32 G P _ ih
/-! ## The vertical placement in binary32 on a simple chain -/

theorem fsub_self32 (x : Int) : fsub x x = 0 := by
  unfold fsub
  rw [sub_self]
  decide

theorem withPosY_self (S : FEdGraphParameterFormatter) (n : Nat) :
    withPosY S n (S.NodePosY n) = S := by
  unfold withPosY
  rw [setPos_self]

/-- A fold over a list in which only the entries selected by `q` act, one
entry being selected. -/
theorem foldl_filter_single {σ : Type} (f : σ → Nat → σ) (q : Nat → Bool) (x : Nat) :
    ∀ (L : List Nat) (s : σ), L.filter q = [x] → (∀ p ∈ L, q p = false → ∀ t, f t p = t) →
      L.foldl f s = f s x := by
  intro L
  induction L with
  | nil => intro s h; simp at h
  | cons p L ih =>
    intro s h hf
    rw [List.filter_cons] at h
    rw [List.foldl_cons]
    by_cases hq : q p = true
    · rw [if_pos hq] at h
      have hp : p = x := (List.cons.inj h).1
      have hL : L.filter q = [] := (List.cons.inj h).2
      subst hp
      have hall : ∀ y ∈ L, q y = false := by
        intro y hy
        by_contra hqy
        have : y ∈ L.filter q := List.mem_filter.2 ⟨hy, by simpa using hqy⟩
        rw [hL] at this
        exact absurd this (List.not_mem_nil _)
      have : ∀ (M : List Nat) (t : σ), (∀ y ∈ M, y ∈ L) → M.foldl f t = t := by
        intro M
        induction M with
        | nil => intro t _; rfl
        | cons y M ihM =>
          intro t hM
          rw [List.foldl_cons, hf y (List.mem_cons_of_mem _ (hM y (List.mem_cons_self _ _)))
            (hall y (hM y (List.mem_cons_self _ _))) t]
          exact ihM t (fun z hz => hM z (List.mem_cons_of_mem _ hz))
      exact this L _ (fun _ h => h)
    · rw [if_neg hq] at h
      have hq2 : q p = false := by simpa using hq
      rw [hf p (List.mem_cons_self _ _) hq2 s]
      exact ih s h (fun y hy => hf y (List.mem_cons_of_mem _ hy))

/-- A fold over a list in which only the entries selected by `q` act, none
being selected. -/
theorem foldl_filter_none {σ : Type} (f : σ → Nat → σ) (q : Nat → Bool) :
    ∀ (L : List Nat) (s : σ), L.filter q = [] → (∀ p ∈ L, q p = false → ∀ t, f t p = t) →
      L.foldl f s = s := by
  intro L
  induction L with
  | nil => intro s _ _; rfl
  | cons p L ih =>
    intro s h hf
    rw [List.filter_cons] at h
    by_cases hq : q p = true
    · rw [if_pos hq] at h
      exact absurd h (List.cons_ne_nil _ _)
    · rw [if_neg hq] at h
      have hq2 : q p = false := by simpa using hq
      rw [List.foldl_cons, hf p (List.mem_cons_self _ _) hq2 s]
      exact ih s h (fun y hy => hf y (List.mem_cons_of_mem _ hy))

/-- A pin of a pure node without a link is passed over by `FormatY`. -/
theorem FormatYPin32_unlinked (G : FBAGraph) (P : FVector2D)
    (recurse : Nat → Option Nat → Option Nat → Bool →
      FEdGraphParameterFormatter × List Nat × List Nat → FEdGraphParameterFormatter × List Nat × List Nat)
    (n : Nat) (pp : Option Nat) (Ch : List Nat) (d : EEdGraphPinDirection) (hI : IsNodeImpure G n = false)
    (p : Nat) (hp : p ∈ GetPinsByDirection G n d)
    (hq : (!(G.pin p).LinkedTo.isEmpty) = false) (t : FormatYState) :
    FormatYPin32 G P recurse n pp Ch d t p = t := by
  have hex : IsExecPin G p = false := by
    unfold IsNodeImpure at hI
    rw [List.any_eq_false] at hI
    have := hI p (List.mem_filter.1 hp).1
    simpa using this
  have he : (G.pin p).LinkedTo = [] := by
    cases h : (G.pin p).LinkedTo with
    | nil => rfl
    | cons x l => rw [h] at hq; simp at hq
  unfold FormatYPin32
  simp only [hex, Bool.false_eq_true, if_false, he, List.foldl_nil, List.isEmpty_nil, Bool.not_true]

/-- The loop of `FormatY` over the pins of a direction of a pure node that
has one linked pin in the direction. -/
theorem FormatYPins32_single (G : FBAGraph) (P : FVector2D)
    (recurse : Nat → Option Nat → Option Nat → Bool →
      FEdGraphParameterFormatter × List Nat × List Nat → FEdGraphParameterFormatter × List Nat × List Nat)
    (n : Nat) (pp : Option Nat) (Ch : List Nat) (d : EEdGraphPinDirection) (hI : IsNodeImpure G n = false)
    (x : Nat) (hl : GetLinkedPins G n d = [x]) (s : FormatYState) :
    (GetPinsByDirection G n d).foldl (FormatYPin32 G P recurse n pp Ch d) s
      = FormatYPin32 G P recurse n pp Ch d s x :=
  foldl_filter_single _ (fun p => !(G.pin p).LinkedTo.isEmpty) x _ s hl
    (fun p hp hq t => FormatYPin32_unlinked G P recurse n pp Ch d hI p hp hq t)

/-- The loop of `FormatY` over the pins of a direction of a pure node that
has no linked pin in the direction. -/
theorem FormatYPins32_none (G : FBAGraph) (P : FVector2D)
    (recurse : Nat → Option Nat → Option Nat → Bool →
      FEdGraphParameterFormatter × List Nat × List Nat → FEdGraphParameterFormatter × List Nat × List Nat)
    (n : Nat) (pp : Option Nat) (Ch : List Nat) (d : EEdGraphPinDirection) (hI : IsNodeImpure G n = false)
    (hl : GetLinkedPins G n d = []) (s : FormatYState) :
    (GetPinsByDirection G n d).foldl (FormatYPin32 G P recurse n pp Ch d) s = s :=
  foldl_filter_none _ (fun p => !(G.pin p).LinkedTo.isEmpty) _ s hl
    (fun p hp hq t => FormatYPin32_unlinked G P recurse n pp Ch d hI p hp hq t)

/-- The linked pins of the two nodes of a simple chain by direction. -/
theorem GetLinkedPins_line (G : FBAGraph) (r a pr pa : Nat) (hc : SimpleChain G r a pr pa) :
    GetLinkedPins G r EGPD_Input = [pr] ∧ GetLinkedPins G r EGPD_Output = []
      ∧ GetLinkedPins G a EGPD_Input = [] ∧ GetLinkedPins G a EGPD_Output = [pa] := by
  obtain ⟨_, _, hRl, hAl, _, _, _, _, hprD, hpaD, _⟩ := hc
  refine ⟨?_, ?_, ?_, ?_⟩
  · rw [GetLinkedPins_dir, hRl]; simp [hprD]
  · rw [GetLinkedPins_dir, hRl]; simp [hprD]
  · rw [GetLinkedPins_dir, hAl]; simp [hpaD]
  · rw [GetLinkedPins_dir, hAl]; simp [hpaD]

/-- The collision loop of `FormatY` leaves a node that lies left of the one
visited node. -/
theorem FormatYCollision32_apart (G : FBAGraph) (P : FVector2D) (a r : Nat)
    (S : FEdGraphParameterFormatter) (h : LeftOf G S a r) (n : Nat) :
    (FormatYCollision32 G P a [r] n S).1 = S := by
  obtain ⟨a1, a2, r1, r2, w1, w2, hlt⟩ := h
  cases n with
  | zero => rfl
  | succ k =>
    have hp := F32One_pos
    have hno : DoRectanglesIntersect ((GetCachedNodeBounds32 G S a).ExtendBy32 0 0 0 P.Y)
        ((GetCachedNodeBounds32 G S r).ExtendBy32 0 0 0 P.Y) = false := by
      unfold DoRectanglesIntersect FSlateRect.ExtendBy32
      dsimp only
      rw [GetCachedNodeBounds32_Left G S r (by omega) (by omega),
        GetCachedNodeBounds32_Right G S a (by omega) (by omega) (by omega) (by omega) (by omega)
          (by omega),
        fsub_zero_whole _ (by omega) (by omega), fadd_zero_whole _ (by omega) (by omega)]
      have : S.NodePosX r * F32One > (S.NodePosX a + (G.node a).SizeX) * F32One :=
        (mul_lt_mul_right hp).2 hlt
      simp [this]
    have hf : [r].find? (fun v => v != a &&
        DoRectanglesIntersect ((GetCachedNodeBounds32 G S a).ExtendBy32 0 0 0 P.Y)
          ((GetCachedNodeBounds32 G S v).ExtendBy32 0 0 0 P.Y)) = none := by
      rw [List.find?_eq_none]
      intro v hv
      rw [List.mem_singleton] at hv
      subst hv
      simp [hno]
    simp only [FormatYCollision32, hf]

/-- Centering at a node without branches that lies left of the one other
visited node changes nothing. -/
theorem CenterBranches32_line_child (G : FBAGraph) (P : FVector2D) (a r : Nat) (hne : r ≠ a)
    (S : FEdGraphParameterFormatter) (h : LeftOf G S a r) :
    CenterBranches32 G S P a [] [r, a] = S := by
  obtain ⟨a1, a2, r1, r2, w1, w2, hlt⟩ := h
  have hp := F32One_pos
  have hno : DoRectanglesIntersect ((GetCachedNodeBounds32 G S r).ExtendBy32 0 P.Y 0 P.Y)
      (GetCachedNodeBounds32 G S a) = false := by
    unfold DoRectanglesIntersect FSlateRect.ExtendBy32
    dsimp only
    rw [GetCachedNodeBounds32_Left G S r (by omega) (by omega),
      GetCachedNodeBounds32_Right G S a (by omega) (by omega) (by omega) (by omega) (by omega)
        (by omega),
      fsub_zero_whole _ (by omega) (by omega)]
    have : (S.NodePosX a + (G.node a).SizeX) * F32One < S.NodePosX r * F32One :=
      (mul_lt_mul_right hp).2 hlt
    simp [this]
  have hd : CenterDeltaY32 G S P [a] [r, a] = 0 := by
    have h0 : r ∉ [a] := by simp [hne]
    have h1 : a ∈ [a] := by simp
    simp only [CenterDeltaY32, GetCachedNodeArrayBounds32, List.foldl_cons, List.foldl_nil,
      CenterCollide32, if_neg h0, if_pos h1, hno, Bool.false_eq_true, if_false, fsub_self32]
  simp only [CenterBranches32, CenterOffsetBranches32, List.flatMap_nil, List.foldl_nil,
    List.nil_append, hd]
  simp

/-- Centering at the root with the single branch of `a`, whose pin is at the
height of the pin of the root, changes nothing. -/
theorem CenterBranches32_line_root (G : FBAGraph) (P : FVector2D) (r a pr pa : Nat)
    (S : FEdGraphParameterFormatter) (hal : GetPinY32 G S pa = GetPinY32 G S pr)
    (y1 : -16777216 ≤ S.NodePosY a) (y2 : S.NodePosY a ≤ 16777216) :
    CenterBranches32 G S P r [mkBranch pa pr [a]] [r, a] = S := by
  have hoff : CenterOffsetBranches32 G S [mkBranch pa pr [a]] = S := by
    simp only [CenterOffsetBranches32, mkBranch_BranchNodes, mkBranch_Pin, mkBranch_ParentPin,
      List.map_cons, List.map_nil, GetCenterYOfPins32, List.foldl_cons, List.foldl_nil,
      List.length_cons, List.length_nil, List.flatMap_cons, List.flatMap_nil, List.append_nil,
      hal, fsub_self32, reduceCtorEq, if_false]
    rw [ofInt32_exact _ y1 y2, fadd_zero_whole _ y1 y2, toInt32_whole, withPosY_self]
  have h0 : r ∈ [a, r] := by simp
  have h1 : a ∈ [a, r] := by simp
  have hd : CenterDeltaY32 G S P [a, r] [r, a] = 0 := by
    simp only [CenterDeltaY32, List.foldl_cons, List.foldl_nil, CenterCollide32, if_pos h0, if_pos h1,
      fsub_self32]
  simp only [CenterBranches32, hoff, mkBranch_BranchNodes, List.flatMap_cons, List.flatMap_nil,
    List.append_nil, List.singleton_append, hd]
  simp

/-- `StraightenPin` of the pin of `a` on the pin of the root, in the range
where binary32 is exact. -/
theorem StraightenPin32_line (G : FBAGraph) (r a pr pa : Nat) (hc : SimpleChain G r a pr pa)
    (S : FEdGraphParameterFormatter) (hw : LineWithinY G S.NodePosY r a pr pa 1048576) :
    StraightenPin32 G S pr pa
      = withPosY S a (S.NodePosY r + (G.pin pr).OffsetY - (G.pin pa).OffsetY) := by
  obtain ⟨_, _, _, _, _, _, hprO, hpaO, _⟩ := hc
  obtain ⟨r1, r2, a1, a2, _, _, _, _, o1, o2, q1, q2⟩ := hw
  unfold StraightenPin32
  rw [GetPinY32_exact G S pr (by rw [hprO]; omega) (by rw [hprO]; omega) (by omega) (by omega)
      (by unfold GetPinY; rw [hprO]; omega) (by unfold GetPinY; rw [hprO]; omega),
    GetPinY32_exact G S pa (by rw [hpaO]; omega) (by rw [hpaO]; omega) (by omega) (by omega)
      (by unfold GetPinY; rw [hpaO]; omega) (by unfold GetPinY; rw [hpaO]; omega)]
  unfold GetPinY
  rw [hprO, hpaO, fsub_whole _ _ (by omega) (by omega)]
  dsimp only
  rw [ofInt32_exact _ (by omega) (by omega), fadd_whole _ _ (by omega) (by omega), toInt32_whole]
  congr 1
  ring
/-- The call of `FormatY` for the node `a` of a simple chain, the root being
visited: `a` stays where it is. -/
theorem FormatY32_line_child (G : FBAGraph) (P : FVector2D) (r a pr pa : Nat)
    (hc : SimpleChain G r a pr pa) (S : FEdGraphParameterFormatter)
    (hch : SameRowChildren S a = []) (hl : LeftOf G S a r) (fuel : Nat) :
    FormatY32 G P (fuel + 1) a (some pa) (some pr) false (S, [r], []) = (S, [r, a], [a]) := by
  have hne : r ≠ a := Ne.symm hc.2.1
  have hIa : IsNodeImpure G a = false := by
    have := hc.2.2.2.2.2.2.2.2.2.2.2.2.1
    unfold IsNodePure at this
    simpa using this
  have hpure : IsNodePure G a = true := hc.2.2.2.2.2.2.2.2.2.2.2.2.1
  obtain ⟨_, _, hli, hlo⟩ := GetLinkedPins_line G r a pr pa hc
  have hpaL : (G.pin pa).LinkedTo = [pr] := hc.2.2.2.2.2.1
  have hprO : G.OwningNode pr = r := hc.2.2.2.2.2.2.1
  have hex : IsExecPin G pa = false := by
    have h1 : IsParameterPin G pa = true := hc.2.2.2.2.2.2.2.2.2.2.2.1
    unfold IsParameterPin at h1
    unfold IsExecPin
    cases hk : (G.pin pa).Kind <;> simp [hk] at h1 ⊢
  show FormatYBody32 G P (FormatY32 G P fuel) a (some pa) (some pr) false (S, [r], []) = _
  unfold SameRowChildren at hch
  have hv : a ∉ [r] := by simp [hc.2.1]
  unfold FormatYBody32
  simp only [if_neg hv, hch, FormatYCollision32_apart G P a r S hl, List.foldl_cons, List.foldl_nil]
  have hin : FormatYDirection32 G P (FormatY32 G P fuel) a (some pr) []
      { F := S, VisitedNodes := setAdd [r] a, OutChildren := [], bFirstPin := true, LastLinked := none,
        ChildBranches := [] } EGPD_Input
      = { F := S, VisitedNodes := [r, a], OutChildren := [], bFirstPin := true, LastLinked := none,
          ChildBranches := [] } := by
    have hs : setAdd [r] a = [r, a] := by simp [setAdd, hc.2.1]
    unfold FormatYDirection32
    simp only [FormatYPins32_none G P _ a (some pr) [] EGPD_Input hIa hli, hs, List.flatMap_nil,
      CenterBranches32_line_child G P a r hne S hl, ite_self]
  have hout : FormatYDirection32 G P (FormatY32 G P fuel) a (some pr) []
      { F := S, VisitedNodes := [r, a], OutChildren := [], bFirstPin := true, LastLinked := none,
        ChildBranches := [] } EGPD_Output
      = { F := S, VisitedNodes := [r, a], OutChildren := [], bFirstPin := true, LastLinked := some pa,
          ChildBranches := [] } := by
    unfold FormatYDirection32
    simp only [FormatYPins32_single G P _ a (some pr) [] EGPD_Output hIa pa hlo]
    simp [FormatYPin32, hex, hpaL, FormatYChild32, hprO]
  rw [hin, hout]
  simp [FormatYFinish32, setAdd]
/-- The call of `FormatY` for the pure root of a simple chain: `a` is
straightened on the pin of the root and nothing else moves. -/
theorem FormatY32_line_root (G : FBAGraph) (P : FVector2D) (r a pr pa : Nat)
    (hc : SimpleChain G r a pr pa) (hI : IsNodeImpure G r = false) (S : FEdGraphParameterFormatter)
    (hr : S.RootNode = some r) (hig : S.IgnoredNodes = []) (hfin : S.FormattedInputNodes = [])
    (hchr : a ∈ SameRowChildren S r) (hcha : SameRowChildren S a = [])
    (hl : LeftOf G S a r) (hw : LineWithinY G S.NodePosY r a pr pa 1048576) (fuel : Nat) :
    FormatY32 G P (fuel + 2) r none none false (S, [], [])
      = (withPosY S a (S.NodePosY r + (G.pin pr).OffsetY - (G.pin pa).OffsetY), [r, a], [a, r]) := by
  have hne : r ≠ a := Ne.symm hc.2.1
  obtain ⟨hli, hlo, _, _⟩ := GetLinkedPins_line G r a pr pa hc
  have hprL : (G.pin pr).LinkedTo = [pa] := hc.2.2.2.2.1
  have hprO : G.OwningNode pr = r := hc.2.2.2.2.2.2.1
  have hpaO : G.OwningNode pa = a := hc.2.2.2.2.2.2.2.1
  have hfil : G.FilterSelectiveFormatting a = true := hc.2.2.2.2.2.2.2.2.2.2.2.2.2.2
  have hex : IsExecPin G pr = false := by
    have h1 : IsParameterPin G pr = true := hc.2.2.2.2.2.2.2.2.2.2.1
    unfold IsParameterPin at h1
    unfold IsExecPin
    cases hk : (G.pin pr).Kind <;> simp [hk] at h1 ⊢
  have hpure : IsNodePure G r = true := by
    unfold IsNodePure
    rw [hI]
    rfl
  generalize hT : withPosY S a (S.NodePosY r + (G.pin pr).OffsetY - (G.pin pa).OffsetY) = T
  have hTX : T.NodePosX = S.NodePosX := by rw [← hT]; rfl
  have hlT : LeftOf G T a r := by
    unfold LeftOf
    rw [hTX]
    exact hl
  have hchT : SameRowChildren T a = [] := by rw [← hT]; exact hcha
  have hplace : FormatYPlaceChild32 G P S pr pa = T := by
    unfold FormatYPlaceChild32
    simp only [hfin, List.not_mem_nil, decide_False, Bool.and_false, Bool.false_eq_true, if_false]
    rw [StraightenPin32_line G r a pr pa hc S hw, hT]
  obtain ⟨r1, r2, a1, a2, _, _, _, _, o1, o2, q1, q2⟩ := hw
  have hTr : T.NodePosY r = S.NodePosY r := by
    rw [← hT]
    simp only [withPosY, setPos, if_neg hne]
  have hTa : T.NodePosY a = S.NodePosY r + (G.pin pr).OffsetY - (G.pin pa).OffsetY := by
    rw [← hT]
    simp only [withPosY, setPos, if_true]
  have hal : GetPinY32 G T pa = GetPinY32 G T pr := by
    rw [GetPinY32_exact G T pr (by rw [hprO, hTr]; omega) (by rw [hprO, hTr]; omega) (by omega)
        (by omega) (by unfold GetPinY; rw [hprO, hTr]; omega) (by unfold GetPinY; rw [hprO, hTr]; omega),
      GetPinY32_exact G T pa (by rw [hpaO, hTa]; omega) (by rw [hpaO, hTa]; omega) (by omega) (by omega)
        (by unfold GetPinY; rw [hpaO, hTa]; omega) (by unfold GetPinY; rw [hpaO, hTa]; omega)]
    unfold GetPinY
    rw [hprO, hpaO, hTr, hTa]
    congr 1
    ring
  have hnb : ¬ (ofInt32 (T.NodePosX r) < (GetCachedNodeArrayBounds32 G T [a]).Right) := by
    obtain ⟨x1, x2, x3, x4, w1, w2, hlt⟩ := hlT
    have hp := F32One_pos
    simp only [GetCachedNodeArrayBounds32, List.foldl_nil]
    rw [ofInt32_exact _ (by omega) (by omega),
      GetCachedNodeBounds32_Right G T a (by omega) (by omega) (by omega) (by omega) (by omega)
        (by omega)]
    have : (T.NodePosX a + (G.node a).SizeX) * F32One < T.NodePosX r * F32One :=
      (mul_lt_mul_right hp).2 hlt
    omega
  have hbig : decide (ofInt32 (T.NodePosX r) < (GetCachedNodeArrayBounds32 G T [a]).Right) = false :=
    decide_eq_false hnb
  show FormatYBody32 G P (FormatY32 G P (fuel + 1)) r none none false (S, [], []) = _
  unfold SameRowChildren at hchr
  unfold FormatYBody32
  simp only [List.not_mem_nil, if_false, FormatYCollision32, List.find?_nil, List.foldl_cons,
    List.foldl_nil]
  have hin : FormatYDirection32 G P (FormatY32 G P (fuel + 1)) r none
      (match mapFind S.NodeInfoMap r with
        | some i => GetChildNodes S.Infos i
        | none => [])
      { F := S, VisitedNodes := setAdd [] r, OutChildren := [], bFirstPin := true, LastLinked := none,
        ChildBranches := [] } EGPD_Input
      = { F := T, VisitedNodes := [r, a], OutChildren := [a], bFirstPin := true,
          LastLinked := some pr, ChildBranches := [mkBranch pa pr [a]] } := by
    have hs : setAdd [] r = [r] := rfl
    have hvis : a ∉ [r] := by simp [hc.2.1]
    have hpin : FormatYPin32 G P (FormatY32 G P (fuel + 1)) r none
        (match mapFind S.NodeInfoMap r with
          | some i => GetChildNodes S.Infos i
          | none => []) EGPD_Input
        { F := S, VisitedNodes := [r], OutChildren := [], bFirstPin := true, LastLinked := none,
          ChildBranches := [] } pr
        = { F := T, VisitedNodes := [r, a], OutChildren := [a], bFirstPin := true,
            LastLinked := some pr, ChildBranches := [mkBranch pa pr [a]] } := by
      unfold FormatYPin32
      simp only [hex, Bool.false_eq_true, if_false, hprL, List.foldl_cons, List.foldl_nil,
        List.isEmpty_cons, Bool.not_false, if_true]
      unfold FormatYChild32
      simp only [hpaO, hig, List.not_mem_nil, decide_False, hfil, Bool.not_true, hchr, decide_True,
        hvis, Bool.or_self, Bool.false_eq_true, if_false, hplace, FormatYChildIsSameRow, hr,
        bne_self_eq_false, Bool.and_false, FormatY32_line_child G P r a pr pa hc T hchT hlT fuel]
      simp [FormatYAvoidPin32, FormatYAfterChild, setAppend, setAdd]
    unfold FormatYDirection32
    simp only [FormatYPins32_single G P _ r none _ EGPD_Input hI pr hli, hs, hpin,
      mkBranch_BranchNodes, List.flatMap_cons, List.flatMap_nil, List.append_nil, hbig,
      CenterBranches32_line_root G P r a pr pa T hal (by rw [hTa]; omega) (by rw [hTa]; omega),
      ite_self]
  have hout : FormatYDirection32 G P (FormatY32 G P (fuel + 1)) r none
      (match mapFind S.NodeInfoMap r with
        | some i => GetChildNodes S.Infos i
        | none => [])
      { F := T, VisitedNodes := [r, a], OutChildren := [a], bFirstPin := true,
        LastLinked := some pr, ChildBranches := [mkBranch pa pr [a]] } EGPD_Output
      = { F := T, VisitedNodes := [r, a], OutChildren := [a], bFirstPin := true,
          LastLinked := none, ChildBranches := [] } := by
    unfold FormatYDirection32
    simp only [FormatYPins32_none G P _ r none _ EGPD_Output hI hlo]
    simp
  rw [hin, hout]
  simp [FormatYFinish32, setAdd, hc.2.1, hne]
/-- The height expansion finds the pins of the chain at the same height and
changes nothing. -/
theorem ExpandByHeight32_line (G : FBAGraph) (r a pr pa : Nat) (hc : SimpleChain G r a pr pa)
    (T : FEdGraphParameterFormatter) (hr : T.RootNode = some r) (hfin : T.FormattedInputNodes = [])
    (hal : GetPinY32 G T pa = GetPinY32 G T pr) : ExpandByHeight32 G T = T := by
  obtain ⟨hli, _, _, _⟩ := GetLinkedPins_line G r a pr pa hc
  have hprL : (G.pin pr).LinkedTo = [pa] := hc.2.2.2.2.1
  have hp := F32One_pos
  unfold ExpandByHeight32
  split_ifs
  · rfl
  · simp only [hfin, hr, Option.getD_some, setAdd, List.not_mem_nil, if_false, List.nil_append,
      List.foldl_cons, List.foldl_nil, GetPinLinks, hli, List.flatMap_cons, List.flatMap_nil,
      hprL, List.map_cons, List.map_nil, List.append_nil, mkLink, hal, fsub_self32, max_self]
    rw [if_pos (by omega)]

/-- The slow path on a simple chain before the vertical placement: `a` is
put left of the root, both nodes are formatted, no node is a formatted input
node; under a pure root `a` is a child of the root and has no child. -/
theorem FormatNodeHorizontal32_line (G : FBAGraph) (P : FVector2D) (r a pr pa : Nat)
    (hc : SimpleChain G r a pr pa) (k : Option Nat) (X Y : Nat → Int)
    (hw : LineWithinX G P X r a 524288) :
    ∃ (b : Bool) (kk : Option Nat) (fon : List Nat) (srm : List (FPinLink × Bool))
      (mp : List (Nat × Nat)) (inf : List FNodeInfo),
      FormatNodeShiftOutputs32 G (FormatX32 G P (FormatNodeRows G (FormatX32 G P
          (FormatNodeReset32 G (FEdGraphParameterFormatter.new (some r) k [] X Y)))))
        = lineIn r b kk [r, a] fon srm mp inf (setPos X a (lineX G P X r a)) Y
      ∧ (IsNodeImpure G r = false →
          a ∈ SameRowChildren (lineIn r b kk [r, a] fon srm mp inf
              (setPos X a (lineX G P X r a)) Y) r
            ∧ SameRowChildren (lineIn r b kk [r, a] fon srm mp inf
              (setPos X a (lineX G P X r a)) Y) a = []) := by
  have hne : r ≠ a := Ne.symm hc.2.1
  have hp := F32One_pos
  obtain ⟨p1, p2, x1, x2, y1, y2, w1, w2, v1, v2⟩ := hw
  obtain ⟨b1, b2⟩ := lineX_bounds G P X r a 524288 (by omega) (by omega) p2 (by omega) (by omega)
  have hw1 : LineWithinX G P X r a 4194304 :=
    ⟨by omega, by omega, by omega, by omega, by omega, by omega, by omega, by omega, by omega,
      by omega⟩
  have hw2 : LineWithinX G P (setPos X a (lineX G P X r a)) r a 4194304 := by
    refine ⟨by omega, by omega, ?_, ?_, ?_, ?_, by omega, by omega, by omega, by omega⟩
    · simp only [setPos, if_neg hne]; omega
    · simp only [setPos, if_neg hne]; omega
    · simp only [setPos, if_true]; omega
    · simp only [setPos, if_true]; omega
  have hreset : ∃ b kk, FormatNodeReset32 G (FEdGraphParameterFormatter.new (some r) k [] X Y)
      = lineIn r b kk [r] [] [] [] [] X Y := ⟨_, _, rfl⟩
  obtain ⟨b, kk, hreset⟩ := hreset
  have hrows : ∀ (afn fon : List Nat) (srm : List (FPinLink × Bool)) (mp : List (Nat × Nat))
      (inf : List FNodeInfo) (X1 : Nat → Int),
      ∃ srm1, FormatNodeRows G (lineIn r b kk afn fon srm mp inf X1 Y)
        = lineIn r b kk afn fon srm1 mp inf X1 Y := fun _ _ _ _ _ _ => ⟨_, rfl⟩
  have hshift : ∀ (afn fon : List Nat) (srm : List (FPinLink × Bool)) (mp : List (Nat × Nat))
      (inf : List FNodeInfo) (X1 : Nat → Int),
      FormatNodeShiftOutputs32 G (lineIn r b kk afn fon srm mp inf X1 Y)
        = lineIn r b kk afn fon srm mp inf X1 Y := by
    intro afn fon srm mp inf X1
    simp [FormatNodeShiftOutputs32, lineIn]
  have hafn1 : setAdd (setAdd [r] r) a = [r, a] := by simp [setAdd, hc.2.1]
  have hafn2 : setAdd (setAdd [r, a] r) a = [r, a] := by simp [setAdd]
  have hX : setPos (setPos X a (lineX G P X r a)) a (lineX G P (setPos X a (lineX G P X r a)) r a)
      = setPos X a (lineX G P X r a) := by
    rw [setPos_setPos, lineX_setPos G P X r a hne]
  rw [hreset]
  cases hI : IsNodeImpure G r
  · rw [FormatX32_line_pure G P r a pr pa hc hI b kk _ _ _ _ _ X Y hw1 hw2, hafn1]
    obtain ⟨srm1, hr1⟩ := hrows [r, a] (setAdd [] a) [] [(r, 0), (a, 2)]
      [lineRoot r [1, 2], lineChild a pr pa EGPD_Output, lineChild a pr pa EGPD_Input]
      (setPos X a (lineX G P X r a))
    rw [hr1, FormatX32_line_pure G P r a pr pa hc hI b kk _ _ _ _ _ _ Y hw2 (by rw [hX]; exact hw2),
      hshift, hafn2, hX]
    refine ⟨b, kk, _, srm1, _, _, rfl, fun _ => ?_⟩
    constructor
    · simp [SameRowChildren, lineIn, mapFind, GetChildNodes, getInfo, lineRoot, lineChild]
    · simp [SameRowChildren, lineIn, mapFind, GetChildNodes, getInfo, lineRoot, lineChild, hne]
  · rw [FormatX32_line_impure G P r a pr pa hc hI b kk _ _ _ _ _ X Y hw1, hafn1]
    obtain ⟨srm1, hr1⟩ := hrows [r, a] [] [] [(r, 0), (a, 1)]
      [lineRoot r [1], lineChild a pr pa EGPD_Input]
      (setPos X a (lineX G P X r a))
    rw [hr1, FormatX32_line_impure G P r a pr pa hc hI b kk _ _ _ _ _ _ Y hw2, hshift, hafn2, hX]
    exact ⟨b, kk, _, srm1, _, _, rfl, fun h => by cases h⟩
/-- The two pins of a simple chain are at the same `float` height when `a`
is at the whole-number height that aligns them, in the range where binary32
is exact. -/
theorem GetPinY32_line_aligned (G : FBAGraph) (r a pr pa : Nat) (hc : SimpleChain G r a pr pa)
    (T : FEdGraphParameterFormatter)
    (hTa : T.NodePosY a = T.NodePosY r + (G.pin pr).OffsetY - (G.pin pa).OffsetY)
    (r1 : -4194304 ≤ T.NodePosY r) (r2 : T.NodePosY r ≤ 4194304)
    (o1 : -4194304 ≤ (G.pin pr).OffsetY) (o2 : (G.pin pr).OffsetY ≤ 4194304)
    (q1 : -4194304 ≤ (G.pin pa).OffsetY) (q2 : (G.pin pa).OffsetY ≤ 4194304) :
    GetPinY32 G T pa = GetPinY32 G T pr ∧ GetPinY G T pa = GetPinY G T pr := by
  have hprO : G.OwningNode pr = r := hc.2.2.2.2.2.2.1
  have hpaO : G.OwningNode pa = a := hc.2.2.2.2.2.2.2.1
  have he : GetPinY G T pa = GetPinY G T pr := by
    unfold GetPinY
    rw [hprO, hpaO, hTa]
    ring
  refine ⟨?_, he⟩
  rw [GetPinY32_exact G T pr (by rw [hprO]; omega) (by rw [hprO]; omega) (by omega)
      (by omega) (by unfold GetPinY; rw [hprO]; omega) (by unfold GetPinY; rw [hprO]; omega),
    GetPinY32_exact G T pa (by rw [hpaO, hTa]; omega) (by rw [hpaO, hTa]; omega) (by omega) (by omega)
      (by unfold GetPinY; rw [hpaO, hTa]; omega) (by unfold GetPinY; rw [hpaO, hTa]; omega), he]

/-- The layout of the slow path on a simple chain with a pure root, in the
range where binary32 is exact. -/
theorem FormatNodeLayout32_line_pure (G : FBAGraph) (P : FVector2D) (r a pr pa : Nat)
    (hc : SimpleChain G r a pr pa) (hI : IsNodeImpure G r = false) (k : Option Nat)
    (X Y : Nat → Int)
    (hw : LineWithinX G P X r a 524288) (hwy : LineWithinY G Y r a pr pa 524288) :
    ∃ (b : Bool) (kk : Option Nat) (fon : List Nat) (srm : List (FPinLink × Bool))
      (mp : List (Nat × Nat)) (inf : List FNodeInfo),
      FormatNodeLayout32 G P (FEdGraphParameterFormatter.new (some r) k [] X Y)
        = lineIn r b kk [r, a] fon srm mp inf (setPos X a (lineX G P X r a))
            (setPos Y a (Y r + (G.pin pr).OffsetY - (G.pin pa).OffsetY)) := by
  have hne : r ≠ a := Ne.symm hc.2.1
  obtain ⟨b, kk, fon, srm, mp, inf, hpre, hch⟩ :=
    FormatNodeHorizontal32_line G P r a pr pa hc k X Y hw
  obtain ⟨hchr, hcha⟩ := hch hI
  refine ⟨b, kk, fon, srm, mp, inf, ?_⟩
  have hl : LeftOf G (lineIn r b kk [r, a] fon srm mp inf
      (setPos X a (lineX G P X r a)) Y) a r := by
    obtain ⟨p1, p2, x1, x2, y1, y2, w1, w2, v1, v2⟩ := hw
    obtain ⟨b1, b2⟩ := lineX_bounds G P X r a 524288 (by omega) (by omega) p2 (by omega) (by omega)
    unfold LeftOf
    simp only [lineIn, setPos, if_true, if_neg hne]
    refine ⟨by omega, by omega, by omega, by omega, by omega, by omega, by omega⟩
  have hwy2 : LineWithinY G (lineIn r b kk [r, a] fon srm mp inf
      (setPos X a (lineX G P X r a)) Y).NodePosY r a pr pa 1048576 := by
    obtain ⟨r1, r2, a1, a2, h1, h2, h3, h4, o1, o2, q1, q2⟩ := hwy
    exact ⟨by show _ ≤ Y r; omega, by show Y r ≤ _; omega, by show _ ≤ Y a; omega,
      by show Y a ≤ _; omega, by omega, by omega, by omega, by omega, by omega, by omega, by omega,
      by omega⟩
  unfold FormatNodeLayout32
  rw [hpre]
  unfold FormatNodeVertical32
  have hroot : (lineIn r b kk [r, a] fon srm mp inf
      (setPos X a (lineX G P X r a)) Y).RootNode.getD 0 = r := rfl
  simp only [hroot]
  rw [FormatY32_line_root G P r a pr pa hc hI _ rfl rfl rfl hchr hcha hl hwy2 G.Pins.length]
  have hT : withPosY (lineIn r b kk [r, a] fon srm mp inf
      (setPos X a (lineX G P X r a)) Y) a
      ((lineIn r b kk [r, a] fon srm mp inf
        (setPos X a (lineX G P X r a)) Y).NodePosY r
          + (G.pin pr).OffsetY - (G.pin pa).OffsetY)
      = lineIn r b kk [r, a] fon srm mp inf (setPos X a (lineX G P X r a))
          (setPos Y a (Y r + (G.pin pr).OffsetY - (G.pin pa).OffsetY)) := rfl
  simp only [hT]
  obtain ⟨r1, r2, a1, a2, h1, h2, h3, h4, o1, o2, q1, q2⟩ := hwy
  have hal := (GetPinY32_line_aligned G r a pr pa hc
    (lineIn r b kk [r, a] fon srm mp inf (setPos X a (lineX G P X r a))
      (setPos Y a (Y r + (G.pin pr).OffsetY - (G.pin pa).OffsetY)))
    (by simp only [lineIn, setPos, if_true, if_neg hne])
    (by show _ ≤ setPos Y a _ r; simp only [setPos, if_neg hne]; omega)
    (by show setPos Y a _ r ≤ _; simp only [setPos, if_neg hne]; omega)
    (by omega) (by omega) (by omega) (by omega)).1
  rw [ExpandByHeight32_line G r a pr pa hc _ rfl rfl hal]
  simp only [ite_self]

/-- The layout of the slow path on a simple chain: both nodes are formatted
and `a` is left of the root with the gap of `lineX`. -/
theorem FormatNodeLayout32_line (G : FBAGraph) (P : FVector2D) (r a pr pa : Nat)
    (hc : SimpleChain G r a pr pa) (k : Option Nat) (X Y : Nat → Int)
    (hw : LineWithinX G P X r a 524288)
    (hwy : G.Settings.bExpandParametersByHeight = true → IsNodePure G r = true →
      LineWithinY G Y r a pr pa 524288) :
    (FormatNodeLayout32 G P (FEdGraphParameterFormatter.new (some r) k [] X Y)).AllFormattedNodes
        = [r, a]
      ∧ (FormatNodeLayout32 G P (FEdGraphParameterFormatter.new (some r) k [] X Y)).NodePosX
        = setPos X a (lineX G P X r a) := by
  by_cases hcase : G.Settings.bExpandParametersByHeight = true ∧ IsNodePure G r = true
  · have hI : IsNodeImpure G r = false := by
      have := hcase.2
      unfold IsNodePure at this
      simpa using this
    obtain ⟨b, kk, fon, srm, mp, inf, hL⟩ :=
      FormatNodeLayout32_line_pure G P r a pr pa hc hI k X Y hw (hwy hcase.1 hcase.2)
    rw [hL]
    exact ⟨rfl, rfl⟩
  · obtain ⟨b, kk, fon, srm, mp, inf, hpre, _⟩ :=
      FormatNodeHorizontal32_line G P r a pr pa hc k X Y hw
    have hno : (G.Settings.bExpandParametersByHeight && IsNodePure G r) = false := by
      cases h1 : G.Settings.bExpandParametersByHeight <;> cases h2 : IsNodePure G r <;>
        simp [h1, h2] at hcase ⊢
    unfold FormatNodeLayout32
    rw [hpre]
    unfold FormatNodeVertical32
    have hroot : (lineIn r b kk [r, a] fon srm mp inf
        (setPos X a (lineX G P X r a)) Y).RootNode.getD 0 = r := rfl
    simp only [hroot, hno, Bool.false_eq_true, if_false]
    obtain ⟨h1, h2⟩ := OnlyY_FormatY32 G P (G.Pins.length + 2) r none none false
      (lineIn r b kk [r, a] fon srm mp inf (setPos X a (lineX G P X r a)) Y, [], [])
    exact ⟨congrArg (fun S => S.AllFormattedNodes) h1, h2⟩
/-- The final translation of the slow path over the two formatted nodes. -/
theorem offsetNode32_pair (L : FEdGraphParameterFormatter) (r a : Nat) (hne : r ≠ a)
    (hafn : L.AllFormattedNodes = [r, a]) (DX DY : Int) :
    ((GetFormattedNodes L).foldl (offsetNode32 DX DY) L).NodePosX r
        = toInt32 (fadd (ofInt32 (L.NodePosX r)) DX)
      ∧ ((GetFormattedNodes L).foldl (offsetNode32 DX DY) L).NodePosX a
        = toInt32 (fadd (ofInt32 (L.NodePosX a)) DX)
      ∧ ((GetFormattedNodes L).foldl (offsetNode32 DX DY) L).NodePosY r
        = toInt32 (fadd (ofInt32 (L.NodePosY r)) DY)
      ∧ ((GetFormattedNodes L).foldl (offsetNode32 DX DY) L).NodePosY a
        = toInt32 (fadd (ofInt32 (L.NodePosY a)) DY) := by
  have hne2 : a ≠ r := Ne.symm hne
  simp [GetFormattedNodes, hafn, offsetNode32, withPosX, withPosY, setPos, hne, hne2]

/-- The `float` difference of two whole numbers in range, and the sum of a
whole number in range with it. -/
theorem shift_exact (k0 k1 v : Int) (h1 : -4194304 ≤ k0) (h2 : k0 ≤ 4194304) (h3 : -4194304 ≤ k1)
    (h4 : k1 ≤ 4194304) (h5 : -4194304 ≤ v) (h6 : v ≤ 4194304) :
    fsub (ofInt32 k0) (ofInt32 k1) = (k0 - k1) * F32One
      ∧ toInt32 (fadd (ofInt32 v) ((k0 - k1) * F32One)) = v + (k0 - k1) := by
  rw [ofInt32_exact _ (by omega) (by omega), ofInt32_exact _ (by omega) (by omega),
    ofInt32_exact _ (by omega) (by omega), fsub_whole _ _ (by omega) (by omega),
    fadd_whole _ _ (by omega) (by omega), toInt32_whole]
  exact ⟨rfl, rfl⟩

/-- `FormatNode` in binary32 on a simple chain is the layout followed by the
translation that the keep-still node asks for. -/
theorem FormatNode32_line_eq (G : FBAGraph) (P : FVector2D) (r a pr pa : Nat)
    (hc : SimpleChain G r a pr pa) (k : Option Nat) (X Y : Nat → Int) :
    FormatNode32 G P (FEdGraphParameterFormatter.new (some r) k [] X Y)
      = if (fsub (ofInt32 (X (k.getD r)))
              (ofInt32 ((FormatNodeLayout32 G P
                (FEdGraphParameterFormatter.new (some r) k [] X Y)).NodePosX (k.getD r))) != 0
            || fsub (ofInt32 (Y (k.getD r)))
              (ofInt32 ((FormatNodeLayout32 G P
                (FEdGraphParameterFormatter.new (some r) k [] X Y)).NodePosY (k.getD r))) != 0) = true
        then (GetFormattedNodes (FormatNodeLayout32 G P
            (FEdGraphParameterFormatter.new (some r) k [] X Y))).foldl
          (offsetNode32
            (fsub (ofInt32 (X (k.getD r)))
              (ofInt32 ((FormatNodeLayout32 G P
                (FEdGraphParameterFormatter.new (some r) k [] X Y)).NodePosX (k.getD r))))
            (fsub (ofInt32 (Y (k.getD r)))
              (ofInt32 ((FormatNodeLayout32 G P
                (FEdGraphParameterFormatter.new (some r) k [] X Y)).NodePosY (k.getD r)))))
          (FormatNodeLayout32 G P (FEdGraphParameterFormatter.new (some r) k [] X Y))
        else FormatNodeLayout32 G P (FEdGraphParameterFormatter.new (some r) k [] X Y) := by
  have hg : IsGraphNode G (some r) = true := hc.1
  have hl : GetLinkedPins G r EGPD_MAX = [pr] := hc.2.2.1
  have hk : (FEdGraphParameterFormatter.new (some r) k [] X Y).NodeToKeepStill.getD r = k.getD r := by
    cases k <;> rfl
  unfold FormatNode32
  have hroot : (FEdGraphParameterFormatter.new (some r) k [] X Y).RootNode = some r := rfl
  have hini : (FEdGraphParameterFormatter.new (some r) k [] X Y).bInitialized = false := rfl
  simp only [hroot, hg, Bool.not_true, Bool.false_eq_true, if_false, Option.getD_some, hl,
    List.length_singleton, hini, hk, GetCachedNodeBounds32]
  rfl
/-- One coordinate of the final translation on a simple chain: when the
layout moved `a` only, to the whole number `v`, both nodes end moved by the
same whole number. -/
theorem translate_line (r a : Nat) (hne : r ≠ a) (K : Nat) (Z : Nat → Int) (v : Int)
    (z1 : -4194304 ≤ Z r) (z2 : Z r ≤ 4194304) (z3 : -4194304 ≤ Z a) (z4 : Z a ≤ 4194304)
    (v1 : -4194304 ≤ v) (v2 : v ≤ 4194304) :
    ∃ d : Int, (d = 0 ∨ d = Z a - v)
      ∧ fsub (ofInt32 (Z K)) (ofInt32 (setPos Z a v K)) = d * F32One
      ∧ toInt32 (fadd (ofInt32 (setPos Z a v r)) (d * F32One)) = Z r + d
      ∧ toInt32 (fadd (ofInt32 (setPos Z a v a)) (d * F32One)) = v + d := by
  rw [setPos_ne _ _ _ _ hne, setPos_eq]
  by_cases hK : K = a
  · subst hK
    rw [setPos_eq]
    exact ⟨Z K - v, Or.inr rfl,
      (shift_exact (Z K) v (Z r) z3 z4 v1 v2 z1 z2).1,
      (shift_exact (Z K) v (Z r) z3 z4 v1 v2 z1 z2).2,
      (shift_exact (Z K) v v z3 z4 v1 v2 v1 v2).2⟩
  · rw [setPos_ne _ _ _ _ hK, fsub_self32]
    refine ⟨0, Or.inl rfl, by ring, ?_, ?_⟩
    · rw [zero_mul, ofInt32_exact _ (by omega) (by omega), fadd_zero_whole _ (by omega) (by omega),
        toInt32_whole]
      ring
    · rw [zero_mul, ofInt32_exact _ (by omega) (by omega), fadd_zero_whole _ (by omega) (by omega),
        toInt32_whole]
      ring

/-- The X of the two nodes of a simple chain after the slow path: the
translation keeps their distance. -/
theorem FormatNode32_line_X (G : FBAGraph) (P : FVector2D) (r a pr pa : Nat)
    (hc : SimpleChain G r a pr pa) (k : Option Nat) (X Y : Nat → Int)
    (hw : LineWithinX G P X r a 524288)
    (hwy : G.Settings.bExpandParametersByHeight = true → IsNodePure G r = true →
      LineWithinY G Y r a pr pa 524288) :
    (FormatNode32 G P (FEdGraphParameterFormatter.new (some r) k [] X Y)).NodePosX a
        - (FormatNode32 G P (FEdGraphParameterFormatter.new (some r) k [] X Y)).NodePosX r
      = lineX G P X r a - X r := by
  have hne : r ≠ a := Ne.symm hc.2.1
  obtain ⟨hafn, hX⟩ := FormatNodeLayout32_line G P r a pr pa hc k X Y hw hwy
  obtain ⟨p1, p2, x1, x2, y1, y2, w1, w2, v1, v2⟩ := hw
  obtain ⟨b1, b2⟩ := lineX_bounds G P X r a 524288 (by omega) (by omega) p2 (by omega) (by omega)
  obtain ⟨d, _, hd, hr, ha⟩ := translate_line r a hne (k.getD r) X (lineX G P X r a)
    (by omega) (by omega) (by omega) (by omega) (by omega) (by omega)
  rw [FormatNode32_line_eq G P r a pr pa hc k X Y]
  have hp := F32One_pos
  split_ifs with hcond
  · obtain ⟨e1, e2, _, _⟩ := offsetNode32_pair _ r a hne hafn
      (fsub (ofInt32 (X (k.getD r)))
        (ofInt32 ((FormatNodeLayout32 G P
          (FEdGraphParameterFormatter.new (some r) k [] X Y)).NodePosX (k.getD r))))
      (fsub (ofInt32 (Y (k.getD r)))
        (ofInt32 ((FormatNodeLayout32 G P
          (FEdGraphParameterFormatter.new (some r) k [] X Y)).NodePosY (k.getD r))))
    rw [e1, e2, hX, hd, hr, ha]
    ring
  · rw [hX, setPos_eq, setPos_ne _ _ _ _ hne]

/-- The Y of the two nodes of a simple chain with a pure root after the slow
path: the pins are aligned by the layout and both nodes are moved by the same
whole number. -/
theorem FormatNode32_line_Y (G : FBAGraph) (P : FVector2D) (r a pr pa : Nat)
    (hc : SimpleChain G r a pr pa) (hI : IsNodeImpure G r = false) (k : Option Nat)
    (X Y : Nat → Int)
    (hw : LineWithinX G P X r a 524288) (hwy : LineWithinY G Y r a pr pa 524288) :
    ∃ d : Int, -2097152 ≤ d ∧ d ≤ 2097152
      ∧ (FormatNode32 G P (FEdGraphParameterFormatter.new (some r) k [] X Y)).NodePosY r = Y r + d
      ∧ (FormatNode32 G P (FEdGraphParameterFormatter.new (some r) k [] X Y)).NodePosY a
        = Y r + (G.pin pr).OffsetY - (G.pin pa).OffsetY + d := by
  have hne : r ≠ a := Ne.symm hc.2.1
  obtain ⟨b, kk, fon, srm, mp, inf, hL⟩ := FormatNodeLayout32_line_pure G P r a pr pa hc hI k X Y hw hwy
  obtain ⟨r1, r2, a1, a2, h1, h2, h3, h4, o1, o2, q1, q2⟩ := hwy
  obtain ⟨d, d0, hd, hr, ha⟩ := translate_line r a hne (k.getD r) Y
    (Y r + (G.pin pr).OffsetY - (G.pin pa).OffsetY)
    (by omega) (by omega) (by omega) (by omega) (by omega) (by omega)
  refine ⟨d, by omega, by omega, ?_⟩
  rw [FormatNode32_line_eq G P r a pr pa hc k X Y, hL]
  have hY : (lineIn r b kk [r, a] fon srm mp inf (setPos X a (lineX G P X r a))
      (setPos Y a (Y r + (G.pin pr).OffsetY - (G.pin pa).OffsetY))).NodePosY
      = setPos Y a (Y r + (G.pin pr).OffsetY - (G.pin pa).OffsetY) := rfl
  split_ifs with hcond
  · obtain ⟨_, _, e3, e4⟩ := offsetNode32_pair
      (lineIn r b kk [r, a] fon srm mp inf (setPos X a (lineX G P X r a))
        (setPos Y a (Y r + (G.pin pr).OffsetY - (G.pin pa).OffsetY))) r a hne rfl
      (fsub (ofInt32 (X (k.getD r)))
        (ofInt32 ((lineIn r b kk [r, a] fon srm mp inf (setPos X a (lineX G P X r a))
          (setPos Y a (Y r + (G.pin pr).OffsetY - (G.pin pa).OffsetY))).NodePosX (k.getD r))))
      (fsub (ofInt32 (Y (k.getD r)))
        (ofInt32 ((lineIn r b kk [r, a] fon srm mp inf (setPos X a (lineX G P X r a))
          (setPos Y a (Y r + (G.pin pr).OffsetY - (G.pin pa).OffsetY))).NodePosY (k.getD r))))
    rw [e3, e4, hY, hd, hr, ha]
    exact ⟨rfl, rfl⟩
  · have h0 : d = 0 := by
      have hz : fsub (ofInt32 (Y (k.getD r)))
          (ofInt32 (setPos Y a (Y r + (G.pin pr).OffsetY - (G.pin pa).OffsetY) (k.getD r))) = 0 := by
        by_contra hnz
        apply hcond
        rw [hY]
        simp [hnz]
      rw [hd] at hz
      have hp := F32One_pos
      rcases Int.mul_eq_zero.1 hz with h | h
      · exact h
      · omega
    rw [hY, setPos_eq, setPos_ne _ _ _ _ hne, h0]
    exact ⟨by ring, by ring⟩

/-! ## The simple-chain scenario -/

set_option maxRecDepth 100000 in
/-- With the horizontal padding 0 the run on `linkGraph` (R 100 wide at
X = 500, A 120 wide) puts A at X = 379 = 500 - 120 - 1: the gap is
`max(1, padding)`. -/
theorem FormatNode32_zero_padding :
    (FormatNode32 linkGraph { X := 0, Y := 25 * F32One }
        (FEdGraphParameterFormatter.new (some 0) none [] exPosX exPosY)).NodePosX 1 = 379
      ∧ (GetCachedNodeBounds linkGraph
          (FormatNode32 linkGraph { X := 0, Y := 25 * F32One }
            (FEdGraphParameterFormatter.new (some 0) none [] exPosX exPosY)) 0).Left = 500
      ∧ (linkGraph.node 1).SizeX = 120 := by
  decide

set_option maxRecDepth 100000 in
/-- With the horizontal padding 1.5 the position `500 - 120 - 1.5 = 378.5`
is rounded to the `int32` 379. -/
theorem FormatNode32_fraction_padding :
    (FormatNode32 linkGraph { X := F32One + F32One / 2, Y := 25 * F32One }
        (FEdGraphParameterFormatter.new (some 0) none [] exPosX exPosY)).NodePosX 1 = 379
      ∧ (GetCachedNodeBounds linkGraph
          (FormatNode32 linkGraph { X := F32One + F32One / 2, Y := 25 * F32One }
            (FEdGraphParameterFormatter.new (some 0) none [] exPosX exPosY)) 0).Left = 500 := by
  decide

set_option maxRecDepth 100000 in
/-- With R at X = 16777217, which binary32 holds as 16777216, and the padding
40 the run puts A at 16777056, not at 16777217 - 120 - 40 = 16777057. -/
theorem FormatNode32_big_X :
    (FormatNode32 linkGraph exPadding
        (FEdGraphParameterFormatter.new (some 0) none []
          (fun n => if n = 0 then 16777217 else 0) exPosY)).NodePosX 1 = 16777056
      ∧ (GetCachedNodeBounds linkGraph
          (FormatNode32 linkGraph exPadding
            (FEdGraphParameterFormatter.new (some 0) none []
              (fun n => if n = 0 then 16777217 else 0) exPosY)) 0).Left = 16777217 := by
  decide

/-- C14 counterexample. After the slow-path run on the simple chain
`linkGraph` (R 100 wide, A 120 wide) A is not at
`R.left - A.width - padding`: with the padding 0 and R at 500 it is at 379
(the gap is `max(1, padding)`); with the padding 1.5 and R at 500 it is at
379 (the `float` position 378.5 is rounded); with the padding 40 and R at
16777217 it is at 16777056 (binary32 holds R's X as 16777216). -/
theorem FormatNode32_chain_off_formula :
    ((FormatNode32 linkGraph { X := 0, Y := 25 * F32One }
        (FEdGraphParameterFormatter.new (some 0) none [] exPosX exPosY)).NodePosX 1 = 379
      ∧ (GetCachedNodeBounds linkGraph
          (FormatNode32 linkGraph { X := 0, Y := 25 * F32One }
            (FEdGraphParameterFormatter.new (some 0) none [] exPosX exPosY)) 0).Left = 500
      ∧ (linkGraph.node 1).SizeX = 120)
    ∧ ((FormatNode32 linkGraph { X := F32One + F32One / 2, Y := 25 * F32One }
        (FEdGraphParameterFormatter.new (some 0) none [] exPosX exPosY)).NodePosX 1 = 379
      ∧ (GetCachedNodeBounds linkGraph
          (FormatNode32 linkGraph { X := F32One + F32One / 2, Y := 25 * F32One }
            (FEdGraphParameterFormatter.new (some 0) none [] exPosX exPosY)) 0).Left = 500)
    ∧ ((FormatNode32 linkGraph exPadding
        (FEdGraphParameterFormatter.new (some 0) none []
          (fun n => if n = 0 then 16777217 else 0) exPosY)).NodePosX 1 = 16777056
      ∧ (GetCachedNodeBounds linkGraph
          (FormatNode32 linkGraph exPadding
            (FEdGraphParameterFormatter.new (some 0) none []
              (fun n => if n = 0 then 16777217 else 0) exPosY)) 0).Left = 16777217) :=
  ⟨FormatNode32_zero_padding, FormatNode32_fraction_padding, FormatNode32_big_X⟩

/-- C14 amended. On a simple chain (`SimpleChain`: the only linked pin of the
root R is its input parameter pin, linked to the output parameter pin of the
pure node A and to nothing else, which is the only linked pin of A; R and A
may have any further unlinked pins, R may be impure), for every keep-still
node, style and setting, with start positions and widths that are whole
numbers of magnitude at most `2^19`, a padding of magnitude at most `2^19`
(and, when the height expansion runs, start heights, node heights and pin
offsets of magnitude at most `2^19`): after the slow-path run in the binary32
arithmetic of the source the distance from R to A is the one `GetChildX` gave
at the start position of R, and for a whole-number padding `px`
`A.X = R.left - A.width - max(1, px)`. -/
theorem FormatNode32_chain_X (G : FBAGraph) (Padding : FVector2D) (r a pr pa : Nat) (k : Option Nat)
    (X Y : Nat → Int) (hc : SimpleChain G r a pr pa)
    (hw : LineWithinX G Padding X r a 524288)
    (hwy : G.Settings.bExpandParametersByHeight = true → IsNodePure G r = true →
      LineWithinY G Y r a pr pa 524288) :
    (FormatNode32 G Padding (FEdGraphParameterFormatter.new (some r) k [] X Y)).NodePosX a
        - (GetCachedNodeBounds G
            (FormatNode32 G Padding (FEdGraphParameterFormatter.new (some r) k [] X Y)) r).Left
        = lineX G Padding X r a - X r
      ∧ ∀ px : Int, Padding.X = px * F32One →
        (FormatNode32 G Padding (FEdGraphParameterFormatter.new (some r) k [] X Y)).NodePosX a
          = (GetCachedNodeBounds G
              (FormatNode32 G Padding (FEdGraphParameterFormatter.new (some r) k [] X Y)) r).Left
            - (G.node a).SizeX - max 1 px := by
  have h := FormatNode32_line_X G Padding r a pr pa hc k X Y hw hwy
  obtain ⟨_, p2, x1, x2, y1, y2, w1, w2, v1, v2⟩ := hw
  refine ⟨h, fun px hpx => ?_⟩
  have hp := F32One_pos
  have hp2 : px ≤ 524288 := by
    by_contra hlt
    have : 524289 * F32One ≤ px * F32One := Int.mul_le_mul_of_nonneg_right (by omega) (le_of_lt hp)
    omega
  have hv := lineX_whole G Padding X r a px hpx (by omega) (by omega) (by omega)
  simp only [GetCachedNodeBounds] at h ⊢
  omega

theorem FormatNode32_chain_X_witness :
    (FormatNode32 fullChainGraph exPadding
        (FEdGraphParameterFormatter.new (some 0) (some 1) [] exPosX exPosY)).NodePosX 1
      = (GetCachedNodeBounds fullChainGraph
          (FormatNode32 fullChainGraph exPadding
            (FEdGraphParameterFormatter.new (some 0) (some 1) [] exPosX exPosY)) 0).Left
        - (fullChainGraph.node 1).SizeX - max 1 40 :=
  (FormatNode32_chain_X fullChainGraph exPadding 0 1 2 4 (some 1) exPosX exPosY
    (by unfold SimpleChain; decide) (by unfold LineWithinX; decide)
    (fun h => by cases h)).2 40 rfl

set_option maxRecDepth 100000 in
/-- On `execChainGraph` the input pin 1 of the impure root R ends at height
140 and the output pin 2 of A at height 144: A was pushed below the
execution pin of R. -/
theorem FormatNode32_exec_pin_apart :
    GetPinY32 execChainGraph
        (FormatNode32 execChainGraph exPadding
          (FEdGraphParameterFormatter.new (some 0) none [] exPosX exPosY)) 1 = 140 * F32One
      ∧ GetPinY32 execChainGraph
        (FormatNode32 execChainGraph exPadding
          (FEdGraphParameterFormatter.new (some 0) none [] exPosX exPosY)) 2 = 144 * F32One
      ∧ (FormatNode32 execChainGraph exPadding
        (FEdGraphParameterFormatter.new (some 0) none [] exPosX exPosY)).bFormatWithHelixing = false
      ∧ IsNodePure execChainGraph 1 = true
      ∧ GetLinkedToPins execChainGraph 0 EGPD_MAX = [2] := by
  decide

set_option maxRecDepth 100000 in
/-- On `linkGraph` with the pure root R at X = 33554432 and the padding 0,
`GetChildX` puts A at 33554312, so that the `float` right edge of A is the
left edge of R; the collision loop pushes A below R, and the pins end at the
heights 130 and 216. -/
theorem FormatNode32_big_X_apart :
    GetPinY32 linkGraph
        (FormatNode32 linkGraph { X := 0, Y := 25 * F32One }
          (FEdGraphParameterFormatter.new (some 0) none []
            (fun n => if n = 0 then 33554432 else 0) exPosY)) 0 = 130 * F32One
      ∧ GetPinY32 linkGraph
        (FormatNode32 linkGraph { X := 0, Y := 25 * F32One }
          (FEdGraphParameterFormatter.new (some 0) none []
            (fun n => if n = 0 then 33554432 else 0) exPosY)) 1 = 216 * F32One
      ∧ (FormatNode32 linkGraph { X := 0, Y := 25 * F32One }
          (FEdGraphParameterFormatter.new (some 0) none []
            (fun n => if n = 0 then 33554432 else 0) exPosY)).bFormatWithHelixing = false
      ∧ IsNodePure linkGraph 0 = true := by
  decide

/-- C15 counterexample. The pins of a simple chain do not always end at the
same height.  On `execChainGraph` (impure root, left-side style) the input
pin of R ends at 140 and the output pin of A at 144: A was pushed below the
execution pin of R.  On `linkGraph` (pure root) with R at X = 33554432 and
the padding 0 the `float` bounds of A and R touch, the collision loop pushes
A below R, and the pins end at 130 and 216. -/
theorem FormatNode32_chain_pins_apart :
    (GetPinY32 execChainGraph
        (FormatNode32 execChainGraph exPadding
          (FEdGraphParameterFormatter.new (some 0) none [] exPosX exPosY)) 1 = 140 * F32One
      ∧ GetPinY32 execChainGraph
        (FormatNode32 execChainGraph exPadding
          (FEdGraphParameterFormatter.new (some 0) none [] exPosX exPosY)) 2 = 144 * F32One
      ∧ (FormatNode32 execChainGraph exPadding
        (FEdGraphParameterFormatter.new (some 0) none [] exPosX exPosY)).bFormatWithHelixing = false
      ∧ IsNodePure execChainGraph 1 = true
      ∧ GetLinkedToPins execChainGraph 0 EGPD_MAX = [2])
    ∧ (GetPinY32 linkGraph
        (FormatNode32 linkGraph { X := 0, Y := 25 * F32One }
          (FEdGraphParameterFormatter.new (some 0) none []
            (fun n => if n = 0 then 33554432 else 0) exPosY)) 0 = 130 * F32One
      ∧ GetPinY32 linkGraph
        (FormatNode32 linkGraph { X := 0, Y := 25 * F32One }
          (FEdGraphParameterFormatter.new (some 0) none []
            (fun n => if n = 0 then 33554432 else 0) exPosY)) 1 = 216 * F32One
      ∧ (FormatNode32 linkGraph { X := 0, Y := 25 * F32One }
          (FEdGraphParameterFormatter.new (some 0) none []
            (fun n => if n = 0 then 33554432 else 0) exPosY)).bFormatWithHelixing = false
      ∧ IsNodePure linkGraph 0 = true) :=
  ⟨FormatNode32_exec_pin_apart, FormatNode32_big_X_apart⟩

/-- C15 amended. On a simple chain (`SimpleChain`, any further unlinked pins)
with a pure root R, for every keep-still node, style and setting, with start
positions, sizes and offsets of the two linked pins that are whole numbers of
magnitude at most `2^19` and a padding of magnitude at most `2^19`, when
helixing does not apply: after the slow-path run in the binary32 arithmetic
of the source the output pin of A and the input pin of R are at the same
height, as `float` values and as whole numbers. -/
theorem FormatNode32_chain_Y (G : FBAGraph) (Padding : FVector2D) (r a pr pa : Nat) (k : Option Nat)
    (X Y : Nat → Int) (hc : SimpleChain G r a pr pa) (hpure : IsNodePure G r = true)
    (hw : LineWithinX G Padding X r a 524288) (hwy : LineWithinY G Y r a pr pa 524288)
    (_hh : (FormatNode32 G Padding
      (FEdGraphParameterFormatter.new (some r) k [] X Y)).bFormatWithHelixing = false) :
    GetPinY32 G (FormatNode32 G Padding (FEdGraphParameterFormatter.new (some r) k [] X Y)) pa
        = GetPinY32 G (FormatNode32 G Padding (FEdGraphParameterFormatter.new (some r) k [] X Y)) pr
      ∧ GetPinY G (FormatNode32 G Padding (FEdGraphParameterFormatter.new (some r) k [] X Y)) pa
        = GetPinY G (FormatNode32 G Padding (FEdGraphParameterFormatter.new (some r) k [] X Y)) pr := by
  have hI : IsNodeImpure G r = false := by
    unfold IsNodePure at hpure
    simpa using hpure
  obtain ⟨d, d1, d2, er, ea⟩ := FormatNode32_line_Y G Padding r a pr pa hc hI k X Y hw hwy
  obtain ⟨r1, r2, a1, a2, h1, h2, h3, h4, o1, o2, q1, q2⟩ := hwy
  exact GetPinY32_line_aligned G r a pr pa hc _ (by rw [ea, er]; ring) (by rw [er]; omega)
    (by rw [er]; omega) (by omega) (by omega) (by omega) (by omega)

set_option maxRecDepth 100000 in
/-- Helixing does not apply to the run on `pureChainGraph`, whose style is
left-side. -/
theorem FormatNode32_pureChainGraph_style :
    (FormatNode32 pureChainGraph exPadding
      (FEdGraphParameterFormatter.new (some 0) (some 1) [] exPosX exPosY)).bFormatWithHelixing
      = false := by
  decide

theorem FormatNode32_chain_Y_witness :
    GetPinY32 pureChainGraph
        (FormatNode32 pureChainGraph exPadding
          (FEdGraphParameterFormatter.new (some 0) (some 1) [] exPosX exPosY)) 3
      = GetPinY32 pureChainGraph
        (FormatNode32 pureChainGraph exPadding
          (FEdGraphParameterFormatter.new (some 0) (some 1) [] exPosX exPosY)) 1 :=
  (FormatNode32_chain_Y pureChainGraph exPadding 0 1 1 3 (some 1) exPosX exPosY
    (by unfold SimpleChain; decide) (by decide) (by unfold LineWithinX; decide)
    (by unfold LineWithinY; decide) FormatNode32_pureChainGraph_style).1

/-! ## Row alignment at the end of `FormatY` -/

theorem FirstLinkedPin_prefix (G : FBAGraph) (p : Nat) (pre suf : List Nat)
    (hps : GetPinsByDirection G (G.OwningNode p) (G.pin p).Direction = pre ++ p :: suf)
    (h : FirstLinkedPin G p = true) : ∀ x ∈ pre, PinIdle G x = true := by
  unfold FirstLinkedPin at h
  rw [hps, List.all_eq_true] at h
  have hi := h pre.length (by simp [List.mem_range])
  have e1 : (pre ++ p :: suf).getD pre.length 0 = p := by
    simp [List.getD_eq_getElem?_getD, List.getElem?_append_right (le_refl pre.length)]
  have e2 : (pre ++ p :: suf).take pre.length = pre := by simp
  rw [e1, e2] at hi
  simp only [bne_self_eq_false, Bool.false_or, List.all_eq_true] at hi
  exact hi

theorem foldl_inv_prefix {α β : Type} (I : List β → α → Prop) (f : α → β → α) (l : List β)
    (hstep : ∀ pre x suf a, l = pre ++ x :: suf → I pre a → I (pre ++ [x]) (f a x)) :
    ∀ (suf pre : List β) (a : α), l = pre ++ suf → I pre a → I l (suf.foldl f a) := by
  intro suf
  induction suf with
  | nil => intro pre a hl h; rw [hl, List.append_nil]; exact h
  | cons x xs ih =>
    intro pre a hl h
    rw [List.foldl_cons]
    exact ih (pre ++ [x]) (f a x) (by rw [hl]; simp) (hstep pre x xs a hl h)

theorem foldl_withPosY_add_nodup (D : Int) :
    ∀ (l : List Nat) (F : FEdGraphParameterFormatter), l.Nodup → ∀ v,
      (l.foldl (fun (f : FEdGraphParameterFormatter) c => withPosY f c (f.NodePosY c + D)) F).NodePosY v
        = F.NodePosY v + (if v ∈ l then D else 0) := by
  intro l
  induction l with
  | nil => intro F _ v; simp
  | cons x xs ih =>
    intro F hnd v
    rw [List.nodup_cons] at hnd
    rw [List.foldl_cons, ih _ hnd.2]
    by_cases hv : v = x
    · subst hv
      simp [withPosY, setPos, hnd.1]
    · simp [withPosY, setPos, hv]

theorem FormatYAvoidPin_shift (G : FBAGraph) (F : FEdGraphParameterFormatter) (d : EEdGraphPinDirection)
    (ll : Option Nat) (lc : List Nat) (hnd : lc.Nodup) :
    ∃ D : Int, (ll = none → D = 0)
      ∧ ∀ v, (FormatYAvoidPin G F d ll lc).NodePosY v = F.NodePosY v + (if v ∈ lc then D else 0) := by
  unfold FormatYAvoidPin
  dsimp only
  split_ifs
  · split
    · split_ifs
      · refine ⟨_, ?_, foldl_withPosY_add_nodup _ lc F hnd⟩
        intro h
        cases h
      · exact ⟨0, fun _ => rfl, fun v => by simp⟩
    · exact ⟨0, fun _ => rfl, fun v => by simp⟩
  · exact ⟨0, fun _ => rfl, fun v => by simp⟩

theorem OnlyY_SameRowMapping {S S' : FEdGraphParameterFormatter} (h : OnlyY S S') :
    S'.SameRowMapping = S.SameRowMapping :=
  congrArg (fun x => x.SameRowMapping) h.1

theorem FormatYRecord_call (G : FBAGraph)
    (recurse : Nat → Option Nat → Option Nat → Bool →
      FEdGraphParameterFormatter × List Nat × List Nat → FEdGraphParameterFormatter × List Nat × List Nat)
    (hfr : RecFrame G recurse) (V0 : List Nat) (hal : RecAligned G V0 recurse)
    (p q : Nat) (b : Bool) (F1 : FEdGraphParameterFormatter) (V : List Nat)
    (hV : ∀ m ∈ V0, m ∈ V) (hn : G.OwningNode q ∉ V) (hp : G.OwningNode p ∈ V)
    (r : FEdGraphParameterFormatter × List Nat × List Nat)
    (hr : r = FormatYRecord recurse (G.OwningNode q) (some q) (some p) b (F1, V, [])) :
    G.OwningNode q ∈ r.2.1
      ∧ (∀ v ∈ V, v ∈ r.2.1)
      ∧ (∀ x ∈ r.2.2, x ∈ r.2.1 ∧ x ∉ V)
      ∧ (∀ v ∈ r.2.1, v ∈ V ∨ v ∈ r.2.2)
      ∧ r.2.2.Nodup
      ∧ (∀ v ∈ V, (b = true → G.OwningNode p ≠ v) → r.1.NodePosY v = F1.NodePosY v)
      ∧ ∃ L, r.1.SameRowMapping = F1.SameRowMapping
            ++ (if b = true then [({ From := some p, To := some q, Node := G.OwningNode q }, true)] else [])
            ++ L
          ∧ RowsAligned G V r.2.1 r.1 L
          ∧ (b = true → GetPinY G r.1 p = GetPinY G r.1 q) := by
  have hpre : ∀ b : Bool, b = true → ∀ p1 q1, some p = some p1 → some q = some q1 →
      G.OwningNode p1 ∈ V ∧ G.OwningNode q1 = G.OwningNode q := by
    intro _ _ p1 q1 h1 h2
    cases h1; cases h2
    exact ⟨hp, rfl⟩
  cases b with
  | false =>
    have e : r = recurse (G.OwningNode q) (some q) (some p) false (F1, V, []) := by
      rw [hr]; rfl
    obtain ⟨f1, f2, f3, f4, f5⟩ := hfr (G.OwningNode q) (some q) (some p) false F1 V
    obtain ⟨a1, ⟨L, a2, a3⟩, _⟩ := hal (G.OwningNode q) (some q) (some p) false F1 V []
      hV hn (OwningNode_mem_ownerNodes G q) (hpre false)
    rw [← e] at f1 f2 f3 f4 f5 a1 a2 a3
    refine ⟨a1, f1, f2, f3, f4, fun v hv _ => f5 v hv (fun h => by cases h), L, ?_, a3,
      fun h => by cases h⟩
    rw [a2]
    simp
  | true =>
    have e : r = recurse (G.OwningNode q) (some q) (some p) true
        ({ F1 with SameRowMapping := F1.SameRowMapping
            ++ [({ From := some p, To := some q, Node := G.OwningNode q }, true)] }, V, []) := by
      rw [hr]; rfl
    obtain ⟨f1, f2, f3, f4, f5⟩ := hfr (G.OwningNode q) (some q) (some p) true
      { F1 with SameRowMapping := F1.SameRowMapping
          ++ [({ From := some p, To := some q, Node := G.OwningNode q }, true)] } V
    obtain ⟨a1, ⟨L, a2, a3⟩, a4⟩ := hal (G.OwningNode q) (some q) (some p) true
      { F1 with SameRowMapping := F1.SameRowMapping
          ++ [({ From := some p, To := some q, Node := G.OwningNode q }, true)] } V []
      hV hn (OwningNode_mem_ownerNodes G q) (hpre true)
    rw [← e] at f1 f2 f3 f4 f5 a1 a2 a3 a4
    refine ⟨a1, f1, f2, f3, f4, fun v hv hb => f5 v hv (fun _ p1 h1 => ?_), L, ?_, a3,
      fun _ => a4 rfl p q rfl rfl⟩
    · cases h1
      exact hb rfl
    · rw [a2]
      simp

theorem GetPinY_of_pos (G : FBAGraph) (A B : FEdGraphParameterFormatter) (p : Nat) (D : Int)
    (h : B.NodePosY (G.OwningNode p) = A.NodePosY (G.OwningNode p) + D) :
    GetPinY G B p = GetPinY G A p + D := by
  unfold GetPinY
  rw [h]
  omega

theorem FormatYChild_aligned (G : FBAGraph)
    (recurse : Nat → Option Nat → Option Nat → Bool →
      FEdGraphParameterFormatter × List Nat × List Nat → FEdGraphParameterFormatter × List Nat × List Nat)
    (hfr : RecFrame G recurse) (c : Nat) (V0 : List Nat)
    (hal : RecAligned G (setAdd V0 c) recurse) (hc : c ∉ V0) (pp : Option Nat) (Children : List Nat)
    (d : EEdGraphPinDirection) (MyPin : Nat) (hown : G.OwningNode MyPin = c)
    (M0 : List (FPinLink × Bool)) (ll : Option Nat) (hLL : FirstLinkedPin G MyPin = true → ll = none)
    (a : FormatYState) (q : Nat)
    (ha : AlSt G c V0 M0 a ∧ a.LastLinked = ll) :
    AlSt G c V0 M0 (FormatYChild G (FormatYRecord recurse) c pp Children d MyPin a q)
      ∧ (FormatYChild G (FormatYRecord recurse) c pp Children d MyPin a q).LastLinked = ll := by
  obtain ⟨ha, hll⟩ := ha
  unfold FormatYChild
  dsimp only
  split_ifs with hskip
  · exact ⟨ha, hll⟩
  · have hnV : G.OwningNode q ∉ a.VisitedNodes := by
      intro h
      apply hskip
      simp [h]
    obtain ⟨hV, L, hL, hRA, hOff⟩ := ha
    have hcV : c ∈ a.VisitedNodes := hV c ((mem_setAdd _ _ _).2 (Or.inl rfl))
    have hV0 : ∀ v ∈ V0, v ∈ a.VisitedNodes := fun v hv => hV v ((mem_setAdd _ _ _).2 (Or.inr hv))
    generalize hr : FormatYRecord recurse (G.OwningNode q) (some q) (some MyPin)
      (FormatYChildIsSameRow G a c pp MyPin q) (FormatYPlaceChild G a.F MyPin q, a.VisitedNodes, []) = r
    obtain ⟨r1, r2, r3, r4, r5, r6, Ln, r7, r8, r9⟩ := FormatYRecord_call G recurse hfr (setAdd V0 c) hal
      MyPin q (FormatYChildIsSameRow G a c pp MyPin q) (FormatYPlaceChild G a.F MyPin q) a.VisitedNodes
      hV hnV (hown ▸ hcV) r hr.symm
    obtain ⟨D, hD0, hD⟩ := FormatYAvoidPin_shift G r.1 d a.LastLinked r.2.2 r5
    have hmap : (FormatYAvoidPin G r.1 d a.LastLinked r.2.2).SameRowMapping = r.1.SameRowMapping :=
      OnlyY_SameRowMapping (OnlyY_FormatYAvoidPin G r.1 d a.LastLinked r.2.2)
    have hmap1 : (FormatYPlaceChild G a.F MyPin q).SameRowMapping = a.F.SameRowMapping :=
      OnlyY_SameRowMapping (OnlyY_FormatYPlaceChild G a.F MyPin q)
    have hold : ∀ v ∈ a.VisitedNodes, (FormatYChildIsSameRow G a c pp MyPin q = true → v ≠ c) →
        (FormatYAvoidPin G r.1 d a.LastLinked r.2.2).NodePosY v = a.F.NodePosY v + 0 := by
      intro v hv hb
      have h1 : v ∉ r.2.2 := fun h => (r3 v h).2 hv
      rw [hD v, if_neg h1, r6 v hv (fun h => hown ▸ (hb h).symm),
        FormatYPlaceChild_other G a.F MyPin q v (fun h => hnV (h ▸ hv))]
    have hnew : ∀ v ∈ r.2.1, v ∉ a.VisitedNodes →
        (FormatYAvoidPin G r.1 d a.LastLinked r.2.2).NodePosY v = r.1.NodePosY v + D := by
      intro v hv hnv
      have h1 : v ∈ r.2.2 := (r4 v hv).resolve_left hnv
      rw [hD v, if_pos h1]
    have hfirst : FormatYChildIsSameRow G a c pp MyPin q = true → a.bFirstPin = true := by
      intro h
      unfold FormatYChildIsSameRow at h
      simp only [Bool.and_eq_true] at h
      exact h.1.1.1
    refine ⟨⟨fun v hv => r2 v (hV v hv),
      L ++ ((if FormatYChildIsSameRow G a c pp MyPin q = true
        then [({ From := some MyPin, To := some q, Node := G.OwningNode q }, true)] else []) ++ Ln),
      ?_, ?_, ?_⟩, hll⟩
    · show (FormatYAvoidPin G r.1 d a.LastLinked r.2.2).SameRowMapping = _
      rw [hmap, r7, hmap1, hL]
      simp only [List.append_assoc]
    · intro e he
      show ∃ p q, e.1.From = some p ∧ e.1.To = some q ∧ G.OwningNode p ∈ r.2.1 ∧ G.OwningNode p ∉ V0
        ∧ G.OwningNode q ∈ r.2.1 ∧ G.OwningNode q ∉ V0
        ∧ (FirstLinkedPin G p = true → GetPinY G (FormatYAvoidPin G r.1 d a.LastLinked r.2.2) p
            = GetPinY G (FormatYAvoidPin G r.1 d a.LastLinked r.2.2) q)
      rcases List.mem_append.1 he with he | he
      · obtain ⟨p, q1, hF, hT, hp1, hp2, hq1, hq2, hgood⟩ := hRA e he
        obtain ⟨o1, o2⟩ := hOff e he p q1 hF hT
        refine ⟨p, q1, hF, hT, r2 _ hp1, hp2, r2 _ hq1, hq2, fun hg => ?_⟩
        rw [GetPinY_of_pos G a.F _ p 0 (hold _ hp1 (fun hb => o2 (hfirst hb))),
          GetPinY_of_pos G a.F _ q1 0 (hold _ hq1 (fun _ => o1)), hgood hg]
      · rcases List.mem_append.1 he with he | he
        · by_cases hb : FormatYChildIsSameRow G a c pp MyPin q = true
          · rw [if_pos hb, List.mem_singleton] at he
            subst he
            refine ⟨MyPin, q, rfl, rfl, hown ▸ r2 c hcV, hown ▸ hc, r1, fun h => hnV (hV0 _ h),
              fun hg => ?_⟩
            have hD00 : D = 0 := hD0 ((hLL hg) ▸ hll)
            have hsame : ∀ v, (FormatYAvoidPin G r.1 d a.LastLinked r.2.2).NodePosY v
                = r.1.NodePosY v + 0 := by
              intro v
              rw [hD v, hD00]
              simp
            rw [GetPinY_of_pos G r.1 _ MyPin 0 (hsame _), GetPinY_of_pos G r.1 _ q 0 (hsame _),
              r9 hb]
          · rw [if_neg hb] at he
            cases he
        · obtain ⟨p, q1, hF, hT, hp1, hp2, hq1, hq2, hgood⟩ := r8 e he
          refine ⟨p, q1, hF, hT, hp1, fun h => hp2 (hV0 _ h), hq1, fun h => hq2 (hV0 _ h),
            fun hg => ?_⟩
          rw [GetPinY_of_pos G r.1 _ p D (hnew _ hp1 hp2),
            GetPinY_of_pos G r.1 _ q1 D (hnew _ hq1 hq2), hgood hg]
    · intro e he p q1 hF hT
      show G.OwningNode q1 ≠ c
        ∧ ((a.bFirstPin && !FormatYChildIsSameRow G a c pp MyPin q) = true → G.OwningNode p ≠ c)
      rcases List.mem_append.1 he with he | he
      · obtain ⟨o1, o2⟩ := hOff e he p q1 hF hT
        refine ⟨o1, fun h => o2 ?_⟩
        simp only [Bool.and_eq_true] at h
        exact h.1
      · rcases List.mem_append.1 he with he | he
        · by_cases hb : FormatYChildIsSameRow G a c pp MyPin q = true
          · rw [if_pos hb, List.mem_singleton] at he
            subst he
            cases hF
            cases hT
            refine ⟨fun h => hnV (h ▸ hcV), fun h => ?_⟩
            rw [hb] at h
            simp at h
          · rw [if_neg hb] at he
            cases he
        · obtain ⟨p2, q2, hF2, hT2, _, hp2, _, hq2, _⟩ := r8 e he
          rw [hF] at hF2
          rw [hT] at hT2
          cases hF2
          cases hT2
          exact ⟨fun h => hq2 (h ▸ hcV), fun _ h => hp2 (h ▸ hcV)⟩

theorem CenteringIdle_node (G : FBAGraph) (h : CenteringIdle G) (c : Nat) :
    G.Settings.bCenterBranchesForParameters = false
      ∨ (InputLinks G c : Int) < G.Settings.NumRequiredBranchesForParameters := by
  rcases h with h | ⟨h0, h⟩
  · exact Or.inl h
  · right
    by_cases hc : c < G.Nodes.length
    · exact h c (List.mem_range.2 hc)
    · have e : InputLinks G c = 0 := by
        unfold InputLinks GetPinsByDirection FBAGraph.node
        rw [List.getD_eq_default _ _ (not_lt.1 hc)]
        rfl
      rw [e]
      exact_mod_cast h0

theorem foldl_length_le {α β : Type} (len : α → Nat) (w : β → Nat) (f : α → β → α)
    (h : ∀ a x, len (f a x) ≤ len a + w x) :
    ∀ (l : List β) (a : α), len (l.foldl f a) ≤ len a + (l.map w).sum := by
  intro l
  induction l with
  | nil => intro a; simp
  | cons x xs ih =>
    intro a
    have h1 := ih (f a x)
    have h2 := h a x
    simp only [List.foldl_cons, List.map_cons, List.sum_cons]
    omega

theorem FormatYChild_branches (G : FBAGraph)
    (recurse : Nat → Option Nat → Option Nat → Bool →
      FEdGraphParameterFormatter × List Nat × List Nat → FEdGraphParameterFormatter × List Nat × List Nat)
    (c : Nat) (pp : Option Nat) (Children : List Nat) (d : EEdGraphPinDirection) (MyPin : Nat)
    (a : FormatYState) (q : Nat) :
    (FormatYChild G recurse c pp Children d MyPin a q).ChildBranches.length
      ≤ a.ChildBranches.length + 1 := by
  unfold FormatYChild
  dsimp only
  split_ifs
  · omega
  · simp [FormatYAfterChild]

theorem FormatYPin_branches (G : FBAGraph)
    (recurse : Nat → Option Nat → Option Nat → Bool →
      FEdGraphParameterFormatter × List Nat × List Nat → FEdGraphParameterFormatter × List Nat × List Nat)
    (c : Nat) (pp : Option Nat) (Children : List Nat) (d : EEdGraphPinDirection)
    (p0 : FormatYState) (MyPin : Nat) :
    (FormatYPin G recurse c pp Children d p0 MyPin).ChildBranches.length
      ≤ p0.ChildBranches.length + (G.pin MyPin).LinkedTo.length := by
  have hfold := foldl_length_le (fun a : FormatYState => a.ChildBranches.length) (fun _ : Nat => 1)
    (FormatYChild G recurse c pp Children d MyPin)
    (fun a x => FormatYChild_branches G recurse c pp Children d MyPin a x) (G.pin MyPin).LinkedTo p0
  have hsum : ((G.pin MyPin).LinkedTo.map (fun _ : Nat => 1)).sum = (G.pin MyPin).LinkedTo.length := by
    simp
  rw [hsum] at hfold
  unfold FormatYPin
  dsimp only
  split_ifs
  · show p0.ChildBranches.length ≤ _
    omega
  · exact hfold
  · exact hfold

theorem FormatYPin_aligned (G : FBAGraph) (hwf : PinsOwned G)
    (recurse : Nat → Option Nat → Option Nat → Bool →
      FEdGraphParameterFormatter × List Nat × List Nat → FEdGraphParameterFormatter × List Nat × List Nat)
    (hfr : RecFrame G recurse) (c : Nat) (V0 : List Nat)
    (hal : RecAligned G (setAdd V0 c) recurse) (hc : c ∉ V0) (pp : Option Nat) (Children : List Nat)
    (d : EEdGraphPinDirection) (hd : d ≠ EGPD_MAX) (M0 : List (FPinLink × Bool))
    (pre : List Nat) (MyPin : Nat) (suf : List Nat) (p0 : FormatYState)
    (hps : GetPinsByDirection G c d = pre ++ MyPin :: suf)
    (h0 : AlSt G c V0 M0 p0 ∧ (p0.LastLinked = none ∨ ∃ x ∈ pre, PinIdle G x = false)) :
    AlSt G c V0 M0 (FormatYPin G (FormatYRecord recurse) c pp Children d p0 MyPin)
      ∧ ((FormatYPin G (FormatYRecord recurse) c pp Children d p0 MyPin).LastLinked = none
        ∨ ∃ x ∈ pre ++ [MyPin], PinIdle G x = false) := by
  have hmem : MyPin ∈ GetPinsByDirection G c d := by
    rw [hps]
    simp
  have hown := mem_GetPinsByDirection_owner G hwf c d MyPin hmem
  have hdir : (G.pin MyPin).Direction = d := by
    simp only [GetPinsByDirection, List.mem_filter, Bool.or_eq_true, beq_iff_eq] at hmem
    rcases hmem.2 with h | h
    · exact absurd h hd
    · exact h
  have hLL : FirstLinkedPin G MyPin = true → p0.LastLinked = none := by
    intro hg
    have hidle := FirstLinkedPin_prefix G MyPin pre suf (by rw [hown, hdir]; exact hps) hg
    rcases h0.2 with h | ⟨x, hx, hxi⟩
    · exact h
    · rw [hidle x hx] at hxi
      cases hxi
  have hfold := foldl_inv_mem (fun a => AlSt G c V0 M0 a ∧ a.LastLinked = p0.LastLinked)
    (FormatYChild G (FormatYRecord recurse) c pp Children d MyPin) (G.pin MyPin).LinkedTo p0
    ⟨h0.1, rfl⟩
    (fun a x _ hI => FormatYChild_aligned G recurse hfr c V0 hal hc pp Children d MyPin hown M0
      p0.LastLinked hLL a x hI)
  unfold FormatYPin
  dsimp only
  split_ifs with hex hlk
  · refine ⟨h0.1, Or.inr ⟨MyPin, by simp, ?_⟩⟩
    simp [PinIdle, hex]
  · refine ⟨hfold.1, Or.inr ⟨MyPin, by simp, ?_⟩⟩
    simp only [Bool.not_eq_true', Bool.not_eq_false] at hlk
    simp only [PinIdle, Bool.and_eq_false_imp]
    intro _
    simpa using hlk
  · refine ⟨hfold.1, ?_⟩
    rw [hfold.2]
    rcases h0.2 with h | ⟨x, hx, hxi⟩
    · exact Or.inl h
    · exact Or.inr ⟨x, List.mem_append_left _ hx, hxi⟩

theorem FormatYDirection_aligned (G : FBAGraph) (hwf : PinsOwned G)
    (recurse : Nat → Option Nat → Option Nat → Bool →
      FEdGraphParameterFormatter × List Nat × List Nat → FEdGraphParameterFormatter × List Nat × List Nat)
    (hfr : RecFrame G recurse) (c : Nat) (V0 : List Nat)
    (hal : RecAligned G (setAdd V0 c) recurse) (hc : c ∉ V0)
    (hcen : G.Settings.bCenterBranchesForParameters = false
      ∨ (InputLinks G c : Int) < G.Settings.NumRequiredBranchesForParameters)
    (pp : Option Nat) (Children : List Nat)
    (M0 : List (FPinLink × Bool)) (d : EEdGraphPinDirection) (hd : d ≠ EGPD_MAX) (d0 : FormatYState)
    (h0 : AlSt G c V0 M0 d0) :
    AlSt G c V0 M0 (FormatYDirection G (FormatYRecord recurse) c pp Children d0 d) := by
  have hlen := foldl_length_le (fun a : FormatYState => a.ChildBranches.length)
    (fun p : Nat => (G.pin p).LinkedTo.length)
    (FormatYPin G (FormatYRecord recurse) c pp Children d)
    (fun a x => FormatYPin_branches G (FormatYRecord recurse) c pp Children d a x)
    (GetPinsByDirection G c d) { d0 with LastLinked := none, ChildBranches := [] }
  have hfold := foldl_inv_prefix
    (fun (pre : List Nat) (a : FormatYState) =>
      AlSt G c V0 M0 a ∧ (a.LastLinked = none ∨ ∃ x ∈ pre, PinIdle G x = false))
    (FormatYPin G (FormatYRecord recurse) c pp Children d) (GetPinsByDirection G c d)
    (fun pre x suf a hl hI => FormatYPin_aligned G hwf recurse hfr c V0 hal hc pp Children d hd M0
      pre x suf a hl hI)
    (GetPinsByDirection G c d) [] { d0 with LastLinked := none, ChildBranches := [] } rfl
    ⟨h0, Or.inl rfl⟩
  unfold FormatYDirection
  dsimp only
  split_ifs with hcond
  · exfalso
    simp only [Bool.and_eq_true, beq_iff_eq, decide_eq_true_eq] at hcond
    rcases hcen with h | h
    · rw [h] at hcond
      exact Bool.false_ne_true hcond.1.1.1.1
    · have hd2 : d = EGPD_Input := hcond.1.1.1.2
      subst hd2
      have h1 := hcond.1.1.2
      have h2 : (List.foldl (FormatYPin G (FormatYRecord recurse) c pp Children EGPD_Input)
          { d0 with LastLinked := none, ChildBranches := [] }
          (GetPinsByDirection G c EGPD_Input)).ChildBranches.length ≤ InputLinks G c := by
        have := hlen
        simp only [List.length_nil, Nat.zero_add] at this
        exact this
      omega
  · exact hfold.1

theorem FormatYBody_aligned (G : FBAGraph) (hwf : PinsOwned G)
    (recurse : Nat → Option Nat → Option Nat → Bool →
      FEdGraphParameterFormatter × List Nat × List Nat → FEdGraphParameterFormatter × List Nat × List Nat)
    (hfr : RecFrame G recurse) (c : Nat) (cp pp : Option Nat) (b : Bool)
    (F : FEdGraphParameterFormatter) (V0 O : List Nat) (hc : c ∉ V0)
    (hal : RecAligned G (setAdd V0 c) recurse)
    (hcen : G.Settings.bCenterBranchesForParameters = false
      ∨ (InputLinks G c : Int) < G.Settings.NumRequiredBranchesForParameters)
    (hpre : b = true → ∀ p q, pp = some p → cp = some q → G.OwningNode p ∈ V0 ∧ G.OwningNode q = c) :
    YAligned G c cp pp b (F, V0, O) (FormatYBody G (FormatYRecord recurse) c cp pp b (F, V0, O)) := by
  unfold FormatYBody
  dsimp only
  rw [if_neg hc]
  have hst0 : AlSt G c V0 F.SameRowMapping
      { F := FormatYCollision G c V0 100 F, VisitedNodes := setAdd V0 c, OutChildren := O,
        bFirstPin := true, LastLinked := none, ChildBranches := [] } := by
    refine ⟨fun v hv => hv, [], ?_, ?_, ?_⟩
    · show (FormatYCollision G c V0 100 F).SameRowMapping = F.SameRowMapping ++ []
      rw [List.append_nil]
      exact OnlyY_SameRowMapping (OnlyY_FormatYCollision G c V0 100 F)
    · intro e he
      cases he
    · intro e he
      cases he
  simp only [List.foldl_cons, List.foldl_nil]
  generalize hst : FormatYDirection G (FormatYRecord recurse) c pp _
    (FormatYDirection G (FormatYRecord recurse) c pp _ _ EGPD_Input) EGPD_Output = stEnd
  have hB : AlSt G c V0 F.SameRowMapping stEnd := by
    rw [← hst]
    exact FormatYDirection_aligned G hwf recurse hfr c V0 hal hc hcen pp _ F.SameRowMapping
      EGPD_Output (by decide) _
      (FormatYDirection_aligned G hwf recurse hfr c V0 hal hc hcen pp _ F.SameRowMapping
        EGPD_Input (by decide) _ hst0)
  obtain ⟨hV, L, hL, hRA, _⟩ := hB
  have hfin : ∀ v, v ∉ V0 → (FormatYFinish G stEnd.F b cp pp).NodePosY v = stEnd.F.NodePosY v + 0 := by
    intro v hv
    unfold FormatYFinish
    split
    · rename_i cp0 pp0
      rw [StraightenPin_other G stEnd.F cp0 pp0 v (fun h => hv (h ▸ (hpre rfl pp0 cp0 rfl rfl).1))]
      simp
    · simp
  refine ⟨hV c ((mem_setAdd _ _ _).2 (Or.inl rfl)), ⟨L, ?_, ?_⟩, ?_⟩
  · show (FormatYFinish G stEnd.F b cp pp).SameRowMapping = F.SameRowMapping ++ L
    rw [OnlyY_SameRowMapping (OnlyY_FormatYFinish G stEnd.F b cp pp), hL]
  · intro e he
    obtain ⟨p, q, hF, hT, hp1, hp2, hq1, hq2, hgood⟩ := hRA e he
    refine ⟨p, q, hF, hT, hp1, hp2, hq1, hq2, fun hg => ?_⟩
    show GetPinY G (FormatYFinish G stEnd.F b cp pp) p = GetPinY G (FormatYFinish G stEnd.F b cp pp) q
    rw [GetPinY_of_pos G stEnd.F _ p 0 (hfin _ hp2), GetPinY_of_pos G stEnd.F _ q 0 (hfin _ hq2),
      hgood hg]
  · intro hb p q hp hq
    subst hb hp hq
    obtain ⟨h1, h2⟩ := hpre rfl p q rfl rfl
    show GetPinY G (StraightenPin G stEnd.F q p) p = GetPinY G (StraightenPin G stEnd.F q p) q
    exact StraightenPin_aligned G stEnd.F q p (fun h => hc (h2 ▸ h ▸ h1))

theorem FormatYChild_nodup (G : FBAGraph)
    (recurse : Nat → Option Nat → Option Nat → Bool →
      FEdGraphParameterFormatter × List Nat × List Nat → FEdGraphParameterFormatter × List Nat × List Nat)
    (c : Nat) (pp : Option Nat) (Children : List Nat) (d : EEdGraphPinDirection) (MyPin : Nat)
    (a : FormatYState) (q : Nat) (h : a.OutChildren.Nodup) :
    (FormatYChild G recurse c pp Children d MyPin a q).OutChildren.Nodup := by
  unfold FormatYChild
  dsimp only
  split_ifs
  · exact h
  · exact setAppend_nodup _ _ h

theorem FormatYPin_nodup (G : FBAGraph)
    (recurse : Nat → Option Nat → Option Nat → Bool →
      FEdGraphParameterFormatter × List Nat × List Nat → FEdGraphParameterFormatter × List Nat × List Nat)
    (c : Nat) (pp : Option Nat) (Children : List Nat) (d : EEdGraphPinDirection)
    (p0 : FormatYState) (MyPin : Nat) (h : p0.OutChildren.Nodup) :
    (FormatYPin G recurse c pp Children d p0 MyPin).OutChildren.Nodup := by
  have hfold := foldl_inv_mem (fun a : FormatYState => a.OutChildren.Nodup)
    (FormatYChild G recurse c pp Children d MyPin) (G.pin MyPin).LinkedTo p0 h
    (fun a x _ hI => FormatYChild_nodup G recurse c pp Children d MyPin a x hI)
  unfold FormatYPin
  dsimp only
  split_ifs
  · exact h
  · exact hfold
  · exact hfold

theorem FormatYDirection_nodup (G : FBAGraph)
    (recurse : Nat → Option Nat → Option Nat → Bool →
      FEdGraphParameterFormatter × List Nat × List Nat → FEdGraphParameterFormatter × List Nat × List Nat)
    (c : Nat) (pp : Option Nat) (Children : List Nat) (d0 : FormatYState) (d : EEdGraphPinDirection)
    (h : d0.OutChildren.Nodup) :
    (FormatYDirection G recurse c pp Children d0 d).OutChildren.Nodup := by
  have hfold := foldl_inv_mem (fun a : FormatYState => a.OutChildren.Nodup)
    (FormatYPin G recurse c pp Children d) (GetPinsByDirection G c d)
    { d0 with LastLinked := none, ChildBranches := [] } h
    (fun a x _ hI => FormatYPin_nodup G recurse c pp Children d a x hI)
  unfold FormatYDirection
  dsimp only
  split_ifs
  · exact hfold
  · exact hfold

theorem FormatYBody_nodup (G : FBAGraph)
    (recurse : Nat → Option Nat → Option Nat → Bool →
      FEdGraphParameterFormatter × List Nat × List Nat → FEdGraphParameterFormatter × List Nat × List Nat) :
    RecNodup (FormatYBody G recurse) := by
  intro c cp pp b acc h
  unfold FormatYBody
  dsimp only
  split_ifs
  · exact h
  · apply setAdd_nodup c
    simp only [List.foldl_cons, List.foldl_nil]
    exact FormatYDirection_nodup G recurse c pp _ _ _ (FormatYDirection_nodup G recurse c pp _ _ _ h)

theorem FormatYRecorded_nodup (G : FBAGraph) (fuel : Nat) : RecNodup (FormatYRecorded G fuel) := by
  cases fuel with
  | zero => intro c cp pp b acc h; exact h
  | succ k => exact FormatYBody_nodup G _

theorem FormatYRecorded_frame (G : FBAGraph) (hwf : PinsOwned G) (fuel : Nat) :
    RecFrame G (FormatYRecorded G fuel) := by
  intro c cp pp b F V
  obtain ⟨m', hm⟩ := FormatYRecorded_erase G fuel c cp pp b F F.SameRowMapping V []
  have e : FormatYRecorded G fuel c cp pp b (F, V, [])
      = (withRows (FormatY G fuel c cp pp b (F, V, [])).1 m', (FormatY G fuel c cp pp b (F, V, [])).2) :=
    hm
  obtain ⟨s1, s2, s3, _⟩ := FormatY_struct G hwf 0 fuel c cp pp b (F, V, [])
  have hd := (FormatY_down G hwf fuel c cp pp b (F, V, [])).1
  have hn := FormatYRecorded_nodup G fuel c cp pp b (F, V, []) List.nodup_nil
  rw [e] at hn ⊢
  refine ⟨s1, fun n hn' => ?_, s3, hn, fun v hv hb => hd v hv hb⟩
  rcases s2 n hn' with h | h
  · cases h
  · exact h

theorem FormatYRecorded_aligned (G : FBAGraph) (hwf : PinsOwned G) (hcen : CenteringIdle G) :
    ∀ (fuel : Nat) (V0 : List Nat), unvisitedOwners G V0 ≤ fuel →
      RecAligned G V0 (FormatYRecorded G fuel) := by
  intro fuel
  induction fuel with
  | zero =>
    intro V0 h n cp pp b F V O hV hn hown _
    exfalso
    have h1 := unvisitedOwners_lt G V n hown hn
    have h2 := unvisitedOwners_mono G V0 V hV
    omega
  | succ k ih =>
    intro V0 h n cp pp b F V O hV hn hown hpre
    have h1 := unvisitedOwners_lt G V n hown hn
    have h2 := unvisitedOwners_mono G V0 V hV
    exact FormatYBody_aligned G hwf _ (FormatYRecorded_frame G hwf k) n cp pp b F V O hn
      (ih (setAdd V n) (by omega)) (CenteringIdle_node G hcen n) hpre

/-- When the centering of branches cannot run, on a graph whose pins are
owned by the nodes that list them: at the end of the observed `FormatY`, the
pins of every pair passed with `bSameRow = true` whose parent-side pin is the
first linked pin of its node are level. -/
theorem FormatYRecorded_level (G : FBAGraph) (hwf : PinsOwned G) (hcen : CenteringIdle G)
    (F : FEdGraphParameterFormatter)
    (p q : Nat) (hpq : (p, q) ∈ FormatYRows G F) (hg : FirstLinkedPin G p = true) :
    GetPinY G (FormatYRecorded G (G.Pins.length + 2) (F.RootNode.getD 0) none none false
        ({ F with SameRowMapping := [] }, [], [])).1 p
      = GetPinY G (FormatYRecorded G (G.Pins.length + 2) (F.RootNode.getD 0) none none false
        ({ F with SameRowMapping := [] }, [], [])).1 q := by
  have hal := FormatYRecorded_aligned G hwf hcen (G.Pins.length + 1) (setAdd [] (F.RootNode.getD 0))
    (unvisitedOwners_le G _)
  obtain ⟨_, ⟨L, hL, hRA⟩, _⟩ := FormatYBody_aligned G hwf _
    (FormatYRecorded_frame G hwf (G.Pins.length + 1)) (F.RootNode.getD 0) none none false
    { F with SameRowMapping := [] } [] [] (List.not_mem_nil _) hal
    (CenteringIdle_node G hcen (F.RootNode.getD 0)) (fun h => by cases h)
  unfold FormatYRows rowsOf at hpq
  change (p, q) ∈ List.map (fun e => (e.1.From.getD 0, e.1.To.getD 0))
    (FormatYBody G (FormatYRecord (FormatYRecorded G (G.Pins.length + 1))) (F.RootNode.getD 0)
      none none false ({ F with SameRowMapping := [] }, [], [])).1.SameRowMapping at hpq
  rw [hL, List.nil_append, List.mem_map] at hpq
  obtain ⟨e, he, hpe⟩ := hpq
  obtain ⟨p1, q1, hF, hT, _, _, _, _, hgood⟩ := hRA e he
  rw [hF, hT] at hpe
  simp only [Option.getD_some, Prod.mk.injEq] at hpe
  obtain ⟨rfl, rfl⟩ := hpe
  exact hgood hg

/-! ## The pairs passed by `FormatY` do not depend on the arithmetic -/

theorem FormatYRecord_shape
    (recA recB : Nat → Option Nat → Option Nat → Bool →
      FEdGraphParameterFormatter × List Nat × List Nat → FEdGraphParameterFormatter × List Nat × List Nat)
    (h : RecShape recA recB) : RecShape (FormatYRecord recA) (FormatYRecord recB) := by
  intro c cp pp b A B V O hAB
  unfold FormatYRecord
  cases b with
  | false => exact h c cp pp false A B V O hAB
  | true =>
    simp only [if_true]
    apply h
    have hm : A.SameRowMapping = B.SameRowMapping := congrArg (fun x => x.SameRowMapping) hAB
    show ({ restOf A with SameRowMapping := A.SameRowMapping ++ [({ From := pp, To := cp, Node := c }, true)] }
      : FEdGraphParameterFormatter)
      = { restOf B with SameRowMapping := B.SameRowMapping ++ [({ From := pp, To := cp, Node := c }, true)] }
    rw [hAB, hm]

theorem FormatYChildIsSameRow_shape (G : FBAGraph) (a b : FormatYState) (h : YShape a b) (c : Nat)
    (pp : Option Nat) (p q : Nat) :
    FormatYChildIsSameRow G a c pp p q = FormatYChildIsSameRow G b c pp p q := by
  obtain ⟨hF, _, _, hb, _, _⟩ := h
  have h1 : a.F.bFormatWithHelixing = b.F.bFormatWithHelixing :=
    congrArg (fun x => x.bFormatWithHelixing) hF
  have h2 : a.F.FormattedInputNodes = b.F.FormattedInputNodes :=
    congrArg (fun x => x.FormattedInputNodes) hF
  have h3 : a.F.RootNode = b.F.RootNode := congrArg (fun x => x.RootNode) hF
  unfold FormatYChildIsSameRow
  rw [h1, h2, h3, hb]

theorem FormatYChild_shape (G : FBAGraph) (P : FVector2D)
    (recA recB : Nat → Option Nat → Option Nat → Bool →
      FEdGraphParameterFormatter × List Nat × List Nat → FEdGraphParameterFormatter × List Nat × List Nat)
    (hrec : RecShape recA recB) (c : Nat) (pp : Option Nat) (Ch : List Nat) (d : EEdGraphPinDirection)
    (MyPin : Nat) (a b : FormatYState) (q : Nat) (h : YShape a b) :
    YShape (FormatYChild32 G P (FormatYRecord recA) c pp Ch d MyPin a q)
      (FormatYChild G (FormatYRecord recB) c pp Ch d MyPin b q) := by
  have hrow := FormatYChildIsSameRow_shape G a b h c pp MyPin q
  obtain ⟨hF, hV, hO, hb, hl, hc⟩ := h
  have h1 : a.F.IgnoredNodes = b.F.IgnoredNodes := congrArg (fun x => x.IgnoredNodes) hF
  unfold FormatYChild32 FormatYChild
  dsimp only
  rw [h1, hV]
  split_ifs with hs
  · exact ⟨hF, hV, hO, hb, hl, hc⟩
  · have hp : restOf (FormatYPlaceChild32 G P a.F MyPin q) = restOf (FormatYPlaceChild G b.F MyPin q) := by
      rw [(OnlyY_FormatYPlaceChild32 G P a.F MyPin q).1, (OnlyY_FormatYPlaceChild G b.F MyPin q).1, hF]
    obtain ⟨r1, r2⟩ := FormatYRecord_shape recA recB hrec (G.OwningNode q) (some q) (some MyPin)
      (FormatYChildIsSameRow G b c pp MyPin q) _ _ b.VisitedNodes [] hp
    rw [hrow]
    refine ⟨?_, ?_, ?_, ?_, hl, ?_⟩
    · show restOf (FormatYAvoidPin32 G _ d a.LastLinked _) = restOf (FormatYAvoidPin G _ d b.LastLinked _)
      rw [(OnlyY_FormatYAvoidPin32 G _ d a.LastLinked _).1, (OnlyY_FormatYAvoidPin G _ d b.LastLinked _).1]
      exact r1
    · exact congrArg (fun x => x.1) r2
    · show setAppend a.OutChildren _ = setAppend b.OutChildren _
      rw [hO, r2]
    · show (a.bFirstPin && _) = (b.bFirstPin && _)
      rw [hb]
    · show a.ChildBranches ++ _ = b.ChildBranches ++ _
      rw [hc, r2]

theorem foldl_rel2 {α β γ : Type} (R : α → β → Prop) (f : α → γ → α) (g : β → γ → β)
    (h : ∀ a b x, R a b → R (f a x) (g b x)) :
    ∀ (l : List γ) (a : α) (b : β), R a b → R (l.foldl f a) (l.foldl g b) := by
  intro l
  induction l with
  | nil => intro a b hab; exact hab
  | cons x xs ih => intro a b hab; exact ih _ _ (h a b x hab)

theorem FormatYPin_shape (G : FBAGraph) (P : FVector2D)
    (recA recB : Nat → Option Nat → Option Nat → Bool →
      FEdGraphParameterFormatter × List Nat × List Nat → FEdGraphParameterFormatter × List Nat × List Nat)
    (hrec : RecShape recA recB) (c : Nat) (pp : Option Nat) (Ch : List Nat) (d : EEdGraphPinDirection)
    (a b : FormatYState) (MyPin : Nat) (h : YShape a b) :
    YShape (FormatYPin32 G P (FormatYRecord recA) c pp Ch d a MyPin)
      (FormatYPin G (FormatYRecord recB) c pp Ch d b MyPin) := by
  have hfold := foldl_rel2 YShape
    (FormatYChild32 G P (FormatYRecord recA) c pp Ch d MyPin)
    (FormatYChild G (FormatYRecord recB) c pp Ch d MyPin)
    (fun x y q hxy => FormatYChild_shape G P recA recB hrec c pp Ch d MyPin x y q hxy)
    (G.pin MyPin).LinkedTo a b h
  unfold FormatYPin32 FormatYPin
  dsimp only
  split_ifs
  · exact ⟨h.1, h.2.1, h.2.2.1, h.2.2.2.1, rfl, h.2.2.2.2.2⟩
  · exact ⟨hfold.1, hfold.2.1, hfold.2.2.1, hfold.2.2.2.1, rfl, hfold.2.2.2.2.2⟩
  · exact hfold

theorem FormatYDirection_shape (G : FBAGraph) (P : FVector2D)
    (recA recB : Nat → Option Nat → Option Nat → Bool →
      FEdGraphParameterFormatter × List Nat × List Nat → FEdGraphParameterFormatter × List Nat × List Nat)
    (hrec : RecShape recA recB) (c : Nat) (pp : Option Nat) (Ch : List Nat)
    (a b : FormatYState) (d : EEdGraphPinDirection) (h : YShape a b) :
    YShape (FormatYDirection32 G P (FormatYRecord recA) c pp Ch a d)
      (FormatYDirection G (FormatYRecord recB) c pp Ch b d) := by
  have hfold := foldl_rel2 YShape
    (FormatYPin32 G P (FormatYRecord recA) c pp Ch d)
    (FormatYPin G (FormatYRecord recB) c pp Ch d)
    (fun x y q hxy => FormatYPin_shape G P recA recB hrec c pp Ch d x y q hxy)
    (GetPinsByDirection G c d) { a with LastLinked := none, ChildBranches := [] }
    { b with LastLinked := none, ChildBranches := [] }
    ⟨h.1, h.2.1, h.2.2.1, h.2.2.2.1, rfl, rfl⟩
  obtain ⟨hF, hV, hO, hb, hl, hc⟩ := hfold
  unfold FormatYDirection32 FormatYDirection
  dsimp only
  split_ifs
  · refine ⟨?_, hV, hO, hb, hl, hc⟩
    show restOf (CenterBranches32 G _ P c _ _) = restOf (CenterBranches G _ c _ _)
    rw [(OnlyY_CenterBranches32 G _ P c _ _).1, (OnlyY_CenterBranches G _ c _ _).1]
    exact hF
  · refine ⟨?_, hV, hO, hb, hl, hc⟩
    show restOf (CenterBranches32 G _ P c _ _) = restOf _
    rw [(OnlyY_CenterBranches32 G _ P c _ _).1]
    exact hF
  · refine ⟨?_, hV, hO, hb, hl, hc⟩
    show restOf _ = restOf (CenterBranches G _ c _ _)
    rw [(OnlyY_CenterBranches G _ c _ _).1]
    exact hF
  · exact ⟨hF, hV, hO, hb, hl, hc⟩

theorem FormatYBody_shape (G : FBAGraph) (P : FVector2D)
    (recA recB : Nat → Option Nat → Option Nat → Bool →
      FEdGraphParameterFormatter × List Nat × List Nat → FEdGraphParameterFormatter × List Nat × List Nat)
    (hrec : RecShape recA recB) :
    RecShape (FormatYBody32 G P (FormatYRecord recA)) (FormatYBody G (FormatYRecord recB)) := by
  intro c cp pp b A B V O hAB
  have h1 : A.NodeInfoMap = B.NodeInfoMap := congrArg (fun x => x.NodeInfoMap) hAB
  have h2 : A.Infos = B.Infos := congrArg (fun x => x.Infos) hAB
  unfold FormatYBody32 FormatYBody
  dsimp only
  rw [h1, h2]
  split_ifs with hv
  · exact ⟨hAB, rfl⟩
  · have hst0 : YShape
        { F := (FormatYCollision32 G P c V 100 A).1, VisitedNodes := setAdd V c, OutChildren := O,
          bFirstPin := true, LastLinked := none, ChildBranches := [] }
        { F := FormatYCollision G c V 100 B, VisitedNodes := setAdd V c, OutChildren := O,
          bFirstPin := true, LastLinked := none, ChildBranches := [] } := by
      refine ⟨?_, rfl, rfl, rfl, rfl, rfl⟩
      show restOf (FormatYCollision32 G P c V 100 A).1 = restOf (FormatYCollision G c V 100 B)
      rw [(OnlyY_FormatYCollision32 G P c V 100 A).1, (OnlyY_FormatYCollision G c V 100 B).1]
      exact hAB
    have hfold := foldl_rel2 YShape
      (FormatYDirection32 G P (FormatYRecord recA) c pp (match mapFind B.NodeInfoMap c with
        | some i => GetChildNodes B.Infos i
        | none => []))
      (FormatYDirection G (FormatYRecord recB) c pp (match mapFind B.NodeInfoMap c with
        | some i => GetChildNodes B.Infos i
        | none => []))
      (fun x y q hxy => FormatYDirection_shape G P recA recB hrec c pp _ x y q hxy)
      [EGPD_Input, EGPD_Output] _ _ hst0
    obtain ⟨hF, hV, hO, _, _, _⟩ := hfold
    refine ⟨?_, ?_⟩
    · show restOf (FormatYFinish32 G _ b cp pp) = restOf (FormatYFinish G _ b cp pp)
      rw [(OnlyY_FormatYFinish32 G _ b cp pp).1, (OnlyY_FormatYFinish G _ b cp pp).1]
      exact hF
    · exact Prod.ext hV (congrArg (fun o => setAdd o c) hO)

theorem FormatYRecorded_shape (G : FBAGraph) (P : FVector2D) :
    ∀ fuel : Nat, RecShape (FormatYRecorded32 G P fuel) (FormatYRecorded G fuel) := by
  intro fuel
  induction fuel with
  | zero => intro c cp pp b A B V O hAB; exact ⟨hAB, rfl⟩
  | succ k ih => exact FormatYBody_shape G P _ _ ih

/-- The observed `FormatY` passes the same pairs in binary32 as in exact
arithmetic. -/
theorem FormatYRows32_eq (G : FBAGraph) (P : FVector2D) (F : FEdGraphParameterFormatter) :
    FormatYRows32 G P F = FormatYRows G F := by
  unfold FormatYRows32 FormatYRows
  have h := (FormatYRecorded_shape G P (G.Pins.length + 2) (F.RootNode.getD 0) none none false
    { F with SameRowMapping := [] } { F with SameRowMapping := [] } [] [] rfl).1
  exact congrArg (fun x => rowsOf x.SameRowMapping) h

/-! ## The observation of `FormatY` in binary32 changes nothing but the record -/

theorem FormatYCollision32_withRows (G : FBAGraph) (P : FVector2D) (c : Nat) (V : List Nat)
    (m : List (FPinLink × Bool)) :
    ∀ (n : Nat) (S : FEdGraphParameterFormatter),
      FormatYCollision32 G P c V n (withRows S m)
        = (withRows (FormatYCollision32 G P c V n S).1 m, (FormatYCollision32 G P c V n S).2) := by
  intro n
  induction n with
  | zero => intro S; rfl
  | succ k ih =>
    intro S
    simp only [FormatYCollision32]
    have hb : ∀ v, GetCachedNodeBounds32 G (withRows S m) v = GetCachedNodeBounds32 G S v := fun _ => rfl
    simp only [hb]
    split
    · rfl
    · rename_i v _
      exact ih (withPosY S c (toInt32 (fadd (ofInt32 (S.NodePosY c))
        (fadd (fsub ((GetCachedNodeBounds32 G S v).ExtendBy32 0 0 0 P.Y).Bottom
          (GetCachedNodeBounds32 G S c).Top) F32One))))

theorem FormatYPlaceChild32_withRows (G : FBAGraph) (P : FVector2D) (S : FEdGraphParameterFormatter)
    (m : List (FPinLink × Bool)) (p q : Nat) :
    FormatYPlaceChild32 G P (withRows S m) p q = withRows (FormatYPlaceChild32 G P S p q) m := by
  unfold FormatYPlaceChild32 withRows
  dsimp only
  split_ifs <;> rfl

theorem FormatYAvoidPin32_withRows (G : FBAGraph) (S : FEdGraphParameterFormatter)
    (m : List (FPinLink × Bool)) (d : EEdGraphPinDirection) (ll : Option Nat) (lc : List Nat) :
    FormatYAvoidPin32 G (withRows S m) d ll lc = withRows (FormatYAvoidPin32 G S d ll lc) m := by
  unfold FormatYAvoidPin32
  dsimp only
  have h1 : (withRows S m).bFormatWithHelixing = S.bFormatWithHelixing := rfl
  have h2 : GetCachedNodeArrayBounds32 G (withRows S m) lc = GetCachedNodeArrayBounds32 G S lc := rfl
  have h3 : ∀ p, GetPinY32 G (withRows S m) p = GetPinY32 G S p := fun _ => rfl
  rw [h1, h2]
  simp only [h3]
  split_ifs
  · cases ll with
    | none => rfl
    | some p =>
      dsimp only
      split_ifs
      · exact foldl_hom (fun a => withRows a m) _ (fun a x => rfl) lc S
      · rfl
  · rfl

theorem CenterBranches32_withRows (G : FBAGraph) (S : FEdGraphParameterFormatter) (P : FVector2D)
    (m : List (FPinLink × Bool)) (c : Nat) (brs : List ChildBranch) (V : List Nat) :
    CenterBranches32 G (withRows S m) P c brs V = withRows (CenterBranches32 G S P c brs V) m := by
  have h1 : CenterOffsetBranches32 G (withRows S m) brs
      = withRows (CenterOffsetBranches32 G S brs) m := by
    unfold CenterOffsetBranches32
    dsimp only
    have h3 : ∀ l, GetCenterYOfPins32 G (withRows S m) l = GetCenterYOfPins32 G S l := fun _ => rfl
    simp only [h3]
    exact foldl_hom (fun a => withRows a m) _ (fun a x => rfl) _ S
  have h2 : ∀ (T : FEdGraphParameterFormatter) (A : List Nat),
      CenterDeltaY32 G (withRows T m) P A V = CenterDeltaY32 G T P A V := fun _ _ => rfl
  unfold CenterBranches32
  dsimp only
  rw [h1, h2]
  split_ifs
  · exact foldl_hom (fun a => withRows a m) _ (fun a x => rfl) _ _
  · rfl

theorem FormatYFinish32_withRows (G : FBAGraph) (S : FEdGraphParameterFormatter)
    (m : List (FPinLink × Bool)) (b : Bool) (cp pp : Option Nat) :
    FormatYFinish32 G (withRows S m) b cp pp = withRows (FormatYFinish32 G S b cp pp) m := by
  unfold FormatYFinish32
  split <;> rfl

theorem FormatYChild32_erase (G : FBAGraph) (P : FVector2D)
    (recR recP : Nat → Option Nat → Option Nat → Bool →
      FEdGraphParameterFormatter × List Nat × List Nat → FEdGraphParameterFormatter × List Nat × List Nat)
    (hrec : RecErase recR recP) (c : Nat) (pp : Option Nat) (Ch : List Nat) (d : EEdGraphPinDirection)
    (MyPin : Nat) (a : FormatYState) (m : List (FPinLink × Bool)) (q : Nat) :
    ∃ m', FormatYChild32 G P (FormatYRecord recR) c pp Ch d MyPin (stateRows a m) q
      = stateRows (FormatYChild32 G P recP c pp Ch d MyPin a q) m' := by
  unfold FormatYChild32
  dsimp only
  have h1 : (stateRows a m).F.IgnoredNodes = a.F.IgnoredNodes := rfl
  have h2 : (stateRows a m).VisitedNodes = a.VisitedNodes := rfl
  have h3 : FormatYChildIsSameRow G (stateRows a m) c pp MyPin q = FormatYChildIsSameRow G a c pp MyPin q :=
    rfl
  have h4 : (stateRows a m).F = withRows a.F m := rfl
  have h5 : (stateRows a m).LastLinked = a.LastLinked := rfl
  rw [h1, h2, h3, h4, h5, FormatYPlaceChild32_withRows]
  split_ifs with hs
  · exact ⟨m, rfl⟩
  · have hcall : ∃ m', FormatYRecord recR (G.OwningNode q) (some q) (some MyPin)
          (FormatYChildIsSameRow G a c pp MyPin q)
          (withRows (FormatYPlaceChild32 G P a.F MyPin q) m, a.VisitedNodes, [])
        = (withRows (recP (G.OwningNode q) (some q) (some MyPin)
              (FormatYChildIsSameRow G a c pp MyPin q)
              (FormatYPlaceChild32 G P a.F MyPin q, a.VisitedNodes, [])).1 m',
            (recP (G.OwningNode q) (some q) (some MyPin)
              (FormatYChildIsSameRow G a c pp MyPin q)
              (FormatYPlaceChild32 G P a.F MyPin q, a.VisitedNodes, [])).2) := by
      unfold FormatYRecord
      split_ifs
      · exact hrec _ _ _ _ (FormatYPlaceChild32 G P a.F MyPin q)
          (m ++ [({ From := some MyPin, To := some q, Node := G.OwningNode q }, true)]) _ _
      · exact hrec _ _ _ _ (FormatYPlaceChild32 G P a.F MyPin q) m _ _
    obtain ⟨m', hm'⟩ := hcall
    refine ⟨m', ?_⟩
    rw [hm']
    dsimp only
    rw [FormatYAvoidPin32_withRows]
    rfl

theorem FormatYPin32_erase (G : FBAGraph) (P : FVector2D)
    (recR recP : Nat → Option Nat → Option Nat → Bool →
      FEdGraphParameterFormatter × List Nat × List Nat → FEdGraphParameterFormatter × List Nat × List Nat)
    (hrec : RecErase recR recP) (c : Nat) (pp : Option Nat) (Ch : List Nat) (d : EEdGraphPinDirection)
    (a : FormatYState) (m : List (FPinLink × Bool)) (MyPin : Nat) :
    ∃ m', FormatYPin32 G P (FormatYRecord recR) c pp Ch d (stateRows a m) MyPin
      = stateRows (FormatYPin32 G P recP c pp Ch d a MyPin) m' := by
  unfold FormatYPin32
  dsimp only
  split_ifs
  · exact ⟨m, rfl⟩
  · obtain ⟨m', h⟩ := foldl_exists_hom (fun m a => stateRows a m)
      (FormatYChild32 G P (FormatYRecord recR) c pp Ch d MyPin) (FormatYChild32 G P recP c pp Ch d MyPin)
      (fun a m x => FormatYChild32_erase G P recR recP hrec c pp Ch d MyPin a m x)
      (G.pin MyPin).LinkedTo a m
    exact ⟨m', by rw [h]; rfl⟩
  · exact foldl_exists_hom (fun m a => stateRows a m)
      (FormatYChild32 G P (FormatYRecord recR) c pp Ch d MyPin) (FormatYChild32 G P recP c pp Ch d MyPin)
      (fun a m x => FormatYChild32_erase G P recR recP hrec c pp Ch d MyPin a m x)
      (G.pin MyPin).LinkedTo a m

theorem FormatYDirection32_erase (G : FBAGraph) (P : FVector2D)
    (recR recP : Nat → Option Nat → Option Nat → Bool →
      FEdGraphParameterFormatter × List Nat × List Nat → FEdGraphParameterFormatter × List Nat × List Nat)
    (hrec : RecErase recR recP) (c : Nat) (pp : Option Nat) (Ch : List Nat)
    (a : FormatYState) (m : List (FPinLink × Bool)) (d : EEdGraphPinDirection) :
    ∃ m', FormatYDirection32 G P (FormatYRecord recR) c pp Ch (stateRows a m) d
      = stateRows (FormatYDirection32 G P recP c pp Ch a d) m' := by
  unfold FormatYDirection32
  dsimp only
  obtain ⟨m', h⟩ := foldl_exists_hom (fun m a => stateRows a m)
    (FormatYPin32 G P (FormatYRecord recR) c pp Ch d) (FormatYPin32 G P recP c pp Ch d)
    (fun a m x => FormatYPin32_erase G P recR recP hrec c pp Ch d a m x) (GetPinsByDirection G c d)
    { a with LastLinked := none, ChildBranches := [] } m
  have h0 : ({ stateRows a m with LastLinked := none, ChildBranches := [] } : FormatYState)
      = stateRows { a with LastLinked := none, ChildBranches := [] } m := rfl
  rw [h0, h]
  refine ⟨m', ?_⟩
  have e1 : ∀ x : FormatYState, (stateRows x m').ChildBranches = x.ChildBranches := fun _ => rfl
  have e2 : ∀ (x : FormatYState) (l : List Nat),
      GetCachedNodeArrayBounds32 G (stateRows x m').F l = GetCachedNodeArrayBounds32 G x.F l :=
    fun _ _ => rfl
  have e3 : ∀ x : FormatYState, (stateRows x m').F.NodePosX = x.F.NodePosX := fun _ => rfl
  have e4 : ∀ x : FormatYState, (stateRows x m').F = withRows x.F m' := fun _ => rfl
  have e5 : ∀ x : FormatYState, (stateRows x m').VisitedNodes = x.VisitedNodes := fun _ => rfl
  rw [e1, e2, e3]
  split_ifs
  · rw [e4, e5, CenterBranches32_withRows]
    rfl
  · rfl

theorem FormatYBody32_erase_tail (G : FBAGraph) (P : FVector2D)
    (recR recP : Nat → Option Nat → Option Nat → Bool →
      FEdGraphParameterFormatter × List Nat × List Nat → FEdGraphParameterFormatter × List Nat × List Nat)
    (hrec : RecErase recR recP) (c : Nat) (cp pp : Option Nat) (b : Bool) (m : List (FPinLink × Bool))
    (Ch : List Nat) (st0 : FormatYState) :
    ∃ m', (FormatYFinish32 G
          (List.foldl (FormatYDirection32 G P (FormatYRecord recR) c pp Ch) (stateRows st0 m)
            [EGPD_Input, EGPD_Output]).F b cp pp,
        (List.foldl (FormatYDirection32 G P (FormatYRecord recR) c pp Ch) (stateRows st0 m)
            [EGPD_Input, EGPD_Output]).VisitedNodes,
        setAdd (List.foldl (FormatYDirection32 G P (FormatYRecord recR) c pp Ch) (stateRows st0 m)
            [EGPD_Input, EGPD_Output]).OutChildren c)
      = (withRows (FormatYFinish32 G
            (List.foldl (FormatYDirection32 G P recP c pp Ch) st0 [EGPD_Input, EGPD_Output]).F
            b cp pp) m',
          (List.foldl (FormatYDirection32 G P recP c pp Ch) st0 [EGPD_Input, EGPD_Output]).VisitedNodes,
          setAdd (List.foldl (FormatYDirection32 G P recP c pp Ch) st0
            [EGPD_Input, EGPD_Output]).OutChildren c) := by
  obtain ⟨m', h⟩ := foldl_exists_hom (fun m a => stateRows a m)
    (FormatYDirection32 G P (FormatYRecord recR) c pp Ch) (FormatYDirection32 G P recP c pp Ch)
    (fun a m x => FormatYDirection32_erase G P recR recP hrec c pp Ch a m x)
    [EGPD_Input, EGPD_Output] st0 m
  rw [h]
  refine ⟨m', ?_⟩
  have e4 : ∀ x : FormatYState, (stateRows x m').F = withRows x.F m' := fun _ => rfl
  rw [e4, FormatYFinish32_withRows]
  rfl

theorem FormatYBody32_erase (G : FBAGraph) (P : FVector2D)
    (recR recP : Nat → Option Nat → Option Nat → Bool →
      FEdGraphParameterFormatter × List Nat × List Nat → FEdGraphParameterFormatter × List Nat × List Nat)
    (hrec : RecErase recR recP) :
    RecErase (FormatYBody32 G P (FormatYRecord recR)) (FormatYBody32 G P recP) := by
  intro c cp pp b S m V O
  unfold FormatYBody32
  dsimp only
  split_ifs
  · exact ⟨m, rfl⟩
  · have h1 : (withRows S m).NodeInfoMap = S.NodeInfoMap := rfl
    have h2 : (withRows S m).Infos = S.Infos := rfl
    rw [h1, h2, FormatYCollision32_withRows]
    exact FormatYBody32_erase_tail G P recR recP hrec c cp pp b m _
      { F := (FormatYCollision32 G P c V 100 S).1, VisitedNodes := setAdd V c, OutChildren := O,
        bFirstPin := true, LastLinked := none, ChildBranches := [] }

/-- The observed `FormatY` in binary32 places the nodes, visits and gathers
the children as `FormatY` in binary32 does; only the row mapping, which holds
the record, differs. -/
theorem FormatYRecorded32_erase (G : FBAGraph) (P : FVector2D) :
    ∀ fuel : Nat, RecErase (FormatYRecorded32 G P fuel) (FormatY32 G P fuel) := by
  intro fuel
  induction fuel with
  | zero => intro c cp pp b S m V O; exact ⟨m, rfl⟩
  | succ n ih => exact FormatYBody32_erase G P _ _ ih

/-! ## Same-row alignment at the end of `FormatY` -/

theorem GetPinY_withRows (G : FBAGraph) (S : FEdGraphParameterFormatter) (m : List (FPinLink × Bool))
    (p : Nat) : GetPinY G (withRows S m) p = GetPinY G S p := rfl

/-- When the centering of branches cannot run, on a graph whose pins are
owned by the nodes that list them: at the end of `FormatY` in exact
arithmetic, the pins of every pair passed with `bSameRow = true` whose
parent-side pin is the first linked pin of its node are level. -/
theorem FormatY_level (G : FBAGraph) (hwf : PinsOwned G) (hcen : CenteringIdle G)
    (F : FEdGraphParameterFormatter)
    (p q : Nat) (hpq : (p, q) ∈ FormatYRows G F) (hg : FirstLinkedPin G p = true) :
    GetPinY G (FormatY G (G.Pins.length + 2) (F.RootNode.getD 0) none none false (F, [], [])).1 p
      = GetPinY G (FormatY G (G.Pins.length + 2) (F.RootNode.getD 0) none none false (F, [], [])).1 q := by
  have h := FormatYRecorded_level G hwf hcen F p q hpq hg
  obtain ⟨m', hm⟩ := FormatYRecorded_erase G (G.Pins.length + 2) (F.RootNode.getD 0) none none false
    F [] [] []
  have e : FormatYRecorded G (G.Pins.length + 2) (F.RootNode.getD 0) none none false
      ({ F with SameRowMapping := [] }, [], [])
      = (withRows (FormatY G (G.Pins.length + 2) (F.RootNode.getD 0) none none false (F, [], [])).1 m',
        (FormatY G (G.Pins.length + 2) (F.RootNode.getD 0) none none false (F, [], [])).2) := hm
  rw [e] at h
  exact h

/-- The links that `ProcessSameRowMapping` marks on the formatter `S0` join
the pairs for which `FormatY` in binary32 passes `bSameRow = true` on a
formatter `F` that has the tree of `S0`. -/
theorem FormatYRows32_marked (G : FBAGraph) (Padding : FVector2D) (F S0 : FEdGraphParameterFormatter)
    (r : Nat) (hr : S0.RootNode = some r)
    (hC : ∀ n, ∀ c ∈ SameRowChildren S0 n, c = r ∨ c ∉ S0.IgnoredNodes) (hT : SameTree S0 F)
    (p q : Nat) :
    RowMarked G (FormatNodeRows G S0).SameRowMapping p q
      ↔ ((p, q) ∈ FormatYRows32 G Padding F ∨ (q, p) ∈ FormatYRows32 G Padding F) := by
  have hT' : SameTree S0 { F with SameRowMapping := [] } := hT
  have hsim := FormatYRecorded_rows G S0 r hC (G.Pins.length + 2) r none none false
    { F with SameRowMapping := [] } [] [] [] hT' (RowsAgree_nil G) (Or.inl rfl)
  have hroot : F.RootNode.getD 0 = r := by
    rw [hT.1, hr]
    rfl
  have hM : (FormatNodeRows G S0).SameRowMapping
      = (ProcessSameRowMapping G S0 (G.Pins.length + 2) r none none ([], [])).1 := by
    unfold FormatNodeRows
    simp only [hr, Option.getD_some]
  rw [FormatYRows32_eq, hM]
  unfold FormatYRows
  rw [hroot]
  exact hsim.2.2.1 p q

set_option maxRecDepth 100000 in
theorem FormatYRows32_pushGraph :
    (2, 4) ∈ FormatYRows32 pushGraph exPadding (rowStart pushGraph [])
      ∧ FirstLinkedPin pushGraph 2 = true := by
  decide

set_option maxRecDepth 100000 in
theorem FormatY32_exact_pushGraph :
    (FormatY32 pushGraph exPadding (pushGraph.Pins.length + 2) ((rowStart pushGraph []).RootNode.getD 0)
        none none false (rowStart pushGraph [], [], [])).1.NodePosY (pushGraph.OwningNode 2)
      = (FormatY pushGraph (pushGraph.Pins.length + 2) ((rowStart pushGraph []).RootNode.getD 0)
        none none false (rowStart pushGraph [], [], [])).1.NodePosY (pushGraph.OwningNode 2)
    ∧ (FormatY32 pushGraph exPadding (pushGraph.Pins.length + 2) ((rowStart pushGraph []).RootNode.getD 0)
        none none false (rowStart pushGraph [], [], [])).1.NodePosY (pushGraph.OwningNode 4)
      = (FormatY pushGraph (pushGraph.Pins.length + 2) ((rowStart pushGraph []).RootNode.getD 0)
        none none false (rowStart pushGraph [], [], [])).1.NodePosY (pushGraph.OwningNode 4) := by
  decide

set_option maxRecDepth 100000 in
theorem FormatYRows32_wideRowGraph :
    wideRowGraph.Settings.bCenterBranchesForParameters = true
      ∧ (2, 4) ∈ FormatYRows32 wideRowGraph exPadding (rowStart wideRowGraph [])
      ∧ FirstLinkedPin wideRowGraph 2 = true := by
  decide

set_option maxRecDepth 100000 in
theorem FormatY32_exact_wideRowGraph :
    (FormatY32 wideRowGraph exPadding (wideRowGraph.Pins.length + 2)
        ((rowStart wideRowGraph []).RootNode.getD 0)
        none none false (rowStart wideRowGraph [], [], [])).1.NodePosY (wideRowGraph.OwningNode 2)
      = (FormatY wideRowGraph (wideRowGraph.Pins.length + 2) ((rowStart wideRowGraph []).RootNode.getD 0)
        none none false (rowStart wideRowGraph [], [], [])).1.NodePosY (wideRowGraph.OwningNode 2)
    ∧ (FormatY32 wideRowGraph exPadding (wideRowGraph.Pins.length + 2)
        ((rowStart wideRowGraph []).RootNode.getD 0)
        none none false (rowStart wideRowGraph [], [], [])).1.NodePosY (wideRowGraph.OwningNode 4)
      = (FormatY wideRowGraph (wideRowGraph.Pins.length + 2) ((rowStart wideRowGraph []).RootNode.getD 0)
        none none false (rowStart wideRowGraph [], [], [])).1.NodePosY (wideRowGraph.OwningNode 4) := by
  decide

set_option maxRecDepth 100000 in
/-- On `pushGraph` (the centering cannot run) with P (node 2) ignored, the run in
binary32 from `exPosX`, `exPosY` marks the link between the input pin 3 of N
and the output pin 5 of Q as same-row and `FormatY` passes `bSameRow = true`
for it; pin 3 is not the first linked pin of N (pin 2, linked to the ignored
P, is listed before it), the two nodes are where exact arithmetic leaves them,
and after `FormatY`, as at the end of `FormatNode`, pin 3 is at height 160 and
pin 5 at height 164: the branch of Q was pushed below the pin to avoid. -/
theorem FormatNode32_pushGraph_apart :
    CenteringIdle pushGraph
      ∧ (rowStart pushGraph [2]).SameRowMapping.any (fun e => e.1.same (mkLink pushGraph 3 5) && e.2) = true
      ∧ (rowStart pushGraph [2]).bFormatWithHelixing = false
      ∧ (3, 5) ∈ FormatYRows32 pushGraph exPadding (rowStart pushGraph [2])
      ∧ FirstLinkedPin pushGraph 3 = false
      ∧ (FormatY32 pushGraph exPadding (pushGraph.Pins.length + 2) 0 none none false
            (rowStart pushGraph [2], [], [])).1.NodePosY 1
          = (FormatY pushGraph (pushGraph.Pins.length + 2) 0 none none false
            (rowStart pushGraph [2], [], [])).1.NodePosY 1
      ∧ (FormatY32 pushGraph exPadding (pushGraph.Pins.length + 2) 0 none none false
            (rowStart pushGraph [2], [], [])).1.NodePosY 3
          = (FormatY pushGraph (pushGraph.Pins.length + 2) 0 none none false
            (rowStart pushGraph [2], [], [])).1.NodePosY 3
      ∧ GetPinY pushGraph (FormatY32 pushGraph exPadding (pushGraph.Pins.length + 2) 0 none none false
          (rowStart pushGraph [2], [], [])).1 3 = 160
      ∧ GetPinY pushGraph (FormatY32 pushGraph exPadding (pushGraph.Pins.length + 2) 0 none none false
          (rowStart pushGraph [2], [], [])).1 5 = 164
      ∧ GetPinY pushGraph (FormatNode32 pushGraph exPadding
          (FEdGraphParameterFormatter.new (some 0) none [2] exPosX exPosY)) 3 = 160
      ∧ GetPinY pushGraph (FormatNode32 pushGraph exPadding
          (FEdGraphParameterFormatter.new (some 0) none [2] exPosX exPosY)) 5 = 164
      ∧ GetPinY pushGraph (FormatNode pushGraph
          (FEdGraphParameterFormatter.new (some 0) none [2] exPosX exPosY)) 3 = 160
      ∧ GetPinY pushGraph (FormatNode pushGraph
          (FEdGraphParameterFormatter.new (some 0) none [2] exPosX exPosY)) 5 = 164 := by
  decide

set_option maxRecDepth 100000 in
/-- On `rowGraph` (centering from two branches, N has two input links) the run in binary32 from
`exPosX`, `exPosY` marks the link between the input pin 2 of N and the output
pin 4 of P as same-row and `FormatY` passes `bSameRow = true` for it; pin 2
is the first linked pin of N, the two nodes are where exact arithmetic leaves
them, and after `FormatY`, as at the end of `FormatNode`, pin 2 is at height
140 and pin 4 at height 107: the centering of the branches of N moved P after
P was aligned. -/
theorem FormatNode32_rowGraph_apart :
    ¬ CenteringIdle rowGraph
      ∧ (rowStart rowGraph []).SameRowMapping.any (fun e => e.1.same (mkLink rowGraph 2 4) && e.2) = true
      ∧ (rowStart rowGraph []).bFormatWithHelixing = false
      ∧ (2, 4) ∈ FormatYRows32 rowGraph exPadding (rowStart rowGraph [])
      ∧ FirstLinkedPin rowGraph 2 = true
      ∧ (FormatY32 rowGraph exPadding (rowGraph.Pins.length + 2) 0 none none false
            (rowStart rowGraph [], [], [])).1.NodePosY 1
          = (FormatY rowGraph (rowGraph.Pins.length + 2) 0 none none false
            (rowStart rowGraph [], [], [])).1.NodePosY 1
      ∧ (FormatY32 rowGraph exPadding (rowGraph.Pins.length + 2) 0 none none false
            (rowStart rowGraph [], [], [])).1.NodePosY 2
          = (FormatY rowGraph (rowGraph.Pins.length + 2) 0 none none false
            (rowStart rowGraph [], [], [])).1.NodePosY 2
      ∧ GetPinY rowGraph (FormatY32 rowGraph exPadding (rowGraph.Pins.length + 2) 0 none none false
          (rowStart rowGraph [], [], [])).1 2 = 140
      ∧ GetPinY rowGraph (FormatY32 rowGraph exPadding (rowGraph.Pins.length + 2) 0 none none false
          (rowStart rowGraph [], [], [])).1 4 = 107
      ∧ GetPinY rowGraph (FormatNode32 rowGraph exPadding
          (FEdGraphParameterFormatter.new (some 0) none [] exPosX exPosY)) 2 = 140
      ∧ GetPinY rowGraph (FormatNode32 rowGraph exPadding
          (FEdGraphParameterFormatter.new (some 0) none [] exPosX exPosY)) 4 = 107
      ∧ GetPinY rowGraph (FormatNode rowGraph
          (FEdGraphParameterFormatter.new (some 0) none [] exPosX exPosY)) 2 = 140
      ∧ GetPinY rowGraph (FormatNode rowGraph
          (FEdGraphParameterFormatter.new (some 0) none [] exPosX exPosY)) 4 = 107 := by
  decide

end BlueprintAssist
